import Mathlib

/-!
# Edge slide (`transform_mode_edge_slide.cc`): apply engine and snap adapter

A shallow embedding of the edge-slide transform mode.  C `float` values are
rationals (every finite float is a rational number) and, except in the
definitions named `_f32`, every operation on them is taken as exact: those
definitions repeat the apply engine and the snap adapter with every operation
rounded to binary32.  `float[3]` is the structure `V3`, pointers to mesh
vertices are indices into the vertex table of the container's mesh, and a
null pointer is `none`.
-/

namespace EdgeSlide

/-! ## Vectors and the math helpers used by the mode -/

/-- Three floats, the C type `float[3]`. -/
@[ext] structure V3 where
  x : ℚ
  y : ℚ
  z : ℚ
  deriving DecidableEq

/-- The constant `FLT_EPSILON` of `<cfloat>`: 2^-23. -/
def FLT_EPSILON : ℚ := 1 / 8388608

/-- Modelled from the spec: `zero_v3` of BLI math (outside the reviewed source), the zero vector. -/
def zero_v3 : V3 := ⟨0, 0, 0⟩

/-- Modelled from the spec: `add_v3_v3v3` of BLI math, component-wise sum. -/
def add_v3_v3v3 (a b : V3) : V3 := ⟨a.x + b.x, a.y + b.y, a.z + b.z⟩

/-- Modelled from the spec: `sub_v3_v3v3` of BLI math, component-wise difference. -/
def sub_v3_v3v3 (a b : V3) : V3 := ⟨a.x - b.x, a.y - b.y, a.z - b.z⟩

/-- Modelled from the spec: `madd_v3_v3fl` of BLI math, `r += a * f`. -/
def madd_v3_v3fl (r a : V3) (f : ℚ) : V3 := ⟨r.x + a.x * f, r.y + a.y * f, r.z + a.z * f⟩

/-- Modelled from the spec: `dot_v3v3` of BLI math. -/
def dot_v3v3 (a b : V3) : ℚ := a.x * b.x + a.y * b.y + a.z * b.z

/-- Modelled from the spec: `len_squared_v3` of BLI math. -/
def len_squared_v3 (a : V3) : ℚ := dot_v3v3 a a

/-- Modelled from the spec: `len_squared_v3v3` of BLI math, squared distance of two points. -/
def len_squared_v3v3 (a b : V3) : ℚ := len_squared_v3 (sub_v3_v3v3 b a)

/-- Modelled from the spec: `is_zero_v3` of BLI math, all three components are zero. -/
def is_zero_v3 (a : V3) : Bool := decide (a.x = 0) && decide (a.y = 0) && decide (a.z = 0)

/-- Modelled from the spec: `min_ff` of BLI math. -/
def min_ff (a b : ℚ) : ℚ := if a < b then a else b

/-- Modelled from the spec: `fabsf` of `<cmath>`. -/
def fabsf (a : ℚ) : ℚ := if a < 0 then -a else a

/-- Modelled from the spec: `interp_v3_v3v3` of BLI math, `(1 - t) * a + t * b`. -/
def interp_v3_v3v3 (a b : V3) (t : ℚ) : V3 :=
  let s := 1 - t
  ⟨s * a.x + t * b.x, s * a.y + t * b.y, s * a.z + t * b.z⟩

/-- Modelled from the spec: `line_point_factor_v3` of BLI math: the factor of the
projection of `p` on the line `l1`-`l2` (0 at `l1`, 1 at `l2`), and 0 when the
two line points coincide. -/
def line_point_factor_v3 (p l1 l2 : V3) : ℚ :=
  let u := sub_v3_v3v3 l2 l1
  let h := sub_v3_v3v3 p l1
  let dot := len_squared_v3 u
  if dot > 0 then dot_v3v3 u h / dot else 0

/-- A 4x4 matrix `float[4][4]`, indexed `m i j` like the C array `m[i][j]`. -/
abbrev M4 := Fin 4 → Fin 4 → ℚ

/-- Modelled from the spec: `mul_m4_v3` of BLI math, the affine transform of a point. -/
def mul_m4_v3 (m : M4) (r : V3) : V3 :=
  ⟨r.x * m 0 0 + r.y * m 1 0 + m 2 0 * r.z + m 3 0,
   r.x * m 0 1 + r.y * m 1 1 + m 2 1 * r.z + m 3 1,
   r.x * m 0 2 + r.y * m 1 2 + m 2 2 * r.z + m 3 2⟩

/-! ## Data model -/

/-- The struct `TransDataEdgeSlideVert`: one record per sliding vertex.  `v` is
the index of the mesh vertex, `v_side` the optional neighbour vertices. -/
structure TransDataEdgeSlideVert where
  v : Nat
  v_co_orig : V3
  edge_len : ℚ
  v_side : Fin 2 → Option Nat
  dir_side : Fin 2 → V3
  loop_nr : Int

/-- The struct `EdgeSlideData`; `totsv` is the length of `sv`. -/
structure EdgeSlideData where
  sv : List TransDataEdgeSlideVert
  mval_start : Int × Int
  mval_end : Int × Int
  curr_sv_index : Nat

/-- The field `totsv` of `EdgeSlideData`. -/
def EdgeSlideData.totsv (sld : EdgeSlideData) : Nat := sld.sv.length

/-- The struct `EdgeSlideParams`. -/
structure EdgeSlideParams where
  perc : ℚ
  curr_side_unclamp : Fin 2
  use_even : Bool
  flipped : Bool
  deriving DecidableEq

/-! ## Apply engine -/

/-- The function `interp_line_v3_v3v3v3`: interpolates along a line made up of
the 2 segments `v1`-`v2` and `v2`-`v3`. -/
def interp_line_v3_v3v3v3 (v1 v2 v3 : V3) (t : ℚ) : V3 :=
  let t_mid := line_point_factor_v3 v2 v1 v3
  let t_delta := t - t_mid
  if t_delta < 0 then
    if fabsf t_mid < FLT_EPSILON then v2
    else interp_v3_v3v3 v1 v2 (t / t_mid)
  else
    let t1 := t - t_mid
    let t_mid1 := 1 - t_mid
    if fabsf t_mid1 < FLT_EPSILON then v3
    else interp_v3_v3v3 v2 v3 (t1 / t_mid1)

/-- The C conversion of a comparison result to an array index: `(fac < 0.0f)`. -/
def side_of_neg (fac : ℚ) : Fin 2 := if fac < 0 then 1 else 0

/-- The C expression `!side_index` on an index that is 0 or 1. -/
def side_not (i : Fin 2) : Fin 2 := if i = 0 then 1 else 0

/-- The function `edge_slide_apply_elem`; the result is the output `r_co`. -/
def edge_slide_apply_elem (sv : TransDataEdgeSlideVert) (fac curr_length_fac : ℚ)
    (curr_side_unclamp : Fin 2) (use_clamp use_even use_flip : Bool) : V3 :=
  let r_co := sv.v_co_orig
  if use_even = false then
    if use_clamp then
      let side_index := side_of_neg fac
      let fac_final := fabsf fac
      madd_v3_v3fl r_co (sv.dir_side side_index) fac_final
    else
      let side_index := curr_side_unclamp
      let side_index := if is_zero_v3 (sv.dir_side side_index) then side_not side_index
        else side_index
      let fac_final := if side_index = side_of_neg fac then fabsf fac else -fabsf fac
      madd_v3_v3fl r_co (sv.dir_side side_index) fac_final
  else
    if sv.edge_len > FLT_EPSILON then
      let fac_final := min_ff sv.edge_len curr_length_fac / sv.edge_len
      let co_a := add_v3_v3v3 sv.v_co_orig (sv.dir_side 0)
      let co_b := add_v3_v3v3 sv.v_co_orig (sv.dir_side 1)
      if use_flip then interp_line_v3_v3v3v3 co_b sv.v_co_orig co_a fac_final
      else interp_line_v3_v3v3v3 co_a sv.v_co_orig co_b fac_final
    else r_co

/-! ## Transform state -/

/-- The parts of `TransDataContainer` the mode reads and writes: the custom
data (null when the builder failed), the local matrix, and the positions
`v->co` of the vertices of the container's mesh, by vertex index. -/
structure TransDataContainer where
  custom_mode_data : Option EdgeSlideData
  use_local_mat : Bool
  mat : M4
  co : Nat → V3

/-- The parts of `TransSnap` read by the snap adapter: the snap point returned
by `getSnapPoint`, the snap source, and the `SCE_SNAP_TO_EDGE` and
`SCE_SNAP_TO_FACE` bits of `target_type`. -/
structure TransSnap where
  snap_target : V3
  snap_source : V3
  snap_to_edge : Bool
  snap_to_face : Bool

/-- The parts of `TransInfo` used by the mode: the `T_ALT_TRANSFORM` bit of
`flag`, the `EdgeSlideParams` in `custom.mode.data`, the data containers and
the snap state. -/
structure TransInfo where
  flag_alt_transform : Bool
  custom_mode_data : EdgeSlideParams
  data_container : List TransDataContainer
  tsnap : TransSnap

/-- Functions of the transform framework called by the snap adapter whose code
is outside the reviewed source; they are parameters of the embedding. -/
structure SnapExtern where
  normalize_v3 : V3 → V3
  transform_constraint_snap_axis_to_edge : TransInfo → V3 → V3
  transform_constraint_snap_axis_to_face : TransInfo → V3 → V3

/-- The function `edge_slide_container_first_ok`: the first container with
custom data; `none` is the null pointer returned after the failed assertion. -/
def edge_slide_container_first_ok (t : TransInfo) : Option TransDataContainer :=
  t.data_container.find? (fun tc => tc.custom_mode_data.isSome)

/-- The function `edgeSlideFirstGet`; `none` when it dereferences a null container. -/
def edgeSlideFirstGet (t : TransInfo) : Option EdgeSlideData :=
  match edge_slide_container_first_ok t with
  | none => none
  | some tc => tc.custom_mode_data

/-- The function `edge_slide_snap_apply`; the result is the new `*value`, and
`none` stands for a null or out-of-range dereference. -/
def edge_slide_snap_apply (ext : SnapExtern) (t : TransInfo) (value : ℚ) : Option ℚ :=
  match edge_slide_container_first_ok t with
  | none => none
  | some tc =>
    match tc.custom_mode_data with
    | none => none
    | some sld_active =>
      match sld_active.sv[sld_active.curr_sv_index]? with
      | none => none
      | some sv =>
        let slp := t.custom_mode_data
        let co_orig := sv.v_co_orig
        let co_dest0 := add_v3_v3v3 co_orig (sv.dir_side 0)
        let co_dest1 := add_v3_v3v3 co_orig (sv.dir_side 1)
        let co_orig := if tc.use_local_mat then mul_m4_v3 tc.mat co_orig else co_orig
        let co_dest0 := if tc.use_local_mat then mul_m4_v3 tc.mat co_dest0 else co_dest0
        let co_dest1 := if tc.use_local_mat then mul_m4_v3 tc.mat co_dest1 else co_dest1
        let co_dest : Fin 2 → V3 := fun i => if i = 0 then co_dest0 else co_dest1
        let dvec := sub_v3_v3v3 t.tsnap.snap_target t.tsnap.snap_source
        let snap_point := add_v3_v3v3 co_orig dvec
        let perc := value
        let t_mid : ℚ :=
          if slp.use_even = false then 0
          else line_point_factor_v3 zero_v3 (sv.dir_side 0) (sv.dir_side 1)
        let side_index : Fin 2 :=
          if slp.use_even = false then
            let is_clamp := !t.flag_alt_transform
            if is_clamp then side_of_neg perc else slp.curr_side_unclamp
          else
            let t_snap := line_point_factor_v3 snap_point co_dest0 co_dest1
            if t_snap ≥ t_mid then 1 else 0
        let snap_point :=
          if t.tsnap.snap_to_edge || t.tsnap.snap_to_face then
            let co_dir := ext.normalize_v3 (sub_v3_v3v3 (co_dest side_index) co_orig)
            let dvec :=
              if t.tsnap.snap_to_edge then ext.transform_constraint_snap_axis_to_edge t co_dir
              else ext.transform_constraint_snap_axis_to_face t co_dir
            add_v3_v3v3 co_orig dvec
          else snap_point
        let perc := line_point_factor_v3 snap_point co_orig (co_dest side_index)
        let perc :=
          if slp.use_even = false then
            if side_index ≠ 0 then perc * -1 else perc
          else
            let perc := if side_index = 0 then (1 - perc) * t_mid
              else perc * (1 - t_mid) + t_mid
            let perc := if slp.flipped then 1 - perc else perc
            let perc := 2 * perc - 1
            if !slp.flipped then perc * -1 else perc
        some perc

/-- The loop over one container's records in `doEdgeSlide`: every record
writes the result of `edge_slide_apply_elem` to `sv->v->co`. -/
def doEdgeSlide_container (perc curr_length_fac : ℚ) (curr_side_unclamp : Fin 2)
    (use_clamp use_even use_flip : Bool) (tc : TransDataContainer) : TransDataContainer :=
  match tc.custom_mode_data with
  | none => tc
  | some sld =>
    { tc with co := sld.sv.foldl (fun co sv => Function.update co sv.v
        (edge_slide_apply_elem sv perc curr_length_fac curr_side_unclamp
          use_clamp use_even use_flip)) tc.co }

/-- The function `doEdgeSlide`; `none` stands for a null or out-of-range dereference. -/
def doEdgeSlide (t : TransInfo) (perc : ℚ) : Option TransInfo :=
  match edgeSlideFirstGet t with
  | none => none
  | some sld_active =>
    let slp := { t.custom_mode_data with perc := perc }
    let use_clamp := !t.flag_alt_transform
    let use_even := slp.use_even
    let use_flip := slp.flipped
    let curr_side_unclamp := slp.curr_side_unclamp
    let curr_length_fac : Option ℚ :=
      if use_even then
        match sld_active.sv[sld_active.curr_sv_index]? with
        | none => none
        | some sv_active =>
          some (sv_active.edge_len * (((if use_flip then perc else -perc) + 1) / 2))
      else some 0
    match curr_length_fac with
    | none => none
    | some curr_length_fac =>
      let slp :=
        if use_even then slp
        else if use_clamp then { slp with curr_side_unclamp := side_of_neg perc }
        else slp
      some { t with
        custom_mode_data := slp
        data_container := t.data_container.map
          (doEdgeSlide_container perc curr_length_fac curr_side_unclamp
            use_clamp use_even use_flip) }

/-! ## Mesh model

The mesh (`BMesh`) is an arena: vertices, edges, loops and faces are numbered
and a pointer to one of them is its number.  The disk cycle of a vertex, which
`BM_EDGES_OF_VERT` walks starting at `v->e`, is kept as the list `disk`. -/

/-- The struct `BMVert`: position, the edge `e` where the disk cycle is entered
(null for a vertex without edges), the flag `BM_ELEM_SELECT`, and the edges of
its disk cycle in cycle order.  The flag `BM_ELEM_TAG`, which only the builders
use, is kept in their state. -/
structure BMVert where
  co : V3
  e : Option Nat
  select : Bool
  disk : List Nat

/-- The struct `BMEdge`: end vertices, the first loop of the radial cycle (null
for a wire edge) and the flag `BM_ELEM_SELECT`. -/
structure BMEdge where
  v1 : Nat
  v2 : Nat
  l : Option Nat
  select : Bool

/-- The struct `BMLoop`: a face corner with its vertex, edge and face, the next
loop of the radial cycle of its edge, and the next and previous corner of its face. -/
structure BMLoop where
  v : Nat
  e : Nat
  f : Nat
  radial_next : Nat
  next : Nat
  prev : Nat

/-- The struct `BMFace`: first loop, number of corners and normal. -/
structure BMFace where
  l_first : Nat
  len : Nat
  no : V3

/-- The struct `BMesh`: element counts and the element tables. -/
structure BMesh where
  totvert : Nat
  totedge : Nat
  totloop : Nat
  totface : Nat
  vert : Nat → BMVert
  edge : Nat → BMEdge
  loop : Nat → BMLoop
  face : Nat → BMFace

/-- Modelled from the spec: the iterator `BM_EDGES_OF_VERT` of the mesh library
(outside the reviewed source): the edges of the disk cycle of `v`, starting at
`v->e`; nothing when `v->e` is null. -/
def BM_EDGES_OF_VERT (bm : BMesh) (v : Nat) : List Nat :=
  match (bm.vert v).e with
  | none => []
  | some e => (bm.vert v).disk.rotate ((bm.vert v).disk.indexOf e)

/-- Modelled from the spec: `BM_edge_other_vert` of the mesh library: the other
end of `e`, null when `v` is not an end of `e`. -/
def BM_edge_other_vert (bm : BMesh) (e v : Nat) : Option Nat :=
  if (bm.edge e).v1 = v then some (bm.edge e).v2
  else if (bm.edge e).v2 = v then some (bm.edge e).v1
  else none

/-- Modelled from the spec: `BM_edge_is_manifold` of the mesh library: the edge
has exactly two faces. -/
def BM_edge_is_manifold (bm : BMesh) (e : Nat) : Bool :=
  match (bm.edge e).l with
  | none => false
  | some l =>
    decide ((bm.loop l).radial_next ≠ l) &&
      decide ((bm.loop (bm.loop l).radial_next).radial_next = l)

/-- Modelled from the spec: `BM_edge_is_boundary` of the mesh library: the edge
has exactly one face. -/
def BM_edge_is_boundary (bm : BMesh) (e : Nat) : Bool :=
  match (bm.edge e).l with
  | none => false
  | some l => decide ((bm.loop l).radial_next = l)

/-- Modelled from the spec: `BM_vert_edge_count_nonwire` of the mesh library:
the number of edges at `v` that have a face. -/
def BM_vert_edge_count_nonwire (bm : BMesh) (v : Nat) : Nat :=
  ((BM_EDGES_OF_VERT bm v).filter (fun e => (bm.edge e).l.isSome)).length

/-- Modelled from the spec: `BM_loop_other_edge_loop` of the mesh library: for a
loop `l` whose edge contains `v`, the loop of the same face on the other edge
of that face at `v`; null when `v` is not on the edge of `l`. -/
def BM_loop_other_edge_loop (bm : BMesh) (l v : Nat) : Option Nat :=
  match BM_edge_other_vert bm (bm.loop l).e v with
  | none => none
  | some v_prev =>
    if (bm.loop l).v = v then
      if (bm.loop (bm.loop l).prev).v = v_prev then some (bm.loop l).next
      else some (bm.loop l).prev
    else
      if (bm.loop (bm.loop l).prev).v = v then some (bm.loop l).prev
      else some (bm.loop l).next

/-- Modelled from the spec: `BM_face_vert_share_loop` of the mesh library: the
corner of face `f` at vertex `v`, null when there is none.  The walk over the
corners starts at `l_iter` and takes at most `fuel` steps. -/
def BM_face_vert_share_loop_from (bm : BMesh) (l_first v : Nat) : Nat → Nat → Option Nat
  | 0, _ => none
  | fuel + 1, l_iter =>
    if (bm.loop l_iter).v = v then some l_iter
    else if (bm.loop l_iter).next = l_first then none
    else BM_face_vert_share_loop_from bm l_first v fuel (bm.loop l_iter).next

/-- Modelled from the spec: `BM_face_vert_share_loop` of the mesh library. -/
def BM_face_vert_share_loop (bm : BMesh) (f v : Nat) : Option Nat :=
  BM_face_vert_share_loop_from bm (bm.face f).l_first v (bm.face f).len (bm.face f).l_first

/-! ## More vector helpers -/

/-- The constant `FLT_MAX` of `<cfloat>`: (2 - 2^-23) * 2^127. -/
def FLT_MAX : ℚ := (2 - 1 / 8388608) * 2 ^ 127

/-- Modelled from the spec: `cross_v3_v3v3` of BLI math. -/
def cross_v3_v3v3 (a b : V3) : V3 :=
  ⟨a.y * b.z - a.z * b.y, a.z * b.x - a.x * b.z, a.x * b.y - a.y * b.x⟩

/-- Modelled from the spec: `mul_v3_v3fl` of BLI math. -/
def mul_v3_v3fl (a : V3) (f : ℚ) : V3 := ⟨a.x * f, a.y * f, a.z * f⟩

/-- Modelled from the spec: `len_v3v3` of BLI math, with the square root function as parameter. -/
def len_v3v3 (sqrtf : ℚ → ℚ) (a b : V3) : ℚ := sqrtf (len_squared_v3 (sub_v3_v3v3 b a))

/-- Modelled from the spec: `normalize_v3_v3_length` of BLI math: the vector
rescaled to the length `unit_length`, together with its former length; a vector
shorter than machine epsilon gives the zero vector and the length 0. -/
def normalize_v3_v3_length (sqrtf : ℚ → ℚ) (a : V3) (unit_length : ℚ) : V3 × ℚ :=
  let d := dot_v3v3 a a
  if d ≥ FLT_EPSILON * FLT_EPSILON then
    let d := sqrtf d
    (mul_v3_v3fl a (unit_length / d), d)
  else (zero_v3, 0)

/-- Modelled from the spec: `normalize_v3_length` of BLI math. -/
def normalize_v3_length (sqrtf : ℚ → ℚ) (n : V3) (unit_length : ℚ) : V3 :=
  (normalize_v3_v3_length sqrtf n unit_length).1

/-- Modelled from the spec: `normalize_v3` of BLI math: the unit vector and the former length. -/
def normalize_v3 (sqrtf : ℚ → ℚ) (n : V3) : V3 × ℚ := normalize_v3_v3_length sqrtf n 1

/-- Modelled from the spec: `isect_line_plane_v3` of BLI math: the point where
the line `l1`-`l2` meets the plane through `plane_co` with normal `plane_no`;
null when the line is parallel to the plane. -/
def isect_line_plane_v3 (l1 l2 plane_co plane_no : V3) : Option V3 :=
  let u := sub_v3_v3v3 l2 l1
  let h := sub_v3_v3v3 l1 plane_co
  let dot := dot_v3v3 plane_no u
  if fabsf dot > FLT_EPSILON then
    let lambda := -dot_v3v3 plane_no h / dot
    some (madd_v3_v3fl l1 u lambda)
  else none

/-- Modelled from the spec: `BM_edge_calc_length` of the mesh library. -/
def BM_edge_calc_length (sqrtf : ℚ → ℚ) (bm : BMesh) (e : Nat) : ℚ :=
  len_v3v3 sqrtf (bm.vert (bm.edge e).v1).co (bm.vert (bm.edge e).v2).co

/-- Modelled from the spec: `BM_loop_calc_face_direction` of the mesh library:
the normalized sum of the unit vectors along the two face edges at the corner. -/
def BM_loop_calc_face_direction (sqrtf : ℚ → ℚ) (bm : BMesh) (l : Nat) : V3 :=
  let v_prev := sub_v3_v3v3 (bm.vert (bm.loop l).v).co (bm.vert (bm.loop (bm.loop l).prev).v).co
  let v_next := sub_v3_v3v3 (bm.vert (bm.loop (bm.loop l).next).v).co (bm.vert (bm.loop l).v).co
  let v_prev := (normalize_v3 sqrtf v_prev).1
  let v_next := (normalize_v3 sqrtf v_next).1
  (normalize_v3 sqrtf (add_v3_v3v3 v_prev v_next)).1

/-! ## Rail direction solver -/

/-- The function `get_other_edge`: the first selected edge at `v` other than `e`. -/
def get_other_edge (bm : BMesh) (v e : Nat) : Option Nat :=
  (BM_EDGES_OF_VERT bm v).find? (fun e_iter => (bm.edge e_iter).select && decide (e_iter ≠ e))

/-- The do-while loop of `bm_loop_calc_opposite_co`, from the loop `l_iter`
with the closest point found so far (`r_co`, `dist`, `found`). -/
def bm_loop_calc_opposite_co_loop (sqrtf : ℚ → ℚ) (bm : BMesh) (l_tmp l_last : Nat)
    (plane_no : V3) : Nat → Nat → V3 → ℚ → Bool → Option (V3 × Bool)
  | 0, _, _, _, _ => none
  | fuel + 1, l_iter, r_co, dist, found =>
    let co_tmp := (bm.vert (bm.loop l_tmp).v).co
    let co_a := (bm.vert (bm.loop l_iter).v).co
    let co_b := (bm.vert (bm.loop (bm.loop l_iter).next).v).co
    let upd : V3 × ℚ × Bool :=
      match isect_line_plane_v3 co_a co_b co_tmp plane_no with
      | some tvec =>
        let fac := line_point_factor_v3 tvec co_a co_b
        if fac > -FLT_EPSILON ∧ fac < 1 + FLT_EPSILON then
          let tdist := len_v3v3 sqrtf co_tmp tvec
          if tdist < dist then (tvec, tdist, true) else (r_co, dist, found)
        else (r_co, dist, found)
      | none => (r_co, dist, found)
    if (bm.loop l_iter).next ≠ l_last then
      bm_loop_calc_opposite_co_loop sqrtf bm l_tmp l_last plane_no fuel (bm.loop l_iter).next
        upd.1 upd.2.1 upd.2.2
    else some (upd.1, upd.2.2)

/-- The function `bm_loop_calc_opposite_co`: the closest point of the ngon on the
opposite side, with the `found` flag; the output `r_co` is `tvec_in` when nothing
is found.  The outer `none` means the walk over the corners did not end within `fuel` steps. -/
def bm_loop_calc_opposite_co (sqrtf : ℚ → ℚ) (bm : BMesh) (fuel : Nat) (l_tmp : Nat)
    (plane_no tvec_in : V3) : Option (V3 × Bool) :=
  let l_first := (bm.loop l_tmp).next
  let l_last := (bm.loop l_tmp).prev
  bm_loop_calc_opposite_co_loop sqrtf bm l_tmp l_last plane_no fuel l_first tvec_in FLT_MAX false

/-- The direction that `get_next_loop` takes from the face when it meets `e_next`
without having crossed an edge (`i == 0`): the diagonal of a quad, else the
cross product of face normal and face tangent, rescaled to the distance of the
opposite side of the ngon. -/
def get_next_loop_face_dir (sqrtf : ℚ → ℚ) (bm : BMesh) (fuel : Nat) (v l_first e_prev e_next : Nat) :
    Option V3 :=
  match BM_face_vert_share_loop bm (bm.loop l_first).f v with
  | none => none
  | some l_tmp =>
    if (bm.face (bm.loop l_tmp).f).len = 4 then
      some (sub_v3_v3v3 (bm.vert (bm.loop (bm.loop (bm.loop l_tmp).next).next).v).co (bm.vert v).co)
    else
      let tdir := BM_loop_calc_face_direction sqrtf bm l_tmp
      let vec_accum := cross_v3_v3v3 (bm.face (bm.loop l_tmp).f).no tdir
      match bm_loop_calc_opposite_co sqrtf bm fuel l_tmp tdir zero_v3 with
      | none => none
      | some (tvec, found) =>
        let dist :=
          if found then len_v3v3 sqrtf (bm.vert (bm.loop l_tmp).v).co tvec
          else (BM_edge_calc_length sqrtf bm e_prev + BM_edge_calc_length sqrtf bm e_next) / 2
        some (normalize_v3_length sqrtf vec_accum dist)

/-- The do-while loop of `get_next_loop`, entered with the loop `l`, the
accumulated direction and length and the count `i`.  The result is the returned
loop (null when `e_next` is not reached) and `r_slide_vec`; `none` stands for a
null dereference or for a walk that did not end within `fuel` steps. -/
def get_next_loop_loop (sqrtf : ℚ → ℚ) (bm : BMesh) (v l_first e_prev e_next : Nat) :
    Nat → Nat → V3 → ℚ → Nat → Option (Option Nat × V3)
  | 0, _, _, _, _ => none
  | fuel + 1, l, vec_accum, vec_accum_len, i =>
    match BM_loop_other_edge_loop bm l v with
    | none => none
    | some l =>
      if (bm.loop l).e = e_next then
        if i ≠ 0 then
          some (some l, normalize_v3_length sqrtf vec_accum (vec_accum_len / (i : ℚ)))
        else
          match get_next_loop_face_dir sqrtf bm bm.totloop v l_first e_prev e_next with
          | none => none
          | some vec_accum => some (some l, vec_accum)
      else
        match BM_edge_other_vert bm (bm.loop l).e v with
        | none => none
        | some v_other =>
          let tvec := normalize_v3 sqrtf (sub_v3_v3v3 (bm.vert v_other).co (bm.vert v).co)
          let vec_accum_len := vec_accum_len + tvec.2
          let vec_accum := add_v3_v3v3 vec_accum tvec.1
          let i := i + 1
          match BM_loop_other_edge_loop bm l v with
          | none => none
          | some l_other =>
            if (bm.loop l_other).e = e_next then
              some (some l_other,
                if i ≠ 0 then normalize_v3_length sqrtf vec_accum (vec_accum_len / (i : ℚ))
                else vec_accum)
            else if l ≠ (bm.loop l).radial_next ∧ (bm.loop l).radial_next ≠ l_first then
              get_next_loop_loop sqrtf bm v l_first e_prev e_next fuel (bm.loop l).radial_next
                vec_accum vec_accum_len i
            else
              some (none,
                if i ≠ 0 then normalize_v3_length sqrtf vec_accum (vec_accum_len / (i : ℚ))
                else vec_accum)

/-- The function `get_next_loop`: given 2 edges and a loop, step over the loops
around `v` and calculate a direction to slide along. -/
def get_next_loop (sqrtf : ℚ → ℚ) (bm : BMesh) (fuel : Nat) (v l e_prev e_next : Nat) :
    Option (Option Nat × V3) :=
  get_next_loop_loop sqrtf bm v l e_prev e_next fuel l zero_v3 0 0

/-! ## Double-sided builder -/

/-- The mark `INDEX_UNSET` of `sv_table`. -/
def INDEX_UNSET : Int := -1

/-- The mark `INDEX_INVALID` of `sv_table`. -/
def INDEX_INVALID : Int := -2

/-- A record of the zero-initialised array `sv_array` (`MEM_callocN`). -/
def sv_calloc : TransDataEdgeSlideVert where
  v := 0
  v_co_orig := zero_v3
  edge_len := 0
  v_side := fun _ => none
  dir_side := fun _ => zero_v3
  loop_nr := 0

/-- The variables of `createEdgeSlideVerts_double_side` that live across the
passes of its outer loop: the mesh (with `v->e` as set by the validation), the
`BM_ELEM_TAG` flags of the vertices, `sv_table` and the stack `sv_array`
(its `STACK_SIZE` is the length of the list). -/
structure DoubleSideState where
  bm : BMesh
  tag : Nat → Bool
  sv_table : Nat → Int
  sv_array : List TransDataEdgeSlideVert

/-- The assignments `v->e = e` of the validation for the selected edges at `v`:
after the loop over its edges `v->e` is the last selected one, `last`, and is
unchanged when there is none. -/
def double_side_set_vert_e (bm : BMesh) (v : Nat) (last : Option Nat) : BMesh :=
  match last with
  | none => bm
  | some e => { bm with vert := Function.update bm.vert v { bm.vert v with e := some e } }

/-- The first loop of the validation in `createEdgeSlideVerts_double_side`, over
the vertices `vs` in mesh order: every selected vertex gets `v->e` set to its
last selected edge; `none` when a selected vertex has 0 or more than 2 selected edges. -/
def double_side_check_verts : BMesh → List Nat → Option BMesh
  | bm, [] => some bm
  | bm, v :: vs =>
    if (bm.vert v).select then
      let sel := (BM_EDGES_OF_VERT bm v).filter (fun e => (bm.edge e).select)
      let bm1 := double_side_set_vert_e bm v sel.getLast?
      let numsel := sel.length
      if numsel = 0 ∨ numsel > 2 then none
      else double_side_check_verts bm1 vs
    else double_side_check_verts bm vs

/-- The second loop of the validation: every selected edge is manifold or boundary. -/
def double_side_check_edges (bm : BMesh) : Bool :=
  (List.range bm.totedge).all (fun e =>
    !(bm.edge e).select || BM_edge_is_manifold bm e || BM_edge_is_boundary bm e)

/-- The number `j` of selected vertices counted while `sv_table` is filled. -/
def double_side_count_sel (bm : BMesh) : Nat :=
  ((List.range bm.totvert).filter (fun v => (bm.vert v).select)).length

/-- The macro `EDGESLIDE_VERT_IS_INNER`. -/
def EDGESLIDE_VERT_IS_INNER (bm : BMesh) (v e_dir : Nat) : Bool :=
  (BM_edge_is_boundary bm e_dir == false) && (BM_vert_edge_count_nonwire bm v == 2)

/-- The macro `SV_FROM_VERT`: the index of the record of `v`, pushed on the
stack when `sv_table` has none yet. -/
def SV_FROM_VERT (st : DoubleSideState) (v : Nat) : DoubleSideState × Int :=
  if st.sv_table v = INDEX_UNSET then
    ({ st with
        sv_table := Function.update st.sv_table v (st.sv_array.length : Int)
        sv_array := st.sv_array ++ [sv_calloc] },
      (st.sv_array.length : Int))
  else (st, st.sv_table v)

/-- A write through the pointer `&sv_array[idx]`; `none` when the index is outside the stack. -/
def sv_write (st : DoubleSideState) (idx : Int)
    (f : TransDataEdgeSlideVert → TransDataEdgeSlideVert) : Option DoubleSideState :=
  if 0 ≤ idx ∧ idx.toNat < st.sv_array.length then
    some { st with sv_array := st.sv_array.modify f idx.toNat }
  else none

/-- The rail of a vertex without a next selected edge, on the side of loop `l`
(lines 672-678 and 760-767): `get_next_loop` towards the other face edge when the
vertex is inner, else the vector along that edge.  The result is the vertex at
the other end of that edge (`v_side`) and the direction. -/
def double_side_end_rail (sqrtf : ℚ → ℚ) (bm : BMesh) (fuel : Nat) (v l e : Nat) :
    Option (Option Nat × V3) :=
  match BM_loop_other_edge_loop bm l v with
  | none => none
  | some l_tmp =>
    let v_side := BM_edge_other_vert bm (bm.loop l_tmp).e v
    if EDGESLIDE_VERT_IS_INNER bm v (bm.loop l_tmp).e then
      match get_next_loop sqrtf bm fuel v l e (bm.loop l_tmp).e with
      | none => none
      | some r => some (v_side, r.2)
    else
      match v_side with
      | none => none
      | some v_other => some (v_side, sub_v3_v3v3 (bm.vert v_other).co (bm.vert v).co)

/-- The first rail of the start vertex on the side of loop `l` (lines 666-697). -/
def double_side_start_rail (sqrtf : ℚ → ℚ) (bm : BMesh) (fuel : Nat) (v l e : Nat) : Option V3 :=
  match get_other_edge bm v e with
  | some e_next =>
    match get_next_loop sqrtf bm fuel v l e e_next with
    | none => none
    | some r => some r.2
  | none =>
    match double_side_end_rail sqrtf bm fuel v l e with
    | none => none
    | some r => some r.2

/-- The variables of the forward walk of `createEdgeSlideVerts_double_side`. -/
structure DoubleSideWalk where
  st : DoubleSideState
  v : Nat
  e : Nat
  l_a : Option Nat
  l_b : Option Nat
  l_a_prev : Option Nat
  l_b_prev : Option Nat
  vec_a : V3
  vec_b : V3

/-- The write of `v_side[side]` and `dir_side[side]` of a record (lines 731-741),
done when the loop of that side or the previous one is not null. -/
def double_side_set_side (bm : BMesh) (st : DoubleSideState) (idx : Int) (side : Fin 2) (v : Nat)
    (l l_prev : Option Nat) (vec : V3) : Option DoubleSideState :=
  match (if l.isSome then l else l_prev) with
  | none => some st
  | some l0 =>
    match BM_loop_other_edge_loop bm l0 v with
    | none => none
    | some l_tmp =>
      sv_write st idx (fun sv =>
        { sv with
          v_side := Function.update sv.v_side side (BM_edge_other_vert bm (bm.loop l_tmp).e v)
          dir_side := Function.update sv.dir_side side vec })

/-- The record of the last vertex of an open chain (lines 749-785), on one side. -/
def double_side_end_side (sqrtf : ℚ → ℚ) (bm : BMesh) (fuel : Nat) (st : DoubleSideState)
    (idx : Int) (side : Fin 2) (v : Nat) (l : Option Nat) (e_prev : Nat) :
    Option DoubleSideState :=
  match l with
  | none => some st
  | some l =>
    match double_side_end_rail sqrtf bm fuel v l e_prev with
    | none => none
    | some r =>
      sv_write st idx (fun sv =>
        { sv with
          v_side := Function.update sv.v_side side r.1
          dir_side := Function.update sv.dir_side side r.2 })

/-- The step of one side loop to the next vertex (lines 792-804): `get_next_loop`
when the loop is not null, else a zero vector. -/
def double_side_next_side (sqrtf : ℚ → ℚ) (bm : BMesh) (fuel : Nat) (v : Nat) (l : Option Nat)
    (e_prev e : Nat) : Option (Option Nat × V3) :=
  match l with
  | some l => get_next_loop sqrtf bm fuel v l e_prev e
  | none => some (none, zero_v3)

/-- The recovery of missing side loops (lines 806-842) after both sides have
stepped: the result is the new `l_a`, `l_b`, `vec_a`, `vec_b`. -/
def double_side_recover (sqrtf : ℚ → ℚ) (bm : BMesh) (fuel : Nat) (v e e_prev : Nat)
    (l_a_ok_prev l_b_ok_prev : Bool) (l_a l_b : Option Nat) (vec_a vec_b : V3) :
    Option (Option Nat × Option Nat × V3 × V3) :=
  if l_a.isSome ∧ l_b.isSome then some (l_a, l_b, vec_a, vec_b)
  else
    let ab : Option Nat × Option Nat :=
      if l_a.isSome ∨ l_b.isSome then
        match l_a, l_b with
        | none, some lb =>
          if (bm.loop lb).radial_next ≠ lb then (some (bm.loop lb).radial_next, l_b)
          else (l_a, l_b)
        | some la, none =>
          if (bm.loop la).radial_next ≠ la then (l_a, some (bm.loop la).radial_next)
          else (l_a, l_b)
        | _, _ => (l_a, l_b)
      else
        match (bm.edge e).l with
        | some el =>
          if l_a_ok_prev then
            (some el, if (bm.loop el).radial_next ≠ el then some (bm.loop el).radial_next else none)
          else if l_b_ok_prev then
            (if (bm.loop el).radial_next ≠ el then some (bm.loop el).radial_next else none, some el)
          else (l_a, l_b)
        | none => (l_a, l_b)
    let vec_a1 : Option V3 :=
      match ab.1 with
      | some la =>
        if !l_a_ok_prev then
          match get_next_loop sqrtf bm fuel v la e e_prev with
          | none => none
          | some r => some r.2
        else some vec_a
      | none => some vec_a
    let vec_b1 : Option V3 :=
      match ab.2 with
      | some lb =>
        if !l_b_ok_prev then
          match get_next_loop sqrtf bm fuel v lb e e_prev with
          | none => none
          | some r => some r.2
        else some vec_b
      | none => some vec_b
    match vec_a1, vec_b1 with
    | some va, some vb => some (ab.1, ab.2, va, vb)
    | _, _ => none

/-- The rewind loop of `createEdgeSlideVerts_double_side` (lines 646-658), from
vertex `v` and edge `e`; `v_first_e` is `v_first->e`.  The result is the vertex
and edge at which the walk along the chain starts. -/
def double_side_rewind (bm : BMesh) (tag : Nat → Bool) (v_first_e : Nat) :
    Nat → Nat → Nat → Option (Nat × Nat)
  | 0, _, _ => none
  | fuel + 1, v, e =>
    match get_other_edge bm v e with
    | none =>
      match (bm.vert v).e with
      | none => none
      | some e0 => some (v, e0)
    | some e1 =>
      match BM_edge_other_vert bm e1 v with
      | none => none
      | some v_other =>
        if !tag v_other then some (v, e1)
        else if e1 ≠ v_first_e then double_side_rewind bm tag v_first_e fuel v_other e1
        else some (v_other, e1)

/-- The lines 724-729 and 752-757: the record of `v` is fetched or pushed and
its vertex, original position and loop number are written. -/
def double_side_init_sv (st : DoubleSideState) (v : Nat) (loop_nr : Int) :
    Option (DoubleSideState × Int) :=
  let r := SV_FROM_VERT st v
  match sv_write r.1 r.2 (fun sv =>
      { sv with v := v, v_co_orig := (st.bm.vert v).co, loop_nr := loop_nr }) with
  | none => none
  | some st1 => some (st1, r.2)

/-- The forward walk over the chain (the do-while loop of lines 716-846);
`v_first_e` is `v_first->e`.  The result is the state when the loop is left. -/
def double_side_walk (sqrtf : ℚ → ℚ) (fuel_l : Nat) (loop_nr : Int) (v_first_e : Option Nat) :
    Nat → DoubleSideWalk → Option DoubleSideState
  | 0, _ => none
  | fuel + 1, w =>
    let bm := w.st.bm
    match double_side_init_sv w.st w.v loop_nr with
    | none => none
    | some (st, idx) =>
    match double_side_set_side bm st idx 0 w.v w.l_a w.l_a_prev w.vec_a with
    | none => none
    | some st =>
    match double_side_set_side bm st idx 1 w.v w.l_b w.l_b_prev w.vec_b with
    | none => none
    | some st =>
    let v_prev := w.v
    match BM_edge_other_vert bm w.e w.v with
    | none => none
    | some v =>
    let e_prev := w.e
    match get_other_edge bm v w.e with
    | none =>
      match double_side_init_sv st v loop_nr with
      | none => none
      | some (st, idx) =>
      match double_side_end_side sqrtf bm fuel_l st idx 0 v w.l_a e_prev with
      | none => none
      | some st =>
      match double_side_end_side sqrtf bm fuel_l st idx 1 v w.l_b e_prev with
      | none => none
      | some st =>
        some { st with tag := Function.update (Function.update st.tag v false) v_prev false }
    | some e =>
      let l_a_ok_prev := w.l_a.isSome
      let l_b_ok_prev := w.l_b.isSome
      match double_side_next_side sqrtf bm fuel_l v w.l_a e_prev e with
      | none => none
      | some (l_a, vec_a) =>
      match double_side_next_side sqrtf bm fuel_l v w.l_b e_prev e with
      | none => none
      | some (l_b, vec_b) =>
      match double_side_recover sqrtf bm fuel_l v e e_prev l_a_ok_prev l_b_ok_prev
          l_a l_b vec_a vec_b with
      | none => none
      | some (l_a, l_b, vec_a, vec_b) =>
        let st := { st with tag := Function.update (Function.update st.tag v false) v_prev false }
        if some e ≠ v_first_e ∧ (l_a.isSome ∨ l_b.isSome) then
          double_side_walk sqrtf fuel_l loop_nr v_first_e fuel
            { st := st, v := v, e := e, l_a := l_a, l_b := l_b, l_a_prev := w.l_a,
              l_b_prev := w.l_b, vec_a := vec_a, vec_b := vec_b }
        else some st

/-- One pass of the outer loop of `createEdgeSlideVerts_double_side` (lines
640-852) for the tagged vertex `v` found by the search. -/
def double_side_pass (sqrtf : ℚ → ℚ) (fuel : Nat) (st : DoubleSideState) (loop_nr : Int)
    (v : Nat) (e0 : Nat) : Option DoubleSideState :=
  let bm := st.bm
  match double_side_rewind bm st.tag e0 fuel v e0 with
  | none => none
  | some (v, e) =>
    let st := { st with tag := Function.update st.tag v false }
    match (bm.edge e).l with
    | none => none
    | some l_a =>
      let l_b := (bm.loop l_a).radial_next
      match double_side_start_rail sqrtf bm fuel v l_a e with
      | none => none
      | some vec_a =>
        let vec_b : Option V3 :=
          if l_b ≠ l_a then double_side_start_rail sqrtf bm fuel v l_b e else some zero_v3
        match vec_b with
        | none => none
        | some vec_b =>
          double_side_walk sqrtf fuel loop_nr (bm.vert v).e fuel
            { st := st, v := v, e := e, l_a := some l_a,
              l_b := if l_b ≠ l_a then some l_b else none,
              l_a_prev := none, l_b_prev := none, vec_a := vec_a, vec_b := vec_b }

/-- The outer loop `while (true)` of `createEdgeSlideVerts_double_side` (lines
610-855): the result is the final state and `loop_nr`. -/
def double_side_loop (sqrtf : ℚ → ℚ) (fuel_l : Nat) :
    Nat → DoubleSideState → Int → Option (DoubleSideState × Int)
  | 0, _, _ => none
  | fuel + 1, st, loop_nr =>
    match (List.range st.bm.totvert).find? (fun v => st.tag v) with
    | none => some (st, loop_nr)
    | some v =>
      match (st.bm.vert v).e with
      | none => double_side_loop sqrtf fuel_l fuel st loop_nr
      | some e0 =>
        match double_side_pass sqrtf fuel_l st loop_nr v e0 with
        | none => none
        | some st1 => double_side_loop sqrtf fuel_l fuel st1 (loop_nr + 1)

/-- The part of `createEdgeSlideVerts_double_side` up to the assertion of line
859: validation, `sv_table`, and the walk over the loops.  The inner `none` is
the return of "no data" (`nullptr`); the outer `none` stands for a null
dereference, a write outside `sv_array`, or loops that did not end within `fuel` steps. -/
def createEdgeSlideVerts_double_side_sv (sqrtf : ℚ → ℚ) (fuel : Nat) (bm : BMesh) :
    Option (Option (DoubleSideState × Int)) :=
  match double_side_check_verts bm (List.range bm.totvert) with
  | none => some none
  | some bm =>
    if !double_side_check_edges bm then some none
    else if double_side_count_sel bm = 0 then some none
    else
      let st : DoubleSideState :=
        { bm := bm
          tag := fun v => decide (v < bm.totvert) && (bm.vert v).select
          sv_table := fun v => if (bm.vert v).select then INDEX_UNSET else INDEX_INVALID
          sv_array := [] }
      match double_side_loop sqrtf fuel fuel st 0 with
      | none => none
      | some r => some (some r)

/-! ## Interaction state initialisation -/

/-- Two floats, the C type `float[2]`. -/
abbrev V2 := ℚ × ℚ

/-- What the builders read from the viewport and the mouse input, whose code is
outside the reviewed source: whether a 3D region view exists (`rv3d`), the
occlusion switch, the projections `ED_view3d_project_float_v3_m4` and
`ED_view3d_project_float_v2_m4` with the matrix of `edge_slide_projmat_get`,
the visibility test `BMBVH_EdgeVisible` of an edge, the mouse position
`t->mval` and the initial mouse position `mi->imval`. -/
structure ViewExtern where
  rv3d : Bool
  use_occlude_geometry : Bool
  project_float_v3 : V3 → V3
  project_float_v2 : V3 → V2
  BMBVH_EdgeVisible : Nat → Bool
  mval : V2
  imval : Int × Int

/-- Modelled from the spec: `len_squared_v2v2` of BLI math. -/
def len_squared_v2v2 (a b : V2) : ℚ :=
  (b.1 - a.1) * (b.1 - a.1) + (b.2 - a.2) * (b.2 - a.2)

/-- Modelled from the spec: `dist_squared_to_line_segment_v2` of BLI math: the
squared distance of `p` to the closest point of the segment `l1`-`l2`. -/
def dist_squared_to_line_segment_v2 (p l1 l2 : V2) : ℚ :=
  let u : V2 := (l2.1 - l1.1, l2.2 - l1.2)
  let h : V2 := (p.1 - l1.1, p.2 - l1.2)
  let dot := u.1 * u.1 + u.2 * u.2
  let lambda := if dot ≠ 0 then (u.1 * h.1 + u.2 * h.2) / dot else 0
  let cp : V2 :=
    if lambda ≤ 0 then l1
    else if lambda ≥ 1 then l2
    else (l1.1 + u.1 * lambda, l1.2 + u.2 * lambda)
  len_squared_v2v2 p cp

/-- The C conversion of a float to `int`: truncation towards zero. -/
def float_to_int (a : ℚ) : Int := if 0 ≤ a then ⌊a⌋ else ⌈a⌉

/-- The function `edge_slide_pair_project`: the screen positions of the two
rail ends of a record, `(r_sco_a, r_sco_b)`. -/
def edge_slide_pair_project (view : ViewExtern) (bm : BMesh) (sv : TransDataEdgeSlideVert) :
    V3 × V3 :=
  let sco_b :=
    match sv.v_side 1 with
    | some v1 => view.project_float_v3 (bm.vert v1).co
    | none => view.project_float_v3 (add_v3_v3v3 (bm.vert sv.v).co (sv.dir_side 1))
  let sco_a :=
    match sv.v_side 0 with
    | some v0 => view.project_float_v3 (bm.vert v0).co
    | none => view.project_float_v3 (add_v3_v3v3 (bm.vert sv.v).co (sv.dir_side 0))
  (sco_a, sco_b)

/-- The function `edge_slide_data_init_mval`: the new `mval_start` and `mval_end`. -/
def edge_slide_data_init_mval (view : ViewExtern) (mval_dir : V3) : (Int × Int) × (Int × Int) :=
  let mval_dir : V2 :=
    if mval_dir.x * mval_dir.x + mval_dir.y * mval_dir.y < 1 / 10 then (0, 100)
    else (mval_dir.x, mval_dir.y)
  let mval_start : V2 := (0, 0)
  let mval_end : V2 := (mval_dir.1 * (1 / 2), mval_dir.2 * (1 / 2))
  ((float_to_int ((view.imval.1 : ℚ) + mval_start.1), float_to_int ((view.imval.2 : ℚ) + mval_start.2)),
   (float_to_int ((view.imval.1 : ℚ) + mval_end.1), float_to_int ((view.imval.2 : ℚ) + mval_end.2)))

/-- The running values of the first loop of `calcEdgeSlide_mval_range`: the
global direction `mval_dir` with its best distance, and per loop number the
direction `loop_dir` and the distance `loop_maxdist`. -/
structure MvalRange where
  mval_dir : V3
  dist_best_sq : ℚ
  loop_dir : Int → V3
  loop_maxdist : Int → ℚ

/-- The body of the loop over the edges of a record's vertex in
`calcEdgeSlide_mval_range` (lines 423-463). -/
def calcEdgeSlide_mval_range_edge (view : ViewExtern) (bm : BMesh)
    (use_occlude_geometry use_calc_direction : Bool) (sv : TransDataEdgeSlideVert)
    (r : MvalRange) (e : Nat) : MvalRange :=
  if (bm.edge e).select then r
  else
    let is_visible := !use_occlude_geometry || view.BMBVH_EdgeVisible e
    if !is_visible && !use_calc_direction then r
    else
      let sco := edge_slide_pair_project view bm sv
      let sco_a := sco.1
      let sco_b := sco.2
      let dist_sq := dist_squared_to_line_segment_v2 view.mval (sco_b.x, sco_b.y) (sco_a.x, sco_a.y)
      let r :=
        if is_visible ∧ (r.dist_best_sq = -1 ∨
            (dist_sq < r.dist_best_sq ∧
              len_squared_v2v2 (sco_b.x, sco_b.y) (sco_a.x, sco_a.y) > 1 / 10)) then
          { r with dist_best_sq := dist_sq, mval_dir := sub_v3_v3v3 sco_b sco_a }
        else r
      if use_calc_direction then
        let l_nr := sv.loop_nr
        if r.loop_maxdist l_nr = -1 ∨ dist_sq < r.loop_maxdist l_nr then
          { r with
            loop_maxdist := Function.update r.loop_maxdist l_nr dist_sq
            loop_dir := Function.update r.loop_dir l_nr (sub_v3_v3v3 sco_b sco_a) }
        else r
      else r

/-- The first loop of `calcEdgeSlide_mval_range` (lines 403-464). -/
def calcEdgeSlide_mval_range_dirs (view : ViewExtern) (bm : BMesh)
    (use_occlude_geometry use_calc_direction : Bool) (sv : List TransDataEdgeSlideVert) :
    MvalRange :=
  sv.foldl (fun r sv1 =>
      (BM_EDGES_OF_VERT bm sv1.v).foldl
        (calcEdgeSlide_mval_range_edge view bm use_occlude_geometry use_calc_direction sv1) r)
    { mval_dir := zero_v3, dist_best_sq := -1, loop_dir := fun _ => zero_v3,
      loop_maxdist := fun _ => -1 }

/-- The exchange of the two sides of a record (lines 473-474). -/
def swap_sides (sv : TransDataEdgeSlideVert) : TransDataEdgeSlideVert :=
  { sv with
    dir_side := fun i => sv.dir_side (side_not i)
    v_side := fun i => sv.v_side (side_not i) }

/-- The function `calcEdgeSlide_mval_range`: the records, with the sides
exchanged where the direction of their loop opposes the global one, and the
new `mval_start` and `mval_end`. -/
def calcEdgeSlide_mval_range (view : ViewExtern) (bm : BMesh)
    (use_occlude_geometry use_calc_direction : Bool) (sld : EdgeSlideData) : EdgeSlideData :=
  let r := calcEdgeSlide_mval_range_dirs view bm use_occlude_geometry use_calc_direction sld.sv
  let sv :=
    if use_calc_direction then
      sld.sv.map (fun sv1 =>
        if dot_v3v3 (r.loop_dir sv1.loop_nr) r.mval_dir < 0 then swap_sides sv1 else sv1)
    else sld.sv
  let m := edge_slide_data_init_mval view r.mval_dir
  { sld with sv := sv, mval_start := m.1, mval_end := m.2 }

/-- The loop of `calcEdgeSlide_even` (lines 505-515) from index `i` on: the
records with `edge_len` set, and the index of the record closest to the mouse. -/
def calcEdgeSlide_even_loop (sqrtf : ℚ → ℚ) (view : ViewExtern) (bm : BMesh) :
    List TransDataEdgeSlideVert → Nat → ℚ → Nat → List TransDataEdgeSlideVert × Nat
  | [], _, _, curr_sv_index => ([], curr_sv_index)
  | sv :: rest, i, dist_min_sq, curr_sv_index =>
    let sv1 := { sv with edge_len := len_v3v3 sqrtf (sv.dir_side 0) (sv.dir_side 1) }
    let v_proj := view.project_float_v2 (bm.vert sv.v).co
    let dist_sq := len_squared_v2v2 view.mval v_proj
    let r :=
      if dist_sq < dist_min_sq then calcEdgeSlide_even_loop sqrtf view bm rest (i + 1) dist_sq i
      else calcEdgeSlide_even_loop sqrtf view bm rest (i + 1) dist_min_sq curr_sv_index
    (sv1 :: r.1, r.2)

/-- The function `calcEdgeSlide_even`. -/
def calcEdgeSlide_even (sqrtf : ℚ → ℚ) (view : ViewExtern) (bm : BMesh) (sld : EdgeSlideData) :
    EdgeSlideData :=
  if sld.totsv > 0 then
    let r := calcEdgeSlide_even_loop sqrtf view bm sld.sv 0 FLT_MAX sld.curr_sv_index
    { sld with sv := r.1, curr_sv_index := r.2 }
  else { sld with curr_sv_index := 0 }

/-- The function `createEdgeSlideVerts_double_side`.  The inner `none` is the
return of "no data" (`nullptr`); the outer `none` stands for a null
dereference, a write outside `sv_array`, loops that did not end within `fuel`
steps, or the failure of the assertion `STACK_SIZE(sv_array) == sv_tot` of line
859 (after which `totsv = sv_tot` would not be the number of records). -/
def createEdgeSlideVerts_double_side (sqrtf : ℚ → ℚ) (view : ViewExtern) (fuel : Nat)
    (bm : BMesh) : Option (Option EdgeSlideData) :=
  match createEdgeSlideVerts_double_side_sv sqrtf fuel bm with
  | none => none
  | some none => some none
  | some (some (st, _)) =>
    if st.sv_array.length ≠ double_side_count_sel st.bm then none
    else
      let sld : EdgeSlideData :=
        { sv := st.sv_array, mval_start := (0, 0), mval_end := (0, 0), curr_sv_index := 0 }
      let sld := calcEdgeSlide_mval_range view st.bm view.use_occlude_geometry true sld
      let sld := if view.rv3d then calcEdgeSlide_even sqrtf view st.bm sld else sld
      some (some sld)

/-! ## Rectangular quad grids -/

/-- The vertex in column `i` and row `j` of a grid `nx` quads wide. -/
def grid_vert (nx i j : Nat) : Nat := j * (nx + 1) + i

/-- The horizontal edge from vertex `(i, j)` to vertex `(i + 1, j)`. -/
def grid_hedge (nx i j : Nat) : Nat := j * nx + i

/-- The vertical edge from vertex `(i, j)` to vertex `(i, j + 1)`; the
horizontal edges of a grid of `nx` by `ny` quads come first. -/
def grid_vedge (nx ny i j : Nat) : Nat := nx * (ny + 1) + (j * (nx + 1) + i)

/-- The corner `c` of the quad in column `i` and row `j`: corner 0 is at vertex
`(i, j)` on the bottom edge, corner 1 at `(i + 1, j)` on the right edge, corner
2 at `(i + 1, j + 1)` on the top edge and corner 3 at `(i, j + 1)` on the left edge. -/
def grid_loop (nx i j c : Nat) : Nat := 4 * (j * nx + i) + c

/-- The rectangular grid of `nx` by `ny` quads with vertex positions `co i j`, in
which the vertices and the vertical edges of column `k` are selected.  Vertices,
edges and faces are numbered row by row; every face has its four corners in
counter-clockwise order, and `v->e` is the first edge of the disk cycle. -/
def grid_mesh (nx ny k : Nat) (co : Nat → Nat → V3) : BMesh where
  totvert := (nx + 1) * (ny + 1)
  totedge := nx * (ny + 1) + (nx + 1) * ny
  totloop := 4 * (nx * ny)
  totface := nx * ny
  vert := fun v =>
    let i := v % (nx + 1)
    let j := v / (nx + 1)
    let disk :=
      (if 0 < i then [grid_hedge nx (i - 1) j] else []) ++
      (if i < nx then [grid_hedge nx i j] else []) ++
      (if 0 < j then [grid_vedge nx ny i (j - 1)] else []) ++
      (if j < ny then [grid_vedge nx ny i j] else [])
    { co := co i j, e := disk.head?, select := decide (i = k), disk := disk }
  edge := fun e =>
    if e < nx * (ny + 1) then
      let i := e % nx
      let j := e / nx
      { v1 := grid_vert nx i j, v2 := grid_vert nx (i + 1) j,
        l := some (if j < ny then grid_loop nx i j 0 else grid_loop nx i (j - 1) 2),
        select := false }
    else
      let i := (e - nx * (ny + 1)) % (nx + 1)
      let j := (e - nx * (ny + 1)) / (nx + 1)
      { v1 := grid_vert nx i j, v2 := grid_vert nx i (j + 1),
        l := some (if i < nx then grid_loop nx i j 3 else grid_loop nx (i - 1) j 1),
        select := decide (i = k) }
  loop := fun l =>
    let c := l % 4
    let i := (l / 4) % nx
    let j := (l / 4) / nx
    if c = 0 then
      { v := grid_vert nx i j, e := grid_hedge nx i j, f := l / 4,
        next := grid_loop nx i j 1, prev := grid_loop nx i j 3,
        radial_next := if 0 < j then grid_loop nx i (j - 1) 2 else l }
    else if c = 1 then
      { v := grid_vert nx (i + 1) j, e := grid_vedge nx ny (i + 1) j, f := l / 4,
        next := grid_loop nx i j 2, prev := grid_loop nx i j 0,
        radial_next := if i + 1 < nx then grid_loop nx (i + 1) j 3 else l }
    else if c = 2 then
      { v := grid_vert nx (i + 1) (j + 1), e := grid_hedge nx i (j + 1), f := l / 4,
        next := grid_loop nx i j 3, prev := grid_loop nx i j 1,
        radial_next := if j + 1 < ny then grid_loop nx i (j + 1) 0 else l }
    else
      { v := grid_vert nx i (j + 1), e := grid_vedge nx ny i j, f := l / 4,
        next := grid_loop nx i j 0, prev := grid_loop nx i j 2,
        radial_next := if 0 < i then grid_loop nx (i - 1) j 1 else l }
  face := fun f => { l_first := 4 * f, len := 4, no := ⟨0, 0, 1⟩ }

/-- A viewport stand-in without 3D region view: screen positions are the `x`
and `y` of the point, every edge is visible, the mouse is at the origin. -/
def sample_view : ViewExtern where
  rv3d := false
  use_occlude_geometry := false
  project_float_v3 := id
  project_float_v2 := fun co => (co.x, co.y)
  BMBVH_EdgeVisible := fun _ => true
  mval := (0, 0)
  imval := (0, 0)

/-- Vertex positions of a flat grid with spacing `s`. -/
def flat_co (s : ℚ) (i j : Nat) : V3 := ⟨s * i, s * j, 0⟩

/-- The number of selected edges at a vertex, as the validation counts them (`numsel`). -/
def numsel (bm : BMesh) (v : Nat) : Nat :=
  ((BM_EDGES_OF_VERT bm v).filter (fun e => (bm.edge e).select)).length

/-! ## Sample data -/

/-- A record with the given original position, rails and edge length, for vertex 0. -/
def sample_sv (co d0 d1 : V3) (edge_len : ℚ) : TransDataEdgeSlideVert where
  v := 0
  v_co_orig := co
  edge_len := edge_len
  v_side := fun _ => none
  dir_side := fun i => if i = 0 then d0 else d1
  loop_nr := 0

/-- A vertex at the origin between the rail endpoints (1,0,0) and (-3,0,0):
the rails are collinear and of unequal length, `edge_len` is their distance 4. -/
def sv_uneven : TransDataEdgeSlideVert := sample_sv ⟨0, 0, 0⟩ ⟨1, 0, 0⟩ ⟨-3, 0, 0⟩ 4

/-- A vertex at the origin with the perpendicular rails (0,1,0) and (1,0,0). -/
def sv_corner : TransDataEdgeSlideVert := sample_sv ⟨0, 0, 0⟩ ⟨0, 1, 0⟩ ⟨1, 0, 0⟩ 0

/-- A vertex at the origin with the rails (1,0,0) and (1,1,0): rail 0 is
perpendicular to the line through the rail endpoints, whose distance is 1. -/
def sv_perp : TransDataEdgeSlideVert := sample_sv ⟨0, 0, 0⟩ ⟨1, 0, 0⟩ ⟨1, 1, 0⟩ 1

/-- The identity matrix. -/
def unit_m4 : M4 := fun i j => if i = j then 1 else 0

/-- Stand-ins for the framework functions of the snap adapter: they return their argument. -/
def sample_ext : SnapExtern := ⟨id, fun _ co_dir => co_dir, fun _ co_dir => co_dir⟩

/-- A container holding the single record `sv`, active, without local matrix,
whose mesh vertices all sit at the record's original position. -/
def sample_tc (sv : TransDataEdgeSlideVert) : TransDataContainer where
  custom_mode_data := some ⟨[sv], (0, 0), (0, 0), 0⟩
  use_local_mat := false
  mat := unit_m4
  co := fun _ => sv.v_co_orig

/-- A transform state with the one container `sample_tc sv`, the given flags and
sticky side, and a snap that displaces the original position to `snap_point`
(no edge or face snap target). -/
def sample_t (sv : TransDataEdgeSlideVert) (alt use_even flipped : Bool) (side : Fin 2)
    (snap_point : V3) : TransInfo where
  flag_alt_transform := alt
  custom_mode_data := ⟨0, side, use_even, flipped⟩
  data_container := [sample_tc sv]
  tsnap := ⟨snap_point, sv.v_co_orig, false, false⟩

/-! ## Notions used to state the properties -/

/-- The point `a + k * (b - a)` of the line through `a` and `b`. -/
def line_point (a b : V3) (k : ℚ) : V3 :=
  ⟨a.x + k * (b.x - a.x), a.y + k * (b.y - a.y), a.z + k * (b.z - a.z)⟩

/-- The point `p` lies on the closed segment from `a` to `b`. -/
def on_segment (a b p : V3) : Prop := ∃ k : ℚ, 0 ≤ k ∧ k ≤ 1 ∧ p = line_point a b k

/-- The unclamped non-even position as the specification words it: along rail
`s`, the sticky side or the other side when the sticky rail is the zero vector,
by the control value itself when `s = (controlValue < 0)` and by the control
value with its sign flipped otherwise. -/
def unclamped_position_spec (sv : TransDataEdgeSlideVert) (fac : ℚ) (curr_side_unclamp : Fin 2) :
    V3 :=
  let s : Fin 2 :=
    if sv.dir_side curr_side_unclamp = zero_v3 then side_not curr_side_unclamp
    else curr_side_unclamp
  let m : ℚ := if s = side_of_neg fac then fac else -fac
  ⟨sv.v_co_orig.x + (sv.dir_side s).x * m, sv.v_co_orig.y + (sv.dir_side s).y * m,
   sv.v_co_orig.z + (sv.dir_side s).z * m⟩

/-- The even-mode parameter that `edge_slide_snap_apply` computes for the snap
point `p` of a record with original position `o` and rails `d0`, `d1` (no
local matrix, no edge or face snap target): the value of `perc` after the
piecewise remap around `t_mid` and before the flip re-encoding. -/
def snap_even_param (o d0 d1 p : V3) : ℚ :=
  let t_mid := line_point_factor_v3 zero_v3 d0 d1
  let t_snap := line_point_factor_v3 p (add_v3_v3v3 o d0) (add_v3_v3v3 o d1)
  if t_snap ≥ t_mid then
    line_point_factor_v3 p o (add_v3_v3v3 o d1) * (1 - t_mid) + t_mid
  else
    (1 - line_point_factor_v3 p o (add_v3_v3v3 o d0)) * t_mid

/-! ## Notions used in the proofs about the builder -/

/-- Two meshes that differ at most in the `e` fields of their vertices. -/
def same_but_vert_e (bm bm1 : BMesh) : Prop :=
  bm1.totvert = bm.totvert ∧ bm1.totedge = bm.totedge ∧ bm1.totloop = bm.totloop ∧
    bm1.totface = bm.totface ∧ bm1.edge = bm.edge ∧ bm1.loop = bm.loop ∧ bm1.face = bm.face ∧
    ∀ v, (bm1.vert v).co = (bm.vert v).co ∧ (bm1.vert v).select = (bm.vert v).select ∧
      (bm1.vert v).disk = (bm.vert v).disk

/-- The grid mesh after the validation: only `v->e` of the vertices has changed,
and in the selected column `m + 1` it is the vertical edge above the vertex
(below it in the top row). -/
structure GridChecked (nx ny m : Nat) (co : Nat → Nat → V3) (bm : BMesh) : Prop where
  same : same_but_vert_e (grid_mesh nx ny (m + 1) co) bm
  vert_e : ∀ j, j < ny → (bm.vert (grid_vert nx (m + 1) j)).e = some (grid_vedge nx ny (m + 1) j)
  vert_e_top : ∀ j, j + 1 = ny →
    (bm.vert (grid_vert nx (m + 1) (j + 1))).e = some (grid_vedge nx ny (m + 1) j)

/-- The direction that `get_next_loop` returns after stepping over the single
edge with vector `d`: the normalized vector rescaled to the measured length. -/
def crossed_rail (sqrtf : ℚ → ℚ) (d : V3) : V3 :=
  normalize_v3_length sqrtf (add_v3_v3v3 zero_v3 (normalize_v3 sqrtf d).1)
    ((0 + (normalize_v3 sqrtf d).2) / ((0 + 1 : ℕ) : ℚ))

/-- The rail of the vertex in row `j` of the selected column `m + 1` towards its
neighbour in column `i`: the vector to the neighbour in the bottom and the top
row, where the edge is a boundary edge, and the direction of `get_next_loop`
over that edge in the rows between. -/
def grid_dir (sqrtf : ℚ → ℚ) (ny m : Nat) (co : Nat → Nat → V3) (i j : Nat) : V3 :=
  if j = 0 ∨ j = ny then sub_v3_v3v3 (co i j) (co (m + 1) j)
  else crossed_rail sqrtf (sub_v3_v3v3 (co i j) (co (m + 1) j))

/-- The record that the double-sided builder makes for row `j` of the selected
column `m + 1` of a grid: side 0 is the right neighbour, side 1 the left one. -/
def grid_sv (sqrtf : ℚ → ℚ) (nx ny m : Nat) (co : Nat → Nat → V3) (j : Nat) :
    TransDataEdgeSlideVert where
  v := grid_vert nx (m + 1) j
  v_co_orig := co (m + 1) j
  edge_len := 0
  v_side := Function.update (Function.update (fun _ => none) 0 (some (grid_vert nx (m + 1 + 1) j)))
    1 (some (grid_vert nx m j))
  dir_side := Function.update
    (Function.update (fun _ => zero_v3) 0 (grid_dir sqrtf ny m co (m + 1 + 1) j))
    1 (grid_dir sqrtf ny m co m j)
  loop_nr := 0

/-- The tags during the walk up the selected column: the rows above row `j` are still tagged. -/
def grid_tag (nx ny m j : Nat) : Nat → Bool :=
  fun v => decide (v < (nx + 1) * (ny + 1)) && decide (v % (nx + 1) = m + 1) &&
    decide (j < v / (nx + 1))

/-- The table `sv_table` when the first `n` rows of the selected column have a record. -/
def grid_table (nx m n : Nat) : Nat → Int :=
  fun v =>
    if v % (nx + 1) = m + 1 then
      (if v / (nx + 1) < n then ((v / (nx + 1) : Nat) : Int) else INDEX_UNSET)
    else INDEX_INVALID

/-- The state of the double-sided builder on the grid when the first `n` rows of
the selected column have a record and the rows above row `j` are still tagged. -/
def grid_state (sqrtf : ℚ → ℚ) (nx ny m : Nat) (co : Nat → Nat → V3) (bm : BMesh) (j n : Nat) :
    DoubleSideState where
  bm := bm
  tag := grid_tag nx ny m j
  sv_table := grid_table nx m n
  sv_array := (List.range n).map (grid_sv sqrtf nx ny m co)

/-- A rational stand-in for the square root: the harmonic mean of `x` and 1, a
lower bound of the root of a positive `x` that is exact at 1. -/
def sample_sqrtf (x : ℚ) : ℚ := 2 * x / (x + 1)

/-! ## Chains of selected edges -/

/-- The consistency of the element tables that the mesh library keeps (its code
is outside the reviewed source): every edge in the disk cycle of a vertex is an
edge of the mesh, has that vertex as one of its two different end vertices, and
is in the disk cycle of both of them; the end vertices of a selected edge are selected. -/
def MeshOK (bm : BMesh) : Prop :=
  ∀ v, v < bm.totvert → ∀ e ∈ (bm.vert v).disk,
    e < bm.totedge ∧ ((bm.edge e).v1 = v ∨ (bm.edge e).v2 = v) ∧
    (bm.edge e).v1 ≠ (bm.edge e).v2 ∧
    (bm.edge e).v1 < bm.totvert ∧ (bm.edge e).v2 < bm.totvert ∧
    e ∈ (bm.vert (bm.edge e).v1).disk ∧ e ∈ (bm.vert (bm.edge e).v2).disk ∧
    ((bm.edge e).select = true →
      (bm.vert (bm.edge e).v1).select = true ∧ (bm.vert (bm.edge e).v2).select = true)

/-- What the walk of the double-sided builder relies on, in a mesh that has
passed the validation: a selected vertex has `v->e` set to a selected edge of
its disk cycle and has at most two selected edges; a selected edge has a face
and leads to another selected vertex, in whose disk cycle it is. -/
structure ChainOK (bm : BMesh) : Prop where
  vert_e : ∀ v, v < bm.totvert → (bm.vert v).select = true →
    ∃ e0, (bm.vert v).e = some e0 ∧ e0 ∈ (bm.vert v).disk ∧ (bm.edge e0).select = true
  two : ∀ v, v < bm.totvert → (bm.vert v).select = true → ∀ a b c,
    a ∈ (bm.vert v).disk → b ∈ (bm.vert v).disk → c ∈ (bm.vert v).disk →
    (bm.edge a).select = true → (bm.edge b).select = true → (bm.edge c).select = true →
    a ≠ b → c = a ∨ c = b
  ends : ∀ v, v < bm.totvert → (bm.vert v).select = true → ∀ e ∈ (bm.vert v).disk,
    (bm.edge e).select = true →
    ∃ w, BM_edge_other_vert bm e v = some w ∧ w ≠ v ∧ w < bm.totvert ∧
      (bm.vert w).select = true ∧ e ∈ (bm.vert w).disk ∧ BM_edge_other_vert bm e w = some v
  edge_l : ∀ v, v < bm.totvert → (bm.vert v).select = true → ∀ e ∈ (bm.vert v).disk,
    (bm.edge e).select = true → ((bm.edge e).l).isSome = true

/-- A position on a chain of selected edges: a selected vertex of the mesh and a
selected edge of its disk cycle, the edge to leave the vertex by. -/
def ChainPos (bm : BMesh) (s : Nat × Nat) : Prop :=
  s.1 < bm.totvert ∧ (bm.vert s.1).select = true ∧ s.2 ∈ (bm.vert s.1).disk ∧
    (bm.edge s.2).select = true

/-- One step along a chain of selected edges, as the loops of
`createEdgeSlideVerts_double_side` take it: over the edge to its other vertex,
and there to the other selected edge (`get_other_edge`). -/
def chain_step (bm : BMesh) (s : Nat × Nat) : Option (Nat × Nat) :=
  match BM_edge_other_vert bm s.2 s.1 with
  | none => none
  | some v =>
    match get_other_edge bm v s.2 with
    | none => none
    | some e => some (v, e)

/-- The position after `k` steps along a chain of selected edges. -/
def chain_iter (bm : BMesh) : Nat → Nat × Nat → Option (Nat × Nat)
  | 0, s => some s
  | k + 1, s => (chain_iter bm k s).bind (chain_step bm)

/-- The vertices of the records on the stack, in the order of the stack. -/
def sv_verts (st : DoubleSideState) : List Nat := st.sv_array.map (fun sv => sv.v)

/-- The table `sv_table` and the stack agree: the table has index `k` for the
vertex `v` exactly when the record `k` of the stack is that of `v`. -/
def RecOK (st : DoubleSideState) : Prop :=
  ∀ (v k : Nat), st.sv_table v = (k : Int) ↔ (sv_verts st)[k]? = some v

/-- What holds between two passes of the outer loop of
`createEdgeSlideVerts_double_side`: the table and the stack agree, the records
are those of selected vertices of the mesh, only selected vertices are tagged,
a selected vertex is tagged or has a record, and no selected edge joins an
untagged vertex to a tagged one. -/
structure PassInv (bm : BMesh) (st : DoubleSideState) : Prop where
  bm_eq : st.bm = bm
  rec_ok : RecOK st
  rec_sel : ∀ x ∈ sv_verts st, x < bm.totvert ∧ (bm.vert x).select = true
  tag_ok : ∀ x, st.tag x = true → x < bm.totvert ∧ (bm.vert x).select = true
  done : ∀ x, x < bm.totvert → (bm.vert x).select = true →
    st.tag x = true ∨ 0 ≤ st.sv_table x
  closed : ∀ x, x < bm.totvert → (bm.vert x).select = true → st.tag x = false →
    ∀ e ∈ (bm.vert x).disk, (bm.edge e).select = true →
    ∀ y, BM_edge_other_vert bm e x = some y → st.tag y = false

/-- What holds at the head of the forward walk, `k` steps along the chain from
the position `s0` where the walk has started, at vertex `v` with the edge `e`
to go on by: no edge on the way was the first one; every selected vertex but
`v` is tagged or has a record; `v` and the first vertex are not tagged; and an
untagged vertex is joined to a tagged one only over `e` from `v`, or from the
first vertex over an edge that is not the first one. -/
structure WalkInv (bm : BMesh) (s0 : Nat × Nat) (k : Nat) (st : DoubleSideState)
    (v e : Nat) : Prop where
  pos : chain_iter bm k s0 = some (v, e)
  noexit : ∀ j t, 1 ≤ j → j ≤ k → chain_iter bm j s0 = some t → t.2 ≠ s0.2
  bm_eq : st.bm = bm
  rec_ok : RecOK st
  rec_sel : ∀ x ∈ sv_verts st, x < bm.totvert ∧ (bm.vert x).select = true
  tag_ok : ∀ x, st.tag x = true → x < bm.totvert ∧ (bm.vert x).select = true
  done : ∀ x, x < bm.totvert → (bm.vert x).select = true → x ≠ v →
    st.tag x = true ∨ 0 ≤ st.sv_table x
  here : st.tag v = false
  first : st.tag s0.1 = false
  first_rec : 1 ≤ k → 0 ≤ st.sv_table s0.1
  front : ∀ x, x < bm.totvert → (bm.vert x).select = true → st.tag x = false →
    ∀ e1 ∈ (bm.vert x).disk, (bm.edge e1).select = true →
    ∀ y, BM_edge_other_vert bm e1 x = some y → st.tag y = true →
    (x = v ∧ e1 = e) ∨ (x = s0.1 ∧ e1 ≠ s0.2)

/-- The length `curr_length_fac` that `doEdgeSlide` computes in even mode from
the `edge_len` of the active vertex and the control value (line 1406). -/
def even_curr_length_fac (active_edge_len perc : ℚ) (use_flip : Bool) : ℚ :=
  active_edge_len * (((if use_flip then perc else -perc) + 1) / 2)

/-- The interpolation parameter `fac_final` of the even branch of
`edge_slide_apply_elem` (line 1377). -/
def even_fac_final (sv : TransDataEdgeSlideVert) (curr_length_fac : ℚ) : ℚ :=
  min_ff sv.edge_len curr_length_fac / sv.edge_len

/-- The vectors of the edges that the do-while loop of `get_next_loop` steps
over from the loop `l` on, in order: for each such edge the vector from `v` to
its other vertex, as `sub_v3_v3v3` computes it before the normalization. -/
def get_next_loop_crossed (bm : BMesh) (v l_first e_next : Nat) : Nat → Nat → List V3
  | 0, _ => []
  | fuel + 1, l =>
    match BM_loop_other_edge_loop bm l v with
    | none => []
    | some l =>
      if (bm.loop l).e = e_next then []
      else
        match BM_edge_other_vert bm (bm.loop l).e v with
        | none => []
        | some v_other =>
          sub_v3_v3v3 (bm.vert v_other).co (bm.vert v).co ::
            (match BM_loop_other_edge_loop bm l v with
            | none => []
            | some l_other =>
              if (bm.loop l_other).e = e_next then []
              else if l ≠ (bm.loop l).radial_next ∧ (bm.loop l).radial_next ≠ l_first then
                get_next_loop_crossed bm v l_first e_next fuel (bm.loop l).radial_next
              else [])

/-- The accumulated direction of `get_next_loop` after the edges with vectors
`ds`: the sum of their normalized vectors added to `acc`. -/
def crossed_accum (sqrtf : ℚ → ℚ) (acc : V3) (ds : List V3) : V3 :=
  ds.foldl (fun a d => add_v3_v3v3 a (normalize_v3 sqrtf d).1) acc

/-- The accumulated length of `get_next_loop` after the edges with vectors `ds`:
the sum of the lengths that `normalize_v3` returns for them, added to `len`. -/
def crossed_accum_len (sqrtf : ℚ → ℚ) (len : ℚ) (ds : List V3) : ℚ :=
  ds.foldl (fun s d => s + (normalize_v3 sqrtf d).2) len

/-- A fan of three triangles around vertex 0, with the rim vertices 1 to 4 at
the positions `co`: triangle `f` has the corners 0, `f + 1`, `f + 2` (loops
`3 f`, `3 f + 1`, `3 f + 2`); the edges 0 to 3 are the spokes from vertex 0 to
the vertices 1 to 4, the edges 4 to 6 the rim edges; nothing is selected. -/
def fan_mesh (co : Nat → V3) : BMesh where
  totvert := 5
  totedge := 7
  totloop := 9
  totface := 3
  vert := fun v =>
    { co := co v, e := some (if v = 0 then 0 else v - 1), select := false,
      disk := if v = 0 then [0, 1, 2, 3] else [v - 1, v + 2, v + 3] }
  edge := fun e =>
    if e < 4 then { v1 := 0, v2 := e + 1, l := some (if e < 3 then 3 * e else 8), select := false }
    else { v1 := e - 3, v2 := e - 2, l := some (3 * (e - 4) + 1), select := false }
  loop := fun l =>
    let f := l / 3
    if l % 3 = 0 then
      { v := 0, e := f, f := f, next := l + 1, prev := l + 2,
        radial_next := if 0 < f then l - 1 else l }
    else if l % 3 = 1 then
      { v := f + 1, e := 4 + f, f := f, next := l + 1, prev := l - 1, radial_next := l }
    else
      { v := f + 2, e := f + 1, f := f, next := l - 2, prev := l - 1,
        radial_next := if f < 2 then l + 1 else l }
  face := fun f => { l_first := 3 * f, len := 3, no := ⟨0, 0, 1⟩ }

/-- The crossed edges that `normalize_v3` does not treat as degenerate: those of
squared length at least the square of the normalization threshold. -/
def crossed_nondegenerate (ds : List V3) : List V3 :=
  ds.filter (fun d => decide (dot_v3v3 d d ≥ FLT_EPSILON * FLT_EPSILON))

/-- Positions for `fan_mesh`: the centre vertex 0 at the origin, the rim
vertices 2 and 3 at `a` and `b`, the rim vertices 1 and 4 at (0, 1, 0) and (0, 4, 0). -/
def fan_co (a b : V3) (v : Nat) : V3 :=
  if v = 0 then zero_v3 else if v = 2 then a else if v = 3 then b else ⟨0, v, 0⟩

/-- The corners whose edges `bm_loop_calc_opposite_co` looks at, in order: from
`l_iter` on along `next`, up to the corner before `l_last`.  The result is
`none` when `l_last` is not reached within `fuel` steps. -/
def bm_loop_calc_opposite_co_edges (bm : BMesh) (l_last : Nat) : Nat → Nat → Option (List Nat)
  | 0, _ => none
  | fuel + 1, l_iter =>
    if (bm.loop l_iter).next ≠ l_last then
      (bm_loop_calc_opposite_co_edges bm l_last fuel (bm.loop l_iter).next).map
        (fun ls => l_iter :: ls)
    else some [l_iter]

/-- The point that the edge of the corner `l_iter` offers to
`bm_loop_calc_opposite_co`: the point where its line meets the plane through the
vertex of `l_tmp` with normal `plane_no`, when the factor of that point along
the edge is inside (-FLT_EPSILON, 1 + FLT_EPSILON). -/
def opposite_co_candidate (bm : BMesh) (l_tmp : Nat) (plane_no : V3) (l_iter : Nat) : Option V3 :=
  let co_tmp := (bm.vert (bm.loop l_tmp).v).co
  let co_a := (bm.vert (bm.loop l_iter).v).co
  let co_b := (bm.vert (bm.loop (bm.loop l_iter).next).v).co
  match isect_line_plane_v3 co_a co_b co_tmp plane_no with
  | some tvec =>
    let fac := line_point_factor_v3 tvec co_a co_b
    if fac > -FLT_EPSILON ∧ fac < 1 + FLT_EPSILON then some tvec else none
  | none => none

/-- One update of the closest point of `bm_loop_calc_opposite_co`: the point `c`
replaces the point found so far when it is strictly closer. -/
def opposite_co_step (dist_to : V3 → ℚ) (s : V3 × ℚ × Bool) (c : V3) : V3 × ℚ × Bool :=
  if dist_to c < s.2.1 then (c, dist_to c, true) else s

/-! ## Single-sided builder -/

/-- Modelled from the spec: the field `totvertsel` of `BMesh`, which the mesh
library keeps equal to the number of selected vertices. -/
def BMesh.totvertsel (bm : BMesh) : Nat :=
  ((List.range bm.totvert).filter (fun v => (bm.vert v).select)).length

/-- Modelled from the spec: `BM_edge_calc_length_squared` of the mesh library. -/
def BM_edge_calc_length_squared (bm : BMesh) (e : Nat) : ℚ :=
  len_squared_v3v3 (bm.vert (bm.edge e).v1).co (bm.vert (bm.edge e).v2).co

/-- Modelled from the spec: `BM_vert_is_edge_pair` of the mesh library: the disk
cycle of the vertex has exactly two edges. -/
def BM_vert_is_edge_pair (bm : BMesh) (v : Nat) : Bool :=
  decide ((BM_EDGES_OF_VERT bm v).length = 2)

/-- Modelled from the spec: `BM_DISK_EDGE_NEXT` of the mesh library: the edge
after `e` in the disk cycle of `v`. -/
def BM_DISK_EDGE_NEXT (bm : BMesh) (e v : Nat) : Nat :=
  (bm.vert v).disk.getD (((bm.vert v).disk.indexOf e + 1) % (bm.vert v).disk.length) e

/-- The body of the loop over the edges of a selected vertex in the first loop
of `createEdgeSlideVerts_single_side` (lines 917-925): `r` is `len_sq_max` with
the edge assigned to `v->e` so far (`none` while nothing was assigned). -/
def single_side_longest_step (bm : BMesh) (r : ℚ × Option Nat) (e : Nat) : ℚ × Option Nat :=
  if !(bm.edge e).select then
    let len_sq := BM_edge_calc_length_squared bm e
    if len_sq > r.1 then (len_sq, some e) else r
  else r

/-- The loop over the edges of a selected vertex in the first loop of
`createEdgeSlideVerts_single_side`: the final `len_sq_max` and the edge last
assigned to `v->e`. -/
def single_side_longest (bm : BMesh) (v : Nat) : ℚ × Option Nat :=
  (BM_EDGES_OF_VERT bm v).foldl (single_side_longest_step bm) (-1, none)

/-- The first loop of `createEdgeSlideVerts_single_side` (lines 912-932), over
the vertices `vs` in mesh order with the count `j`: every selected vertex gets
`v->e` set to its longest unselected edge and is counted when it has one. -/
def single_side_check_verts : BMesh → List Nat → Nat → BMesh × Nat
  | bm, [], j => (bm, j)
  | bm, v :: vs, j =>
    if (bm.vert v).select then
      let r := single_side_longest bm v
      single_side_check_verts (double_side_set_vert_e bm v r.2) vs
        (if r.1 ≠ -1 then j + 1 else j)
    else single_side_check_verts bm vs j

/-- The variables of `createEdgeSlideVerts_single_side` that live across its
loops: `sv_table`, the array `sv_array` of `bm->totvertsel` records, and the
count of records (`j` in the second loop, `sv_tot` after it). -/
structure SingleSideState where
  sv_table : Nat → Int
  sv_array : List TransDataEdgeSlideVert
  sv_tot : Nat

/-- A write through the pointer `&sv_array[idx]` of the single-sided builder;
`none` when the index is outside the array. -/
def sv_array_write (sv_array : List TransDataEdgeSlideVert) (idx : Nat)
    (f : TransDataEdgeSlideVert → TransDataEdgeSlideVert) :
    Option (List TransDataEdgeSlideVert) :=
  if idx < sv_array.length then some (sv_array.modify f idx) else none

/-- The writes of lines 961-966 to the record `sv` of the vertex `v`, whose
`v->e` leads to `v_other`. -/
def single_side_set_primary (bm : BMesh) (v v_other : Nat) (sv : TransDataEdgeSlideVert) :
    TransDataEdgeSlideVert :=
  { sv with
    v := v
    v_co_orig := (bm.vert v).co
    v_side := Function.update sv.v_side 0 (some v_other)
    dir_side := Function.update sv.dir_side 0 (sub_v3_v3v3 (bm.vert v_other).co (bm.vert v).co)
    loop_nr := 0 }

/-- The writes of lines 1001-1004 to the record `sv` of the wire vertex
`v_other`, which takes the direction of the record `sv_iter`. -/
def single_side_set_wire (bm : BMesh) (v_other : Nat) (sv_iter sv : TransDataEdgeSlideVert) :
    TransDataEdgeSlideVert :=
  { sv with
    v := v_other
    v_co_orig := (bm.vert v_other).co
    dir_side := Function.update sv.dir_side 0 (sv_iter.dir_side 0) }

/-- The second loop of `createEdgeSlideVerts_single_side` (lines 954-971), over
the vertices `vs` in mesh order: the record of every selected vertex whose
`v->e` is an unselected edge.  `none` stands for a null dereference or a write
outside `sv_array`. -/
def single_side_fill (bm : BMesh) : List Nat → SingleSideState → Option SingleSideState
  | [], st => some st
  | v :: vs, st =>
    let st := { st with sv_table := Function.update st.sv_table v (-1) }
    match (bm.vert v).e with
    | none => single_side_fill bm vs st
    | some e =>
      if (bm.vert v).select = true ∧ (bm.edge e).select = false then
        match BM_edge_other_vert bm e v with
        | none => none
        | some v_other =>
          match sv_array_write st.sv_array st.sv_tot (single_side_set_primary bm v v_other) with
          | none => none
          | some sv_array =>
            single_side_fill bm vs
              { sv_table := Function.update st.sv_table v (st.sv_tot : Int)
                sv_array := sv_array
                sv_tot := st.sv_tot + 1 }
      else single_side_fill bm vs st

/-- The walk over wire of `createEdgeSlideVerts_single_side` (lines 988-1017)
from the record `i` (`sv_iter`), at the vertex `v` with the edge `e_step` and
the count `j`, with `sv_tot` records so far.  The result is `sv_table`,
`sv_array`, the final `j` and the index of `sv_end` (`none` for null); the outer
`none` stands for a null dereference, an access outside `sv_array`, or a walk
that did not end within `fuel` steps. -/
def single_side_walk (bm : BMesh) (i sv_tot : Nat) :
    Nat → (Nat → Int) → List TransDataEdgeSlideVert → Nat → Nat → Nat →
      Option ((Nat → Int) × List TransDataEdgeSlideVert × Nat × Option Int)
  | 0, _, _, _, _, _ => none
  | fuel + 1, sv_table, sv_array, j, v, e_step =>
    match BM_edge_other_vert bm e_step v with
    | none => none
    | some v_other =>
      let endpoint : Nat :=
        (if sv_table v_other ≠ -1 then 1 else 0) +
          (if BM_vert_is_edge_pair bm v_other = false then 1 else 0)
      if ((bm.edge e_step).select = true ∧ (bm.vert v_other).select = true) ∧ endpoint = 0 then
        match sv_array[i]? with
        | none => none
        | some sv_iter =>
          match sv_array_write sv_array j (single_side_set_wire bm v_other sv_iter) with
          | none => none
          | some sv_array1 =>
            single_side_walk bm i sv_tot fuel (Function.update sv_table v_other (j : Int))
              sv_array1 (j + 1) v_other (BM_DISK_EDGE_NEXT bm e_step v_other)
      else
        some (sv_table, sv_array, j,
          if endpoint = 2 ∧ sv_tot ≠ j then some (sv_table v_other) else none)

/-- The loop `while (j-- != sv_tot_prev)` of lines 1027-1031, with `n` passes
left: the directions of the records from `sv_tot_prev + n - 1` down to
`sv_tot_prev` are interpolated between the directions of the records `i`
(`dir_src`) and `i_end` (`dir_dst`), read through their pointers. -/
def single_side_interp (bm : BMesh) (co_src co_dst : V3) (i i_end sv_tot_prev : Nat) :
    Nat → List TransDataEdgeSlideVert → Option (List TransDataEdgeSlideVert)
  | 0, sv_array => some sv_array
  | n + 1, sv_array =>
    match sv_array[sv_tot_prev + n]?, sv_array[i]?, sv_array[i_end]? with
    | some sv, some sv_iter, some sv_end =>
      let factor := line_point_factor_v3 (bm.vert sv.v).co co_src co_dst
      single_side_interp bm co_src co_dst i i_end sv_tot_prev n
        (sv_array.modify (fun sv =>
            { sv with
              dir_side := Function.update sv.dir_side 0
                (interp_v3_v3v3 (sv_iter.dir_side 0) (sv_end.dir_side 0) factor) })
          (sv_tot_prev + n))
    | _, _, _ => none

/-- The body of the loop over the edges of the vertex of record `i` in the wire
pass (lines 982-1033): the walk from the edge `e`, and the interpolation when the
walk has ended at a record. -/
def single_side_wire_edge (bm : BMesh) (fuel i : Nat) (st : SingleSideState) (e : Nat) :
    Option SingleSideState :=
  match st.sv_array[i]? with
  | none => none
  | some sv_iter =>
    match single_side_walk bm i st.sv_tot fuel st.sv_table st.sv_array st.sv_tot sv_iter.v e with
    | none => none
    | some (sv_table, sv_array, _, none) =>
      some { st with sv_table := sv_table, sv_array := sv_array }
    | some (sv_table, sv_array, j, some idx) =>
      if 0 ≤ idx then
        match sv_array[idx.toNat]? with
        | none => none
        | some sv_end =>
          match single_side_interp bm (bm.vert sv_iter.v).co (bm.vert sv_end.v).co i idx.toNat
              st.sv_tot (j - st.sv_tot) sv_array with
          | none => none
          | some sv_array1 => some { sv_table := sv_table, sv_array := sv_array1, sv_tot := j }
      else none

/-- The loop over the edges `es` of the vertex of record `i` in the wire pass. -/
def single_side_wire_edges (bm : BMesh) (fuel i : Nat) :
    List Nat → SingleSideState → Option SingleSideState
  | [], st => some st
  | e :: es, st =>
    match single_side_wire_edge bm fuel i st e with
    | none => none
    | some st1 => single_side_wire_edges bm fuel i es st1

/-- The loop of the wire pass over the records `is` (lines 979-1034). -/
def single_side_wire (bm : BMesh) (fuel : Nat) :
    List Nat → SingleSideState → Option SingleSideState
  | [], st => some st
  | i :: is, st =>
    match st.sv_array[i]? with
    | none => none
    | some sv_iter =>
      match single_side_wire_edges bm fuel i (BM_EDGES_OF_VERT bm sv_iter.v) st with
      | none => none
      | some st1 => single_side_wire bm fuel is st1

/-- The part of `createEdgeSlideVerts_single_side` up to line 1034: the mesh
with `v->e` as set by the first loop and the records.  The inner `none` is the
return of "no data" (`nullptr`); the outer `none` stands for a null dereference,
an access outside `sv_array`, or a walk that did not end within `fuel` steps. -/
def createEdgeSlideVerts_single_side_sv (fuel : Nat) (bm : BMesh) :
    Option (Option (BMesh × SingleSideState)) :=
  let r := single_side_check_verts bm (List.range bm.totvert) 0
  if r.2 = 0 then some none
  else
    let bm := r.1
    let sv_tot := r.2
    match single_side_fill bm (List.range bm.totvert)
        { sv_table := fun _ => -1
          sv_array := List.replicate bm.totvertsel sv_calloc
          sv_tot := 0 } with
    | none => none
    | some st =>
      let st := { st with sv_tot := sv_tot }
      if sv_tot ≠ bm.totvert then
        match single_side_wire bm fuel (List.range sv_tot) st with
        | none => none
        | some st1 => some (some (bm, st1))
      else some (some (bm, st))

/-- The function `createEdgeSlideVerts_single_side`.  The inner `none` is the
return of "no data" (`nullptr`); the outer `none` stands for a null dereference,
an access outside `sv_array`, or a walk that did not end within `fuel` steps. -/
def createEdgeSlideVerts_single_side (sqrtf : ℚ → ℚ) (view : ViewExtern) (fuel : Nat)
    (bm : BMesh) : Option (Option EdgeSlideData) :=
  match createEdgeSlideVerts_single_side_sv fuel bm with
  | none => none
  | some none => some none
  | some (some (bm, st)) =>
    let sld : EdgeSlideData :=
      { sv := st.sv_array.take st.sv_tot, mval_start := (0, 0), mval_end := (0, 0),
        curr_sv_index := 0 }
    let sld := calcEdgeSlide_mval_range view bm view.use_occlude_geometry false sld
    let sld := if view.rv3d then calcEdgeSlide_even sqrtf view bm sld else sld
    some (some sld)

/-- The unselected edges at `v`, in the order in which `BM_EDGES_OF_VERT` meets them. -/
def single_side_unselected (bm : BMesh) (v : Nat) : List Nat :=
  (BM_EDGES_OF_VERT bm v).filter (fun e => !(bm.edge e).select)

/-- The vertices that the single-sided builder gives a primary record: the
selected vertices with at least one unselected edge. -/
def single_side_qualifies (bm : BMesh) (v : Nat) : Bool :=
  (bm.vert v).select && !(single_side_unselected bm v).isEmpty

/-- The consistency of `v->e` that the mesh library keeps: it is an edge of the
disk cycle of the vertex. -/
def VertEdgeOK (bm : BMesh) : Prop :=
  ∀ v, v < bm.totvert → ∀ e, (bm.vert v).e = some e → e ∈ (bm.vert v).disk

/-- The field `v->e` after the first loop of the single-sided builder: the
longest unselected edge of a selected vertex that has one, else unchanged. -/
def single_side_vert_e (bm : BMesh) (v : Nat) : Option Nat :=
  if (bm.vert v).select then
    match (single_side_longest bm v).2 with
    | some e => some e
    | none => (bm.vert v).e
  else (bm.vert v).e

/-- The record that the second loop of the single-sided builder writes for the
vertex `v`, if any: for a selected vertex whose `v->e` is an unselected edge,
the zero-initialised record with the vertex, its position, the other vertex of
`v->e` as `v_side[0]` and the vector to it as `dir_side[0]`. -/
def single_side_primary (bm : BMesh) (v : Nat) : Option TransDataEdgeSlideVert :=
  match (bm.vert v).e with
  | none => none
  | some e =>
    if (bm.vert v).select = true ∧ (bm.edge e).select = false then
      match BM_edge_other_vert bm e v with
      | none => none
      | some v_other => some (single_side_set_primary bm v v_other sv_calloc)
    else none

/-- What the wire pass of the single-sided builder keeps true of `sv_table` and
of the vertices `vs` of the records in `sv_array`, of which the first `j` are
in use: the array has `bm->totvertsel` records, the vertices of the records in
use are different selected vertices of the mesh that `sv_table` has an index
for, and every index in `sv_table` is inside the array. -/
structure WireInv (bm : BMesh) (sv_table : Nat → Int) (vs : List Nat) (j : Nat) : Prop where
  len : vs.length = bm.totvertsel
  recs : ∀ k, k < j → ∃ u, vs[k]? = some u ∧ u < bm.totvert ∧ (bm.vert u).select = true ∧
    sv_table u ≠ -1
  nodup : (vs.take j).Nodup
  bound : ∀ v, sv_table v ≠ -1 → 0 ≤ sv_table v ∧ (sv_table v).toNat < bm.totvertsel

/-! ## Sides of the snap adapter and of the apply engine -/

/-- The variable `side_index` of `edge_slide_snap_apply` in non-even mode
(lines 1276-1287): the sign of the value when clamped, the sticky side otherwise. -/
def snap_apply_side_index (t : TransInfo) (value : ℚ) : Fin 2 :=
  let is_clamp := !t.flag_alt_transform
  if is_clamp then side_of_neg value else t.custom_mode_data.curr_side_unclamp

/-- The variable `side_index` of `edge_slide_apply_elem` in non-even mode
(lines 1349-1362): the sign of the factor when clamped; otherwise the sticky
side, replaced by the other side when its direction is the zero vector. -/
def apply_elem_side_index (sv : TransDataEdgeSlideVert) (fac : ℚ) (curr_side_unclamp : Fin 2)
    (use_clamp : Bool) : Fin 2 :=
  if use_clamp then side_of_neg fac
  else if is_zero_v3 (sv.dir_side curr_side_unclamp) then side_not curr_side_unclamp
  else curr_side_unclamp

/-- The value that `edge_slide_snap_apply` returns in non-even mode for the
active record `sv` of the container `tc`, as a function of its `side_index`
(lines 1263-1275 and 1289-1304). -/
def snap_apply_non_even (ext : SnapExtern) (t : TransInfo) (tc : TransDataContainer)
    (sv : TransDataEdgeSlideVert) (side_index : Fin 2) : ℚ :=
  let co_orig := sv.v_co_orig
  let co_dest0 := add_v3_v3v3 co_orig (sv.dir_side 0)
  let co_dest1 := add_v3_v3v3 co_orig (sv.dir_side 1)
  let co_orig := if tc.use_local_mat then mul_m4_v3 tc.mat co_orig else co_orig
  let co_dest0 := if tc.use_local_mat then mul_m4_v3 tc.mat co_dest0 else co_dest0
  let co_dest1 := if tc.use_local_mat then mul_m4_v3 tc.mat co_dest1 else co_dest1
  let co_dest : Fin 2 → V3 := fun i => if i = 0 then co_dest0 else co_dest1
  let dvec := sub_v3_v3v3 t.tsnap.snap_target t.tsnap.snap_source
  let snap_point := add_v3_v3v3 co_orig dvec
  let snap_point :=
    if t.tsnap.snap_to_edge || t.tsnap.snap_to_face then
      let co_dir := ext.normalize_v3 (sub_v3_v3v3 (co_dest side_index) co_orig)
      let dvec :=
        if t.tsnap.snap_to_edge then ext.transform_constraint_snap_axis_to_edge t co_dir
        else ext.transform_constraint_snap_axis_to_face t co_dir
      add_v3_v3v3 co_orig dvec
    else snap_point
  let perc := line_point_factor_v3 snap_point co_orig (co_dest side_index)
  if side_index ≠ 0 then perc * -1 else perc

/-- A vertex at the origin whose rail 0 is the zero vector and whose rail 1 is (1,0,0). -/
def sv_one_rail : TransDataEdgeSlideVert := sample_sv ⟨0, 0, 0⟩ zero_v3 ⟨1, 0, 0⟩ 1

/-! ## Even mode as a straight line -/

/-- The even-mode position in the words of the implementation note of
`edge_slide_apply_elem`: the starting position is ignored, and the result is
the linear interpolation between the two rail endpoints `co_a` and `co_b` (from
`co_b` to `co_a` when flipped) at the factor `min(edge_len, curr_length_fac) / edge_len`. -/
def even_position_spec (sv : TransDataEdgeSlideVert) (curr_length_fac : ℚ) (use_flip : Bool) :
    V3 :=
  let fac_final := min_ff sv.edge_len curr_length_fac / sv.edge_len
  let co_a := add_v3_v3v3 sv.v_co_orig (sv.dir_side 0)
  let co_b := add_v3_v3v3 sv.v_co_orig (sv.dir_side 1)
  if use_flip then interp_v3_v3v3 co_b co_a fac_final
  else interp_v3_v3v3 co_a co_b fac_final

/-- A vertex at the origin with the rails (-1,1,0) and (1,1,0): it lies off the
line through the rail endpoints, whose distance is 2. -/
def sv_bent : TransDataEdgeSlideVert := sample_sv ⟨0, 0, 0⟩ ⟨-1, 1, 0⟩ ⟨1, 1, 0⟩ 2

/-! ## The modal callback -/

/-- What `applyEdgeSlide` reads of the transform state beyond `TransInfo`, and
the functions of the transform framework it calls (outside the reviewed
source): `t->values[0]`, `t->values_modal_offset[0]`, the snapping functions
`transform_snap_mixed_apply`, `validSnap` and `transform_snap_increment`, and
the numeric input `t->num`, whose typed value is `num_val` while it is active. -/
structure ApplyExtern where
  values0 : ℚ
  values_modal_offset0 : ℚ
  transform_snap_mixed_apply : ℚ → ℚ
  validSnap : Bool
  transform_snap_increment : ℚ → ℚ
  num_val : Option ℚ

/-- Modelled from the spec: `hasNumInput` of the transform framework: numeric
input is active. -/
def hasNumInput (ext : ApplyExtern) : Bool := ext.num_val.isSome

/-- Modelled from the spec: `applyNumInput` of the transform framework: the
typed value replaces the value while numeric input is active. -/
def applyNumInput (ext : ApplyExtern) (final : ℚ) : ℚ :=
  match ext.num_val with
  | some v => v
  | none => final

/-- Modelled from the spec: the macro `CLAMP` of BLI utildefines. -/
def CLAMP (a b c : ℚ) : ℚ := if a < b then b else if a > c then c else a

/-- The value that `applyEdgeSlide` stores in `t->values_final[0]` (lines 1428-1451). -/
def applyEdgeSlide_final (ext : ApplyExtern) (t : TransInfo) : ℚ :=
  let is_clamp := !t.flag_alt_transform
  let is_constrained := !(is_clamp == false || hasNumInput ext)
  let final := ext.values0 + ext.values_modal_offset0
  let final := ext.transform_snap_mixed_apply final
  let final := if !ext.validSnap then ext.transform_snap_increment final else final
  let final := if is_constrained then CLAMP final (-1) 1 else final
  applyNumInput ext final

/-- The function `applyEdgeSlide`, without the header string: the value stored
in `t->values_final[0]` and the state after `doEdgeSlide`; `none` stands for a
null or out-of-range dereference in `doEdgeSlide`. -/
def applyEdgeSlide (ext : ApplyExtern) (t : TransInfo) : Option (ℚ × TransInfo) :=
  let final := applyEdgeSlide_final ext t
  match doEdgeSlide t final with
  | none => none
  | some t1 => some (final, t1)

/-- A modal state with the mouse value `v`, no modal offset, no snapping and
the numeric input `num_val`. -/
def sample_apply_ext (v : ℚ) (num_val : Option ℚ) : ApplyExtern :=
  ⟨v, 0, id, true, id, num_val⟩

/-! ## The snap adapter and the local matrix -/

/-- The first snap point of `edge_slide_snap_apply` (lines 1265-1275): the
original position of the record, in the space of the container's matrix when it
has one, displaced by the snap vector. -/
def snap_apply_point (t : TransInfo) (tc : TransDataContainer) (sv : TransDataEdgeSlideVert) :
    V3 :=
  let co_orig := if tc.use_local_mat then mul_m4_v3 tc.mat sv.v_co_orig else sv.v_co_orig
  add_v3_v3v3 co_orig (sub_v3_v3v3 t.tsnap.snap_target t.tsnap.snap_source)

/-- The snap point that `edge_slide_snap_apply` measures against the rail
`side_index` (lines 1289-1302): the first snap point, or for an edge or face
target the original position displaced by the result of the constraint. -/
def snap_apply_point_final (ext : SnapExtern) (t : TransInfo) (tc : TransDataContainer)
    (sv : TransDataEdgeSlideVert) (side_index : Fin 2) : V3 :=
  let co_orig := if tc.use_local_mat then mul_m4_v3 tc.mat sv.v_co_orig else sv.v_co_orig
  let co_dest :=
    if tc.use_local_mat then mul_m4_v3 tc.mat (add_v3_v3v3 sv.v_co_orig (sv.dir_side side_index))
    else add_v3_v3v3 sv.v_co_orig (sv.dir_side side_index)
  if t.tsnap.snap_to_edge || t.tsnap.snap_to_face then
    let co_dir := ext.normalize_v3 (sub_v3_v3v3 co_dest co_orig)
    let dvec :=
      if t.tsnap.snap_to_edge then ext.transform_constraint_snap_axis_to_edge t co_dir
      else ext.transform_constraint_snap_axis_to_face t co_dir
    add_v3_v3v3 co_orig dvec
  else snap_apply_point t tc sv

/-- The value of `edge_slide_snap_apply` for an active record with the original
position `co_orig` and the rail endpoints `co_dest`, all in the space of the
snap points, as a function of the first snap point `p` and of the snap point
`q` measured against each rail (lines 1277-1333). -/
def snap_apply_value (slp : EdgeSlideParams) (alt : Bool) (sv : TransDataEdgeSlideVert)
    (co_orig : V3) (co_dest : Fin 2 → V3) (p : V3) (q : Fin 2 → V3) (value : ℚ) : ℚ :=
  let t_mid : ℚ :=
    if slp.use_even = false then 0
    else line_point_factor_v3 zero_v3 (sv.dir_side 0) (sv.dir_side 1)
  let side_index : Fin 2 :=
    if slp.use_even = false then
      if !alt then side_of_neg value else slp.curr_side_unclamp
    else if line_point_factor_v3 p (co_dest 0) (co_dest 1) ≥ t_mid then 1 else 0
  let perc := line_point_factor_v3 (q side_index) co_orig (co_dest side_index)
  if slp.use_even = false then
    if side_index ≠ 0 then perc * -1 else perc
  else
    let perc := if side_index = 0 then (1 - perc) * t_mid else perc * (1 - t_mid) + t_mid
    let perc := if slp.flipped then 1 - perc else perc
    let perc := 2 * perc - 1
    if !slp.flipped then perc * -1 else perc

/-- The matrix of the scaling by `a`, `b` and `c` along the three axes. -/
def scale_m4 (a b c : ℚ) : M4 :=
  fun i j => if i = j then (if i = 0 then a else if i = 1 then b else if i = 2 then c else 1)
    else 0

/-- The state `sample_t` with the local matrix `m` on its container. -/
def sample_t_mat (sv : TransDataEdgeSlideVert) (alt use_even flipped : Bool) (side : Fin 2)
    (snap_point : V3) (m : M4) : TransInfo :=
  { sample_t sv alt use_even flipped side snap_point with
    data_container := [{ sample_tc sv with use_local_mat := true, mat := m }] }

/-- A vertex at the origin with the rails (1,1,0) and (-1,-1,0). -/
def sv_diag : TransDataEdgeSlideVert := sample_sv ⟨0, 0, 0⟩ ⟨1, 1, 0⟩ ⟨-1, -1, 0⟩ 1

/-! ## The initialisation of the mode -/

/-- The transform state as `initEdgeSlide_ex` reads and writes it: the parts of
`TransInfo` used by the mode, whether `t->state` is `TRANS_CANCEL`, the two
points last handed to `setCustomPoints` for `t->mouse` (`none` before any
call), and whether `initMouseInputMode` has put the mouse input in the mode
`INPUT_CUSTOM_RATIO_FLIP`. -/
structure TransInitState where
  t : TransInfo
  state_cancel : Bool
  mouse_custom_points : Option ((Int × Int) × (Int × Int))
  mouse_custom_ratio_flip : Bool

/-- The loop over the data containers of `initEdgeSlide_ex` (lines 1544-1552)
from container number `i` on, with the running flag `ok`: `build` is the
builder, `em i` the edit mesh of container `i`.  A container whose builder
returns data gets that data; `none` stands for a builder call that failed as
described at the builders. -/
def initEdgeSlide_ex_loop (build : BMesh → Option (Option EdgeSlideData)) (em : Nat → BMesh) :
    List TransDataContainer → Nat → Bool → Option (List TransDataContainer × Bool)
  | [], _, ok => some ([], ok)
  | tc :: rest, i, ok =>
    match build (em i) with
    | none => none
    | some none =>
      match initEdgeSlide_ex_loop build em rest (i + 1) ok with
      | none => none
      | some r => some (tc :: r.1, r.2)
    | some (some sld) =>
      match initEdgeSlide_ex_loop build em rest (i + 1) true with
      | none => none
      | some r => some ({ tc with custom_mode_data := some sld } :: r.1, r.2)

/-- The function `calcEdgeSlideCustomPoints`: the call of `setCustomPoints`
with `sld->mval_end` and `sld->mval_start` of the first slide data; `none`
when `edgeSlideFirstGet` dereferences a null container. -/
def calcEdgeSlideCustomPoints (s : TransInitState) : Option TransInitState :=
  match edgeSlideFirstGet s.t with
  | none => none
  | some sld => some { s with mouse_custom_points := some (sld.mval_end, sld.mval_start) }

/-- The function `initEdgeSlide_ex` (lines 1518-1571) up to the call of
`initMouseInputMode`; `em i` is the edit mesh of container `i`. -/
def initEdgeSlide_ex (sqrtf : ℚ → ℚ) (view : ViewExtern) (fuel : Nat) (em : Nat → BMesh)
    (s : TransInitState) (use_double_side use_even flipped use_clamp : Bool) :
    Option TransInitState :=
  let slp : EdgeSlideParams :=
    { perc := 0, curr_side_unclamp := 0, use_even := use_even,
      flipped := if use_double_side = false then !flipped else flipped }
  let t := { s.t with
    flag_alt_transform := if !use_clamp then true else s.t.flag_alt_transform
    custom_mode_data := slp }
  match initEdgeSlide_ex_loop
      (if use_double_side then createEdgeSlideVerts_double_side sqrtf view fuel
        else createEdgeSlideVerts_single_side sqrtf view fuel)
      em t.data_container 0 false with
  | none => none
  | some (tcs, ok) =>
    let s := { s with t := { t with data_container := tcs } }
    if !ok then some { s with state_cancel := true }
    else
      match calcEdgeSlideCustomPoints s with
      | none => none
      | some s => some { s with mouse_custom_ratio_flip := true }

/-- A container without custom data, as the transform framework creates it. -/
def fresh_tc : TransDataContainer where
  custom_mode_data := none
  use_local_mat := false
  mat := unit_m4
  co := fun _ => zero_v3

/-- A transform state with two fresh containers, not cancelled, and a mouse
input that has no custom points yet. -/
def fresh_init_state : TransInitState where
  t := { flag_alt_transform := false
         custom_mode_data := ⟨0, 0, false, false⟩
         data_container := [fresh_tc, fresh_tc]
         tsnap := ⟨zero_v3, zero_v3, false, false⟩ }
  state_cancel := false
  mouse_custom_points := none
  mouse_custom_ratio_flip := false

/-- Two edit meshes: container 0 holds the 2 by 2 grid with the middle column
selected, every other container the same grid with nothing selected. -/
def sample_em (i : Nat) : BMesh :=
  if i = 0 then grid_mesh 2 2 1 (flat_co 1) else grid_mesh 2 2 5 (flat_co 1)

/-! ## Notions used in the proofs about the exchange of the sides -/

/-- The direction and distance of every loop, up to the sign that the exchange
of the sides of the loops in `S` gives the direction. -/
def LoopDirRel (S : Int → Bool) (r r1 : MvalRange) : Prop :=
  r1.loop_maxdist = r.loop_maxdist ∧
  ∀ l, r1.loop_dir l = if S l then sub_v3_v3v3 zero_v3 (r.loop_dir l) else r.loop_dir l

/-! ## Notions used to state the wire pass of the single-sided builder -/

/-- Whether the walk over wire goes on over the edge `e` to the vertex
`v_other`: the edge and the vertex are selected, the vertex is an edge pair,
and it has no index in `sv_table` and is not among the vertices `visited` that
the walk has given an index. -/
def wire_eligible (bm : BMesh) (sv_table : Nat → Int) (visited : List Nat) (e v_other : Nat) :
    Bool :=
  (bm.edge e).select && (bm.vert v_other).select && decide (sv_table v_other = -1) &&
    !visited.contains v_other && BM_vert_is_edge_pair bm v_other

/-- The walk over wire from the vertex `v` along the edge `e` passes exactly the
vertices `vs`, in this order, and stops at the vertex `v_last`: every step goes
to the other vertex of the current edge and on to the next edge of its disk
cycle, and `v_last` is the first vertex at which the walk does not go on. -/
def wire_chain (bm : BMesh) (sv_table : Nat → Int) :
    List Nat → Nat → Nat → List Nat → Nat → Bool
  | visited, v, e, [], v_last =>
    decide (BM_edge_other_vert bm e v = some v_last) &&
      !wire_eligible bm sv_table visited e v_last
  | visited, v, e, u :: vs, v_last =>
    decide (BM_edge_other_vert bm e v = some u) && wire_eligible bm sv_table visited e u &&
      wire_chain bm sv_table (visited ++ [u]) u (BM_DISK_EDGE_NEXT bm e u) vs v_last

/-- What the wire pass keeps true of the vertices that are not edge pairs: one
with an index in `sv_table` has its record, in use, at that index. -/
def WireRec (bm : BMesh) (st : SingleSideState) : Prop :=
  ∀ v, st.sv_table v ≠ -1 → BM_vert_is_edge_pair bm v = false →
    (st.sv_table v).toNat < st.sv_tot ∧
    ∃ sv, st.sv_array[(st.sv_table v).toNat]? = some sv ∧ sv.v = v

/-- The interpolated direction of line 1030 for the record `sv`, between the
directions of the records `sv_iter` and `sv_end`. -/
def single_side_interp_dir (bm : BMesh) (co_src co_dst : V3)
    (sv_iter sv_end sv : TransDataEdgeSlideVert) : TransDataEdgeSlideVert :=
  { sv with
    dir_side := Function.update sv.dir_side 0
      (interp_v3_v3v3 (sv_iter.dir_side 0) (sv_end.dir_side 0)
        (line_point_factor_v3 (bm.vert sv.v).co co_src co_dst)) }

/-- A mesh of wire edges: the selected edges 0 (vertices 0 and 1) and 1
(vertices 1 and 2) in a line along x, and two unselected edges at each of the
vertices 0 and 2, to the vertices 3, 4 and 5, 6; `v->e` of the vertices 0 and 2
is the longer of their unselected edges. -/
def wire_mesh : BMesh where
  totvert := 7
  totedge := 6
  totloop := 0
  totface := 0
  vert := fun v =>
    if v = 0 then { co := ⟨0, 0, 0⟩, e := some 2, select := true, disk := [0, 2, 3] }
    else if v = 1 then { co := ⟨1, 0, 0⟩, e := some 0, select := true, disk := [0, 1] }
    else if v = 2 then { co := ⟨2, 0, 0⟩, e := some 4, select := true, disk := [1, 4, 5] }
    else if v = 3 then { co := ⟨0, 1, 0⟩, e := some 2, select := false, disk := [2] }
    else if v = 4 then { co := ⟨0, -1 / 2, 0⟩, e := some 3, select := false, disk := [3] }
    else if v = 5 then { co := ⟨2, 2, 0⟩, e := some 4, select := false, disk := [4] }
    else { co := ⟨2, -1 / 2, 0⟩, e := some 5, select := false, disk := [5] }
  edge := fun e =>
    if e = 0 then { v1 := 0, v2 := 1, l := none, select := true }
    else if e = 1 then { v1 := 1, v2 := 2, l := none, select := true }
    else if e = 2 then { v1 := 0, v2 := 3, l := none, select := false }
    else if e = 3 then { v1 := 0, v2 := 4, l := none, select := false }
    else if e = 4 then { v1 := 2, v2 := 5, l := none, select := false }
    else { v1 := 2, v2 := 6, l := none, select := false }
  loop := fun _ => { v := 0, e := 0, f := 0, radial_next := 0, next := 0, prev := 0 }
  face := fun _ => { l_first := 0, len := 0, no := ⟨0, 0, 1⟩ }

/-- The state of the single-sided builder on `wire_mesh` after its second loop:
the primary records of the vertices 0 and 2. -/
def wire_state : SingleSideState where
  sv_table := fun v => if v = 0 then 0 else if v = 2 then 1 else -1
  sv_array :=
    [single_side_set_primary wire_mesh 0 3 sv_calloc,
     single_side_set_primary wire_mesh 2 5 sv_calloc, sv_calloc]
  sv_tot := 2

/-! ## Connected components of the selection -/

/-- Two vertices joined by a selected edge: a selected edge of the disk cycle of
`a` leads to `b`. -/
def sel_adj (bm : BMesh) (a b : Nat) : Prop :=
  ∃ e ∈ (bm.vert a).disk, (bm.edge e).select = true ∧ BM_edge_other_vert bm e a = some b

/-- Two vertices connected by a path of selected edges. -/
def SelConnected (bm : BMesh) (a b : Nat) : Prop := Relation.ReflTransGen (sel_adj bm) a b

/-- What one pass of the outer loop of `createEdgeSlideVerts_double_side` that
starts from the vertex `u` with the loop number `n` does to the state `st`: it
removes tags only, keeps the mesh, and every record of the result `r` is a
record of `st` with its vertex and loop number, or has the loop number `n` and
a vertex connected to `u`. -/
def LoopFrame (bm : BMesh) (n : Int) (u : Nat) (st r : DoubleSideState) : Prop :=
  (∀ x, r.tag x = true → st.tag x = true) ∧ r.bm = st.bm ∧
  ∀ (idx : Nat) (sv1 : TransDataEdgeSlideVert), r.sv_array[idx]? = some sv1 →
    (∃ sv0, st.sv_array[idx]? = some sv0 ∧ sv0.v = sv1.v ∧ sv0.loop_nr = sv1.loop_nr) ∨
    (sv1.loop_nr = n ∧ SelConnected bm u sv1.v)

/-- What holds of the loop numbers between two passes of the outer loop, with
`reps` the vertices the passes so far were started for: no vertex of a record
is tagged; the record of a vertex connected to `reps[k]` has the loop number
`k`; and `reps[k]` is the first selected vertex of the mesh that is not
connected to an earlier one of `reps`. -/
structure LoopInv (bm : BMesh) (st : DoubleSideState) (reps : List Nat) : Prop where
  untag : ∀ sv ∈ st.sv_array, st.tag sv.v = false
  rec_rep : ∀ sv ∈ st.sv_array, ∃ (k u : Nat), sv.loop_nr = (k : Int) ∧ reps[k]? = some u ∧
    SelConnected bm u sv.v
  rep_ok : ∀ (k u : Nat), reps[k]? = some u →
    u < bm.totvert ∧ (bm.vert u).select = true ∧ st.tag u = false ∧
    (∀ (i w : Nat), i < k → reps[i]? = some w → ¬ SelConnected bm w u) ∧
    (∀ x, x < bm.totvert → (bm.vert x).select = true →
      (∀ (i w : Nat), i < k → reps[i]? = some w → ¬ SelConnected bm w x) → u ≤ x)

/-! ## Chain ends on the mesh boundary -/

/-- The consistency of the loop tables that the mesh library keeps (its code is
outside the reviewed source): the loops reached from a loop of the mesh are
loops of the mesh, the radial cycle of a loop stays on its edge, `e->l` is a
loop of the edge `e`, and an edge with one or two faces has no loop outside the
radial cycle of length one or two that starts at `e->l`. -/
def LoopOK (bm : BMesh) : Prop :=
  (∀ l, l < bm.totloop →
    (bm.loop l).next < bm.totloop ∧ (bm.loop l).prev < bm.totloop ∧
    (bm.loop l).radial_next < bm.totloop ∧
    (bm.loop (bm.loop l).radial_next).e = (bm.loop l).e) ∧
  ∀ e, e < bm.totedge → ∀ l0, (bm.edge e).l = some l0 →
    l0 < bm.totloop ∧ (bm.loop l0).e = e ∧
    ((BM_edge_is_manifold bm e = true ∨ BM_edge_is_boundary bm e = true) →
      ∀ l, l < bm.totloop → (bm.loop l).e = e → l = l0 ∨ l = (bm.loop l0).radial_next)

/-- The vertex `v` is the end of a chain of selected edges on the mesh boundary:
it is a selected vertex whose only selected edge is `e`, and each face at `e`
(the face of `e->l` and of its radial neighbour) is bounded at `v` by `e` and by
a boundary edge, which is not of length zero. -/
def EndCond (bm : BMesh) (v e : Nat) : Prop :=
  v < bm.totvert ∧ (bm.vert v).select = true ∧ e ∈ (bm.vert v).disk ∧
  (bm.edge e).select = true ∧
  (∀ x ∈ (bm.vert v).disk, (bm.edge x).select = true → x = e) ∧
  ∃ l0, (bm.edge e).l = some l0 ∧
    ∀ l, l = l0 ∨ l = (bm.loop l0).radial_next →
      ∃ l_tmp w, BM_loop_other_edge_loop bm l v = some l_tmp ∧
        BM_edge_is_boundary bm (bm.loop l_tmp).e = true ∧
        BM_edge_other_vert bm (bm.loop l_tmp).e v = some w ∧
        (bm.vert w).co ≠ (bm.vert v).co

/-- The rails of the record of a chain end with the selected edge `e`: one of
them is not zero, and both are not zero when `e` has two faces. -/
def EndRails (bm : BMesh) (e : Nat) (sv : TransDataEdgeSlideVert) : Prop :=
  (sv.dir_side 0 ≠ zero_v3 ∨ sv.dir_side 1 ≠ zero_v3) ∧
  (BM_edge_is_manifold bm e = true → sv.dir_side 0 ≠ zero_v3 ∧ sv.dir_side 1 ≠ zero_v3)

/-- What holds at the head of the forward walk of the double-sided builder for
the rails of chain ends: the walk is at a selected vertex with a selected edge
of its disk cycle; the side loops are loops of the mesh on that edge, one of
them is not null, and both are not null when the edge has two faces; the
records of chain ends on the stack have their rails; and when the vertex of
the walk is a chain end, the directions in hand for its sides are not zero. -/
structure RailInv (bm : BMesh) (w : DoubleSideWalk) : Prop where
  bm_eq : w.st.bm = bm
  pos : ChainPos bm (w.v, w.e)
  la : ∀ l, w.l_a = some l → l < bm.totloop ∧ (bm.loop l).e = w.e
  lb : ∀ l, w.l_b = some l → l < bm.totloop ∧ (bm.loop l).e = w.e
  some_l : w.l_a.isSome = true ∨ w.l_b.isSome = true
  cover : BM_edge_is_manifold bm w.e = true → w.l_a.isSome = true ∧ w.l_b.isSome = true
  full : ∀ sv ∈ w.st.sv_array, ∀ e, EndCond bm sv.v e → EndRails bm e sv
  here : ∀ e, EndCond bm w.v e →
    (w.l_a.isSome = true → w.vec_a ≠ zero_v3) ∧ (w.l_b.isSome = true → w.vec_b ≠ zero_v3)

/-! ## Notions used to state the termination of the walks -/

/-- The `k`-fold iteration of a step that may fail: `none` once a step has failed. -/
def opt_iter {α : Type} (f : α → Option α) : Nat → α → Option α
  | 0, x => some x
  | k + 1, x => (opt_iter f k x).bind f
/-! ## Notions used to state the termination of `get_next_loop` -/

/-- Modelled from the spec: `BM_vert_in_edge` of the mesh library: `v` is an end of `e`. -/
def BM_vert_in_edge (bm : BMesh) (e v : Nat) : Bool :=
  decide ((bm.edge e).v1 = v) || decide ((bm.edge e).v2 = v)

/-- The consistency of the loop and face tables that the mesh library keeps (its
code is outside the reviewed source).  The loops reached from a loop of the
mesh are loops of the mesh; `next` and `prev` are inverse to each other and stay
in the face; `radial_next` is one-to-one and stays on the edge, as it is when
the loops of an edge form one radial cycle; the edge of a loop joins the vertex
of the loop to the vertex of the next loop, which are different, and the
vertices of the previous and the next loop are different, as they are in a face
with three or more corners at different vertices; and every loop is reached from
the first loop of its face in fewer `next` steps than the face has corners, as
it is when the loops of a face form one cycle. -/
structure FanOK (bm : BMesh) : Prop where
  next_lt : ∀ l, l < bm.totloop → (bm.loop l).next < bm.totloop
  prev_lt : ∀ l, l < bm.totloop → (bm.loop l).prev < bm.totloop
  radial_lt : ∀ l, l < bm.totloop → (bm.loop l).radial_next < bm.totloop
  next_prev : ∀ l, l < bm.totloop → (bm.loop (bm.loop l).next).prev = l
  prev_next : ∀ l, l < bm.totloop → (bm.loop (bm.loop l).prev).next = l
  next_f : ∀ l, l < bm.totloop → (bm.loop (bm.loop l).next).f = (bm.loop l).f
  radial_e : ∀ l, l < bm.totloop → (bm.loop (bm.loop l).radial_next).e = (bm.loop l).e
  radial_inj : ∀ l, l < bm.totloop → ∀ l1, l1 < bm.totloop →
    (bm.loop l).radial_next = (bm.loop l1).radial_next → l = l1
  ends : ∀ l, l < bm.totloop →
    ((bm.edge (bm.loop l).e).v1 = (bm.loop l).v ∧
      (bm.edge (bm.loop l).e).v2 = (bm.loop (bm.loop l).next).v) ∨
    ((bm.edge (bm.loop l).e).v1 = (bm.loop (bm.loop l).next).v ∧
      (bm.edge (bm.loop l).e).v2 = (bm.loop l).v)
  corner_ne : ∀ l, l < bm.totloop →
    (bm.loop l).v ≠ (bm.loop (bm.loop l).next).v ∧
    (bm.loop (bm.loop l).prev).v ≠ (bm.loop (bm.loop l).next).v
  face_first : ∀ l, l < bm.totloop →
    (bm.face (bm.loop l).f).l_first < bm.totloop ∧
    ∃ k, k < (bm.face (bm.loop l).f).len ∧
      Nat.iterate (fun x => (bm.loop x).next) k (bm.face (bm.loop l).f).l_first = l

/-- The face corners whose edge contains `v`: the loops of the mesh with `v` at
an end of their edge. -/
def fan_corners (bm : BMesh) (v : Nat) : List Nat :=
  (List.range bm.totloop).filter (fun l => BM_vert_in_edge bm (bm.loop l).e v)

/-- One turn of the do-while loop of `get_next_loop` that does not return: from
the loop `l` to the other edge of its face at `v`, and over that edge to the
next loop of its radial cycle. -/
def fan_step (bm : BMesh) (v l : Nat) : Option Nat :=
  (BM_loop_other_edge_loop bm l v).map (fun m => (bm.loop m).radial_next)

/-- The loops with which the body of the do-while loop of `get_next_loop` is
entered, in order, from the loop `l0` on. -/
def get_next_loop_starts (bm : BMesh) (v l_first e_next : Nat) : Nat → Nat → List Nat
  | 0, _ => []
  | fuel + 1, l0 =>
    l0 ::
      (match BM_loop_other_edge_loop bm l0 v with
      | none => []
      | some l =>
        if (bm.loop l).e = e_next then []
        else
          match BM_edge_other_vert bm (bm.loop l).e v with
          | none => []
          | some _ =>
            match BM_loop_other_edge_loop bm l v with
            | none => []
            | some l_other =>
              if (bm.loop l_other).e = e_next then []
              else if l ≠ (bm.loop l).radial_next ∧ (bm.loop l).radial_next ≠ l_first then
                get_next_loop_starts bm v l_first e_next fuel (bm.loop l).radial_next
              else [])

/-- The walk of `get_next_loop` that has entered the body of its do-while loop
with the loops `starts` has not met `e_next` and has stopped at a boundary
loop or come back to the loop `l_first` it has started from: no loop of
`starts` and no loop stepped to from one of them is on `e_next`, and the loop
`m` stepped to from the last of `starts` is its own radial neighbour or has
`l_first` as its radial neighbour. -/
def get_next_loop_stopped (bm : BMesh) (v l_first e_next : Nat) (starts : List Nat) : Prop :=
  (∀ x ∈ starts, (bm.loop x).e ≠ e_next ∧
    ∀ m, BM_loop_other_edge_loop bm x v = some m → (bm.loop m).e ≠ e_next) ∧
  ∃ x m, starts.getLast? = some x ∧ BM_loop_other_edge_loop bm x v = some m ∧
    ((bm.loop m).radial_next = m ∨ (bm.loop m).radial_next = l_first)

/-! ## Notions used to state the termination of the double-sided builder -/

/-- One run of the body of the forward walk of `createEdgeSlideVerts_double_side`
(lines 716-846) with the variables `w`.  The result is the state with which the
do-while loop is left (`Sum.inl`: after the `break` of line 784, or when the
condition of line 846 fails), or the variables with which the body is entered
again (`Sum.inr`). -/
def double_side_walk_step (sqrtf : ℚ → ℚ) (fuel_l : Nat) (loop_nr : Int)
    (v_first_e : Option Nat) (w : DoubleSideWalk) : Option (DoubleSideState ⊕ DoubleSideWalk) :=
  let bm := w.st.bm
  match double_side_init_sv w.st w.v loop_nr with
  | none => none
  | some (st, idx) =>
  match double_side_set_side bm st idx 0 w.v w.l_a w.l_a_prev w.vec_a with
  | none => none
  | some st =>
  match double_side_set_side bm st idx 1 w.v w.l_b w.l_b_prev w.vec_b with
  | none => none
  | some st =>
  let v_prev := w.v
  match BM_edge_other_vert bm w.e w.v with
  | none => none
  | some v =>
  let e_prev := w.e
  match get_other_edge bm v w.e with
  | none =>
    match double_side_init_sv st v loop_nr with
    | none => none
    | some (st, idx) =>
    match double_side_end_side sqrtf bm fuel_l st idx 0 v w.l_a e_prev with
    | none => none
    | some st =>
    match double_side_end_side sqrtf bm fuel_l st idx 1 v w.l_b e_prev with
    | none => none
    | some st =>
      some (Sum.inl
        { st with tag := Function.update (Function.update st.tag v false) v_prev false })
  | some e =>
    let l_a_ok_prev := w.l_a.isSome
    let l_b_ok_prev := w.l_b.isSome
    match double_side_next_side sqrtf bm fuel_l v w.l_a e_prev e with
    | none => none
    | some (l_a, vec_a) =>
    match double_side_next_side sqrtf bm fuel_l v w.l_b e_prev e with
    | none => none
    | some (l_b, vec_b) =>
    match double_side_recover sqrtf bm fuel_l v e e_prev l_a_ok_prev l_b_ok_prev
        l_a l_b vec_a vec_b with
    | none => none
    | some (l_a, l_b, vec_a, vec_b) =>
      let st := { st with tag := Function.update (Function.update st.tag v false) v_prev false }
      if some e ≠ v_first_e ∧ (l_a.isSome ∨ l_b.isSome) then
        some (Sum.inr
          { st := st, v := v, e := e, l_a := l_a, l_b := l_b, l_a_prev := w.l_a,
            l_b_prev := w.l_b, vec_a := vec_a, vec_b := vec_b })
      else some (Sum.inl st)

/-- The variables with which the body of the forward walk is entered, run after
run, from the variables `w` on. -/
def double_side_walk_steps (sqrtf : ℚ → ℚ) (fuel_l : Nat) (loop_nr : Int)
    (v_first_e : Option Nat) : Nat → DoubleSideWalk → List DoubleSideWalk
  | 0, _ => []
  | fuel + 1, w =>
    w ::
      (match double_side_walk_step sqrtf fuel_l loop_nr v_first_e w with
      | some (Sum.inr w1) => double_side_walk_steps sqrtf fuel_l loop_nr v_first_e fuel w1
      | _ => [])

/-- The edges over which the rewind loop of `createEdgeSlideVerts_double_side`
(lines 646-658) steps to their other vertex (line 657), in order, from the
vertex `v` and the edge `e` on. -/
def double_side_rewind_edges (bm : BMesh) (tag : Nat → Bool) (v_first_e : Nat) :
    Nat → Nat → Nat → List Nat
  | 0, _, _ => []
  | fuel + 1, v, e =>
    match get_other_edge bm v e with
    | none => []
    | some e1 =>
      match BM_edge_other_vert bm e1 v with
      | none => []
      | some v_other =>
        if !tag v_other then []
        else
          e1 :: (if e1 ≠ v_first_e then double_side_rewind_edges bm tag v_first_e fuel v_other e1
            else [])

/-- The part of one pass of the outer loop of `createEdgeSlideVerts_double_side`
before the forward walk (lines 640-715), for the tagged vertex `v` found by the
search: the variables with which the body of the forward walk is entered first. -/
def double_side_pass_start (sqrtf : ℚ → ℚ) (fuel : Nat) (st : DoubleSideState) (v : Nat)
    (e0 : Nat) : Option DoubleSideWalk :=
  let bm := st.bm
  match double_side_rewind bm st.tag e0 fuel v e0 with
  | none => none
  | some (v, e) =>
    let st := { st with tag := Function.update st.tag v false }
    match (bm.edge e).l with
    | none => none
    | some l_a =>
      let l_b := (bm.loop l_a).radial_next
      match double_side_start_rail sqrtf bm fuel v l_a e with
      | none => none
      | some vec_a =>
        let vec_b : Option V3 :=
          if l_b ≠ l_a then double_side_start_rail sqrtf bm fuel v l_b e else some zero_v3
        match vec_b with
        | none => none
        | some vec_b =>
          some { st := st, v := v, e := e, l_a := some l_a,
                 l_b := if l_b ≠ l_a then some l_b else none,
                 l_a_prev := none, l_b_prev := none, vec_a := vec_a, vec_b := vec_b }

/-- The states with which the body of the outer loop of
`createEdgeSlideVerts_double_side` is run for a tagged vertex (line 636), pass
after pass, from the state `st` on. -/
def double_side_loop_heads (sqrtf : ℚ → ℚ) (fuel_l : Nat) :
    Nat → DoubleSideState → Int → List DoubleSideState
  | 0, _, _ => []
  | fuel + 1, st, loop_nr =>
    match (List.range st.bm.totvert).find? (fun v => st.tag v) with
    | none => []
    | some v =>
      st ::
        (match (st.bm.vert v).e with
        | none => double_side_loop_heads sqrtf fuel_l fuel st loop_nr
        | some e0 =>
          match double_side_pass sqrtf fuel_l st loop_nr v e0 with
          | none => []
          | some st1 => double_side_loop_heads sqrtf fuel_l fuel st1 (loop_nr + 1))

/-- The state of `createEdgeSlideVerts_double_side` before the first pass of its
outer loop (lines 579-608) on the mesh `bm` that has passed the validation:
the selected vertices are tagged and have no record. -/
def double_side_first_state (bm : BMesh) : DoubleSideState where
  bm := bm
  tag := fun v => decide (v < bm.totvert) && (bm.vert v).select
  sv_table := fun v => if (bm.vert v).select then INDEX_UNSET else INDEX_INVALID
  sv_array := []

/-- What every run of the body of the forward walk relies on: the side loops
are loops of the mesh on the edge of the walk and one of them is not null; the
previous side loops are loops of the mesh whose edge contains the vertex of the
walk; and `sv_table` has `INDEX_UNSET` or an index for every selected vertex. -/
structure WalkOK (bm : BMesh) (w : DoubleSideWalk) : Prop where
  la : ∀ l, w.l_a = some l → l < bm.totloop ∧ (bm.loop l).e = w.e
  lb : ∀ l, w.l_b = some l → l < bm.totloop ∧ (bm.loop l).e = w.e
  some_l : w.l_a.isSome = true ∨ w.l_b.isSome = true
  lap : ∀ l, w.l_a_prev = some l →
    l < bm.totloop ∧ BM_vert_in_edge bm (bm.loop l).e w.v = true
  lbp : ∀ l, w.l_b_prev = some l →
    l < bm.totloop ∧ BM_vert_in_edge bm (bm.loop l).e w.v = true
  table : ∀ x, x < bm.totvert → (bm.vert x).select = true →
    w.st.sv_table x = INDEX_UNSET ∨ 0 ≤ w.st.sv_table x

/-! ## Single-precision rounding

The definitions above take every `float` operation as exact.  The definitions
of this section repeat the apply engine and the snap adapter with the result
of every arithmetic operation rounded to IEEE 754 binary32 (round to nearest,
ties to even, each operation rounded on its own, no fused multiply-add), to
measure what the rounding does to the round trip. -/

/-- The number of binary digits of `n`, by repeated halving; `fuel` bounds the
number of halvings. -/
def bit_length_aux : Nat → Nat → Nat
  | 0, _ => 0
  | fuel + 1, n => if n = 0 then 0 else bit_length_aux fuel (n / 2) + 1

/-- The number of binary digits of `n`: 0 for 0, and `⌊log2 n⌋ + 1` otherwise. -/
def bit_length (n : Nat) : Nat := bit_length_aux n n

/-- The exponent of the unit in the last place of the binary32 values around
`q`: `⌊log2 |q|⌋ - 23` for a normal value, and -149 in the subnormal range. -/
def f32_ulp_exp (q : ℚ) : ℤ :=
  let n := q.num.natAbs
  let d := q.den
  let k : ℤ := (bit_length n : ℤ) - (bit_length d : ℤ)
  let fl : ℤ := if d * 2 ^ k.toNat ≤ n * 2 ^ (-k).toNat then k else k - 1
  max (fl - 23) (-149)

/-- Rounding of a rational to the nearest integer, ties to the even one. -/
def round_half_even (s : ℚ) : ℤ :=
  let m := ⌊s⌋
  let r := s - m
  if r < 1 / 2 then m else if 1 / 2 < r then m + 1 else if m % 2 = 0 then m else m + 1

/-- The binary32 value nearest to `q`, ties to even, subnormal values
included.  Values beyond the binary32 range are not turned into infinities. -/
def f32 (q : ℚ) : ℚ :=
  let e := f32_ulp_exp q
  if 0 ≤ e then (round_half_even (q / 2 ^ e.toNat) : ℚ) * 2 ^ e.toNat
  else (round_half_even (q * 2 ^ (-e).toNat) : ℚ) / 2 ^ (-e).toNat

/-- Modelled from the spec: `add_v3_v3v3` of BLI math in binary32. -/
def add_v3_v3v3_f32 (a b : V3) : V3 := ⟨f32 (a.x + b.x), f32 (a.y + b.y), f32 (a.z + b.z)⟩

/-- Modelled from the spec: `sub_v3_v3v3` of BLI math in binary32. -/
def sub_v3_v3v3_f32 (a b : V3) : V3 := ⟨f32 (a.x - b.x), f32 (a.y - b.y), f32 (a.z - b.z)⟩

/-- Modelled from the spec: `madd_v3_v3fl` of BLI math in binary32, `r += a * f`
with the product rounded before the sum. -/
def madd_v3_v3fl_f32 (r a : V3) (f : ℚ) : V3 :=
  ⟨f32 (r.x + f32 (a.x * f)), f32 (r.y + f32 (a.y * f)), f32 (r.z + f32 (a.z * f))⟩

/-- Modelled from the spec: `dot_v3v3` of BLI math in binary32, summed left to right. -/
def dot_v3v3_f32 (a b : V3) : ℚ :=
  f32 (f32 (f32 (a.x * b.x) + f32 (a.y * b.y)) + f32 (a.z * b.z))

/-- Modelled from the spec: `len_squared_v3` of BLI math in binary32. -/
def len_squared_v3_f32 (a : V3) : ℚ := dot_v3v3_f32 a a

/-- Modelled from the spec: `interp_v3_v3v3` of BLI math in binary32. -/
def interp_v3_v3v3_f32 (a b : V3) (t : ℚ) : V3 :=
  let s := f32 (1 - t)
  ⟨f32 (f32 (s * a.x) + f32 (t * b.x)), f32 (f32 (s * a.y) + f32 (t * b.y)),
   f32 (f32 (s * a.z) + f32 (t * b.z))⟩

/-- Modelled from the spec: `line_point_factor_v3` of BLI math in binary32. -/
def line_point_factor_v3_f32 (p l1 l2 : V3) : ℚ :=
  let u := sub_v3_v3v3_f32 l2 l1
  let h := sub_v3_v3v3_f32 p l1
  let dot := len_squared_v3_f32 u
  if dot > 0 then f32 (dot_v3v3_f32 u h / dot) else 0

/-- Modelled from the spec: `mul_m4_v3` of BLI math in binary32, summed left to right. -/
def mul_m4_v3_f32 (m : M4) (r : V3) : V3 :=
  ⟨f32 (f32 (f32 (f32 (r.x * m 0 0) + f32 (r.y * m 1 0)) + f32 (m 2 0 * r.z)) + m 3 0),
   f32 (f32 (f32 (f32 (r.x * m 0 1) + f32 (r.y * m 1 1)) + f32 (m 2 1 * r.z)) + m 3 1),
   f32 (f32 (f32 (f32 (r.x * m 0 2) + f32 (r.y * m 1 2)) + f32 (m 2 2 * r.z)) + m 3 2)⟩

/-- The function `interp_line_v3_v3v3v3` in binary32. -/
def interp_line_v3_v3v3v3_f32 (v1 v2 v3 : V3) (t : ℚ) : V3 :=
  let t_mid := line_point_factor_v3_f32 v2 v1 v3
  let t_delta := f32 (t - t_mid)
  if t_delta < 0 then
    if fabsf t_mid < FLT_EPSILON then v2
    else interp_v3_v3v3_f32 v1 v2 (f32 (t / t_mid))
  else
    let t1 := f32 (t - t_mid)
    let t_mid1 := f32 (1 - t_mid)
    if fabsf t_mid1 < FLT_EPSILON then v3
    else interp_v3_v3v3_f32 v2 v3 (f32 (t1 / t_mid1))

/-- The function `edge_slide_apply_elem` in binary32. -/
def edge_slide_apply_elem_f32 (sv : TransDataEdgeSlideVert) (fac curr_length_fac : ℚ)
    (curr_side_unclamp : Fin 2) (use_clamp use_even use_flip : Bool) : V3 :=
  let r_co := sv.v_co_orig
  if use_even = false then
    if use_clamp then
      let side_index := side_of_neg fac
      let fac_final := fabsf fac
      madd_v3_v3fl_f32 r_co (sv.dir_side side_index) fac_final
    else
      let side_index := curr_side_unclamp
      let side_index := if is_zero_v3 (sv.dir_side side_index) then side_not side_index
        else side_index
      let fac_final := if side_index = side_of_neg fac then fabsf fac else -fabsf fac
      madd_v3_v3fl_f32 r_co (sv.dir_side side_index) fac_final
  else
    if sv.edge_len > FLT_EPSILON then
      let fac_final := f32 (min_ff sv.edge_len curr_length_fac / sv.edge_len)
      let co_a := add_v3_v3v3_f32 sv.v_co_orig (sv.dir_side 0)
      let co_b := add_v3_v3v3_f32 sv.v_co_orig (sv.dir_side 1)
      if use_flip then interp_line_v3_v3v3v3_f32 co_b sv.v_co_orig co_a fac_final
      else interp_line_v3_v3v3v3_f32 co_a sv.v_co_orig co_b fac_final
    else r_co

/-- The expression of `doEdgeSlide` for `curr_length_fac` in even mode, in
binary32: `edge_len * (((use_flip ? perc : -perc) + 1.0f) / 2.0f)`. -/
def even_curr_length_fac_f32 (active_edge_len perc : ℚ) (use_flip : Bool) : ℚ :=
  f32 (active_edge_len * f32 (f32 ((if use_flip then perc else -perc) + 1) / 2))

/-- The function `edge_slide_snap_apply` in binary32; the result is the new
`*value`, and `none` stands for a null or out-of-range dereference. -/
def edge_slide_snap_apply_f32 (ext : SnapExtern) (t : TransInfo) (value : ℚ) : Option ℚ :=
  match edge_slide_container_first_ok t with
  | none => none
  | some tc =>
    match tc.custom_mode_data with
    | none => none
    | some sld_active =>
      match sld_active.sv[sld_active.curr_sv_index]? with
      | none => none
      | some sv =>
        let slp := t.custom_mode_data
        let co_orig := sv.v_co_orig
        let co_dest0 := add_v3_v3v3_f32 co_orig (sv.dir_side 0)
        let co_dest1 := add_v3_v3v3_f32 co_orig (sv.dir_side 1)
        let co_orig := if tc.use_local_mat then mul_m4_v3_f32 tc.mat co_orig else co_orig
        let co_dest0 := if tc.use_local_mat then mul_m4_v3_f32 tc.mat co_dest0 else co_dest0
        let co_dest1 := if tc.use_local_mat then mul_m4_v3_f32 tc.mat co_dest1 else co_dest1
        let co_dest : Fin 2 → V3 := fun i => if i = 0 then co_dest0 else co_dest1
        let dvec := sub_v3_v3v3_f32 t.tsnap.snap_target t.tsnap.snap_source
        let snap_point := add_v3_v3v3_f32 co_orig dvec
        let perc := value
        let t_mid : ℚ :=
          if slp.use_even = false then 0
          else line_point_factor_v3_f32 zero_v3 (sv.dir_side 0) (sv.dir_side 1)
        let side_index : Fin 2 :=
          if slp.use_even = false then
            let is_clamp := !t.flag_alt_transform
            if is_clamp then side_of_neg perc else slp.curr_side_unclamp
          else
            let t_snap := line_point_factor_v3_f32 snap_point co_dest0 co_dest1
            if t_snap ≥ t_mid then 1 else 0
        let snap_point :=
          if t.tsnap.snap_to_edge || t.tsnap.snap_to_face then
            let co_dir := ext.normalize_v3 (sub_v3_v3v3_f32 (co_dest side_index) co_orig)
            let dvec :=
              if t.tsnap.snap_to_edge then ext.transform_constraint_snap_axis_to_edge t co_dir
              else ext.transform_constraint_snap_axis_to_face t co_dir
            add_v3_v3v3_f32 co_orig dvec
          else snap_point
        let perc := line_point_factor_v3_f32 snap_point co_orig (co_dest side_index)
        let perc :=
          if slp.use_even = false then
            if side_index ≠ 0 then perc * -1 else perc
          else
            let perc := if side_index = 0 then f32 (f32 (1 - perc) * t_mid)
              else f32 (f32 (perc * f32 (1 - t_mid)) + t_mid)
            let perc := if slp.flipped then f32 (1 - perc) else perc
            let perc := f32 (f32 (2 * perc) - 1)
            if !slp.flipped then perc * -1 else perc
        some perc

/-- A vertex far from the origin, at (100,0,0), between the rail endpoints
(100 + 1/16,0,0) and (100 - 1/16,0,0); `edge_len` is their distance 1/8.  All
the coordinates are binary32 values. -/
def sv_far : TransDataEdgeSlideVert := sample_sv ⟨100, 0, 0⟩ ⟨1 / 16, 0, 0⟩ ⟨-1 / 16, 0, 0⟩ (1 / 8)

/-! ## Theorems: apply engine -/

theorem fabsf_eq_abs (a : ℚ) : fabsf a = |a| := by
  unfold fabsf
  split_ifs with h
  · exact (abs_of_neg h).symm
  · exact (abs_of_nonneg (not_lt.mp h)).symm

theorem is_zero_v3_iff (a : V3) : is_zero_v3 a = true ↔ a = zero_v3 := by
  simp [is_zero_v3, zero_v3, V3.ext_iff, and_assoc]

/-- C9: in non-even mode with clamp on, for every record and every control
value, `edge_slide_apply_elem` returns `v_co_orig + dir_side[side] * |fac|`
with `side = 1` when `fac < 0` and `side = 0` otherwise. -/
theorem apply_elem_clamp_formula (sv : TransDataEdgeSlideVert) (fac curr_length_fac : ℚ)
    (curr_side_unclamp : Fin 2) (use_flip : Bool) :
    edge_slide_apply_elem sv fac curr_length_fac curr_side_unclamp true false use_flip =
      ⟨sv.v_co_orig.x + (sv.dir_side (if fac < 0 then 1 else 0)).x * |fac|,
       sv.v_co_orig.y + (sv.dir_side (if fac < 0 then 1 else 0)).y * |fac|,
       sv.v_co_orig.z + (sv.dir_side (if fac < 0 then 1 else 0)).z * |fac|⟩ := by
  simp [edge_slide_apply_elem, madd_v3_v3fl, side_of_neg, fabsf_eq_abs]

/-- C2: in non-even mode with clamp on, for every record and every control
value in [-1, 1], the position computed by `edge_slide_apply_elem` lies on the
closed segment from `v_co_orig` to `v_co_orig + dir_side[s]`, where `s = 1` if
`fac < 0` and `s = 0` otherwise. -/
theorem apply_elem_clamp_on_segment (sv : TransDataEdgeSlideVert) (fac curr_length_fac : ℚ)
    (curr_side_unclamp : Fin 2) (use_flip : Bool) (h_lo : -1 ≤ fac) (h_hi : fac ≤ 1) :
    on_segment sv.v_co_orig
      (add_v3_v3v3 sv.v_co_orig (sv.dir_side (if fac < 0 then 1 else 0)))
      (edge_slide_apply_elem sv fac curr_length_fac curr_side_unclamp true false use_flip) := by
  refine ⟨|fac|, abs_nonneg fac, abs_le.mpr ⟨h_lo, h_hi⟩, ?_⟩
  simp only [edge_slide_apply_elem, madd_v3_v3fl, side_of_neg, fabsf_eq_abs, line_point,
    add_v3_v3v3, if_true]
  ext <;> simp <;> ring

theorem apply_elem_clamp_on_segment_witness :
    on_segment sv_corner.v_co_orig
      (add_v3_v3v3 sv_corner.v_co_orig (sv_corner.dir_side (if (-1 / 2 : ℚ) < 0 then 1 else 0)))
      (edge_slide_apply_elem sv_corner (-1 / 2) 0 0 true false false) :=
  apply_elem_clamp_on_segment sv_corner (-1 / 2) 0 0 false (by norm_num) (by norm_num)

theorem unclamped_factor_eq (fac : ℚ) (s : Fin 2) :
    (if s = (if fac < 0 then 1 else 0) then |fac| else -|fac|) = if s = 0 then fac else -fac := by
  rcases lt_or_le fac 0 with h | h
  · fin_cases s <;> simp [h, abs_of_neg h]
  · fin_cases s <;> simp [not_lt.mpr h, abs_of_nonneg h]

/-- C10, as stated, fails: with the sticky side 1 and the control value -1/2
the code moves the vertex by `+1/2` of rail 1, not by `-1/2` of it. -/
theorem apply_elem_unclamped_spec_counterexample :
    edge_slide_apply_elem sv_corner (-1 / 2) 0 1 false false false
      ≠ unclamped_position_spec sv_corner (-1 / 2) 1 := by
  norm_num [edge_slide_apply_elem, unclamped_position_spec, sv_corner, sample_sv, madd_v3_v3fl,
    side_of_neg, side_not, fabsf, is_zero_v3, zero_v3]

/-- C10 (amended): in non-even mode with clamp off, for every record, sticky
side and control value, `edge_slide_apply_elem` returns
`v_co_orig + dir_side[s] * m`, where `s` is the sticky side, replaced by the
other side when `dir_side[curr_side_unclamp]` is the zero vector, and `m` is
`|fac|` when `s = (fac < 0)` and `-|fac|` otherwise; that is, `m` is the
control value itself on side 0 and its negation on side 1. -/
theorem apply_elem_unclamped_formula (sv : TransDataEdgeSlideVert) (fac curr_length_fac : ℚ)
    (curr_side_unclamp : Fin 2) (use_flip : Bool) :
    let s : Fin 2 :=
      if sv.dir_side curr_side_unclamp = zero_v3 then (if curr_side_unclamp = 0 then 1 else 0)
      else curr_side_unclamp
    let m : ℚ := if s = (if fac < 0 then 1 else 0) then |fac| else -|fac|
    edge_slide_apply_elem sv fac curr_length_fac curr_side_unclamp false false use_flip =
        ⟨sv.v_co_orig.x + (sv.dir_side s).x * m, sv.v_co_orig.y + (sv.dir_side s).y * m,
         sv.v_co_orig.z + (sv.dir_side s).z * m⟩ ∧
      m = if s = 0 then fac else -fac := by
  intro s m
  have hs : (if is_zero_v3 (sv.dir_side curr_side_unclamp) = true then side_not curr_side_unclamp
      else curr_side_unclamp) = s := by
    simp only [is_zero_v3_iff, side_not, s]
  constructor
  · simp only [edge_slide_apply_elem, madd_v3_v3fl, fabsf_eq_abs, side_of_neg, hs,
      if_true, Bool.false_eq_true, if_false, m]
  · exact unclamped_factor_eq fac s

/-- C1, as stated, fails in even mode: for the record `sv_uneven`, itself the
active vertex, control value 0 gives the target distance `edge_len / 2 = 2`
from the rail-0 endpoint, which is the point (-1,0,0) and not `v_co_orig`. -/
theorem apply_elem_zero_even_counterexample :
    edge_slide_apply_elem sv_uneven 0 (sv_uneven.edge_len * (((-0 : ℚ) + 1) / 2)) 0 true true false
        = ⟨-1, 0, 0⟩ ∧
      edge_slide_apply_elem sv_uneven 0 (sv_uneven.edge_len * (((-0 : ℚ) + 1) / 2)) 0 true true false
        ≠ sv_uneven.v_co_orig := by
  norm_num [edge_slide_apply_elem, sv_uneven, sample_sv, FLT_EPSILON, min_ff,
    interp_line_v3_v3v3v3, line_point_factor_v3, add_v3_v3v3, sub_v3_v3v3, len_squared_v3,
    dot_v3v3, fabsf, interp_v3_v3v3]

/-- C1 (amended): for every record and every setting of the clamp and flip
flags, of the sticky side and of `curr_length_fac`, `edge_slide_apply_elem`
with control value 0 yields exactly `v_co_orig` in non-even mode, and in even
mode when the record's `edge_len` is not above `FLT_EPSILON`. -/
theorem apply_elem_zero (sv : TransDataEdgeSlideVert) (curr_length_fac : ℚ)
    (curr_side_unclamp : Fin 2) (use_clamp use_even use_flip : Bool)
    (h : use_even = false ∨ sv.edge_len ≤ FLT_EPSILON) :
    edge_slide_apply_elem sv 0 curr_length_fac curr_side_unclamp use_clamp use_even use_flip
      = sv.v_co_orig := by
  rcases h with h | h
  · subst h
    cases use_clamp <;>
      simp [edge_slide_apply_elem, madd_v3_v3fl, fabsf]
  · cases use_even
    · cases use_clamp <;>
        simp [edge_slide_apply_elem, madd_v3_v3fl, fabsf]
    · simp [edge_slide_apply_elem, not_lt.mpr h]

theorem apply_elem_zero_witness :
    edge_slide_apply_elem sv_uneven 0 2 1 false false true = sv_uneven.v_co_orig :=
  apply_elem_zero sv_uneven 2 1 false false true (Or.inl rfl)

theorem f32_zero : f32 0 = 0 := by decide!

/-- Control value 0 in binary32: in non-even mode, and in even mode when
`edge_len` is not above `FLT_EPSILON`, the rounding changes nothing, since the
only operations are `rail * 0` and `co + 0`.  The original position is assumed
to hold binary32 values. -/
theorem f32_apply_elem_zero (sv : TransDataEdgeSlideVert) (curr_length_fac : ℚ)
    (curr_side_unclamp : Fin 2) (use_clamp use_even use_flip : Bool)
    (h : use_even = false ∨ sv.edge_len ≤ FLT_EPSILON)
    (hx : f32 sv.v_co_orig.x = sv.v_co_orig.x) (hy : f32 sv.v_co_orig.y = sv.v_co_orig.y)
    (hz : f32 sv.v_co_orig.z = sv.v_co_orig.z) :
    edge_slide_apply_elem_f32 sv 0 curr_length_fac curr_side_unclamp use_clamp use_even use_flip
      = sv.v_co_orig := by
  rcases h with h | h
  · subst h
    cases use_clamp <;>
      simp [edge_slide_apply_elem_f32, madd_v3_v3fl_f32, fabsf, f32_zero, hx, hy, hz]
  · cases use_even
    · cases use_clamp <;>
        simp [edge_slide_apply_elem_f32, madd_v3_v3fl_f32, fabsf, f32_zero, hx, hy, hz]
    · simp [edge_slide_apply_elem_f32, not_lt.mpr h]

/-! ## Theorems: replaying the apply, and the snap round trip -/

theorem foldl_update_apply {α : Type} (key : α → Nat) (g : α → V3) (l : List α) (co : Nat → V3)
    (x : Nat) :
    (l.foldl (fun co a => Function.update co (key a) (g a)) co) x =
      match l.reverse.find? (fun a => decide (key a = x)) with
      | some a => g a
      | none => co x := by
  induction l using List.reverseRecOn with
  | nil => simp
  | append_singleton l a ih =>
    simp only [List.foldl_append, List.foldl_cons, List.foldl_nil, List.reverse_append,
      List.reverse_cons, List.reverse_nil, List.nil_append, List.singleton_append,
      List.find?_cons]
    by_cases hx : key a = x
    · subst hx; simp
    · have hx' : x ≠ key a := fun h => hx h.symm
      simp [hx, Function.update_noteq hx', ih]

theorem foldl_update_idem {α : Type} (key : α → Nat) (g : α → V3) (l : List α) (co : Nat → V3) :
    l.foldl (fun co a => Function.update co (key a) (g a))
        (l.foldl (fun co a => Function.update co (key a) (g a)) co) =
      l.foldl (fun co a => Function.update co (key a) (g a)) co := by
  funext x
  rw [foldl_update_apply key g l _ x, foldl_update_apply key g l co x]
  cases l.reverse.find? (fun a => decide (key a = x)) <;> simp

theorem apply_elem_side_irrel (sv : TransDataEdgeSlideVert) (fac clf : ℚ) (s s' : Fin 2)
    (use_clamp use_even use_flip : Bool) (h : use_even = true ∨ use_clamp = true) :
    edge_slide_apply_elem sv fac clf s use_clamp use_even use_flip =
      edge_slide_apply_elem sv fac clf s' use_clamp use_even use_flip := by
  rcases h with h | h <;> subst h
  · simp [edge_slide_apply_elem]
  · cases use_even <;> simp [edge_slide_apply_elem]

theorem doEdgeSlide_container_data (perc clf : ℚ) (s : Fin 2) (c e f : Bool)
    (tc : TransDataContainer) :
    (doEdgeSlide_container perc clf s c e f tc).custom_mode_data = tc.custom_mode_data := by
  unfold doEdgeSlide_container
  cases h : tc.custom_mode_data <;> simp [h]

theorem doEdgeSlide_container_idem (perc clf : ℚ) (s s' : Fin 2) (c e f : Bool)
    (h : s' = s ∨ e = true ∨ c = true) (tc : TransDataContainer) :
    doEdgeSlide_container perc clf s' c e f (doEdgeSlide_container perc clf s c e f tc) =
      doEdgeSlide_container perc clf s c e f tc := by
  have hs : ∀ sv, edge_slide_apply_elem sv perc clf s' c e f =
      edge_slide_apply_elem sv perc clf s c e f := by
    intro sv
    rcases h with h | h
    · rw [h]
    · exact apply_elem_side_irrel sv perc clf s' s c e f h
  unfold doEdgeSlide_container
  cases hd : tc.custom_mode_data with
  | none => simp [hd]
  | some sld =>
    simp only [hd, hs]
    congr 1
    exact foldl_update_idem (fun sv : TransDataEdgeSlideVert => sv.v)
      (fun sv => edge_slide_apply_elem sv perc clf s c e f) sld.sv tc.co

theorem first_ok_map (f : TransDataContainer → TransDataContainer)
    (hf : ∀ tc, (f tc).custom_mode_data = tc.custom_mode_data) (l : List TransDataContainer) :
    ((l.map f).find? (fun tc => tc.custom_mode_data.isSome)).bind (fun tc => tc.custom_mode_data) =
      (l.find? (fun tc => tc.custom_mode_data.isSome)).bind (fun tc => tc.custom_mode_data) := by
  induction l with
  | nil => simp
  | cons a l ih =>
    simp only [List.map_cons, List.find?_cons, hf]
    cases h : a.custom_mode_data.isSome
    · simpa using ih
    · simp [hf]

theorem edgeSlideFirstGet_eq (t : TransInfo) :
    edgeSlideFirstGet t = (t.data_container.find? (fun tc => tc.custom_mode_data.isSome)).bind
      (fun tc => tc.custom_mode_data) := by
  unfold edgeSlideFirstGet edge_slide_container_first_ok
  cases t.data_container.find? (fun tc => tc.custom_mode_data.isSome) <;> rfl

theorem doEdgeSlide_replay (t t1 : TransInfo) (perc : ℚ) (h : doEdgeSlide t perc = some t1) :
    doEdgeSlide t1 perc = some t1 := by
  unfold doEdgeSlide at h
  cases hfg : edgeSlideFirstGet t with
  | none => simp [hfg] at h
  | some sld_active =>
    simp only [hfg] at h
    have hfg1 : ∀ (f : TransDataContainer → TransDataContainer) (slp : EdgeSlideParams)
        (flag : Bool), (∀ tc, (f tc).custom_mode_data = tc.custom_mode_data) →
        edgeSlideFirstGet ⟨flag, slp, t.data_container.map f, t.tsnap⟩ = some sld_active := by
      intro f slp flag hf
      rw [edgeSlideFirstGet_eq]
      simp only
      rw [first_ok_map f hf, ← edgeSlideFirstGet_eq]; exact hfg
    cases he : t.custom_mode_data.use_even with
    | true =>
      simp only [he, if_true] at h
      cases hget : sld_active.sv[sld_active.curr_sv_index]? with
      | none => simp [hget] at h
      | some sv_active =>
        simp only [hget, Option.some.injEq] at h
        subst h
        unfold doEdgeSlide
        rw [hfg1 _ _ _ (doEdgeSlide_container_data _ _ _ _ _ _)]
        simp only [if_true, hget, List.map_map]
        congr 2
        apply List.map_congr_left
        intro tc _
        exact doEdgeSlide_container_idem _ _ _ _ _ _ _ (Or.inl rfl) tc
    | false =>
      simp only [he, Bool.false_eq_true, if_false, Option.some.injEq] at h
      subst h
      unfold doEdgeSlide
      cases hc : t.flag_alt_transform with
      | true =>
        simp only [Bool.not_true, Bool.false_eq_true, if_false, he]
        rw [hfg1 _ _ _ (doEdgeSlide_container_data _ _ _ _ _ _)]
        simp only [List.map_map, he, Bool.false_eq_true, if_false, hc, Bool.not_true]
        congr 2
        apply List.map_congr_left
        intro tc _
        exact doEdgeSlide_container_idem _ _ _ _ _ _ _ (Or.inl rfl) tc
      | false =>
        simp only [Bool.not_false, if_true, Bool.false_eq_true, if_false, he]
        rw [hfg1 _ _ _ (doEdgeSlide_container_data _ _ _ _ _ _)]
        simp only [List.map_map, he, Bool.false_eq_true, if_false, hc, Bool.not_false, if_true]
        congr 2
        apply List.map_congr_left
        intro tc _
        exact doEdgeSlide_container_idem _ _ _ _ _ _ _ (Or.inr (Or.inr rfl)) tc

theorem len_squared_v3_nonneg (a : V3) : 0 ≤ len_squared_v3 a := by
  unfold len_squared_v3 dot_v3v3
  nlinarith [mul_self_nonneg a.x, mul_self_nonneg a.y, mul_self_nonneg a.z]

theorem len_squared_v3_eq_zero (a : V3) (h : len_squared_v3 a = 0) : a = zero_v3 := by
  unfold len_squared_v3 dot_v3v3 at h
  have hx : a.x = 0 := by nlinarith [mul_self_nonneg a.x, mul_self_nonneg a.y, mul_self_nonneg a.z]
  have hy : a.y = 0 := by nlinarith [mul_self_nonneg a.x, mul_self_nonneg a.y, mul_self_nonneg a.z]
  have hz : a.z = 0 := by nlinarith [mul_self_nonneg a.x, mul_self_nonneg a.y, mul_self_nonneg a.z]
  ext <;> simp [zero_v3, hx, hy, hz]

theorem len_squared_v3_pos (a : V3) (h : a ≠ zero_v3) : 0 < len_squared_v3 a :=
  lt_of_le_of_ne (len_squared_v3_nonneg a) (fun h0 => h (len_squared_v3_eq_zero a h0.symm))

theorem sub_add_cancel_v3 (o d : V3) : sub_v3_v3v3 (add_v3_v3v3 o d) o = d := by
  ext <;> simp [sub_v3_v3v3, add_v3_v3v3]

/-- The factor of `o + d * k` on the line from `o` to `o + d` is `k`. -/
theorem line_point_factor_madd (o d : V3) (k : ℚ) (hd : d ≠ zero_v3) :
    line_point_factor_v3 (madd_v3_v3fl o d k) o (add_v3_v3v3 o d) = k := by
  have hpos := len_squared_v3_pos d hd
  unfold line_point_factor_v3
  simp only [sub_add_cancel_v3, gt_iff_lt, hpos, if_true]
  have hne : len_squared_v3 d ≠ 0 := ne_of_gt hpos
  rw [div_eq_iff hne]
  simp only [dot_v3v3, len_squared_v3, sub_v3_v3v3, madd_v3_v3fl]
  ring

/-- Checks of the rounding `f32` against known binary32 values: 0.1f and 1/3
as floats, the ties `1 + 2^-24` (down to the even 1) and `1 + 3 * 2^-24` (up to
the even `1 + 2^-22`), a negative value, and the subnormal range, where the
spacing is 2^-149. -/
theorem f32_validation :
    f32 0 = 0 ∧ f32 1 = 1 ∧ f32 (1 / 10) = 13421773 / 134217728 ∧
      f32 (1 / 3) = 11184811 / 33554432 ∧ f32 (-1 / 3) = -11184811 / 33554432 ∧
      f32 (1 + 1 / 2 ^ 24) = 1 ∧ f32 (1 + 3 / 2 ^ 24) = 1 + 1 / 2 ^ 22 ∧
      f32 (16777217) = 16777216 ∧ f32 (1 / 2 ^ 150) = 0 ∧ f32 (3 / 2 ^ 150) = 1 / 2 ^ 148 ∧
      f32 (5 / 2 ^ 151) = 1 / 2 ^ 149 := by
  refine ⟨?_, ?_, ?_, ?_, ?_, ?_, ?_, ?_, ?_, ?_, ?_⟩ <;> decide!

/-- The non-even round trip in binary32 at decimal inputs: the record at
(100,0,0) with the rails of length 0.05f, clamp on, entered with 0.3f.  The
result differs from 0.3f by 2^-15, more than 1e-5. -/
theorem f32_round_trip_non_even_decimal :
    edge_slide_apply_elem_f32
        (sample_sv ⟨100, 0, 0⟩ ⟨f32 (1 / 20), 0, 0⟩ ⟨f32 (-1 / 20), 0, 0⟩ 0) (f32 (3 / 10)) 0 0
        true false false = ⟨6554583 / 65536, 0, 0⟩ ∧
      edge_slide_snap_apply_f32 sample_ext
        (sample_t (sample_sv ⟨100, 0, 0⟩ ⟨f32 (1 / 20), 0, 0⟩ ⟨f32 (-1 / 20), 0, 0⟩ 0)
          false false false 0 ⟨6554583 / 65536, 0, 0⟩) (f32 (3 / 10))
        = some (5032653 / 16777216) ∧
      f32 (3 / 10) - 5032653 / 16777216 = 1 / 2 ^ 15 := by
  refine ⟨?_, ?_, ?_⟩ <;> decide!

/-- C3, as stated, fails in binary32.  The record `sv_far` sits at (100,0,0)
with the rails (1/16,0,0) and (-1/16,0,0); clamp is on and the value is
`v = 1/4 + 2^-15`, inside [-1, 1]; the record and `v` are binary32 values.  The
apply engine computes `100 + v / 16`, which rounds to `100 + 1/64` (the spacing
of binary32 values near 100 is 2^-17), and the snap adapter fed that point
returns 1/4: the error 2^-15 is more than 1e-5.  The sum `100 + v / 16` is the
only inexact operation of the trace, so the result does not depend on the order
of evaluation or on a fused multiply-add. -/
theorem snap_apply_round_trip_non_even_counterexample :
    (f32 100 = 100 ∧ f32 (1 / 16) = 1 / 16 ∧ f32 (-1 / 16) = -1 / 16 ∧
        f32 (8193 / 32768) = 8193 / 32768) ∧
      (sv_far.dir_side 0 ≠ zero_v3 ∧ sv_far.dir_side 1 ≠ zero_v3) ∧
      ((-1 : ℚ) ≤ 8193 / 32768 ∧ (8193 / 32768 : ℚ) ≤ 1) ∧
      edge_slide_apply_elem_f32 sv_far (8193 / 32768) 0 0 true false false
        = ⟨6401 / 64, 0, 0⟩ ∧
      edge_slide_snap_apply_f32 sample_ext
        (sample_t sv_far false false false 0 ⟨6401 / 64, 0, 0⟩) (8193 / 32768) = some (1 / 4) ∧
      ¬ |(1 / 4 : ℚ) - 8193 / 32768| ≤ 1 / 100000 := by
  refine ⟨⟨?_, ?_, ?_, ?_⟩, ⟨?_, ?_⟩, ⟨?_, ?_⟩, ?_, ?_, ?_⟩
  · decide!
  · decide!
  · decide!
  · decide!
  · decide!
  · decide!
  · norm_num
  · norm_num
  · decide!
  · decide!
  · norm_num [abs_le]

/-- C3 (amended): round trip in non-even mode (no local matrix, no edge or face
snap target), with every float operation taken as exact real arithmetic.  For
every active record whose two rails are non-zero, if the snap displaces the
original position to the point that `edge_slide_apply_elem` computes at value
`v`, then `edge_slide_snap_apply` returns exactly `v`: with clamp on for every
`v` (in particular for `v` in [-1, 1]) when it is entered with `v` or with any
value on the same side of zero as `v`, and with clamp off for every `v`, either
sticky side and every entry value. -/
theorem snap_apply_round_trip_non_even (ext : SnapExtern) (t : TransInfo)
    (tc : TransDataContainer) (sld : EdgeSlideData) (sv : TransDataEdgeSlideVert)
    (v value0 curr_length_fac : ℚ) (use_flip : Bool)
    (h_tc : edge_slide_container_first_ok t = some tc)
    (h_sld : tc.custom_mode_data = some sld)
    (h_sv : sld.sv[sld.curr_sv_index]? = some sv)
    (h_even : t.custom_mode_data.use_even = false)
    (h_mat : tc.use_local_mat = false)
    (h_edge : t.tsnap.snap_to_edge = false) (h_face : t.tsnap.snap_to_face = false)
    (h_d0 : sv.dir_side 0 ≠ zero_v3) (h_d1 : sv.dir_side 1 ≠ zero_v3)
    (h_side : t.flag_alt_transform = false → side_of_neg value0 = side_of_neg v)
    (h_P : add_v3_v3v3 sv.v_co_orig (sub_v3_v3v3 t.tsnap.snap_target t.tsnap.snap_source) =
      edge_slide_apply_elem sv v curr_length_fac t.custom_mode_data.curr_side_unclamp
        (!t.flag_alt_transform) false use_flip) :
    edge_slide_snap_apply ext t value0 = some v := by
  have h_d : ∀ i : Fin 2, sv.dir_side i ≠ zero_v3 := by
    intro i; fin_cases i
    · exact h_d0
    · exact h_d1
  have h_nz : ∀ i : Fin 2, is_zero_v3 (sv.dir_side i) = false := by
    intro i
    have := h_d i
    rw [Ne, ← is_zero_v3_iff] at this
    simpa using this
  unfold edge_slide_snap_apply
  simp only [h_tc, h_sld, h_sv, h_even, h_mat, h_edge, h_face, Bool.false_eq_true, if_false,
    Bool.or_self, if_true, h_P]
  cases hc : t.flag_alt_transform with
  | false =>
    simp only [Bool.not_false, if_true, edge_slide_apply_elem, h_side hc]
    rcases lt_or_le v 0 with hv | hv
    · have h1 : side_of_neg v = 1 := by simp [side_of_neg, hv]
      simp only [h1, Fin.isValue, one_ne_zero, if_false, ne_eq, not_false_eq_true, if_true]
      rw [line_point_factor_madd _ _ _ (h_d 1), fabsf_eq_abs, abs_of_neg hv]
      simp
    · have h0 : side_of_neg v = 0 := by simp [side_of_neg, not_lt.mpr hv]
      simp only [h0, Fin.isValue, if_true, ne_eq, not_true_eq_false, if_false]
      rw [line_point_factor_madd _ _ _ (h_d 0), fabsf_eq_abs, abs_of_nonneg hv]
  | true =>
    simp only [Bool.not_true, Bool.false_eq_true, if_false, edge_slide_apply_elem, h_nz]
    have hs := Fin.exists_fin_two.mp ⟨t.custom_mode_data.curr_side_unclamp, rfl⟩
    rcases hs with hs | hs
    · simp only [hs, Fin.isValue, if_true, ne_eq, not_true_eq_false, if_false]
      rw [line_point_factor_madd _ _ _ (h_d 0), fabsf_eq_abs]
      have := unclamped_factor_eq v 0
      simp only [Fin.isValue, if_true] at this
      simp only [side_of_neg, this]
    · simp only [hs, Fin.isValue, one_ne_zero, if_false, ne_eq, not_false_eq_true, if_true]
      rw [line_point_factor_madd _ _ _ (h_d 1), fabsf_eq_abs]
      have := unclamped_factor_eq v 1
      simp only [Fin.isValue, one_ne_zero, if_false] at this
      simp only [side_of_neg, this]
      simp

theorem snap_apply_round_trip_non_even_witness :
    edge_slide_snap_apply sample_ext (sample_t sv_corner false false false 1 ⟨0, 1 / 2, 0⟩) (1 / 4)
      = some (1 / 2) :=
  snap_apply_round_trip_non_even sample_ext (sample_t sv_corner false false false 1 ⟨0, 1 / 2, 0⟩)
    (sample_tc sv_corner) ⟨[sv_corner], (0, 0), (0, 0), 0⟩ sv_corner (1 / 2) (1 / 4) 0 false
    rfl rfl rfl rfl rfl rfl rfl
    (by simp [sv_corner, sample_sv, zero_v3]) (by simp [sv_corner, sample_sv, zero_v3])
    (fun _ => by norm_num [side_of_neg])
    (by norm_num [sample_t, sv_corner, sample_sv, edge_slide_apply_elem, add_v3_v3v3,
      sub_v3_v3v3, madd_v3_v3fl, is_zero_v3, side_of_neg, side_not, fabsf])

/-- C8: apply is idempotent and replayable.  The result of
`edge_slide_apply_elem` is the same for every record with the same
`v_co_orig`, `dir_side` and `edge_len` (it does not read the vertex, its
current position, `v_side` or `loop_nr`), and running `doEdgeSlide` a second
time with the same `perc` on the state left by the first run leaves every
vertex position and the `EdgeSlideParams` exactly as they were. -/
theorem doEdgeSlide_idempotent (t t1 : TransInfo) (perc : ℚ)
    (h : doEdgeSlide t perc = some t1) :
    doEdgeSlide t1 perc = some t1 ∧
      ∀ (sv : TransDataEdgeSlideVert) (v : Nat) (v_side : Fin 2 → Option Nat) (loop_nr : Int)
        (fac curr_length_fac : ℚ) (curr_side_unclamp : Fin 2)
        (use_clamp use_even use_flip : Bool),
        edge_slide_apply_elem { sv with v := v, v_side := v_side, loop_nr := loop_nr }
            fac curr_length_fac curr_side_unclamp use_clamp use_even use_flip =
          edge_slide_apply_elem sv fac curr_length_fac curr_side_unclamp
            use_clamp use_even use_flip :=
  ⟨doEdgeSlide_replay t t1 perc h, fun _ _ _ _ _ _ _ _ _ _ => rfl⟩

/-- The state after `doEdgeSlide` at 1/2 on `sample_t sv_corner` (clamp on,
non-even): vertex 0 has moved half way along rail 0. -/
theorem doEdgeSlide_sample :
    doEdgeSlide (sample_t sv_corner false false false 1 zero_v3) (1 / 2) =
      some ⟨false, ⟨1 / 2, 0, false, false⟩,
        [{ sample_tc sv_corner with
            co := Function.update (fun _ => sv_corner.v_co_orig) 0 ⟨0, 1 / 2, 0⟩ }],
        ⟨zero_v3, sv_corner.v_co_orig, false, false⟩⟩ := by
  norm_num [doEdgeSlide, edgeSlideFirstGet, edge_slide_container_first_ok, sample_t, sample_tc,
    doEdgeSlide_container, edge_slide_apply_elem, sv_corner, sample_sv, madd_v3_v3fl,
    side_of_neg, fabsf]

theorem doEdgeSlide_idempotent_witness :
    doEdgeSlide ⟨false, ⟨1 / 2, 0, false, false⟩,
        [{ sample_tc sv_corner with
            co := Function.update (fun _ => sv_corner.v_co_orig) 0 ⟨0, 1 / 2, 0⟩ }],
        ⟨zero_v3, sv_corner.v_co_orig, false, false⟩⟩ (1 / 2) =
      some ⟨false, ⟨1 / 2, 0, false, false⟩,
        [{ sample_tc sv_corner with
            co := Function.update (fun _ => sv_corner.v_co_orig) 0 ⟨0, 1 / 2, 0⟩ }],
        ⟨zero_v3, sv_corner.v_co_orig, false, false⟩⟩ :=
  (doEdgeSlide_idempotent _ _ (1 / 2) doEdgeSlide_sample).1

/-! ## Theorems: the snap round trip in even mode -/

section lpf
variable (o d0 d1 : V3)

theorem len_sq_endpoints : len_squared_v3 (sub_v3_v3v3 (add_v3_v3v3 o d1) (add_v3_v3v3 o d0)) =
    len_squared_v3 (sub_v3_v3v3 d1 d0) := by
  simp only [len_squared_v3, dot_v3v3, sub_v3_v3v3, add_v3_v3v3]; ring

/-- Translation invariance of the factor of the original position. -/
theorem lpf_orig : line_point_factor_v3 o (add_v3_v3v3 o d0) (add_v3_v3v3 o d1) =
    line_point_factor_v3 zero_v3 d0 d1 := by
  unfold line_point_factor_v3
  simp only [len_sq_endpoints]
  congr 1
  simp only [len_squared_v3, dot_v3v3, sub_v3_v3v3, add_v3_v3v3, zero_v3]; ring

theorem len_sq_endpoints_rev :
    len_squared_v3 (sub_v3_v3v3 (add_v3_v3v3 o d0) (add_v3_v3v3 o d1)) =
      len_squared_v3 (sub_v3_v3v3 d1 d0) := by
  simp only [len_squared_v3, dot_v3v3, sub_v3_v3v3, add_v3_v3v3]; ring

theorem lpf_orig_rev (hL : 0 < len_squared_v3 (sub_v3_v3v3 d1 d0)) :
    line_point_factor_v3 o (add_v3_v3v3 o d1) (add_v3_v3v3 o d0) =
      1 - line_point_factor_v3 zero_v3 d0 d1 := by
  have hne := ne_of_gt hL
  unfold line_point_factor_v3
  simp only [len_sq_endpoints_rev, gt_iff_lt, hL, if_true]
  field_simp
  simp only [len_squared_v3, dot_v3v3, sub_v3_v3v3, add_v3_v3v3, zero_v3]
  ring

/-- The factor between the rail endpoints of the point `o + d0 * m0 + d1 * m1`. -/
theorem lpf_comb (hL : 0 < len_squared_v3 (sub_v3_v3v3 d1 d0)) (m0 m1 : ℚ) :
    line_point_factor_v3 (madd_v3_v3fl (madd_v3_v3fl o d0 m0) d1 m1)
        (add_v3_v3v3 o d0) (add_v3_v3v3 o d1) =
      (1 - m0) * line_point_factor_v3 zero_v3 d0 d1 +
        m1 * (1 - line_point_factor_v3 zero_v3 d0 d1) := by
  have hne := ne_of_gt hL
  unfold line_point_factor_v3
  simp only [len_sq_endpoints, gt_iff_lt, hL, if_true]
  field_simp
  simp only [len_squared_v3, dot_v3v3, sub_v3_v3v3, add_v3_v3v3, zero_v3, madd_v3_v3fl]
  ring

theorem interp_from_a (r : ℚ) : interp_v3_v3v3 (add_v3_v3v3 o d0) o r =
    madd_v3_v3fl (madd_v3_v3fl o d0 (1 - r)) d1 0 := by
  ext <;> simp [interp_v3_v3v3, add_v3_v3v3, madd_v3_v3fl] <;> ring

theorem interp_to_a (r : ℚ) : interp_v3_v3v3 o (add_v3_v3v3 o d0) r =
    madd_v3_v3fl (madd_v3_v3fl o d0 r) d1 0 := by
  ext <;> simp [interp_v3_v3v3, add_v3_v3v3, madd_v3_v3fl] <;> ring

theorem interp_from_b (r : ℚ) : interp_v3_v3v3 (add_v3_v3v3 o d1) o r =
    madd_v3_v3fl (madd_v3_v3fl o d0 0) d1 (1 - r) := by
  ext <;> simp [interp_v3_v3v3, add_v3_v3v3, madd_v3_v3fl] <;> ring

theorem interp_to_b (r : ℚ) : interp_v3_v3v3 o (add_v3_v3v3 o d1) r =
    madd_v3_v3fl (madd_v3_v3fl o d0 0) d1 r := by
  ext <;> simp [interp_v3_v3v3, add_v3_v3v3, madd_v3_v3fl] <;> ring

theorem point_orig : o = madd_v3_v3fl (madd_v3_v3fl o d0 0) d1 0 := by
  ext <;> simp [madd_v3_v3fl]

theorem point_a : add_v3_v3v3 o d0 = madd_v3_v3fl (madd_v3_v3fl o d0 1) d1 0 := by
  ext <;> simp [add_v3_v3v3, madd_v3_v3fl]

theorem point_b : add_v3_v3v3 o d1 = madd_v3_v3fl (madd_v3_v3fl o d0 0) d1 1 := by
  ext <;> simp [add_v3_v3v3, madd_v3_v3fl]

/-- The factor of `o + d * k` on the line from `o` to `o + d`, also for a zero rail. -/
theorem lpf_rail (d : V3) (k : ℚ) :
    line_point_factor_v3 (madd_v3_v3fl o d k) o (add_v3_v3v3 o d) =
      if d = zero_v3 then 0 else k := by
  by_cases hd : d = zero_v3
  · subst hd
    simp [line_point_factor_v3, len_squared_v3, dot_v3v3, sub_v3_v3v3, add_v3_v3v3, zero_v3]
  · simp only [hd, if_false]
    exact line_point_factor_madd o d k hd

/-- The factor on rail 1 of a point of rail 0 -/
theorem lpf_cross (m0 : ℚ) :
    line_point_factor_v3 (madd_v3_v3fl (madd_v3_v3fl o d0 m0) d1 0) o (add_v3_v3v3 o d1) =
      if 0 < len_squared_v3 d1 then m0 * dot_v3v3 d1 d0 / len_squared_v3 d1 else 0 := by
  unfold line_point_factor_v3
  simp only [sub_add_cancel_v3, gt_iff_lt]
  congr 1
  simp only [len_squared_v3, dot_v3v3, sub_v3_v3v3, add_v3_v3v3, zero_v3, madd_v3_v3fl]
  ring

theorem tmid_zero_of_d0 (h : d0 = zero_v3) : line_point_factor_v3 zero_v3 d0 d1 = 0 := by
  subst h
  simp [line_point_factor_v3, len_squared_v3, dot_v3v3, sub_v3_v3v3, zero_v3]

theorem tmid_one_of_d1 (hL : 0 < len_squared_v3 (sub_v3_v3v3 d1 d0)) (h : d1 = zero_v3) :
    line_point_factor_v3 zero_v3 d0 d1 = 1 := by
  subst h
  have hne := ne_of_gt hL
  unfold line_point_factor_v3
  simp only [gt_iff_lt, hL, if_true]
  simp only [len_squared_v3, dot_v3v3, sub_v3_v3v3, zero_v3] at hne ⊢
  rw [div_eq_one_iff_eq hne]

end lpf

theorem madd_rail0 (o d0 d1 : V3) (m : ℚ) :
    madd_v3_v3fl (madd_v3_v3fl o d0 m) d1 0 = madd_v3_v3fl o d0 m := by
  ext <;> simp [madd_v3_v3fl]

theorem madd_rail1 (o d0 d1 : V3) (r : ℚ) :
    madd_v3_v3fl (madd_v3_v3fl o d0 0) d1 r = madd_v3_v3fl o d1 r := by
  ext <;> simp [madd_v3_v3fl]

/-- The snap parameter of a point of rail 1. -/
theorem snap_even_param_rail1 (o d0 d1 : V3)
    (hL : 0 < len_squared_v3 (sub_v3_v3v3 d1 d0)) (r : ℚ)
    (hr : 0 ≤ r * (1 - line_point_factor_v3 zero_v3 d0 d1)) :
    snap_even_param o d0 d1 (madd_v3_v3fl (madd_v3_v3fl o d0 0) d1 r) =
      line_point_factor_v3 zero_v3 d0 d1 + r * (1 - line_point_factor_v3 zero_v3 d0 d1) := by
  unfold snap_even_param
  simp only [lpf_comb o d0 d1 hL]
  rw [if_pos (by linarith), madd_rail1, lpf_rail]
  by_cases hd : d1 = zero_v3
  · rw [if_pos hd, tmid_one_of_d1 d0 d1 hL hd]; ring
  · rw [if_neg hd]; ring

theorem madd_zero (o d : V3) : madd_v3_v3fl o d 0 = o := by
  ext <;> simp [madd_v3_v3fl]

theorem madd_zero_v3 (o : V3) (m : ℚ) : madd_v3_v3fl o zero_v3 m = o := by
  ext <;> simp [madd_v3_v3fl, zero_v3]

theorem lpf_self (o c : V3) : line_point_factor_v3 o o c = 0 := by
  simp [line_point_factor_v3, sub_v3_v3v3, dot_v3v3]

/-- The snap parameter of a point of rail 0. -/
theorem snap_even_param_rail0 (o d0 d1 : V3)
    (hL : 0 < len_squared_v3 (sub_v3_v3v3 d1 d0)) (m : ℚ)
    (h : 0 < m * line_point_factor_v3 zero_v3 d0 d1 ∨ m = 0 ∨ d0 = zero_v3) :
    snap_even_param o d0 d1 (madd_v3_v3fl (madd_v3_v3fl o d0 m) d1 0) =
      (1 - m) * line_point_factor_v3 zero_v3 d0 d1 := by
  unfold snap_even_param
  simp only [lpf_comb o d0 d1 hL]
  rcases h with h | h | h
  · rw [if_neg (by linarith), madd_rail0, lpf_rail]
    have hd : d0 ≠ zero_v3 := by
      intro hd
      rw [tmid_zero_of_d0 d0 d1 hd] at h
      simp at h
    rw [if_neg hd]
  · subst h
    rw [if_pos (by linarith), madd_zero, madd_zero, lpf_self]; ring
  · subst h
    rw [tmid_zero_of_d0 zero_v3 d1 rfl, if_pos (by linarith), madd_zero_v3, madd_zero, lpf_self]
    ring

theorem flt_epsilon_pos : 0 < FLT_EPSILON := by norm_num [FLT_EPSILON]

/-- Not flipped: the snap parameter of the point that the apply engine reaches at
the path parameter `s` is `s`, up to `FLT_EPSILON`. -/
theorem snap_even_param_interp (o d0 d1 : V3)
    (hL : 0 < len_squared_v3 (sub_v3_v3v3 d1 d0)) (s : ℚ) (hs0 : 0 ≤ s) (hs1 : s ≤ 1) :
    |snap_even_param o d0 d1
        (interp_line_v3_v3v3v3 (add_v3_v3v3 o d0) o (add_v3_v3v3 o d1) s) - s| ≤ FLT_EPSILON := by
  have heps := flt_epsilon_pos
  unfold interp_line_v3_v3v3v3
  simp only [lpf_orig, fabsf_eq_abs]
  split_ifs with h1 h2 h3
  · have key := snap_even_param_rail0 o d0 d1 hL 0 (Or.inr (Or.inl rfl))
    rw [madd_zero, madd_zero] at key
    rw [key, abs_le]
    have := abs_lt.mp h2
    constructor <;> linarith
  · have ha : 0 < line_point_factor_v3 zero_v3 d0 d1 := by linarith
    have hm : (1 - s / line_point_factor_v3 zero_v3 d0 d1) * line_point_factor_v3 zero_v3 d0 d1
        = line_point_factor_v3 zero_v3 d0 d1 - s := by
      field_simp
    have key := snap_even_param_rail0 o d0 d1 hL (1 - s / line_point_factor_v3 zero_v3 d0 d1)
      (Or.inl (by rw [hm]; linarith))
    rw [← interp_from_a] at key
    rw [key]
    have : (1 - (1 - s / line_point_factor_v3 zero_v3 d0 d1)) *
        line_point_factor_v3 zero_v3 d0 d1 = s := by field_simp
    rw [this]; simp [le_of_lt heps]
  · have key := snap_even_param_rail1 o d0 d1 hL 1 (by linarith)
    rw [← point_b] at key
    rw [key, abs_le]
    have := abs_lt.mp h3
    constructor <;> linarith
  · have hb : 0 < 1 - line_point_factor_v3 zero_v3 d0 d1 := by
      rcases lt_or_eq_of_le (show 0 ≤ 1 - line_point_factor_v3 zero_v3 d0 d1 by linarith)
        with h | h
      · exact h
      · exfalso; apply h3; rw [← h]; simpa using heps
    have hne := ne_of_gt hb
    have hm : (s - line_point_factor_v3 zero_v3 d0 d1) / (1 - line_point_factor_v3 zero_v3 d0 d1)
        * (1 - line_point_factor_v3 zero_v3 d0 d1) = s - line_point_factor_v3 zero_v3 d0 d1 := by
      field_simp
    have key := snap_even_param_rail1 o d0 d1 hL
      ((s - line_point_factor_v3 zero_v3 d0 d1) / (1 - line_point_factor_v3 zero_v3 d0 d1))
      (by rw [hm]; linarith)
    rw [← interp_to_b, hm] at key
    rw [key]
    simp [le_of_lt heps]

/-- Flipped: the snap parameter of the point that the apply engine reaches at
the path parameter `s`, counted from the rail-1 endpoint, is `1 - s`, up to
`FLT_EPSILON`, unless the vertex projects exactly onto the rail-0 endpoint. -/
theorem snap_even_param_interp_flip (o d0 d1 : V3)
    (hL : 0 < len_squared_v3 (sub_v3_v3v3 d1 d0)) (s : ℚ) (hs0 : 0 ≤ s) (hs1 : s ≤ 1)
    (h_excl : ¬ (s = 1 ∧ line_point_factor_v3 zero_v3 d0 d1 = 0 ∧ d0 ≠ zero_v3)) :
    |snap_even_param o d0 d1
        (interp_line_v3_v3v3v3 (add_v3_v3v3 o d1) o (add_v3_v3v3 o d0) s) - (1 - s)|
      ≤ FLT_EPSILON := by
  have heps := flt_epsilon_pos
  unfold interp_line_v3_v3v3v3
  simp only [lpf_orig_rev o d0 d1 hL, fabsf_eq_abs, sub_sub_cancel]
  split_ifs with h1 h2 h3
  · have key := snap_even_param_rail0 o d0 d1 hL 0 (Or.inr (Or.inl rfl))
    rw [madd_zero, madd_zero] at key
    rw [key, abs_le]
    have := abs_lt.mp h2
    constructor <;> linarith
  · have hb : 0 < 1 - line_point_factor_v3 zero_v3 d0 d1 := by linarith
    have hne := ne_of_gt hb
    have hm : (1 - s / (1 - line_point_factor_v3 zero_v3 d0 d1)) *
        (1 - line_point_factor_v3 zero_v3 d0 d1) = 1 - line_point_factor_v3 zero_v3 d0 d1 - s := by
      field_simp
    have key := snap_even_param_rail1 o d0 d1 hL (1 - s / (1 - line_point_factor_v3 zero_v3 d0 d1))
      (by rw [hm]; linarith)
    rw [← interp_from_b, hm] at key
    rw [key]
    have : line_point_factor_v3 zero_v3 d0 d1 + (1 - line_point_factor_v3 zero_v3 d0 d1 - s)
        - (1 - s) = 0 := by ring
    rw [this]; simp [le_of_lt heps]
  · have ha0 : 0 ≤ line_point_factor_v3 zero_v3 d0 d1 := by linarith
    have hcase : 0 < 1 * line_point_factor_v3 zero_v3 d0 d1 ∨ (1 : ℚ) = 0 ∨ d0 = zero_v3 := by
      rcases lt_or_eq_of_le ha0 with h | h
      · left; linarith
      · right; right
        by_contra hd
        exact h_excl ⟨by linarith, h.symm, hd⟩
    have key := snap_even_param_rail0 o d0 d1 hL 1 hcase
    rw [← point_a] at key
    rw [key, abs_le]
    have := abs_lt.mp h3
    constructor <;> linarith
  · have ha0 : 0 ≤ line_point_factor_v3 zero_v3 d0 d1 := by linarith
    have ha : 0 < line_point_factor_v3 zero_v3 d0 d1 := by
      rcases lt_or_eq_of_le ha0 with h | h
      · exact h
      · exfalso; apply h3; rw [← h]; simpa using heps
    have hne := ne_of_gt ha
    have hm : (s - (1 - line_point_factor_v3 zero_v3 d0 d1)) / line_point_factor_v3 zero_v3 d0 d1
        * line_point_factor_v3 zero_v3 d0 d1 = s - (1 - line_point_factor_v3 zero_v3 d0 d1) := by
      field_simp
    have hcase : 0 < (s - (1 - line_point_factor_v3 zero_v3 d0 d1)) /
          line_point_factor_v3 zero_v3 d0 d1 * line_point_factor_v3 zero_v3 d0 d1 ∨
        (s - (1 - line_point_factor_v3 zero_v3 d0 d1)) / line_point_factor_v3 zero_v3 d0 d1 = 0 ∨
        d0 = zero_v3 := by
      rw [hm]
      rcases lt_or_eq_of_le (show 0 ≤ s - (1 - line_point_factor_v3 zero_v3 d0 d1) by linarith)
        with h | h
      · left; exact h
      · right; left; rw [← h]; simp
    have key := snap_even_param_rail0 o d0 d1 hL _ hcase
    rw [← interp_to_a] at key
    rw [key]
    have : (1 - (s - (1 - line_point_factor_v3 zero_v3 d0 d1)) /
        line_point_factor_v3 zero_v3 d0 d1) * line_point_factor_v3 zero_v3 d0 d1 - (1 - s) = 0 := by
      field_simp; ring
    rw [this]; simp [le_of_lt heps]

theorem min_ff_scaled (len s : ℚ) (hlen : 0 < len) (hs1 : s ≤ 1) :
    min_ff len (len * s) / len = s := by
  have hne := ne_of_gt hlen
  have h : ¬ len < len * s := by
    rw [not_lt]
    calc len * s ≤ len * 1 := mul_le_mul_of_nonneg_left hs1 (le_of_lt hlen)
      _ = len := mul_one len
  unfold min_ff
  rw [if_neg h]
  field_simp


/-- In even mode without local matrix and without edge or face snap target the
snap adapter returns `1 - 2 * snap_even_param`, for either flip setting. -/
theorem snap_apply_even_eq (ext : SnapExtern) (t : TransInfo)
    (tc : TransDataContainer) (sld : EdgeSlideData) (sv : TransDataEdgeSlideVert) (v : ℚ)
    (h_tc : edge_slide_container_first_ok t = some tc)
    (h_sld : tc.custom_mode_data = some sld)
    (h_sv : sld.sv[sld.curr_sv_index]? = some sv)
    (h_even : t.custom_mode_data.use_even = true)
    (h_mat : tc.use_local_mat = false)
    (h_edge : t.tsnap.snap_to_edge = false) (h_face : t.tsnap.snap_to_face = false) :
    edge_slide_snap_apply ext t v =
      some (1 - 2 * snap_even_param sv.v_co_orig (sv.dir_side 0) (sv.dir_side 1)
        (add_v3_v3v3 sv.v_co_orig (sub_v3_v3v3 t.tsnap.snap_target t.tsnap.snap_source))) := by
  unfold edge_slide_snap_apply snap_even_param
  simp only [h_tc, h_sld, h_sv, h_even, h_mat, h_edge, h_face, Bool.false_eq_true, if_false,
    Bool.or_self, Bool.true_eq_false, Option.some.injEq]
  by_cases h1 : line_point_factor_v3
      (add_v3_v3v3 sv.v_co_orig (sub_v3_v3v3 t.tsnap.snap_target t.tsnap.snap_source))
      (add_v3_v3v3 sv.v_co_orig (sv.dir_side 0)) (add_v3_v3v3 sv.v_co_orig (sv.dir_side 1)) ≥
      line_point_factor_v3 zero_v3 (sv.dir_side 0) (sv.dir_side 1)
  · cases t.custom_mode_data.flipped
    · simp [h1]
    · simp [h1]; ring
  · cases t.custom_mode_data.flipped
    · simp [h1]
    · simp [h1]; ring

/-- C4 (amended): round trip in even mode (either flip setting, no local matrix,
no edge or face snap target), with every float operation taken as exact real
arithmetic.  For every active record whose `edge_len` is the distance between
its rail endpoints and exceeds `FLT_EPSILON`, and every `v` in [-1, 1]: if the
snap displaces the original position to the point that `edge_slide_apply_elem`
gives the active vertex at `v` (with the `curr_length_fac` of `doEdgeSlide`),
then `edge_slide_snap_apply` returns `v` within 1e-5, except in the one
configuration left out: flip on, `v = 1`, and the original position projecting
exactly onto the rail-0 endpoint (`t_mid = 0`) with a non-zero rail 0.  The
bound is for exact arithmetic only: `f32_round_trip_even_drift`
shows an error of 2^-15 in binary32. -/
theorem snap_apply_round_trip_even (ext : SnapExtern) (t : TransInfo)
    (tc : TransDataContainer) (sld : EdgeSlideData) (sv : TransDataEdgeSlideVert) (v : ℚ)
    (h_tc : edge_slide_container_first_ok t = some tc)
    (h_sld : tc.custom_mode_data = some sld)
    (h_sv : sld.sv[sld.curr_sv_index]? = some sv)
    (h_even : t.custom_mode_data.use_even = true)
    (h_mat : tc.use_local_mat = false)
    (h_edge : t.tsnap.snap_to_edge = false) (h_face : t.tsnap.snap_to_face = false)
    (h_len : sv.edge_len > FLT_EPSILON)
    (h_len_sq : sv.edge_len * sv.edge_len = len_squared_v3v3 (sv.dir_side 0) (sv.dir_side 1))
    (h_lo : -1 ≤ v) (h_hi : v ≤ 1)
    (h_P : add_v3_v3v3 sv.v_co_orig (sub_v3_v3v3 t.tsnap.snap_target t.tsnap.snap_source) =
      edge_slide_apply_elem sv v
        (sv.edge_len * (((if t.custom_mode_data.flipped then v else -v) + 1) / 2))
        t.custom_mode_data.curr_side_unclamp (!t.flag_alt_transform) true
        t.custom_mode_data.flipped)
    (h_excl : ¬ (t.custom_mode_data.flipped = true ∧ v = 1 ∧
      line_point_factor_v3 zero_v3 (sv.dir_side 0) (sv.dir_side 1) = 0 ∧
      sv.dir_side 0 ≠ zero_v3)) :
    ∃ r, edge_slide_snap_apply ext t v = some r ∧ |r - v| ≤ 1 / 100000 := by
  have hlen0 : 0 < sv.edge_len := lt_trans flt_epsilon_pos h_len
  have hL : 0 < len_squared_v3 (sub_v3_v3v3 (sv.dir_side 1) (sv.dir_side 0)) := by
    have : len_squared_v3 (sub_v3_v3v3 (sv.dir_side 1) (sv.dir_side 0)) =
        sv.edge_len * sv.edge_len := by rw [h_len_sq]; rfl
    rw [this]; exact mul_pos hlen0 hlen0
  refine ⟨_, snap_apply_even_eq ext t tc sld sv v h_tc h_sld h_sv h_even h_mat h_edge h_face, ?_⟩
  rw [h_P]
  have heps : 2 * FLT_EPSILON ≤ 1 / 100000 := by norm_num [FLT_EPSILON]
  cases hf : t.custom_mode_data.flipped with
  | false =>
    have hs0 : 0 ≤ (-v + 1) / 2 := by linarith
    have hs1 : (-v + 1) / 2 ≤ 1 := by linarith
    have key := snap_even_param_interp sv.v_co_orig (sv.dir_side 0) (sv.dir_side 1) hL
      ((-v + 1) / 2) hs0 hs1
    simp only [edge_slide_apply_elem, Bool.true_eq_false, if_false, h_len, if_true,
      Bool.false_eq_true, min_ff_scaled _ _ hlen0 hs1]
    rw [abs_le] at key ⊢
    constructor <;> linarith [key.1, key.2]
  | true =>
    have hs0 : 0 ≤ (v + 1) / 2 := by linarith
    have hs1 : (v + 1) / 2 ≤ 1 := by linarith
    have hx : ¬ ((v + 1) / 2 = 1 ∧
        line_point_factor_v3 zero_v3 (sv.dir_side 0) (sv.dir_side 1) = 0 ∧
        sv.dir_side 0 ≠ zero_v3) := by
      rintro ⟨h1, h2, h3⟩
      exact h_excl ⟨hf, by linarith, h2, h3⟩
    have key := snap_even_param_interp_flip sv.v_co_orig (sv.dir_side 0) (sv.dir_side 1) hL
      ((v + 1) / 2) hs0 hs1 hx
    simp only [edge_slide_apply_elem, Bool.true_eq_false, if_false, h_len, if_true,
      min_ff_scaled _ _ hlen0 hs1]
    rw [abs_le] at key ⊢
    constructor <;> linarith [key.1, key.2]

theorem snap_apply_round_trip_even_witness :
    ∃ r, edge_slide_snap_apply sample_ext (sample_t sv_uneven false true false 0 ⟨-1, 0, 0⟩) 0
      = some r ∧ |r - 0| ≤ 1 / 100000 :=
  snap_apply_round_trip_even sample_ext (sample_t sv_uneven false true false 0 ⟨-1, 0, 0⟩)
    (sample_tc sv_uneven) ⟨[sv_uneven], (0, 0), (0, 0), 0⟩ sv_uneven 0
    rfl rfl rfl rfl rfl rfl rfl
    (by norm_num [sv_uneven, sample_sv, FLT_EPSILON])
    (by norm_num [sv_uneven, sample_sv, len_squared_v3v3, len_squared_v3, dot_v3v3, sub_v3_v3v3])
    (by norm_num) (by norm_num)
    (by norm_num [sample_t, edge_slide_apply_elem, sv_uneven, sample_sv, FLT_EPSILON, min_ff,
      interp_line_v3_v3v3v3, line_point_factor_v3, add_v3_v3v3, sub_v3_v3v3, len_squared_v3,
      dot_v3v3, fabsf, interp_v3_v3v3])
    (by simp [sample_t])

/-- C4, as stated, fails: for the record `sv_perp` (`edge_len = 1`, the distance
of its rail endpoints), flip on and `v = 1`, the apply engine puts the active
vertex on the rail-0 endpoint (1,0,0), and the snap adapter fed that point
returns 0, not 1. -/
theorem snap_apply_round_trip_even_counterexample :
    sv_perp.edge_len > FLT_EPSILON ∧
      sv_perp.edge_len * sv_perp.edge_len =
        len_squared_v3v3 (sv_perp.dir_side 0) (sv_perp.dir_side 1) ∧
      edge_slide_apply_elem sv_perp 1 (sv_perp.edge_len * (((1 : ℚ) + 1) / 2)) 0 true true true
        = ⟨1, 0, 0⟩ ∧
      edge_slide_snap_apply sample_ext (sample_t sv_perp false true true 0 ⟨1, 0, 0⟩) 1 = some 0 ∧
      ¬ |(0 : ℚ) - 1| ≤ 1 / 100000 := by
  refine ⟨?_, ?_, ?_, ?_, ?_⟩
  · norm_num [sv_perp, sample_sv, FLT_EPSILON]
  · norm_num [sv_perp, sample_sv, len_squared_v3v3, len_squared_v3, dot_v3v3, sub_v3_v3v3]
  · norm_num [edge_slide_apply_elem, sv_perp, sample_sv, FLT_EPSILON, min_ff,
      interp_line_v3_v3v3v3, line_point_factor_v3, add_v3_v3v3, sub_v3_v3v3, len_squared_v3,
      dot_v3v3, fabsf, interp_v3_v3v3]
  · norm_num [edge_slide_snap_apply, edge_slide_container_first_ok, sample_t, sample_tc, sv_perp,
      sample_sv, line_point_factor_v3, add_v3_v3v3, sub_v3_v3v3, len_squared_v3, dot_v3v3,
      zero_v3]
  · norm_num

/-- The even-mode round trip in binary32 for the record `sv_far`, either flip
setting, at `v = 1/4 + 2^-15`: the apply engine (with the `curr_length_fac` of
`doEdgeSlide`) gives the point (100 + 1/64,0,0) and the snap adapter fed that
point returns 1/4, an error of 2^-15, more than 1e-5. -/
theorem f32_round_trip_even_drift (flip : Bool) :
    edge_slide_apply_elem_f32 sv_far (8193 / 32768)
        (even_curr_length_fac_f32 sv_far.edge_len (8193 / 32768) flip) 0 true true flip
        = ⟨6401 / 64, 0, 0⟩ ∧
      edge_slide_snap_apply_f32 sample_ext
        (sample_t sv_far false true flip 0 ⟨6401 / 64, 0, 0⟩) (8193 / 32768) = some (1 / 4) ∧
      ¬ |(1 / 4 : ℚ) - 8193 / 32768| ≤ 1 / 100000 := by
  refine ⟨?_, ?_, ?_⟩
  · cases flip <;> decide!
  · cases flip <;> decide!
  · norm_num [abs_le]

/-! ## Theorems: validation of the double-sided builder -/

theorem same_but_vert_e_refl (bm : BMesh) : same_but_vert_e bm bm :=
  ⟨rfl, rfl, rfl, rfl, rfl, rfl, rfl, fun _ => ⟨rfl, rfl, rfl⟩⟩

theorem same_but_vert_e_trans {a b c : BMesh} (h1 : same_but_vert_e a b)
    (h2 : same_but_vert_e b c) : same_but_vert_e a c := by
  obtain ⟨a1, a2, a3, a4, a5, a6, a7, a8⟩ := h1
  obtain ⟨b1, b2, b3, b4, b5, b6, b7, b8⟩ := h2
  refine ⟨b1.trans a1, b2.trans a2, b3.trans a3, b4.trans a4, b5.trans a5, b6.trans a6,
    b7.trans a7, fun v => ⟨(b8 v).1.trans (a8 v).1, (b8 v).2.1.trans (a8 v).2.1,
      (b8 v).2.2.trans (a8 v).2.2⟩⟩

theorem same_but_vert_e_update (bm : BMesh) (v e : Nat) :
    same_but_vert_e bm
      { bm with vert := Function.update bm.vert v { bm.vert v with e := some e } } := by
  refine ⟨rfl, rfl, rfl, rfl, rfl, rfl, rfl, fun u => ?_⟩
  by_cases h : u = v
  · subst h; simp
  · simp [Function.update_noteq h]

theorem numsel_congr (bm bm1 : BMesh) (u : Nat) (hv : bm1.vert u = bm.vert u)
    (he : bm1.edge = bm.edge) : numsel bm1 u = numsel bm u := by
  simp only [numsel, BM_EDGES_OF_VERT, hv, he]

/-- The mesh after the validation has set `v->e` to the last selected edge at `v`. -/
theorem check_verts_step (bm : BMesh) (v : Nat) (x : Option Nat) :
    same_but_vert_e bm (double_side_set_vert_e bm v x) ∧
      ∀ u, u ≠ v → (double_side_set_vert_e bm v x).vert u = bm.vert u := by
  cases x with
  | none => exact ⟨same_but_vert_e_refl bm, fun _ _ => rfl⟩
  | some e =>
    refine ⟨same_but_vert_e_update bm v e, fun u hu => ?_⟩
    simp [double_side_set_vert_e, Function.update_noteq hu]

/-- The validation loop over the vertices fails exactly when one of them is
selected with 0 or more than 2 selected edges; otherwise it changes `v->e` only. -/
theorem double_side_check_verts_spec (vs : List Nat) (hnd : vs.Nodup) (bm : BMesh) :
    (double_side_check_verts bm vs = none ↔
        ∃ v ∈ vs, (bm.vert v).select = true ∧ (numsel bm v = 0 ∨ numsel bm v > 2)) ∧
      ∀ bm1, double_side_check_verts bm vs = some bm1 →
        same_but_vert_e bm bm1 ∧ ∀ u, u ∉ vs → bm1.vert u = bm.vert u := by
  induction vs generalizing bm with
  | nil =>
    refine ⟨by simp [double_side_check_verts], ?_⟩
    intro bm1 h
    simp only [double_side_check_verts, Option.some.injEq] at h
    subst h
    exact ⟨same_but_vert_e_refl _, fun _ _ => rfl⟩
  | cons v vs ih =>
    have hv : v ∉ vs := (List.nodup_cons.mp hnd).1
    have hnd' : vs.Nodup := (List.nodup_cons.mp hnd).2
    unfold double_side_check_verts
    by_cases hsel : (bm.vert v).select = true
    · simp only [hsel, if_true]
      obtain ⟨hs1, hs2⟩ := check_verts_step bm v
        ((BM_EDGES_OF_VERT bm v).filter (fun e => (bm.edge e).select)).getLast?
      have hn : ((BM_EDGES_OF_VERT bm v).filter (fun e => (bm.edge e).select)).length
          = numsel bm v := rfl
      simp only [hn]
      by_cases hbad : numsel bm v = 0 ∨ numsel bm v > 2
      · simp only [hbad, if_true, true_iff]
        exact ⟨⟨v, List.mem_cons_self _ _, hsel, hbad⟩, fun bm1 h => by simp at h⟩
      · simp only [hbad, if_false]
        obtain ⟨ih1, ih2⟩ := ih hnd' _
        have hcongr : ∀ u ∈ vs,
            (((double_side_set_vert_e bm v ((BM_EDGES_OF_VERT bm v).filter
                (fun e => (bm.edge e).select)).getLast?).vert u).select = true ∧
              (numsel (double_side_set_vert_e bm v ((BM_EDGES_OF_VERT bm v).filter
                (fun e => (bm.edge e).select)).getLast?) u = 0 ∨
               numsel (double_side_set_vert_e bm v ((BM_EDGES_OF_VERT bm v).filter
                (fun e => (bm.edge e).select)).getLast?) u > 2)) ↔
            ((bm.vert u).select = true ∧ (numsel bm u = 0 ∨ numsel bm u > 2)) := by
          intro u hu
          have hne : u ≠ v := fun h => hv (h ▸ hu)
          rw [numsel_congr bm _ u (hs2 u hne) hs1.2.2.2.2.1, hs2 u hne]
        constructor
        · rw [ih1]
          constructor
          · rintro ⟨u, hu, h⟩
            exact ⟨u, List.mem_cons_of_mem _ hu, (hcongr u hu).mp h⟩
          · rintro ⟨u, hu, h⟩
            rcases List.mem_cons.mp hu with rfl | hu
            · exact absurd h.2 hbad
            · exact ⟨u, hu, (hcongr u hu).mpr h⟩
        · intro bm1 h
          obtain ⟨h1, h2⟩ := ih2 bm1 h
          refine ⟨same_but_vert_e_trans hs1 h1, fun u hu => ?_⟩
          have hne : u ≠ v := fun h => hu (h ▸ List.mem_cons_self _ _)
          rw [h2 u (fun hmem => hu (List.mem_cons_of_mem _ hmem)), hs2 u hne]
    · simp only [hsel, Bool.false_eq_true, if_false]
      obtain ⟨ih1, ih2⟩ := ih hnd' bm
      constructor
      · rw [ih1]
        constructor
        · rintro ⟨u, hu, h⟩
          exact ⟨u, List.mem_cons_of_mem _ hu, h⟩
        · rintro ⟨u, hu, h⟩
          rcases List.mem_cons.mp hu with rfl | hu
          · exact absurd h.1 hsel
          · exact ⟨u, hu, h⟩
      · intro bm1 h
        obtain ⟨h1, h2⟩ := ih2 bm1 h
        exact ⟨h1, fun u hu => h2 u (fun hmem => hu (List.mem_cons_of_mem _ hmem))⟩

theorem check_edges_congr (bm bm1 : BMesh) (h : same_but_vert_e bm bm1) :
    double_side_check_edges bm1 = double_side_check_edges bm := by
  obtain ⟨_, h2, _, _, h5, h6, _, _⟩ := h
  simp only [double_side_check_edges, BM_edge_is_manifold, BM_edge_is_boundary, h2, h5, h6]

theorem count_sel_congr (bm bm1 : BMesh) (h : same_but_vert_e bm bm1) :
    double_side_count_sel bm1 = double_side_count_sel bm := by
  obtain ⟨h1, _, _, _, _, _, _, h8⟩ := h
  simp only [double_side_count_sel, h1, (h8 _).2.1]

theorem check_edges_false_iff (bm : BMesh) :
    double_side_check_edges bm = false ↔
      ∃ e, e < bm.totedge ∧ (bm.edge e).select = true ∧
        BM_edge_is_manifold bm e = false ∧ BM_edge_is_boundary bm e = false := by
  simp only [double_side_check_edges, List.all_eq_false, List.mem_range, Bool.or_eq_true,
    Bool.not_eq_true', not_or, Bool.not_eq_false, Bool.not_eq_true, and_assoc]

theorem count_sel_zero_iff (bm : BMesh) :
    double_side_count_sel bm = 0 ↔ ∀ v, v < bm.totvert → (bm.vert v).select = false := by
  simp only [double_side_count_sel, List.length_eq_zero, List.filter_eq_nil_iff, List.mem_range,
    Bool.not_eq_true]

/-- C5: `createEdgeSlideVerts_double_side` returns no data if and only if some
selected vertex has 0 or more than 2 selected incident edges, or some selected
edge is neither manifold nor boundary, or no vertex is selected.  The
equivalence holds for every amount of `fuel`, also for none: in these cases the
function returns before the first pass of its loop, so before any record is
created. -/
theorem createEdgeSlideVerts_double_side_no_data (sqrtf : ℚ → ℚ) (view : ViewExtern)
    (fuel : Nat) (bm : BMesh) :
    createEdgeSlideVerts_double_side sqrtf view fuel bm = some none ↔
      (∃ v, v < bm.totvert ∧ (bm.vert v).select = true ∧ (numsel bm v = 0 ∨ numsel bm v > 2)) ∨
      (∃ e, e < bm.totedge ∧ (bm.edge e).select = true ∧
        BM_edge_is_manifold bm e = false ∧ BM_edge_is_boundary bm e = false) ∨
      (∀ v, v < bm.totvert → (bm.vert v).select = false) := by
  obtain ⟨hv1, hv2⟩ := double_side_check_verts_spec (List.range bm.totvert)
    (List.nodup_range _) bm
  unfold createEdgeSlideVerts_double_side createEdgeSlideVerts_double_side_sv
  cases hc : double_side_check_verts bm (List.range bm.totvert) with
  | none =>
    simp only [true_iff]
    left
    obtain ⟨v, hv, h⟩ := hv1.mp hc
    exact ⟨v, List.mem_range.mp hv, h⟩
  | some bm1 =>
    have hnv : ¬ ∃ v, v < bm.totvert ∧ (bm.vert v).select = true ∧
        (numsel bm v = 0 ∨ numsel bm v > 2) := by
      rintro ⟨v, hv, h⟩
      have := hv1.mpr ⟨v, List.mem_range.mpr hv, h⟩
      rw [hc] at this; cases this
    have hsame := (hv2 bm1 hc).1
    simp only [hnv, false_or]
    rw [← check_edges_false_iff, ← count_sel_zero_iff, ← check_edges_congr bm bm1 hsame,
      ← count_sel_congr bm bm1 hsame]
    cases he : double_side_check_edges bm1 with
    | false => simp
    | true =>
      by_cases hz : double_side_count_sel bm1 = 0
      · simp [hz]
      · simp only [Bool.not_true, Bool.false_eq_true, if_false, hz, or_self, iff_false]
        cases double_side_loop sqrtf fuel fuel _ 0 with
        | none => simp
        | some r =>
          obtain ⟨st, n⟩ := r
          simp only
          split_ifs <;> simp

/-! ## The grid: decoding of the numbering -/

theorem grid_vert_mod (nx i j : Nat) (hi : i ≤ nx) : grid_vert nx i j % (nx + 1) = i := by
  unfold grid_vert
  rw [Nat.mul_comm, Nat.mul_add_mod]
  exact Nat.mod_eq_of_lt (Nat.lt_succ_of_le hi)

theorem grid_vert_div (nx i j : Nat) (hi : i ≤ nx) : grid_vert nx i j / (nx + 1) = j := by
  unfold grid_vert
  rw [Nat.add_comm, Nat.add_mul_div_right _ _ (Nat.succ_pos nx),
    Nat.div_eq_of_lt (Nat.lt_succ_of_le hi), Nat.zero_add]

theorem grid_hedge_lt (nx ny i j : Nat) (hi : i < nx) (hj : j ≤ ny) :
    grid_hedge nx i j < nx * (ny + 1) := by
  unfold grid_hedge
  calc j * nx + i < j * nx + nx := Nat.add_lt_add_left hi _
    _ = nx * (j + 1) := by ring
    _ ≤ nx * (ny + 1) := Nat.mul_le_mul_left _ (Nat.succ_le_succ hj)

theorem grid_hedge_mod (nx i j : Nat) (hi : i < nx) : grid_hedge nx i j % nx = i := by
  unfold grid_hedge
  rw [Nat.mul_comm, Nat.mul_add_mod]
  exact Nat.mod_eq_of_lt hi

theorem grid_hedge_div (nx i j : Nat) (hi : i < nx) : grid_hedge nx i j / nx = j := by
  unfold grid_hedge
  rw [Nat.add_comm, Nat.add_mul_div_right _ _ (Nat.lt_of_le_of_lt (Nat.zero_le i) hi),
    Nat.div_eq_of_lt hi, Nat.zero_add]

theorem grid_vedge_not_lt (nx ny i j : Nat) : ¬ grid_vedge nx ny i j < nx * (ny + 1) := by
  unfold grid_vedge; omega

theorem grid_vedge_sub (nx ny i j : Nat) :
    grid_vedge nx ny i j - nx * (ny + 1) = grid_vert nx i j := by
  unfold grid_vedge grid_vert; omega

theorem grid_loop_mod (nx i j c : Nat) (hc : c < 4) : grid_loop nx i j c % 4 = c := by
  unfold grid_loop; omega

theorem grid_loop_div (nx i j c : Nat) (hc : c < 4) : grid_loop nx i j c / 4 = j * nx + i := by
  unfold grid_loop; omega

theorem grid_face_mod (nx i j : Nat) (hi : i < nx) : (j * nx + i) % nx = i :=
  grid_hedge_mod nx i j hi

theorem grid_face_div (nx i j : Nat) (hi : i < nx) : (j * nx + i) / nx = j :=
  grid_hedge_div nx i j hi

theorem grid_vert_inj (nx i j i' j' : Nat) (hi : i ≤ nx) (hi' : i' ≤ nx)
    (h : grid_vert nx i j = grid_vert nx i' j') : i = i' ∧ j = j' := by
  have h1 := grid_vert_mod nx i j hi
  have h2 := grid_vert_div nx i j hi
  rw [h, grid_vert_mod nx i' j' hi'] at h1
  rw [h, grid_vert_div nx i' j' hi'] at h2
  exact ⟨h1.symm, h2.symm⟩

theorem grid_vedge_inj (nx ny i j i' j' : Nat) (hi : i ≤ nx) (hi' : i' ≤ nx)
    (h : grid_vedge nx ny i j = grid_vedge nx ny i' j') : i = i' ∧ j = j' := by
  apply grid_vert_inj nx i j i' j' hi hi'
  rw [← grid_vedge_sub nx ny i j, ← grid_vedge_sub nx ny i' j', h]

theorem grid_hedge_ne_vedge (nx ny i j i' j' : Nat) (hi : i < nx) (hj : j ≤ ny) :
    grid_hedge nx i j ≠ grid_vedge nx ny i' j' := by
  intro h
  have h1 := grid_hedge_lt nx ny i j hi hj
  rw [h] at h1
  exact grid_vedge_not_lt nx ny i' j' h1

/-! ## The grid: the element tables -/

section tables
variable (nx ny k : Nat) (co : Nat → Nat → V3)

theorem grid_mesh_vert (i j : Nat) (hi : i ≤ nx) :
    (grid_mesh nx ny k co).vert (grid_vert nx i j) =
      { co := co i j
        e := ((if 0 < i then [grid_hedge nx (i - 1) j] else []) ++
          (if i < nx then [grid_hedge nx i j] else []) ++
          (if 0 < j then [grid_vedge nx ny i (j - 1)] else []) ++
          (if j < ny then [grid_vedge nx ny i j] else [])).head?
        select := decide (i = k)
        disk := (if 0 < i then [grid_hedge nx (i - 1) j] else []) ++
          (if i < nx then [grid_hedge nx i j] else []) ++
          (if 0 < j then [grid_vedge nx ny i (j - 1)] else []) ++
          (if j < ny then [grid_vedge nx ny i j] else []) } := by
  simp only [grid_mesh, grid_vert_mod nx i j hi, grid_vert_div nx i j hi]

theorem grid_mesh_hedge (i j : Nat) (hi : i < nx) (hj : j ≤ ny) :
    (grid_mesh nx ny k co).edge (grid_hedge nx i j) =
      { v1 := grid_vert nx i j, v2 := grid_vert nx (i + 1) j,
        l := some (if j < ny then grid_loop nx i j 0 else grid_loop nx i (j - 1) 2),
        select := false } := by
  simp only [grid_mesh, grid_hedge_lt nx ny i j hi hj, if_true, grid_hedge_mod nx i j hi,
    grid_hedge_div nx i j hi]

theorem grid_mesh_vedge (i j : Nat) (hi : i ≤ nx) :
    (grid_mesh nx ny k co).edge (grid_vedge nx ny i j) =
      { v1 := grid_vert nx i j, v2 := grid_vert nx i (j + 1),
        l := some (if i < nx then grid_loop nx i j 3 else grid_loop nx (i - 1) j 1),
        select := decide (i = k) } := by
  simp only [grid_mesh, grid_vedge_not_lt nx ny i j, if_false, grid_vedge_sub,
    grid_vert_mod nx i j hi, grid_vert_div nx i j hi]

theorem grid_mesh_loop0 (i j : Nat) (hi : i < nx) :
    (grid_mesh nx ny k co).loop (grid_loop nx i j 0) =
      { v := grid_vert nx i j, e := grid_hedge nx i j, f := j * nx + i,
        next := grid_loop nx i j 1, prev := grid_loop nx i j 3,
        radial_next := if 0 < j then grid_loop nx i (j - 1) 2 else grid_loop nx i j 0 } := by
  simp only [grid_mesh, grid_loop_mod nx i j 0 (by norm_num), grid_loop_div nx i j 0 (by norm_num),
    grid_face_mod nx i j hi, grid_face_div nx i j hi, if_true]

theorem grid_mesh_loop1 (i j : Nat) (hi : i < nx) :
    (grid_mesh nx ny k co).loop (grid_loop nx i j 1) =
      { v := grid_vert nx (i + 1) j, e := grid_vedge nx ny (i + 1) j, f := j * nx + i,
        next := grid_loop nx i j 2, prev := grid_loop nx i j 0,
        radial_next := if i + 1 < nx then grid_loop nx (i + 1) j 3 else grid_loop nx i j 1 } := by
  simp only [grid_mesh, grid_loop_mod nx i j 1 (by norm_num), grid_loop_div nx i j 1 (by norm_num),
    grid_face_mod nx i j hi, grid_face_div nx i j hi, if_true, one_ne_zero, if_false]

theorem grid_mesh_loop2 (i j : Nat) (hi : i < nx) :
    (grid_mesh nx ny k co).loop (grid_loop nx i j 2) =
      { v := grid_vert nx (i + 1) (j + 1), e := grid_hedge nx i (j + 1), f := j * nx + i,
        next := grid_loop nx i j 3, prev := grid_loop nx i j 1,
        radial_next := if j + 1 < ny then grid_loop nx i (j + 1) 0 else grid_loop nx i j 2 } := by
  simp only [grid_mesh, grid_loop_mod nx i j 2 (by norm_num), grid_loop_div nx i j 2 (by norm_num),
    grid_face_mod nx i j hi, grid_face_div nx i j hi, if_true, OfNat.ofNat_ne_zero,
    OfNat.ofNat_ne_one, if_false]

theorem grid_mesh_loop3 (i j : Nat) (hi : i < nx) :
    (grid_mesh nx ny k co).loop (grid_loop nx i j 3) =
      { v := grid_vert nx i (j + 1), e := grid_vedge nx ny i j, f := j * nx + i,
        next := grid_loop nx i j 0, prev := grid_loop nx i j 2,
        radial_next := if 0 < i then grid_loop nx (i - 1) j 1 else grid_loop nx i j 3 } := by
  simp [grid_mesh, grid_loop_mod nx i j 3 (by norm_num), grid_loop_div nx i j 3 (by norm_num),
    grid_face_mod nx i j hi, grid_face_div nx i j hi]

end tables

/-! ## Theorems: the builder on a quad grid -/

theorem BM_EDGES_OF_VERT_congr (bm bm1 : BMesh) (v : Nat) (h : bm1.vert v = bm.vert v) :
    BM_EDGES_OF_VERT bm1 v = BM_EDGES_OF_VERT bm v := by
  unfold BM_EDGES_OF_VERT
  rw [h]

theorem set_vert_e_vert_congr (bm bm1 : BMesh) (v : Nat) (x : Option Nat)
    (h : bm1.vert v = bm.vert v) :
    (double_side_set_vert_e bm1 v x).vert v = (double_side_set_vert_e bm v x).vert v := by
  cases x with
  | none => simpa [double_side_set_vert_e] using h
  | some e => simp [double_side_set_vert_e, h]

/-- The value of `v->e` after the validation loop over the vertices. -/
theorem double_side_check_verts_vert (vs : List Nat) (hnd : vs.Nodup) (bm bm1 : BMesh)
    (h : double_side_check_verts bm vs = some bm1) (v : Nat) (hv : v ∈ vs) :
    bm1.vert v =
      if (bm.vert v).select then
        (double_side_set_vert_e bm v
          ((BM_EDGES_OF_VERT bm v).filter (fun e => (bm.edge e).select)).getLast?).vert v
      else bm.vert v := by
  induction vs generalizing bm with
  | nil => cases hv
  | cons u vs ih =>
    have hu : u ∉ vs := (List.nodup_cons.mp hnd).1
    have hnd' : vs.Nodup := (List.nodup_cons.mp hnd).2
    unfold double_side_check_verts at h
    by_cases hsel : (bm.vert u).select = true
    · simp only [hsel, if_true] at h
      split_ifs at h with hbad
      obtain ⟨hs1, hs2⟩ := check_verts_step bm u
        ((BM_EDGES_OF_VERT bm u).filter (fun e => (bm.edge e).select)).getLast?
      rcases List.mem_cons.mp hv with rfl | hv'
      · rw [((double_side_check_verts_spec vs hnd' _).2 bm1 h).2 v hu, if_pos hsel]
      · have hne : v ≠ u := fun hvu => hu (hvu ▸ hv')
        rw [ih hnd' _ h hv', hs2 v hne]
        have he : (double_side_set_vert_e bm u ((BM_EDGES_OF_VERT bm u).filter
            (fun e => (bm.edge e).select)).getLast?).edge = bm.edge := hs1.2.2.2.2.1
        have hE : BM_EDGES_OF_VERT (double_side_set_vert_e bm u ((BM_EDGES_OF_VERT bm u).filter
            (fun e => (bm.edge e).select)).getLast?) v = BM_EDGES_OF_VERT bm v :=
          BM_EDGES_OF_VERT_congr _ _ v (hs2 v hne)
        rw [hE, he, set_vert_e_vert_congr bm _ v _ (hs2 v hne)]
    · simp only [hsel, Bool.false_eq_true, if_false] at h
      rcases List.mem_cons.mp hv with rfl | hv'
      · rw [((double_side_check_verts_spec vs hnd' _).2 bm1 h).2 v hu]
        simp [hsel]
      · exact ih hnd' _ h hv'

theorem BM_EDGES_OF_VERT_head (bm : BMesh) (v : Nat)
    (h : (bm.vert v).e = (bm.vert v).disk.head?) :
    BM_EDGES_OF_VERT bm v = (bm.vert v).disk := by
  unfold BM_EDGES_OF_VERT
  rw [h]
  cases (bm.vert v).disk with
  | nil => rfl
  | cons a l => simp

section grid
variable (nx ny m : Nat) (co : Nat → Nat → V3)

theorem grid_hedge_select (i j : Nat) (hi : i < nx) (hj : j ≤ ny) :
    ((grid_mesh nx ny (m + 1) co).edge (grid_hedge nx i j)).select = false := by
  rw [grid_mesh_hedge nx ny (m + 1) co i j hi hj]

theorem grid_vedge_select (j : Nat) (hm : m + 1 < nx) :
    ((grid_mesh nx ny (m + 1) co).edge (grid_vedge nx ny (m + 1) j)).select = true := by
  rw [grid_mesh_vedge nx ny (m + 1) co (m + 1) j (le_of_lt hm)]
  simp

/-- The disk cycle of a vertex of the selected column. -/
theorem grid_disk_col (j : Nat) (hm : m + 1 < nx) :
    ((grid_mesh nx ny (m + 1) co).vert (grid_vert nx (m + 1) j)).disk =
      [grid_hedge nx m j, grid_hedge nx (m + 1) j] ++
        ((if 0 < j then [grid_vedge nx ny (m + 1) (j - 1)] else []) ++
          (if j < ny then [grid_vedge nx ny (m + 1) j] else [])) := by
  rw [grid_mesh_vert nx ny (m + 1) co (m + 1) j (le_of_lt hm)]
  simp [hm]

theorem grid_edges_of_vert (v : Nat) :
    BM_EDGES_OF_VERT (grid_mesh nx ny (m + 1) co) v =
      ((grid_mesh nx ny (m + 1) co).vert v).disk :=
  BM_EDGES_OF_VERT_head _ v rfl

theorem grid_vert_decode (v : Nat) (hv : v < (nx + 1) * (ny + 1)) :
    v = grid_vert nx (v % (nx + 1)) (v / (nx + 1)) ∧ v % (nx + 1) ≤ nx ∧ v / (nx + 1) ≤ ny := by
  refine ⟨?_, ?_, ?_⟩
  · unfold grid_vert
    rw [Nat.mul_comm]
    exact (Nat.div_add_mod v (nx + 1)).symm
  · exact Nat.lt_succ_iff.mp (Nat.mod_lt v (Nat.succ_pos nx))
  · apply Nat.lt_succ_iff.mp
    exact Nat.div_lt_of_lt_mul hv

/-- The selected edges at a vertex of the selected column, in the order of the disk cycle. -/
theorem grid_sel_col (j : Nat) (hm : m + 1 < nx) (hj : j ≤ ny) :
    (BM_EDGES_OF_VERT (grid_mesh nx ny (m + 1) co) (grid_vert nx (m + 1) j)).filter
        (fun e => ((grid_mesh nx ny (m + 1) co).edge e).select) =
      (if 0 < j then [grid_vedge nx ny (m + 1) (j - 1)] else []) ++
        (if j < ny then [grid_vedge nx ny (m + 1) j] else []) := by
  rw [grid_edges_of_vert, grid_disk_col nx ny m co j hm]
  have h1 := grid_hedge_select nx ny m co m j (by omega) hj
  have h2 := grid_hedge_select nx ny m co (m + 1) j hm hj
  have h3 := grid_vedge_select nx ny m co (j - 1) hm
  have h4 := grid_vedge_select nx ny m co j hm
  by_cases hj0 : 0 < j <;> by_cases hj1 : j < ny <;>
    simp [List.filter_cons, h1, h2, h3, h4, hj0, hj1]

theorem grid_vert_lt (i j : Nat) (hi : i ≤ nx) (hj : j ≤ ny) :
    grid_vert nx i j < (nx + 1) * (ny + 1) := by
  unfold grid_vert
  calc j * (nx + 1) + i < j * (nx + 1) + (nx + 1) := Nat.add_lt_add_left (Nat.lt_succ_of_le hi) _
    _ = (nx + 1) * (j + 1) := by ring
    _ ≤ (nx + 1) * (ny + 1) := Nat.mul_le_mul_left _ (Nat.succ_le_succ hj)

theorem grid_vert_select (i j : Nat) (hi : i ≤ nx) :
    ((grid_mesh nx ny (m + 1) co).vert (grid_vert nx i j)).select = decide (i = m + 1) := by
  rw [grid_mesh_vert nx ny (m + 1) co i j hi]

/-- The validation loop over the vertices accepts the grid with a selected inner column. -/
theorem grid_check_verts (hm : m + 1 < nx) (hny : 0 < ny) :
    ∃ bm, double_side_check_verts (grid_mesh nx ny (m + 1) co)
        (List.range (grid_mesh nx ny (m + 1) co).totvert) = some bm ∧
      GridChecked nx ny m co bm := by
  have hspec := double_side_check_verts_spec (List.range (grid_mesh nx ny (m + 1) co).totvert)
    (List.nodup_range _) (grid_mesh nx ny (m + 1) co)
  cases hc : double_side_check_verts (grid_mesh nx ny (m + 1) co)
      (List.range (grid_mesh nx ny (m + 1) co).totvert) with
  | none =>
    exfalso
    obtain ⟨v, hv, hsel, hbad⟩ := hspec.1.mp hc
    have hv' : v < (nx + 1) * (ny + 1) := List.mem_range.mp hv
    obtain ⟨hd, hi, hj⟩ := grid_vert_decode nx ny v hv'
    rw [hd, grid_vert_select nx ny m co _ _ hi] at hsel
    have hi' : v % (nx + 1) = m + 1 := of_decide_eq_true hsel
    rw [hi'] at hd
    have hn : numsel (grid_mesh nx ny (m + 1) co) v =
        ((if 0 < v / (nx + 1) then [grid_vedge nx ny (m + 1) (v / (nx + 1) - 1)] else []) ++
          (if v / (nx + 1) < ny then [grid_vedge nx ny (m + 1) (v / (nx + 1))] else [])).length := by
      unfold numsel
      rw [← grid_sel_col nx ny m co (v / (nx + 1)) hm hj, ← hd]
    rw [hn] at hbad
    by_cases hj0 : 0 < v / (nx + 1) <;> by_cases hj1 : v / (nx + 1) < ny <;>
      simp [hj0, hj1] at hbad
    omega
  | some bm =>
    refine ⟨bm, rfl, (hspec.2 bm hc).1, ?_, ?_⟩
    · intro j hj
      have hv : grid_vert nx (m + 1) j ∈ List.range (grid_mesh nx ny (m + 1) co).totvert :=
        List.mem_range.mpr (grid_vert_lt nx ny _ _ (le_of_lt hm) (le_of_lt hj))
      rw [double_side_check_verts_vert _ (List.nodup_range _) _ bm hc _ hv,
        grid_vert_select nx ny m co _ _ (le_of_lt hm), grid_sel_col nx ny m co j hm (le_of_lt hj)]
      by_cases hj0 : 0 < j <;> simp [hj0, hj, double_side_set_vert_e]
    · intro j hj
      have hv : grid_vert nx (m + 1) (j + 1) ∈
          List.range (grid_mesh nx ny (m + 1) co).totvert :=
        List.mem_range.mpr (grid_vert_lt nx ny _ _ (le_of_lt hm) (by omega))
      rw [double_side_check_verts_vert _ (List.nodup_range _) _ bm hc _ hv,
        grid_vert_select nx ny m co _ _ (le_of_lt hm),
        grid_sel_col nx ny m co (j + 1) hm (by omega)]
      have : ¬ j + 1 < ny := by omega
      simp [this, double_side_set_vert_e]

end grid

theorem mem_BM_EDGES_OF_VERT (bm : BMesh) (v x : Nat) (h : x ∈ BM_EDGES_OF_VERT bm v) :
    x ∈ (bm.vert v).disk := by
  unfold BM_EDGES_OF_VERT at h
  cases he : (bm.vert v).e with
  | none => simp [he] at h
  | some e =>
    simp only [he] at h
    exact List.mem_rotate.mp h

theorem mem_BM_EDGES_OF_VERT_of_disk (bm : BMesh) (v x e : Nat) (he : (bm.vert v).e = some e)
    (h : x ∈ (bm.vert v).disk) : x ∈ BM_EDGES_OF_VERT bm v := by
  unfold BM_EDGES_OF_VERT
  simp only [he]
  exact List.mem_rotate.mpr h

/-- `get_other_edge` finds nothing when `e` is the only selected edge at `v`. -/
theorem get_other_edge_none (bm : BMesh) (v e : Nat)
    (h : ∀ x ∈ (bm.vert v).disk, (bm.edge x).select = true → x = e) :
    get_other_edge bm v e = none := by
  unfold get_other_edge
  rw [List.find?_eq_none]
  intro x hx hp
  simp only [Bool.and_eq_true, decide_eq_true_eq] at hp
  exact hp.2 (h x (mem_BM_EDGES_OF_VERT bm v x hx) hp.1)

/-- `get_other_edge` finds the one selected edge at `v` that is not `e`. -/
theorem get_other_edge_some (bm : BMesh) (v e e1 e0 : Nat) (he : (bm.vert v).e = some e0)
    (hmem : e1 ∈ (bm.vert v).disk) (hsel : (bm.edge e1).select = true) (hne : e1 ≠ e)
    (huniq : ∀ x ∈ (bm.vert v).disk, (bm.edge x).select = true → x ≠ e → x = e1) :
    get_other_edge bm v e = some e1 := by
  unfold get_other_edge
  cases hf : (BM_EDGES_OF_VERT bm v).find?
      (fun e_iter => (bm.edge e_iter).select && decide (e_iter ≠ e)) with
  | none =>
    exfalso
    rw [List.find?_eq_none] at hf
    apply hf e1 (mem_BM_EDGES_OF_VERT_of_disk bm v e1 e0 he hmem)
    simp [hsel, hne]
  | some x =>
    have hp := List.find?_some hf
    have hx := List.mem_of_find?_eq_some hf
    simp only [Bool.and_eq_true, decide_eq_true_eq] at hp
    rw [huniq x (mem_BM_EDGES_OF_VERT bm v x hx) hp.1 hp.2]

section grid
variable {nx ny m : Nat} {co : Nat → Nat → V3} {bm : BMesh}

theorem GridChecked.edge_eq (h : GridChecked nx ny m co bm) :
    bm.edge = (grid_mesh nx ny (m + 1) co).edge := h.same.2.2.2.2.1

theorem GridChecked.loop_eq (h : GridChecked nx ny m co bm) :
    bm.loop = (grid_mesh nx ny (m + 1) co).loop := h.same.2.2.2.2.2.1

theorem GridChecked.face_eq (h : GridChecked nx ny m co bm) :
    bm.face = (grid_mesh nx ny (m + 1) co).face := h.same.2.2.2.2.2.2.1

theorem GridChecked.totvert_eq (h : GridChecked nx ny m co bm) :
    bm.totvert = (nx + 1) * (ny + 1) := h.same.1

theorem GridChecked.co_eq (h : GridChecked nx ny m co bm) (i j : Nat) (hi : i ≤ nx) :
    (bm.vert (grid_vert nx i j)).co = co i j := by
  rw [(h.same.2.2.2.2.2.2.2 _).1, grid_mesh_vert nx ny (m + 1) co i j hi]

theorem GridChecked.select_eq (h : GridChecked nx ny m co bm) (v : Nat) :
    (bm.vert v).select = decide (v % (nx + 1) = m + 1) := by
  rw [(h.same.2.2.2.2.2.2.2 _).2.1]
  rfl

theorem GridChecked.disk_eq (h : GridChecked nx ny m co bm) (v : Nat) :
    (bm.vert v).disk = ((grid_mesh nx ny (m + 1) co).vert v).disk :=
  (h.same.2.2.2.2.2.2.2 _).2.2

theorem grid_vert_eq (nx i j i' j' : Nat) (hi : i ≤ nx) (hi' : i' ≤ nx) :
    (grid_vert nx i j = grid_vert nx i' j') = (i = i' ∧ j = j') :=
  propext ⟨grid_vert_inj nx i j i' j' hi hi', fun h => by rw [h.1, h.2]⟩

theorem grid_vedge_eq (nx ny i j i' j' : Nat) (hi : i ≤ nx) (hi' : i' ≤ nx) :
    (grid_vedge nx ny i j = grid_vedge nx ny i' j') = (i = i' ∧ j = j') :=
  propext ⟨grid_vedge_inj nx ny i j i' j' hi hi', fun h => by rw [h.1, h.2]⟩

/-- Right face, from the selected edge at its lower vertex to the bottom edge. -/
theorem gc_other_loop_r_low (h : GridChecked nx ny m co bm) (hm : m + 1 < nx) (j : Nat) :
    BM_loop_other_edge_loop bm (grid_loop nx (m + 1) j 3) (grid_vert nx (m + 1) j) =
      some (grid_loop nx (m + 1) j 0) := by
  unfold BM_loop_other_edge_loop BM_edge_other_vert
  rw [h.loop_eq, h.edge_eq]
  simp [grid_mesh_loop3 nx ny (m + 1) co (m + 1) j hm, grid_mesh_loop2 nx ny (m + 1) co (m + 1) j hm,
    grid_mesh_vedge nx ny (m + 1) co (m + 1) j (le_of_lt hm),
    grid_vert_eq nx (m + 1) (j + 1) (m + 1) j (le_of_lt hm) (le_of_lt hm),
    grid_vert_eq nx (m + 1 + 1) (j + 1) (m + 1) j hm (le_of_lt hm)]

/-- Right face, from the selected edge at its upper vertex to the top edge. -/
theorem gc_other_loop_r_up (h : GridChecked nx ny m co bm) (hm : m + 1 < nx) (j : Nat) :
    BM_loop_other_edge_loop bm (grid_loop nx (m + 1) j 3) (grid_vert nx (m + 1) (j + 1)) =
      some (grid_loop nx (m + 1) j 2) := by
  unfold BM_loop_other_edge_loop BM_edge_other_vert
  rw [h.loop_eq, h.edge_eq]
  simp [grid_mesh_loop3 nx ny (m + 1) co (m + 1) j hm, grid_mesh_loop2 nx ny (m + 1) co (m + 1) j hm,
    grid_mesh_vedge nx ny (m + 1) co (m + 1) j (le_of_lt hm),
    grid_vert_eq nx (m + 1) j (m + 1) (j + 1) (le_of_lt hm) (le_of_lt hm),
    grid_vert_eq nx (m + 1 + 1) (j + 1) (m + 1) j hm (le_of_lt hm)]

/-- Left face, from the selected edge at its lower vertex to the bottom edge. -/
theorem gc_other_loop_l_low (h : GridChecked nx ny m co bm) (hm : m + 1 < nx) (j : Nat) :
    BM_loop_other_edge_loop bm (grid_loop nx m j 1) (grid_vert nx (m + 1) j) =
      some (grid_loop nx m j 0) := by
  have hm' : m < nx := by omega
  unfold BM_loop_other_edge_loop BM_edge_other_vert
  rw [h.loop_eq, h.edge_eq]
  simp [grid_mesh_loop1 nx ny (m + 1) co m j hm', grid_mesh_loop0 nx ny (m + 1) co m j hm',
    grid_mesh_vedge nx ny (m + 1) co (m + 1) j (le_of_lt hm),
    grid_vert_eq nx m j (m + 1) (j + 1) (le_of_lt hm') (le_of_lt hm)]

/-- Left face, from the selected edge at its upper vertex to the top edge. -/
theorem gc_other_loop_l_up (h : GridChecked nx ny m co bm) (hm : m + 1 < nx) (j : Nat) :
    BM_loop_other_edge_loop bm (grid_loop nx m j 1) (grid_vert nx (m + 1) (j + 1)) =
      some (grid_loop nx m j 2) := by
  have hm' : m < nx := by omega
  unfold BM_loop_other_edge_loop BM_edge_other_vert
  rw [h.loop_eq, h.edge_eq]
  simp [grid_mesh_loop1 nx ny (m + 1) co m j hm', grid_mesh_loop0 nx ny (m + 1) co m j hm',
    grid_mesh_vedge nx ny (m + 1) co (m + 1) j (le_of_lt hm),
    grid_vert_eq nx (m + 1) j (m + 1) (j + 1) (le_of_lt hm) (le_of_lt hm),
    grid_vert_eq nx m j (m + 1) (j + 1) (le_of_lt hm') (le_of_lt hm)]

/-- Right face, from the top edge at the selected column back to the selected edge. -/
theorem gc_other_loop_r_top (h : GridChecked nx ny m co bm) (hm : m + 1 < nx) (j : Nat)
    (hj : j + 1 ≤ ny) :
    BM_loop_other_edge_loop bm (grid_loop nx (m + 1) j 2) (grid_vert nx (m + 1) (j + 1)) =
      some (grid_loop nx (m + 1) j 3) := by
  unfold BM_loop_other_edge_loop BM_edge_other_vert
  rw [h.loop_eq, h.edge_eq]
  simp [grid_mesh_loop2 nx ny (m + 1) co (m + 1) j hm, grid_mesh_loop1 nx ny (m + 1) co (m + 1) j hm,
    grid_mesh_hedge nx ny (m + 1) co (m + 1) (j + 1) hm hj,
    grid_vert_eq nx (m + 1 + 1) (j + 1) (m + 1) (j + 1) hm (le_of_lt hm),
    grid_vert_eq nx (m + 1 + 1) j (m + 1) (j + 1) hm (le_of_lt hm)]

/-- Right face, from the bottom edge at the selected column to the selected edge. -/
theorem gc_other_loop_r_bot (h : GridChecked nx ny m co bm) (hm : m + 1 < nx) (j : Nat)
    (hj : j ≤ ny) :
    BM_loop_other_edge_loop bm (grid_loop nx (m + 1) j 0) (grid_vert nx (m + 1) j) =
      some (grid_loop nx (m + 1) j 3) := by
  unfold BM_loop_other_edge_loop BM_edge_other_vert
  rw [h.loop_eq, h.edge_eq]
  simp [grid_mesh_loop0 nx ny (m + 1) co (m + 1) j hm, grid_mesh_loop3 nx ny (m + 1) co (m + 1) j hm,
    grid_mesh_hedge nx ny (m + 1) co (m + 1) j hm hj,
    grid_vert_eq nx (m + 1) (j + 1) (m + 1 + 1) j (le_of_lt hm) hm]

/-- Left face, from the top edge at the selected column back to the selected edge. -/
theorem gc_other_loop_l_top (h : GridChecked nx ny m co bm) (hm : m + 1 < nx) (j : Nat)
    (hj : j + 1 ≤ ny) :
    BM_loop_other_edge_loop bm (grid_loop nx m j 2) (grid_vert nx (m + 1) (j + 1)) =
      some (grid_loop nx m j 1) := by
  have hm' : m < nx := by omega
  unfold BM_loop_other_edge_loop BM_edge_other_vert
  rw [h.loop_eq, h.edge_eq]
  simp [grid_mesh_loop2 nx ny (m + 1) co m j hm', grid_mesh_loop1 nx ny (m + 1) co m j hm',
    grid_mesh_hedge nx ny (m + 1) co m (j + 1) hm' hj,
    grid_vert_eq nx m (j + 1) (m + 1) (j + 1) (le_of_lt hm') (le_of_lt hm),
    grid_vert_eq nx (m + 1) j m (j + 1) (le_of_lt hm) (le_of_lt hm')]

/-- Left face, from the bottom edge at the selected column to the selected edge. -/
theorem gc_other_loop_l_bot (h : GridChecked nx ny m co bm) (hm : m + 1 < nx) (j : Nat)
    (hj : j ≤ ny) :
    BM_loop_other_edge_loop bm (grid_loop nx m j 0) (grid_vert nx (m + 1) j) =
      some (grid_loop nx m j 1) := by
  have hm' : m < nx := by omega
  unfold BM_loop_other_edge_loop BM_edge_other_vert
  rw [h.loop_eq, h.edge_eq]
  simp [grid_mesh_loop0 nx ny (m + 1) co m j hm', grid_mesh_loop3 nx ny (m + 1) co m j hm',
    grid_mesh_hedge nx ny (m + 1) co m j hm' hj,
    grid_vert_eq nx m j (m + 1) j (le_of_lt hm') (le_of_lt hm),
    grid_vert_eq nx m (j + 1) (m + 1) j (le_of_lt hm') (le_of_lt hm)]

/-- The other end of a selected edge, seen from below. -/
theorem gc_other_vert_up (h : GridChecked nx ny m co bm) (hm : m + 1 < nx) (j : Nat) :
    BM_edge_other_vert bm (grid_vedge nx ny (m + 1) j) (grid_vert nx (m + 1) j) =
      some (grid_vert nx (m + 1) (j + 1)) := by
  unfold BM_edge_other_vert
  rw [h.edge_eq]
  simp [grid_mesh_vedge nx ny (m + 1) co (m + 1) j (le_of_lt hm)]

/-- The other end of the horizontal edge to the right of the selected column. -/
theorem gc_other_vert_right (h : GridChecked nx ny m co bm) (hm : m + 1 < nx) (j : Nat)
    (hj : j ≤ ny) :
    BM_edge_other_vert bm (grid_hedge nx (m + 1) j) (grid_vert nx (m + 1) j) =
      some (grid_vert nx (m + 1 + 1) j) := by
  unfold BM_edge_other_vert
  rw [h.edge_eq]
  simp [grid_mesh_hedge nx ny (m + 1) co (m + 1) j hm hj]

/-- The other end of the horizontal edge to the left of the selected column. -/
theorem gc_other_vert_left (h : GridChecked nx ny m co bm) (hm : m + 1 < nx) (j : Nat)
    (hj : j ≤ ny) :
    BM_edge_other_vert bm (grid_hedge nx m j) (grid_vert nx (m + 1) j) =
      some (grid_vert nx m j) := by
  have hm' : m < nx := by omega
  unfold BM_edge_other_vert
  rw [h.edge_eq]
  simp [grid_mesh_hedge nx ny (m + 1) co m j hm' hj,
    grid_vert_eq nx m j (m + 1) j (le_of_lt hm') (le_of_lt hm)]

theorem GridChecked.hedge_select (h : GridChecked nx ny m co bm) (i j : Nat) (hi : i < nx)
    (hj : j ≤ ny) : (bm.edge (grid_hedge nx i j)).select = false := by
  rw [h.edge_eq]; exact grid_hedge_select nx ny m co i j hi hj

theorem GridChecked.vedge_select (h : GridChecked nx ny m co bm) (j : Nat) (hm : m + 1 < nx) :
    (bm.edge (grid_vedge nx ny (m + 1) j)).select = true := by
  rw [h.edge_eq]; exact grid_vedge_select nx ny m co j hm

theorem GridChecked.disk_col (h : GridChecked nx ny m co bm) (j : Nat) (hm : m + 1 < nx) :
    (bm.vert (grid_vert nx (m + 1) j)).disk =
      [grid_hedge nx m j, grid_hedge nx (m + 1) j] ++
        ((if 0 < j then [grid_vedge nx ny (m + 1) (j - 1)] else []) ++
          (if j < ny then [grid_vedge nx ny (m + 1) j] else [])) := by
  rw [h.disk_eq, grid_disk_col nx ny m co j hm]

/-- At the bottom vertex of the selected column there is no second selected edge. -/
theorem gc_get_other_edge_bottom (h : GridChecked nx ny m co bm) (hm : m + 1 < nx) :
    get_other_edge bm (grid_vert nx (m + 1) 0) (grid_vedge nx ny (m + 1) 0) = none := by
  apply get_other_edge_none
  intro x hx hsel
  rw [h.disk_col 0 hm] at hx
  have h1 := h.hedge_select m 0 (by omega) (Nat.zero_le _)
  have h2 := h.hedge_select (m + 1) 0 hm (Nat.zero_le _)
  simp only [lt_self_iff_false, if_false, List.cons_append, List.nil_append, List.mem_cons,
    List.mem_append, List.not_mem_nil, or_false] at hx
  rcases hx with rfl | rfl | hx
  · rw [h1] at hsel; cases hsel
  · rw [h2] at hsel; cases hsel
  · split_ifs at hx with h0
    · simpa using hx
    · simp at hx

/-- At an inner vertex of the selected column the other selected edge is the one above. -/
theorem gc_get_other_edge_inner (h : GridChecked nx ny m co bm) (hm : m + 1 < nx) (j : Nat)
    (hj : j + 1 < ny) :
    get_other_edge bm (grid_vert nx (m + 1) (j + 1)) (grid_vedge nx ny (m + 1) j) =
      some (grid_vedge nx ny (m + 1) (j + 1)) := by
  have h1 := h.hedge_select m (j + 1) (by omega) (by omega)
  have h2 := h.hedge_select (m + 1) (j + 1) hm (by omega)
  have hd := h.disk_col (j + 1) hm
  simp only [Nat.zero_lt_succ, if_true, hj, Nat.add_sub_cancel] at hd
  apply get_other_edge_some bm _ _ _ _ (h.vert_e (j + 1) hj)
  · rw [hd]; simp
  · exact h.vedge_select (j + 1) hm
  · rw [Ne, grid_vedge_eq nx ny (m + 1) (j + 1) (m + 1) j (le_of_lt hm) (le_of_lt hm)]
    omega
  · intro x hx hsel hne
    rw [hd] at hx
    simp only [List.cons_append, List.nil_append, List.mem_cons, List.not_mem_nil, or_false]
      at hx
    rcases hx with rfl | rfl | rfl | rfl
    · rw [h1] at hsel; cases hsel
    · rw [h2] at hsel; cases hsel
    · exact absurd rfl hne
    · rfl

/-- At the top vertex of the selected column there is no second selected edge. -/
theorem gc_get_other_edge_top (h : GridChecked nx ny m co bm) (hm : m + 1 < nx) (j : Nat)
    (hj : j + 1 = ny) :
    get_other_edge bm (grid_vert nx (m + 1) (j + 1)) (grid_vedge nx ny (m + 1) j) = none := by
  have h1 := h.hedge_select m (j + 1) (by omega) (by omega)
  have h2 := h.hedge_select (m + 1) (j + 1) hm (by omega)
  have hd := h.disk_col (j + 1) hm
  have hnot : ¬ j + 1 < ny := by omega
  simp only [Nat.zero_lt_succ, if_true, hnot, if_false, Nat.add_sub_cancel] at hd
  apply get_other_edge_none
  intro x hx hsel
  rw [hd] at hx
  simp only [List.cons_append, List.nil_append, List.append_nil, List.mem_cons,
    List.not_mem_nil, or_false] at hx
  rcases hx with rfl | rfl | rfl
  · rw [h1] at hsel; cases hsel
  · rw [h2] at hsel; cases hsel
  · rfl

/-- The horizontal edges of the bottom row are boundary edges. -/
theorem gc_boundary_bottom (h : GridChecked nx ny m co bm) (i : Nat) (hi : i < nx)
    (hny : 0 < ny) : BM_edge_is_boundary bm (grid_hedge nx i 0) = true := by
  unfold BM_edge_is_boundary
  rw [h.edge_eq, h.loop_eq]
  simp [grid_mesh_hedge nx ny (m + 1) co i 0 hi (Nat.zero_le _), hny,
    grid_mesh_loop0 nx ny (m + 1) co i 0 hi]

/-- The horizontal edges of the top row are boundary edges. -/
theorem gc_boundary_top (h : GridChecked nx ny m co bm) (i j : Nat) (hi : i < nx)
    (hj : j + 1 = ny) : BM_edge_is_boundary bm (grid_hedge nx i (j + 1)) = true := by
  have hnot : ¬ j + 1 < ny := by omega
  unfold BM_edge_is_boundary
  rw [h.edge_eq, h.loop_eq]
  simp [grid_mesh_hedge nx ny (m + 1) co i (j + 1) hi (by omega), hnot,
    grid_mesh_loop2 nx ny (m + 1) co i j hi]

end grid

section grid
variable {nx ny m : Nat} {co : Nat → Nat → V3} {bm : BMesh}

theorem grid_loop_ne (i j c i' j' c' : Nat) (hc : c < 4) (hc' : c' < 4) (h : c ≠ c') :
    grid_loop nx i j c ≠ grid_loop nx i' j' c' := by
  unfold grid_loop; omega

/-- `get_next_loop` on the right of the selected column at an inner vertex. -/
theorem gc_get_next_loop_r (sqrtf : ℚ → ℚ) (h : GridChecked nx ny m co bm) (hm : m + 1 < nx)
    (j : Nat) (hj : j + 1 < ny) (fuel : Nat) :
    get_next_loop sqrtf bm (fuel + 2) (grid_vert nx (m + 1) (j + 1)) (grid_loop nx (m + 1) j 3)
        (grid_vedge nx ny (m + 1) j) (grid_vedge nx ny (m + 1) (j + 1)) =
      some (some (grid_loop nx (m + 1) (j + 1) 3),
        crossed_rail sqrtf (sub_v3_v3v3 (co (m + 1 + 1) (j + 1)) (co (m + 1) (j + 1)))) := by
  have e1 : (bm.loop (grid_loop nx (m + 1) j 2)).e = grid_hedge nx (m + 1) (j + 1) := by
    rw [h.loop_eq, grid_mesh_loop2 nx ny (m + 1) co (m + 1) j hm]
  have e2 : (bm.loop (grid_loop nx (m + 1) j 3)).e = grid_vedge nx ny (m + 1) j := by
    rw [h.loop_eq, grid_mesh_loop3 nx ny (m + 1) co (m + 1) j hm]
  have e3 : (bm.loop (grid_loop nx (m + 1) (j + 1) 3)).e = grid_vedge nx ny (m + 1) (j + 1) := by
    rw [h.loop_eq, grid_mesh_loop3 nx ny (m + 1) co (m + 1) (j + 1) hm]
  have r2 : (bm.loop (grid_loop nx (m + 1) j 2)).radial_next = grid_loop nx (m + 1) (j + 1) 0 := by
    rw [h.loop_eq, grid_mesh_loop2 nx ny (m + 1) co (m + 1) j hm]
    simp [hj]
  have n1 : grid_hedge nx (m + 1) (j + 1) ≠ grid_vedge nx ny (m + 1) (j + 1) :=
    grid_hedge_ne_vedge nx ny _ _ _ _ hm (by omega)
  have n2 : grid_vedge nx ny (m + 1) j ≠ grid_vedge nx ny (m + 1) (j + 1) := by
    rw [Ne, grid_vedge_eq nx ny (m + 1) j (m + 1) (j + 1) (le_of_lt hm) (le_of_lt hm)]
    omega
  have n3 : grid_loop nx (m + 1) j 2 ≠ grid_loop nx (m + 1) (j + 1) 0 :=
    grid_loop_ne _ _ _ _ _ _ (by norm_num) (by norm_num) (by norm_num)
  have n4 : grid_loop nx (m + 1) (j + 1) 0 ≠ grid_loop nx (m + 1) j 3 :=
    grid_loop_ne _ _ _ _ _ _ (by norm_num) (by norm_num) (by norm_num)
  unfold get_next_loop
  simp only [get_next_loop_loop, gc_other_loop_r_up h hm j, e1, n1, if_false,
    gc_other_vert_right h hm (j + 1) (by omega), gc_other_loop_r_top h hm j (by omega), e2, n2,
    r2, ne_eq, n3, not_false_eq_true, n4, and_self, if_true,
    gc_other_loop_r_bot h hm (j + 1) (by omega), e3, h.co_eq _ _ hm, h.co_eq _ _ (le_of_lt hm)]
  simp [crossed_rail]

/-- `get_next_loop` on the left of the selected column at an inner vertex. -/
theorem gc_get_next_loop_l (sqrtf : ℚ → ℚ) (h : GridChecked nx ny m co bm) (hm : m + 1 < nx)
    (j : Nat) (hj : j + 1 < ny) (fuel : Nat) :
    get_next_loop sqrtf bm (fuel + 2) (grid_vert nx (m + 1) (j + 1)) (grid_loop nx m j 1)
        (grid_vedge nx ny (m + 1) j) (grid_vedge nx ny (m + 1) (j + 1)) =
      some (some (grid_loop nx m (j + 1) 1),
        crossed_rail sqrtf (sub_v3_v3v3 (co m (j + 1)) (co (m + 1) (j + 1)))) := by
  have hm' : m < nx := by omega
  have e1 : (bm.loop (grid_loop nx m j 2)).e = grid_hedge nx m (j + 1) := by
    rw [h.loop_eq, grid_mesh_loop2 nx ny (m + 1) co m j hm']
  have e2 : (bm.loop (grid_loop nx m j 1)).e = grid_vedge nx ny (m + 1) j := by
    rw [h.loop_eq, grid_mesh_loop1 nx ny (m + 1) co m j hm']
  have e3 : (bm.loop (grid_loop nx m (j + 1) 1)).e = grid_vedge nx ny (m + 1) (j + 1) := by
    rw [h.loop_eq, grid_mesh_loop1 nx ny (m + 1) co m (j + 1) hm']
  have r2 : (bm.loop (grid_loop nx m j 2)).radial_next = grid_loop nx m (j + 1) 0 := by
    rw [h.loop_eq, grid_mesh_loop2 nx ny (m + 1) co m j hm']
    simp [hj]
  have n1 : grid_hedge nx m (j + 1) ≠ grid_vedge nx ny (m + 1) (j + 1) :=
    grid_hedge_ne_vedge nx ny _ _ _ _ hm' (by omega)
  have n2 : grid_vedge nx ny (m + 1) j ≠ grid_vedge nx ny (m + 1) (j + 1) := by
    rw [Ne, grid_vedge_eq nx ny (m + 1) j (m + 1) (j + 1) (le_of_lt hm) (le_of_lt hm)]
    omega
  have n3 : grid_loop nx m j 2 ≠ grid_loop nx m (j + 1) 0 :=
    grid_loop_ne _ _ _ _ _ _ (by norm_num) (by norm_num) (by norm_num)
  have n4 : grid_loop nx m (j + 1) 0 ≠ grid_loop nx m j 1 :=
    grid_loop_ne _ _ _ _ _ _ (by norm_num) (by norm_num) (by norm_num)
  unfold get_next_loop
  simp only [get_next_loop_loop, gc_other_loop_l_up h hm j, e1, n1, if_false,
    gc_other_vert_left h hm (j + 1) (by omega), gc_other_loop_l_top h hm j (by omega), e2, n2,
    r2, ne_eq, n3, not_false_eq_true, n4, and_self, if_true,
    gc_other_loop_l_bot h hm (j + 1) (by omega), e3, h.co_eq _ _ (le_of_lt hm'),
    h.co_eq _ _ (le_of_lt hm)]
  simp [crossed_rail]

/-- The rail at the bottom vertex on the right: the vector along the boundary edge. -/
theorem gc_end_rail_bottom_r (sqrtf : ℚ → ℚ) (h : GridChecked nx ny m co bm) (hm : m + 1 < nx)
    (hny : 0 < ny) (fuel : Nat) :
    double_side_end_rail sqrtf bm fuel (grid_vert nx (m + 1) 0) (grid_loop nx (m + 1) 0 3)
        (grid_vedge nx ny (m + 1) 0) =
      some (some (grid_vert nx (m + 1 + 1) 0), sub_v3_v3v3 (co (m + 1 + 1) 0) (co (m + 1) 0)) := by
  have e1 : (bm.loop (grid_loop nx (m + 1) 0 0)).e = grid_hedge nx (m + 1) 0 := by
    rw [h.loop_eq, grid_mesh_loop0 nx ny (m + 1) co (m + 1) 0 hm]
  unfold double_side_end_rail EDGESLIDE_VERT_IS_INNER
  simp [gc_other_loop_r_low h hm 0, e1, gc_boundary_bottom h (m + 1) hm hny,
    gc_other_vert_right h hm 0 (Nat.zero_le _), h.co_eq _ _ hm, h.co_eq _ _ (le_of_lt hm)]

/-- The rail at the bottom vertex on the left: the vector along the boundary edge. -/
theorem gc_end_rail_bottom_l (sqrtf : ℚ → ℚ) (h : GridChecked nx ny m co bm) (hm : m + 1 < nx)
    (hny : 0 < ny) (fuel : Nat) :
    double_side_end_rail sqrtf bm fuel (grid_vert nx (m + 1) 0) (grid_loop nx m 0 1)
        (grid_vedge nx ny (m + 1) 0) =
      some (some (grid_vert nx m 0), sub_v3_v3v3 (co m 0) (co (m + 1) 0)) := by
  have hm' : m < nx := by omega
  have e1 : (bm.loop (grid_loop nx m 0 0)).e = grid_hedge nx m 0 := by
    rw [h.loop_eq, grid_mesh_loop0 nx ny (m + 1) co m 0 hm']
  unfold double_side_end_rail EDGESLIDE_VERT_IS_INNER
  simp [gc_other_loop_l_low h hm 0, e1, gc_boundary_bottom h m hm' hny,
    gc_other_vert_left h hm 0 (Nat.zero_le _), h.co_eq _ _ (le_of_lt hm'),
    h.co_eq _ _ (le_of_lt hm)]

/-- The rail at the top vertex on the right: the vector along the boundary edge. -/
theorem gc_end_rail_top_r (sqrtf : ℚ → ℚ) (h : GridChecked nx ny m co bm) (hm : m + 1 < nx)
    (j : Nat) (hj : j + 1 = ny) (fuel : Nat) :
    double_side_end_rail sqrtf bm fuel (grid_vert nx (m + 1) (j + 1))
        (grid_loop nx (m + 1) j 3) (grid_vedge nx ny (m + 1) j) =
      some (some (grid_vert nx (m + 1 + 1) (j + 1)),
        sub_v3_v3v3 (co (m + 1 + 1) (j + 1)) (co (m + 1) (j + 1))) := by
  have e1 : (bm.loop (grid_loop nx (m + 1) j 2)).e = grid_hedge nx (m + 1) (j + 1) := by
    rw [h.loop_eq, grid_mesh_loop2 nx ny (m + 1) co (m + 1) j hm]
  unfold double_side_end_rail EDGESLIDE_VERT_IS_INNER
  simp [gc_other_loop_r_up h hm j, e1, gc_boundary_top h (m + 1) j hm hj,
    gc_other_vert_right h hm (j + 1) (by omega), h.co_eq _ _ hm, h.co_eq _ _ (le_of_lt hm)]

/-- The rail at the top vertex on the left: the vector along the boundary edge. -/
theorem gc_end_rail_top_l (sqrtf : ℚ → ℚ) (h : GridChecked nx ny m co bm) (hm : m + 1 < nx)
    (j : Nat) (hj : j + 1 = ny) (fuel : Nat) :
    double_side_end_rail sqrtf bm fuel (grid_vert nx (m + 1) (j + 1))
        (grid_loop nx m j 1) (grid_vedge nx ny (m + 1) j) =
      some (some (grid_vert nx m (j + 1)), sub_v3_v3v3 (co m (j + 1)) (co (m + 1) (j + 1))) := by
  have hm' : m < nx := by omega
  have e1 : (bm.loop (grid_loop nx m j 2)).e = grid_hedge nx m (j + 1) := by
    rw [h.loop_eq, grid_mesh_loop2 nx ny (m + 1) co m j hm']
  unfold double_side_end_rail EDGESLIDE_VERT_IS_INNER
  simp [gc_other_loop_l_up h hm j, e1, gc_boundary_top h m j hm' hj,
    gc_other_vert_left h hm (j + 1) (by omega), h.co_eq _ _ (le_of_lt hm'),
    h.co_eq _ _ (le_of_lt hm)]

end grid

/-! ### Writes to the record stack -/

theorem modify_append_last {α : Type} (f : α → α) (l : List α) (x : α) :
    (l ++ [x]).modify f l.length = l ++ [f x] := by
  induction l with
  | nil => rfl
  | cons a l ih => simp [ih]

/-- A write to the record on top of the stack. -/
theorem sv_write_last (st : DoubleSideState) (R : List TransDataEdgeSlideVert)
    (sv : TransDataEdgeSlideVert) (f : TransDataEdgeSlideVert → TransDataEdgeSlideVert)
    (hR : st.sv_array = R ++ [sv]) :
    sv_write st (R.length : Int) f = some { st with sv_array := R ++ [f sv] } := by
  unfold sv_write
  have : (0 : Int) ≤ (R.length : Int) ∧ (R.length : Int).toNat < st.sv_array.length := by
    rw [hR]; simp
  rw [if_pos this, hR]
  simp [modify_append_last]

/-- The record of a vertex without a record yet is pushed and initialised. -/
theorem double_side_init_sv_push (st : DoubleSideState) (v : Nat) (loop_nr : Int)
    (hT : st.sv_table v = INDEX_UNSET) :
    double_side_init_sv st v loop_nr =
      some ({ st with
          sv_table := Function.update st.sv_table v (st.sv_array.length : Int)
          sv_array := st.sv_array ++
            [{ sv_calloc with v := v, v_co_orig := (st.bm.vert v).co, loop_nr := loop_nr }] },
        (st.sv_array.length : Int)) := by
  unfold double_side_init_sv SV_FROM_VERT
  simp only [hT, if_true]
  rw [sv_write_last _ st.sv_array sv_calloc _ rfl]

section grid
variable {nx ny m : Nat} {co : Nat → Nat → V3} {bm : BMesh}

theorem grid_vert_iff (v i j : Nat) (hi : i ≤ nx) :
    v = grid_vert nx i j ↔ v % (nx + 1) = i ∧ v / (nx + 1) = j := by
  constructor
  · intro h
    rw [h]
    exact ⟨grid_vert_mod nx i j hi, grid_vert_div nx i j hi⟩
  · rintro ⟨h1, h2⟩
    rw [← h1, ← h2]
    unfold grid_vert
    rw [Nat.mul_comm]
    exact (Nat.div_add_mod v (nx + 1)).symm

theorem grid_table_update (n : Nat) (hm : m + 1 < nx) :
    Function.update (grid_table nx m n) (grid_vert nx (m + 1) n) (n : Int) =
      grid_table nx m (n + 1) := by
  funext v
  by_cases hv : v = grid_vert nx (m + 1) n
  · rw [hv, Function.update_same]
    simp [grid_table, grid_vert_mod nx (m + 1) n (le_of_lt hm),
      grid_vert_div nx (m + 1) n (le_of_lt hm)]
  · rw [Function.update_noteq hv]
    rw [grid_vert_iff v (m + 1) n (le_of_lt hm)] at hv
    unfold grid_table
    by_cases h1 : v % (nx + 1) = m + 1
    · have h2 : v / (nx + 1) ≠ n := fun h => hv ⟨h1, h⟩
      simp only [h1, if_true]
      by_cases h3 : v / (nx + 1) < n
      · rw [if_pos h3, if_pos (by omega)]
      · rw [if_neg h3, if_neg (by omega)]
    · simp only [h1, if_false]

theorem grid_tag_update (j : Nat) (hm : m + 1 < nx) :
    Function.update (Function.update (grid_tag nx ny m j) (grid_vert nx (m + 1) (j + 1)) false)
        (grid_vert nx (m + 1) j) false = grid_tag nx ny m (j + 1) := by
  funext v
  by_cases hv : v = grid_vert nx (m + 1) j
  · rw [hv, Function.update_same]
    simp [grid_tag, grid_vert_div nx (m + 1) j (le_of_lt hm)]
  · rw [Function.update_noteq hv]
    by_cases hv' : v = grid_vert nx (m + 1) (j + 1)
    · rw [hv', Function.update_same]
      simp [grid_tag, grid_vert_div nx (m + 1) (j + 1) (le_of_lt hm)]
    · rw [Function.update_noteq hv']
      rw [grid_vert_iff v (m + 1) (j + 1) (le_of_lt hm)] at hv'
      unfold grid_tag
      by_cases h1 : v % (nx + 1) = m + 1
      · have h2 : v / (nx + 1) ≠ j + 1 := fun h => hv' ⟨h1, h⟩
        have : (j < v / (nx + 1)) ↔ (j + 1 < v / (nx + 1)) := by omega
        simp only [this]
      · simp [h1]

theorem grid_tag_start (h : GridChecked nx ny m co bm) (hm : m + 1 < nx) :
    Function.update (fun v => decide (v < bm.totvert) && (bm.vert v).select)
        (grid_vert nx (m + 1) 0) false = grid_tag nx ny m 0 := by
  funext v
  by_cases hv : v = grid_vert nx (m + 1) 0
  · rw [hv, Function.update_same]
    simp [grid_tag, grid_vert_div nx (m + 1) 0 (le_of_lt hm)]
  · rw [Function.update_noteq hv]
    rw [grid_vert_iff v (m + 1) 0 (le_of_lt hm)] at hv
    simp only [grid_tag, h.totvert_eq, h.select_eq]
    by_cases h1 : v % (nx + 1) = m + 1
    · have h2 : v / (nx + 1) ≠ 0 := fun h => hv ⟨h1, h⟩
      have : 0 < v / (nx + 1) := Nat.pos_of_ne_zero h2
      simp [h1, this]
    · simp [h1]

theorem grid_sv_append (sqrtf : ℚ → ℚ) (n : Nat) :
    (List.range n).map (grid_sv sqrtf nx ny m co) ++ [grid_sv sqrtf nx ny m co n] =
      (List.range (n + 1)).map (grid_sv sqrtf nx ny m co) := by
  rw [List.range_succ, List.map_append]; rfl

theorem grid_table_unset (n : Nat) (hm : m + 1 < nx) :
    grid_table nx m n (grid_vert nx (m + 1) n) = INDEX_UNSET := by
  simp [grid_table, grid_vert_mod nx (m + 1) n (le_of_lt hm),
    grid_vert_div nx (m + 1) n (le_of_lt hm)]

end grid

/-- The write of one side of the record on top of the stack. -/
theorem double_side_set_side_last (bm : BMesh) (st : DoubleSideState)
    (R : List TransDataEdgeSlideVert) (sv : TransDataEdgeSlideVert) (side : Fin 2) (v l l_tmp : Nat)
    (l_prev : Option Nat) (vec : V3) (hR : st.sv_array = R ++ [sv])
    (hl : BM_loop_other_edge_loop bm l v = some l_tmp) :
    double_side_set_side bm st (R.length : Int) side v (some l) l_prev vec =
      some { st with sv_array := R ++ [{ sv with
        v_side := Function.update sv.v_side side (BM_edge_other_vert bm (bm.loop l_tmp).e v)
        dir_side := Function.update sv.dir_side side vec }] } := by
  unfold double_side_set_side
  simp only [Option.isSome_some, if_true, hl]
  rw [sv_write_last st R sv _ hR]

/-- The write of one side of the record of the last vertex of a chain. -/
theorem double_side_end_side_last (sqrtf : ℚ → ℚ) (bm : BMesh) (fuel : Nat) (st : DoubleSideState)
    (R : List TransDataEdgeSlideVert) (sv : TransDataEdgeSlideVert) (side : Fin 2) (v l e_prev : Nat)
    (r : Option Nat × V3) (hR : st.sv_array = R ++ [sv])
    (hl : double_side_end_rail sqrtf bm fuel v l e_prev = some r) :
    double_side_end_side sqrtf bm fuel st (R.length : Int) side v (some l) e_prev =
      some { st with sv_array := R ++ [{ sv with
        v_side := Function.update sv.v_side side r.1
        dir_side := Function.update sv.dir_side side r.2 }] } := by
  unfold double_side_end_side
  simp only [hl]
  rw [sv_write_last st R sv _ hR]

section grid
variable {nx ny m : Nat} {co : Nat → Nat → V3} {bm : BMesh}

theorem grid_dir_inner (sqrtf : ℚ → ℚ) (i j : Nat) (hj : j + 1 < ny) :
    grid_dir sqrtf ny m co i (j + 1) =
      crossed_rail sqrtf (sub_v3_v3v3 (co i (j + 1)) (co (m + 1) (j + 1))) := by
  unfold grid_dir
  rw [if_neg (by omega)]

theorem grid_dir_top (sqrtf : ℚ → ℚ) (i j : Nat) (hj : j = ny) :
    grid_dir sqrtf ny m co i j = sub_v3_v3v3 (co i j) (co (m + 1) j) := by
  unfold grid_dir
  rw [if_pos (Or.inr hj)]

theorem grid_dir_bottom (sqrtf : ℚ → ℚ) (ny m : Nat) (co : Nat → Nat → V3) (i : Nat) :
    grid_dir sqrtf ny m co i 0 = sub_v3_v3v3 (co i 0) (co (m + 1) 0) := by
  unfold grid_dir
  rw [if_pos (Or.inl rfl)]

/-- The record of row `n` after the two side writes of the walk. -/
theorem gc_record (sqrtf : ℚ → ℚ) (h : GridChecked nx ny m co bm) (hm : m + 1 < nx)
    (t n : Nat) (hn : n ≤ ny) (pa pb : Option Nat) :
    ∃ idx st1 st2,
      double_side_init_sv (grid_state sqrtf nx ny m co bm t n) (grid_vert nx (m + 1) n) 0 =
        some (st1, idx) ∧
      double_side_set_side bm st1 idx 0 (grid_vert nx (m + 1) n)
          (some (grid_loop nx (m + 1) n 3)) pa (grid_dir sqrtf ny m co (m + 1 + 1) n) = some st2 ∧
      double_side_set_side bm st2 idx 1 (grid_vert nx (m + 1) n)
          (some (grid_loop nx m n 1)) pb (grid_dir sqrtf ny m co m n) =
            some (grid_state sqrtf nx ny m co bm t (n + 1)) := by
  have h1 := double_side_init_sv_push (grid_state sqrtf nx ny m co bm t n)
    (grid_vert nx (m + 1) n) 0 (grid_table_unset n hm)
  have h2 := double_side_set_side_last bm _ _ _ 0 (grid_vert nx (m + 1) n) _ _ pa
    (grid_dir sqrtf ny m co (m + 1 + 1) n)
    (rfl : ({ (grid_state sqrtf nx ny m co bm t n) with
      sv_table := Function.update (grid_state sqrtf nx ny m co bm t n).sv_table
        (grid_vert nx (m + 1) n) ((grid_state sqrtf nx ny m co bm t n).sv_array.length : Int)
      sv_array := (grid_state sqrtf nx ny m co bm t n).sv_array ++ [{ sv_calloc with
        v := grid_vert nx (m + 1) n
        v_co_orig := ((grid_state sqrtf nx ny m co bm t n).bm.vert (grid_vert nx (m + 1) n)).co
        loop_nr := 0 }] } : DoubleSideState).sv_array = _)
    (gc_other_loop_r_low h hm n)
  have h3 := double_side_set_side_last bm _ _ _ 1 (grid_vert nx (m + 1) n) _ _ pb
    (grid_dir sqrtf ny m co m n)
    (rfl : ({ (grid_state sqrtf nx ny m co bm t n) with
      sv_table := Function.update (grid_state sqrtf nx ny m co bm t n).sv_table
        (grid_vert nx (m + 1) n) ((grid_state sqrtf nx ny m co bm t n).sv_array.length : Int)
      sv_array := (grid_state sqrtf nx ny m co bm t n).sv_array ++ [{ sv_calloc with
        v := grid_vert nx (m + 1) n
        v_co_orig := ((grid_state sqrtf nx ny m co bm t n).bm.vert (grid_vert nx (m + 1) n)).co
        loop_nr := 0
        v_side := Function.update sv_calloc.v_side 0
          (BM_edge_other_vert bm (bm.loop (grid_loop nx (m + 1) n 0)).e (grid_vert nx (m + 1) n))
        dir_side := Function.update sv_calloc.dir_side 0
          (grid_dir sqrtf ny m co (m + 1 + 1) n) }] } : DoubleSideState).sv_array = _)
    (gc_other_loop_l_low h hm n)
  refine ⟨_, _, _, h1, h2, Eq.trans h3 ?_⟩
  have hm' : m < nx := by omega
  simp only [grid_state, List.length_map, List.length_range]
  rw [h.loop_eq, grid_mesh_loop0 nx ny (m + 1) co (m + 1) n hm,
    grid_mesh_loop0 nx ny (m + 1) co m n hm', gc_other_vert_right h hm n hn,
    gc_other_vert_left h hm n hn, h.co_eq _ _ (le_of_lt hm), grid_table_update n hm,
    ← grid_sv_append sqrtf n]
  rfl

/-- The record of the top row after the two side writes at the end of the chain. -/
theorem gc_record_top (sqrtf : ℚ → ℚ) (h : GridChecked nx ny m co bm) (hm : m + 1 < nx)
    (t j : Nat) (hj : j + 1 = ny) (fuel : Nat) :
    ∃ idx st1 st2,
      double_side_init_sv (grid_state sqrtf nx ny m co bm t (j + 1))
          (grid_vert nx (m + 1) (j + 1)) 0 = some (st1, idx) ∧
      double_side_end_side sqrtf bm fuel st1 idx 0 (grid_vert nx (m + 1) (j + 1))
          (some (grid_loop nx (m + 1) j 3)) (grid_vedge nx ny (m + 1) j) = some st2 ∧
      double_side_end_side sqrtf bm fuel st2 idx 1 (grid_vert nx (m + 1) (j + 1))
          (some (grid_loop nx m j 1)) (grid_vedge nx ny (m + 1) j) =
            some (grid_state sqrtf nx ny m co bm t (j + 1 + 1)) := by
  have h1 := double_side_init_sv_push (grid_state sqrtf nx ny m co bm t (j + 1))
    (grid_vert nx (m + 1) (j + 1)) 0 (grid_table_unset (j + 1) hm)
  have h2 := double_side_end_side_last sqrtf bm fuel _ _ _ 0 (grid_vert nx (m + 1) (j + 1)) _ _ _
    (rfl : ({ (grid_state sqrtf nx ny m co bm t (j + 1)) with
      sv_table := Function.update (grid_state sqrtf nx ny m co bm t (j + 1)).sv_table
        (grid_vert nx (m + 1) (j + 1))
        ((grid_state sqrtf nx ny m co bm t (j + 1)).sv_array.length : Int)
      sv_array := (grid_state sqrtf nx ny m co bm t (j + 1)).sv_array ++ [{ sv_calloc with
        v := grid_vert nx (m + 1) (j + 1)
        v_co_orig :=
          ((grid_state sqrtf nx ny m co bm t (j + 1)).bm.vert (grid_vert nx (m + 1) (j + 1))).co
        loop_nr := 0 }] } : DoubleSideState).sv_array = _)
    (gc_end_rail_top_r sqrtf h hm j hj fuel)
  have h3 := double_side_end_side_last sqrtf bm fuel _ _ _ 1 (grid_vert nx (m + 1) (j + 1)) _ _ _
    (rfl : ({ (grid_state sqrtf nx ny m co bm t (j + 1)) with
      sv_table := Function.update (grid_state sqrtf nx ny m co bm t (j + 1)).sv_table
        (grid_vert nx (m + 1) (j + 1))
        ((grid_state sqrtf nx ny m co bm t (j + 1)).sv_array.length : Int)
      sv_array := (grid_state sqrtf nx ny m co bm t (j + 1)).sv_array ++ [{ sv_calloc with
        v := grid_vert nx (m + 1) (j + 1)
        v_co_orig :=
          ((grid_state sqrtf nx ny m co bm t (j + 1)).bm.vert (grid_vert nx (m + 1) (j + 1))).co
        loop_nr := 0
        v_side := Function.update sv_calloc.v_side 0 (some (grid_vert nx (m + 1 + 1) (j + 1)))
        dir_side := Function.update sv_calloc.dir_side 0
          (sub_v3_v3v3 (co (m + 1 + 1) (j + 1)) (co (m + 1) (j + 1))) }] } :
        DoubleSideState).sv_array = _)
    (gc_end_rail_top_l sqrtf h hm j hj fuel)
  refine ⟨_, _, _, h1, h2, Eq.trans h3 ?_⟩
  simp only [grid_state, List.length_map, List.length_range]
  rw [h.co_eq _ _ (le_of_lt hm), grid_table_update (j + 1) hm, ← grid_sv_append sqrtf (j + 1),
    ← grid_dir_top sqrtf (m + 1 + 1) (j + 1) hj, ← grid_dir_top sqrtf m (j + 1) hj]
  rfl

/-- The forward walk up the selected column of a grid, from row `j` with `d + 1`
rows to go: it ends with one record for every row and no tag left. -/
theorem gc_walk (sqrtf : ℚ → ℚ) (h : GridChecked nx ny m co bm) (hm : m + 1 < nx) (y : Nat)
    (d : Nat) : ∀ (j x : Nat) (pa pb : Option Nat), j + d + 1 = ny →
      double_side_walk sqrtf (y + 2) 0 (some (grid_vedge nx ny (m + 1) 0)) (x + d + 1)
        { st := grid_state sqrtf nx ny m co bm j j
          v := grid_vert nx (m + 1) j
          e := grid_vedge nx ny (m + 1) j
          l_a := some (grid_loop nx (m + 1) j 3)
          l_b := some (grid_loop nx m j 1)
          l_a_prev := pa
          l_b_prev := pb
          vec_a := grid_dir sqrtf ny m co (m + 1 + 1) j
          vec_b := grid_dir sqrtf ny m co m j } =
        some (grid_state sqrtf nx ny m co bm ny (ny + 1)) := by
  induction d with
  | zero =>
    intro j x pa pb hj
    obtain ⟨idx, st1, st2, e1, e2, e3⟩ := gc_record sqrtf h hm j j (by omega) pa pb
    obtain ⟨idx', st1', st2', e1', e2', e3'⟩ := gc_record_top sqrtf h hm j j (by omega) (y + 2)
    rw [double_side_walk]
    simp only [grid_state] at e1 e2 e3 e1' e2' e3' ⊢
    simp only [e1, e2, e3, gc_other_vert_up h hm j, gc_get_other_edge_top h hm j (by omega),
      e1', e2', e3']
    rw [grid_tag_update j hm, show j + 1 = ny by omega]
  | succ d ih =>
    intro j x pa pb hj
    obtain ⟨idx, st1, st2, e1, e2, e3⟩ := gc_record sqrtf h hm j j (by omega) pa pb
    have hne : ¬ (grid_vedge nx ny (m + 1) (j + 1) = grid_vedge nx ny (m + 1) 0) := by
      rw [grid_vedge_eq nx ny (m + 1) (j + 1) (m + 1) 0 (le_of_lt hm) (le_of_lt hm)]
      omega
    have r := ih (j + 1) x (some (grid_loop nx (m + 1) j 3)) (some (grid_loop nx m j 1))
      (by omega)
    rw [double_side_walk]
    simp only [grid_state] at e1 e2 e3 r ⊢
    simp only [e1, e2, e3, gc_other_vert_up h hm j, gc_get_other_edge_inner h hm j (by omega),
      double_side_next_side, gc_get_next_loop_r sqrtf h hm j (by omega) y,
      gc_get_next_loop_l sqrtf h hm j (by omega) y, double_side_recover, Option.isSome_some,
      and_self, if_true, Option.some.injEq, hne, not_false_eq_true, or_self, ne_eq,
      ← grid_dir_inner sqrtf (m + 1 + 1) j (show j + 1 < ny by omega),
      ← grid_dir_inner sqrtf m j (show j + 1 < ny by omega), grid_tag_update j hm]
    exact r

end grid

/-- The search for the first element of `0 .. N-1` with a property. -/
theorem find_range_first (p : Nat → Bool) (n : Nat) (hp : p n = true)
    (hlt : ∀ k, k < n → p k = false) (d : Nat) :
    (List.range (n + 1 + d)).find? p = some n := by
  induction d with
  | zero =>
    have hnone : (List.range n).find? p = none := by
      rw [List.find?_eq_none]
      intro x hx
      rw [hlt x (List.mem_range.mp hx)]
      simp
    simp [List.range_succ, List.find?_append, hnone, hp]
  | succ d ih =>
    rw [← Nat.add_assoc, List.range_succ, List.find?_append, ih]
    rfl

section grid
variable {nx ny m : Nat} {co : Nat → Nat → V3} {bm : BMesh}

theorem grid_table_start (h : GridChecked nx ny m co bm) :
    (fun v => if (bm.vert v).select then INDEX_UNSET else INDEX_INVALID) = grid_table nx m 0 := by
  funext v
  simp [grid_table, h.select_eq]

theorem gc_edge_l (h : GridChecked nx ny m co bm) (hm : m + 1 < nx) (j : Nat) :
    (bm.edge (grid_vedge nx ny (m + 1) j)).l = some (grid_loop nx (m + 1) j 3) := by
  rw [h.edge_eq, grid_mesh_vedge nx ny (m + 1) co (m + 1) j (le_of_lt hm)]
  simp [hm]

theorem gc_radial_r (h : GridChecked nx ny m co bm) (hm : m + 1 < nx) (j : Nat) :
    (bm.loop (grid_loop nx (m + 1) j 3)).radial_next = grid_loop nx m j 1 := by
  rw [h.loop_eq, grid_mesh_loop3 nx ny (m + 1) co (m + 1) j hm]
  simp

theorem gc_radial_l (h : GridChecked nx ny m co bm) (hm : m + 1 < nx) (j : Nat) :
    (bm.loop (grid_loop nx m j 1)).radial_next = grid_loop nx (m + 1) j 3 := by
  rw [h.loop_eq, grid_mesh_loop1 nx ny (m + 1) co m j (by omega)]
  simp [hm]

/-- The pass of the outer loop that starts at the bottom vertex of the selected column. -/
theorem gc_pass (sqrtf : ℚ → ℚ) (h : GridChecked nx ny m co bm) (hm : m + 1 < nx)
    (hny : 0 < ny) (fuel : Nat) (h2 : 2 ≤ fuel) (hf : ny ≤ fuel) :
    double_side_pass sqrtf fuel
        { bm := bm, tag := fun v => decide (v < bm.totvert) && (bm.vert v).select,
          sv_table := fun v => if (bm.vert v).select then INDEX_UNSET else INDEX_INVALID,
          sv_array := [] } 0 (grid_vert nx (m + 1) 0) (grid_vedge nx ny (m + 1) 0) =
      some (grid_state sqrtf nx ny m co bm ny (ny + 1)) := by
  obtain ⟨y, rfl⟩ : ∃ y, fuel = y + 2 := ⟨fuel - 2, by omega⟩
  obtain ⟨d, hd⟩ : ∃ d, ny = d + 1 := ⟨ny - 1, by omega⟩
  obtain ⟨x, hx⟩ : ∃ x, y + 2 = x + d + 1 := ⟨y + 2 - ny, by omega⟩
  have hne : grid_loop nx m 0 1 ≠ grid_loop nx (m + 1) 0 3 :=
    grid_loop_ne _ _ _ _ _ _ (by norm_num) (by norm_num) (by norm_num)
  have w := gc_walk sqrtf h hm y d 0 x none none (by omega)
  rw [← hx] at w
  simp only [grid_state] at w ⊢
  unfold double_side_pass
  simp only [double_side_rewind, gc_get_other_edge_bottom h hm, h.vert_e 0 hny,
    gc_edge_l h hm 0, gc_radial_r h hm 0, double_side_start_rail,
    gc_end_rail_bottom_r sqrtf h hm hny, gc_end_rail_bottom_l sqrtf h hm hny, ne_eq, hne,
    not_false_eq_true, if_true, grid_tag_start h hm, grid_table_start h,
    ← grid_dir_bottom sqrtf ny m co (m + 1 + 1),
    ← grid_dir_bottom sqrtf ny m co m]
  exact w

theorem grid_tag_done (v : Nat) : grid_tag nx ny m ny v = false := by
  unfold grid_tag
  by_cases hv : v < (nx + 1) * (ny + 1)
  · have : v / (nx + 1) < ny + 1 := Nat.div_lt_of_lt_mul hv
    have h3 : ¬ ny < v / (nx + 1) := by omega
    simp [h3]
  · simp [hv]

/-- The outer loop on the grid: one pass for the selected column, and a search that finds no tag. -/
theorem gc_loop (sqrtf : ℚ → ℚ) (h : GridChecked nx ny m co bm) (hm : m + 1 < nx)
    (hny : 0 < ny) (fuel : Nat) (h2 : 2 ≤ fuel) (hf : ny ≤ fuel) :
    double_side_loop sqrtf fuel fuel
        { bm := bm, tag := fun v => decide (v < bm.totvert) && (bm.vert v).select,
          sv_table := fun v => if (bm.vert v).select then INDEX_UNSET else INDEX_INVALID,
          sv_array := [] } 0 =
      some (grid_state sqrtf nx ny m co bm ny (ny + 1), 1) := by
  have hp := gc_pass sqrtf h hm hny fuel h2 hf
  obtain ⟨y, hy⟩ : ∃ y, fuel = y + 1 + 1 := ⟨fuel - 2, by omega⟩
  have hlt := grid_vert_lt nx ny (m + 1) 0 (le_of_lt hm) (Nat.zero_le _)
  obtain ⟨d, hd⟩ : ∃ d, (nx + 1) * (ny + 1) = grid_vert nx (m + 1) 0 + 1 + d :=
    ⟨(nx + 1) * (ny + 1) - (grid_vert nx (m + 1) 0 + 1), by omega⟩
  have hfind : (List.range bm.totvert).find?
      (fun v => decide (v < bm.totvert) && (bm.vert v).select) =
        some (grid_vert nx (m + 1) 0) := by
    rw [h.totvert_eq, hd]
    apply find_range_first
    · simp [h.select_eq, grid_vert_mod nx (m + 1) 0 (le_of_lt hm)]
      omega
    · intro k hk
      have hk' : k < m + 1 := by simpa [grid_vert] using hk
      have : k % (nx + 1) = k := Nat.mod_eq_of_lt (by omega)
      simp [h.select_eq, this]
      omega
  have hfind2 : (List.range bm.totvert).find? (grid_tag nx ny m ny) = none := by
    rw [List.find?_eq_none]
    intro x _
    simp [grid_tag_done]
  have key : ∀ z, double_side_loop sqrtf fuel (z + 1 + 1)
      { bm := bm, tag := fun v => decide (v < bm.totvert) && (bm.vert v).select,
        sv_table := fun v => if (bm.vert v).select then INDEX_UNSET else INDEX_INVALID,
        sv_array := [] } 0 = some (grid_state sqrtf nx ny m co bm ny (ny + 1), 1) := by
    intro z
    rw [double_side_loop]
    simp only [hfind, h.vert_e 0 hny, hp]
    rw [double_side_loop]
    simp only [grid_state, hfind2]
    rfl
  have key2 := key y
  rw [← hy] at key2
  exact key2

/-- Every selected edge of the grid is manifold. -/
theorem gc_check_edges (h : GridChecked nx ny m co bm) (hm : m + 1 < nx) :
    double_side_check_edges bm = true := by
  rw [← Bool.not_eq_false, check_edges_false_iff]
  rintro ⟨e, -, hsel, hman, -⟩
  rw [h.edge_eq] at hsel
  have he : ¬ e < nx * (ny + 1) := by
    intro hlt
    simp [grid_mesh, hlt] at hsel
  have hsel2 : (e - nx * (ny + 1)) % (nx + 1) = m + 1 := by
    simpa [grid_mesh, he] using hsel
  have hdec : e = grid_vedge nx ny (m + 1) ((e - nx * (ny + 1)) / (nx + 1)) := by
    unfold grid_vedge
    have := Nat.div_add_mod (e - nx * (ny + 1)) (nx + 1)
    rw [hsel2, Nat.mul_comm] at this
    omega
  rw [hdec] at hman
  unfold BM_edge_is_manifold at hman
  have hne : grid_loop nx m ((e - nx * (ny + 1)) / (nx + 1)) 1 ≠
      grid_loop nx (m + 1) ((e - nx * (ny + 1)) / (nx + 1)) 3 :=
    grid_loop_ne _ _ _ _ _ _ (by norm_num) (by norm_num) (by norm_num)
  simp [gc_edge_l h hm, gc_radial_r h hm, gc_radial_l h hm, hne] at hman

/-- The selected vertices of the grid, in mesh order, are those of the selected column. -/
theorem grid_selected_perm (nx ny m : Nat) (hm : m + 1 < nx) :
    ((List.range ((nx + 1) * (ny + 1))).filter (fun v => decide (v % (nx + 1) = m + 1))).Perm
      ((List.range (ny + 1)).map (grid_vert nx (m + 1))) := by
  rw [List.perm_ext_iff_of_nodup ((List.nodup_range _).filter _)
    ((List.nodup_range _).map (fun a b hab =>
      (grid_vert_inj nx _ _ _ _ (le_of_lt hm) (le_of_lt hm) hab).2))]
  · intro v
    simp only [List.mem_filter, List.mem_range, decide_eq_true_eq, List.mem_map]
    constructor
    · rintro ⟨hv, hmod⟩
      refine ⟨v / (nx + 1), Nat.div_lt_of_lt_mul hv, ?_⟩
      rw [← hmod]
      exact (grid_vert_decode nx ny v hv).1.symm
    · rintro ⟨j, hj, rfl⟩
      exact ⟨grid_vert_lt nx ny _ _ (le_of_lt hm) (by omega),
        grid_vert_mod nx (m + 1) j (le_of_lt hm)⟩

theorem gc_count_sel (h : GridChecked nx ny m co bm) (hm : m + 1 < nx) :
    double_side_count_sel bm = ny + 1 := by
  unfold double_side_count_sel
  rw [h.totvert_eq]
  have : (fun v => (bm.vert v).select) = (fun v => decide (v % (nx + 1) = m + 1)) :=
    funext h.select_eq
  rw [this, (grid_selected_perm nx ny m hm).length_eq]
  simp

/-- The walk of the double-sided builder on a grid with an inner column selected:
one record for every row, in the order of the rows, and one pass of the outer loop. -/
theorem grid_double_side_sv (sqrtf : ℚ → ℚ) (nx ny m : Nat) (co : Nat → Nat → V3)
    (hm : m + 1 < nx) (hny : 0 < ny) (fuel : Nat) (h2 : 2 ≤ fuel) (hf : ny ≤ fuel) :
    ∃ bm, GridChecked nx ny m co bm ∧
      createEdgeSlideVerts_double_side_sv sqrtf fuel (grid_mesh nx ny (m + 1) co) =
        some (some (grid_state sqrtf nx ny m co bm ny (ny + 1), 1)) := by
  obtain ⟨bm, hc, h⟩ := grid_check_verts nx ny m co hm hny
  refine ⟨bm, h, ?_⟩
  unfold createEdgeSlideVerts_double_side_sv
  simp only [hc, gc_check_edges h hm, gc_count_sel h hm, gc_loop sqrtf h hm hny fuel h2 hf]
  simp

end grid

/-! ### From the record stack to the slide data -/

theorem calcEdgeSlide_even_loop_fst (sqrtf : ℚ → ℚ) (view : ViewExtern) (bm : BMesh)
    (l : List TransDataEdgeSlideVert) : ∀ (i : Nat) (d : ℚ) (c : Nat),
      (calcEdgeSlide_even_loop sqrtf view bm l i d c).1 =
        l.map (fun sv => { sv with edge_len := len_v3v3 sqrtf (sv.dir_side 0) (sv.dir_side 1) }) := by
  induction l with
  | nil => intro i d c; rfl
  | cons a l ih =>
    intro i d c
    simp only [calcEdgeSlide_even_loop, List.map_cons]
    split_ifs <;> simp [ih]

theorem calcEdgeSlide_even_sv (sqrtf : ℚ → ℚ) (view : ViewExtern) (bm : BMesh)
    (sld : EdgeSlideData) :
    (calcEdgeSlide_even sqrtf view bm sld).sv =
      sld.sv.map (fun sv =>
        { sv with edge_len := len_v3v3 sqrtf (sv.dir_side 0) (sv.dir_side 1) }) := by
  unfold calcEdgeSlide_even
  by_cases h : sld.totsv > 0
  · rw [if_pos h]
    exact calcEdgeSlide_even_loop_fst sqrtf view bm sld.sv 0 FLT_MAX sld.curr_sv_index
  · rw [if_neg h]
    have h0 : sld.sv = [] := by
      unfold EdgeSlideData.totsv at h
      exact List.length_eq_zero.mp (by omega)
    simp [h0]

theorem calcEdgeSlide_mval_range_sv (view : ViewExtern) (bm : BMesh) (o : Bool)
    (sld : EdgeSlideData) :
    (calcEdgeSlide_mval_range view bm o true sld).sv =
      sld.sv.map (fun sv1 =>
        if dot_v3v3 ((calcEdgeSlide_mval_range_dirs view bm o true sld.sv).loop_dir sv1.loop_nr)
            (calcEdgeSlide_mval_range_dirs view bm o true sld.sv).mval_dir < 0
        then swap_sides sv1 else sv1) := by
  simp [calcEdgeSlide_mval_range]

/-- What `calcEdgeSlide_mval_range` and `calcEdgeSlide_even` do to the records
of the walk: each record keeps its vertex, original position and loop number,
and its two rails, possibly exchanged. -/
theorem createEdgeSlideVerts_double_side_records (sqrtf : ℚ → ℚ) (view : ViewExtern) (fuel : Nat)
    (bm : BMesh) (st : DoubleSideState) (n : Int)
    (h : createEdgeSlideVerts_double_side_sv sqrtf fuel bm = some (some (st, n)))
    (hlen : st.sv_array.length = double_side_count_sel st.bm) :
    ∃ (sld : EdgeSlideData) (g : TransDataEdgeSlideVert → TransDataEdgeSlideVert),
      createEdgeSlideVerts_double_side sqrtf view fuel bm = some (some sld) ∧
      sld.sv = st.sv_array.map g ∧
      ∀ sv, (g sv).v = sv.v ∧ (g sv).loop_nr = sv.loop_nr ∧ (g sv).v_co_orig = sv.v_co_orig ∧
        (((g sv).dir_side 0 = sv.dir_side 0 ∧ (g sv).dir_side 1 = sv.dir_side 1) ∨
          ((g sv).dir_side 0 = sv.dir_side 1 ∧ (g sv).dir_side 1 = sv.dir_side 0)) := by
  have hswap : ∀ (c : Prop) [Decidable c] (sv : TransDataEdgeSlideVert),
      (if c then swap_sides sv else sv).v = sv.v ∧
      (if c then swap_sides sv else sv).loop_nr = sv.loop_nr ∧
      (if c then swap_sides sv else sv).v_co_orig = sv.v_co_orig ∧
      (((if c then swap_sides sv else sv).dir_side 0 = sv.dir_side 0 ∧
          (if c then swap_sides sv else sv).dir_side 1 = sv.dir_side 1) ∨
        ((if c then swap_sides sv else sv).dir_side 0 = sv.dir_side 1 ∧
          (if c then swap_sides sv else sv).dir_side 1 = sv.dir_side 0)) := by
    intro c _ sv
    by_cases hc : c
    · rw [if_pos hc]
      refine ⟨rfl, rfl, rfl, Or.inr ⟨?_, ?_⟩⟩ <;> simp [swap_sides, side_not]
    · rw [if_neg hc]
      exact ⟨rfl, rfl, rfl, Or.inl ⟨rfl, rfl⟩⟩
  unfold createEdgeSlideVerts_double_side
  simp only [h, hlen, ne_eq, not_true_eq_false, if_false]
  by_cases hr : view.rv3d = true
  · refine ⟨_, (fun sv => { sv with
        edge_len := len_v3v3 sqrtf (sv.dir_side 0) (sv.dir_side 1) }) ∘ (fun sv1 =>
        if dot_v3v3 ((calcEdgeSlide_mval_range_dirs view st.bm view.use_occlude_geometry true
            st.sv_array).loop_dir sv1.loop_nr)
          (calcEdgeSlide_mval_range_dirs view st.bm view.use_occlude_geometry true
            st.sv_array).mval_dir < 0
        then swap_sides sv1 else sv1), by rw [if_pos hr], ?_, ?_⟩
    · rw [calcEdgeSlide_even_sv, calcEdgeSlide_mval_range_sv, List.map_map]
    · intro sv
      exact hswap _ sv
  · refine ⟨_, (fun sv1 =>
        if dot_v3v3 ((calcEdgeSlide_mval_range_dirs view st.bm view.use_occlude_geometry true
            st.sv_array).loop_dir sv1.loop_nr)
          (calcEdgeSlide_mval_range_dirs view st.bm view.use_occlude_geometry true
            st.sv_array).mval_dir < 0
        then swap_sides sv1 else sv1), by rw [if_neg hr], ?_, ?_⟩
    · rw [calcEdgeSlide_mval_range_sv]
    · intro sv
      exact hswap _ sv

/-! ### The direction over a crossed edge -/

theorem sample_sqrtf_spec (x : ℚ) (hx : FLT_EPSILON * FLT_EPSILON ≤ x) :
    0 < sample_sqrtf x ∧ sample_sqrtf x * sample_sqrtf x ≤ 4 * x := by
  have he : 0 < FLT_EPSILON * FLT_EPSILON := mul_pos flt_epsilon_pos flt_epsilon_pos
  have hx0 : 0 < x := lt_of_lt_of_le he hx
  have hx1 : 0 < x + 1 := by linarith
  unfold sample_sqrtf
  refine ⟨by positivity, ?_⟩
  rw [div_mul_div_comm, div_le_iff₀ (by positivity)]
  nlinarith [mul_pos hx0 hx0, mul_pos (mul_pos hx0 hx0) hx0]

/-- The direction over a crossed edge is not zero when the edge is at least
`FLT_EPSILON` long and the square root is positive and at most twice the root. -/
theorem crossed_rail_ne_zero (sqrtf : ℚ → ℚ)
    (hs : ∀ x, FLT_EPSILON * FLT_EPSILON ≤ x → 0 < sqrtf x ∧ sqrtf x * sqrtf x ≤ 4 * x)
    (d : V3) (hd : FLT_EPSILON * FLT_EPSILON ≤ len_squared_v3 d) :
    crossed_rail sqrtf d ≠ zero_v3 := by
  have he : 0 < FLT_EPSILON * FLT_EPSILON := mul_pos flt_epsilon_pos flt_epsilon_pos
  have he1 : FLT_EPSILON * FLT_EPSILON ≤ 1 / 4 := by norm_num [FLT_EPSILON]
  have hq : 0 < dot_v3v3 d d := lt_of_lt_of_le he hd
  have h1 : dot_v3v3 d d ≥ FLT_EPSILON * FLT_EPSILON := hd
  obtain ⟨hs1, hs2⟩ := hs _ h1
  have hn : dot_v3v3 (mul_v3_v3fl d (1 / sqrtf (dot_v3v3 d d)))
      (mul_v3_v3fl d (1 / sqrtf (dot_v3v3 d d))) =
      dot_v3v3 d d / (sqrtf (dot_v3v3 d d) * sqrtf (dot_v3v3 d d)) := by
    have := ne_of_gt hs1
    simp only [dot_v3v3, mul_v3_v3fl]
    field_simp
  have h2 : dot_v3v3 (mul_v3_v3fl d (1 / sqrtf (dot_v3v3 d d)))
      (mul_v3_v3fl d (1 / sqrtf (dot_v3v3 d d))) ≥ FLT_EPSILON * FLT_EPSILON := by
    rw [hn, ge_iff_le, le_div_iff₀ (mul_pos hs1 hs1)]
    nlinarith
  obtain ⟨hs3, -⟩ := hs _ h2
  have hadd : ∀ a : V3, add_v3_v3v3 zero_v3 a = a := by
    intro a; simp [add_v3_v3v3, zero_v3]
  unfold crossed_rail normalize_v3_length normalize_v3
  simp only [normalize_v3_v3_length, h1, if_true, hadd, h2]
  intro hz
  have hk : 1 / sqrtf (dot_v3v3 d d) * ((0 + sqrtf (dot_v3v3 d d)) / ((0 + 1 : ℕ) : ℚ) /
      sqrtf (dot_v3v3 (mul_v3_v3fl d (1 / sqrtf (dot_v3v3 d d)))
        (mul_v3_v3fl d (1 / sqrtf (dot_v3v3 d d))))) ≠ 0 := by
    have e1 : (0 + sqrtf (dot_v3v3 d d)) ≠ 0 := by rw [zero_add]; exact ne_of_gt hs1
    have e2 : (((0 + 1 : ℕ) : ℚ)) ≠ 0 := by norm_num
    exact mul_ne_zero (one_div_ne_zero (ne_of_gt hs1))
      (div_ne_zero (div_ne_zero e1 e2) (ne_of_gt hs3))
  have hx := congrArg V3.x hz
  have hy := congrArg V3.y hz
  have hzz := congrArg V3.z hz
  simp only [mul_v3_v3fl, zero_v3, mul_assoc] at hx hy hzz
  have dx : d.x = 0 := (mul_eq_zero.mp hx).resolve_right hk
  have dy : d.y = 0 := (mul_eq_zero.mp hy).resolve_right hk
  have dz : d.z = 0 := (mul_eq_zero.mp hzz).resolve_right hk
  simp [dot_v3v3, dx, dy, dz] at hq

/-- The direction over a crossed edge shorter than `FLT_EPSILON` is zero. -/
theorem crossed_rail_zero (sqrtf : ℚ → ℚ) (d : V3)
    (hd : len_squared_v3 d < FLT_EPSILON * FLT_EPSILON) :
    crossed_rail sqrtf d = zero_v3 := by
  have h1 : ¬ dot_v3v3 d d ≥ FLT_EPSILON * FLT_EPSILON := not_le.mpr hd
  have he : 0 < FLT_EPSILON * FLT_EPSILON := mul_pos flt_epsilon_pos flt_epsilon_pos
  have h2 : ¬ dot_v3v3 (add_v3_v3v3 zero_v3 zero_v3) (add_v3_v3v3 zero_v3 zero_v3) ≥
      FLT_EPSILON * FLT_EPSILON := by
    simp [dot_v3v3, add_v3_v3v3, zero_v3, he]
  simp [crossed_rail, normalize_v3_length, normalize_v3, normalize_v3_v3_length, h1, h2]

section grid
variable {nx ny m : Nat} {co : Nat → Nat → V3} {bm : BMesh}

/-- The selected vertices of the grid, in mesh order, are the rows of the selected column. -/
theorem grid_selected_eq (hm : m + 1 < nx) :
    (List.range (grid_mesh nx ny (m + 1) co).totvert).filter
        (fun v => ((grid_mesh nx ny (m + 1) co).vert v).select) =
      (List.range (ny + 1)).map (grid_vert nx (m + 1)) := by
  have hp := grid_selected_perm nx ny m hm
  have h1 : ((List.range ((nx + 1) * (ny + 1))).filter
      (fun v => decide (v % (nx + 1) = m + 1))).Sorted (· ≤ ·) :=
    (List.sorted_le_range _).filter _
  have h2 : ((List.range (ny + 1)).map (grid_vert nx (m + 1))).Sorted (· ≤ ·) := by
    have hmono : ∀ a b : Nat, a ≤ b → grid_vert nx (m + 1) a ≤ grid_vert nx (m + 1) b := by
      intro a b hab
      unfold grid_vert
      exact Nat.add_le_add_right (Nat.mul_le_mul_right _ hab) _
    exact List.pairwise_map.mpr
      (List.Pairwise.imp (fun hab => hmono _ _ hab) (List.sorted_le_range _))
  exact List.eq_of_perm_of_sorted hp h1 h2

theorem sub_ne_zero_v3 (a b : V3) (h : a ≠ b) : sub_v3_v3v3 a b ≠ zero_v3 := by
  intro hz
  apply h
  have hx := congrArg V3.x hz
  have hy := congrArg V3.y hz
  have hzz := congrArg V3.z hz
  simp only [sub_v3_v3v3, zero_v3] at hx hy hzz
  ext <;> linarith

/-- The rail of a row of the selected column is not zero when the neighbour is
at another position in the bottom and top row, and at least `FLT_EPSILON` away in
the rows between. -/
theorem grid_dir_ne_zero (sqrtf : ℚ → ℚ)
    (hs : ∀ x, FLT_EPSILON * FLT_EPSILON ≤ x → 0 < sqrtf x ∧ sqrtf x * sqrtf x ≤ 4 * x)
    (i j : Nat) (hb : j = 0 ∨ j = ny → co i j ≠ co (m + 1) j)
    (hi : ¬ (j = 0 ∨ j = ny) →
      FLT_EPSILON * FLT_EPSILON ≤ len_squared_v3 (sub_v3_v3v3 (co i j) (co (m + 1) j))) :
    grid_dir sqrtf ny m co i j ≠ zero_v3 := by
  unfold grid_dir
  by_cases h : j = 0 ∨ j = ny
  · rw [if_pos h]
    exact sub_ne_zero_v3 _ _ (hb h)
  · rw [if_neg h]
    exact crossed_rail_ne_zero sqrtf hs _ (hi h)

/-- The slide data of a grid with an inner column selected: the records of the
rows, in the order of the rows, each with its two rails possibly exchanged. -/
theorem grid_double_side_result (sqrtf : ℚ → ℚ) (view : ViewExtern) (nx ny m : Nat)
    (co : Nat → Nat → V3) (hm : m + 1 < nx) (hny : 0 < ny) (fuel : Nat) (hf : ny + 1 ≤ fuel) :
    ∃ (sld : EdgeSlideData) (g : TransDataEdgeSlideVert → TransDataEdgeSlideVert),
      createEdgeSlideVerts_double_side sqrtf view fuel (grid_mesh nx ny (m + 1) co) =
        some (some sld) ∧
      sld.sv = (List.range (ny + 1)).map (fun j => g (grid_sv sqrtf nx ny m co j)) ∧
      ∀ sv, (g sv).v = sv.v ∧ (g sv).loop_nr = sv.loop_nr ∧ (g sv).v_co_orig = sv.v_co_orig ∧
        (((g sv).dir_side 0 = sv.dir_side 0 ∧ (g sv).dir_side 1 = sv.dir_side 1) ∨
          ((g sv).dir_side 0 = sv.dir_side 1 ∧ (g sv).dir_side 1 = sv.dir_side 0)) := by
  obtain ⟨bm, hgc, hsv⟩ := grid_double_side_sv sqrtf nx ny m co hm hny fuel (by omega) (by omega)
  have hlen : (grid_state sqrtf nx ny m co bm ny (ny + 1)).sv_array.length =
      double_side_count_sel (grid_state sqrtf nx ny m co bm ny (ny + 1)).bm := by
    simp [grid_state, gc_count_sel hgc hm]
  obtain ⟨sld, g, h1, h2, h3⟩ :=
    createEdgeSlideVerts_double_side_records sqrtf view fuel _ _ _ hsv hlen
  refine ⟨sld, g, h1, ?_, h3⟩
  rw [h2]
  simp [grid_state]

end grid

/-! ### C7: the quad grid -/

/-- C7, counterexample: on the grid of 2 by 2 quads with spacing `2^-64`, whose
nine vertex positions are distinct, with the middle column selected, the
double-sided builder returns data in which a record (that of the middle
vertex) has both `dir_side[0]` and `dir_side[1]` zero: `get_next_loop`
normalizes the vector of the crossed edge, and `normalize_v3` makes a vector
that short zero. -/
theorem createEdgeSlideVerts_double_side_grid_counterexample :
    Function.Injective (fun p : Nat × Nat => flat_co (1 / 2 ^ 64) p.1 p.2) ∧
    ∃ sld, createEdgeSlideVerts_double_side sample_sqrtf sample_view 3
        (grid_mesh 2 2 1 (flat_co (1 / 2 ^ 64))) = some (some sld) ∧
      ∃ sv ∈ sld.sv, sv.dir_side 0 = zero_v3 ∧ sv.dir_side 1 = zero_v3 := by
  constructor
  · rintro ⟨a, b⟩ ⟨c, d⟩ h
    have hx := congrArg V3.x h
    have hy := congrArg V3.y h
    simp only [flat_co] at hx hy
    have h1 : (a : ℚ) = c := by
      have := mul_left_cancel₀ (by norm_num : (1 / 2 ^ 64 : ℚ) ≠ 0) hx
      exact this
    have h2 : (b : ℚ) = d := by
      have := mul_left_cancel₀ (by norm_num : (1 / 2 ^ 64 : ℚ) ≠ 0) hy
      exact this
    rw [Nat.cast_inj.mp h1, Nat.cast_inj.mp h2]
  · obtain ⟨sld, g, h1, h2, h3⟩ := grid_double_side_result sample_sqrtf sample_view 2 2 0
      (flat_co (1 / 2 ^ 64)) (by norm_num) (by norm_num) 3 (by norm_num)
    refine ⟨sld, h1, g (grid_sv sample_sqrtf 2 2 0 (flat_co (1 / 2 ^ 64)) 1), ?_, ?_⟩
    · rw [h2]
      exact List.mem_map.mpr ⟨1, by simp, rfl⟩
    · have z0 : (grid_sv sample_sqrtf 2 2 0 (flat_co (1 / 2 ^ 64)) 1).dir_side 0 = zero_v3 := by
        simp only [grid_sv, grid_dir]
        norm_num
        apply crossed_rail_zero
        norm_num [flat_co, sub_v3_v3v3, len_squared_v3, dot_v3v3, FLT_EPSILON]
      have z1 : (grid_sv sample_sqrtf 2 2 0 (flat_co (1 / 2 ^ 64)) 1).dir_side 1 = zero_v3 := by
        simp only [grid_sv, grid_dir]
        norm_num
        apply crossed_rail_zero
        norm_num [flat_co, sub_v3_v3v3, len_squared_v3, dot_v3v3, FLT_EPSILON]
      rcases (h3 (grid_sv sample_sqrtf 2 2 0 (flat_co (1 / 2 ^ 64)) 1)).2.2.2 with ⟨a, b⟩ | ⟨a, b⟩
      · rw [a, b]; exact ⟨z0, z1⟩
      · rw [a, b]; exact ⟨z1, z0⟩

/-- C7, amended: for the rectangular grid of `nx` by `ny` quads with an inner
column of vertices and edges selected (an edge loop from the bottom to the top
boundary), whose vertices in the selected column are at another position than
their left and right neighbours in the bottom and top row and at least
`FLT_EPSILON` away from them in the rows between, and with a square root that is
positive and at most twice the root, `createEdgeSlideVerts_double_side`
returns data (given `ny + 1` steps for its loops): the vertices of the records
are exactly the selected vertices, each once, in mesh order; every record has
`loop_nr` 0 and both `dir_side[0]` and `dir_side[1]` are non-zero. -/
theorem createEdgeSlideVerts_double_side_grid (sqrtf : ℚ → ℚ) (view : ViewExtern)
    (nx ny m : Nat) (co : Nat → Nat → V3) (fuel : Nat)
    (hm : m + 1 < nx) (hny : 0 < ny) (hf : ny + 1 ≤ fuel)
    (hs : ∀ x, FLT_EPSILON * FLT_EPSILON ≤ x → 0 < sqrtf x ∧ sqrtf x * sqrtf x ≤ 4 * x)
    (hb : ∀ j, j = 0 ∨ j = ny → co (m + 1 + 1) j ≠ co (m + 1) j ∧ co m j ≠ co (m + 1) j)
    (hi : ∀ j, 0 < j → j < ny →
      FLT_EPSILON * FLT_EPSILON ≤
        len_squared_v3 (sub_v3_v3v3 (co (m + 1 + 1) j) (co (m + 1) j)) ∧
      FLT_EPSILON * FLT_EPSILON ≤ len_squared_v3 (sub_v3_v3v3 (co m j) (co (m + 1) j))) :
    ∃ sld, createEdgeSlideVerts_double_side sqrtf view fuel (grid_mesh nx ny (m + 1) co) =
        some (some sld) ∧
      sld.sv.map (fun sv => sv.v) =
        (List.range (grid_mesh nx ny (m + 1) co).totvert).filter
          (fun v => ((grid_mesh nx ny (m + 1) co).vert v).select) ∧
      ∀ sv ∈ sld.sv, sv.loop_nr = 0 ∧ sv.dir_side 0 ≠ zero_v3 ∧ sv.dir_side 1 ≠ zero_v3 := by
  obtain ⟨sld, g, h1, h2, h3⟩ := grid_double_side_result sqrtf view nx ny m co hm hny fuel hf
  refine ⟨sld, h1, ?_, ?_⟩
  · rw [grid_selected_eq hm, h2, List.map_map]
    apply List.map_congr_left
    intro j _
    exact (h3 _).1
  · intro sv hsv
    rw [h2] at hsv
    obtain ⟨j, hj, rfl⟩ := List.mem_map.mp hsv
    have hj' : j < ny + 1 := List.mem_range.mp hj
    have d0 : (grid_sv sqrtf nx ny m co j).dir_side 0 ≠ zero_v3 := by
      have : (grid_sv sqrtf nx ny m co j).dir_side 0 = grid_dir sqrtf ny m co (m + 1 + 1) j := by
        simp [grid_sv]
      rw [this]
      exact grid_dir_ne_zero sqrtf hs _ j (fun h => (hb j h).1)
        (fun h => (hi j (by omega) (by omega)).1)
    have d1 : (grid_sv sqrtf nx ny m co j).dir_side 1 ≠ zero_v3 := by
      have : (grid_sv sqrtf nx ny m co j).dir_side 1 = grid_dir sqrtf ny m co m j := by
        simp [grid_sv]
      rw [this]
      exact grid_dir_ne_zero sqrtf hs _ j (fun h => (hb j h).2)
        (fun h => (hi j (by omega) (by omega)).2)
    refine ⟨(h3 _).2.1, ?_⟩
    rcases (h3 (grid_sv sqrtf nx ny m co j)).2.2.2 with ⟨a, b⟩ | ⟨a, b⟩
    · rw [a, b]; exact ⟨d0, d1⟩
    · rw [a, b]; exact ⟨d1, d0⟩

theorem createEdgeSlideVerts_double_side_grid_witness :
    ∃ sld, createEdgeSlideVerts_double_side sample_sqrtf sample_view 3
        (grid_mesh 2 2 1 (flat_co 1)) = some (some sld) ∧
      sld.sv.map (fun sv => sv.v) =
        (List.range (grid_mesh 2 2 1 (flat_co 1)).totvert).filter
          (fun v => ((grid_mesh 2 2 1 (flat_co 1)).vert v).select) ∧
      ∀ sv ∈ sld.sv, sv.loop_nr = 0 ∧ sv.dir_side 0 ≠ zero_v3 ∧ sv.dir_side 1 ≠ zero_v3 :=
  createEdgeSlideVerts_double_side_grid sample_sqrtf sample_view 2 2 0 (flat_co 1) 3
    (by norm_num) (by norm_num) (by norm_num) sample_sqrtf_spec
    (by
      intro j _
      constructor <;> intro h <;> have := congrArg V3.x h <;> simp [flat_co] at this)
    (by
      intro j _ _
      constructor <;> norm_num [flat_co, sub_v3_v3v3, len_squared_v3, dot_v3v3, FLT_EPSILON])

/-! ### Chains of selected edges -/

theorem get_other_edge_spec (bm : BMesh) (v e e1 : Nat) (h : get_other_edge bm v e = some e1) :
    e1 ∈ (bm.vert v).disk ∧ (bm.edge e1).select = true ∧ e1 ≠ e := by
  unfold get_other_edge at h
  have hp := List.find?_some h
  have hx := List.mem_of_find?_eq_some h
  simp only [Bool.and_eq_true, decide_eq_true_eq] at hp
  exact ⟨mem_BM_EDGES_OF_VERT bm v e1 hx, hp.1, hp.2⟩

theorem ChainOK.other_edge_none {bm : BMesh} (h : ChainOK bm) (v e : Nat) (hv : v < bm.totvert)
    (hs : (bm.vert v).select = true) (hn : get_other_edge bm v e = none) :
    ∀ x ∈ (bm.vert v).disk, (bm.edge x).select = true → x = e := by
  intro x hx hsel
  obtain ⟨e0, he0, -, -⟩ := h.vert_e v hv hs
  unfold get_other_edge at hn
  rw [List.find?_eq_none] at hn
  have := hn x (mem_BM_EDGES_OF_VERT_of_disk bm v x e0 he0 hx)
  simpa [hsel] using this

theorem ChainOK.other_edge_eq {bm : BMesh} (h : ChainOK bm) (v a b : Nat) (hv : v < bm.totvert)
    (hs : (bm.vert v).select = true) (ha : a ∈ (bm.vert v).disk) (hb : b ∈ (bm.vert v).disk)
    (hsa : (bm.edge a).select = true) (hsb : (bm.edge b).select = true) (hab : a ≠ b) :
    get_other_edge bm v a = some b := by
  obtain ⟨e0, he0, -, -⟩ := h.vert_e v hv hs
  apply get_other_edge_some bm v a b e0 he0 hb hsb (Ne.symm hab)
  intro x hx hsx hne
  rcases h.two v hv hs a b x ha hb hx hsa hsb hsx hab with r | r
  · exact absurd r hne
  · exact r

/-- A step along a chain leads to a position on the chain again, over an edge
to another vertex, and not back over the same edge. -/
theorem ChainOK.step {bm : BMesh} (h : ChainOK bm) (s t : Nat × Nat) (hs : ChainPos bm s)
    (hst : chain_step bm s = some t) :
    ChainPos bm t ∧ BM_edge_other_vert bm s.2 s.1 = some t.1 ∧ t.1 ≠ s.1 ∧
      s.2 ∈ (bm.vert t.1).disk ∧ BM_edge_other_vert bm s.2 t.1 = some s.1 ∧ t.2 ≠ s.2 ∧
      get_other_edge bm t.1 s.2 = some t.2 := by
  obtain ⟨hv, hsel, hd, hes⟩ := hs
  obtain ⟨w, hw, hne, hwlt, hwsel, hwd, hback⟩ := h.ends s.1 hv hsel s.2 hd hes
  unfold chain_step at hst
  rw [hw] at hst
  simp only at hst
  cases hg : get_other_edge bm w s.2 with
  | none => rw [hg] at hst; cases hst
  | some e =>
    rw [hg] at hst
    simp only [Option.some.injEq] at hst
    subst hst
    obtain ⟨g1, g2, g3⟩ := get_other_edge_spec bm w s.2 e hg
    exact ⟨⟨hwlt, hwsel, g1, g2⟩, hw, hne, hwd, hback, g3, hg⟩

theorem chain_iter_succ (bm : BMesh) (k : Nat) (s : Nat × Nat) :
    chain_iter bm (k + 1) s = (chain_step bm s).bind (chain_iter bm k) := by
  induction k with
  | zero =>
    show (some s).bind (chain_step bm) = _
    cases hc : chain_step bm s with
    | none => simp [hc]
    | some t => simp [hc, chain_iter]
  | succ k ih =>
    show (chain_iter bm (k + 1) s).bind (chain_step bm) = _
    rw [ih]
    cases hc : chain_step bm s with
    | none => rfl
    | some t => rfl

theorem ChainOK.iter {bm : BMesh} (h : ChainOK bm) (k : Nat) :
    ∀ (s t : Nat × Nat), ChainPos bm s → chain_iter bm k s = some t → ChainPos bm t := by
  induction k with
  | zero =>
    intro s t hs ht
    simp only [chain_iter, Option.some.injEq] at ht
    exact ht ▸ hs
  | succ k ih =>
    intro s t hs ht
    simp only [chain_iter] at ht
    cases hk : chain_iter bm k s with
    | none => rw [hk] at ht; cases ht
    | some u =>
      rw [hk] at ht
      exact (h.step u t (ih s u hs hk) ht).1

/-- The positions before a position on a chain exist. -/
theorem chain_iter_prefix (bm : BMesh) (s : Nat × Nat) (j : Nat) :
    ∀ i, i ≤ j → (chain_iter bm j s).isSome = true → (chain_iter bm i s).isSome = true := by
  induction j with
  | zero =>
    intro i hi h
    have : i = 0 := by omega
    subst this
    exact h
  | succ j ih =>
    intro i hi h
    by_cases hij : i = j + 1
    · subst hij; exact h
    · apply ih i (by omega)
      simp only [chain_iter] at h
      cases hk : chain_iter bm j s with
      | none => rw [hk] at h; cases h
      | some u => rfl

/-- A chain does not turn round: no position leaves a vertex by the edge over
which an earlier position has arrived there. -/
theorem ChainOK.no_reflection {bm : BMesh} (h : ChainOK bm) (s0 : Nat × Nat)
    (hs0 : ChainPos bm s0) (n : Nat) :
    ∀ (i : Nat) (si sj : Nat × Nat), chain_iter bm i s0 = some si →
      chain_iter bm (i + 1 + n) s0 = some sj →
      BM_edge_other_vert bm si.2 si.1 = some sj.1 → sj.2 = si.2 → False := by
  induction n using Nat.strong_induction_on with
  | _ n ih =>
    intro i si sj hi hj hv he
    have hpi := h.iter i s0 si hs0 hi
    have hpj := h.iter _ s0 sj hs0 hj
    have h1 : (chain_iter bm (i + 1) s0).isSome = true :=
      chain_iter_prefix bm s0 (i + 1 + n) (i + 1) (by omega) (by rw [hj]; rfl)
    obtain ⟨si1, hi1⟩ := Option.isSome_iff_exists.mp h1
    have hstep : chain_step bm si = some si1 := by
      have := hi1
      simp only [chain_iter, hi] at this
      exact this
    obtain ⟨hp1, a1, a2, a3, a4, a5, a6⟩ := h.step si si1 hpi hstep
    have hv1 : sj.1 = si1.1 := by
      rw [a1] at hv
      exact (Option.some.inj hv).symm
    cases n with
    | zero =>
      rw [hi1] at hj
      have : si1 = sj := Option.some.inj hj
      subst this
      exact a5 he
    | succ n =>
      have h2 : (chain_iter bm (i + 1 + n) s0).isSome = true :=
        chain_iter_prefix bm s0 (i + 1 + (n + 1)) (i + 1 + n) (by omega) (by rw [hj]; rfl)
      obtain ⟨sp, hp⟩ := Option.isSome_iff_exists.mp h2
      have hpp := h.iter _ s0 sp hs0 hp
      have hstep2 : chain_step bm sp = some sj := by
        have := hj
        rw [show i + 1 + (n + 1) = (i + 1 + n) + 1 by omega] at this
        simp only [chain_iter, hp] at this
        exact this
      obtain ⟨-, b1, b2, b3, b4, b5, b6⟩ := h.step sp sj hpp hstep2
      have hc : sp.2 = si.2 ∨ sp.2 = si1.2 := by
        apply h.two si1.1 hp1.1 hp1.2.1 si.2 si1.2 sp.2 a3 hp1.2.2.1 (hv1 ▸ b3) hpi.2.2.2
          hp1.2.2.2 hpp.2.2.2 (Ne.symm a5)
      have hc2 : sp.2 = si1.2 := by
        rcases hc with r | r
        · exact absurd (he.trans r.symm) b5
        · exact r
      have hov : BM_edge_other_vert bm si1.2 si1.1 = some sp.1 := by
        rw [← hc2, ← hv1]; exact b4
      cases n with
      | zero =>
        rw [hi1] at hp
        have : si1 = sp := Option.some.inj hp
        subst this
        obtain ⟨w, hw, hne, -⟩ := h.ends si1.1 hp1.1 hp1.2.1 si1.2 hp1.2.2.1 hp1.2.2.2
        rw [hw] at hov
        exact hne (Option.some.inj hov)
      | succ n =>
        exact ih n (by omega) (i + 1) si1 sp hi1
          (by rw [show i + 1 + 1 + n = i + 1 + (n + 1) by omega]; exact hp) hov hc2

/-- A chain can be walked backwards: from the far end of the edge of the last
position, `k` steps lead to the far end of the edge of the first position. -/
theorem ChainOK.reverse {bm : BMesh} (h : ChainOK bm) (k : Nat) :
    ∀ (s t : Nat × Nat) (w w' : Nat), ChainPos bm s → chain_iter bm k s = some t →
      BM_edge_other_vert bm s.2 s.1 = some w → BM_edge_other_vert bm t.2 t.1 = some w' →
      chain_iter bm k (w', t.2) = some (w, s.2) := by
  induction k with
  | zero =>
    intro s t w w' hs ht hw hw'
    simp only [chain_iter, Option.some.injEq] at ht
    subst ht
    rw [hw] at hw'
    rw [Option.some.inj hw']
    rfl
  | succ k ih =>
    intro s t w w' hs ht hw hw'
    simp only [chain_iter] at ht
    cases hk : chain_iter bm k s with
    | none => rw [hk] at ht; cases ht
    | some t0 =>
      rw [hk] at ht
      have hp0 := h.iter k s t0 hs hk
      obtain ⟨hpt, a1, a2, a3, a4, a5, a6⟩ := h.step t0 t hp0 ht
      have ih1 := ih s t0 w t.1 hs hk hw a1
      obtain ⟨w2, hw2, -, -, -, -, hback⟩ := h.ends t.1 hpt.1 hpt.2.1 t.2 hpt.2.2.1 hpt.2.2.2
      rw [hw'] at hw2
      have hww : w' = w2 := Option.some.inj hw2
      subst hww
      have hg : get_other_edge bm t.1 t.2 = some t0.2 :=
        h.other_edge_eq t.1 t.2 t0.2 hpt.1 hpt.2.1 hpt.2.2.1 a3 hpt.2.2.2 hp0.2.2.2 a5
      rw [chain_iter_succ]
      have hs1 : chain_step bm (w', t.2) = some (t.1, t0.2) := by
        simp only [chain_step, hback, hg]
      rw [hs1]
      exact ih1

/-! ### The record stack and `sv_table` -/

theorem map_modify_same {α β : Type} (g : α → β) (f : α → α) (l : List α) :
    ∀ k, (∀ x, l[k]? = some x → g (f x) = g x) → (l.modify f k).map g = l.map g := by
  induction l with
  | nil => intro k _; cases k <;> rfl
  | cons a l ih =>
    intro k hk
    cases k with
    | zero =>
      have := hk a (by simp)
      simp [this]
    | succ k =>
      simp only [List.modify_succ_cons, List.map_cons]
      rw [ih k (fun x hx => hk x (by simpa using hx))]

/-- A write to a record that keeps its vertex changes neither the table nor the
vertices of the stack. -/
theorem sv_write_spec (st st1 : DoubleSideState) (idx : Int)
    (f : TransDataEdgeSlideVert → TransDataEdgeSlideVert)
    (h : sv_write st idx f = some st1) (hf : ∀ sv, (f sv).v = sv.v) :
    st1.bm = st.bm ∧ st1.tag = st.tag ∧ st1.sv_table = st.sv_table ∧
      sv_verts st1 = sv_verts st := by
  unfold sv_write at h
  split_ifs at h
  simp only [Option.some.injEq] at h
  subst h
  refine ⟨rfl, rfl, rfl, ?_⟩
  exact map_modify_same _ f _ _ (fun x _ => hf x)

theorem double_side_set_side_spec (bm : BMesh) (st st1 : DoubleSideState) (idx : Int)
    (side : Fin 2) (v : Nat) (l l_prev : Option Nat) (vec : V3)
    (h : double_side_set_side bm st idx side v l l_prev vec = some st1) :
    st1.bm = st.bm ∧ st1.tag = st.tag ∧ st1.sv_table = st.sv_table ∧
      sv_verts st1 = sv_verts st := by
  unfold double_side_set_side at h
  split at h
  · simp only [Option.some.injEq] at h
    subst h
    exact ⟨rfl, rfl, rfl, rfl⟩
  · split at h
    · cases h
    · exact sv_write_spec _ _ _ _ h (fun _ => rfl)

theorem double_side_end_side_spec (sqrtf : ℚ → ℚ) (bm : BMesh) (fuel : Nat)
    (st st1 : DoubleSideState) (idx : Int) (side : Fin 2) (v : Nat) (l : Option Nat)
    (e_prev : Nat)
    (h : double_side_end_side sqrtf bm fuel st idx side v l e_prev = some st1) :
    st1.bm = st.bm ∧ st1.tag = st.tag ∧ st1.sv_table = st.sv_table ∧
      sv_verts st1 = sv_verts st := by
  unfold double_side_end_side at h
  split at h
  · simp only [Option.some.injEq] at h
    subst h
    exact ⟨rfl, rfl, rfl, rfl⟩
  · split at h
    · cases h
    · exact sv_write_spec _ _ _ _ h (fun _ => rfl)

theorem RecOK.nodup {st : DoubleSideState} (h : RecOK st) : (sv_verts st).Nodup := by
  rw [List.nodup_iff_getElem?_ne_getElem?]
  intro i j hij hj heq
  have hi : i < (sv_verts st).length := by omega
  have e1 : (sv_verts st)[i]? = some ((sv_verts st)[i]) := List.getElem?_eq_getElem hi
  have e2 : (sv_verts st)[j]? = some ((sv_verts st)[i]) := by rw [← heq, e1]
  have t1 := (h _ i).mpr e1
  have t2 := (h _ j).mpr e2
  rw [t1] at t2
  have : i = j := by exact_mod_cast t2
  omega

theorem RecOK.mem {st : DoubleSideState} (h : RecOK st) (v : Nat) (hv : 0 ≤ st.sv_table v) :
    v ∈ sv_verts st := by
  have e : st.sv_table v = ((st.sv_table v).toNat : Int) := (Int.toNat_of_nonneg hv).symm
  exact List.getElem?_mem ((h v _).mp e)

theorem RecOK.nonneg {st : DoubleSideState} (h : RecOK st) (v : Nat) (hv : v ∈ sv_verts st) :
    0 ≤ st.sv_table v := by
  obtain ⟨k, hk⟩ := List.getElem?_of_mem hv
  rw [(h v k).mpr hk]
  exact Int.natCast_nonneg k

/-- The record of a vertex is fetched or pushed: the table and the stack still
agree, the vertex has a record, and no other vertex has got one. -/
theorem double_side_init_sv_spec (st st1 : DoubleSideState) (v : Nat) (loop_nr idx : Int)
    (hok : RecOK st) (h : double_side_init_sv st v loop_nr = some (st1, idx)) :
    st1.bm = st.bm ∧ st1.tag = st.tag ∧ RecOK st1 ∧ 0 ≤ st1.sv_table v ∧
      (∀ x, 0 ≤ st.sv_table x → 0 ≤ st1.sv_table x) ∧
      (∀ x ∈ sv_verts st1, x ∈ sv_verts st ∨ x = v) := by
  by_cases hT : st.sv_table v = INDEX_UNSET
  · rw [double_side_init_sv_push st v loop_nr hT] at h
    simp only [Option.some.injEq, Prod.mk.injEq] at h
    obtain ⟨h1, -⟩ := h
    subst h1
    have hv : sv_verts { st with
        sv_table := Function.update st.sv_table v (st.sv_array.length : Int)
        sv_array := st.sv_array ++
          [{ sv_calloc with v := v, v_co_orig := (st.bm.vert v).co, loop_nr := loop_nr }] } =
        sv_verts st ++ [v] := by
      simp [sv_verts]
    have hlen : (sv_verts st).length = st.sv_array.length := by simp [sv_verts]
    refine ⟨rfl, rfl, ?_, ?_, ?_, ?_⟩
    · intro x k
      rw [hv]
      show Function.update st.sv_table v (st.sv_array.length : Int) x = (k : Int) ↔ _
      by_cases hx : x = v
      · subst hx
        rw [Function.update_same]
        constructor
        · intro hk
          have : k = st.sv_array.length := by exact_mod_cast hk.symm
          subst this
          rw [← hlen]
          simp
        · intro hk
          by_cases hlt : k < (sv_verts st).length
          · rw [List.getElem?_append_left hlt] at hk
            have := (hok x k).mpr hk
            rw [hT] at this
            have h0 : (0 : Int) ≤ (k : Int) := Int.natCast_nonneg k
            rw [← this] at h0
            simp [INDEX_UNSET] at h0
          · have hk2 : k < (sv_verts st ++ [x]).length := by
              by_contra hc
              rw [List.getElem?_eq_none (by omega)] at hk
              cases hk
            simp only [List.length_append, List.length_singleton] at hk2
            have : k = st.sv_array.length := by omega
            rw [this]
      · rw [Function.update_noteq hx]
        constructor
        · intro hk
          have := (hok x k).mp hk
          have hlt : k < (sv_verts st).length := by
            by_contra hc
            rw [List.getElem?_eq_none (by omega)] at this
            cases this
          rw [List.getElem?_append_left hlt]
          exact this
        · intro hk
          by_cases hlt : k < (sv_verts st).length
          · rw [List.getElem?_append_left hlt] at hk
            exact (hok x k).mpr hk
          · exfalso
            rw [List.getElem?_append_right (by omega)] at hk
            have hmem := List.getElem?_mem hk
            simp only [List.mem_singleton] at hmem
            exact hx hmem
    · show 0 ≤ Function.update st.sv_table v (st.sv_array.length : Int) v
      rw [Function.update_same]
      exact Int.natCast_nonneg _
    · intro x hx
      show 0 ≤ Function.update st.sv_table v (st.sv_array.length : Int) x
      by_cases hxv : x = v
      · subst hxv
        rw [Function.update_same]
        exact Int.natCast_nonneg _
      · rw [Function.update_noteq hxv]
        exact hx
    · intro x hx
      rw [hv] at hx
      rcases List.mem_append.mp hx with r | r
      · exact Or.inl r
      · exact Or.inr (List.mem_singleton.mp r)
  · unfold double_side_init_sv SV_FROM_VERT at h
    simp only [hT, if_false] at h
    cases hw : sv_write st (st.sv_table v) (fun sv =>
        { sv with v := v, v_co_orig := (st.bm.vert v).co, loop_nr := loop_nr }) with
    | none => rw [hw] at h; cases h
    | some st2 =>
      rw [hw] at h
      simp only [Option.some.injEq, Prod.mk.injEq] at h
      obtain ⟨h1, -⟩ := h
      subst h1
      unfold sv_write at hw
      split_ifs at hw with hc
      simp only [Option.some.injEq] at hw
      subst hw
      have e : st.sv_table v = ((st.sv_table v).toNat : Int) := (Int.toNat_of_nonneg hc.1).symm
      have hk := (hok v _).mp e
      have hv : (st.sv_array.modify (fun sv =>
          { sv with v := v, v_co_orig := (st.bm.vert v).co, loop_nr := loop_nr })
            (st.sv_table v).toNat).map (fun sv => sv.v) = sv_verts st := by
        apply map_modify_same
        intro x hx
        have : (sv_verts st)[(st.sv_table v).toNat]? = some x.v := by
          simp [sv_verts, hx]
        rw [hk] at this
        exact Option.some.inj this
      refine ⟨rfl, rfl, ?_, hc.1, fun x hx => hx, fun x hx => Or.inl ?_⟩
      · intro x k
        unfold sv_verts
        simp only []
        rw [hv]
        exact hok x k
      · have hx2 : x ∈ List.map (fun sv => sv.v) (st.sv_array.modify (fun sv =>
            { sv with v := v, v_co_orig := (st.bm.vert v).co, loop_nr := loop_nr })
              (st.sv_table v).toNat) := hx
        rw [hv] at hx2
        exact hx2

/-! ### The mesh after the validation -/

theorem mem_of_length_le_two {α : Type} (l : List α) (hl : l.length ≤ 2) (a b c : α)
    (ha : a ∈ l) (hb : b ∈ l) (hc : c ∈ l) (hab : a ≠ b) : c = a ∨ c = b := by
  rcases l with _ | ⟨x, _ | ⟨y, _ | ⟨z, t⟩⟩⟩
  · cases ha
  · simp only [List.mem_singleton] at ha hb
    exact absurd (ha.trans hb.symm) hab
  · simp only [List.mem_cons, List.mem_singleton, List.not_mem_nil, or_false] at ha hb hc
    rcases ha with rfl | rfl <;> rcases hb with rfl | rfl <;> rcases hc with rfl | rfl <;>
      first
        | exact absurd rfl hab
        | exact Or.inl rfl
        | exact Or.inr rfl
  · simp at hl

/-- A mesh with consistent tables that has passed the validation of
`createEdgeSlideVerts_double_side` has the properties that the walk relies on. -/
theorem check_verts_chain_ok (bm bm1 : BMesh) (hm : MeshOK bm)
    (hc : double_side_check_verts bm (List.range bm.totvert) = some bm1)
    (he : double_side_check_edges bm1 = true) : ChainOK bm1 := by
  obtain ⟨hspec1, hspec2⟩ := double_side_check_verts_spec (List.range bm.totvert)
    (List.nodup_range _) bm
  obtain ⟨hsame, -⟩ := hspec2 bm1 hc
  obtain ⟨htv, hte, -, -, hedge, hloop, -, hvert⟩ := hsame
  have hgood : ∀ v, v < bm.totvert → (bm.vert v).select = true →
      ¬ (numsel bm v = 0 ∨ numsel bm v > 2) := by
    intro v hv hs hbad
    have : double_side_check_verts bm (List.range bm.totvert) = none :=
      hspec1.mpr ⟨v, List.mem_range.mpr hv, hs, hbad⟩
    rw [hc] at this
    cases this
  have hE : ∀ v, v < bm.totvert → (bm.vert v).select = true →
      ∃ e, (bm.vert v).e = some e := by
    intro v hv hs
    cases hve : (bm.vert v).e with
    | none =>
      exfalso
      apply hgood v hv hs
      left
      simp [numsel, BM_EDGES_OF_VERT, hve]
    | some e => exact ⟨e, rfl⟩
  refine ⟨?_, ?_, ?_, ?_⟩
  · intro v hv hs
    rw [htv] at hv
    rw [(hvert v).2.1] at hs
    have hvv := double_side_check_verts_vert (List.range bm.totvert) (List.nodup_range _) bm bm1
      hc v (List.mem_range.mpr hv)
    rw [if_pos hs] at hvv
    have hne : (BM_EDGES_OF_VERT bm v).filter (fun e => (bm.edge e).select) ≠ [] := by
      intro h0
      apply hgood v hv hs
      left
      simp [numsel, h0]
    obtain ⟨e0, he0⟩ : ∃ e0, ((BM_EDGES_OF_VERT bm v).filter
        (fun e => (bm.edge e).select)).getLast? = some e0 := by
      cases hl : ((BM_EDGES_OF_VERT bm v).filter (fun e => (bm.edge e).select)).getLast? with
      | none => exact absurd (List.getLast?_eq_none_iff.mp hl) hne
      | some e0 => exact ⟨e0, rfl⟩
    have hmem := List.mem_of_getLast?_eq_some he0
    rw [List.mem_filter] at hmem
    refine ⟨e0, ?_, ?_, ?_⟩
    · rw [hvv, he0]
      simp [double_side_set_vert_e]
    · rw [(hvert v).2.2]
      exact mem_BM_EDGES_OF_VERT bm v e0 hmem.1
    · rw [hedge]
      exact hmem.2
  · intro v hv hs a b c ha hb hc' hsa hsb hsc hab
    rw [htv] at hv
    rw [(hvert v).2.1] at hs
    rw [(hvert v).2.2] at ha hb hc'
    rw [hedge] at hsa hsb hsc
    obtain ⟨e, hve⟩ := hE v hv hs
    have hlen : ((BM_EDGES_OF_VERT bm v).filter (fun e => (bm.edge e).select)).length ≤ 2 := by
      have := hgood v hv hs
      unfold numsel at this
      omega
    apply mem_of_length_le_two _ hlen a b c _ _ _ hab
    · exact List.mem_filter.mpr ⟨mem_BM_EDGES_OF_VERT_of_disk bm v a e hve ha, hsa⟩
    · exact List.mem_filter.mpr ⟨mem_BM_EDGES_OF_VERT_of_disk bm v b e hve hb, hsb⟩
    · exact List.mem_filter.mpr ⟨mem_BM_EDGES_OF_VERT_of_disk bm v c e hve hc', hsc⟩
  · intro v hv hs e hed hes
    rw [htv] at hv
    rw [(hvert v).2.2] at hed
    rw [hedge] at hes
    obtain ⟨-, hends, hne, h1, h2, d1, d2, hsel⟩ := hm v hv e hed
    obtain ⟨s1, s2⟩ := hsel hes
    unfold BM_edge_other_vert
    rw [hedge, htv]
    by_cases hv1 : (bm.edge e).v1 = v
    · refine ⟨(bm.edge e).v2, by rw [if_pos hv1], ?_, h2, ?_, ?_, ?_⟩
      · rw [← hv1]; exact Ne.symm hne
      · rw [(hvert _).2.1]; exact s2
      · rw [(hvert _).2.2]; exact d2
      · rw [if_neg hne, if_pos rfl, hv1]
    · have hv2 : (bm.edge e).v2 = v := by
        rcases hends with r | r
        · exact absurd r hv1
        · exact r
      refine ⟨(bm.edge e).v1, by rw [if_neg hv1, if_pos hv2], hv1, h1, ?_, ?_, ?_⟩
      · rw [(hvert _).2.1]; exact s1
      · rw [(hvert _).2.2]; exact d1
      · rw [if_pos rfl, hv2]
  · intro v hv hs e hed hes
    rw [htv] at hv
    rw [(hvert v).2.2] at hed
    obtain ⟨helt, -⟩ := hm v hv e hed
    have hnot : ¬ (BM_edge_is_manifold bm1 e = false ∧ BM_edge_is_boundary bm1 e = false) := by
      intro hboth
      have : double_side_check_edges bm1 = false :=
        (check_edges_false_iff bm1).mpr ⟨e, by rw [hte]; exact helt, hes, hboth.1, hboth.2⟩
      rw [he] at this
      cases this
    cases hl : (bm1.edge e).l with
    | none =>
      exfalso
      apply hnot
      simp [BM_edge_is_manifold, BM_edge_is_boundary, hl]
    | some l => rfl

/-! ### The rewind -/

theorem BM_edge_other_vert_swap (bm : BMesh) (e a b a1 b1 : Nat)
    (ha : BM_edge_other_vert bm e a = some a1) (hb : BM_edge_other_vert bm e b = some b1)
    (hab : a ≠ b) : a1 = b ∧ b1 = a := by
  unfold BM_edge_other_vert at ha hb
  by_cases h1 : (bm.edge e).v1 = a
  · rw [if_pos h1] at ha
    by_cases h2 : (bm.edge e).v1 = b
    · exact absurd (h1.symm.trans h2) hab
    · rw [if_neg h2] at hb
      by_cases h3 : (bm.edge e).v2 = b
      · rw [if_pos h3] at hb
        exact ⟨(Option.some.inj ha).symm.trans h3, (Option.some.inj hb).symm.trans h1⟩
      · rw [if_neg h3] at hb; cases hb
  · rw [if_neg h1] at ha
    by_cases h4 : (bm.edge e).v2 = a
    · rw [if_pos h4] at ha
      by_cases h2 : (bm.edge e).v1 = b
      · rw [if_pos h2] at hb
        exact ⟨(Option.some.inj ha).symm.trans h2, (Option.some.inj hb).symm.trans h4⟩
      · rw [if_neg h2] at hb
        by_cases h3 : (bm.edge e).v2 = b
        · exact absurd (h4.symm.trans h3) hab
        · rw [if_neg h3] at hb; cases hb
    · rw [if_neg h4] at ha; cases ha

/-- The rewind, after its first step: from a vertex reached over a chain from
the vertex `u` found by the search, it ends at a vertex that is still tagged,
with `v->e` as the edge to start with; that vertex has no other selected edge,
or the chain from it along `v->e` comes back to it. -/
theorem rewind_spec_aux {bm : BMesh} (h : ChainOK bm) (tag : Nat → Bool)
    (hT0 : ∀ x, tag x = true → x < bm.totvert ∧ (bm.vert x).select = true)
    (hI4 : ∀ x, x < bm.totvert → (bm.vert x).select = true → ∀ e ∈ (bm.vert x).disk,
      (bm.edge e).select = true → ∀ y, BM_edge_other_vert bm e x = some y → tag y = tag x)
    (u f g : Nat) (hu : tag u = true) (hf : (bm.vert u).e = some f)
    (hg : get_other_edge bm u f = some g) (fuel : Nat) :
    ∀ (k : Nat) (t : Nat × Nat) (v : Nat) (r : Nat × Nat),
      chain_iter bm k (u, g) = some t → BM_edge_other_vert bm t.2 t.1 = some v →
      tag v = true → double_side_rewind bm tag f fuel v t.2 = some r →
      tag r.1 = true ∧ (bm.vert r.1).e = some r.2 ∧
        (get_other_edge bm r.1 r.2 = none ∨ ∃ m, chain_iter bm (m + 1) r = some r) := by
  obtain ⟨hulp, husel⟩ := hT0 u hu
  obtain ⟨f', hf', hfd, hfs⟩ := h.vert_e u hulp husel
  rw [hf] at hf'
  have hff : f = f' := Option.some.inj hf'
  subst hff
  obtain ⟨hgd, hgs, hgf⟩ := get_other_edge_spec bm u f g hg
  have hs0 : ChainPos bm (u, g) := ⟨hulp, husel, hgd, hgs⟩
  induction fuel with
  | zero =>
    intro k t v r _ _ _ hr
    simp [double_side_rewind] at hr
  | succ fuel ih =>
    intro k t v r hk hv htag hr
    have hpt := h.iter k (u, g) t hs0 hk
    obtain ⟨hvlt, hvsel⟩ := hT0 v htag
    obtain ⟨w, hw, hwne, -, -, htd, hback⟩ := h.ends t.1 hpt.1 hpt.2.1 t.2 hpt.2.2.1 hpt.2.2.2
    rw [hv] at hw
    have hwv : v = w := Option.some.inj hw
    subst hwv
    rw [double_side_rewind] at hr
    cases hgo : get_other_edge bm v t.2 with
    | none =>
      rw [hgo] at hr
      simp only at hr
      obtain ⟨e0, he0, he0d, he0s⟩ := h.vert_e v hvlt hvsel
      rw [he0] at hr
      simp only [Option.some.injEq] at hr
      subst hr
      have : e0 = t.2 := h.other_edge_none v t.2 hvlt hvsel hgo e0 he0d he0s
      refine ⟨htag, he0, Or.inl ?_⟩
      rw [this]
      exact hgo
    | some e1 =>
      rw [hgo] at hr
      simp only at hr
      obtain ⟨e1d, e1s, e1ne⟩ := get_other_edge_spec bm v t.2 e1 hgo
      obtain ⟨v', hv', hv'ne, hv'lt, hv'sel, e1d', hback'⟩ := h.ends v hvlt hvsel e1 e1d e1s
      have htag' : tag v' = true := by
        rw [hI4 v hvlt hvsel e1 e1d e1s v' hv', htag]
      have hstep : chain_step bm t = some (v, e1) := by
        simp only [chain_step, hv, hgo]
      have hk1 : chain_iter bm (k + 1) (u, g) = some (v, e1) := by
        simp only [chain_iter, hk, Option.some_bind, hstep]
      rw [hv'] at hr
      simp only [htag', Bool.not_true, Bool.false_eq_true, if_false] at hr
      by_cases hef : e1 = f
      · subst hef
        simp only [ne_eq, not_true_eq_false, if_false, Option.some.injEq] at hr
        subst hr
        have hvu : v ≠ u := by
          intro hvu
          subst hvu
          have hd : t.2 = e1 ∨ t.2 = g :=
            h.two v hulp husel e1 g t.2 hfd hgd htd hfs hgs hpt.2.2.2 (Ne.symm hgf)
          have hd2 : t.2 = g := by
            rcases hd with r | r
            · exact absurd r.symm e1ne
            · exact r
          cases k with
          | zero =>
            simp only [chain_iter, Option.some.injEq] at hk
            rw [← hk] at hwne
            exact hwne rfl
          | succ k =>
            apply h.no_reflection (v, g) hs0 k 0 (v, g) t rfl
              (by rw [show 0 + 1 + k = k + 1 by omega]; exact hk)
            · show BM_edge_other_vert bm g v = some t.1
              rw [← hd2]; exact hback
            · exact hd2
        obtain ⟨o, ho, -⟩ := h.ends u hulp husel e1 hfd hfs
        obtain ⟨e1', e2'⟩ := BM_edge_other_vert_swap bm e1 v u v' o hv' ho hvu
        subst e1'
        refine ⟨hu, hf, Or.inr ⟨k + 1, ?_⟩⟩
        obtain ⟨w1, hw1, -, -, -, -, hback1⟩ := h.ends v' hulp husel g hgd hgs
        have hrev := h.reverse (k + 1) (v', g) (v, e1) w1 v' hs0 hk1 hw1 hv'
        have hst2 : chain_step bm (w1, g) = some (v', e1) := by
          have hge : get_other_edge bm v' g = some e1 :=
            h.other_edge_eq v' g e1 hulp husel hgd hfd hgs hfs hgf
          simp only [chain_step, hback1, hge]
        simp only [chain_iter, Option.some_bind] at hrev ⊢
        rw [hrev]
        exact hst2
      · simp only [ne_eq, hef, not_false_eq_true, if_true] at hr
        exact ih (k + 1) (v, e1) v' r hk1 hv' htag' hr

/-- The rewind from the tagged vertex `u` found by the search, when tagged and
untagged vertices are never joined by a selected edge: it ends at a tagged vertex,
with `v->e` as the edge to start with; that vertex has no other selected edge, or
the chain from it along `v->e` comes back to it. -/
theorem rewind_spec {bm : BMesh} (h : ChainOK bm) (tag : Nat → Bool)
    (hT0 : ∀ x, tag x = true → x < bm.totvert ∧ (bm.vert x).select = true)
    (hI4 : ∀ x, x < bm.totvert → (bm.vert x).select = true → ∀ e ∈ (bm.vert x).disk,
      (bm.edge e).select = true → ∀ y, BM_edge_other_vert bm e x = some y → tag y = tag x)
    (u f : Nat) (hu : tag u = true) (hf : (bm.vert u).e = some f) (fuel : Nat)
    (r : Nat × Nat) (hr : double_side_rewind bm tag f fuel u f = some r) :
    tag r.1 = true ∧ (bm.vert r.1).e = some r.2 ∧
      (get_other_edge bm r.1 r.2 = none ∨ ∃ m, chain_iter bm (m + 1) r = some r) := by
  obtain ⟨hulp, husel⟩ := hT0 u hu
  cases fuel with
  | zero => simp [double_side_rewind] at hr
  | succ fuel =>
    rw [double_side_rewind] at hr
    cases hgo : get_other_edge bm u f with
    | none =>
      rw [hgo] at hr
      simp only [hf, Option.some.injEq] at hr
      subst hr
      exact ⟨hu, hf, Or.inl hgo⟩
    | some g =>
      rw [hgo] at hr
      simp only at hr
      obtain ⟨gd, gs, gne⟩ := get_other_edge_spec bm u f g hgo
      obtain ⟨v', hv', -, -, -, -, -⟩ := h.ends u hulp husel g gd gs
      have htag' : tag v' = true := by
        rw [hI4 u hulp husel g gd gs v' hv', hu]
      rw [hv'] at hr
      simp only [htag', Bool.not_true, Bool.false_eq_true, if_false, ne_eq, gne,
        not_false_eq_true, if_true] at hr
      exact rewind_spec_aux h tag hT0 hI4 u f g hu hf hgo fuel 0 (u, g) v' r rfl hv' htag' hr

/-! ### The forward walk -/

theorem RecOK.congr {st st1 : DoubleSideState} (h : RecOK st)
    (ht : st1.sv_table = st.sv_table) (hv : sv_verts st1 = sv_verts st) : RecOK st1 := by
  intro v k
  rw [ht, hv]
  exact h v k

/-- The record of a vertex after it is fetched or pushed and its two sides are written. -/
theorem record_spec (st st1 st2 st3 : DoubleSideState) (v : Nat) (loop_nr idx : Int)
    (hok : RecOK st) (h1 : double_side_init_sv st v loop_nr = some (st1, idx))
    (h2 : st2.bm = st1.bm ∧ st2.tag = st1.tag ∧ st2.sv_table = st1.sv_table ∧
      sv_verts st2 = sv_verts st1)
    (h3 : st3.bm = st2.bm ∧ st3.tag = st2.tag ∧ st3.sv_table = st2.sv_table ∧
      sv_verts st3 = sv_verts st2) :
    st3.bm = st.bm ∧ st3.tag = st.tag ∧ RecOK st3 ∧ 0 ≤ st3.sv_table v ∧
      (∀ x, 0 ≤ st.sv_table x → 0 ≤ st3.sv_table x) ∧
      (∀ x ∈ sv_verts st3, x ∈ sv_verts st ∨ x = v) := by
  obtain ⟨a1, a2, a3, a4, a5, a6⟩ := double_side_init_sv_spec st st1 v loop_nr idx hok h1
  obtain ⟨b1, b2, b3, b4⟩ := h2
  obtain ⟨c1, c2, c3, c4⟩ := h3
  refine ⟨c1.trans (b1.trans a1), c2.trans (b2.trans a2),
    (a3.congr b3 b4).congr c3 c4, ?_, ?_, ?_⟩
  · rw [c3, b3]; exact a4
  · intro x hx; rw [c3, b3]; exact a5 x hx
  · intro x hx; rw [c4, b4] at hx; exact a6 x hx

/-- After the recovery of missing side loops one of the two side loops is not
null, when one was not null before the step and the new edge has a face. -/
theorem double_side_recover_some (sqrtf : ℚ → ℚ) (bm : BMesh) (fuel v e e_prev : Nat)
    (pa pb : Bool) (l_a l_b : Option Nat) (vec_a vec_b : V3)
    (r : Option Nat × Option Nat × V3 × V3)
    (h : double_side_recover sqrtf bm fuel v e e_prev pa pb l_a l_b vec_a vec_b = some r)
    (hp : pa = true ∨ pb = true) (hl : ((bm.edge e).l).isSome = true) :
    r.1.isSome = true ∨ r.2.1.isSome = true := by
  obtain ⟨el, hel⟩ := Option.isSome_iff_exists.mp hl
  unfold double_side_recover at h
  by_cases h1 : l_a.isSome = true ∧ l_b.isSome = true
  · rw [if_pos h1] at h
    simp only [Option.some.injEq] at h
    subst h
    exact Or.inl h1.1
  · rw [if_neg h1] at h
    simp only [hel] at h
    split at h
    · simp only [Option.some.injEq] at h
      subst h
      simp only
      rcases l_a with _ | la <;> rcases l_b with _ | lb <;> cases pa <;> cases pb <;>
        simp at hp h1 ⊢ <;> split_ifs <;> simp
    · cases h

theorem update_two_true (t : Nat → Bool) (a b x : Nat) :
    Function.update (Function.update t a false) b false x = true ↔
      t x = true ∧ x ≠ a ∧ x ≠ b := by
  by_cases hb : x = b
  · subst hb; simp
  · rw [Function.update_noteq hb]
    by_cases ha : x = a
    · subst ha; simp
    · rw [Function.update_noteq ha]
      simp [ha, hb]

theorem update_two_false (t : Nat → Bool) (a b x : Nat)
    (h : Function.update (Function.update t a false) b false x = false) :
    t x = false ∨ x = a ∨ x = b := by
  by_cases ht : t x = true
  · by_cases ha : x = a
    · exact Or.inr (Or.inl ha)
    · by_cases hb : x = b
      · exact Or.inr (Or.inr hb)
      · have := (update_two_true t a b x).mpr ⟨ht, ha, hb⟩
        rw [h] at this
        cases this
  · left
    simpa using ht

/-- The head of the walk after the record of its vertex is made. -/
theorem WalkInv.record {bm : BMesh} {s0 : Nat × Nat} {k : Nat} {st : DoubleSideState}
    {v e : Nat} (hw : WalkInv bm s0 k st v e) (hp : ChainPos bm (v, e))
    (st1 st2 st3 : DoubleSideState) (loop_nr idx : Int)
    (h1 : double_side_init_sv st v loop_nr = some (st1, idx))
    (h2 : st2.bm = st1.bm ∧ st2.tag = st1.tag ∧ st2.sv_table = st1.sv_table ∧
      sv_verts st2 = sv_verts st1)
    (h3 : st3.bm = st2.bm ∧ st3.tag = st2.tag ∧ st3.sv_table = st2.sv_table ∧
      sv_verts st3 = sv_verts st2) :
    WalkInv bm s0 k st3 v e ∧ 0 ≤ st3.sv_table v := by
  obtain ⟨a1, a2, a3, a4, a5, a6⟩ := record_spec st st1 st2 st3 v loop_nr idx hw.rec_ok h1 h2 h3
  refine ⟨⟨hw.pos, hw.noexit, a1.trans hw.bm_eq, a3, ?_, ?_, ?_, ?_, ?_, ?_, ?_⟩, a4⟩
  · intro x hx
    rcases a6 x hx with r | r
    · exact hw.rec_sel x r
    · rw [r]; exact ⟨hp.1, hp.2.1⟩
  · intro x hx
    rw [a2] at hx
    exact hw.tag_ok x hx
  · intro x hx hs hne
    rw [a2]
    rcases hw.done x hx hs hne with r | r
    · exact Or.inl r
    · exact Or.inr (a5 x r)
  · rw [a2]; exact hw.here
  · rw [a2]; exact hw.first
  · intro hk; exact a5 _ (hw.first_rec hk)
  · intro x hx hs ht e1 he1 hs1 y hy hty
    rw [a2] at ht hty
    exact hw.front x hx hs ht e1 he1 hs1 y hy hty

theorem chain_iter_step (bm : BMesh) (k : Nat) (s0 s : Nat × Nat)
    (h : chain_iter bm k s0 = some s) : chain_iter bm (k + 1) s0 = chain_step bm s := by
  simp only [chain_iter, h, Option.some_bind]

/-- The head of the walk after a step to a vertex with another selected edge
that is not the first edge of the walk. -/
theorem WalkInv.next {bm : BMesh} {s0 : Nat × Nat} {k : Nat} {st : DoubleSideState}
    {v e : Nat} (h : ChainOK bm) (hs0 : ChainPos bm s0) (hw : WalkInv bm s0 k st v e)
    (hrec : 0 ≤ st.sv_table v) (v1 e1 : Nat) (hv1 : BM_edge_other_vert bm e v = some v1)
    (he1 : get_other_edge bm v1 e = some e1) (hne : e1 ≠ s0.2) :
    WalkInv bm s0 (k + 1)
      { st with tag := Function.update (Function.update st.tag v1 false) v false } v1 e1 := by
  have hp := h.iter k s0 (v, e) hs0 hw.pos
  have hstep : chain_step bm (v, e) = some (v1, e1) := by
    simp only [chain_step, hv1, he1]
  obtain ⟨hp1, -, b2, b3, b4, b5, -⟩ := h.step (v, e) (v1, e1) hp hstep
  have hpos : chain_iter bm (k + 1) s0 = some (v1, e1) := by
    rw [chain_iter_step bm k s0 (v, e) hw.pos, hstep]
  refine ⟨hpos, ?_, hw.bm_eq, hw.rec_ok.congr rfl rfl, hw.rec_sel, ?_, ?_, ?_, ?_, ?_, ?_⟩
  · intro j t hj1 hjk ht
    by_cases hj : j ≤ k
    · exact hw.noexit j t hj1 hj ht
    · have : j = k + 1 := by omega
      subst this
      rw [hpos] at ht
      rw [← Option.some.inj ht]
      exact hne
  · intro x hx
    exact hw.tag_ok x ((update_two_true _ _ _ _).mp hx).1
  · intro x hx hs hxv
    by_cases hxv0 : x = v
    · subst hxv0; exact Or.inr hrec
    · rcases hw.done x hx hs hxv0 with r | r
      · exact Or.inl ((update_two_true _ _ _ _).mpr ⟨r, hxv, hxv0⟩)
      · exact Or.inr r
  · cases ht : Function.update (Function.update st.tag v1 false) v false v1 with
    | false => exact ht
    | true => exact absurd rfl ((update_two_true _ _ _ _).mp ht).2.1
  · cases ht : Function.update (Function.update st.tag v1 false) v false s0.1 with
    | false => exact ht
    | true =>
      have := ((update_two_true _ _ _ _).mp ht).1
      rw [hw.first] at this
      cases this
  · intro _
    cases k with
    | zero =>
      have := hw.pos
      simp only [chain_iter, Option.some.injEq] at this
      rw [this]
      exact hrec
    | succ k => exact hw.first_rec (by omega)
  · intro x hx hs ht e2 he2 hs2 y hy hty
    obtain ⟨hty0, hy1, hy2⟩ := (update_two_true _ _ _ _).mp hty
    have caseA : st.tag x = false → (x = v1 ∧ e2 = e1) ∨ (x = s0.1 ∧ e2 ≠ s0.2) := by
      intro htx
      rcases hw.front x hx hs htx e2 he2 hs2 y hy hty0 with ⟨rx, re⟩ | r
      · exfalso
        subst rx; subst re
        rw [hv1] at hy
        exact hy1 (Option.some.inj hy).symm
      · exact Or.inr r
    rcases update_two_false _ _ _ _ ht with r | r | r
    · exact caseA r
    · subst r
      rcases h.two x hp1.1 hp1.2.1 e e1 e2 b3 hp1.2.2.1 he2 hp.2.2.2 hp1.2.2.2 hs2
          (Ne.symm b5) with q | q
      · exfalso
        subst q
        rw [b4] at hy
        exact hy2 (Option.some.inj hy).symm
      · exact Or.inl ⟨rfl, q⟩
    · subst r
      exact caseA hw.here

/-- The end of the walk on a closed chain: the step has come back to the first
vertex, towards the first edge. -/
theorem WalkInv.close {bm : BMesh} {s0 : Nat × Nat} {k : Nat} {st : DoubleSideState}
    {v e : Nat} (h : ChainOK bm) (hs0 : ChainPos bm s0) (hw : WalkInv bm s0 k st v e)
    (hrec : 0 ≤ st.sv_table v) (v1 : Nat) (hv1 : BM_edge_other_vert bm e v = some v1)
    (he1 : get_other_edge bm v1 e = some s0.2) :
    PassInv bm
      { st with tag := Function.update (Function.update st.tag v1 false) v false } := by
  have hp := h.iter k s0 (v, e) hs0 hw.pos
  have hstep : chain_step bm (v, e) = some (v1, s0.2) := by
    simp only [chain_step, hv1, he1]
  obtain ⟨hp1, -, b2, b3, b4, b5, -⟩ := h.step (v, e) (v1, s0.2) hp hstep
  have hpos : chain_iter bm (k + 1) s0 = some (v1, s0.2) := by
    rw [chain_iter_step bm k s0 (v, e) hw.pos, hstep]
  have hv10 : v1 = s0.1 := by
    by_contra hne
    obtain ⟨o, ho, -⟩ := h.ends s0.1 hs0.1 hs0.2.1 s0.2 hs0.2.2.1 hs0.2.2.2
    obtain ⟨y, hy, -⟩ := h.ends v1 hp1.1 hp1.2.1 s0.2 hp1.2.2.1 hp1.2.2.2
    obtain ⟨-, q⟩ := BM_edge_other_vert_swap bm s0.2 v1 s0.1 y o hy ho hne
    subst q
    exact h.no_reflection s0 hs0 k 0 s0 (o, s0.2) rfl
      (by rw [show 0 + 1 + k = k + 1 by omega]; exact hpos) ho rfl
  have hk : 1 ≤ k := by
    cases k with
    | zero =>
      exfalso
      have := hw.pos
      simp only [chain_iter, Option.some.injEq] at this
      apply b2
      show v1 = v
      rw [hv10, this]
    | succ k => omega
  refine ⟨hw.bm_eq, hw.rec_ok.congr rfl rfl, hw.rec_sel, ?_, ?_, ?_⟩
  · intro x hx
    exact hw.tag_ok x ((update_two_true _ _ _ _).mp hx).1
  · intro x hx hs
    by_cases hxv0 : x = v
    · subst hxv0; exact Or.inr hrec
    · by_cases hxv1 : x = v1
      · subst hxv1
        right
        have := hw.first_rec hk
        rw [← hv10] at this
        exact this
      · rcases hw.done x hx hs hxv0 with r | r
        · exact Or.inl ((update_two_true _ _ _ _).mpr ⟨r, hxv1, hxv0⟩)
        · exact Or.inr r
  · intro x hx hs ht e2 he2 hs2 y hy
    cases hty : Function.update (Function.update st.tag v1 false) v false y with
    | false => exact hty
    | true =>
      exfalso
      obtain ⟨hty0, hy1, hy2⟩ := (update_two_true _ _ _ _).mp hty
      have caseA : st.tag x = false → False := by
        intro htx
        rcases hw.front x hx hs htx e2 he2 hs2 y hy hty0 with ⟨rx, re⟩ | ⟨rx, re⟩
        · subst rx; subst re
          rw [hv1] at hy
          exact hy1 (Option.some.inj hy).symm
        · rw [← hv10] at rx
          subst rx
          rcases h.two x hp1.1 hp1.2.1 e s0.2 e2 b3 hp1.2.2.1 he2 hp.2.2.2 hp1.2.2.2 hs2
              (Ne.symm b5) with q | q
          · subst q
            rw [b4] at hy
            exact hy2 (Option.some.inj hy).symm
          · exact re q
      rcases update_two_false _ _ _ _ ht with r | r | r
      · exact caseA r
      · subst r
        apply caseA
        rw [hv10]
        exact hw.first
      · subst r
        exact caseA hw.here

/-- The end of the walk at the last vertex of an open chain. -/
theorem WalkInv.last {bm : BMesh} {s0 : Nat × Nat} {k : Nat} {st : DoubleSideState}
    {v e : Nat} (h : ChainOK bm) (hs0 : ChainPos bm s0) (hw : WalkInv bm s0 k st v e)
    (hstart : get_other_edge bm s0.1 s0.2 = none ∨ ∃ m, chain_iter bm (m + 1) s0 = some s0)
    (hrec : 0 ≤ st.sv_table v) (v1 : Nat) (hv1 : BM_edge_other_vert bm e v = some v1)
    (he1 : get_other_edge bm v1 e = none) (st6 : DoubleSideState)
    (hbm : st6.bm = st.bm) (htag : st6.tag = st.tag) (hok : RecOK st6)
    (hrec1 : 0 ≤ st6.sv_table v1) (hmono : ∀ x, 0 ≤ st.sv_table x → 0 ≤ st6.sv_table x)
    (hsub : ∀ x ∈ sv_verts st6, x ∈ sv_verts st ∨ x = v1) :
    PassInv bm
      { st6 with tag := Function.update (Function.update st6.tag v1 false) v false } := by
  have hp := h.iter k s0 (v, e) hs0 hw.pos
  obtain ⟨w, hw1, hwne, hwlt, hwsel, hwd, hback⟩ := h.ends v hp.1 hp.2.1 e hp.2.2.1 hp.2.2.2
  rw [hv1] at hw1
  have hwv : v1 = w := Option.some.inj hw1
  subst hwv
  have hstep : chain_step bm (v, e) = none := by
    simp only [chain_step, hv1, he1]
  have hpos : chain_iter bm (k + 1) s0 = none := by
    rw [chain_iter_step bm k s0 (v, e) hw.pos, hstep]
  refine ⟨hbm.trans hw.bm_eq, hok.congr rfl rfl, ?_, ?_, ?_, ?_⟩
  · intro x hx
    rcases hsub x hx with r | r
    · exact hw.rec_sel x r
    · rw [r]; exact ⟨hwlt, hwsel⟩
  · intro x hx
    have := ((update_two_true _ _ _ _).mp hx).1
    rw [htag] at this
    exact hw.tag_ok x this
  · intro x hx hs
    by_cases hxv0 : x = v
    · subst hxv0; exact Or.inr (hmono x hrec)
    · by_cases hxv1 : x = v1
      · subst hxv1; exact Or.inr hrec1
      · rcases hw.done x hx hs hxv0 with r | r
        · exact Or.inl ((update_two_true _ _ _ _).mpr ⟨htag ▸ r, hxv1, hxv0⟩)
        · exact Or.inr (hmono x r)
  · intro x hx hs ht e2 he2 hs2 y hy
    cases hty : Function.update (Function.update st6.tag v1 false) v false y with
    | false => exact hty
    | true =>
      exfalso
      obtain ⟨hty0, hy1, hy2⟩ := (update_two_true _ _ _ _).mp hty
      rw [htag] at hty0
      have caseA : st.tag x = false → False := by
        intro htx
        rcases hw.front x hx hs htx e2 he2 hs2 y hy hty0 with ⟨rx, re⟩ | ⟨rx, re⟩
        · subst rx; subst re
          rw [hv1] at hy
          exact hy1 (Option.some.inj hy).symm
        · subst rx
          rcases hstart with hn | ⟨m, hm⟩
          · exact re (h.other_edge_none s0.1 s0.2 hx hs hn e2 he2 hs2)
          · by_cases hmk : m + 1 ≤ k
            · exact hw.noexit (m + 1) s0 (by omega) hmk hm rfl
            · have := chain_iter_prefix bm s0 (m + 1) (k + 1) (by omega) (by rw [hm]; rfl)
              rw [hpos] at this
              cases this
      have ht0 : Function.update (Function.update st.tag v1 false) v false x = false := by
        rw [← htag]; exact ht
      rcases update_two_false _ _ _ _ ht0 with r | r | r
      · exact caseA r
      · subst r
        have := h.other_edge_none x e hwlt hwsel he1 e2 he2 hs2
        subst this
        rw [hback] at hy
        exact hy2 (Option.some.inj hy).symm
      · subst r
        exact caseA hw.here

/-- The forward walk from a position whose edge is `v->e` of its vertex, when
that vertex has no other selected edge or the chain comes back to it: the walk
leaves the state as it has to be between two passes. -/
theorem walk_spec {bm : BMesh} (h : ChainOK bm) (sqrtf : ℚ → ℚ) (fuel_l : Nat) (loop_nr : Int)
    (s0 : Nat × Nat) (hs0 : ChainPos bm s0)
    (hstart : get_other_edge bm s0.1 s0.2 = none ∨ ∃ m, chain_iter bm (m + 1) s0 = some s0)
    (fuel : Nat) :
    ∀ (k : Nat) (w : DoubleSideWalk) (r : DoubleSideState),
      WalkInv bm s0 k w.st w.v w.e → (w.l_a.isSome = true ∨ w.l_b.isSome = true) →
      double_side_walk sqrtf fuel_l loop_nr (some s0.2) fuel w = some r → PassInv bm r := by
  induction fuel with
  | zero =>
    intro k w r _ _ hr
    simp [double_side_walk] at hr
  | succ fuel ih =>
    intro k w r hw hl hr
    have hp := h.iter k s0 (w.v, w.e) hs0 hw.pos
    obtain ⟨v1, hv1, hv1ne, hv1lt, hv1sel, hv1d, hback⟩ :=
      h.ends w.v hp.1 hp.2.1 w.e hp.2.2.1 hp.2.2.2
    rw [double_side_walk] at hr
    simp only [hw.bm_eq, hv1] at hr
    split at hr
    · cases hr
    · rename_i st1 idx hi
      split at hr
      · cases hr
      · rename_i st2 h2
        split at hr
        · cases hr
        · rename_i st3 h3
          obtain ⟨hw3, hrec⟩ := hw.record hp st1 st2 st3 loop_nr idx hi
            (double_side_set_side_spec _ _ _ _ _ _ _ _ _ h2)
            (double_side_set_side_spec _ _ _ _ _ _ _ _ _ h3)
          cases hg : get_other_edge bm v1 w.e with
          | none =>
            rw [hg] at hr
            simp only at hr
            split at hr
            · cases hr
            · rename_i st4 idx4 h4
              split at hr
              · cases hr
              · rename_i st5 h5
                split at hr
                · cases hr
                · rename_i st6 h6
                  simp only [Option.some.injEq] at hr
                  subst hr
                  obtain ⟨a1, a2, a3, a4, a5, a6⟩ := record_spec st3 st4 st5 st6 v1 loop_nr idx4
                    hw3.rec_ok h4 (double_side_end_side_spec _ _ _ _ _ _ _ _ _ _ h5)
                    (double_side_end_side_spec _ _ _ _ _ _ _ _ _ _ h6)
                  exact WalkInv.last h hs0 hw3 hstart hrec v1 hv1 hg st6 a1 a2 a3 a4 a5 a6
          | some e =>
            rw [hg] at hr
            simp only at hr
            obtain ⟨ed, es, -⟩ := get_other_edge_spec bm v1 w.e e hg
            split at hr
            · cases hr
            · rename_i la va hna
              split at hr
              · cases hr
              · rename_i lb vb hnb
                split at hr
                · cases hr
                · rename_i la1 lb1 va1 vb1 hrc
                  have hl1 := double_side_recover_some sqrtf bm fuel_l v1 e w.e _ _ la lb va vb
                    _ hrc hl (h.edge_l v1 hv1lt hv1sel e ed es)
                  by_cases he : e = s0.2
                  · subst he
                    simp only [ne_eq, not_true_eq_false, false_and, if_false,
                      Option.some.injEq] at hr
                    subst hr
                    exact WalkInv.close h hs0 hw3 hrec v1 hv1 hg
                  · have hc : some e ≠ some s0.2 ∧ (la1.isSome = true ∨ lb1.isSome = true) :=
                      ⟨fun hh => he (Option.some.inj hh), hl1⟩
                    rw [if_pos hc] at hr
                    exact ih (k + 1) _ r (WalkInv.next h hs0 hw3 hrec v1 e hv1 hg he) hl1 hr

/-! ### The passes of the outer loop -/

theorem PassInv.tag_eq {bm : BMesh} {st : DoubleSideState} (h : ChainOK bm)
    (hinv : PassInv bm st) (x : Nat) (hx : x < bm.totvert) (hs : (bm.vert x).select = true)
    (e : Nat) (he : e ∈ (bm.vert x).disk) (hes : (bm.edge e).select = true) (y : Nat)
    (hy : BM_edge_other_vert bm e x = some y) : st.tag y = st.tag x := by
  obtain ⟨w, hw, -, hwlt, hwsel, hwd, hback⟩ := h.ends x hx hs e he hes
  rw [hy] at hw
  have : y = w := Option.some.inj hw
  subst this
  cases htx : st.tag x with
  | false => exact hinv.closed x hx hs htx e he hes y hy
  | true =>
    cases hty : st.tag y with
    | true => rfl
    | false =>
      have := hinv.closed y hwlt hwsel hty e hwd hes x hback
      rw [htx] at this
      cases this

/-- One pass of the outer loop keeps what holds between the passes. -/
theorem pass_spec {bm : BMesh} (h : ChainOK bm) (sqrtf : ℚ → ℚ) (fuel : Nat)
    (st r : DoubleSideState) (loop_nr : Int) (u f : Nat) (hinv : PassInv bm st)
    (hu : st.tag u = true) (hf : (bm.vert u).e = some f)
    (hr : double_side_pass sqrtf fuel st loop_nr u f = some r) : PassInv bm r := by
  unfold double_side_pass at hr
  simp only [hinv.bm_eq] at hr
  split at hr
  · cases hr
  · rename_i v e hrw
    obtain ⟨htv, hve, hstart⟩ := rewind_spec h st.tag hinv.tag_ok
      (fun x hx hs e he hes y hy => hinv.tag_eq h x hx hs e he hes y hy) u f hu hf fuel (v, e) hrw
    obtain ⟨hvlt, hvsel⟩ := hinv.tag_ok v htv
    obtain ⟨e0, he0, he0d, he0s⟩ := h.vert_e v hvlt hvsel
    simp only at hve
    rw [hve] at he0
    have : e = e0 := Option.some.inj he0
    subst this
    have hs0 : ChainPos bm (v, e) := ⟨hvlt, hvsel, he0d, he0s⟩
    split at hr
    · cases hr
    · rename_i l_a hla
      split at hr
      · cases hr
      · rename_i vec_a hva
        split at hr
        · cases hr
        · rename_i vec_b hvb
          rw [hve] at hr
          refine walk_spec h sqrtf fuel loop_nr (v, e) hs0 hstart fuel 0 _ r ?_ ?_ hr
          swap
          · exact Or.inl rfl
          refine ⟨rfl, ?_, rfl, hinv.rec_ok.congr rfl rfl, hinv.rec_sel, ?_, ?_, ?_, ?_,
            ?_, ?_⟩
          · intro j t h1 h0; omega
          · intro x hx
            by_cases hxv : x = v
            · subst hxv; simp at hx
            · simp only [Function.update_noteq hxv] at hx
              exact hinv.tag_ok x hx
          · intro x hx hs hxv
            simp only [Function.update_noteq hxv]
            exact hinv.done x hx hs
          · simp
          · simp
          · intro h1; omega
          · intro x hx hs ht e1 he1 hs1 y hy hty
            by_cases hxv : x = v
            · by_cases hee : e1 = e
              · exact Or.inl ⟨hxv, hee⟩
              · exact Or.inr ⟨hxv, hee⟩
            · exfalso
              simp only [Function.update_noteq hxv] at ht
              have hyv : y ≠ v := by
                intro hyv
                subst hyv
                simp at hty
              simp only [Function.update_noteq hyv] at hty
              have := hinv.closed x hx hs ht e1 he1 hs1 y hy
              rw [hty] at this
              cases this

/-- The outer loop keeps what holds between the passes, and ends with no vertex tagged. -/
theorem loop_spec {bm : BMesh} (h : ChainOK bm) (sqrtf : ℚ → ℚ) (fuel_l fuel : Nat) :
    ∀ (st : DoubleSideState) (loop_nr : Int) (r : DoubleSideState × Int), PassInv bm st →
      double_side_loop sqrtf fuel_l fuel st loop_nr = some r →
      PassInv bm r.1 ∧ ∀ x, x < bm.totvert → r.1.tag x = false := by
  induction fuel with
  | zero =>
    intro st loop_nr r _ hr
    simp [double_side_loop] at hr
  | succ fuel ih =>
    intro st loop_nr r hinv hr
    rw [double_side_loop] at hr
    simp only [hinv.bm_eq] at hr
    split at hr
    · rename_i hfind
      simp only [Option.some.injEq] at hr
      subst hr
      refine ⟨hinv, fun x hx => ?_⟩
      rw [List.find?_eq_none] at hfind
      have := hfind x (List.mem_range.mpr hx)
      simpa using this
    · rename_i v hfind
      have htag : st.tag v = true := List.find?_some hfind
      split at hr
      · exact ih st loop_nr r hinv hr
      · rename_i e0 he0
        split at hr
        · cases hr
        · rename_i st1 hpass
          exact ih st1 _ r (pass_spec h sqrtf fuel_l st st1 loop_nr v e0 hinv htag he0 hpass) hr

/-- The state before the first pass. -/
theorem pass_inv_start (bm : BMesh) :
    PassInv bm
      { bm := bm
        tag := fun v => decide (v < bm.totvert) && (bm.vert v).select
        sv_table := fun v => if (bm.vert v).select then INDEX_UNSET else INDEX_INVALID
        sv_array := [] } := by
  refine ⟨rfl, ?_, ?_, ?_, ?_, ?_⟩
  · intro v k
    simp only [sv_verts, List.map_nil, List.getElem?_nil]
    constructor
    · intro hk
      have h0 : (0 : Int) ≤ (k : Int) := Int.natCast_nonneg k
      rw [← hk] at h0
      split_ifs at h0 <;> simp [INDEX_UNSET, INDEX_INVALID] at h0
    · intro hk; cases hk
  · intro x hx
    simp [sv_verts] at hx
  · intro x hx
    simpa using hx
  · intro x hx hs
    left
    simp [hx, hs]
  · intro x hx hs ht
    simp [hx, hs] at ht

/-! ### C6: one record for every selected vertex -/

set_option maxRecDepth 100000 in
theorem grid_2_2_mesh_ok : MeshOK (grid_mesh 2 2 1 (flat_co 1)) := by
  unfold MeshOK
  decide

/-- The state at the end of the walk of the builder: what holds between the
passes holds for the validated mesh, and no vertex is tagged. -/
theorem double_side_sv_inv (sqrtf : ℚ → ℚ) (fuel : Nat) (bm : BMesh) (st : DoubleSideState)
    (n : Int) (hm : MeshOK bm)
    (h : createEdgeSlideVerts_double_side_sv sqrtf fuel bm = some (some (st, n))) :
    same_but_vert_e bm st.bm ∧ PassInv st.bm st ∧ ∀ x, x < bm.totvert → st.tag x = false := by
  unfold createEdgeSlideVerts_double_side_sv at h
  split at h
  · cases h
  · rename_i bm1 hc
    split_ifs at h with h1 h2
    · cases h
    · cases h
    simp only at h
    split at h
    · cases h
    · rename_i r hloop
      simp only [Option.some.injEq] at h
      subst h
      have hsame := ((double_side_check_verts_spec (List.range bm.totvert)
        (List.nodup_range _) bm).2 bm1 hc).1
      have hce : double_side_check_edges bm1 = true := by simpa using h1
      have hchain := check_verts_chain_ok bm bm1 hm hc hce
      obtain ⟨hinv, htag⟩ := loop_spec hchain sqrtf fuel fuel _ 0 _ (pass_inv_start bm1) hloop
      have hbm : st.bm = bm1 := hinv.bm_eq
      refine ⟨?_, ?_, fun x hx => htag x (by rw [hsame.1]; exact hx)⟩
      · rw [hbm]; exact hsame
      · rw [hbm]; exact hinv

/-- C6: for every mesh with consistent tables, when the walk of
`createEdgeSlideVerts_double_side` has come to its end (the validation has
passed and the loops have ended without a null dereference), the number of
records on the stack is the number of selected vertices, so that the assertion
`STACK_SIZE(sv_array) == sv_tot` holds and the builder returns data; no two
records have the same vertex; the vertex of every record is a selected vertex
of the mesh; and every selected vertex has a record. -/
theorem createEdgeSlideVerts_double_side_one_record (sqrtf : ℚ → ℚ) (view : ViewExtern)
    (fuel : Nat) (bm : BMesh) (st : DoubleSideState) (n : Int) (hm : MeshOK bm)
    (h : createEdgeSlideVerts_double_side_sv sqrtf fuel bm = some (some (st, n))) :
    st.sv_array.length = double_side_count_sel st.bm ∧
      double_side_count_sel st.bm = double_side_count_sel bm ∧
      (∃ sld, createEdgeSlideVerts_double_side sqrtf view fuel bm = some (some sld) ∧
        sld.sv.map (fun sv => sv.v) = st.sv_array.map (fun sv => sv.v)) ∧
      (st.sv_array.map (fun sv => sv.v)).Nodup ∧
      (∀ sv ∈ st.sv_array, sv.v < bm.totvert ∧ (bm.vert sv.v).select = true) ∧
      (∀ v, v < bm.totvert → (bm.vert v).select = true → ∃ sv ∈ st.sv_array, sv.v = v) := by
  obtain ⟨hsame, hinv, htag⟩ := double_side_sv_inv sqrtf fuel bm st n hm h
  obtain ⟨htv, -, -, -, -, -, -, hvert⟩ := hsame
  have hsel : ∀ x ∈ sv_verts st, x < bm.totvert ∧ (bm.vert x).select = true := by
    intro x hx
    obtain ⟨a, b⟩ := hinv.rec_sel x hx
    rw [htv] at a
    rw [(hvert x).2.1] at b
    exact ⟨a, b⟩
  have hall : ∀ v, v < bm.totvert → (bm.vert v).select = true → v ∈ sv_verts st := by
    intro v hv hs
    rcases hinv.done v (by rw [htv]; exact hv) (by rw [(hvert v).2.1]; exact hs) with r | r
    · rw [htag v hv] at r
      cases r
    · exact hinv.rec_ok.mem v r
  have hcount : double_side_count_sel st.bm = double_side_count_sel bm := by
    unfold double_side_count_sel
    rw [htv]
    have : (fun v => (st.bm.vert v).select) = (fun v => (bm.vert v).select) :=
      funext (fun v => (hvert v).2.1)
    rw [this]
  have hperm : (sv_verts st).Perm
      ((List.range bm.totvert).filter (fun v => (bm.vert v).select)) := by
    rw [List.perm_ext_iff_of_nodup hinv.rec_ok.nodup ((List.nodup_range _).filter _)]
    intro x
    simp only [List.mem_filter, List.mem_range]
    exact ⟨fun hx => hsel x hx, fun hx => hall x hx.1 hx.2⟩
  have hlen : st.sv_array.length = double_side_count_sel st.bm := by
    rw [hcount]
    have := hperm.length_eq
    simpa [sv_verts, double_side_count_sel] using this
  refine ⟨hlen, hcount, ?_, hinv.rec_ok.nodup, ?_, ?_⟩
  · obtain ⟨sld, g, h1, h2, h3⟩ :=
      createEdgeSlideVerts_double_side_records sqrtf view fuel bm st n h hlen
    refine ⟨sld, h1, ?_⟩
    rw [h2, List.map_map]
    apply List.map_congr_left
    intro sv _
    exact (h3 sv).1
  · intro sv hsv
    exact hsel sv.v (List.mem_map.mpr ⟨sv, hsv, rfl⟩)
  · intro v hv hs
    obtain ⟨sv, hsv, rfl⟩ := List.mem_map.mp (hall v hv hs)
    exact ⟨sv, hsv, rfl⟩

theorem createEdgeSlideVerts_double_side_one_record_witness :
    ∃ st n, createEdgeSlideVerts_double_side_sv sample_sqrtf 3 (grid_mesh 2 2 1 (flat_co 1)) =
        some (some (st, n)) ∧
      st.sv_array.length = double_side_count_sel st.bm ∧
      double_side_count_sel st.bm = double_side_count_sel (grid_mesh 2 2 1 (flat_co 1)) ∧
      (∃ sld, createEdgeSlideVerts_double_side sample_sqrtf sample_view 3
          (grid_mesh 2 2 1 (flat_co 1)) = some (some sld) ∧
        sld.sv.map (fun sv => sv.v) = st.sv_array.map (fun sv => sv.v)) ∧
      (st.sv_array.map (fun sv => sv.v)).Nodup ∧
      (∀ sv ∈ st.sv_array, sv.v < (grid_mesh 2 2 1 (flat_co 1)).totvert ∧
        ((grid_mesh 2 2 1 (flat_co 1)).vert sv.v).select = true) ∧
      (∀ v, v < (grid_mesh 2 2 1 (flat_co 1)).totvert →
        ((grid_mesh 2 2 1 (flat_co 1)).vert v).select = true → ∃ sv ∈ st.sv_array, sv.v = v) := by
  obtain ⟨bm1, -, hsv⟩ := grid_double_side_sv sample_sqrtf 2 2 0 (flat_co 1) (by norm_num)
    (by norm_num) 3 (by norm_num) (by norm_num)
  exact ⟨_, _, hsv, createEdgeSlideVerts_double_side_one_record sample_sqrtf sample_view 3
    (grid_mesh 2 2 1 (flat_co 1)) _ _ grid_2_2_mesh_ok hsv⟩

/-! ## Theorems: the unclamped and the even mode -/

/-- The unclamped non-even branch of `edge_slide_apply_elem` in closed form. -/
theorem apply_elem_unclamped_eq (sv : TransDataEdgeSlideVert) (fac curr_length_fac : ℚ)
    (curr_side_unclamp : Fin 2) (use_flip : Bool) :
    edge_slide_apply_elem sv fac curr_length_fac curr_side_unclamp false false use_flip =
      madd_v3_v3fl sv.v_co_orig
        (sv.dir_side (if sv.dir_side curr_side_unclamp = zero_v3 then
          (if curr_side_unclamp = 0 then 1 else 0) else curr_side_unclamp))
        ((if (if sv.dir_side curr_side_unclamp = zero_v3 then
          (if curr_side_unclamp = 0 then 1 else 0) else curr_side_unclamp) = 0 then 1 else -1) *
            fac) := by
  have hs : (if is_zero_v3 (sv.dir_side curr_side_unclamp) = true then side_not curr_side_unclamp
      else curr_side_unclamp) = (if sv.dir_side curr_side_unclamp = zero_v3 then
          (if curr_side_unclamp = 0 then 1 else 0) else curr_side_unclamp) := by
    simp only [is_zero_v3_iff, side_not]
  simp only [edge_slide_apply_elem, fabsf_eq_abs, side_of_neg, hs, if_true,
    Bool.false_eq_true, if_false]
  rw [unclamped_factor_eq]
  congr 1
  split_ifs <;> ring

/-- C11: in non-even mode with clamp off and a fixed sticky side, the
displacement `edge_slide_apply_elem - v_co_orig` is linear in the control value,
over all values: the displacement at `c * v` is `c` times the displacement at
`v`; and there is one side `s` and one sign `m` such that for every control value
`v` the result is `v_co_orig + dir_side[s] * (m * v)`, so the vertex stays on
the line of one rail. -/
theorem apply_elem_unclamped_linear (sv : TransDataEdgeSlideVert) (curr_length_fac : ℚ)
    (curr_side_unclamp : Fin 2) (use_flip : Bool) :
    (∀ c v : ℚ,
      sub_v3_v3v3
          (edge_slide_apply_elem sv (c * v) curr_length_fac curr_side_unclamp false false use_flip)
          sv.v_co_orig =
        mul_v3_v3fl
          (sub_v3_v3v3
            (edge_slide_apply_elem sv v curr_length_fac curr_side_unclamp false false use_flip)
            sv.v_co_orig) c) ∧
      ∃ (s : Fin 2) (m : ℚ), (m = 1 ∨ m = -1) ∧ ∀ v : ℚ,
        edge_slide_apply_elem sv v curr_length_fac curr_side_unclamp false false use_flip =
          madd_v3_v3fl sv.v_co_orig (sv.dir_side s) (m * v) := by
  constructor
  · intro c v
    rw [apply_elem_unclamped_eq, apply_elem_unclamped_eq]
    simp only [sub_v3_v3v3, madd_v3_v3fl, mul_v3_v3fl]
    ext <;> simp only <;> ring
  · refine ⟨_, _, ?_, fun v => apply_elem_unclamped_eq sv v curr_length_fac curr_side_unclamp
      use_flip⟩
    split_ifs <;> simp

/-- The even branch of `edge_slide_apply_elem` in terms of its interpolation parameter. -/
theorem apply_elem_even_eq (sv : TransDataEdgeSlideVert) (fac curr_length_fac : ℚ)
    (curr_side_unclamp : Fin 2) (use_clamp use_flip : Bool) (hl : sv.edge_len > FLT_EPSILON) :
    edge_slide_apply_elem sv fac curr_length_fac curr_side_unclamp use_clamp true use_flip =
      if use_flip then
        interp_line_v3_v3v3v3 (add_v3_v3v3 sv.v_co_orig (sv.dir_side 1)) sv.v_co_orig
          (add_v3_v3v3 sv.v_co_orig (sv.dir_side 0)) (even_fac_final sv curr_length_fac)
      else
        interp_line_v3_v3v3v3 (add_v3_v3v3 sv.v_co_orig (sv.dir_side 0)) sv.v_co_orig
          (add_v3_v3v3 sv.v_co_orig (sv.dir_side 1)) (even_fac_final sv curr_length_fac) := by
  simp [edge_slide_apply_elem, hl, even_fac_final]

theorem min_ff_eq_min (a b : ℚ) : min_ff a b = min a b := by
  unfold min_ff
  split_ifs with h
  · exact (min_eq_left (le_of_lt h)).symm
  · exact (min_eq_right (not_lt.mp h)).symm

theorem even_fac_final_mono (sv : TransDataEdgeSlideVert) (a b : ℚ)
    (hl : sv.edge_len > FLT_EPSILON) (hab : a ≤ b) :
    even_fac_final sv a ≤ even_fac_final sv b := by
  have hpos : 0 < sv.edge_len := lt_trans flt_epsilon_pos hl
  unfold even_fac_final
  rw [min_ff_eq_min, min_ff_eq_min]
  exact div_le_div_of_nonneg_right (min_le_min_left _ hab) (le_of_lt hpos)

/-- C12: in even mode, for a record with `edge_len > FLT_EPSILON`, the
parameter that `edge_slide_apply_elem` passes to `interp_line_v3_v3v3v3` is
`min(edge_len, curr_length_fac) / edge_len`; with `curr_length_fac` as
`doEdgeSlide` computes it from an active edge length `>= 0`, that parameter is
non-decreasing in the control value when flipped and non-increasing when not. -/
theorem even_fac_final_monotone (sv : TransDataEdgeSlideVert) (active_edge_len : ℚ)
    (use_flip : Bool) (v w : ℚ) (hl : sv.edge_len > FLT_EPSILON) (ha : 0 ≤ active_edge_len)
    (hvw : v ≤ w) :
    (∀ (fac clf : ℚ) (s : Fin 2) (c : Bool),
      edge_slide_apply_elem sv fac clf s c true use_flip =
        if use_flip then
          interp_line_v3_v3v3v3 (add_v3_v3v3 sv.v_co_orig (sv.dir_side 1)) sv.v_co_orig
            (add_v3_v3v3 sv.v_co_orig (sv.dir_side 0)) (even_fac_final sv clf)
        else
          interp_line_v3_v3v3v3 (add_v3_v3v3 sv.v_co_orig (sv.dir_side 0)) sv.v_co_orig
            (add_v3_v3v3 sv.v_co_orig (sv.dir_side 1)) (even_fac_final sv clf)) ∧
      (if use_flip then
        even_fac_final sv (even_curr_length_fac active_edge_len v use_flip) ≤
          even_fac_final sv (even_curr_length_fac active_edge_len w use_flip)
      else
        even_fac_final sv (even_curr_length_fac active_edge_len w use_flip) ≤
          even_fac_final sv (even_curr_length_fac active_edge_len v use_flip)) := by
  refine ⟨fun fac clf s c => apply_elem_even_eq sv fac clf s c use_flip hl, ?_⟩
  cases use_flip
  · simp only [Bool.false_eq_true, if_false]
    apply even_fac_final_mono sv _ _ hl
    unfold even_curr_length_fac
    simp only [Bool.false_eq_true, if_false]
    apply mul_le_mul_of_nonneg_left _ ha
    linarith
  · simp only [if_true]
    apply even_fac_final_mono sv _ _ hl
    unfold even_curr_length_fac
    simp only [if_true]
    apply mul_le_mul_of_nonneg_left _ ha
    linarith

theorem even_fac_final_monotone_witness :
    (∀ (fac clf : ℚ) (s : Fin 2) (c : Bool),
      edge_slide_apply_elem sv_uneven fac clf s c true false =
        if false = true then
          interp_line_v3_v3v3v3 (add_v3_v3v3 sv_uneven.v_co_orig (sv_uneven.dir_side 1))
            sv_uneven.v_co_orig (add_v3_v3v3 sv_uneven.v_co_orig (sv_uneven.dir_side 0))
            (even_fac_final sv_uneven clf)
        else
          interp_line_v3_v3v3v3 (add_v3_v3v3 sv_uneven.v_co_orig (sv_uneven.dir_side 0))
            sv_uneven.v_co_orig (add_v3_v3v3 sv_uneven.v_co_orig (sv_uneven.dir_side 1))
            (even_fac_final sv_uneven clf)) ∧
      (if false = true then
        even_fac_final sv_uneven (even_curr_length_fac 4 (-1 / 2) false) ≤
          even_fac_final sv_uneven (even_curr_length_fac 4 (1 / 2) false)
      else
        even_fac_final sv_uneven (even_curr_length_fac 4 (1 / 2) false) ≤
          even_fac_final sv_uneven (even_curr_length_fac 4 (-1 / 2) false)) :=
  even_fac_final_monotone sv_uneven 4 false (-1 / 2) (1 / 2)
    (by norm_num [sv_uneven, sample_sv, FLT_EPSILON]) (by norm_num) (by norm_num)

theorem interp_eq_line_point (a b : V3) (k : ℚ) : interp_v3_v3v3 a b k = line_point a b k := by
  simp only [interp_v3_v3v3, line_point]
  ext <;> simp only <;> ring

theorem on_segment_symm (a b p : V3) (h : on_segment a b p) : on_segment b a p := by
  obtain ⟨k, h0, h1, rfl⟩ := h
  refine ⟨1 - k, by linarith, by linarith, ?_⟩
  simp only [line_point]
  ext <;> simp only <;> ring

theorem on_segment_right (a b : V3) : on_segment a b b :=
  ⟨1, by norm_num, by norm_num, by simp only [line_point]; ext <;> simp only <;> ring⟩

/-- For a parameter in [0, 1] the result of `interp_line_v3_v3v3v3` is on the
segment from `v1` to `v2` or on the segment from `v2` to `v3`. -/
theorem interp_line_on_path (v1 v2 v3 : V3) (t : ℚ) (h0 : 0 ≤ t) (h1 : t ≤ 1) :
    on_segment v1 v2 (interp_line_v3_v3v3v3 v1 v2 v3 t) ∨
      on_segment v2 v3 (interp_line_v3_v3v3v3 v1 v2 v3 t) := by
  unfold interp_line_v3_v3v3v3
  simp only [fabsf_eq_abs]
  by_cases hd : t - line_point_factor_v3 v2 v1 v3 < 0
  · rw [if_pos hd]
    left
    by_cases hg : |line_point_factor_v3 v2 v1 v3| < FLT_EPSILON
    · rw [if_pos hg]
      exact on_segment_right v1 v2
    · rw [if_neg hg, interp_eq_line_point]
      have hpos : 0 < line_point_factor_v3 v2 v1 v3 := by linarith
      exact ⟨_, div_nonneg h0 (le_of_lt hpos), by rw [div_le_one hpos]; linarith, rfl⟩
  · rw [if_neg hd]
    right
    by_cases hg : |1 - line_point_factor_v3 v2 v1 v3| < FLT_EPSILON
    · rw [if_pos hg]
      exact on_segment_right v2 v3
    · rw [if_neg hg, interp_eq_line_point]
      have hnn : 0 ≤ 1 - line_point_factor_v3 v2 v1 v3 := by linarith
      have hne : 1 - line_point_factor_v3 v2 v1 v3 ≠ 0 := by
        intro h
        apply hg
        rw [h, abs_zero]
        exact flt_epsilon_pos
      have hpos : 0 < 1 - line_point_factor_v3 v2 v1 v3 := lt_of_le_of_ne hnn (Ne.symm hne)
      exact ⟨_, div_nonneg (by linarith) hnn, by rw [div_le_one hpos]; linarith, rfl⟩

theorem even_fac_final_range (sv : TransDataEdgeSlideVert) (clf : ℚ)
    (hl : sv.edge_len > FLT_EPSILON) (hc : 0 ≤ clf) :
    0 ≤ even_fac_final sv clf ∧ even_fac_final sv clf ≤ 1 ∧
      min_ff sv.edge_len clf ≤ sv.edge_len := by
  have hpos : 0 < sv.edge_len := lt_trans flt_epsilon_pos hl
  unfold even_fac_final
  rw [min_ff_eq_min]
  refine ⟨div_nonneg (le_min (le_of_lt hpos) hc) (le_of_lt hpos), ?_, min_le_left _ _⟩
  rw [div_le_one hpos]
  exact min_le_left _ _

theorem even_curr_length_fac_nonneg (active_edge_len v : ℚ) (use_flip : Bool)
    (ha : 0 ≤ active_edge_len) (hv0 : -1 ≤ v) (hv1 : v ≤ 1) :
    0 ≤ even_curr_length_fac active_edge_len v use_flip := by
  unfold even_curr_length_fac
  apply mul_nonneg ha
  cases use_flip <;> simp <;> linarith

/-- C13: in even mode, for a record with `edge_len > FLT_EPSILON`, an active
edge length `>= 0` and a control value in [-1, 1], the target distance
`min(edge_len, curr_length_fac)` is at most the record's own `edge_len`, the
interpolation parameter is in [0, 1], and the resulting position is on the
segment from the rail-0 endpoint to `v_co_orig` or on the segment from
`v_co_orig` to the rail-1 endpoint, wherever `v_co_orig` lies between them. -/
theorem apply_elem_even_on_path (sv : TransDataEdgeSlideVert) (active_edge_len v : ℚ)
    (curr_side_unclamp : Fin 2) (use_clamp use_flip : Bool)
    (hl : sv.edge_len > FLT_EPSILON) (ha : 0 ≤ active_edge_len) (hv0 : -1 ≤ v) (hv1 : v ≤ 1) :
    min_ff sv.edge_len (even_curr_length_fac active_edge_len v use_flip) ≤ sv.edge_len ∧
      0 ≤ even_fac_final sv (even_curr_length_fac active_edge_len v use_flip) ∧
      even_fac_final sv (even_curr_length_fac active_edge_len v use_flip) ≤ 1 ∧
      (on_segment (add_v3_v3v3 sv.v_co_orig (sv.dir_side 0)) sv.v_co_orig
          (edge_slide_apply_elem sv v (even_curr_length_fac active_edge_len v use_flip)
            curr_side_unclamp use_clamp true use_flip) ∨
        on_segment sv.v_co_orig (add_v3_v3v3 sv.v_co_orig (sv.dir_side 1))
          (edge_slide_apply_elem sv v (even_curr_length_fac active_edge_len v use_flip)
            curr_side_unclamp use_clamp true use_flip)) := by
  obtain ⟨r0, r1, r2⟩ := even_fac_final_range sv _ hl
    (even_curr_length_fac_nonneg active_edge_len v use_flip ha hv0 hv1)
  refine ⟨r2, r0, r1, ?_⟩
  rw [apply_elem_even_eq sv _ _ _ _ _ hl]
  cases use_flip
  · simp only [Bool.false_eq_true, if_false]
    exact interp_line_on_path _ _ _ _ r0 r1
  · simp only [if_true]
    rcases interp_line_on_path (add_v3_v3v3 sv.v_co_orig (sv.dir_side 1)) sv.v_co_orig
        (add_v3_v3v3 sv.v_co_orig (sv.dir_side 0)) _ r0 r1 with h | h
    · exact Or.inr (on_segment_symm _ _ _ h)
    · exact Or.inl (on_segment_symm _ _ _ h)

theorem apply_elem_even_on_path_witness :
    min_ff sv_uneven.edge_len (even_curr_length_fac 10 (1 / 2) true) ≤ sv_uneven.edge_len ∧
      0 ≤ even_fac_final sv_uneven (even_curr_length_fac 10 (1 / 2) true) ∧
      even_fac_final sv_uneven (even_curr_length_fac 10 (1 / 2) true) ≤ 1 ∧
      (on_segment (add_v3_v3v3 sv_uneven.v_co_orig (sv_uneven.dir_side 0)) sv_uneven.v_co_orig
          (edge_slide_apply_elem sv_uneven (1 / 2) (even_curr_length_fac 10 (1 / 2) true)
            0 true true true) ∨
        on_segment sv_uneven.v_co_orig (add_v3_v3v3 sv_uneven.v_co_orig (sv_uneven.dir_side 1))
          (edge_slide_apply_elem sv_uneven (1 / 2) (even_curr_length_fac 10 (1 / 2) true)
            0 true true true)) :=
  apply_elem_even_on_path sv_uneven 10 (1 / 2) 0 true true
    (by norm_num [sv_uneven, sample_sv, FLT_EPSILON]) (by norm_num) (by norm_num) (by norm_num)

theorem interp_v3_zero (a b : V3) : interp_v3_v3v3 a b 0 = a := by
  simp only [interp_v3_v3v3]; ext <;> simp

theorem interp_v3_one (a b : V3) : interp_v3_v3v3 a b 1 = b := by
  simp only [interp_v3_v3v3]; ext <;> simp

theorem interp_line_zero (v1 v2 v3 : V3) (h : FLT_EPSILON ≤ line_point_factor_v3 v2 v1 v3) :
    interp_line_v3_v3v3v3 v1 v2 v3 0 = v1 := by
  have hpos := lt_of_lt_of_le flt_epsilon_pos h
  unfold interp_line_v3_v3v3v3
  simp only [fabsf_eq_abs, zero_sub, Left.neg_neg_iff, hpos, if_true, abs_of_pos hpos,
    not_lt.mpr h, if_false, zero_div]
  exact interp_v3_zero v1 v2

theorem interp_line_one (v1 v2 v3 : V3) (h : line_point_factor_v3 v2 v1 v3 ≤ 1) :
    interp_line_v3_v3v3v3 v1 v2 v3 1 = v3 := by
  unfold interp_line_v3_v3v3v3
  simp only [fabsf_eq_abs]
  rw [if_neg (by linarith)]
  by_cases hg : |1 - line_point_factor_v3 v2 v1 v3| < FLT_EPSILON
  · rw [if_pos hg]
  · rw [if_neg hg]
    have hne : 1 - line_point_factor_v3 v2 v1 v3 ≠ 0 := by
      intro h0
      apply hg
      rw [h0, abs_zero]
      exact flt_epsilon_pos
    rw [div_self hne]
    exact interp_v3_one v2 v3

theorem interp_line_mid (v1 v2 v3 : V3)
    (h : FLT_EPSILON ≤ |1 - line_point_factor_v3 v2 v1 v3|) :
    interp_line_v3_v3v3v3 v1 v2 v3 (line_point_factor_v3 v2 v1 v3) = v2 := by
  unfold interp_line_v3_v3v3v3
  simp only [fabsf_eq_abs, sub_self, lt_self_iff_false, if_false, not_lt.mpr h, zero_div]
  exact interp_v3_zero v2 v3

theorem even_fac_final_zero (sv : TransDataEdgeSlideVert) (hl : sv.edge_len > FLT_EPSILON) :
    even_fac_final sv 0 = 0 := by
  have hpos : 0 < sv.edge_len := lt_trans flt_epsilon_pos hl
  simp [even_fac_final, min_ff, not_lt.mpr (le_of_lt hpos)]

theorem even_fac_final_full (sv : TransDataEdgeSlideVert) (hl : sv.edge_len > FLT_EPSILON) :
    even_fac_final sv sv.edge_len = 1 := by
  have hpos : 0 < sv.edge_len := lt_trans flt_epsilon_pos hl
  simp [even_fac_final, min_ff, ne_of_gt hpos]

/-- C14, as stated, fails.  With flip on, the control value 1 places the active
vertex `sv_uneven` at the rail-0 endpoint (1,0,0) as with flip off, not at the
rail-1 endpoint.  With flip off, the control value 1 leaves the active vertex
`sv_perp`, which projects onto its rail-0 endpoint (`t_mid = 0`), at
`v_co_orig`.  And `interp_line_v3_v3v3v3` returns `v3`, not `v2`, at
`t = t_mid = 1`, and a point of the first segment, not `v3`, at `t = 1` when
`t_mid = 2`. -/
theorem apply_elem_even_endpoints_counterexample :
    (edge_slide_apply_elem sv_uneven 1 (even_curr_length_fac sv_uneven.edge_len 1 true) 0 true
        true true = add_v3_v3v3 sv_uneven.v_co_orig (sv_uneven.dir_side 0) ∧
      edge_slide_apply_elem sv_uneven 1 (even_curr_length_fac sv_uneven.edge_len 1 true) 0 true
        true true ≠ add_v3_v3v3 sv_uneven.v_co_orig (sv_uneven.dir_side 1)) ∧
    (edge_slide_apply_elem sv_perp 1 (even_curr_length_fac sv_perp.edge_len 1 false) 0 true
        true false = sv_perp.v_co_orig ∧
      edge_slide_apply_elem sv_perp 1 (even_curr_length_fac sv_perp.edge_len 1 false) 0 true
        true false ≠ add_v3_v3v3 sv_perp.v_co_orig (sv_perp.dir_side 0)) ∧
    (line_point_factor_v3 ⟨1, 1, 0⟩ ⟨0, 0, 0⟩ ⟨1, 0, 0⟩ = 1 ∧
      interp_line_v3_v3v3v3 ⟨0, 0, 0⟩ ⟨1, 1, 0⟩ ⟨1, 0, 0⟩ 1 ≠ ⟨1, 1, 0⟩) ∧
    (line_point_factor_v3 ⟨2, 1, 0⟩ ⟨0, 0, 0⟩ ⟨1, 0, 0⟩ = 2 ∧
      interp_line_v3_v3v3v3 ⟨0, 0, 0⟩ ⟨2, 1, 0⟩ ⟨1, 0, 0⟩ 1 ≠ ⟨1, 0, 0⟩) := by
  refine ⟨⟨?_, ?_⟩, ⟨?_, ?_⟩, ⟨?_, ?_⟩, ⟨?_, ?_⟩⟩ <;>
    norm_num [edge_slide_apply_elem, even_curr_length_fac, sv_uneven, sv_perp, sample_sv,
      FLT_EPSILON, min_ff, interp_line_v3_v3v3v3, line_point_factor_v3, add_v3_v3v3,
      sub_v3_v3v3, len_squared_v3, dot_v3v3, fabsf, interp_v3_v3v3]

/-- C14 (amended): for a record with `edge_len > FLT_EPSILON` that is the
active vertex and whose original position has its factor `t_mid` between the
rail endpoints in `[FLT_EPSILON, 1 - FLT_EPSILON]`, even mode places the vertex
at the rail-0 endpoint `v_co_orig + dir_side[0]` for the control value 1 and at
the rail-1 endpoint `v_co_orig + dir_side[1]` for the control value -1, with
flip off and with flip on alike; and `interp_line_v3_v3v3v3 (v1, v2, v3, t)`
returns `v1` at `t = 0` when `t_mid >= FLT_EPSILON`, `v3` at `t = 1` when
`t_mid <= 1`, and `v2` at `t = t_mid` when `|1 - t_mid| >= FLT_EPSILON`. -/
theorem apply_elem_even_endpoints (sv : TransDataEdgeSlideVert) (curr_side_unclamp : Fin 2)
    (use_clamp : Bool) (hl : sv.edge_len > FLT_EPSILON)
    (h0 : FLT_EPSILON ≤ line_point_factor_v3 zero_v3 (sv.dir_side 0) (sv.dir_side 1))
    (h1 : line_point_factor_v3 zero_v3 (sv.dir_side 0) (sv.dir_side 1) ≤ 1 - FLT_EPSILON) :
    (∀ use_flip : Bool,
      edge_slide_apply_elem sv 1 (even_curr_length_fac sv.edge_len 1 use_flip)
          curr_side_unclamp use_clamp true use_flip =
        add_v3_v3v3 sv.v_co_orig (sv.dir_side 0) ∧
      edge_slide_apply_elem sv (-1) (even_curr_length_fac sv.edge_len (-1) use_flip)
          curr_side_unclamp use_clamp true use_flip =
        add_v3_v3v3 sv.v_co_orig (sv.dir_side 1)) ∧
    (∀ v1 v2 v3 : V3, FLT_EPSILON ≤ line_point_factor_v3 v2 v1 v3 →
      interp_line_v3_v3v3v3 v1 v2 v3 0 = v1) ∧
    (∀ v1 v2 v3 : V3, line_point_factor_v3 v2 v1 v3 ≤ 1 →
      interp_line_v3_v3v3v3 v1 v2 v3 1 = v3) ∧
    (∀ v1 v2 v3 : V3, FLT_EPSILON ≤ |1 - line_point_factor_v3 v2 v1 v3| →
      interp_line_v3_v3v3v3 v1 v2 v3 (line_point_factor_v3 v2 v1 v3) = v2) := by
  have he := flt_epsilon_pos
  have hL : 0 < len_squared_v3 (sub_v3_v3v3 (sv.dir_side 1) (sv.dir_side 0)) := by
    by_contra hn
    have : line_point_factor_v3 zero_v3 (sv.dir_side 0) (sv.dir_side 1) = 0 := by
      simp [line_point_factor_v3, hn]
    linarith
  have ea := lpf_orig sv.v_co_orig (sv.dir_side 0) (sv.dir_side 1)
  have eb := lpf_orig_rev sv.v_co_orig (sv.dir_side 0) (sv.dir_side 1) hL
  refine ⟨fun use_flip => ?_, interp_line_zero, interp_line_one, interp_line_mid⟩
  have z1 : even_curr_length_fac sv.edge_len 1 false = 0 := by simp [even_curr_length_fac]
  have z2 : even_curr_length_fac sv.edge_len (-1) false = sv.edge_len := by
    simp [even_curr_length_fac]
  have z3 : even_curr_length_fac sv.edge_len 1 true = sv.edge_len := by
    simp [even_curr_length_fac]
  have z4 : even_curr_length_fac sv.edge_len (-1) true = 0 := by simp [even_curr_length_fac]
  rw [apply_elem_even_eq sv _ _ _ _ _ hl, apply_elem_even_eq sv _ _ _ _ _ hl]
  cases use_flip
  · simp only [Bool.false_eq_true, if_false, z1, z2, even_fac_final_zero sv hl,
      even_fac_final_full sv hl]
    exact ⟨interp_line_zero _ _ _ (by rw [ea]; exact h0),
      interp_line_one _ _ _ (by rw [ea]; linarith)⟩
  · simp only [if_true, z3, z4, even_fac_final_zero sv hl, even_fac_final_full sv hl]
    exact ⟨interp_line_one _ _ _ (by rw [eb]; linarith),
      interp_line_zero _ _ _ (by rw [eb]; linarith)⟩

theorem apply_elem_even_endpoints_witness :
    (∀ use_flip : Bool,
      edge_slide_apply_elem sv_uneven 1 (even_curr_length_fac sv_uneven.edge_len 1 use_flip)
          0 true true use_flip =
        add_v3_v3v3 sv_uneven.v_co_orig (sv_uneven.dir_side 0) ∧
      edge_slide_apply_elem sv_uneven (-1)
          (even_curr_length_fac sv_uneven.edge_len (-1) use_flip) 0 true true use_flip =
        add_v3_v3v3 sv_uneven.v_co_orig (sv_uneven.dir_side 1)) ∧
    (∀ v1 v2 v3 : V3, FLT_EPSILON ≤ line_point_factor_v3 v2 v1 v3 →
      interp_line_v3_v3v3v3 v1 v2 v3 0 = v1) ∧
    (∀ v1 v2 v3 : V3, line_point_factor_v3 v2 v1 v3 ≤ 1 →
      interp_line_v3_v3v3v3 v1 v2 v3 1 = v3) ∧
    (∀ v1 v2 v3 : V3, FLT_EPSILON ≤ |1 - line_point_factor_v3 v2 v1 v3| →
      interp_line_v3_v3v3v3 v1 v2 v3 (line_point_factor_v3 v2 v1 v3) = v2) :=
  apply_elem_even_endpoints sv_uneven 0 true
    (by norm_num [sv_uneven, sample_sv, FLT_EPSILON])
    (by norm_num [sv_uneven, sample_sv, FLT_EPSILON, line_point_factor_v3, zero_v3, sub_v3_v3v3,
      len_squared_v3, dot_v3v3])
    (by norm_num [sv_uneven, sample_sv, FLT_EPSILON, line_point_factor_v3, zero_v3, sub_v3_v3v3,
      len_squared_v3, dot_v3v3])

/-! ## Theorems: the direction of `get_next_loop` -/

theorem crossed_accum_cons (sqrtf : ℚ → ℚ) (acc d : V3) (ds : List V3) :
    crossed_accum sqrtf acc (d :: ds) =
      crossed_accum sqrtf (add_v3_v3v3 acc (normalize_v3 sqrtf d).1) ds := rfl

theorem crossed_accum_len_cons (sqrtf : ℚ → ℚ) (len : ℚ) (d : V3) (ds : List V3) :
    crossed_accum_len sqrtf len (d :: ds) =
      crossed_accum_len sqrtf (len + (normalize_v3 sqrtf d).2) ds := rfl

/-- The loop of `get_next_loop` as a function of the edges it steps over: when it
returns after at least one edge was counted, the direction is the accumulated
sum of the normalized edge vectors, rescaled to the accumulated length divided
by the number of all the edges counted. -/
theorem get_next_loop_loop_crossed (sqrtf : ℚ → ℚ) (bm : BMesh) (v l_first e_prev e_next : Nat) :
    ∀ (fuel l : Nat) (acc : V3) (len : ℚ) (i : Nat) (r : Option Nat × V3),
      get_next_loop_loop sqrtf bm v l_first e_prev e_next fuel l acc len i = some r →
      i + (get_next_loop_crossed bm v l_first e_next fuel l).length ≠ 0 →
      r.2 = normalize_v3_length sqrtf
        (crossed_accum sqrtf acc (get_next_loop_crossed bm v l_first e_next fuel l))
        (crossed_accum_len sqrtf len (get_next_loop_crossed bm v l_first e_next fuel l) /
          ((i + (get_next_loop_crossed bm v l_first e_next fuel l).length : ℕ) : ℚ)) := by
  intro fuel
  induction fuel with
  | zero => intro l acc len i r h; simp [get_next_loop_loop] at h
  | succ fuel ih =>
    intro l acc len i r h hk
    unfold get_next_loop_loop at h
    unfold get_next_loop_crossed at hk ⊢
    cases h1 : BM_loop_other_edge_loop bm l v with
    | none => simp [h1] at h
    | some l1 =>
      simp only [h1] at h hk ⊢
      by_cases he : (bm.loop l1).e = e_next
      · simp only [he, if_true] at h hk ⊢
        simp only [List.length_nil, Nat.add_zero] at hk
        rw [if_pos hk] at h
        cases h
        simp [crossed_accum, crossed_accum_len]
      · simp only [he, if_false] at h hk ⊢
        cases h2 : BM_edge_other_vert bm (bm.loop l1).e v with
        | none => simp [h2] at h
        | some v_other =>
          simp only [h2] at h hk ⊢
          cases h3 : BM_loop_other_edge_loop bm l1 v with
          | none => simp [h3] at h
          | some l_other =>
            simp only [h3] at h hk ⊢
            by_cases he2 : (bm.loop l_other).e = e_next
            · simp only [he2, if_true] at h ⊢
              cases h
              simp [crossed_accum, crossed_accum_len]
            · simp only [he2, if_false] at h hk ⊢
              by_cases hc : l1 ≠ (bm.loop l1).radial_next ∧ (bm.loop l1).radial_next ≠ l_first
              · rw [if_pos hc] at h hk ⊢
                have := ih _ _ _ _ _ h (by omega)
                rw [this, crossed_accum_cons, crossed_accum_len_cons, List.length_cons]
                congr 3
                omega
              · rw [if_neg hc] at h ⊢
                cases h
                simp [crossed_accum, crossed_accum_len]

/-- The function `get_next_loop` as a function of the edges it steps over. -/
theorem get_next_loop_crossed_spec (sqrtf : ℚ → ℚ) (bm : BMesh) (fuel v l e_prev e_next : Nat)
    (r : Option Nat × V3) (h : get_next_loop sqrtf bm fuel v l e_prev e_next = some r)
    (hk : get_next_loop_crossed bm v l e_next fuel l ≠ []) :
    r.2 = normalize_v3_length sqrtf
      (crossed_accum sqrtf zero_v3 (get_next_loop_crossed bm v l e_next fuel l))
      (crossed_accum_len sqrtf 0 (get_next_loop_crossed bm v l e_next fuel l) /
        (((get_next_loop_crossed bm v l e_next fuel l).length : ℕ) : ℚ)) := by
  have := get_next_loop_loop_crossed sqrtf bm v l e_prev e_next fuel l zero_v3 0 0 r h
    (by simpa [List.length_eq_zero] using hk)
  simpa using this

theorem normalize_v3_degenerate (sqrtf : ℚ → ℚ) (d : V3)
    (hd : ¬ dot_v3v3 d d ≥ FLT_EPSILON * FLT_EPSILON) :
    normalize_v3 sqrtf d = (zero_v3, 0) := by
  simp [normalize_v3, normalize_v3_v3_length, hd]

theorem normalize_v3_nondegenerate (sqrtf : ℚ → ℚ) (d : V3)
    (hd : dot_v3v3 d d ≥ FLT_EPSILON * FLT_EPSILON) :
    normalize_v3 sqrtf d = (mul_v3_v3fl d (1 / sqrtf (dot_v3v3 d d)), sqrtf (dot_v3v3 d d)) := by
  simp [normalize_v3, normalize_v3_v3_length, hd]

theorem add_v3_zero (a : V3) : add_v3_v3v3 a zero_v3 = a := by
  simp [add_v3_v3v3, zero_v3]

theorem zero_add_v3 (a : V3) : add_v3_v3v3 zero_v3 a = a := by
  simp [add_v3_v3v3, zero_v3]

/-- Degenerate edges add nothing to the accumulated direction. -/
theorem crossed_accum_nondegenerate (sqrtf : ℚ → ℚ) (ds : List V3) :
    ∀ acc, crossed_accum sqrtf acc ds = crossed_accum sqrtf acc (crossed_nondegenerate ds) := by
  induction ds with
  | nil => intro acc; rfl
  | cons d ds ih =>
    intro acc
    by_cases hd : dot_v3v3 d d ≥ FLT_EPSILON * FLT_EPSILON
    · have : crossed_nondegenerate (d :: ds) = d :: crossed_nondegenerate ds := by
        simp [crossed_nondegenerate, hd]
      rw [this, crossed_accum_cons, crossed_accum_cons, ih]
    · have : crossed_nondegenerate (d :: ds) = crossed_nondegenerate ds := by
        simp [crossed_nondegenerate, hd]
      rw [this, crossed_accum_cons, normalize_v3_degenerate sqrtf d hd, add_v3_zero, ih]

/-- Degenerate edges add nothing to the accumulated length. -/
theorem crossed_accum_len_nondegenerate (sqrtf : ℚ → ℚ) (ds : List V3) :
    ∀ len, crossed_accum_len sqrtf len ds =
      crossed_accum_len sqrtf len (crossed_nondegenerate ds) := by
  induction ds with
  | nil => intro len; rfl
  | cons d ds ih =>
    intro len
    by_cases hd : dot_v3v3 d d ≥ FLT_EPSILON * FLT_EPSILON
    · have : crossed_nondegenerate (d :: ds) = d :: crossed_nondegenerate ds := by
        simp [crossed_nondegenerate, hd]
      rw [this, crossed_accum_len_cons, crossed_accum_len_cons, ih]
    · have : crossed_nondegenerate (d :: ds) = crossed_nondegenerate ds := by
        simp [crossed_nondegenerate, hd]
      rw [this, crossed_accum_len_cons, normalize_v3_degenerate sqrtf d hd, add_zero, ih]

/-- The accumulated direction over edges that are all long enough: the sum of
the vectors divided by their measured lengths. -/
theorem crossed_accum_eq (sqrtf : ℚ → ℚ) (ds : List V3)
    (hd : ∀ d ∈ ds, dot_v3v3 d d ≥ FLT_EPSILON * FLT_EPSILON) :
    ∀ acc, crossed_accum sqrtf acc ds =
      (ds.map (fun d => mul_v3_v3fl d (1 / sqrtf (len_squared_v3 d)))).foldl add_v3_v3v3 acc := by
  induction ds with
  | nil => intro acc; rfl
  | cons d ds ih =>
    intro acc
    rw [crossed_accum_cons, ih (fun x hx => hd x (List.mem_cons_of_mem _ hx)),
      normalize_v3_nondegenerate sqrtf d (hd d (List.mem_cons_self _ _))]
    rfl

/-- The accumulated length over edges that are all long enough: the sum of
their measured lengths. -/
theorem crossed_accum_len_eq (sqrtf : ℚ → ℚ) (ds : List V3)
    (hd : ∀ d ∈ ds, dot_v3v3 d d ≥ FLT_EPSILON * FLT_EPSILON) :
    ∀ len, crossed_accum_len sqrtf len ds =
      len + (ds.map (fun d => sqrtf (len_squared_v3 d))).sum := by
  induction ds with
  | nil => intro len; simp [crossed_accum_len]
  | cons d ds ih =>
    intro len
    rw [crossed_accum_len_cons, ih (fun x hx => hd x (List.mem_cons_of_mem _ hx)),
      normalize_v3_nondegenerate sqrtf d (hd d (List.mem_cons_self _ _))]
    simp [len_squared_v3, add_assoc]

/-- A vector that is long enough, normalized and rescaled to its length by an
exact square root, is the vector itself. -/
theorem crossed_rail_exact (sqrtf : ℚ → ℚ) (d : V3)
    (hd : dot_v3v3 d d ≥ FLT_EPSILON * FLT_EPSILON)
    (hs : sqrtf (len_squared_v3 d) * sqrtf (len_squared_v3 d) = len_squared_v3 d)
    (h1 : sqrtf 1 = 1) :
    normalize_v3_length sqrtf (mul_v3_v3fl d (1 / sqrtf (len_squared_v3 d)))
      (sqrtf (len_squared_v3 d) / 1) = d := by
  have he : 0 < FLT_EPSILON * FLT_EPSILON := mul_pos flt_epsilon_pos flt_epsilon_pos
  have hpos : 0 < len_squared_v3 d := lt_of_lt_of_le he hd
  have hs0 : sqrtf (len_squared_v3 d) ≠ 0 := by
    intro h0
    rw [h0] at hs
    linarith
  have hn : dot_v3v3 (mul_v3_v3fl d (1 / sqrtf (len_squared_v3 d)))
      (mul_v3_v3fl d (1 / sqrtf (len_squared_v3 d))) = 1 := by
    have : dot_v3v3 (mul_v3_v3fl d (1 / sqrtf (len_squared_v3 d)))
        (mul_v3_v3fl d (1 / sqrtf (len_squared_v3 d))) =
        len_squared_v3 d / (sqrtf (len_squared_v3 d) * sqrtf (len_squared_v3 d)) := by
      simp only [dot_v3v3, mul_v3_v3fl, len_squared_v3]
      field_simp
    rw [this, hs, div_self (ne_of_gt hpos)]
  have h1e : (1 : ℚ) ≥ FLT_EPSILON * FLT_EPSILON := by norm_num [FLT_EPSILON]
  simp only [normalize_v3_length, normalize_v3_v3_length, hn, h1e, if_true, h1]
  ext <;> simp only [mul_v3_v3fl] <;> field_simp

/-- The edges crossed in the fan from spoke 0 to spoke 2: the spoke to vertex 2. -/
theorem fan_crossed_one (a b : V3) :
    get_next_loop_crossed (fan_mesh (fan_co a b)) 0 0 2 3 0 = [a] := by
  simp [get_next_loop_crossed, BM_loop_other_edge_loop, BM_edge_other_vert, fan_mesh, fan_co,
    sub_v3_v3v3, zero_v3]

/-- The edges crossed in the fan from spoke 0 to spoke 3: the spokes to the vertices 2 and 3. -/
theorem fan_crossed_two (a b : V3) :
    get_next_loop_crossed (fan_mesh (fan_co a b)) 0 0 3 3 0 = [a, b] := by
  simp [get_next_loop_crossed, BM_loop_other_edge_loop, BM_edge_other_vert, fan_mesh, fan_co,
    sub_v3_v3v3, zero_v3]

/-- The walk in the fan from spoke 0 to spoke 2 returns the loop 5. -/
theorem fan_get_next_loop_one (sqrtf : ℚ → ℚ) (a b : V3) :
    ∃ d, get_next_loop sqrtf (fan_mesh (fan_co a b)) 3 0 0 0 2 = some (some 5, d) := by
  simp [get_next_loop, get_next_loop_loop, BM_loop_other_edge_loop, BM_edge_other_vert, fan_mesh]

/-- The walk in the fan from spoke 0 to spoke 3 returns the loop 8. -/
theorem fan_get_next_loop_two (sqrtf : ℚ → ℚ) (a b : V3) :
    ∃ d, get_next_loop sqrtf (fan_mesh (fan_co a b)) 3 0 0 0 3 = some (some 8, d) := by
  simp [get_next_loop, get_next_loop_loop, BM_loop_other_edge_loop, BM_edge_other_vert, fan_mesh]

theorem normalize_v3_length_zero (sqrtf : ℚ → ℚ) (len : ℚ) :
    normalize_v3_length sqrtf zero_v3 len = zero_v3 := by
  have he : 0 < FLT_EPSILON * FLT_EPSILON := mul_pos flt_epsilon_pos flt_epsilon_pos
  simp [normalize_v3_length, normalize_v3_v3_length, dot_v3v3, zero_v3, not_le.mpr he]

/-- A vector that is long enough, rescaled by an exact square root, has the
requested length. -/
theorem normalize_v3_length_len (sqrtf : ℚ → ℚ) (a : V3) (len : ℚ)
    (ha : dot_v3v3 a a ≥ FLT_EPSILON * FLT_EPSILON)
    (hs : sqrtf (dot_v3v3 a a) * sqrtf (dot_v3v3 a a) = dot_v3v3 a a) :
    len_squared_v3 (normalize_v3_length sqrtf a len) = len ^ 2 := by
  have he : 0 < FLT_EPSILON * FLT_EPSILON := mul_pos flt_epsilon_pos flt_epsilon_pos
  have hpos : 0 < dot_v3v3 a a := lt_of_lt_of_le he ha
  have hs0 : sqrtf (dot_v3v3 a a) ≠ 0 := by
    intro h0
    rw [h0] at hs
    linarith
  simp only [normalize_v3_length, normalize_v3_v3_length, ha, if_true, len_squared_v3]
  have : dot_v3v3 (mul_v3_v3fl a (len / sqrtf (dot_v3v3 a a)))
      (mul_v3_v3fl a (len / sqrtf (dot_v3v3 a a))) =
      dot_v3v3 a a * len ^ 2 / (sqrtf (dot_v3v3 a a) * sqrtf (dot_v3v3 a a)) := by
    simp only [dot_v3v3, mul_v3_v3fl]
    field_simp
    ring
  rw [this, hs]
  field_simp

/-- The run of `get_next_loop` in the fan over one spoke of length 2^-64. -/
theorem fan_tiny_run (sqrtf : ℚ → ℚ) :
    get_next_loop sqrtf (fan_mesh (fan_co ⟨1 / 2 ^ 64, 0, 0⟩ ⟨0, 3, 0⟩)) 3 0 0 0 2 =
      some (some 5, zero_v3) := by
  obtain ⟨d, hd⟩ := fan_get_next_loop_one sqrtf ⟨1 / 2 ^ 64, 0, 0⟩ ⟨0, 3, 0⟩
  have h := get_next_loop_crossed_spec sqrtf _ _ _ _ _ _ _ hd (by rw [fan_crossed_one]; simp)
  rw [fan_crossed_one] at h
  have hn : normalize_v3 sqrtf ⟨1 / 2 ^ 64, 0, 0⟩ = (zero_v3, 0) :=
    normalize_v3_degenerate sqrtf _ (by norm_num [dot_v3v3, FLT_EPSILON])
  simp only [crossed_accum, crossed_accum_len, List.foldl_cons, List.foldl_nil, hn,
    add_v3_zero, normalize_v3_length_zero] at h
  rw [hd]
  simp only [Option.some.injEq, Prod.mk.injEq, true_and]
  exact h

/-- The run of `get_next_loop` in the fan over a spoke of length 1 and a spoke
of length 0. -/
theorem fan_degenerate_run :
    get_next_loop sample_sqrtf (fan_mesh (fan_co ⟨1, 0, 0⟩ zero_v3)) 3 0 0 0 3 =
      some (some 8, ⟨1 / 2, 0, 0⟩) := by
  obtain ⟨d, hd⟩ := fan_get_next_loop_two sample_sqrtf ⟨1, 0, 0⟩ zero_v3
  have h := get_next_loop_crossed_spec sample_sqrtf _ _ _ _ _ _ _ hd
    (by rw [fan_crossed_two]; simp)
  rw [fan_crossed_two] at h
  have hn : normalize_v3 sample_sqrtf zero_v3 = (zero_v3, 0) :=
    normalize_v3_degenerate _ _ (by norm_num [dot_v3v3, FLT_EPSILON, zero_v3])
  have hm : normalize_v3 sample_sqrtf ⟨1, 0, 0⟩ = (⟨1, 0, 0⟩, 1) := by
    rw [normalize_v3_nondegenerate _ _ (by norm_num [dot_v3v3, FLT_EPSILON])]
    norm_num [dot_v3v3, sample_sqrtf, mul_v3_v3fl]
  simp only [crossed_accum, crossed_accum_len, List.foldl_cons, List.foldl_nil, hn, hm,
    add_v3_zero, zero_add_v3] at h
  rw [hd]
  simp only [Option.some.injEq, Prod.mk.injEq, true_and]
  rw [h]
  norm_num [normalize_v3_length, normalize_v3_v3_length, dot_v3v3, FLT_EPSILON, sample_sqrtf,
    mul_v3_v3fl]

/-- The run of `get_next_loop` in the fan over one spoke of length 1. -/
theorem fan_unit_run :
    get_next_loop sample_sqrtf (fan_mesh (fan_co ⟨1, 0, 0⟩ ⟨0, 3, 0⟩)) 3 0 0 0 2 =
      some (some 5, ⟨1, 0, 0⟩) := by
  obtain ⟨d, hd⟩ := fan_get_next_loop_one sample_sqrtf ⟨1, 0, 0⟩ ⟨0, 3, 0⟩
  have h := get_next_loop_crossed_spec sample_sqrtf _ _ _ _ _ _ _ hd
    (by rw [fan_crossed_one]; simp)
  rw [fan_crossed_one] at h
  have hm : normalize_v3 sample_sqrtf ⟨1, 0, 0⟩ = (⟨1, 0, 0⟩, 1) := by
    rw [normalize_v3_nondegenerate _ _ (by norm_num [dot_v3v3, FLT_EPSILON])]
    norm_num [dot_v3v3, sample_sqrtf, mul_v3_v3fl]
  simp only [crossed_accum, crossed_accum_len, List.foldl_cons, List.foldl_nil, hm,
    zero_add_v3] at h
  rw [hd]
  simp only [Option.some.injEq, Prod.mk.injEq, true_and]
  rw [h]
  norm_num [normalize_v3_length, normalize_v3_v3_length, dot_v3v3, FLT_EPSILON, sample_sqrtf,
    mul_v3_v3fl]

/-- Claim C15, counterexample: in the fan, `get_next_loop` steps over the single
spoke `d_1` = (2^-64, 0, 0) between the spokes 0 and 2 and writes the zero
vector, not `d_1`. -/
theorem get_next_loop_direction_counterexample :
    get_next_loop_crossed (fan_mesh (fan_co ⟨1 / 2 ^ 64, 0, 0⟩ ⟨0, 3, 0⟩)) 0 0 2 3 0 =
        [⟨1 / 2 ^ 64, 0, 0⟩] ∧
      get_next_loop sample_sqrtf (fan_mesh (fan_co ⟨1 / 2 ^ 64, 0, 0⟩ ⟨0, 3, 0⟩)) 3 0 0 0 2 =
        some (some 5, zero_v3) ∧
      zero_v3 ≠ (⟨1 / 2 ^ 64, 0, 0⟩ : V3) := by
  refine ⟨fan_crossed_one _ _, fan_tiny_run _, ?_⟩
  intro h
  have := congrArg V3.x h
  norm_num [zero_v3] at this

/-- Claim C15, amended: when `get_next_loop` returns after stepping over `k >= 1`
edges with vectors `d_1 .. d_k`, each at least as long as the normalization
threshold, the direction it writes is the sum of the `d_i / |d_i|`, rescaled by
`normalize_v3_length` to the length `(|d_1| + ... + |d_k|) / k`, where `|d_i|` is
the measured length `sqrtf (len_squared_v3 d_i)`; for `k = 1` and a square root
that is exact at `d_1` and at 1, it is `d_1`. -/
theorem get_next_loop_direction (sqrtf : ℚ → ℚ) (bm : BMesh) (fuel v l e_prev e_next : Nat)
    (r : Option Nat × V3) (h : get_next_loop sqrtf bm fuel v l e_prev e_next = some r)
    (hk : get_next_loop_crossed bm v l e_next fuel l ≠ [])
    (hd : ∀ d ∈ get_next_loop_crossed bm v l e_next fuel l,
      FLT_EPSILON * FLT_EPSILON ≤ len_squared_v3 d) :
    r.2 = normalize_v3_length sqrtf
        (((get_next_loop_crossed bm v l e_next fuel l).map
          (fun d => mul_v3_v3fl d (1 / sqrtf (len_squared_v3 d)))).foldl add_v3_v3v3 zero_v3)
        (((get_next_loop_crossed bm v l e_next fuel l).map
          (fun d => sqrtf (len_squared_v3 d))).sum /
          ((get_next_loop_crossed bm v l e_next fuel l).length : ℚ)) ∧
      (∀ d, get_next_loop_crossed bm v l e_next fuel l = [d] →
        sqrtf (len_squared_v3 d) * sqrtf (len_squared_v3 d) = len_squared_v3 d →
        sqrtf 1 = 1 → r.2 = d) := by
  have hspec := get_next_loop_crossed_spec sqrtf bm fuel v l e_prev e_next r h hk
  rw [crossed_accum_eq sqrtf _ hd, crossed_accum_len_eq sqrtf _ hd, zero_add] at hspec
  refine ⟨hspec, ?_⟩
  intro d hds hs h1
  rw [hds] at hspec hd
  rw [hspec]
  simp only [List.map_cons, List.map_nil, List.foldl_cons, List.foldl_nil, zero_add_v3,
    List.sum_cons, List.sum_nil, add_zero, List.length_singleton, Nat.cast_one]
  exact crossed_rail_exact sqrtf d (hd d (List.mem_singleton_self d)) hs h1

theorem get_next_loop_direction_witness :
    get_next_loop sample_sqrtf (fan_mesh (fan_co ⟨1, 0, 0⟩ ⟨0, 3, 0⟩)) 3 0 0 0 2 =
        some (some 5, ⟨1, 0, 0⟩) ∧
      get_next_loop_crossed (fan_mesh (fan_co ⟨1, 0, 0⟩ ⟨0, 3, 0⟩)) 0 0 2 3 0 = [⟨1, 0, 0⟩] ∧
      (⟨1, 0, 0⟩ : V3) = normalize_v3_length sample_sqrtf
        (((get_next_loop_crossed (fan_mesh (fan_co ⟨1, 0, 0⟩ ⟨0, 3, 0⟩)) 0 0 2 3 0).map
          (fun d => mul_v3_v3fl d (1 / sample_sqrtf (len_squared_v3 d)))).foldl
            add_v3_v3v3 zero_v3)
        (((get_next_loop_crossed (fan_mesh (fan_co ⟨1, 0, 0⟩ ⟨0, 3, 0⟩)) 0 0 2 3 0).map
          (fun d => sample_sqrtf (len_squared_v3 d))).sum /
          ((get_next_loop_crossed (fan_mesh (fan_co ⟨1, 0, 0⟩ ⟨0, 3, 0⟩)) 0 0 2 3 0).length : ℚ)) ∧
      (∀ d, get_next_loop_crossed (fan_mesh (fan_co ⟨1, 0, 0⟩ ⟨0, 3, 0⟩)) 0 0 2 3 0 = [d] →
        sample_sqrtf (len_squared_v3 d) * sample_sqrtf (len_squared_v3 d) = len_squared_v3 d →
        sample_sqrtf 1 = 1 → (⟨1, 0, 0⟩ : V3) = d) :=
  ⟨fan_unit_run, fan_crossed_one _ _,
    get_next_loop_direction sample_sqrtf (fan_mesh (fan_co ⟨1, 0, 0⟩ ⟨0, 3, 0⟩)) 3 0 0 0 2
      (some 5, ⟨1, 0, 0⟩) fan_unit_run (by rw [fan_crossed_one]; simp)
      (by
        rw [fan_crossed_one]
        intro d hd
        rw [List.mem_singleton.mp hd]
        norm_num [len_squared_v3, dot_v3v3, FLT_EPSILON])⟩

/-- Claim C16, counterexample: in the fan, `get_next_loop` steps over a spoke of
length 1 and a spoke of length 0 between the spokes 0 and 3; the direction it
writes has length 1/2, the length 1 of the one non-degenerate edge divided by
the count 2 of both edges, not by the count 1 of the non-degenerate edges. -/
theorem get_next_loop_degenerate_counterexample :
    get_next_loop_crossed (fan_mesh (fan_co ⟨1, 0, 0⟩ zero_v3)) 0 0 3 3 0 =
        [⟨1, 0, 0⟩, zero_v3] ∧
      crossed_nondegenerate [⟨1, 0, 0⟩, zero_v3] = [⟨1, 0, 0⟩] ∧
      get_next_loop sample_sqrtf (fan_mesh (fan_co ⟨1, 0, 0⟩ zero_v3)) 3 0 0 0 3 =
        some (some 8, ⟨1 / 2, 0, 0⟩) ∧
      len_squared_v3 ⟨1 / 2, 0, 0⟩ ≠
        (((crossed_nondegenerate [⟨1, 0, 0⟩, zero_v3]).map
          (fun d => sample_sqrtf (len_squared_v3 d))).sum /
          ((crossed_nondegenerate [⟨1, 0, 0⟩, zero_v3]).length : ℚ)) ^ 2 := by
  have hn : crossed_nondegenerate [⟨1, 0, 0⟩, zero_v3] = [⟨1, 0, 0⟩] := by
    norm_num [crossed_nondegenerate, List.filter, dot_v3v3, zero_v3, FLT_EPSILON]
  refine ⟨fan_crossed_two _ _, hn, fan_degenerate_run, ?_⟩
  rw [hn]
  norm_num [len_squared_v3, dot_v3v3, sample_sqrtf]

/-- Claim C16, amended: in `get_next_loop` a crossed edge shorter than the
normalization threshold contributes the zero vector and the length 0, but it is
still counted in the divisor: the direction written is the sum of the normalized
non-degenerate edge vectors, rescaled by `normalize_v3_length` to (the sum of
the lengths of the non-degenerate crossed edges) / (the number of all crossed
edges), and it has that length when the sum is long enough and the square root
is exact at it. -/
theorem get_next_loop_degenerate (sqrtf : ℚ → ℚ) (bm : BMesh) (fuel v l e_prev e_next : Nat)
    (r : Option Nat × V3) (h : get_next_loop sqrtf bm fuel v l e_prev e_next = some r)
    (hk : get_next_loop_crossed bm v l e_next fuel l ≠ []) :
    (∀ d, len_squared_v3 d < FLT_EPSILON * FLT_EPSILON → normalize_v3 sqrtf d = (zero_v3, 0)) ∧
      r.2 = normalize_v3_length sqrtf
        (((crossed_nondegenerate (get_next_loop_crossed bm v l e_next fuel l)).map
          (fun d => mul_v3_v3fl d (1 / sqrtf (len_squared_v3 d)))).foldl add_v3_v3v3 zero_v3)
        (((crossed_nondegenerate (get_next_loop_crossed bm v l e_next fuel l)).map
          (fun d => sqrtf (len_squared_v3 d))).sum /
          ((get_next_loop_crossed bm v l e_next fuel l).length : ℚ)) ∧
      (FLT_EPSILON * FLT_EPSILON ≤ len_squared_v3
          (((crossed_nondegenerate (get_next_loop_crossed bm v l e_next fuel l)).map
            (fun d => mul_v3_v3fl d (1 / sqrtf (len_squared_v3 d)))).foldl
              add_v3_v3v3 zero_v3) →
        sqrtf (len_squared_v3
          (((crossed_nondegenerate (get_next_loop_crossed bm v l e_next fuel l)).map
            (fun d => mul_v3_v3fl d (1 / sqrtf (len_squared_v3 d)))).foldl
              add_v3_v3v3 zero_v3)) *
          sqrtf (len_squared_v3
            (((crossed_nondegenerate (get_next_loop_crossed bm v l e_next fuel l)).map
              (fun d => mul_v3_v3fl d (1 / sqrtf (len_squared_v3 d)))).foldl
                add_v3_v3v3 zero_v3)) =
          len_squared_v3
            (((crossed_nondegenerate (get_next_loop_crossed bm v l e_next fuel l)).map
              (fun d => mul_v3_v3fl d (1 / sqrtf (len_squared_v3 d)))).foldl
                add_v3_v3v3 zero_v3) →
        len_squared_v3 r.2 =
          (((crossed_nondegenerate (get_next_loop_crossed bm v l e_next fuel l)).map
            (fun d => sqrtf (len_squared_v3 d))).sum /
            ((get_next_loop_crossed bm v l e_next fuel l).length : ℚ)) ^ 2) := by
  have hspec := get_next_loop_crossed_spec sqrtf bm fuel v l e_prev e_next r h hk
  have hnd : ∀ d ∈ crossed_nondegenerate (get_next_loop_crossed bm v l e_next fuel l),
      dot_v3v3 d d ≥ FLT_EPSILON * FLT_EPSILON := by
    intro d hd
    simpa using (List.mem_filter.mp hd).2
  rw [crossed_accum_nondegenerate, crossed_accum_len_nondegenerate,
    crossed_accum_eq sqrtf _ hnd, crossed_accum_len_eq sqrtf _ hnd, zero_add] at hspec
  refine ⟨fun d hd => normalize_v3_degenerate sqrtf d (not_le.mpr hd), hspec, ?_⟩
  intro hS hs
  rw [hspec]
  exact normalize_v3_length_len sqrtf _ _ hS hs

theorem get_next_loop_degenerate_witness :
    ∃ r, get_next_loop sample_sqrtf (fan_mesh (fan_co ⟨1, 0, 0⟩ zero_v3)) 3 0 0 0 3 = some r ∧
      get_next_loop_crossed (fan_mesh (fan_co ⟨1, 0, 0⟩ zero_v3)) 0 0 3 3 0 ≠ [] ∧
      r.2 = normalize_v3_length sample_sqrtf
        (((crossed_nondegenerate
            (get_next_loop_crossed (fan_mesh (fan_co ⟨1, 0, 0⟩ zero_v3)) 0 0 3 3 0)).map
          (fun d => mul_v3_v3fl d (1 / sample_sqrtf (len_squared_v3 d)))).foldl
            add_v3_v3v3 zero_v3)
        (((crossed_nondegenerate
            (get_next_loop_crossed (fan_mesh (fan_co ⟨1, 0, 0⟩ zero_v3)) 0 0 3 3 0)).map
          (fun d => sample_sqrtf (len_squared_v3 d))).sum /
          ((get_next_loop_crossed (fan_mesh (fan_co ⟨1, 0, 0⟩ zero_v3)) 0 0 3 3 0).length : ℚ)) :=
  ⟨_, fan_degenerate_run, by rw [fan_crossed_two]; simp,
    (get_next_loop_degenerate sample_sqrtf (fan_mesh (fan_co ⟨1, 0, 0⟩ zero_v3)) 3 0 0 0 3 _
      fan_degenerate_run (by rw [fan_crossed_two]; simp)).2.1⟩

/-- The loop that `BM_face_vert_share_loop` finds is a corner at `v`. -/
theorem BM_face_vert_share_loop_from_v (bm : BMesh) (l_first v : Nat) :
    ∀ (fuel l_iter l_tmp : Nat),
      BM_face_vert_share_loop_from bm l_first v fuel l_iter = some l_tmp →
      (bm.loop l_tmp).v = v := by
  intro fuel
  induction fuel with
  | zero => intro l_iter l_tmp h; simp [BM_face_vert_share_loop_from] at h
  | succ fuel ih =>
    intro l_iter l_tmp h
    unfold BM_face_vert_share_loop_from at h
    by_cases hv : (bm.loop l_iter).v = v
    · rw [if_pos hv] at h
      cases h
      exact hv
    · rw [if_neg hv] at h
      by_cases hn : (bm.loop l_iter).next = l_first
      · rw [if_pos hn] at h
        cases h
      · rw [if_neg hn] at h
        exact ih _ _ h

/-- Claim C17: when `get_next_loop` reaches `e_next` with the first loop it looks
at, before stepping over any edge, and the face of that corner has 4 sides, it
returns that loop and writes `co(w) - co(v)`, where `w` is the vertex two steps
around the face from the corner `l_tmp` of the face at `v`. -/
theorem get_next_loop_quad_diagonal (sqrtf : ℚ → ℚ) (bm : BMesh)
    (fuel v l e_prev e_next l_next l_tmp : Nat)
    (h1 : BM_loop_other_edge_loop bm l v = some l_next)
    (he : (bm.loop l_next).e = e_next)
    (ht : BM_face_vert_share_loop bm (bm.loop l).f v = some l_tmp)
    (h4 : (bm.face (bm.loop l_tmp).f).len = 4) :
    (bm.loop l_tmp).v = v ∧
      get_next_loop sqrtf bm (fuel + 1) v l e_prev e_next =
        some (some l_next,
          sub_v3_v3v3 (bm.vert (bm.loop (bm.loop (bm.loop l_tmp).next).next).v).co
            (bm.vert v).co) := by
  refine ⟨BM_face_vert_share_loop_from_v bm _ v _ _ _ ht, ?_⟩
  simp [get_next_loop, get_next_loop_loop, h1, he, get_next_loop_face_dir, ht, h4]

set_option maxRecDepth 100000 in
theorem get_next_loop_quad_diagonal_witness :
    BM_loop_other_edge_loop (grid_mesh 1 1 0 (flat_co 1)) 0 0 = some 3 ∧
      ((grid_mesh 1 1 0 (flat_co 1)).loop 3).e = 2 ∧
      BM_face_vert_share_loop (grid_mesh 1 1 0 (flat_co 1))
        ((grid_mesh 1 1 0 (flat_co 1)).loop 0).f 0 = some 0 ∧
      ((grid_mesh 1 1 0 (flat_co 1)).face ((grid_mesh 1 1 0 (flat_co 1)).loop 0).f).len = 4 ∧
      ((grid_mesh 1 1 0 (flat_co 1)).loop 0).v = 0 ∧
      get_next_loop sample_sqrtf (grid_mesh 1 1 0 (flat_co 1)) (0 + 1) 0 0 0 2 =
        some (some 3,
          sub_v3_v3v3 ((grid_mesh 1 1 0 (flat_co 1)).vert
              ((grid_mesh 1 1 0 (flat_co 1)).loop ((grid_mesh 1 1 0 (flat_co 1)).loop
                ((grid_mesh 1 1 0 (flat_co 1)).loop 0).next).next).v).co
            ((grid_mesh 1 1 0 (flat_co 1)).vert 0).co) :=
  ⟨by decide, by decide, by decide, by decide,
    get_next_loop_quad_diagonal sample_sqrtf (grid_mesh 1 1 0 (flat_co 1)) 0 0 0 0 2 3 0
      (by decide) (by decide) (by decide) (by decide)⟩

/-- The closest point after a run of updates: either no point was closer than
the start distance, or the result is the first of the points of least distance. -/
theorem opposite_co_step_fold (dist_to : V3 → ℚ) :
    ∀ (cs : List V3) (s : V3 × ℚ × Bool),
      (cs.foldl (opposite_co_step dist_to) s = s ∧ ∀ c ∈ cs, s.2.1 ≤ dist_to c) ∨
      (∃ (j : Nat) (c : V3), cs[j]? = some c ∧
        cs.foldl (opposite_co_step dist_to) s = (c, dist_to c, true) ∧
        dist_to c < s.2.1 ∧ (∀ x ∈ cs, dist_to c ≤ dist_to x) ∧
        ∀ (i : Nat) (x : V3), i < j → cs[i]? = some x → dist_to c < dist_to x) := by
  intro cs
  induction cs with
  | nil => intro s; left; simp
  | cons a cs ih =>
    intro s
    rw [List.foldl_cons]
    by_cases ha : dist_to a < s.2.1
    · have hs : opposite_co_step dist_to s a = (a, dist_to a, true) := by
        simp [opposite_co_step, ha]
      rw [hs]
      rcases ih (a, dist_to a, true) with ⟨h1, h2⟩ | ⟨j, c, hj, h1, h2, h3, h4⟩
      · right
        refine ⟨0, a, by simp, h1, ha, ?_, ?_⟩
        · intro x hx
          rcases List.mem_cons.mp hx with rfl | hx
          · exact le_refl _
          · exact h2 x hx
        · intro i x hi
          omega
      · right
        refine ⟨j + 1, c, by simpa using hj, h1, lt_trans h2 ha, ?_, ?_⟩
        · intro x hx
          rcases List.mem_cons.mp hx with rfl | hx
          · exact le_of_lt h2
          · exact h3 x hx
        · intro i x hi hx
          cases i with
          | zero =>
            simp at hx
            rw [← hx]
            exact h2
          | succ i => exact h4 i x (by omega) (by simpa using hx)
    · have hs : opposite_co_step dist_to s a = s := by
        simp [opposite_co_step, ha]
      rw [hs]
      rcases ih s with ⟨h1, h2⟩ | ⟨j, c, hj, h1, h2, h3, h4⟩
      · left
        refine ⟨h1, ?_⟩
        intro x hx
        rcases List.mem_cons.mp hx with rfl | hx
        · exact not_lt.mp ha
        · exact h2 x hx
      · right
        refine ⟨j + 1, c, by simpa using hj, h1, h2, ?_, ?_⟩
        · intro x hx
          rcases List.mem_cons.mp hx with rfl | hx
          · exact le_of_lt (lt_of_lt_of_le h2 (not_lt.mp ha))
          · exact h3 x hx
        · intro i x hi hx
          cases i with
          | zero =>
            simp at hx
            rw [← hx]
            exact lt_of_lt_of_le h2 (not_lt.mp ha)
          | succ i => exact h4 i x (by omega) (by simpa using hx)

/-- One pass of the loop body of `bm_loop_calc_opposite_co` as an update by the
point that the corner offers. -/
theorem bm_loop_calc_opposite_co_loop_succ (sqrtf : ℚ → ℚ) (bm : BMesh) (l_tmp l_last : Nat)
    (plane_no : V3) (fuel l_iter : Nat) (r_co : V3) (dist : ℚ) (found : Bool) :
    bm_loop_calc_opposite_co_loop sqrtf bm l_tmp l_last plane_no (fuel + 1) l_iter r_co dist
        found =
      if (bm.loop l_iter).next ≠ l_last then
        bm_loop_calc_opposite_co_loop sqrtf bm l_tmp l_last plane_no fuel (bm.loop l_iter).next
          (([l_iter].filterMap (opposite_co_candidate bm l_tmp plane_no)).foldl
            (opposite_co_step (len_v3v3 sqrtf (bm.vert (bm.loop l_tmp).v).co))
            (r_co, dist, found)).1
          (([l_iter].filterMap (opposite_co_candidate bm l_tmp plane_no)).foldl
            (opposite_co_step (len_v3v3 sqrtf (bm.vert (bm.loop l_tmp).v).co))
            (r_co, dist, found)).2.1
          (([l_iter].filterMap (opposite_co_candidate bm l_tmp plane_no)).foldl
            (opposite_co_step (len_v3v3 sqrtf (bm.vert (bm.loop l_tmp).v).co))
            (r_co, dist, found)).2.2
      else
        some ((([l_iter].filterMap (opposite_co_candidate bm l_tmp plane_no)).foldl
            (opposite_co_step (len_v3v3 sqrtf (bm.vert (bm.loop l_tmp).v).co))
            (r_co, dist, found)).1,
          (([l_iter].filterMap (opposite_co_candidate bm l_tmp plane_no)).foldl
            (opposite_co_step (len_v3v3 sqrtf (bm.vert (bm.loop l_tmp).v).co))
            (r_co, dist, found)).2.2) := by
  have hc : opposite_co_candidate bm l_tmp plane_no l_iter =
      match isect_line_plane_v3 (bm.vert (bm.loop l_iter).v).co
          (bm.vert (bm.loop (bm.loop l_iter).next).v).co (bm.vert (bm.loop l_tmp).v).co
          plane_no with
      | some tvec =>
        if line_point_factor_v3 tvec (bm.vert (bm.loop l_iter).v).co
              (bm.vert (bm.loop (bm.loop l_iter).next).v).co > -FLT_EPSILON ∧
            line_point_factor_v3 tvec (bm.vert (bm.loop l_iter).v).co
              (bm.vert (bm.loop (bm.loop l_iter).next).v).co < 1 + FLT_EPSILON then some tvec
        else none
      | none => none := rfl
  conv_lhs => unfold bm_loop_calc_opposite_co_loop
  dsimp only
  rw [List.filterMap_cons, hc]
  generalize isect_line_plane_v3 (bm.vert (bm.loop l_iter).v).co
          (bm.vert (bm.loop (bm.loop l_iter).next).v).co (bm.vert (bm.loop l_tmp).v).co
          plane_no = o
  cases o with
  | none => simp only [List.filterMap_nil, List.foldl_nil]
  | some tvec =>
    by_cases hf : line_point_factor_v3 tvec (bm.vert (bm.loop l_iter).v).co
                (bm.vert (bm.loop (bm.loop l_iter).next).v).co > -FLT_EPSILON ∧
              line_point_factor_v3 tvec (bm.vert (bm.loop l_iter).v).co
                (bm.vert (bm.loop (bm.loop l_iter).next).v).co < 1 + FLT_EPSILON
    · simp only [hf, and_self, if_true, List.filterMap_nil, List.foldl_cons,
        List.foldl_nil, opposite_co_step]
    · simp only [hf, if_false, List.filterMap_nil, List.foldl_nil]

/-- The loop of `bm_loop_calc_opposite_co` ends when the walk over the corners
does, and its result is the run of updates over the points that the corners offer. -/
theorem bm_loop_calc_opposite_co_loop_fold (sqrtf : ℚ → ℚ) (bm : BMesh) (l_tmp l_last : Nat)
    (plane_no : V3) :
    ∀ (fuel l_iter : Nat) (r_co : V3) (dist : ℚ) (found : Bool) (ls : List Nat),
      bm_loop_calc_opposite_co_edges bm l_last fuel l_iter = some ls →
      bm_loop_calc_opposite_co_loop sqrtf bm l_tmp l_last plane_no fuel l_iter r_co dist found =
        some (((ls.filterMap (opposite_co_candidate bm l_tmp plane_no)).foldl
            (opposite_co_step (len_v3v3 sqrtf (bm.vert (bm.loop l_tmp).v).co))
            (r_co, dist, found)).1,
          ((ls.filterMap (opposite_co_candidate bm l_tmp plane_no)).foldl
            (opposite_co_step (len_v3v3 sqrtf (bm.vert (bm.loop l_tmp).v).co))
            (r_co, dist, found)).2.2) := by
  intro fuel
  induction fuel with
  | zero => intro l_iter r_co dist found ls h; simp [bm_loop_calc_opposite_co_edges] at h
  | succ fuel ih =>
    intro l_iter r_co dist found ls h
    unfold bm_loop_calc_opposite_co_edges at h
    rw [bm_loop_calc_opposite_co_loop_succ]
    by_cases hn : (bm.loop l_iter).next ≠ l_last
    · rw [if_pos hn] at h ⊢
      cases hr : bm_loop_calc_opposite_co_edges bm l_last fuel (bm.loop l_iter).next with
      | none => simp [hr] at h
      | some ls1 =>
        simp only [hr, Option.map_some', Option.some.injEq] at h
        subst h
        rw [ih _ _ _ _ _ hr]
        have : (l_iter :: ls1) = [l_iter] ++ ls1 := rfl
        rw [this, List.filterMap_append, List.foldl_append]
    · rw [if_neg hn] at h ⊢
      cases h
      rfl

/-- The corners that `bm_loop_calc_opposite_co` looks at start at `l_iter`,
follow each other along `next` without meeting `l_last`, and end at the corner
before `l_last`. -/
theorem bm_loop_calc_opposite_co_edges_chain (bm : BMesh) (l_last : Nat) :
    ∀ (fuel l_iter : Nat) (ls : List Nat),
      bm_loop_calc_opposite_co_edges bm l_last fuel l_iter = some ls →
      ls.head? = some l_iter ∧
        List.Chain' (fun a b => (bm.loop a).next = b ∧ b ≠ l_last) ls ∧
        ∃ x, ls.getLast? = some x ∧ (bm.loop x).next = l_last := by
  intro fuel
  induction fuel with
  | zero => intro l_iter ls h; simp [bm_loop_calc_opposite_co_edges] at h
  | succ fuel ih =>
    intro l_iter ls h
    unfold bm_loop_calc_opposite_co_edges at h
    by_cases hn : (bm.loop l_iter).next ≠ l_last
    · rw [if_pos hn] at h
      cases hr : bm_loop_calc_opposite_co_edges bm l_last fuel (bm.loop l_iter).next with
      | none => simp [hr] at h
      | some ls1 =>
        simp only [hr, Option.map_some', Option.some.injEq] at h
        subst h
        obtain ⟨hh, hc, x, hx, hxn⟩ := ih _ _ hr
        refine ⟨rfl, ?_, x, ?_, hxn⟩
        · cases ls1 with
          | nil => simp at hh
          | cons b ls2 =>
            simp only [List.head?_cons, Option.some.injEq] at hh
            exact List.Chain'.cons ⟨hh.symm, by rw [hh]; exact hn⟩ hc
        · cases ls1 with
          | nil => simp at hh
          | cons b ls2 => simpa using hx
    · rw [if_neg hn] at h
      cases h
      exact ⟨rfl, List.chain'_singleton _, l_iter, rfl, not_not.mp hn⟩

/-- Claim C18: when `get_next_loop` reaches `e_next` with the first loop it looks
at, before stepping over any edge, and the face of the corner `l_tmp` at `v` is
not a quad, it returns that loop and writes cross(face normal, face tangent at
`v`) rescaled by `normalize_v3_length` to the length `d`.  The corners `ls` of
the face from the one after `l_tmp` to the one before `l_tmp.prev` stand for the
edges not incident to `v`; `d` is the mean length of `e_prev` and `e_next` when
none of these edges offers a meeting point, and else the least distance from `v`
to the meeting points, taken at the first point of least distance.  Distances
are floats, hence below `FLT_MAX`. -/
theorem get_next_loop_ngon (sqrtf : ℚ → ℚ) (bm : BMesh)
    (fuel v l e_prev e_next l_next l_tmp : Nat) (ls : List Nat)
    (h1 : BM_loop_other_edge_loop bm l v = some l_next)
    (he : (bm.loop l_next).e = e_next)
    (ht : BM_face_vert_share_loop bm (bm.loop l).f v = some l_tmp)
    (h4 : (bm.face (bm.loop l_tmp).f).len ≠ 4)
    (hls : bm_loop_calc_opposite_co_edges bm (bm.loop l_tmp).prev bm.totloop
      (bm.loop l_tmp).next = some ls)
    (hF : ∀ c ∈ ls.filterMap
        (opposite_co_candidate bm l_tmp (BM_loop_calc_face_direction sqrtf bm l_tmp)),
      len_v3v3 sqrtf (bm.vert v).co c < FLT_MAX) :
    (bm.loop l_tmp).v = v ∧
      (ls.head? = some (bm.loop l_tmp).next ∧
        List.Chain' (fun a b => (bm.loop a).next = b ∧ b ≠ (bm.loop l_tmp).prev) ls ∧
        ∃ x, ls.getLast? = some x ∧ (bm.loop x).next = (bm.loop l_tmp).prev) ∧
      ∃ d, get_next_loop sqrtf bm (fuel + 1) v l e_prev e_next =
          some (some l_next,
            normalize_v3_length sqrtf
              (cross_v3_v3v3 (bm.face (bm.loop l_tmp).f).no
                (BM_loop_calc_face_direction sqrtf bm l_tmp)) d) ∧
        (ls.filterMap
            (opposite_co_candidate bm l_tmp (BM_loop_calc_face_direction sqrtf bm l_tmp)) = [] →
          d = (BM_edge_calc_length sqrtf bm e_prev + BM_edge_calc_length sqrtf bm e_next) / 2) ∧
        (ls.filterMap
            (opposite_co_candidate bm l_tmp (BM_loop_calc_face_direction sqrtf bm l_tmp)) ≠ [] →
          ∃ (j : Nat) (c : V3),
            (ls.filterMap (opposite_co_candidate bm l_tmp
              (BM_loop_calc_face_direction sqrtf bm l_tmp)))[j]? = some c ∧
            d = len_v3v3 sqrtf (bm.vert v).co c ∧
            (∀ x ∈ ls.filterMap (opposite_co_candidate bm l_tmp
                (BM_loop_calc_face_direction sqrtf bm l_tmp)),
              d ≤ len_v3v3 sqrtf (bm.vert v).co x) ∧
            ∀ (i : Nat) (x : V3), i < j →
              (ls.filterMap (opposite_co_candidate bm l_tmp
                (BM_loop_calc_face_direction sqrtf bm l_tmp)))[i]? = some x →
              d < len_v3v3 sqrtf (bm.vert v).co x) := by
  have hv : (bm.loop l_tmp).v = v := BM_face_vert_share_loop_from_v bm _ v _ _ _ ht
  refine ⟨hv, bm_loop_calc_opposite_co_edges_chain bm _ _ _ _ hls, ?_⟩
  have hfold := bm_loop_calc_opposite_co_loop_fold sqrtf bm l_tmp (bm.loop l_tmp).prev
    (BM_loop_calc_face_direction sqrtf bm l_tmp) _ _ zero_v3 FLT_MAX false ls hls
  rw [hv] at hfold
  have hrun : get_next_loop sqrtf bm (fuel + 1) v l e_prev e_next =
      some (some l_next,
        normalize_v3_length sqrtf
          (cross_v3_v3v3 (bm.face (bm.loop l_tmp).f).no
            (BM_loop_calc_face_direction sqrtf bm l_tmp))
          (if ((ls.filterMap (opposite_co_candidate bm l_tmp
                (BM_loop_calc_face_direction sqrtf bm l_tmp))).foldl
              (opposite_co_step (len_v3v3 sqrtf (bm.vert v).co))
              (zero_v3, FLT_MAX, false)).2.2 = true then
            len_v3v3 sqrtf (bm.vert v).co
              ((ls.filterMap (opposite_co_candidate bm l_tmp
                (BM_loop_calc_face_direction sqrtf bm l_tmp))).foldl
              (opposite_co_step (len_v3v3 sqrtf (bm.vert v).co))
              (zero_v3, FLT_MAX, false)).1
          else (BM_edge_calc_length sqrtf bm e_prev + BM_edge_calc_length sqrtf bm e_next) / 2)) := by
    simp only [get_next_loop, get_next_loop_loop, h1, he, if_true, ne_eq, not_true_eq_false,
      if_false, get_next_loop_face_dir, ht, h4, bm_loop_calc_opposite_co, hfold, hv]
  refine ⟨_, hrun, ?_, ?_⟩
  · intro hnil
    rw [hnil]
    simp
  · intro hne
    rcases opposite_co_step_fold (len_v3v3 sqrtf (bm.vert v).co)
        (ls.filterMap (opposite_co_candidate bm l_tmp
          (BM_loop_calc_face_direction sqrtf bm l_tmp))) (zero_v3, FLT_MAX, false) with
      ⟨-, hall⟩ | ⟨j, c, hj, hres, -, hmin, hfirst⟩
    · exfalso
      obtain ⟨c, hc⟩ := List.exists_mem_of_ne_nil _ hne
      exact absurd (hF c hc) (not_lt.mpr (hall c hc))
    · refine ⟨j, c, hj, ?_, ?_, ?_⟩
      · rw [hres]
        simp
      · rw [hres]
        simpa using hmin
      · rw [hres]
        simpa using hfirst

/-- The face tangent at the centre corner of the first triangle of the fan. -/
theorem fan_face_direction :
    BM_loop_calc_face_direction sample_sqrtf (fan_mesh (fan_co ⟨1, 0, 0⟩ ⟨0, 3, 0⟩)) 0 =
      ⟨-3 / 4, 3 / 4, 0⟩ := by
  have h1 : normalize_v3 sample_sqrtf ⟨-1, 0, 0⟩ = (⟨-1, 0, 0⟩, 1) := by
    rw [normalize_v3_nondegenerate _ _ (by norm_num [dot_v3v3, FLT_EPSILON])]
    norm_num [dot_v3v3, sample_sqrtf, mul_v3_v3fl]
  have h2 : normalize_v3 sample_sqrtf ⟨0, 1, 0⟩ = (⟨0, 1, 0⟩, 1) := by
    rw [normalize_v3_nondegenerate _ _ (by norm_num [dot_v3v3, FLT_EPSILON])]
    norm_num [dot_v3v3, sample_sqrtf, mul_v3_v3fl]
  have h3 : normalize_v3 sample_sqrtf ⟨-1, 1, 0⟩ = (⟨-3 / 4, 3 / 4, 0⟩, 4 / 3) := by
    rw [normalize_v3_nondegenerate _ _ (by norm_num [dot_v3v3, FLT_EPSILON])]
    norm_num [dot_v3v3, sample_sqrtf, mul_v3_v3fl]
  have ha : sub_v3_v3v3 zero_v3 ⟨1, 0, 0⟩ = ⟨-1, 0, 0⟩ := by
    norm_num [sub_v3_v3v3, zero_v3]
  have hb : sub_v3_v3v3 ⟨0, 1, 0⟩ zero_v3 = ⟨0, 1, 0⟩ := by
    norm_num [sub_v3_v3v3, zero_v3]
  have hc : add_v3_v3v3 ⟨-1, 0, 0⟩ ⟨0, 1, 0⟩ = ⟨-1, 1, 0⟩ := by
    norm_num [add_v3_v3v3]
  simp [BM_loop_calc_face_direction, fan_mesh, fan_co, ha, hb, h1, h2, hc, h3]

/-- The rim edge of the first triangle of the fan meets the plane through the
centre at its midpoint. -/
theorem fan_candidate :
    opposite_co_candidate (fan_mesh (fan_co ⟨1, 0, 0⟩ ⟨0, 3, 0⟩)) 0 ⟨-3 / 4, 3 / 4, 0⟩ 1 =
      some ⟨1 / 2, 1 / 2, 0⟩ := by
  have hi : isect_line_plane_v3 ⟨0, 1, 0⟩ ⟨1, 0, 0⟩ zero_v3 ⟨-3 / 4, 3 / 4, 0⟩ =
      some ⟨1 / 2, 1 / 2, 0⟩ := by
    norm_num [isect_line_plane_v3, sub_v3_v3v3, dot_v3v3, zero_v3, fabsf, FLT_EPSILON,
      madd_v3_v3fl]
  have hf : line_point_factor_v3 ⟨1 / 2, 1 / 2, 0⟩ ⟨0, 1, 0⟩ ⟨1, 0, 0⟩ = 1 / 2 := by
    norm_num [line_point_factor_v3, sub_v3_v3v3, dot_v3v3, len_squared_v3]
  unfold opposite_co_candidate
  simp [fan_mesh, fan_co]
  rw [hi]
  simp only [hf]
  norm_num [FLT_EPSILON]

/-- The points that the rim edge of the first triangle of the fan offers. -/
theorem fan_candidates :
    [1].filterMap (opposite_co_candidate (fan_mesh (fan_co ⟨1, 0, 0⟩ ⟨0, 3, 0⟩)) 0
        (BM_loop_calc_face_direction sample_sqrtf (fan_mesh (fan_co ⟨1, 0, 0⟩ ⟨0, 3, 0⟩)) 0)) =
      [⟨1 / 2, 1 / 2, 0⟩] := by
  rw [fan_face_direction, List.filterMap_cons, fan_candidate]
  rfl

theorem get_next_loop_ngon_witness :
    ∃ d, get_next_loop sample_sqrtf (fan_mesh (fan_co ⟨1, 0, 0⟩ ⟨0, 3, 0⟩)) (0 + 1) 0 0 0 1 =
        some (some 2,
          normalize_v3_length sample_sqrtf
            (cross_v3_v3v3
              ((fan_mesh (fan_co ⟨1, 0, 0⟩ ⟨0, 3, 0⟩)).face
                ((fan_mesh (fan_co ⟨1, 0, 0⟩ ⟨0, 3, 0⟩)).loop 0).f).no
              (BM_loop_calc_face_direction sample_sqrtf
                (fan_mesh (fan_co ⟨1, 0, 0⟩ ⟨0, 3, 0⟩)) 0)) d) ∧
      ([1].filterMap (opposite_co_candidate (fan_mesh (fan_co ⟨1, 0, 0⟩ ⟨0, 3, 0⟩)) 0
          (BM_loop_calc_face_direction sample_sqrtf
            (fan_mesh (fan_co ⟨1, 0, 0⟩ ⟨0, 3, 0⟩)) 0)) ≠ [] →
        ∃ (j : Nat) (c : V3),
          ([1].filterMap (opposite_co_candidate (fan_mesh (fan_co ⟨1, 0, 0⟩ ⟨0, 3, 0⟩)) 0
            (BM_loop_calc_face_direction sample_sqrtf
              (fan_mesh (fan_co ⟨1, 0, 0⟩ ⟨0, 3, 0⟩)) 0)))[j]? = some c ∧
          d = len_v3v3 sample_sqrtf ((fan_mesh (fan_co ⟨1, 0, 0⟩ ⟨0, 3, 0⟩)).vert 0).co c) := by
  have hF : ∀ c ∈ [1].filterMap
      (opposite_co_candidate (fan_mesh (fan_co ⟨1, 0, 0⟩ ⟨0, 3, 0⟩)) 0
        (BM_loop_calc_face_direction sample_sqrtf (fan_mesh (fan_co ⟨1, 0, 0⟩ ⟨0, 3, 0⟩)) 0)),
      len_v3v3 sample_sqrtf ((fan_mesh (fan_co ⟨1, 0, 0⟩ ⟨0, 3, 0⟩)).vert 0).co c < FLT_MAX := by
    rw [fan_candidates]
    intro c hc
    rw [List.mem_singleton.mp hc]
    norm_num [len_v3v3, len_squared_v3, dot_v3v3, sub_v3_v3v3, fan_mesh, fan_co, zero_v3,
      sample_sqrtf, FLT_MAX]
  obtain ⟨-, -, d, hd, -, hne⟩ := get_next_loop_ngon sample_sqrtf
    (fan_mesh (fan_co ⟨1, 0, 0⟩ ⟨0, 3, 0⟩)) 0 0 0 0 1 2 0 [1]
    (by decide) (by decide) (by decide) (by decide) (by decide) hF
  refine ⟨d, hd, fun h => ?_⟩
  obtain ⟨j, c, hj, hdc, -⟩ := hne h
  exact ⟨j, c, hj, hdc⟩

/-! ## Theorems: the single-sided builder -/

theorem BM_edge_calc_length_squared_nonneg (bm : BMesh) (e : Nat) :
    0 ≤ BM_edge_calc_length_squared bm e := by
  simp only [BM_edge_calc_length_squared, len_squared_v3v3, len_squared_v3, dot_v3v3]
  nlinarith [mul_self_nonneg (sub_v3_v3v3 (bm.vert (bm.edge e).v2).co (bm.vert (bm.edge e).v1).co).x,
    mul_self_nonneg (sub_v3_v3v3 (bm.vert (bm.edge e).v2).co (bm.vert (bm.edge e).v1).co).y,
    mul_self_nonneg (sub_v3_v3v3 (bm.vert (bm.edge e).v2).co (bm.vert (bm.edge e).v1).co).z]

/-- The longest unselected edge after a run over edges: either no unselected
edge was longer than the start value, or the result is the first of the
unselected edges of greatest length. -/
theorem single_side_longest_fold (bm : BMesh) :
    ∀ (es : List Nat) (r : ℚ × Option Nat),
      (es.foldl (single_side_longest_step bm) r = r ∧
        ∀ e ∈ es.filter (fun e => !(bm.edge e).select), BM_edge_calc_length_squared bm e ≤ r.1) ∨
      (∃ (j : Nat) (e : Nat), (es.filter (fun e => !(bm.edge e).select))[j]? = some e ∧
        es.foldl (single_side_longest_step bm) r = (BM_edge_calc_length_squared bm e, some e) ∧
        r.1 < BM_edge_calc_length_squared bm e ∧
        (∀ x ∈ es.filter (fun e => !(bm.edge e).select),
          BM_edge_calc_length_squared bm x ≤ BM_edge_calc_length_squared bm e) ∧
        ∀ (i : Nat) (x : Nat), i < j → (es.filter (fun e => !(bm.edge e).select))[i]? = some x →
          BM_edge_calc_length_squared bm x < BM_edge_calc_length_squared bm e) := by
  intro es
  induction es with
  | nil => intro r; left; simp
  | cons a es ih =>
    intro r
    rw [List.foldl_cons]
    by_cases hsel : (bm.edge a).select = true
    · have hs : single_side_longest_step bm r a = r := by
        simp [single_side_longest_step, hsel]
      have hf : (a :: es).filter (fun e => !(bm.edge e).select) =
          es.filter (fun e => !(bm.edge e).select) := by
        simp [List.filter_cons, hsel]
      rw [hs, hf]
      exact ih r
    · have hf : (a :: es).filter (fun e => !(bm.edge e).select) =
          a :: es.filter (fun e => !(bm.edge e).select) := by
        simp [List.filter_cons, hsel]
      rw [hf]
      by_cases ha : BM_edge_calc_length_squared bm a > r.1
      · have hs : single_side_longest_step bm r a = (BM_edge_calc_length_squared bm a, some a) := by
          simp [single_side_longest_step, hsel, ha]
        rw [hs]
        rcases ih (BM_edge_calc_length_squared bm a, some a) with
          ⟨h1, h2⟩ | ⟨j, c, hj, h1, h2, h3, h4⟩
        · right
          refine ⟨0, a, by simp, h1, ha, ?_, ?_⟩
          · intro x hx
            rcases List.mem_cons.mp hx with rfl | hx
            · exact le_refl _
            · exact h2 x hx
          · intro i x hi
            omega
        · right
          refine ⟨j + 1, c, by simpa using hj, h1, lt_trans ha h2, ?_, ?_⟩
          · intro x hx
            rcases List.mem_cons.mp hx with rfl | hx
            · exact le_of_lt h2
            · exact h3 x hx
          · intro i x hi hx
            cases i with
            | zero =>
              simp at hx
              rw [← hx]
              exact h2
            | succ i => exact h4 i x (by omega) (by simpa using hx)
      · have hs : single_side_longest_step bm r a = r := by
          simp [single_side_longest_step, hsel, ha]
        rw [hs]
        rcases ih r with ⟨h1, h2⟩ | ⟨j, c, hj, h1, h2, h3, h4⟩
        · left
          refine ⟨h1, ?_⟩
          intro x hx
          rcases List.mem_cons.mp hx with rfl | hx
          · exact not_lt.mp ha
          · exact h2 x hx
        · right
          refine ⟨j + 1, c, by simpa using hj, h1, h2, ?_, ?_⟩
          · intro x hx
            rcases List.mem_cons.mp hx with rfl | hx
            · exact le_of_lt (lt_of_le_of_lt (not_lt.mp ha) h2)
            · exact h3 x hx
          · intro i x hi hx
            cases i with
            | zero =>
              simp at hx
              rw [← hx]
              exact lt_of_le_of_lt (not_lt.mp ha) h2
            | succ i => exact h4 i x (by omega) (by simpa using hx)

/-- The edge that the first loop of the single-sided builder assigns to `v->e`:
nothing when the vertex has no unselected edge, else the first of its unselected
edges of greatest length. -/
theorem single_side_longest_spec (bm : BMesh) (v : Nat) :
    (single_side_unselected bm v = [] ∧ single_side_longest bm v = (-1, none)) ∨
    (∃ (j : Nat) (e : Nat), (single_side_unselected bm v)[j]? = some e ∧
      single_side_longest bm v = (BM_edge_calc_length_squared bm e, some e) ∧
      (∀ x ∈ single_side_unselected bm v,
        BM_edge_calc_length_squared bm x ≤ BM_edge_calc_length_squared bm e) ∧
      ∀ (i : Nat) (x : Nat), i < j → (single_side_unselected bm v)[i]? = some x →
        BM_edge_calc_length_squared bm x < BM_edge_calc_length_squared bm e) := by
  rcases single_side_longest_fold bm (BM_EDGES_OF_VERT bm v) (-1, none) with
    ⟨h1, h2⟩ | ⟨j, e, hj, h1, -, h3, h4⟩
  · left
    refine ⟨?_, h1⟩
    cases hu : single_side_unselected bm v with
    | nil => rfl
    | cons a us =>
      exfalso
      have := h2 a (by
        show a ∈ single_side_unselected bm v
        rw [hu]; exact List.mem_cons_self _ _)
      have h0 := BM_edge_calc_length_squared_nonneg bm a
      simp only at this
      linarith
  · right
    exact ⟨j, e, hj, h1, h3, h4⟩

theorem single_side_longest_step_congr (bm bm1 : BMesh) (h : same_but_vert_e bm bm1) :
    single_side_longest_step bm1 = single_side_longest_step bm := by
  obtain ⟨_, _, _, _, he, _, _, hv⟩ := h
  funext r e
  simp only [single_side_longest_step, BM_edge_calc_length_squared, he, (hv _).1]

theorem single_side_longest_congr (bm bm1 : BMesh) (h : same_but_vert_e bm bm1) (u : Nat)
    (hu : bm1.vert u = bm.vert u) : single_side_longest bm1 u = single_side_longest bm u := by
  simp only [single_side_longest, single_side_longest_step_congr bm bm1 h, BM_EDGES_OF_VERT, hu]

theorem single_side_unselected_congr (bm bm1 : BMesh) (h : same_but_vert_e bm bm1) (u : Nat)
    (hu : bm1.vert u = bm.vert u) :
    single_side_unselected bm1 u = single_side_unselected bm u := by
  obtain ⟨_, _, _, _, he, _, _, _⟩ := h
  simp only [single_side_unselected, BM_EDGES_OF_VERT, hu, he]

theorem single_side_qualifies_congr (bm bm1 : BMesh) (h : same_but_vert_e bm bm1) (u : Nat)
    (hu : bm1.vert u = bm.vert u) :
    single_side_qualifies bm1 u = single_side_qualifies bm u := by
  simp only [single_side_qualifies, single_side_unselected_congr bm bm1 h u hu, hu]

theorem single_side_vert_e_congr (bm bm1 : BMesh) (h : same_but_vert_e bm bm1) (u : Nat)
    (hu : bm1.vert u = bm.vert u) :
    single_side_vert_e bm1 u = single_side_vert_e bm u := by
  simp only [single_side_vert_e, single_side_longest_congr bm bm1 h u hu, hu]

/-- The test `len_sq_max != -1` of the first loop holds exactly for the vertices
with an unselected edge, and then `v->e` was assigned. -/
theorem single_side_longest_ne (bm : BMesh) (v : Nat) :
    ((single_side_longest bm v).1 ≠ -1 ↔ single_side_unselected bm v ≠ []) ∧
      ((single_side_longest bm v).2 = none ↔ single_side_unselected bm v = []) := by
  rcases single_side_longest_spec bm v with ⟨h1, h2⟩ | ⟨j, e, hj, h2, -, -⟩
  · simp [h1, h2]
  · have hne : single_side_unselected bm v ≠ [] := by
      intro h0
      rw [h0] at hj
      simp at hj
    have h0 := BM_edge_calc_length_squared_nonneg bm e
    rw [h2]
    simp only [ne_eq, hne, not_false_eq_true, iff_true, reduceCtorEq, iff_false]
    constructor
    · intro h
      linarith
    · trivial

/-- The first loop of the single-sided builder: it counts the vertices that
qualify and changes nothing but `v->e`, which it sets to the longest unselected
edge of each of them. -/
theorem single_side_check_verts_spec :
    ∀ (vs : List Nat) (bm : BMesh) (j : Nat), vs.Nodup →
      ∃ bm1, single_side_check_verts bm vs j =
          (bm1, j + (vs.filter (single_side_qualifies bm)).length) ∧
        same_but_vert_e bm bm1 ∧ (∀ u, u ∉ vs → bm1.vert u = bm.vert u) ∧
        ∀ u ∈ vs, (bm1.vert u).e = single_side_vert_e bm u := by
  intro vs
  induction vs with
  | nil =>
    intro bm j _
    exact ⟨bm, rfl, same_but_vert_e_refl bm, fun _ _ => rfl, fun u hu => by simp at hu⟩
  | cons v vs ih =>
    intro bm j hnd
    have hv : v ∉ vs := (List.nodup_cons.mp hnd).1
    have hnd1 : vs.Nodup := (List.nodup_cons.mp hnd).2
    unfold single_side_check_verts
    by_cases hsel : (bm.vert v).select = true
    · rw [if_pos hsel]
      obtain ⟨hs, hne⟩ := check_verts_step bm v (single_side_longest bm v).2
      obtain ⟨bm1, h1, h2, h3, h4⟩ := ih (double_side_set_vert_e bm v (single_side_longest bm v).2)
        (if (single_side_longest bm v).1 ≠ -1 then j + 1 else j) hnd1
      have hfilt : vs.filter (single_side_qualifies
          (double_side_set_vert_e bm v (single_side_longest bm v).2)) =
          vs.filter (single_side_qualifies bm) := by
        apply List.filter_congr
        intro u hu
        exact single_side_qualifies_congr _ _ hs u (hne u (fun h => hv (h ▸ hu)))
      refine ⟨bm1, ?_, same_but_vert_e_trans hs h2, ?_, ?_⟩
      · rw [h1, hfilt]
        congr 1
        rw [List.filter_cons]
        by_cases hq : single_side_unselected bm v = []
        · have : ¬ (single_side_longest bm v).1 ≠ -1 := by
            rw [(single_side_longest_ne bm v).1]; simp [hq]
          simp [this, single_side_qualifies, hq]
        · have : (single_side_longest bm v).1 ≠ -1 := (single_side_longest_ne bm v).1.mpr hq
          have hq2 : single_side_qualifies bm v = true := by
            simp [single_side_qualifies, hsel, hq]
          rw [if_pos this, if_pos hq2, List.length_cons]
          omega
      · intro u hu
        have huv : u ≠ v := fun h => hu (h ▸ List.mem_cons_self _ _)
        rw [h3 u (fun h => hu (List.mem_cons_of_mem _ h)), hne u huv]
      · intro u hu
        rcases List.mem_cons.mp hu with rfl | hu
        · rw [h3 u hv]
          simp only [single_side_vert_e, hsel, if_true]
          cases hl : (single_side_longest bm u).2 with
          | none => simp [double_side_set_vert_e]
          | some e => simp [double_side_set_vert_e]
        · rw [h4 u hu]
          exact single_side_vert_e_congr _ _ hs u (hne u (fun h => hv (h ▸ hu)))
    · rw [if_neg hsel]
      obtain ⟨bm1, h1, h2, h3, h4⟩ := ih bm j hnd1
      refine ⟨bm1, ?_, h2, ?_, ?_⟩
      · rw [h1, List.filter_cons]
        have hq2 : ¬ single_side_qualifies bm v = true := by
          simp [single_side_qualifies, hsel]
        rw [if_neg hq2]
      · intro u hu
        exact h3 u (fun h => hu (List.mem_cons_of_mem _ h))
      · intro u hu
        rcases List.mem_cons.mp hu with rfl | hu
        · rw [h3 u hv]
          simp [single_side_vert_e, hsel]
        · exact h4 u hu

theorem modify_append_replicate (done : List TransDataEdgeSlideVert) (n : Nat)
    (f : TransDataEdgeSlideVert → TransDataEdgeSlideVert) :
    (done ++ List.replicate (n + 1) sv_calloc).modify f done.length =
      (done ++ [f sv_calloc]) ++ List.replicate n sv_calloc := by
  induction done with
  | nil => simp [List.replicate_succ]
  | cons a done ih => simpa [List.modify] using ih

/-- The second loop of the single-sided builder writes the primary records of
the vertices in mesh order into the front of the zero-initialised array, and
`sv_table` maps each of these vertices to the index of its record. -/
theorem single_side_fill_spec (bm : BMesh) :
    ∀ (vs : List Nat) (st : SingleSideState) (done : List TransDataEdgeSlideVert) (n : Nat),
      vs.Nodup →
      (∀ v ∈ vs, ∀ e, (bm.vert v).e = some e → (bm.vert v).select = true →
        (bm.edge e).select = false → BM_edge_other_vert bm e v ≠ none) →
      st.sv_array = done ++ List.replicate n sv_calloc → st.sv_tot = done.length →
      (vs.filterMap (single_side_primary bm)).length ≤ n →
      ∃ t, single_side_fill bm vs st =
          some ⟨t, done ++ vs.filterMap (single_side_primary bm) ++
              List.replicate (n - (vs.filterMap (single_side_primary bm)).length) sv_calloc,
            done.length + (vs.filterMap (single_side_primary bm)).length⟩ ∧
        (∀ v, v ∉ vs → t v = st.sv_table v) ∧
        (∀ v ∈ vs, single_side_primary bm v = none → t v = -1) ∧
        (∀ v ∈ vs, single_side_primary bm v ≠ none →
          ∃ k : Nat, t v = (k : Int) ∧ done.length ≤ k ∧
            k < done.length + (vs.filterMap (single_side_primary bm)).length) := by
  intro vs
  induction vs with
  | nil =>
    intro st done n _ _ harr htot _
    refine ⟨st.sv_table, ?_, fun _ _ => rfl, fun v hv => by simp at hv, fun v hv => by simp at hv⟩
    cases st
    simp only at harr htot
    simp [single_side_fill, harr, htot]
  | cons v vs ih =>
    intro st done n hnd hok harr htot hlen
    have hv : v ∉ vs := (List.nodup_cons.mp hnd).1
    have hnd1 : vs.Nodup := (List.nodup_cons.mp hnd).2
    have hok1 : ∀ u ∈ vs, ∀ e, (bm.vert u).e = some e → (bm.vert u).select = true →
        (bm.edge e).select = false → BM_edge_other_vert bm e u ≠ none :=
      fun u hu => hok u (List.mem_cons_of_mem _ hu)
    -- the case without a record
    have hnone : single_side_primary bm v = none →
        single_side_fill bm (v :: vs) st =
          single_side_fill bm vs { st with sv_table := Function.update st.sv_table v (-1) } →
        ∃ t, single_side_fill bm (v :: vs) st =
          some ⟨t, done ++ (v :: vs).filterMap (single_side_primary bm) ++
              List.replicate (n - ((v :: vs).filterMap (single_side_primary bm)).length)
                sv_calloc,
            done.length + ((v :: vs).filterMap (single_side_primary bm)).length⟩ ∧
        (∀ u, u ∉ v :: vs → t u = st.sv_table u) ∧
        (∀ u ∈ v :: vs, single_side_primary bm u = none → t u = -1) ∧
        (∀ u ∈ v :: vs, single_side_primary bm u ≠ none →
          ∃ k : Nat, t u = (k : Int) ∧ done.length ≤ k ∧
            k < done.length + ((v :: vs).filterMap (single_side_primary bm)).length) := by
      intro hp hstep
      have hfm : (v :: vs).filterMap (single_side_primary bm) =
          vs.filterMap (single_side_primary bm) := by
        rw [List.filterMap_cons, hp]
      rw [hfm] at hlen ⊢
      obtain ⟨t, h1, h2, h3, h4⟩ := ih
        { st with sv_table := Function.update st.sv_table v (-1) } done n hnd1 hok1 harr htot hlen
      refine ⟨t, hstep.trans h1, ?_, ?_, ?_⟩
      · intro u hu
        have huv : u ≠ v := fun h => hu (h ▸ List.mem_cons_self _ _)
        rw [h2 u (fun h => hu (List.mem_cons_of_mem _ h))]
        simp [Function.update_noteq huv]
      · intro u hu hpu
        rcases List.mem_cons.mp hu with rfl | hu
        · rw [h2 u hv]
          simp
        · exact h3 u hu hpu
      · intro u hu hpu
        rcases List.mem_cons.mp hu with rfl | hu
        · exact absurd hp hpu
        · exact h4 u hu hpu
    cases he : (bm.vert v).e with
    | none =>
      apply hnone
      · simp [single_side_primary, he]
      · simp [single_side_fill, he]
    | some e =>
      by_cases hc : (bm.vert v).select = true ∧ (bm.edge e).select = false
      · cases ho : BM_edge_other_vert bm e v with
        | none => exact absurd ho (hok v (List.mem_cons_self _ _) e he hc.1 hc.2)
        | some v_other =>
          have hp : single_side_primary bm v =
              some (single_side_set_primary bm v v_other sv_calloc) := by
            simp [single_side_primary, he, hc, ho]
          have hfm : (v :: vs).filterMap (single_side_primary bm) =
              single_side_set_primary bm v v_other sv_calloc ::
                vs.filterMap (single_side_primary bm) := by
            rw [List.filterMap_cons, hp]
          rw [hfm] at hlen ⊢
          rw [List.length_cons] at hlen ⊢
          obtain ⟨m, rfl⟩ : ∃ m, n = m + 1 := ⟨n - 1, by omega⟩
          obtain ⟨t, h1, h2, h3, h4⟩ := ih
            { sv_table := Function.update (Function.update st.sv_table v (-1)) v
                (done.length : Int)
              sv_array := (done ++ [single_side_set_primary bm v v_other sv_calloc]) ++
                List.replicate m sv_calloc
              sv_tot := done.length + 1 }
            (done ++ [single_side_set_primary bm v v_other sv_calloc]) m hnd1 hok1 rfl (by simp)
            (by omega)
          refine ⟨t, ?_, ?_, ?_, ?_⟩
          · have hw : sv_array_write st.sv_array st.sv_tot
                (single_side_set_primary bm v v_other) =
                some ((done ++ [single_side_set_primary bm v v_other sv_calloc]) ++
                  List.replicate m sv_calloc) := by
              rw [harr, htot, sv_array_write, if_pos (by simp), modify_append_replicate]
            rw [htot] at hw
            simp only [single_side_fill, he, hc, and_self, if_true, ho, htot, hw]
            rw [h1]
            simp only [List.length_append, List.length_singleton, List.append_assoc,
              List.singleton_append, Option.some.injEq, SingleSideState.mk.injEq, true_and]
            refine ⟨?_, by omega⟩
            congr 3
            omega
          · intro u hu
            have huv : u ≠ v := fun h => hu (h ▸ List.mem_cons_self _ _)
            rw [h2 u (fun h => hu (List.mem_cons_of_mem _ h))]
            simp [Function.update_noteq huv]
          · intro u hu hpu
            rcases List.mem_cons.mp hu with rfl | hu
            · rw [hp] at hpu
              cases hpu
            · exact h3 u hu hpu
          · intro u hu hpu
            rcases List.mem_cons.mp hu with rfl | hu
            · refine ⟨done.length, ?_, le_refl _, by omega⟩
              rw [h2 u hv]
              simp
            · obtain ⟨k, hk1, hk2, hk3⟩ := h4 u hu hpu
              simp only [List.length_append, List.length_singleton] at hk2 hk3
              exact ⟨k, hk1, by omega, by omega⟩
      · apply hnone
        · simp [single_side_primary, he, hc]
        · simp [single_side_fill, he, hc]

theorem mesh_ok_congr {bm bm1 : BMesh} (h : MeshOK bm) (hs : same_but_vert_e bm bm1) :
    MeshOK bm1 := by
  obtain ⟨h1, h2, _, _, he, _, _, hv⟩ := hs
  intro v hv1 e hed
  rw [h1] at hv1
  rw [(hv v).2.2] at hed
  have := h v hv1 e hed
  simpa only [he, h1, h2, (hv _).2.2, (hv _).2.1] using this

theorem totvertsel_congr {bm bm1 : BMesh} (hs : same_but_vert_e bm bm1) :
    bm1.totvertsel = bm.totvertsel := by
  obtain ⟨h1, _, _, _, _, _, _, hv⟩ := hs
  simp only [BMesh.totvertsel, h1, (hv _).2.1]

/-- Different selected vertices of the mesh are at most `totvertsel` many. -/
theorem length_le_totvertsel (bm : BMesh) (l : List Nat) (hnd : l.Nodup)
    (hl : ∀ u ∈ l, u < bm.totvert ∧ (bm.vert u).select = true) :
    l.length ≤ bm.totvertsel := by
  unfold BMesh.totvertsel
  apply List.Subperm.length_le
  apply List.Nodup.subperm hnd
  intro u hu
  simp only [List.mem_filter, List.mem_range]
  exact hl u hu

theorem totvertsel_le (bm : BMesh) : bm.totvertsel ≤ bm.totvert := by
  unfold BMesh.totvertsel
  calc ((List.range bm.totvert).filter (fun v => (bm.vert v).select)).length
      ≤ (List.range bm.totvert).length := List.length_filter_le _ _
    _ = bm.totvert := List.length_range _

theorem WireInv.mono {bm : BMesh} {t : Nat → Int} {vs : List Nat} {j j0 : Nat}
    (h : WireInv bm t vs j) (hj : j0 ≤ j) : WireInv bm t vs j0 where
  len := h.len
  recs := fun k hk => h.recs k (by omega)
  nodup := by
    have : vs.take j0 = (vs.take j).take j0 := by
      rw [List.take_take, Nat.min_eq_left hj]
    rw [this]
    exact List.Nodup.sublist (List.take_sublist _ _) h.nodup
  bound := h.bound

theorem wire_inv_mem {bm : BMesh} {t : Nat → Int} {vs : List Nat} {j : Nat}
    (h : WireInv bm t vs j) : ∀ u ∈ vs.take j,
      u < bm.totvert ∧ (bm.vert u).select = true ∧ t u ≠ -1 := by
  intro u hu
  obtain ⟨k, hk⟩ := List.getElem?_of_mem hu
  have hkj : k < j := by
    have := (List.getElem?_eq_some_iff.mp hk).1
    simp only [List.length_take] at this
    omega
  obtain ⟨u1, h1, h2⟩ := h.recs k hkj
  rw [List.getElem?_take_of_lt hkj] at hk
  rw [h1] at hk
  cases hk
  exact h2

theorem WireInv.le {bm : BMesh} {t : Nat → Int} {vs : List Nat} {j : Nat}
    (h : WireInv bm t vs j) : j ≤ bm.totvertsel := by
  rw [← h.len]
  by_contra hc
  push_neg at hc
  obtain ⟨u, hu, -⟩ := h.recs vs.length hc
  simp at hu

/-- A selected vertex without an index in `sv_table` leaves room in `sv_array`. -/
theorem WireInv.lt {bm : BMesh} {t : Nat → Int} {vs : List Nat} {j : Nat}
    (h : WireInv bm t vs j) (v : Nat) (hv : v < bm.totvert) (hs : (bm.vert v).select = true)
    (ht : t v = -1) : v ∉ vs.take j ∧ j < bm.totvertsel := by
  have hnot : v ∉ vs.take j := fun hm => (wire_inv_mem h v hm).2.2 ht
  refine ⟨hnot, ?_⟩
  have hlen : (vs.take j).length = j := by
    rw [List.length_take, h.len]
    exact Nat.min_eq_left h.le
  have := length_le_totvertsel bm (v :: vs.take j) (List.nodup_cons.mpr ⟨hnot, h.nodup⟩) (by
    intro u hu
    rcases List.mem_cons.mp hu with rfl | hu
    · exact ⟨hv, hs⟩
    · exact ⟨(wire_inv_mem h u hu).1, (wire_inv_mem h u hu).2.1⟩)
  rw [List.length_cons, hlen] at this
  omega

theorem take_modify_of_le {α : Type} (f : α → α) (l : List α) (n m : Nat) (h : m ≤ n) :
    (l.modify f n).take m = l.take m := by
  apply List.ext_getElem?
  intro k
  by_cases hk : k < m
  · rw [List.getElem?_take_of_lt hk, List.getElem?_take_of_lt hk, List.getElem?_modify]
    have : n ≠ k := by omega
    simp [this]
  · rw [List.getElem?_eq_none (by simp; omega), List.getElem?_eq_none (by simp; omega)]

/-- In a consistent mesh an edge of the disk cycle of `v` leads to another
vertex of the mesh, in whose disk cycle it is. -/
theorem MeshOK.other_vert {bm : BMesh} (h : MeshOK bm) (v e : Nat) (hv : v < bm.totvert)
    (he : e ∈ (bm.vert v).disk) :
    ∃ v_other, BM_edge_other_vert bm e v = some v_other ∧ v_other < bm.totvert ∧
      e ∈ (bm.vert v_other).disk := by
  obtain ⟨-, hor, hne, h1, h2, hd1, hd2, -⟩ := h v hv e he
  rcases hor with hv1 | hv2
  · exact ⟨(bm.edge e).v2, by simp [BM_edge_other_vert, hv1], h2, hd2⟩
  · have : (bm.edge e).v1 ≠ v := fun h => hne (h.trans hv2.symm)
    exact ⟨(bm.edge e).v1, by simp [BM_edge_other_vert, this, hv2], h1, hd1⟩

theorem BM_DISK_EDGE_NEXT_mem (bm : BMesh) (e v : Nat) (he : e ∈ (bm.vert v).disk) :
    BM_DISK_EDGE_NEXT bm e v ∈ (bm.vert v).disk := by
  unfold BM_DISK_EDGE_NEXT
  have hpos : 0 < (bm.vert v).disk.length := List.length_pos_of_mem he
  rw [List.getD_eq_getElem _ _ (Nat.mod_lt _ hpos)]
  exact List.getElem_mem _

/-- The walk over wire ends, stays inside `sv_array`, keeps the invariant of the
wire pass and leaves the records before `j` as they are; the record it ends at,
if any, is inside the array. -/
theorem single_side_walk_spec (bm : BMesh) (hm : MeshOK bm) (i sv_tot : Nat) :
    ∀ (fuel : Nat) (t : Nat → Int) (arr : List TransDataEdgeSlideVert) (j v e_step : Nat),
      WireInv bm t (arr.map (fun sv => sv.v)) j → sv_tot ≤ j → i < sv_tot →
      v < bm.totvert → e_step ∈ (bm.vert v).disk → bm.totvertsel - j < fuel →
      ∃ t1 arr1 j1 oe, single_side_walk bm i sv_tot fuel t arr j v e_step =
          some (t1, arr1, j1, oe) ∧
        WireInv bm t1 (arr1.map (fun sv => sv.v)) j1 ∧ j ≤ j1 ∧ arr1.take j = arr.take j ∧
        ∀ idx, oe = some idx → 0 ≤ idx ∧ idx.toNat < bm.totvertsel := by
  intro fuel
  induction fuel with
  | zero => intro t arr j v e_step _ _ _ _ _ hf; omega
  | succ fuel ih =>
    intro t arr j v e_step hinv hj hi hv he hf
    obtain ⟨v_other, ho, hvo, heo⟩ := hm.other_vert v e_step hv he
    have hlen : arr.length = bm.totvertsel := by
      have := hinv.len
      simpa using this
    unfold single_side_walk
    simp only [ho]
    by_cases hc : ((bm.edge e_step).select = true ∧ (bm.vert v_other).select = true) ∧
        ((if t v_other ≠ -1 then 1 else 0) +
          (if BM_vert_is_edge_pair bm v_other = false then 1 else 0)) = 0
    · rw [if_pos hc]
      have ht : t v_other = -1 := by
        by_contra hne
        have := hc.2
        rw [if_pos hne] at this
        omega
      obtain ⟨hnot, hlt⟩ := hinv.lt v_other hvo hc.1.2 ht
      have hil : i < arr.length := by omega
      have hjl : j < arr.length := by omega
      rw [List.getElem?_eq_getElem hil]
      simp only [sv_array_write, hjl, if_true]
      have hmapv : ((arr.modify (single_side_set_wire bm v_other arr[i]) j).map
          (fun sv => sv.v))[j]? = some v_other := by
        rw [List.getElem?_map, List.getElem?_modify, List.getElem?_eq_getElem hjl]
        simp [single_side_set_wire]
      have hmapk : ∀ k, k ≠ j →
          ((arr.modify (single_side_set_wire bm v_other arr[i]) j).map (fun sv => sv.v))[k]? =
            (arr.map (fun sv => sv.v))[k]? := by
        intro k hk
        rw [List.getElem?_map, List.getElem?_modify, List.getElem?_map]
        have : j ≠ k := fun h => hk h.symm
        simp [this]
      have htake : ((arr.modify (single_side_set_wire bm v_other arr[i]) j).map
          (fun sv => sv.v)).take j = (arr.map (fun sv => sv.v)).take j := by
        rw [← List.map_take, ← List.map_take, take_modify_of_le _ _ _ _ (le_refl _)]
      have hinv1 : WireInv bm (Function.update t v_other (j : Int))
          ((arr.modify (single_side_set_wire bm v_other arr[i]) j).map (fun sv => sv.v))
          (j + 1) := by
        refine ⟨by simpa using hlen, ?_, ?_, ?_⟩
        · intro k hk
          by_cases hkj : k = j
          · subst hkj
            refine ⟨v_other, hmapv, hvo, hc.1.2, ?_⟩
            simp only [Function.update_same]
            omega
          · obtain ⟨u, hu1, hu2, hu3, hu4⟩ := hinv.recs k (by omega)
            refine ⟨u, (hmapk k hkj).trans hu1, hu2, hu3, ?_⟩
            by_cases huv : u = v_other
            · rw [huv, Function.update_same]
              omega
            · rw [Function.update_noteq huv]
              exact hu4
        · rw [List.take_succ, htake, hmapv]
          simp only [Option.toList_some]
          rw [List.nodup_append]
          refine ⟨hinv.nodup, List.nodup_singleton _, ?_⟩
          intro a ha hb
          rw [List.mem_singleton] at hb
          exact hnot (hb ▸ ha)
        · intro u hu
          by_cases huv : u = v_other
          · rw [huv, Function.update_same]
            constructor
            · omega
            · simpa using hlt
          · rw [Function.update_noteq huv] at hu ⊢
            exact hinv.bound u hu
      obtain ⟨t1, arr1, j1, oe, h1, h2, h3, h4, h5⟩ := ih (Function.update t v_other (j : Int))
        (arr.modify (single_side_set_wire bm v_other arr[i]) j) (j + 1) v_other
        (BM_DISK_EDGE_NEXT bm e_step v_other) hinv1 (by omega) hi hvo
        (BM_DISK_EDGE_NEXT_mem bm e_step v_other heo) (by omega)
      refine ⟨t1, arr1, j1, oe, h1, h2, by omega, ?_, h5⟩
      have := congrArg (List.take j) h4
      rw [List.take_take, List.take_take, Nat.min_eq_left (by omega),
        take_modify_of_le _ _ _ _ (le_refl _)] at this
      exact this
    · rw [if_neg hc]
      refine ⟨t, arr, j, _, rfl, hinv, le_refl _, rfl, ?_⟩
      intro idx hidx
      by_cases hne : t v_other = -1
      · exfalso
        by_cases h2 : ((if t v_other ≠ -1 then 1 else 0) +
            (if BM_vert_is_edge_pair bm v_other = false then 1 else 0)) = 2 ∧ sv_tot ≠ j
        · have := h2.1
          rw [if_neg (not_not.mpr hne)] at this
          by_cases hp : BM_vert_is_edge_pair bm v_other = false
          · rw [if_pos hp] at this; omega
          · rw [if_neg hp] at this; omega
        · rw [if_neg h2] at hidx
          cases hidx
      · by_cases h2 : ((if t v_other ≠ -1 then 1 else 0) +
            (if BM_vert_is_edge_pair bm v_other = false then 1 else 0)) = 2 ∧ sv_tot ≠ j
        · rw [if_pos h2] at hidx
          cases hidx
          exact hinv.bound v_other hne
        · rw [if_neg h2] at hidx
          cases hidx

/-- The interpolation loop stays inside `sv_array` and changes directions only,
in records from `sv_tot_prev` on. -/
theorem single_side_interp_spec (bm : BMesh) (co_src co_dst : V3) (i i_end sv_tot_prev : Nat) :
    ∀ (n : Nat) (arr : List TransDataEdgeSlideVert),
      sv_tot_prev + n ≤ arr.length → i < arr.length → i_end < arr.length →
      ∃ arr1, single_side_interp bm co_src co_dst i i_end sv_tot_prev n arr = some arr1 ∧
        arr1.map (fun sv => sv.v) = arr.map (fun sv => sv.v) ∧
        arr1.take sv_tot_prev = arr.take sv_tot_prev := by
  intro n
  induction n with
  | zero => intro arr _ _ _; exact ⟨arr, rfl, rfl, rfl⟩
  | succ n ih =>
    intro arr hn hi hie
    unfold single_side_interp
    rw [List.getElem?_eq_getElem (show sv_tot_prev + n < arr.length by omega),
      List.getElem?_eq_getElem hi, List.getElem?_eq_getElem hie]
    simp only
    obtain ⟨arr1, h1, h2, h3⟩ := ih (arr.modify (fun sv =>
        { sv with
          dir_side := Function.update sv.dir_side 0
            (interp_v3_v3v3 (arr[i].dir_side 0) (arr[i_end].dir_side 0)
              (line_point_factor_v3 (bm.vert arr[sv_tot_prev + n].v).co co_src co_dst)) })
      (sv_tot_prev + n)) (by rw [List.length_modify]; omega) (by rw [List.length_modify]; exact hi)
      (by rw [List.length_modify]; exact hie)
    refine ⟨arr1, h1, ?_, ?_⟩
    · rw [h2]
      exact map_modify_same _ _ _ _ (fun _ _ => rfl)
    · rw [h3]
      exact take_modify_of_le _ _ _ _ (by omega)

/-- One walk of the wire pass with its interpolation ends, keeps the invariant
and leaves the records in use before it as they are. -/
theorem single_side_wire_edge_spec (bm : BMesh) (hm : MeshOK bm) (fuel i : Nat)
    (st : SingleSideState) (e : Nat)
    (hinv : WireInv bm st.sv_table (st.sv_array.map (fun sv => sv.v)) st.sv_tot)
    (hi : i < st.sv_tot) (hfuel : bm.totvert < fuel)
    (he : ∀ sv, st.sv_array[i]? = some sv → e ∈ (bm.vert sv.v).disk) :
    ∃ st1, single_side_wire_edge bm fuel i st e = some st1 ∧
      WireInv bm st1.sv_table (st1.sv_array.map (fun sv => sv.v)) st1.sv_tot ∧
      st.sv_tot ≤ st1.sv_tot ∧ st1.sv_array.take st.sv_tot = st.sv_array.take st.sv_tot := by
  have hlen : st.sv_array.length = bm.totvertsel := by
    have := hinv.len
    simpa using this
  have hle := hinv.le
  have hil : i < st.sv_array.length := by omega
  obtain ⟨u, hu1, hu2, -, -⟩ := hinv.recs i hi
  rw [List.getElem?_map, List.getElem?_eq_getElem hil] at hu1
  simp only [Option.map_some', Option.some.injEq] at hu1
  have hed := he _ (List.getElem?_eq_getElem hil)
  obtain ⟨t1, arr1, j1, oe, h1, h2, h3, h4, h5⟩ := single_side_walk_spec bm hm i st.sv_tot fuel
    st.sv_table st.sv_array st.sv_tot (st.sv_array[i]).v e hinv (le_refl _) hi (hu1 ▸ hu2) hed
    (by have := totvertsel_le bm; omega)
  have hlen1 : arr1.length = bm.totvertsel := by
    have := h2.len
    simpa using this
  unfold single_side_wire_edge
  rw [List.getElem?_eq_getElem hil]
  simp only [h1]
  cases oe with
  | none =>
    exact ⟨_, rfl, h2.mono h3, le_refl _, h4⟩
  | some idx =>
    obtain ⟨hidx0, hidx1⟩ := h5 idx rfl
    simp only [hidx0, if_true]
    rw [List.getElem?_eq_getElem (show idx.toNat < arr1.length by omega)]
    simp only
    obtain ⟨arr2, g1, g2, g3⟩ := single_side_interp_spec bm (bm.vert (st.sv_array[i]).v).co
      (bm.vert (arr1[idx.toNat]).v).co i idx.toNat st.sv_tot (j1 - st.sv_tot) arr1
      (by have := h2.le; omega) (by omega) (by omega)
    rw [g1]
    refine ⟨_, rfl, ?_, h3, g3.trans h4⟩
    simp only
    rw [g2]
    exact h2

theorem getElem?_of_take_eq {α : Type} (l1 l2 : List α) (n i : Nat) (h : l1.take n = l2.take n)
    (hi : i < n) : l1[i]? = l2[i]? := by
  rw [← List.getElem?_take_of_lt hi, h, List.getElem?_take_of_lt hi]

theorem take_eq_of_take_eq {α : Type} (l1 l2 : List α) (n m : Nat) (h : l1.take n = l2.take n)
    (hm : m ≤ n) : l1.take m = l2.take m := by
  have := congrArg (List.take m) h
  rwa [List.take_take, List.take_take, Nat.min_eq_left hm] at this

/-- The walks from the edges of one record end, keep the invariant and leave the
records in use before them as they are. -/
theorem single_side_wire_edges_spec (bm : BMesh) (hm : MeshOK bm) (fuel i : Nat)
    (hfuel : bm.totvert < fuel) :
    ∀ (es : List Nat) (st : SingleSideState),
      WireInv bm st.sv_table (st.sv_array.map (fun sv => sv.v)) st.sv_tot → i < st.sv_tot →
      (∀ e ∈ es, ∀ sv, st.sv_array[i]? = some sv → e ∈ (bm.vert sv.v).disk) →
      ∃ st1, single_side_wire_edges bm fuel i es st = some st1 ∧
        WireInv bm st1.sv_table (st1.sv_array.map (fun sv => sv.v)) st1.sv_tot ∧
        st.sv_tot ≤ st1.sv_tot ∧
        st1.sv_array.take st.sv_tot = st.sv_array.take st.sv_tot := by
  intro es
  induction es with
  | nil => intro st hinv _ _; exact ⟨st, rfl, hinv, le_refl _, rfl⟩
  | cons e es ih =>
    intro st hinv hi he
    obtain ⟨st1, h1, h2, h3, h4⟩ := single_side_wire_edge_spec bm hm fuel i st e hinv hi hfuel
      (he e (List.mem_cons_self _ _))
    obtain ⟨st2, g1, g2, g3, g4⟩ := ih st1 h2 (by omega) (by
      intro e1 he1 sv hsv
      rw [getElem?_of_take_eq _ _ _ _ h4 hi] at hsv
      exact he e1 (List.mem_cons_of_mem _ he1) sv hsv)
    refine ⟨st2, ?_, g2, by omega, ?_⟩
    · simp only [single_side_wire_edges, h1, g1]
    · rw [take_eq_of_take_eq _ _ _ _ g4 h3, h4]

/-- The wire pass ends, keeps the invariant and leaves the records in use before
it as they are. -/
theorem single_side_wire_spec (bm : BMesh) (hm : MeshOK bm) (fuel : Nat)
    (hfuel : bm.totvert < fuel) :
    ∀ (is : List Nat) (st : SingleSideState),
      WireInv bm st.sv_table (st.sv_array.map (fun sv => sv.v)) st.sv_tot →
      (∀ i ∈ is, i < st.sv_tot) →
      ∃ st1, single_side_wire bm fuel is st = some st1 ∧
        WireInv bm st1.sv_table (st1.sv_array.map (fun sv => sv.v)) st1.sv_tot ∧
        st.sv_tot ≤ st1.sv_tot ∧
        st1.sv_array.take st.sv_tot = st.sv_array.take st.sv_tot := by
  intro is
  induction is with
  | nil => intro st hinv _; exact ⟨st, rfl, hinv, le_refl _, rfl⟩
  | cons i is ih =>
    intro st hinv hi
    have hi0 : i < st.sv_tot := hi i (List.mem_cons_self _ _)
    have hlen : st.sv_array.length = bm.totvertsel := by
      have := hinv.len
      simpa using this
    have hle := hinv.le
    have hil : i < st.sv_array.length := by omega
    obtain ⟨st1, h1, h2, h3, h4⟩ := single_side_wire_edges_spec bm hm fuel i hfuel
      (BM_EDGES_OF_VERT bm (st.sv_array[i]).v) st hinv hi0 (by
        intro e he sv hsv
        rw [List.getElem?_eq_getElem hil] at hsv
        cases hsv
        exact mem_BM_EDGES_OF_VERT bm _ e he)
    obtain ⟨st2, g1, g2, g3, g4⟩ := ih st1 h2 (fun k hk => by
      have := hi k (List.mem_cons_of_mem _ hk)
      omega)
    refine ⟨st2, ?_, g2, by omega, ?_⟩
    · simp only [single_side_wire, List.getElem?_eq_getElem hil, h1, g1]
    · rw [take_eq_of_take_eq _ _ _ _ g4 h3, h4]

theorem BM_edge_other_vert_congr {bm bm1 : BMesh} (hs : same_but_vert_e bm bm1) (e v : Nat) :
    BM_edge_other_vert bm1 e v = BM_edge_other_vert bm e v := by
  obtain ⟨_, _, _, _, he, _, _, _⟩ := hs
  simp only [BM_edge_other_vert, he]

theorem mem_single_side_unselected (bm : BMesh) (v e : Nat) :
    e ∈ single_side_unselected bm v ↔
      e ∈ BM_EDGES_OF_VERT bm v ∧ (bm.edge e).select = false := by
  simp [single_side_unselected, List.mem_filter]

/-- The primary record of a vertex after the first loop: none unless the vertex
qualifies, and then the record whose rail is the first of the longest unselected
edges of the vertex. -/
theorem single_side_primary_spec (bm bm1 : BMesh) (hm : MeshOK bm) (hve : VertEdgeOK bm)
    (hs : same_but_vert_e bm bm1) (v : Nat) (hv : v < bm.totvert)
    (he1 : (bm1.vert v).e = single_side_vert_e bm v) :
    (∀ e, (bm1.vert v).e = some e → (bm1.vert v).select = true → (bm1.edge e).select = false →
      BM_edge_other_vert bm1 e v ≠ none) ∧
    ((single_side_qualifies bm v = false ∧ single_side_primary bm1 v = none) ∨
      (single_side_qualifies bm v = true ∧
        ∃ (j : Nat) (e v_other : Nat), (single_side_unselected bm v)[j]? = some e ∧
          BM_edge_other_vert bm e v = some v_other ∧
          (∀ x ∈ single_side_unselected bm v,
            BM_edge_calc_length_squared bm x ≤ BM_edge_calc_length_squared bm e) ∧
          (∀ (i : Nat) (x : Nat), i < j → (single_side_unselected bm v)[i]? = some x →
            BM_edge_calc_length_squared bm x < BM_edge_calc_length_squared bm e) ∧
          single_side_primary bm1 v = some (single_side_set_primary bm1 v v_other sv_calloc))) := by
  have hedge : bm1.edge = bm.edge := hs.2.2.2.2.1
  have hsel : (bm1.vert v).select = (bm.vert v).select := (hs.2.2.2.2.2.2.2 v).2.1
  by_cases hvs : (bm.vert v).select = true
  · rcases single_side_longest_spec bm v with ⟨hu, hl⟩ | ⟨j, e, hj, hl, hmax, hfirst⟩
    · -- no unselected edge
      have hev : (bm1.vert v).e = (bm.vert v).e := by
        rw [he1]
        simp [single_side_vert_e, hvs, hl]
      have hall : ∀ e, (bm1.vert v).e = some e → (bm1.edge e).select = true := by
        intro e he
        rw [hev] at he
        have hd := hve v hv e he
        have hmem := mem_BM_EDGES_OF_VERT_of_disk bm v e e he hd
        by_contra hne
        have : e ∈ single_side_unselected bm v :=
          (mem_single_side_unselected bm v e).mpr ⟨hmem, by rw [← hedge]; simpa using hne⟩
        rw [hu] at this
        simp at this
      refine ⟨?_, Or.inl ⟨by simp [single_side_qualifies, hu], ?_⟩⟩
      · intro e he _ hne
        rw [hall e he] at hne
        cases hne
      · unfold single_side_primary
        cases he : (bm1.vert v).e with
        | none => rfl
        | some e => simp [hall e he]
    · -- the longest unselected edge
      have hmem : e ∈ single_side_unselected bm v := List.getElem?_mem hj
      obtain ⟨hme, hunsel⟩ := (mem_single_side_unselected bm v e).mp hmem
      have hev : (bm1.vert v).e = some e := by
        rw [he1]
        simp [single_side_vert_e, hvs, hl]
      obtain ⟨v_other, ho, -, -⟩ := hm.other_vert v e hv (mem_BM_EDGES_OF_VERT bm v e hme)
      have ho1 : BM_edge_other_vert bm1 e v = some v_other := by
        rw [BM_edge_other_vert_congr hs]; exact ho
      refine ⟨?_, Or.inr ⟨?_, j, e, v_other, hj, ho, hmax, hfirst, ?_⟩⟩
      · intro e2 he2 _ _
        rw [hev] at he2
        cases he2
        rw [ho1]
        simp
      · have hne : single_side_unselected bm v ≠ [] := List.ne_nil_of_mem hmem
        simp [single_side_qualifies, hvs, hne]
      · simp [single_side_primary, hev, hsel, hvs, hedge, hunsel, ho1]
  · have hvs1 : ¬ (bm1.vert v).select = true := by rw [hsel]; exact hvs
    refine ⟨fun e _ h _ => absurd h hvs1, Or.inl ⟨by simp [single_side_qualifies, hvs], ?_⟩⟩
    unfold single_side_primary
    cases he : (bm1.vert v).e with
    | none => rfl
    | some e => simp [hvs1]

theorem length_filterMap_eq_filter {α β : Type} (f : α → Option β) (p : α → Bool) :
    ∀ l : List α, (∀ x ∈ l, (f x).isSome = p x) →
      (l.filterMap f).length = (l.filter p).length := by
  intro l
  induction l with
  | nil => intro _; rfl
  | cons a l ih =>
    intro h
    have ha := h a (List.mem_cons_self _ _)
    have ih1 := ih (fun x hx => h x (List.mem_cons_of_mem _ hx))
    rw [List.filterMap_cons, List.filter_cons]
    cases hf : f a with
    | none =>
      rw [hf] at ha
      simp only [Option.isSome_none] at ha
      simp [← ha, ih1]
    | some b =>
      rw [hf] at ha
      simp only [Option.isSome_some] at ha
      simp [← ha, ih1]

theorem map_filterMap_eq_filter (f : Nat → Option TransDataEdgeSlideVert) (p : Nat → Bool) :
    ∀ l : List Nat, (∀ x ∈ l, (f x).isSome = p x) → (∀ x sv, f x = some sv → sv.v = x) →
      (l.filterMap f).map (fun sv => sv.v) = l.filter p := by
  intro l
  induction l with
  | nil => intro _ _; rfl
  | cons a l ih =>
    intro h hv
    have ha := h a (List.mem_cons_self _ _)
    have ih1 := ih (fun x hx => h x (List.mem_cons_of_mem _ hx)) hv
    rw [List.filterMap_cons, List.filter_cons]
    cases hf : f a with
    | none =>
      rw [hf] at ha
      simp only [Option.isSome_none] at ha
      simp [← ha, ih1]
    | some b =>
      rw [hf] at ha
      simp only [Option.isSome_some] at ha
      simp [← ha, ih1, hv a b hf]

theorem single_side_primary_v (bm : BMesh) (v : Nat) (sv : TransDataEdgeSlideVert)
    (h : single_side_primary bm v = some sv) : sv.v = v := by
  unfold single_side_primary at h
  cases he : (bm.vert v).e with
  | none => simp [he] at h
  | some e =>
    simp only [he] at h
    split_ifs at h
    cases ho : BM_edge_other_vert bm e v with
    | none => simp [ho] at h
    | some v_other =>
      simp only [ho, Option.some.injEq] at h
      rw [← h]
      rfl

/-- The single-sided builder without a vertex that qualifies returns no data. -/
theorem single_side_sv_none (fuel : Nat) (bm : BMesh)
    (hq : (List.range bm.totvert).filter (single_side_qualifies bm) = []) :
    createEdgeSlideVerts_single_side_sv fuel bm = some none := by
  obtain ⟨bm1, h1, -⟩ := single_side_check_verts_spec (List.range bm.totvert) bm 0
    (List.nodup_range _)
  unfold createEdgeSlideVerts_single_side_sv
  simp only [h1, hq, List.length_nil, Nat.add_zero, if_true]

/-- The single-sided builder with a vertex that qualifies, in a consistent mesh:
it returns records; the first loop has changed nothing but `v->e`; the primary
records of the vertices that qualify come first, in mesh order, and the number
of records is at most the number of selected vertices. -/
theorem single_side_sv_some (fuel : Nat) (bm : BMesh) (hm : MeshOK bm) (hve : VertEdgeOK bm)
    (hfuel : bm.totvert < fuel)
    (hq : (List.range bm.totvert).filter (single_side_qualifies bm) ≠ []) :
    ∃ bm1 st, createEdgeSlideVerts_single_side_sv fuel bm = some (some (bm1, st)) ∧
      same_but_vert_e bm bm1 ∧
      (∀ v, v < bm.totvert → (bm1.vert v).e = single_side_vert_e bm v) ∧
      ((List.range bm.totvert).filter (single_side_qualifies bm)).length ≤ st.sv_tot ∧
      st.sv_tot ≤ bm.totvertsel ∧ st.sv_array.length = bm.totvertsel ∧
      st.sv_array.take ((List.range bm.totvert).filter (single_side_qualifies bm)).length =
        (List.range bm.totvert).filterMap (single_side_primary bm1) := by
  obtain ⟨bm1, h1, hs, -, hve1⟩ := single_side_check_verts_spec (List.range bm.totvert) bm 0
    (List.nodup_range _)
  have htv : bm1.totvert = bm.totvert := hs.1
  have hcap : bm1.totvertsel = bm.totvertsel := totvertsel_congr hs
  have hm1 : MeshOK bm1 := mesh_ok_congr hm hs
  have hprim := fun v (hv : v < bm.totvert) =>
    single_side_primary_spec bm bm1 hm hve hs v hv (hve1 v (List.mem_range.mpr hv))
  have hsome : ∀ x ∈ List.range bm.totvert,
      (single_side_primary bm1 x).isSome = single_side_qualifies bm x := by
    intro x hx
    rcases (hprim x (List.mem_range.mp hx)).2 with ⟨g1, g2⟩ | ⟨g1, _, _, _, _, _, _, _, g2⟩
    · rw [g1, g2]; rfl
    · rw [g1, g2]; rfl
  have hlenq := length_filterMap_eq_filter (single_side_primary bm1) (single_side_qualifies bm)
    (List.range bm.totvert) hsome
  have hmapv := map_filterMap_eq_filter (single_side_primary bm1) (single_side_qualifies bm)
    (List.range bm.totvert) hsome (single_side_primary_v bm1)
  have hndq : ((List.range bm.totvert).filter (single_side_qualifies bm)).Nodup :=
    List.Nodup.filter _ (List.nodup_range _)
  have hqsel : ∀ u ∈ (List.range bm.totvert).filter (single_side_qualifies bm),
      u < bm.totvert ∧ (bm.vert u).select = true := by
    intro u hu
    obtain ⟨hu1, hu2⟩ := List.mem_filter.mp hu
    refine ⟨List.mem_range.mp hu1, ?_⟩
    simp only [single_side_qualifies, Bool.and_eq_true] at hu2
    exact hu2.1
  have hn0 : ((List.range bm.totvert).filter (single_side_qualifies bm)).length ≤
      bm.totvertsel := length_le_totvertsel bm _ hndq hqsel
  obtain ⟨t, hfill, ht1, ht2, ht3⟩ := single_side_fill_spec bm1 (List.range bm.totvert)
    { sv_table := fun _ => -1, sv_array := List.replicate bm1.totvertsel sv_calloc, sv_tot := 0 }
    [] bm.totvertsel (List.nodup_range _)
    (fun v hv => (hprim v (List.mem_range.mp hv)).1) (by simp [hcap]) rfl
    (by rw [hlenq]; exact hn0)
  rw [hlenq, hcap] at hfill
  rw [hlenq] at ht3
  simp only [List.nil_append, List.length_nil, Nat.zero_add] at hfill ht3
  -- the invariant of the wire pass after the second loop
  have hinv : WireInv bm1 t
      (((List.range bm.totvert).filterMap (single_side_primary bm1) ++
        List.replicate (bm.totvertsel -
          ((List.range bm.totvert).filter (single_side_qualifies bm)).length) sv_calloc).map
        (fun sv => sv.v))
      ((List.range bm.totvert).filter (single_side_qualifies bm)).length := by
    have hmaplen : ((List.range bm.totvert).filterMap (single_side_primary bm1)).length =
        ((List.range bm.totvert).filter (single_side_qualifies bm)).length := hlenq
    refine ⟨?_, ?_, ?_, ?_⟩
    · rw [List.length_map, List.length_append, List.length_replicate, hmaplen, hcap]
      omega
    · intro k hk
      rw [List.map_append, hmapv, List.getElem?_append_left hk]
      have hu := List.getElem_mem hk
      refine ⟨_, List.getElem?_eq_getElem hk, ?_, ?_, ?_⟩
      · rw [htv]; exact (hqsel _ hu).1
      · rw [(hs.2.2.2.2.2.2.2 _).2.1]; exact (hqsel _ hu).2
      · have hr := (List.mem_filter.mp hu).1
        obtain ⟨k1, hk1, -, -⟩ := ht3 _ hr (by
          rw [← Option.isSome_iff_ne_none, hsome _ hr]
          exact (List.mem_filter.mp hu).2)
        rw [hk1]
        omega
    · rw [List.map_append, hmapv, List.take_left' rfl]
      exact hndq
    · intro v hv
      by_cases hr : v ∈ List.range bm.totvert
      · by_cases hp : single_side_primary bm1 v = none
        · exact absurd (ht2 v hr hp) hv
        · obtain ⟨k1, hk1, -, hk3⟩ := ht3 v hr hp
          rw [hk1, hcap]
          constructor
          · omega
          · simp only [Int.toNat_ofNat]
            omega
      · exact absurd (ht1 v hr) hv
  unfold createEdgeSlideVerts_single_side_sv
  simp only [h1, Nat.zero_add]
  rw [if_neg (by simpa [List.length_eq_zero] using hq)]
  simp only [htv, hcap, hfill]
  by_cases hw : ((List.range bm.totvert).filter (single_side_qualifies bm)).length ≠ bm.totvert
  · rw [if_pos hw]
    obtain ⟨st1, g1, g2, g3, g4⟩ := single_side_wire_spec bm1 hm1 fuel (by rw [htv]; exact hfuel)
      (List.range ((List.range bm.totvert).filter (single_side_qualifies bm)).length)
      { sv_table := t
        sv_array := (List.range bm.totvert).filterMap (single_side_primary bm1) ++
          List.replicate (bm.totvertsel -
            ((List.range bm.totvert).filter (single_side_qualifies bm)).length) sv_calloc
        sv_tot := ((List.range bm.totvert).filter (single_side_qualifies bm)).length }
      hinv (fun i hi => List.mem_range.mp hi)
    simp only at g1 g3 g4
    rw [g1]
    refine ⟨bm1, st1, rfl, hs, fun v hv => hve1 v (List.mem_range.mpr hv), g3, ?_, ?_, ?_⟩
    · rw [← hcap]; exact g2.le
    · have := g2.len
      rw [List.length_map, hcap] at this
      exact this
    · rw [g4, List.take_left' hlenq]
  · rw [if_neg hw]
    refine ⟨bm1, _, rfl, hs, fun v hv => hve1 v (List.mem_range.mpr hv), le_refl _, hn0, ?_, ?_⟩
    · simp only [List.length_append, List.length_replicate, hlenq]
      omega
    · simp only
      rw [List.take_left' hlenq]

/-- What `calcEdgeSlide_mval_range` and `calcEdgeSlide_even` do to the records
of the single-sided builder: each record in use keeps its vertex, its rail
vertices and its directions. -/
theorem createEdgeSlideVerts_single_side_records (sqrtf : ℚ → ℚ) (view : ViewExtern)
    (fuel : Nat) (bm bm1 : BMesh) (st : SingleSideState)
    (h : createEdgeSlideVerts_single_side_sv fuel bm = some (some (bm1, st))) :
    ∃ (sld : EdgeSlideData) (g : TransDataEdgeSlideVert → TransDataEdgeSlideVert),
      createEdgeSlideVerts_single_side sqrtf view fuel bm = some (some sld) ∧
      sld.sv = (st.sv_array.take st.sv_tot).map g ∧
      ∀ sv, (g sv).v = sv.v ∧ (g sv).v_side = sv.v_side ∧ (g sv).dir_side = sv.dir_side := by
  unfold createEdgeSlideVerts_single_side
  simp only [h]
  by_cases hr : view.rv3d = true
  · refine ⟨_, fun sv => { sv with edge_len := len_v3v3 sqrtf (sv.dir_side 0) (sv.dir_side 1) },
      rfl, ?_, fun sv => ⟨rfl, rfl, rfl⟩⟩
    simp only [hr, if_true]
    rw [calcEdgeSlide_even_sv]
    simp [calcEdgeSlide_mval_range]
  · refine ⟨_, id, rfl, ?_, fun sv => ⟨rfl, rfl, rfl⟩⟩
    simp [hr, calcEdgeSlide_mval_range]

theorem createEdgeSlideVerts_single_side_none (sqrtf : ℚ → ℚ) (view : ViewExtern)
    (fuel : Nat) (bm : BMesh) (h : createEdgeSlideVerts_single_side_sv fuel bm = some none) :
    createEdgeSlideVerts_single_side sqrtf view fuel bm = some none := by
  unfold createEdgeSlideVerts_single_side
  simp only [h]

theorem single_side_qualifies_nil_iff (bm : BMesh) :
    (List.range bm.totvert).filter (single_side_qualifies bm) = [] ↔
      ∀ v, v < bm.totvert → (bm.vert v).select = true → single_side_unselected bm v = [] := by
  simp only [List.filter_eq_nil_iff, List.mem_range, single_side_qualifies, Bool.and_eq_true,
    Bool.not_eq_true', List.isEmpty_eq_false, not_and, not_not]

set_option maxRecDepth 100000 in
theorem grid_2_2_vert_edge_ok : VertEdgeOK (grid_mesh 2 2 1 (flat_co 1)) := by
  unfold VertEdgeOK
  decide

set_option maxRecDepth 100000 in
theorem grid_2_2_qualifies :
    (List.range (grid_mesh 2 2 1 (flat_co 1)).totvert).filter
      (single_side_qualifies (grid_mesh 2 2 1 (flat_co 1))) ≠ [] := by
  decide

/-- Claim C19: in a consistent mesh with a selected vertex that has an unselected
edge, `createEdgeSlideVerts_single_side` returns data whose first records, the
primary ones, are one per selected vertex with an unselected edge, in mesh
order, and for no other vertex; the rail of each is an unselected edge `e` at
its vertex: `v_side[0]` is the other vertex of `e`, `dir_side[0]` the vector to
it, no unselected edge at the vertex is longer than `e`, and those met before
`e` are shorter. -/
theorem createEdgeSlideVerts_single_side_primary (sqrtf : ℚ → ℚ) (view : ViewExtern)
    (fuel : Nat) (bm : BMesh) (hm : MeshOK bm) (hve : VertEdgeOK bm) (hfuel : bm.totvert < fuel)
    (hq : (List.range bm.totvert).filter (single_side_qualifies bm) ≠ []) :
    ∃ sld, createEdgeSlideVerts_single_side sqrtf view fuel bm = some (some sld) ∧
      (sld.sv.take ((List.range bm.totvert).filter (single_side_qualifies bm)).length).map
          (fun sv => sv.v) =
        (List.range bm.totvert).filter
          (fun v => (bm.vert v).select && !(single_side_unselected bm v).isEmpty) ∧
      ∀ sv ∈ sld.sv.take ((List.range bm.totvert).filter (single_side_qualifies bm)).length,
        ∃ (j : Nat) (e v_other : Nat), (single_side_unselected bm sv.v)[j]? = some e ∧
          BM_edge_other_vert bm e sv.v = some v_other ∧
          sv.v_side 0 = some v_other ∧
          sv.dir_side 0 = sub_v3_v3v3 (bm.vert v_other).co (bm.vert sv.v).co ∧
          (∀ x ∈ single_side_unselected bm sv.v,
            BM_edge_calc_length_squared bm x ≤ BM_edge_calc_length_squared bm e) ∧
          ∀ (i : Nat) (x : Nat), i < j → (single_side_unselected bm sv.v)[i]? = some x →
            BM_edge_calc_length_squared bm x < BM_edge_calc_length_squared bm e := by
  obtain ⟨bm1, st, h1, hs, hve1, h2, h3, h4, h5⟩ := single_side_sv_some fuel bm hm hve hfuel hq
  obtain ⟨sld, g, g1, g2, g3⟩ :=
    createEdgeSlideVerts_single_side_records sqrtf view fuel bm bm1 st h1
  have hprim := fun v (hv : v < bm.totvert) =>
    single_side_primary_spec bm bm1 hm hve hs v hv (hve1 v hv)
  have hsome : ∀ x ∈ List.range bm.totvert,
      (single_side_primary bm1 x).isSome = single_side_qualifies bm x := by
    intro x hx
    rcases (hprim x (List.mem_range.mp hx)).2 with ⟨g1, g2⟩ | ⟨g1, _, _, _, _, _, _, _, g2⟩
    · rw [g1, g2]; rfl
    · rw [g1, g2]; rfl
  have htake : sld.sv.take ((List.range bm.totvert).filter (single_side_qualifies bm)).length =
      ((List.range bm.totvert).filterMap (single_side_primary bm1)).map g := by
    rw [g2, ← List.map_take, List.take_take, Nat.min_eq_left h2, h5]
  refine ⟨sld, g1, ?_, ?_⟩
  · rw [htake, List.map_map]
    have : (fun sv => sv.v) ∘ g = fun sv => sv.v := funext fun sv => (g3 sv).1
    rw [this]
    exact map_filterMap_eq_filter (single_side_primary bm1) (single_side_qualifies bm)
      (List.range bm.totvert) hsome (single_side_primary_v bm1)
  · intro sv hsv
    rw [htake] at hsv
    obtain ⟨sv0, hsv0, rfl⟩ := List.mem_map.mp hsv
    obtain ⟨v, hv, hp⟩ := List.mem_filterMap.mp hsv0
    have hv0 : sv0.v = v := single_side_primary_v bm1 v sv0 hp
    rcases (hprim v (List.mem_range.mp hv)).2 with ⟨-, k2⟩ | ⟨-, j, e, v_other, k1, k2, k3, k4, k5⟩
    · rw [k2] at hp
      cases hp
    · rw [k5] at hp
      cases hp
      rw [(g3 _).1, (g3 _).2.1, (g3 _).2.2]
      refine ⟨j, e, v_other, k1, k2, ?_, ?_, k3, k4⟩
      · simp [single_side_set_primary]
      · simp [single_side_set_primary, (hs.2.2.2.2.2.2.2 _).1]

theorem createEdgeSlideVerts_single_side_primary_witness :
    MeshOK (grid_mesh 2 2 1 (flat_co 1)) ∧ VertEdgeOK (grid_mesh 2 2 1 (flat_co 1)) ∧
      (grid_mesh 2 2 1 (flat_co 1)).totvert < 10 ∧
      (List.range (grid_mesh 2 2 1 (flat_co 1)).totvert).filter
        (single_side_qualifies (grid_mesh 2 2 1 (flat_co 1))) ≠ [] ∧
      ∃ sld, createEdgeSlideVerts_single_side sample_sqrtf sample_view 10
          (grid_mesh 2 2 1 (flat_co 1)) = some (some sld) ∧
        (sld.sv.take ((List.range (grid_mesh 2 2 1 (flat_co 1)).totvert).filter
            (single_side_qualifies (grid_mesh 2 2 1 (flat_co 1)))).length).map
              (fun sv => sv.v) =
          (List.range (grid_mesh 2 2 1 (flat_co 1)).totvert).filter
            (fun v => ((grid_mesh 2 2 1 (flat_co 1)).vert v).select &&
              !(single_side_unselected (grid_mesh 2 2 1 (flat_co 1)) v).isEmpty) ∧
        ∀ sv ∈ sld.sv.take ((List.range (grid_mesh 2 2 1 (flat_co 1)).totvert).filter
            (single_side_qualifies (grid_mesh 2 2 1 (flat_co 1)))).length,
          ∃ (j : Nat) (e v_other : Nat),
            (single_side_unselected (grid_mesh 2 2 1 (flat_co 1)) sv.v)[j]? = some e ∧
            BM_edge_other_vert (grid_mesh 2 2 1 (flat_co 1)) e sv.v = some v_other ∧
            sv.v_side 0 = some v_other ∧
            sv.dir_side 0 = sub_v3_v3v3 ((grid_mesh 2 2 1 (flat_co 1)).vert v_other).co
              ((grid_mesh 2 2 1 (flat_co 1)).vert sv.v).co ∧
            (∀ x ∈ single_side_unselected (grid_mesh 2 2 1 (flat_co 1)) sv.v,
              BM_edge_calc_length_squared (grid_mesh 2 2 1 (flat_co 1)) x ≤
                BM_edge_calc_length_squared (grid_mesh 2 2 1 (flat_co 1)) e) ∧
            ∀ (i : Nat) (x : Nat), i < j →
              (single_side_unselected (grid_mesh 2 2 1 (flat_co 1)) sv.v)[i]? = some x →
              BM_edge_calc_length_squared (grid_mesh 2 2 1 (flat_co 1)) x <
                BM_edge_calc_length_squared (grid_mesh 2 2 1 (flat_co 1)) e :=
  ⟨grid_2_2_mesh_ok, grid_2_2_vert_edge_ok, by decide, grid_2_2_qualifies,
    createEdgeSlideVerts_single_side_primary sample_sqrtf sample_view 10
      (grid_mesh 2 2 1 (flat_co 1)) grid_2_2_mesh_ok grid_2_2_vert_edge_ok (by decide)
      grid_2_2_qualifies⟩

/-- Claim C20: in a consistent mesh `createEdgeSlideVerts_single_side` returns no
data if and only if no selected vertex has an unselected edge; otherwise it
returns data with at least as many records as there are selected vertices with
an unselected edge, and at most as many as there are selected vertices. -/
theorem createEdgeSlideVerts_single_side_count (sqrtf : ℚ → ℚ) (view : ViewExtern)
    (fuel : Nat) (bm : BMesh) (hm : MeshOK bm) (hve : VertEdgeOK bm)
    (hfuel : bm.totvert < fuel) :
    (createEdgeSlideVerts_single_side sqrtf view fuel bm = some none ↔
      ∀ v, v < bm.totvert → (bm.vert v).select = true → single_side_unselected bm v = []) ∧
    ((¬ ∀ v, v < bm.totvert → (bm.vert v).select = true → single_side_unselected bm v = []) →
      ∃ sld, createEdgeSlideVerts_single_side sqrtf view fuel bm = some (some sld) ∧
        ((List.range bm.totvert).filter
          (fun v => (bm.vert v).select && !(single_side_unselected bm v).isEmpty)).length ≤
            sld.totsv ∧
        sld.totsv ≤ ((List.range bm.totvert).filter (fun v => (bm.vert v).select)).length) := by
  have hsome : (¬ ∀ v, v < bm.totvert → (bm.vert v).select = true →
      single_side_unselected bm v = []) →
      ∃ sld, createEdgeSlideVerts_single_side sqrtf view fuel bm = some (some sld) ∧
        ((List.range bm.totvert).filter
          (fun v => (bm.vert v).select && !(single_side_unselected bm v).isEmpty)).length ≤
            sld.totsv ∧
        sld.totsv ≤ ((List.range bm.totvert).filter (fun v => (bm.vert v).select)).length := by
    intro hq
    rw [← single_side_qualifies_nil_iff] at hq
    obtain ⟨bm1, st, h1, -, -, h2, h3, h4, -⟩ := single_side_sv_some fuel bm hm hve hfuel hq
    obtain ⟨sld, g, g1, g2, -⟩ :=
      createEdgeSlideVerts_single_side_records sqrtf view fuel bm bm1 st h1
    have hlen : sld.totsv = st.sv_tot := by
      unfold EdgeSlideData.totsv
      rw [g2, List.length_map, List.length_take, h4]
      exact Nat.min_eq_left h3
    refine ⟨sld, g1, ?_, ?_⟩
    · rw [hlen]; exact h2
    · rw [hlen]; exact h3
  refine ⟨⟨?_, ?_⟩, hsome⟩
  · intro hnone
    by_contra hq
    obtain ⟨sld, hsld, -⟩ := hsome hq
    rw [hsld] at hnone
    cases hnone
  · intro hq
    rw [← single_side_qualifies_nil_iff] at hq
    exact createEdgeSlideVerts_single_side_none sqrtf view fuel bm (single_side_sv_none fuel bm hq)

theorem createEdgeSlideVerts_single_side_count_witness :
    MeshOK (grid_mesh 2 2 1 (flat_co 1)) ∧ VertEdgeOK (grid_mesh 2 2 1 (flat_co 1)) ∧
      (grid_mesh 2 2 1 (flat_co 1)).totvert < 10 ∧
      ∃ sld, createEdgeSlideVerts_single_side sample_sqrtf sample_view 10
          (grid_mesh 2 2 1 (flat_co 1)) = some (some sld) ∧
        ((List.range (grid_mesh 2 2 1 (flat_co 1)).totvert).filter
          (fun v => ((grid_mesh 2 2 1 (flat_co 1)).vert v).select &&
            !(single_side_unselected (grid_mesh 2 2 1 (flat_co 1)) v).isEmpty)).length ≤
              sld.totsv ∧
        sld.totsv ≤ ((List.range (grid_mesh 2 2 1 (flat_co 1)).totvert).filter
          (fun v => ((grid_mesh 2 2 1 (flat_co 1)).vert v).select)).length :=
  ⟨grid_2_2_mesh_ok, grid_2_2_vert_edge_ok, by decide,
    (createEdgeSlideVerts_single_side_count sample_sqrtf sample_view 10
      (grid_mesh 2 2 1 (flat_co 1)) grid_2_2_mesh_ok grid_2_2_vert_edge_ok (by decide)).2
      (by
        rw [← single_side_qualifies_nil_iff]
        exact grid_2_2_qualifies)⟩

/-! ## Theorems: the side of the snap adapter -/

/-- The non-even branch of `edge_slide_apply_elem` moves the vertex along the
rail of its `side_index`. -/
theorem apply_elem_non_even_side (sv : TransDataEdgeSlideVert) (fac curr_length_fac : ℚ)
    (curr_side_unclamp : Fin 2) (use_clamp use_flip : Bool) :
    edge_slide_apply_elem sv fac curr_length_fac curr_side_unclamp use_clamp false use_flip =
      madd_v3_v3fl sv.v_co_orig
        (sv.dir_side (apply_elem_side_index sv fac curr_side_unclamp use_clamp))
        (if apply_elem_side_index sv fac curr_side_unclamp use_clamp = side_of_neg fac then
          fabsf fac else -fabsf fac) := by
  cases use_clamp <;> simp [edge_slide_apply_elem, apply_elem_side_index]

/-- The non-even branch of `edge_slide_snap_apply` measures the snap point
against the rail of its `side_index`. -/
theorem snap_apply_non_even_side (ext : SnapExtern) (t : TransInfo) (tc : TransDataContainer)
    (sld : EdgeSlideData) (sv : TransDataEdgeSlideVert) (value : ℚ)
    (hc : edge_slide_container_first_ok t = some tc) (hs : tc.custom_mode_data = some sld)
    (ha : sld.sv[sld.curr_sv_index]? = some sv) (he : t.custom_mode_data.use_even = false) :
    edge_slide_snap_apply ext t value =
      some (snap_apply_non_even ext t tc sv (snap_apply_side_index t value)) := by
  simp only [edge_slide_snap_apply, hc, hs, ha, he, snap_apply_non_even, snap_apply_side_index,
    if_true]

/-- Claim C30, the cases where it holds: in non-even mode, with clamp on or with
a sticky side whose direction is not the zero vector, the side that
`edge_slide_snap_apply` measures the snap point against is the side along which
`edge_slide_apply_elem` moves the vertex for the same value and flags. -/
theorem snap_apply_side_agrees (ext : SnapExtern) (t : TransInfo) (tc : TransDataContainer)
    (sld : EdgeSlideData) (sv : TransDataEdgeSlideVert) (value curr_length_fac : ℚ)
    (use_flip : Bool)
    (hc : edge_slide_container_first_ok t = some tc) (hs : tc.custom_mode_data = some sld)
    (ha : sld.sv[sld.curr_sv_index]? = some sv) (he : t.custom_mode_data.use_even = false)
    (hz : t.flag_alt_transform = false ∨
      sv.dir_side t.custom_mode_data.curr_side_unclamp ≠ zero_v3) :
    snap_apply_side_index t value =
        apply_elem_side_index sv value t.custom_mode_data.curr_side_unclamp
          (!t.flag_alt_transform) ∧
      edge_slide_snap_apply ext t value =
        some (snap_apply_non_even ext t tc sv (snap_apply_side_index t value)) ∧
      edge_slide_apply_elem sv value curr_length_fac t.custom_mode_data.curr_side_unclamp
          (!t.flag_alt_transform) false use_flip =
        madd_v3_v3fl sv.v_co_orig (sv.dir_side (snap_apply_side_index t value))
          (if snap_apply_side_index t value = side_of_neg value then fabsf value
            else -fabsf value) := by
  have hside : snap_apply_side_index t value =
      apply_elem_side_index sv value t.custom_mode_data.curr_side_unclamp
        (!t.flag_alt_transform) := by
    rcases hz with h | h
    · simp [snap_apply_side_index, apply_elem_side_index, h]
    · have hz0 : is_zero_v3 (sv.dir_side t.custom_mode_data.curr_side_unclamp) = false := by
        rw [← Bool.not_eq_true, is_zero_v3_iff]
        exact h
      cases hf : t.flag_alt_transform <;>
        simp [snap_apply_side_index, apply_elem_side_index, hf, hz0]
  refine ⟨hside, snap_apply_non_even_side ext t tc sld sv value hc hs ha he, ?_⟩
  rw [hside]
  exact apply_elem_non_even_side sv value curr_length_fac _ _ use_flip

theorem snap_apply_side_agrees_witness :
    snap_apply_side_index (sample_t sv_uneven true false false 1 ⟨3, 0, 0⟩) (1 / 2) =
        apply_elem_side_index sv_uneven (1 / 2) 1 false ∧
      edge_slide_snap_apply sample_ext (sample_t sv_uneven true false false 1 ⟨3, 0, 0⟩) (1 / 2) =
        some (snap_apply_non_even sample_ext (sample_t sv_uneven true false false 1 ⟨3, 0, 0⟩)
          (sample_tc sv_uneven) sv_uneven
          (snap_apply_side_index (sample_t sv_uneven true false false 1 ⟨3, 0, 0⟩) (1 / 2))) ∧
      edge_slide_apply_elem sv_uneven (1 / 2) 0 1 false false false =
        madd_v3_v3fl sv_uneven.v_co_orig
          (sv_uneven.dir_side
            (snap_apply_side_index (sample_t sv_uneven true false false 1 ⟨3, 0, 0⟩) (1 / 2)))
          (if snap_apply_side_index (sample_t sv_uneven true false false 1 ⟨3, 0, 0⟩) (1 / 2) =
              side_of_neg (1 / 2) then fabsf (1 / 2)
            else -fabsf (1 / 2)) :=
  snap_apply_side_agrees sample_ext (sample_t sv_uneven true false false 1 ⟨3, 0, 0⟩)
    (sample_tc sv_uneven) ⟨[sv_uneven], (0, 0), (0, 0), 0⟩ sv_uneven (1 / 2) 0 false
    rfl rfl rfl rfl
    (Or.inr (by
      intro h
      have := congrArg V3.x h
      norm_num [sample_t, sv_uneven, sample_sv, zero_v3] at this))

/-- Claim C30 fails on the code with clamp off when the direction of the sticky
side is the zero vector: for the record `sv_one_rail` and the sticky side 0
`edge_slide_apply_elem` moves the vertex along rail 1 (the value 1/2 takes it to
(-1/2, 0, 0)), but `edge_slide_snap_apply` measures against rail 0 and returns 0
for that point instead of 1/2. -/
theorem snap_apply_side_counterexample :
    apply_elem_side_index sv_one_rail (1 / 2) 0 false = 1 ∧
      snap_apply_side_index (sample_t sv_one_rail true false false 0 ⟨-1 / 2, 0, 0⟩) (1 / 2) = 0 ∧
      edge_slide_apply_elem sv_one_rail (1 / 2) 0 0 false false false = ⟨-1 / 2, 0, 0⟩ ∧
      edge_slide_snap_apply sample_ext (sample_t sv_one_rail true false false 0 ⟨-1 / 2, 0, 0⟩)
        (1 / 2) = some 0 := by
  refine ⟨?_, ?_, ?_, ?_⟩
  · simp [apply_elem_side_index, sv_one_rail, sample_sv, is_zero_v3, zero_v3, side_not]
  · simp [snap_apply_side_index, sample_t]
  · rw [apply_elem_non_even_side]
    norm_num [apply_elem_side_index, sv_one_rail, sample_sv, is_zero_v3, zero_v3, side_not,
      side_of_neg, fabsf, madd_v3_v3fl]
  · rw [snap_apply_non_even_side sample_ext
      (sample_t sv_one_rail true false false 0 ⟨-1 / 2, 0, 0⟩) (sample_tc sv_one_rail)
      ⟨[sv_one_rail], (0, 0), (0, 0), 0⟩ sv_one_rail (1 / 2) rfl rfl rfl rfl]
    norm_num [snap_apply_non_even, snap_apply_side_index, sample_t, sample_tc, sv_one_rail,
      sample_sv, zero_v3, add_v3_v3v3, sub_v3_v3v3, line_point_factor_v3, len_squared_v3,
      dot_v3v3]

/-! ## Theorems: even mode and the straight line between the rail endpoints -/

/-- When `v2` is on the line through `v1` and `v3`, `interp_line_v3_v3v3v3` is
the linear interpolation from `v1` to `v3`, unless a guard of the segment that
the parameter falls on applies. -/
theorem interp_line_collinear (v1 v2 v3 : V3) (t : ℚ)
    (h2 : v2 = interp_v3_v3v3 v1 v3 (line_point_factor_v3 v2 v1 v3))
    (hg1 : t < line_point_factor_v3 v2 v1 v3 → FLT_EPSILON ≤ |line_point_factor_v3 v2 v1 v3|)
    (hg2 : line_point_factor_v3 v2 v1 v3 ≤ t →
      FLT_EPSILON ≤ |1 - line_point_factor_v3 v2 v1 v3|) :
    interp_line_v3_v3v3v3 v1 v2 v3 t = interp_v3_v3v3 v1 v3 t := by
  have he := flt_epsilon_pos
  unfold interp_line_v3_v3v3v3
  simp only [fabsf_eq_abs]
  generalize line_point_factor_v3 v2 v1 v3 = m at h2 hg1 hg2
  by_cases hd : t - m < 0
  · have hm := hg1 (by linarith)
    have hm0 : m ≠ 0 := by
      intro h0
      rw [h0, abs_zero] at hm
      linarith
    rw [if_pos hd, if_neg (not_lt.mpr hm)]
    rw [h2]
    simp only [interp_v3_v3v3]
    ext <;> simp only <;> field_simp <;> ring
  · have hm := hg2 (by linarith)
    have hm0 : 1 - m ≠ 0 := by
      intro h0
      rw [h0, abs_zero] at hm
      linarith
    rw [if_neg hd, if_neg (not_lt.mpr hm)]
    rw [h2]
    simp only [interp_v3_v3v3]
    ext <;> simp only <;> field_simp <;> ring

theorem len_squared_interp (a b : V3) (f : ℚ) :
    len_squared_v3v3 a (interp_v3_v3v3 a b f) = f ^ 2 * len_squared_v3 (sub_v3_v3v3 b a) := by
  simp only [len_squared_v3v3, len_squared_v3, dot_v3v3, sub_v3_v3v3, interp_v3_v3v3]
  ring

/-- Claim C28 fails on the code: for the record `sv_bent`, whose starting
position is off the line through the rail endpoints (-1,1,0) and (1,1,0), and
`curr_length_fac` = 1/2, `edge_slide_apply_elem` returns (-1/2, 1/2, 0), a point
of the segment from the rail endpoint to the starting position, where the linear
interpolation between the rail endpoints is (-1/2, 1, 0); its squared distance
from the start endpoint is 1/2, not (1/2)^2. -/
theorem apply_elem_even_line_counterexample :
    sv_bent.edge_len > FLT_EPSILON ∧
      edge_slide_apply_elem sv_bent 0 (1 / 2) 0 true true false = ⟨-1 / 2, 1 / 2, 0⟩ ∧
      even_position_spec sv_bent (1 / 2) false = ⟨-1 / 2, 1, 0⟩ ∧
      edge_slide_apply_elem sv_bent 0 (1 / 2) 0 true true false ≠
        even_position_spec sv_bent (1 / 2) false ∧
      len_squared_v3v3 (add_v3_v3v3 sv_bent.v_co_orig (sv_bent.dir_side 0))
        (edge_slide_apply_elem sv_bent 0 (1 / 2) 0 true true false) ≠
          (min_ff sv_bent.edge_len (1 / 2)) ^ 2 := by
  have h1 : edge_slide_apply_elem sv_bent 0 (1 / 2) 0 true true false = ⟨-1 / 2, 1 / 2, 0⟩ := by
    norm_num [edge_slide_apply_elem, sv_bent, sample_sv, FLT_EPSILON, min_ff,
      interp_line_v3_v3v3v3, line_point_factor_v3, add_v3_v3v3, sub_v3_v3v3, len_squared_v3,
      dot_v3v3, fabsf, interp_v3_v3v3]
  have h2 : even_position_spec sv_bent (1 / 2) false = ⟨-1 / 2, 1, 0⟩ := by
    norm_num [even_position_spec, sv_bent, sample_sv, min_ff, add_v3_v3v3, interp_v3_v3v3]
  refine ⟨by norm_num [sv_bent, sample_sv, FLT_EPSILON], h1, h2, ?_, ?_⟩
  · rw [h1, h2]
    intro h
    have := congrArg V3.y h
    norm_num at this
  · rw [h1]
    norm_num [sv_bent, sample_sv, min_ff, add_v3_v3v3, len_squared_v3v3, len_squared_v3,
      dot_v3v3, sub_v3_v3v3]

/-- Claim C28, amended: in even mode, for every record with `edge_len` above
`FLT_EPSILON` whose starting position lies on the line through the rail
endpoints `co_a` and `co_b` (it is the point of that line at its own factor),
`edge_slide_apply_elem` returns the linear interpolation from `co_a` to `co_b`
(from `co_b` to `co_a` when flipped) at the factor
`min(edge_len, curr_length_fac) / edge_len`, unless a guard of
`interp_line_v3_v3v3v3` applies; the squared distance of the result from the
start endpoint is the square of `min(edge_len, curr_length_fac)` when `edge_len`
is the distance of the rail endpoints. -/
theorem apply_elem_even_line (sv : TransDataEdgeSlideVert) (fac curr_length_fac : ℚ)
    (curr_side_unclamp : Fin 2) (use_clamp use_flip : Bool)
    (hl : sv.edge_len > FLT_EPSILON)
    (hline : sv.v_co_orig =
      interp_v3_v3v3
        (add_v3_v3v3 sv.v_co_orig (sv.dir_side (if use_flip then 1 else 0)))
        (add_v3_v3v3 sv.v_co_orig (sv.dir_side (if use_flip then 0 else 1)))
        (line_point_factor_v3 sv.v_co_orig
          (add_v3_v3v3 sv.v_co_orig (sv.dir_side (if use_flip then 1 else 0)))
          (add_v3_v3v3 sv.v_co_orig (sv.dir_side (if use_flip then 0 else 1)))))
    (hg1 : even_fac_final sv curr_length_fac <
        line_point_factor_v3 sv.v_co_orig
          (add_v3_v3v3 sv.v_co_orig (sv.dir_side (if use_flip then 1 else 0)))
          (add_v3_v3v3 sv.v_co_orig (sv.dir_side (if use_flip then 0 else 1))) →
      FLT_EPSILON ≤ |line_point_factor_v3 sv.v_co_orig
          (add_v3_v3v3 sv.v_co_orig (sv.dir_side (if use_flip then 1 else 0)))
          (add_v3_v3v3 sv.v_co_orig (sv.dir_side (if use_flip then 0 else 1)))|)
    (hg2 : line_point_factor_v3 sv.v_co_orig
          (add_v3_v3v3 sv.v_co_orig (sv.dir_side (if use_flip then 1 else 0)))
          (add_v3_v3v3 sv.v_co_orig (sv.dir_side (if use_flip then 0 else 1))) ≤
        even_fac_final sv curr_length_fac →
      FLT_EPSILON ≤ |1 - line_point_factor_v3 sv.v_co_orig
          (add_v3_v3v3 sv.v_co_orig (sv.dir_side (if use_flip then 1 else 0)))
          (add_v3_v3v3 sv.v_co_orig (sv.dir_side (if use_flip then 0 else 1)))|) :
    edge_slide_apply_elem sv fac curr_length_fac curr_side_unclamp use_clamp true use_flip =
        even_position_spec sv curr_length_fac use_flip ∧
      (sv.edge_len ^ 2 = len_squared_v3 (sub_v3_v3v3 (sv.dir_side 1) (sv.dir_side 0)) →
        len_squared_v3v3 (add_v3_v3v3 sv.v_co_orig (sv.dir_side (if use_flip then 1 else 0)))
          (edge_slide_apply_elem sv fac curr_length_fac curr_side_unclamp use_clamp true
            use_flip) = (min_ff sv.edge_len curr_length_fac) ^ 2) := by
  have hpos : 0 < sv.edge_len := lt_trans flt_epsilon_pos hl
  have heq : edge_slide_apply_elem sv fac curr_length_fac curr_side_unclamp use_clamp true
      use_flip = even_position_spec sv curr_length_fac use_flip := by
    rw [apply_elem_even_eq sv fac curr_length_fac curr_side_unclamp use_clamp use_flip hl]
    cases use_flip
    · simp only [Bool.false_eq_true, if_false] at hline hg1 hg2 ⊢
      rw [interp_line_collinear _ _ _ _ hline hg1 hg2]
      simp [even_position_spec, even_fac_final]
    · simp only [if_true] at hline hg1 hg2 ⊢
      rw [interp_line_collinear _ _ _ _ hline hg1 hg2]
      simp [even_position_spec, even_fac_final]
  refine ⟨heq, ?_⟩
  intro hlen
  rw [heq]
  have hsq : ∀ a b : V3, len_squared_v3 (sub_v3_v3v3 (add_v3_v3v3 sv.v_co_orig a)
      (add_v3_v3v3 sv.v_co_orig b)) = len_squared_v3 (sub_v3_v3v3 a b) := by
    intro a b
    simp only [len_squared_v3, dot_v3v3, sub_v3_v3v3, add_v3_v3v3]
    ring
  have hsym : len_squared_v3 (sub_v3_v3v3 (sv.dir_side 0) (sv.dir_side 1)) =
      len_squared_v3 (sub_v3_v3v3 (sv.dir_side 1) (sv.dir_side 0)) := by
    simp only [len_squared_v3, dot_v3v3, sub_v3_v3v3]
    ring
  cases use_flip
  · simp only [even_position_spec, Bool.false_eq_true, if_false]
    rw [len_squared_interp, hsq, ← hlen]
    field_simp
  · simp only [even_position_spec, if_true]
    rw [len_squared_interp, hsq, hsym, ← hlen]
    field_simp

theorem apply_elem_even_line_witness :
    edge_slide_apply_elem sv_uneven 0 1 0 true true false =
        even_position_spec sv_uneven 1 false ∧
      (sv_uneven.edge_len ^ 2 =
          len_squared_v3 (sub_v3_v3v3 (sv_uneven.dir_side 1) (sv_uneven.dir_side 0)) →
        len_squared_v3v3
          (add_v3_v3v3 sv_uneven.v_co_orig (sv_uneven.dir_side (if false then 1 else 0)))
          (edge_slide_apply_elem sv_uneven 0 1 0 true true false) =
            (min_ff sv_uneven.edge_len 1) ^ 2) :=
  apply_elem_even_line sv_uneven 0 1 0 true false
    (by norm_num [sv_uneven, sample_sv, FLT_EPSILON])
    (by
      norm_num [sv_uneven, sample_sv, line_point_factor_v3, add_v3_v3v3, sub_v3_v3v3,
        len_squared_v3, dot_v3v3, interp_v3_v3v3])
    (by
      intro _
      norm_num [sv_uneven, sample_sv, line_point_factor_v3, add_v3_v3v3, sub_v3_v3v3,
        len_squared_v3, dot_v3v3, FLT_EPSILON, abs_of_pos])
    (by
      intro _
      norm_num [sv_uneven, sample_sv, line_point_factor_v3, add_v3_v3v3, sub_v3_v3v3,
        len_squared_v3, dot_v3v3, FLT_EPSILON, abs_of_pos])

/-! ## Theorems: the modal callback -/

theorem CLAMP_range (a : ℚ) : -1 ≤ CLAMP a (-1) 1 ∧ CLAMP a (-1) 1 ≤ 1 := by
  unfold CLAMP
  split_ifs <;> constructor <;> linarith

/-- Claim C24 fails on the code while numeric input is active: with clamp on,
the mouse value 0 and the typed value 5, `applyEdgeSlide` stores 5 in
`values_final[0]` and passes it to `doEdgeSlide`. -/
theorem applyEdgeSlide_clamp_counterexample :
    (sample_t sv_uneven false false false 0 zero_v3).flag_alt_transform = false ∧
      applyEdgeSlide_final (sample_apply_ext 0 (some 5))
        (sample_t sv_uneven false false false 0 zero_v3) = 5 ∧
      ∃ t1, applyEdgeSlide (sample_apply_ext 0 (some 5))
          (sample_t sv_uneven false false false 0 zero_v3) = some (5, t1) ∧
        t1.custom_mode_data.perc = 5 := by
  have h : applyEdgeSlide_final (sample_apply_ext 0 (some 5))
      (sample_t sv_uneven false false false 0 zero_v3) = 5 := by
    simp [applyEdgeSlide_final, sample_apply_ext, hasNumInput, applyNumInput, sample_t]
  refine ⟨rfl, h, ?_⟩
  simp only [applyEdgeSlide, h]
  simp [doEdgeSlide, edgeSlideFirstGet, edge_slide_container_first_ok, sample_t, sample_tc]

/-- Claim C24, amended: with clamp on and no numeric input active, the value
that `applyEdgeSlide` stores in `values_final[0]` lies in [-1, 1], for every
mouse value, modal offset and snapping result, and it is the value passed to
`doEdgeSlide`, which stores it in `EdgeSlideParams.perc`. -/
theorem applyEdgeSlide_clamp (ext : ApplyExtern) (t : TransInfo)
    (hc : t.flag_alt_transform = false) (hn : ext.num_val = none) :
    -1 ≤ applyEdgeSlide_final ext t ∧ applyEdgeSlide_final ext t ≤ 1 ∧
      applyEdgeSlide ext t =
        (doEdgeSlide t (applyEdgeSlide_final ext t)).map
          (fun t1 => (applyEdgeSlide_final ext t, t1)) ∧
      ∀ t1, doEdgeSlide t (applyEdgeSlide_final ext t) = some t1 →
        t1.custom_mode_data.perc = applyEdgeSlide_final ext t := by
  have hf : applyEdgeSlide_final ext t =
      CLAMP (if !ext.validSnap then
          ext.transform_snap_increment
            (ext.transform_snap_mixed_apply (ext.values0 + ext.values_modal_offset0))
        else ext.transform_snap_mixed_apply (ext.values0 + ext.values_modal_offset0)) (-1) 1 := by
    simp [applyEdgeSlide_final, hc, hn, hasNumInput, applyNumInput]
  refine ⟨?_, ?_, ?_, ?_⟩
  · rw [hf]; exact (CLAMP_range _).1
  · rw [hf]; exact (CLAMP_range _).2
  · simp only [applyEdgeSlide]
    cases hd : doEdgeSlide t (applyEdgeSlide_final ext t) <;> simp
  · intro t1 h1
    unfold doEdgeSlide at h1
    cases hg : edgeSlideFirstGet t with
    | none => simp [hg] at h1
    | some sld =>
      simp only [hg] at h1
      split at h1
      · cases h1
      · simp only [Option.some.injEq] at h1
        rw [← h1]
        simp only
        split_ifs <;> rfl

theorem applyEdgeSlide_clamp_witness :
    -1 ≤ applyEdgeSlide_final (sample_apply_ext 3 none)
        (sample_t sv_uneven false false false 0 zero_v3) ∧
      applyEdgeSlide_final (sample_apply_ext 3 none)
        (sample_t sv_uneven false false false 0 zero_v3) ≤ 1 ∧
      applyEdgeSlide (sample_apply_ext 3 none) (sample_t sv_uneven false false false 0 zero_v3) =
        (doEdgeSlide (sample_t sv_uneven false false false 0 zero_v3)
          (applyEdgeSlide_final (sample_apply_ext 3 none)
            (sample_t sv_uneven false false false 0 zero_v3))).map
          (fun t1 => (applyEdgeSlide_final (sample_apply_ext 3 none)
            (sample_t sv_uneven false false false 0 zero_v3), t1)) ∧
      ∀ t1, doEdgeSlide (sample_t sv_uneven false false false 0 zero_v3)
          (applyEdgeSlide_final (sample_apply_ext 3 none)
            (sample_t sv_uneven false false false 0 zero_v3)) = some t1 →
        t1.custom_mode_data.perc = applyEdgeSlide_final (sample_apply_ext 3 none)
          (sample_t sv_uneven false false false 0 zero_v3) :=
  applyEdgeSlide_clamp (sample_apply_ext 3 none) (sample_t sv_uneven false false false 0 zero_v3)
    rfl rfl

/-! ## Theorems: the active record -/

/-- The index chosen by the loop of `calcEdgeSlide_even`: the start index when
no record is closer to the mouse than the start distance, else the first of the
records of least distance. -/
theorem calcEdgeSlide_even_loop_snd (sqrtf : ℚ → ℚ) (view : ViewExtern) (bm : BMesh) :
    ∀ (l : List TransDataEdgeSlideVert) (i : Nat) (d : ℚ) (c : Nat),
      ((calcEdgeSlide_even_loop sqrtf view bm l i d c).2 = c ∧
        ∀ x ∈ l, d ≤ len_squared_v2v2 view.mval (view.project_float_v2 (bm.vert x.v).co)) ∨
      (∃ (j : Nat) (sv : TransDataEdgeSlideVert), l[j]? = some sv ∧
        (calcEdgeSlide_even_loop sqrtf view bm l i d c).2 = i + j ∧
        len_squared_v2v2 view.mval (view.project_float_v2 (bm.vert sv.v).co) < d ∧
        (∀ x ∈ l, len_squared_v2v2 view.mval (view.project_float_v2 (bm.vert sv.v).co) ≤
          len_squared_v2v2 view.mval (view.project_float_v2 (bm.vert x.v).co)) ∧
        ∀ (k : Nat) (x : TransDataEdgeSlideVert), k < j → l[k]? = some x →
          len_squared_v2v2 view.mval (view.project_float_v2 (bm.vert sv.v).co) <
            len_squared_v2v2 view.mval (view.project_float_v2 (bm.vert x.v).co)) := by
  intro l
  induction l with
  | nil => intro i d c; left; simp [calcEdgeSlide_even_loop]
  | cons a l ih =>
    intro i d c
    unfold calcEdgeSlide_even_loop
    simp only
    by_cases ha : len_squared_v2v2 view.mval (view.project_float_v2 (bm.vert a.v).co) < d
    · rw [if_pos ha]
      rcases ih (i + 1)
          (len_squared_v2v2 view.mval (view.project_float_v2 (bm.vert a.v).co)) i with
        ⟨h1, h2⟩ | ⟨j, sv, hj, h1, h2, h3, h4⟩
      · right
        refine ⟨0, a, by simp, by simpa using h1, ha, ?_, ?_⟩
        · intro x hx
          rcases List.mem_cons.mp hx with rfl | hx
          · exact le_refl _
          · exact h2 x hx
        · intro k x hk
          omega
      · right
        refine ⟨j + 1, sv, by simpa using hj, by rw [h1]; omega, lt_trans h2 ha, ?_, ?_⟩
        · intro x hx
          rcases List.mem_cons.mp hx with rfl | hx
          · exact le_of_lt h2
          · exact h3 x hx
        · intro k x hk hx
          cases k with
          | zero =>
            simp at hx
            rw [← hx]
            exact h2
          | succ k => exact h4 k x (by omega) (by simpa using hx)
    · rw [if_neg ha]
      rcases ih (i + 1) d c with ⟨h1, h2⟩ | ⟨j, sv, hj, h1, h2, h3, h4⟩
      · left
        refine ⟨h1, ?_⟩
        intro x hx
        rcases List.mem_cons.mp hx with rfl | hx
        · exact not_lt.mp ha
        · exact h2 x hx
      · right
        refine ⟨j + 1, sv, by simpa using hj, by rw [h1]; omega, h2, ?_, ?_⟩
        · intro x hx
          rcases List.mem_cons.mp hx with rfl | hx
          · exact le_of_lt (lt_of_lt_of_le h2 (not_lt.mp ha))
          · exact h3 x hx
        · intro k x hk hx
          cases k with
          | zero =>
            simp at hx
            rw [← hx]
            exact lt_of_lt_of_le h2 (not_lt.mp ha)
          | succ k => exact h4 k x (by omega) (by simpa using hx)

/-- Claim C25: `calcEdgeSlide_even` sets `curr_sv_index` to the index of the
first record whose vertex projects to the least squared screen distance from
the mouse position; the index is smaller than `totsv` when there are records,
and 0 when there are none.  Distances are floats, hence below `FLT_MAX`. -/
theorem calcEdgeSlide_even_index (sqrtf : ℚ → ℚ) (view : ViewExtern) (bm : BMesh)
    (sld : EdgeSlideData)
    (hF : ∀ x ∈ sld.sv,
      len_squared_v2v2 view.mval (view.project_float_v2 (bm.vert x.v).co) < FLT_MAX) :
    (sld.totsv = 0 → (calcEdgeSlide_even sqrtf view bm sld).curr_sv_index = 0) ∧
    (sld.totsv > 0 →
      (calcEdgeSlide_even sqrtf view bm sld).curr_sv_index < sld.totsv ∧
      (calcEdgeSlide_even sqrtf view bm sld).totsv = sld.totsv ∧
      ∃ sv, sld.sv[(calcEdgeSlide_even sqrtf view bm sld).curr_sv_index]? = some sv ∧
        (∀ x ∈ sld.sv,
          len_squared_v2v2 view.mval (view.project_float_v2 (bm.vert sv.v).co) ≤
            len_squared_v2v2 view.mval (view.project_float_v2 (bm.vert x.v).co)) ∧
        ∀ (k : Nat) (x : TransDataEdgeSlideVert),
          k < (calcEdgeSlide_even sqrtf view bm sld).curr_sv_index → sld.sv[k]? = some x →
          len_squared_v2v2 view.mval (view.project_float_v2 (bm.vert sv.v).co) <
            len_squared_v2v2 view.mval (view.project_float_v2 (bm.vert x.v).co)) := by
  constructor
  · intro h0
    simp [calcEdgeSlide_even, h0]
  · intro hpos
    have hidx : (calcEdgeSlide_even sqrtf view bm sld).curr_sv_index =
        (calcEdgeSlide_even_loop sqrtf view bm sld.sv 0 FLT_MAX sld.curr_sv_index).2 := by
      simp [calcEdgeSlide_even, hpos]
    have hlen : (calcEdgeSlide_even sqrtf view bm sld).totsv = sld.totsv := by
      unfold EdgeSlideData.totsv
      rw [calcEdgeSlide_even_sv, List.length_map]
    rcases calcEdgeSlide_even_loop_snd sqrtf view bm sld.sv 0 FLT_MAX sld.curr_sv_index with
      ⟨-, h2⟩ | ⟨j, sv, hj, h1, -, h3, h4⟩
    · exfalso
      unfold EdgeSlideData.totsv at hpos
      obtain ⟨x, hx⟩ := List.exists_mem_of_length_pos hpos
      exact absurd (hF x hx) (not_lt.mpr (h2 x hx))
    · rw [hidx, h1, Nat.zero_add]
      have hjl : j < sld.sv.length := (List.getElem?_eq_some_iff.mp hj).1
      exact ⟨hjl, hlen, sv, hj, h3, h4⟩

theorem calcEdgeSlide_even_index_witness :
    (calcEdgeSlide_even sample_sqrtf sample_view (grid_mesh 2 2 1 (flat_co 1))
        ⟨[sample_sv zero_v3 ⟨1, 0, 0⟩ ⟨-1, 0, 0⟩ 0], (0, 0), (0, 0), 0⟩).curr_sv_index <
      (⟨[sample_sv zero_v3 ⟨1, 0, 0⟩ ⟨-1, 0, 0⟩ 0], (0, 0), (0, 0), 0⟩ : EdgeSlideData).totsv :=
  ((calcEdgeSlide_even_index sample_sqrtf sample_view (grid_mesh 2 2 1 (flat_co 1))
    ⟨[sample_sv zero_v3 ⟨1, 0, 0⟩ ⟨-1, 0, 0⟩ 0], (0, 0), (0, 0), 0⟩
    (by
      intro x hx
      rw [List.mem_singleton.mp hx]
      norm_num [len_squared_v2v2, sample_view, sample_sv, grid_mesh, flat_co, FLT_MAX])).2
    (by decide)).1

/-! ## Theorems: the snap adapter and the local matrix -/

/-- The function `edge_slide_snap_apply` through its snap points. -/
theorem snap_apply_eq_value (ext : SnapExtern) (t : TransInfo) (tc : TransDataContainer)
    (sld : EdgeSlideData) (sv : TransDataEdgeSlideVert) (value : ℚ)
    (hc : edge_slide_container_first_ok t = some tc) (hs : tc.custom_mode_data = some sld)
    (ha : sld.sv[sld.curr_sv_index]? = some sv) :
    edge_slide_snap_apply ext t value =
      some (snap_apply_value t.custom_mode_data t.flag_alt_transform sv
        (if tc.use_local_mat then mul_m4_v3 tc.mat sv.v_co_orig else sv.v_co_orig)
        (fun i => if tc.use_local_mat then
            mul_m4_v3 tc.mat (add_v3_v3v3 sv.v_co_orig (sv.dir_side i))
          else add_v3_v3v3 sv.v_co_orig (sv.dir_side i))
        (snap_apply_point t tc sv) (snap_apply_point_final ext t tc sv) value) := by
  have hd : ∀ i : Fin 2, (if i = 0 then
        (if tc.use_local_mat = true then
          mul_m4_v3 tc.mat (add_v3_v3v3 sv.v_co_orig (sv.dir_side 0))
        else add_v3_v3v3 sv.v_co_orig (sv.dir_side 0))
      else (if tc.use_local_mat = true then
          mul_m4_v3 tc.mat (add_v3_v3v3 sv.v_co_orig (sv.dir_side 1))
        else add_v3_v3v3 sv.v_co_orig (sv.dir_side 1))) =
      (if tc.use_local_mat = true then
          mul_m4_v3 tc.mat (add_v3_v3v3 sv.v_co_orig (sv.dir_side i))
        else add_v3_v3v3 sv.v_co_orig (sv.dir_side i)) := by
    intro i
    fin_cases i <;> simp
  simp only [edge_slide_snap_apply, hc, hs, ha, snap_apply_value, snap_apply_point,
    snap_apply_point_final, hd]

/-- A matrix that multiplies all dot products of differences by the same
positive number keeps the factor of a point along a line. -/
theorem line_point_factor_conformal (m : M4) (s : ℚ) (hs : 0 < s)
    (hM : ∀ a b c : V3,
      dot_v3v3 (sub_v3_v3v3 (mul_m4_v3 m a) (mul_m4_v3 m c))
          (sub_v3_v3v3 (mul_m4_v3 m b) (mul_m4_v3 m c)) =
        s * dot_v3v3 (sub_v3_v3v3 a c) (sub_v3_v3v3 b c))
    (p l1 l2 : V3) :
    line_point_factor_v3 (mul_m4_v3 m p) (mul_m4_v3 m l1) (mul_m4_v3 m l2) =
      line_point_factor_v3 p l1 l2 := by
  simp only [line_point_factor_v3, len_squared_v3, hM]
  by_cases hd : dot_v3v3 (sub_v3_v3v3 l2 l1) (sub_v3_v3v3 l2 l1) > 0
  · rw [if_pos hd, if_pos (mul_pos hs hd), mul_div_mul_left _ _ (ne_of_gt hs)]
  · rw [if_neg hd, if_neg]
    intro h
    exact hd (pos_of_mul_pos_right h (le_of_lt hs))

/-- The scaling matrix multiplies the coordinates. -/
theorem mul_m4_v3_scale (a b c : ℚ) (r : V3) :
    mul_m4_v3 (scale_m4 a b c) r = ⟨r.x * a, r.y * b, c * r.z⟩ := by
  have h : ∀ i j : Fin 4, scale_m4 a b c i j =
      if i = j then (if i = 0 then a else if i = 1 then b else if i = 2 then c else 1)
      else 0 := fun _ _ => rfl
  simp only [mul_m4_v3, h]
  simp +decide

/-- Claim C29 fails on the code for a matrix that is not a similarity: with the
scaling by 2 along x as local matrix, the record `sv_diag` and the local snap
point (1, 0, 0), the snap adapter returns 4/5 for the snap point carried to
world space, and 1/2 without the matrix. -/
theorem snap_apply_local_mat_counterexample :
    snap_apply_point (sample_t_mat sv_diag false false false 0 ⟨2, 0, 0⟩ (scale_m4 2 1 1))
        { sample_tc sv_diag with use_local_mat := true, mat := scale_m4 2 1 1 } sv_diag =
      mul_m4_v3 (scale_m4 2 1 1)
        (snap_apply_point (sample_t sv_diag false false false 0 ⟨1, 0, 0⟩) (sample_tc sv_diag)
          sv_diag) ∧
      edge_slide_snap_apply sample_ext
        (sample_t_mat sv_diag false false false 0 ⟨2, 0, 0⟩ (scale_m4 2 1 1)) 0 = some (4 / 5) ∧
      edge_slide_snap_apply sample_ext (sample_t sv_diag false false false 0 ⟨1, 0, 0⟩) 0 =
        some (1 / 2) := by
  refine ⟨?_, ?_, ?_⟩
  · norm_num [snap_apply_point, sample_t_mat, sample_t, sample_tc, sv_diag, sample_sv,
      mul_m4_v3_scale, add_v3_v3v3, sub_v3_v3v3]
  · rw [snap_apply_eq_value sample_ext
      (sample_t_mat sv_diag false false false 0 ⟨2, 0, 0⟩ (scale_m4 2 1 1))
      { sample_tc sv_diag with use_local_mat := true, mat := scale_m4 2 1 1 }
      ⟨[sv_diag], (0, 0), (0, 0), 0⟩ sv_diag 0 rfl rfl rfl]
    norm_num [snap_apply_value, snap_apply_point, snap_apply_point_final, sample_t_mat, sample_t,
      sample_tc, sv_diag, sample_sv, mul_m4_v3_scale, add_v3_v3v3, sub_v3_v3v3,
      line_point_factor_v3, len_squared_v3, dot_v3v3, side_of_neg]
  · rw [snap_apply_eq_value sample_ext (sample_t sv_diag false false false 0 ⟨1, 0, 0⟩)
      (sample_tc sv_diag) ⟨[sv_diag], (0, 0), (0, 0), 0⟩ sv_diag 0 rfl rfl rfl]
    norm_num [snap_apply_value, snap_apply_point, snap_apply_point_final, sample_t,
      sample_tc, sv_diag, sample_sv, add_v3_v3v3, sub_v3_v3v3,
      line_point_factor_v3, len_squared_v3, dot_v3v3, side_of_neg]

/-- Claim C29, amended: for a local matrix that is a similarity (it multiplies
all dot products of differences by the same positive number `s`), the value of
`edge_slide_snap_apply` with the matrix and the snap points carried along by it
is the value without a matrix, in non-even and in even mode. -/
theorem snap_apply_local_mat (ext : SnapExtern) (t1 t2 : TransInfo)
    (tc1 tc2 : TransDataContainer) (sld : EdgeSlideData) (sv : TransDataEdgeSlideVert)
    (value s : ℚ)
    (hc1 : edge_slide_container_first_ok t1 = some tc1)
    (hc2 : edge_slide_container_first_ok t2 = some tc2)
    (hs1 : tc1.custom_mode_data = some sld) (hs2 : tc2.custom_mode_data = some sld)
    (ha : sld.sv[sld.curr_sv_index]? = some sv)
    (hp : t1.custom_mode_data = t2.custom_mode_data)
    (hf : t1.flag_alt_transform = t2.flag_alt_transform)
    (hm1 : tc1.use_local_mat = true) (hm2 : tc2.use_local_mat = false) (hs : 0 < s)
    (hM : ∀ a b c : V3,
      dot_v3v3 (sub_v3_v3v3 (mul_m4_v3 tc1.mat a) (mul_m4_v3 tc1.mat c))
          (sub_v3_v3v3 (mul_m4_v3 tc1.mat b) (mul_m4_v3 tc1.mat c)) =
        s * dot_v3v3 (sub_v3_v3v3 a c) (sub_v3_v3v3 b c))
    (hP : snap_apply_point t1 tc1 sv = mul_m4_v3 tc1.mat (snap_apply_point t2 tc2 sv))
    (hQ : ∀ i, snap_apply_point_final ext t1 tc1 sv i =
      mul_m4_v3 tc1.mat (snap_apply_point_final ext t2 tc2 sv i)) :
    edge_slide_snap_apply ext t1 value = edge_slide_snap_apply ext t2 value := by
  rw [snap_apply_eq_value ext t1 tc1 sld sv value hc1 hs1 ha,
    snap_apply_eq_value ext t2 tc2 sld sv value hc2 hs2 ha]
  simp only [hm1, hm2, if_true, Bool.false_eq_true, if_false, hP, hp, hf, snap_apply_value, hQ,
    line_point_factor_conformal tc1.mat s hs hM]

theorem snap_apply_local_mat_witness :
    edge_slide_snap_apply sample_ext
        (sample_t_mat sv_diag false false false 0 ⟨2, 0, 0⟩ (scale_m4 2 2 2)) 0 =
      edge_slide_snap_apply sample_ext (sample_t sv_diag false false false 0 ⟨1, 0, 0⟩) 0 :=
  snap_apply_local_mat sample_ext
    (sample_t_mat sv_diag false false false 0 ⟨2, 0, 0⟩ (scale_m4 2 2 2))
    (sample_t sv_diag false false false 0 ⟨1, 0, 0⟩)
    { sample_tc sv_diag with use_local_mat := true, mat := scale_m4 2 2 2 } (sample_tc sv_diag)
    ⟨[sv_diag], (0, 0), (0, 0), 0⟩ sv_diag 0 4 rfl rfl rfl rfl rfl rfl rfl rfl rfl
    (by norm_num)
    (by
      intro a b c
      simp only [mul_m4_v3_scale, dot_v3v3, sub_v3_v3v3]
      ring)
    (by
      norm_num [snap_apply_point, sample_t_mat, sample_t, sample_tc, sv_diag, sample_sv,
        mul_m4_v3_scale, add_v3_v3v3, sub_v3_v3v3])
    (by
      intro i
      norm_num [snap_apply_point_final, snap_apply_point, sample_t_mat, sample_t, sample_tc,
        sv_diag, sample_sv, mul_m4_v3_scale, add_v3_v3v3, sub_v3_v3v3])

/-! ## Theorems: the initialisation of the mode -/

/-- The loop over the containers, when every builder call returns: the
containers get the builders' data, and the flag tells whether one had data. -/
theorem initEdgeSlide_ex_loop_spec (build : BMesh → Option (Option EdgeSlideData))
    (em : Nat → BMesh) (tcs : List TransDataContainer) (res : List (Option EdgeSlideData))
    (i : Nat) (ok : Bool) (hlen : res.length = tcs.length)
    (hb : ∀ k (h : k < res.length), build (em (i + k)) = some (res.get ⟨k, h⟩))
    (h0 : ∀ tc ∈ tcs, tc.custom_mode_data = none) :
    ∃ r, initEdgeSlide_ex_loop build em tcs i ok = some r ∧
      r.1.map (fun tc => tc.custom_mode_data) = res ∧
      (r.2 = (ok || res.any (fun o => o.isSome))) := by
  induction tcs generalizing res i ok with
  | nil =>
    cases res with
    | nil => exact ⟨_, rfl, rfl, by simp⟩
    | cons _ _ => simp at hlen
  | cons tc rest ih =>
    cases res with
    | nil => simp at hlen
    | cons o os =>
      have hlen1 : os.length = rest.length := by simpa using hlen
      have hb0 : build (em i) = some o := by
        have := hb 0 (by simp)
        simpa using this
      have hb1 : ∀ k (h : k < os.length), build (em (i + 1 + k)) = some (os.get ⟨k, h⟩) := by
        intro k h
        have := hb (k + 1) (by simp; omega)
        rw [show i + (k + 1) = i + 1 + k by omega] at this
        simpa using this
      have h01 : ∀ tc ∈ rest, tc.custom_mode_data = none :=
        fun tc1 h => h0 tc1 (List.mem_cons_of_mem _ h)
      have htc : tc.custom_mode_data = none := h0 tc (List.mem_cons_self _ _)
      cases o with
      | none =>
        obtain ⟨r, hr, h1, h2⟩ := ih os (i + 1) ok hlen1 hb1 h01
        refine ⟨(tc :: r.1, r.2), ?_, ?_, ?_⟩
        · simp only [initEdgeSlide_ex_loop, hb0, hr]
        · simp [h1, htc]
        · simp [h2]
      | some sld =>
        obtain ⟨r, hr, h1, h2⟩ := ih os (i + 1) true hlen1 hb1 h01
        refine ⟨({ tc with custom_mode_data := some sld } :: r.1, r.2), ?_, ?_, ?_⟩
        · simp only [initEdgeSlide_ex_loop, hb0, hr]
        · simp [h1]
        · simp [h2]

/-- The first slide data of a state whose containers hold `res`. -/
theorem edgeSlideFirstGet_of_map (t : TransInfo) (res : List (Option EdgeSlideData))
    (h : t.data_container.map (fun tc => tc.custom_mode_data) = res)
    (hany : res.any (fun o => o.isSome) = true) :
    ∃ sld, edgeSlideFirstGet t = some sld ∧ res.find? (fun o => o.isSome) = some (some sld) := by
  subst h
  unfold edgeSlideFirstGet edge_slide_container_first_ok
  generalize t.data_container = l at hany ⊢
  induction l with
  | nil => simp at hany
  | cons tc rest ih =>
    cases hc : tc.custom_mode_data with
    | none =>
      have hany1 : (rest.map (fun tc => tc.custom_mode_data)).any (fun o => o.isSome) = true := by
        simpa [hc] using hany
      obtain ⟨sld, h1, h2⟩ := ih hany1
      refine ⟨sld, ?_, ?_⟩
      · simpa [List.find?, hc] using h1
      · simpa [List.find?, hc] using h2
    | some sld =>
      exact ⟨sld, by simp [List.find?, hc], by simp [List.find?, hc]⟩

/-- C23: when every container starts without custom data, the state is not yet
cancelled and every builder call returns, `initEdgeSlide_ex` returns; it sets
the state to cancelled if and only if the builder returned no data for every
container; in that case the custom points and the input mode of the mouse input
are as before the call; every container holds what its builder returned (data
or none); and when the state is not cancelled the custom points are `mval_end`
and `mval_start` of the first data and the input mode is set. -/
theorem initEdgeSlide_ex_cancel (sqrtf : ℚ → ℚ) (view : ViewExtern) (fuel : Nat)
    (em : Nat → BMesh) (s : TransInitState) (use_double_side use_even flipped use_clamp : Bool)
    (res : List (Option EdgeSlideData))
    (hlen : res.length = s.t.data_container.length)
    (hb : ∀ k (h : k < res.length),
      (if use_double_side then createEdgeSlideVerts_double_side sqrtf view fuel (em k)
        else createEdgeSlideVerts_single_side sqrtf view fuel (em k)) = some (res.get ⟨k, h⟩))
    (h0 : ∀ tc ∈ s.t.data_container, tc.custom_mode_data = none)
    (hs : s.state_cancel = false) :
    ∃ r, initEdgeSlide_ex sqrtf view fuel em s use_double_side use_even flipped use_clamp =
        some r ∧
      (r.state_cancel = true ↔ ∀ o ∈ res, o = none) ∧
      (r.state_cancel = true →
        r.mouse_custom_points = s.mouse_custom_points ∧
        r.mouse_custom_ratio_flip = s.mouse_custom_ratio_flip) ∧
      r.t.data_container.map (fun tc => tc.custom_mode_data) = res ∧
      (r.state_cancel = false →
        ∃ sld, res.find? (fun o => o.isSome) = some (some sld) ∧
          r.mouse_custom_points = some (sld.mval_end, sld.mval_start) ∧
          r.mouse_custom_ratio_flip = true) := by
  obtain ⟨r, hr, h1, h2⟩ := initEdgeSlide_ex_loop_spec
    (if use_double_side then createEdgeSlideVerts_double_side sqrtf view fuel
      else createEdgeSlideVerts_single_side sqrtf view fuel) em s.t.data_container res 0 false
    hlen (by
      intro k h
      have := hb k h
      rw [Nat.zero_add]
      cases use_double_side <;> simpa using this) h0
  obtain ⟨tcs, ok⟩ := r
  simp only [Bool.false_or] at h1 h2
  have hall : (∀ o ∈ res, o = none) ↔ res.any (fun o => o.isSome) = false := by
    rw [Bool.eq_false_iff, Ne, List.any_eq_true]
    constructor
    · rintro h ⟨o, ho, hs⟩
      rw [h o ho] at hs
      simp at hs
    · intro h o ho
      cases o with
      | none => rfl
      | some x => exact absurd ⟨some x, ho, rfl⟩ h
  cases hok : ok with
  | false =>
    refine ⟨_, by simp only [initEdgeSlide_ex, hr, hok]; rfl, ?_, ?_, ?_, ?_⟩
    · simp only [true_iff]
      rw [hall, ← h2, hok]
    · intro _
      exact ⟨rfl, rfl⟩
    · exact h1
    · intro h
      simp at h
  | true =>
    have hany : res.any (fun o => o.isSome) = true := by rw [← h2, hok]
    obtain ⟨sld, hg, hf⟩ := edgeSlideFirstGet_of_map
      { flag_alt_transform := if (!use_clamp) = true then true else s.t.flag_alt_transform
        custom_mode_data :=
          { perc := 0, curr_side_unclamp := 0, use_even := use_even,
            flipped := if use_double_side = false then !flipped else flipped }
        data_container := tcs
        tsnap := s.t.tsnap } res h1 hany
    refine ⟨_, by
      simp only [initEdgeSlide_ex, hr, hok, calcEdgeSlideCustomPoints, hg]
      rfl, ?_, ?_, ?_, ?_⟩
    · simp only [hs, Bool.false_eq_true, false_iff]
      intro h
      rw [hall.mp h] at hany
      cases hany
    · intro h
      rw [hs] at h
      cases h
    · exact h1
    · intro _
      exact ⟨sld, hf, rfl, rfl⟩

set_option maxRecDepth 100000 in
/-- The single-sided builder returns no data for the grid without selection. -/
theorem single_side_unselected_grid_none :
    createEdgeSlideVerts_single_side sample_sqrtf sample_view 10
      (grid_mesh 2 2 5 (flat_co 1)) = some none :=
  createEdgeSlideVerts_single_side_none _ _ _ _ (single_side_sv_none _ _ (by decide))

/-- The single-sided builder returns data for the grid with the middle column selected. -/
theorem single_side_grid_some :
    ∃ sld, createEdgeSlideVerts_single_side sample_sqrtf sample_view 10
      (grid_mesh 2 2 1 (flat_co 1)) = some (some sld) := by
  obtain ⟨bm1, st, h, -⟩ := single_side_sv_some 10 (grid_mesh 2 2 1 (flat_co 1))
    grid_2_2_mesh_ok grid_2_2_vert_edge_ok (by decide) grid_2_2_qualifies
  obtain ⟨sld, -, h1, -⟩ := createEdgeSlideVerts_single_side_records sample_sqrtf sample_view
    10 _ bm1 st h
  exact ⟨sld, h1⟩

theorem initEdgeSlide_ex_cancel_witness :
    ∃ sld r,
      createEdgeSlideVerts_single_side sample_sqrtf sample_view 10 (sample_em 0) =
        some (some sld) ∧
      createEdgeSlideVerts_single_side sample_sqrtf sample_view 10 (sample_em 1) = some none ∧
      initEdgeSlide_ex sample_sqrtf sample_view 10 sample_em fresh_init_state false false false
        true = some r ∧
      (r.state_cancel = true ↔ ∀ o ∈ [some sld, none], o = none) ∧
      (r.state_cancel = true →
        r.mouse_custom_points = fresh_init_state.mouse_custom_points ∧
        r.mouse_custom_ratio_flip = fresh_init_state.mouse_custom_ratio_flip) ∧
      r.t.data_container.map (fun tc => tc.custom_mode_data) = [some sld, none] ∧
      (r.state_cancel = false →
        ∃ sld1, [some sld, none].find? (fun o => o.isSome) = some (some sld1) ∧
          r.mouse_custom_points = some (sld1.mval_end, sld1.mval_start) ∧
          r.mouse_custom_ratio_flip = true) := by
  obtain ⟨sld, h⟩ := single_side_grid_some
  have h1 := single_side_unselected_grid_none
  obtain ⟨r, hr⟩ := initEdgeSlide_ex_cancel sample_sqrtf sample_view 10 sample_em
    fresh_init_state false false false true [some sld, none] rfl
    (by
      intro k hk
      have hk2 : k < 2 := hk
      interval_cases k
      · simpa [sample_em] using h
      · simpa [sample_em] using h1)
    (by
      intro tc htc
      simp only [fresh_init_state, List.mem_cons, List.mem_singleton, List.not_mem_nil,
        or_false, or_self] at htc
      rw [htc]
      rfl)
    rfl
  exact ⟨sld, r, by simpa [sample_em] using h, by simpa [sample_em] using h1, hr⟩

/-! ## Theorems: the exchange of the sides in `calcEdgeSlide_mval_range` -/

/-- The distance to a segment does not depend on the order of its ends. -/
theorem dist_squared_to_line_segment_v2_comm (p l1 l2 : V2) :
    dist_squared_to_line_segment_v2 p l1 l2 = dist_squared_to_line_segment_v2 p l2 l1 := by
  obtain ⟨px, py⟩ := p
  obtain ⟨ax, ay⟩ := l1
  obtain ⟨bx, by1⟩ := l2
  simp only [dist_squared_to_line_segment_v2, len_squared_v2v2]
  by_cases hd : (bx - ax) * (bx - ax) + (by1 - ay) * (by1 - ay) = 0
  · have h1 : bx - ax = 0 := by nlinarith [sq_nonneg (bx - ax), sq_nonneg (by1 - ay)]
    have h2 : by1 - ay = 0 := by nlinarith [sq_nonneg (bx - ax), sq_nonneg (by1 - ay)]
    have e1 : bx = ax := by linarith
    have e2 : by1 = ay := by linarith
    subst e1 e2
    simp
  · have hd' : (ax - bx) * (ax - bx) + (ay - by1) * (ay - by1) ≠ 0 := by
      intro h
      apply hd
      linarith
    have hpos : 0 < (bx - ax) * (bx - ax) + (by1 - ay) * (by1 - ay) :=
      lt_of_le_of_ne (by nlinarith [sq_nonneg (bx - ax), sq_nonneg (by1 - ay)]) (Ne.symm hd)
    have hl : ((ax - bx) * (px - bx) + (ay - by1) * (py - by1)) /
        ((ax - bx) * (ax - bx) + (ay - by1) * (ay - by1)) =
        1 - ((bx - ax) * (px - ax) + (by1 - ay) * (py - ay)) /
          ((bx - ax) * (bx - ax) + (by1 - ay) * (by1 - ay)) := by
      field_simp
      ring
    simp only [ne_eq, hd, hd', not_false_eq_true, if_true, hl]
    generalize ((bx - ax) * (px - ax) + (by1 - ay) * (py - ay)) /
      ((bx - ax) * (bx - ax) + (by1 - ay) * (by1 - ay)) = lam
    by_cases h0 : lam ≤ 0
    · have h1 : ¬ (1 - lam ≤ 0) := by linarith
      have h2 : 1 - lam ≥ 1 := by linarith
      simp only [h0, h1, h2, if_true, if_false]
    · by_cases h1 : lam ≥ 1
      · have h2 : 1 - lam ≤ 0 := by linarith
        simp only [h0, h1, h2, if_true, if_false]
      · have h2 : ¬ (1 - lam ≤ 0) := by linarith
        have h3 : ¬ (1 - lam ≥ 1) := by linarith
        simp only [h0, h1, h2, h3, if_false]
        ring

/-- The screen positions of the rail ends of a record with exchanged sides are
those of the record, exchanged. -/
theorem edge_slide_pair_project_swap (view : ViewExtern) (bm : BMesh)
    (sv : TransDataEdgeSlideVert) :
    edge_slide_pair_project view bm (swap_sides sv) =
      ((edge_slide_pair_project view bm sv).2, (edge_slide_pair_project view bm sv).1) := by
  simp [edge_slide_pair_project, swap_sides, side_not]

/-- The per-loop values after the body of the edge loop, for an unselected edge. -/
theorem mval_range_edge_loop (view : ViewExtern) (bm : BMesh) (o : Bool)
    (sv : TransDataEdgeSlideVert) (r : MvalRange) (e : Nat) (hsel : (bm.edge e).select = false) :
    (calcEdgeSlide_mval_range_edge view bm o true sv r e).loop_maxdist =
      (if r.loop_maxdist sv.loop_nr = -1 ∨
          dist_squared_to_line_segment_v2 view.mval
            ((edge_slide_pair_project view bm sv).2.x, (edge_slide_pair_project view bm sv).2.y)
            ((edge_slide_pair_project view bm sv).1.x, (edge_slide_pair_project view bm sv).1.y) <
            r.loop_maxdist sv.loop_nr then
        Function.update r.loop_maxdist sv.loop_nr
          (dist_squared_to_line_segment_v2 view.mval
            ((edge_slide_pair_project view bm sv).2.x, (edge_slide_pair_project view bm sv).2.y)
            ((edge_slide_pair_project view bm sv).1.x, (edge_slide_pair_project view bm sv).1.y))
      else r.loop_maxdist) ∧
    (calcEdgeSlide_mval_range_edge view bm o true sv r e).loop_dir =
      (if r.loop_maxdist sv.loop_nr = -1 ∨
          dist_squared_to_line_segment_v2 view.mval
            ((edge_slide_pair_project view bm sv).2.x, (edge_slide_pair_project view bm sv).2.y)
            ((edge_slide_pair_project view bm sv).1.x, (edge_slide_pair_project view bm sv).1.y) <
            r.loop_maxdist sv.loop_nr then
        Function.update r.loop_dir sv.loop_nr
          (sub_v3_v3v3 (edge_slide_pair_project view bm sv).2
            (edge_slide_pair_project view bm sv).1)
      else r.loop_dir) := by
  simp only [calcEdgeSlide_mval_range_edge, hsel, Bool.false_eq_true, if_false, Bool.not_true,
    Bool.and_false, if_true]
  split_ifs <;> exact ⟨rfl, rfl⟩

theorem loop_dir_rel_edge (view : ViewExtern) (bm : BMesh) (o : Bool) (S : Int → Bool)
    (sv : TransDataEdgeSlideVert) (r r1 : MvalRange) (e : Nat) (h : LoopDirRel S r r1) :
    LoopDirRel S (calcEdgeSlide_mval_range_edge view bm o true sv r e)
      (calcEdgeSlide_mval_range_edge view bm o true
        (if S sv.loop_nr then swap_sides sv else sv) r1 e) := by
  obtain ⟨h1, h2⟩ := h
  by_cases hsel : (bm.edge e).select = true
  · simp only [calcEdgeSlide_mval_range_edge, hsel, if_true]
    exact ⟨h1, h2⟩
  · have hnr : (if S sv.loop_nr = true then swap_sides sv else sv).loop_nr = sv.loop_nr := by
      split_ifs <;> rfl
    have hdist : dist_squared_to_line_segment_v2 view.mval
        ((edge_slide_pair_project view bm
          (if S sv.loop_nr = true then swap_sides sv else sv)).2.x,
         (edge_slide_pair_project view bm
          (if S sv.loop_nr = true then swap_sides sv else sv)).2.y)
        ((edge_slide_pair_project view bm
          (if S sv.loop_nr = true then swap_sides sv else sv)).1.x,
         (edge_slide_pair_project view bm
          (if S sv.loop_nr = true then swap_sides sv else sv)).1.y) =
        dist_squared_to_line_segment_v2 view.mval
          ((edge_slide_pair_project view bm sv).2.x, (edge_slide_pair_project view bm sv).2.y)
          ((edge_slide_pair_project view bm sv).1.x, (edge_slide_pair_project view bm sv).1.y) := by
      split_ifs
      · rw [edge_slide_pair_project_swap]
        exact dist_squared_to_line_segment_v2_comm _ _ _
      · rfl
    have hdir : sub_v3_v3v3
        (edge_slide_pair_project view bm (if S sv.loop_nr = true then swap_sides sv else sv)).2
        (edge_slide_pair_project view bm (if S sv.loop_nr = true then swap_sides sv else sv)).1 =
        if S sv.loop_nr then sub_v3_v3v3 zero_v3
          (sub_v3_v3v3 (edge_slide_pair_project view bm sv).2
            (edge_slide_pair_project view bm sv).1)
        else sub_v3_v3v3 (edge_slide_pair_project view bm sv).2
            (edge_slide_pair_project view bm sv).1 := by
      split_ifs
      · rw [edge_slide_pair_project_swap]
        simp [sub_v3_v3v3, zero_v3]
      · rfl
    have hsel1 : (bm.edge e).select = false := by simpa using hsel
    obtain ⟨a1, a2⟩ := mval_range_edge_loop view bm o sv r e hsel1
    obtain ⟨b1, b2⟩ := mval_range_edge_loop view bm o
      (if S sv.loop_nr = true then swap_sides sv else sv) r1 e hsel1
    rw [hnr, hdist, h1] at b1 b2
    rw [hdir] at b2
    constructor
    · rw [a1, b1]
    · intro l
      rw [a2, b2]
      by_cases hc : r.loop_maxdist sv.loop_nr = -1 ∨
          dist_squared_to_line_segment_v2 view.mval
              ((edge_slide_pair_project view bm sv).2.x, (edge_slide_pair_project view bm sv).2.y)
              ((edge_slide_pair_project view bm sv).1.x, (edge_slide_pair_project view bm sv).1.y) <
            r.loop_maxdist sv.loop_nr
      · rw [if_pos hc, if_pos hc]
        by_cases hl : l = sv.loop_nr
        · subst hl
          simp
        · rw [Function.update_noteq hl, Function.update_noteq hl]
          exact h2 l
      · rw [if_neg hc, if_neg hc]
        exact h2 l

theorem loop_dir_rel_edges (view : ViewExtern) (bm : BMesh) (o : Bool) (S : Int → Bool)
    (sv : TransDataEdgeSlideVert) (es : List Nat) (r r1 : MvalRange) (h : LoopDirRel S r r1) :
    LoopDirRel S (es.foldl (calcEdgeSlide_mval_range_edge view bm o true sv) r)
      (es.foldl (calcEdgeSlide_mval_range_edge view bm o true
        (if S sv.loop_nr then swap_sides sv else sv)) r1) := by
  induction es generalizing r r1 with
  | nil => exact h
  | cons e es ih => exact ih _ _ (loop_dir_rel_edge view bm o S sv r r1 e h)

theorem loop_dir_rel_records (view : ViewExtern) (bm : BMesh) (o : Bool) (S : Int → Bool)
    (svs : List TransDataEdgeSlideVert) (r r1 : MvalRange) (h : LoopDirRel S r r1) :
    LoopDirRel S
      (svs.foldl (fun r sv1 =>
        (BM_EDGES_OF_VERT bm sv1.v).foldl (calcEdgeSlide_mval_range_edge view bm o true sv1) r) r)
      ((svs.map (fun sv => if S sv.loop_nr then swap_sides sv else sv)).foldl (fun r sv1 =>
        (BM_EDGES_OF_VERT bm sv1.v).foldl (calcEdgeSlide_mval_range_edge view bm o true sv1) r)
        r1) := by
  induction svs generalizing r r1 with
  | nil => exact h
  | cons sv svs ih =>
    simp only [List.map_cons, List.foldl_cons]
    apply ih
    have hv : (if S sv.loop_nr = true then swap_sides sv else sv).v = sv.v := by
      split_ifs <;> rfl
    rw [hv]
    exact loop_dir_rel_edges view bm o S sv _ r r1 h

/-- The directions of the loops, derived again from the records with the sides
of the loops in `S` exchanged: those of the loops in `S` are negated. -/
theorem mval_range_dirs_swap (view : ViewExtern) (bm : BMesh) (o : Bool) (S : Int → Bool)
    (svs : List TransDataEdgeSlideVert) (l : Int) :
    (calcEdgeSlide_mval_range_dirs view bm o true
        (svs.map (fun sv => if S sv.loop_nr then swap_sides sv else sv))).loop_dir l =
      if S l then sub_v3_v3v3 zero_v3 ((calcEdgeSlide_mval_range_dirs view bm o true svs).loop_dir l)
      else (calcEdgeSlide_mval_range_dirs view bm o true svs).loop_dir l :=
  (loop_dir_rel_records view bm o S svs _ _
    ⟨rfl, fun l => by simp [sub_v3_v3v3, zero_v3]⟩).2 l

/-- Claim C26: `calcEdgeSlide_mval_range` with `use_calc_direction` exchanges
the two sides (`dir_side` and `v_side`) of exactly the records whose loop has a
direction `loop_dir[loop_nr]` with a negative dot product with the global
direction `mval_dir`; the decision depends on the loop number only; the
exchange leaves the vertex, the original position, `edge_len` and `loop_nr`
of a record as they are; and the direction of every loop derived again from
the records of the result has a non-negative dot product with `mval_dir`. -/
theorem calcEdgeSlide_mval_range_swap (view : ViewExtern) (bm : BMesh) (o : Bool)
    (sld : EdgeSlideData) :
    (calcEdgeSlide_mval_range view bm o true sld).sv =
      sld.sv.map (fun sv =>
        if dot_v3v3 ((calcEdgeSlide_mval_range_dirs view bm o true sld.sv).loop_dir sv.loop_nr)
            (calcEdgeSlide_mval_range_dirs view bm o true sld.sv).mval_dir < 0
        then swap_sides sv else sv) ∧
    (∀ sv : TransDataEdgeSlideVert,
      (swap_sides sv).dir_side 0 = sv.dir_side 1 ∧ (swap_sides sv).dir_side 1 = sv.dir_side 0 ∧
      (swap_sides sv).v_side 0 = sv.v_side 1 ∧ (swap_sides sv).v_side 1 = sv.v_side 0 ∧
      (swap_sides sv).v = sv.v ∧ (swap_sides sv).v_co_orig = sv.v_co_orig ∧
      (swap_sides sv).edge_len = sv.edge_len ∧ (swap_sides sv).loop_nr = sv.loop_nr) ∧
    ∀ l : Int,
      0 ≤ dot_v3v3
        ((calcEdgeSlide_mval_range_dirs view bm o true
          (calcEdgeSlide_mval_range view bm o true sld).sv).loop_dir l)
        (calcEdgeSlide_mval_range_dirs view bm o true sld.sv).mval_dir := by
  refine ⟨calcEdgeSlide_mval_range_sv view bm o sld, ?_, ?_⟩
  · intro sv
    simp [swap_sides, side_not]
  · intro l
    rw [calcEdgeSlide_mval_range_sv]
    have h := mval_range_dirs_swap view bm o
      (fun l => decide (dot_v3v3 ((calcEdgeSlide_mval_range_dirs view bm o true sld.sv).loop_dir l)
        (calcEdgeSlide_mval_range_dirs view bm o true sld.sv).mval_dir < 0)) sld.sv l
    simp only [decide_eq_true_eq] at h
    rw [h]
    split_ifs with hc
    · simp only [dot_v3v3, sub_v3_v3v3, zero_v3] at hc ⊢
      linarith
    · exact not_lt.mp hc

/-! ## Theorems: the wire pass of the single-sided builder -/

theorem getElem?_modify_ne {α : Type} (f : α → α) (l : List α) (n k : Nat) (h : n ≠ k) :
    (l.modify f n)[k]? = l[k]? := by
  rw [List.getElem?_modify]
  simp [h]

theorem getElem?_modify_same {α : Type} (f : α → α) (l : List α) (n : Nat) :
    (l.modify f n)[n]? = l[n]?.map f := by
  rw [List.getElem?_modify]
  simp

/-- The vertices that a walk over wire passes are selected edge pairs without an
index in `sv_table`, different from each other and from those visited before. -/
theorem wire_chain_verts (bm : BMesh) (t0 : Nat → Int) :
    ∀ (vs visited : List Nat) (v e v_last : Nat),
      wire_chain bm t0 visited v e vs v_last = true →
      (∀ u ∈ vs, (bm.vert u).select = true ∧ BM_vert_is_edge_pair bm u = true ∧ t0 u = -1 ∧
        u ∉ visited) ∧ vs.Nodup := by
  intro vs
  induction vs with
  | nil => intro _ _ _ _ _; exact ⟨fun u hu => by simp at hu, List.nodup_nil⟩
  | cons u vs ih =>
    intro visited v e v_last h
    simp only [wire_chain, Bool.and_eq_true, decide_eq_true_eq] at h
    obtain ⟨⟨-, he⟩, hrest⟩ := h
    obtain ⟨h1, h2⟩ := ih _ _ _ _ hrest
    simp only [wire_eligible, Bool.and_eq_true, decide_eq_true_eq, Bool.not_eq_true',
      List.contains_eq_any_beq, List.any_eq_false, beq_iff_eq] at he
    have hu : u ∉ visited := fun hm => he.1.2 u hm rfl
    constructor
    · intro w hw
      rcases List.mem_cons.mp hw with rfl | hw
      · exact ⟨he.1.1.1.2, he.2, he.1.1.2, hu⟩
      · obtain ⟨a, b, c, d⟩ := h1 w hw
        exact ⟨a, b, c, fun hm => d (List.mem_append_left _ hm)⟩
    · refine List.nodup_cons.mpr ⟨?_, h2⟩
      intro hm
      exact (h1 u hm).2.2.2 (List.mem_append_right _ (List.mem_singleton_self u))

/-- The walk over wire passes a chain of vertices and stops at one: the records
from `j` on are those of the chain vertices, with the direction of the record
the walk started from; the result tells whether the chain is not empty and the
walk stopped at a vertex with an index in `sv_table` that is not an edge pair. -/
theorem single_side_walk_chain (bm : BMesh) (i sv_tot : Nat) (t0 : Nat → Int)
    (sv_iter : TransDataEdgeSlideVert) :
    ∀ (fuel : Nat) (t : Nat → Int) (arr : List TransDataEdgeSlideVert) (j v e_step : Nat)
      (visited : List Nat) (t1 : Nat → Int) (arr1 : List TransDataEdgeSlideVert) (j1 : Nat)
      (oe : Option Int),
      (∀ u, t u = -1 ↔ (t0 u = -1 ∧ u ∉ visited)) → i < j → arr[i]? = some sv_iter →
      single_side_walk bm i sv_tot fuel t arr j v e_step = some (t1, arr1, j1, oe) →
      ∃ vs v_last, wire_chain bm t0 visited v e_step vs v_last = true ∧ j1 = j + vs.length ∧
        (∀ k, k < vs.length → ∃ sv, arr1[j + k]? = some sv ∧ some sv.v = vs[k]? ∧
          sv.dir_side 0 = sv_iter.dir_side 0) ∧
        (∀ k, k < j → arr1[k]? = arr[k]?) ∧
        (∀ u, u ∉ vs → t1 u = t u) ∧
        oe = if (t1 v_last ≠ -1 ∧ BM_vert_is_edge_pair bm v_last = false) ∧ sv_tot ≠ j1
          then some (t1 v_last) else none := by
  intro fuel
  induction fuel with
  | zero =>
    intro t arr j v e_step visited t1 arr1 j1 oe _ _ _ h
    simp [single_side_walk] at h
  | succ fuel ih =>
    intro t arr j v e_step visited t1 arr1 j1 oe hvis hij hsv h
    unfold single_side_walk at h
    cases ho : BM_edge_other_vert bm e_step v with
    | none => simp [ho] at h
    | some v_other =>
      simp only [ho] at h
      have hend : ∀ tt : Nat → Int,
          ((if tt v_other ≠ -1 then 1 else 0) +
            (if BM_vert_is_edge_pair bm v_other = false then 1 else 0) = 2 ↔
            (tt v_other ≠ -1 ∧ BM_vert_is_edge_pair bm v_other = false)) ∧
          ((if tt v_other ≠ -1 then 1 else 0) +
            (if BM_vert_is_edge_pair bm v_other = false then 1 else 0) = 0 ↔
            (tt v_other = -1 ∧ BM_vert_is_edge_pair bm v_other = true)) := by
        intro tt
        by_cases a : tt v_other = -1 <;> by_cases b : BM_vert_is_edge_pair bm v_other = false <;>
          simp [a, b]
      have helig : wire_eligible bm t0 visited e_step v_other = true ↔
          (((bm.edge e_step).select = true ∧ (bm.vert v_other).select = true) ∧
            (if t v_other ≠ -1 then 1 else 0) +
              (if BM_vert_is_edge_pair bm v_other = false then 1 else 0) = 0) := by
        rw [(hend t).2, hvis v_other]
        simp only [wire_eligible, Bool.and_eq_true, decide_eq_true_eq, Bool.not_eq_true',
          List.contains_eq_any_beq, List.any_eq_false, beq_iff_eq]
        constructor
        · rintro ⟨⟨⟨⟨a, b⟩, c⟩, d⟩, e⟩
          exact ⟨⟨a, b⟩, ⟨c, fun hm => d _ hm rfl⟩, e⟩
        · rintro ⟨⟨a, b⟩, ⟨c, d⟩, e⟩
          exact ⟨⟨⟨⟨a, b⟩, c⟩, fun x hx hxe => d (hxe ▸ hx)⟩, e⟩
      by_cases hc : ((bm.edge e_step).select = true ∧ (bm.vert v_other).select = true) ∧
          (if t v_other ≠ -1 then 1 else 0) +
            (if BM_vert_is_edge_pair bm v_other = false then 1 else 0) = 0
      · rw [if_pos hc, hsv] at h
        simp only [sv_array_write] at h
        by_cases hjl : j < arr.length
        · rw [if_pos hjl] at h
          simp only at h
          have hvis1 : ∀ u, Function.update t v_other (j : Int) u = -1 ↔
              (t0 u = -1 ∧ u ∉ visited ++ [v_other]) := by
            intro u
            by_cases hu : u = v_other
            · subst hu
              simp only [Function.update_same, List.mem_append, List.mem_singleton, or_true,
                not_true_eq_false, and_false, iff_false]
              omega
            · rw [Function.update_noteq hu, hvis u]
              simp [hu]
          have hsv1 : (arr.modify (single_side_set_wire bm v_other sv_iter) j)[i]? =
              some sv_iter := by
            rw [getElem?_modify_ne _ _ _ _ (by omega), hsv]
          obtain ⟨vs, v_last, c1, c2, c3, c4, c5, c6⟩ := ih _ _ _ _ _ (visited ++ [v_other])
            t1 arr1 j1 oe hvis1 (by omega) hsv1 h
          have hvn : v_other ∉ vs := by
            intro hm
            exact ((wire_chain_verts bm t0 vs _ _ _ _ c1).1 v_other hm).2.2.2
              (List.mem_append_right _ (List.mem_singleton_self _))
          refine ⟨v_other :: vs, v_last, ?_, ?_, ?_, ?_, ?_, c6⟩
          · simp only [wire_chain, Bool.and_eq_true, decide_eq_true_eq]
            exact ⟨⟨ho, helig.mpr hc⟩, c1⟩
          · simp only [List.length_cons]
            omega
          · intro k hk
            cases k with
            | zero =>
              have := c4 j (by omega)
              rw [getElem?_modify_same, List.getElem?_eq_getElem hjl] at this
              refine ⟨_, this, ?_, ?_⟩
              · simp [single_side_set_wire]
              · simp [single_side_set_wire]
            | succ k =>
              obtain ⟨sv, g1, g2, g3⟩ := c3 k (by simpa using hk)
              refine ⟨sv, ?_, ?_, g3⟩
              · rw [← g1]
                congr 1
                omega
              · simpa using g2
          · intro k hk
            rw [c4 k (by omega), getElem?_modify_ne _ _ _ _ (by omega)]
          · intro u hu
            have hu1 : u ≠ v_other := fun hx => hu (hx ▸ List.mem_cons_self _ _)
            rw [c5 u (fun hm => hu (List.mem_cons_of_mem _ hm)), Function.update_noteq hu1]
        · rw [if_neg hjl] at h
          cases h
      · rw [if_neg hc] at h
        simp only [Option.some.injEq, Prod.mk.injEq] at h
        obtain ⟨rfl, rfl, rfl, rfl⟩ := h
        refine ⟨[], v_other, ?_, rfl, fun k hk => by simp at hk, fun _ _ => rfl,
          fun _ _ => rfl, ?_⟩
        · simp only [wire_chain, Bool.and_eq_true, decide_eq_true_eq, Bool.not_eq_true']
          refine ⟨ho, ?_⟩
          rw [Bool.eq_false_iff]
          exact fun he => hc (helig.mp he)
        · simp only [(hend t).1]

/-- The interpolation loop gives each of the `n` records from `sv_tot_prev` on
its interpolated direction and leaves the other records as they are. -/
theorem single_side_interp_get (bm : BMesh) (co_src co_dst : V3) (i i_end sv_tot_prev : Nat)
    (sv_iter sv_end : TransDataEdgeSlideVert) (hi : i < sv_tot_prev) (hie : i_end < sv_tot_prev) :
    ∀ (n : Nat) (arr arr1 : List TransDataEdgeSlideVert),
      arr[i]? = some sv_iter → arr[i_end]? = some sv_end →
      single_side_interp bm co_src co_dst i i_end sv_tot_prev n arr = some arr1 →
      ∀ k, arr1[k]? =
        if sv_tot_prev ≤ k ∧ k < sv_tot_prev + n then
          arr[k]?.map (single_side_interp_dir bm co_src co_dst sv_iter sv_end)
        else arr[k]? := by
  intro n
  induction n with
  | zero =>
    intro arr arr1 _ _ h k
    simp only [single_side_interp, Option.some.injEq] at h
    rw [h, if_neg (by omega)]
  | succ n ih =>
    intro arr arr1 h1 h2 h k
    unfold single_side_interp at h
    rw [h1, h2] at h
    cases hs : arr[sv_tot_prev + n]? with
    | none => simp [hs] at h
    | some sv =>
      simp only [hs] at h
      have := ih _ arr1 (by rw [getElem?_modify_ne _ _ _ _ (by omega), h1])
        (by rw [getElem?_modify_ne _ _ _ _ (by omega), h2]) h k
      rw [this]
      by_cases hk : k = sv_tot_prev + n
      · subst hk
        rw [if_neg (by omega), if_pos (by omega), getElem?_modify_same, hs]
        simp only [Option.map_some', single_side_interp_dir]
      · rw [getElem?_modify_ne _ _ _ _ (fun h => hk h.symm)]
        by_cases hk2 : sv_tot_prev ≤ k ∧ k < sv_tot_prev + n
        · rw [if_pos hk2, if_pos (by omega)]
        · rw [if_neg hk2, if_neg (by omega)]

/-- The chain that a walk over wire passes, and the vertex at which it stops,
are determined by the start of the walk. -/
theorem wire_chain_unique (bm : BMesh) (t0 : Nat → Int) :
    ∀ (vs vs1 visited : List Nat) (v e v_last v_last1 : Nat),
      wire_chain bm t0 visited v e vs v_last = true →
      wire_chain bm t0 visited v e vs1 v_last1 = true → vs = vs1 ∧ v_last = v_last1 := by
  intro vs
  induction vs with
  | nil =>
    intro vs1 visited v e v_last v_last1 h h1
    simp only [wire_chain, Bool.and_eq_true, decide_eq_true_eq, Bool.not_eq_true'] at h
    cases vs1 with
    | nil =>
      simp only [wire_chain, Bool.and_eq_true, decide_eq_true_eq, Bool.not_eq_true'] at h1
      refine ⟨rfl, ?_⟩
      have := h.1.symm.trans h1.1
      exact Option.some.inj this
    | cons u vs1 =>
      simp only [wire_chain, Bool.and_eq_true, decide_eq_true_eq] at h1
      have := Option.some.inj (h.1.symm.trans h1.1.1)
      subst this
      rw [h.2] at h1
      exact absurd h1.1.2 (by simp)
  | cons u vs ih =>
    intro vs1 visited v e v_last v_last1 h h1
    simp only [wire_chain, Bool.and_eq_true, decide_eq_true_eq] at h
    cases vs1 with
    | nil =>
      simp only [wire_chain, Bool.and_eq_true, decide_eq_true_eq, Bool.not_eq_true'] at h1
      have := Option.some.inj (h.1.1.symm.trans h1.1)
      subst this
      rw [h1.2] at h
      exact absurd h.1.2 (by simp)
    | cons u1 vs1 =>
      simp only [wire_chain, Bool.and_eq_true, decide_eq_true_eq] at h1
      have := Option.some.inj (h.1.1.symm.trans h1.1.1)
      subst this
      obtain ⟨a, b⟩ := ih _ _ _ _ _ _ h.2 h1.2
      exact ⟨by rw [a], b⟩

/-- The second loop of the single-sided builder establishes what the wire pass
relies on: every vertex with an index in `sv_table` has its record, in use, at
that index. -/
theorem single_side_fill_rec (bm : BMesh) :
    ∀ (vs : List Nat) (st st1 : SingleSideState),
      (∀ v, st.sv_table v ≠ -1 → (st.sv_table v).toNat < st.sv_tot ∧
        ∃ sv, st.sv_array[(st.sv_table v).toNat]? = some sv ∧ sv.v = v) →
      single_side_fill bm vs st = some st1 →
      ∀ v, st1.sv_table v ≠ -1 → (st1.sv_table v).toNat < st1.sv_tot ∧
        ∃ sv, st1.sv_array[(st1.sv_table v).toNat]? = some sv ∧ sv.v = v := by
  intro vs
  induction vs with
  | nil =>
    intro st st1 h hf
    simp only [single_side_fill, Option.some.injEq] at hf
    rw [← hf]
    exact h
  | cons v vs ih =>
    intro st st1 h hf
    have hskip : ∀ u, Function.update st.sv_table v (-1) u ≠ -1 →
        (Function.update st.sv_table v (-1) u).toNat < st.sv_tot ∧
        ∃ sv, st.sv_array[(Function.update st.sv_table v (-1) u).toNat]? = some sv ∧
          sv.v = u := by
      intro u hu
      by_cases huv : u = v
      · rw [huv, Function.update_same] at hu
        exact absurd rfl hu
      · rw [Function.update_noteq huv] at hu ⊢
        exact h u hu
    unfold single_side_fill at hf
    cases he : (bm.vert v).e with
    | none =>
      simp only [he] at hf
      exact ih _ st1 hskip hf
    | some e =>
      simp only [he] at hf
      by_cases hc : (bm.vert v).select = true ∧ (bm.edge e).select = false
      · rw [if_pos hc] at hf
        cases ho : BM_edge_other_vert bm e v with
        | none => simp [ho] at hf
        | some v_other =>
          simp only [ho, sv_array_write] at hf
          by_cases hl : st.sv_tot < st.sv_array.length
          · rw [if_pos hl] at hf
            simp only [Function.update_idem] at hf
            refine ih _ st1 ?_ hf
            intro u hu
            simp only at hu ⊢
            by_cases huv : u = v
            · subst huv
              rw [Function.update_same]
              simp only [Int.toNat_ofNat]
              refine ⟨by omega,
                single_side_set_primary bm u v_other (st.sv_array[st.sv_tot]), ?_, ?_⟩
              · rw [getElem?_modify_same, List.getElem?_eq_getElem hl]
                simp only [Option.map_some']
              · simp [single_side_set_primary]
            · rw [Function.update_noteq huv] at hu ⊢
              obtain ⟨a, sv, b, c⟩ := h u hu
              refine ⟨by omega, sv, ?_, c⟩
              rw [getElem?_modify_ne _ _ _ _ (by omega), b]
          · rw [if_neg hl] at hf
            cases hf
      · rw [if_neg hc] at hf
        exact ih _ st1 hskip hf

/-- Claim C27: in a consistent mesh, with the wire pass in a state it keeps (the
invariants `WireInv` and `WireRec`), the walk from the record `i` (`sv_iter`)
along the edge `e` returns; it passes a chain `vs` of selected edge-pair
vertices without an index in `sv_table` and stops at a vertex `v_last`.  When
the chain is not empty and `v_last` has an index in `sv_table` and is not an
edge pair, `v_last` has a record `sv_end` in use, the count grows by the length
of the chain, and the record appended for the `k`-th chain vertex has that
vertex and as `dir_side[0]` the interpolation between `dir_side[0]` of `sv_iter`
and of `sv_end` at the factor of the chain vertex's position on the line from
the position of the vertex of `sv_iter` to that of `v_last`.  Otherwise the
count is unchanged.  In both cases the earlier records are unchanged, the
vertices of the records in use are different from each other, and the
invariants hold again. -/
theorem single_side_wire_edge_chain (bm : BMesh) (hm : MeshOK bm) (fuel i : Nat)
    (st : SingleSideState) (e : Nat) (sv_iter : TransDataEdgeSlideVert)
    (hinv : WireInv bm st.sv_table (st.sv_array.map (fun sv => sv.v)) st.sv_tot)
    (hrec : WireRec bm st) (hi : i < st.sv_tot) (hfuel : bm.totvert < fuel)
    (hsv : st.sv_array[i]? = some sv_iter) (he : e ∈ (bm.vert sv_iter.v).disk) :
    ∃ (st1 : SingleSideState) (vs : List Nat) (v_last : Nat),
      single_side_wire_edge bm fuel i st e = some st1 ∧
      wire_chain bm st.sv_table [] sv_iter.v e vs v_last = true ∧
      (∀ u ∈ vs, (bm.vert u).select = true ∧ BM_vert_is_edge_pair bm u = true ∧
        st.sv_table u = -1) ∧
      st1.sv_array.take st.sv_tot = st.sv_array.take st.sv_tot ∧
      ((st1.sv_array.take st1.sv_tot).map (fun sv => sv.v)).Nodup ∧
      WireInv bm st1.sv_table (st1.sv_array.map (fun sv => sv.v)) st1.sv_tot ∧
      WireRec bm st1 ∧
      if vs ≠ [] ∧ st.sv_table v_last ≠ -1 ∧ BM_vert_is_edge_pair bm v_last = false then
        st1.sv_tot = st.sv_tot + vs.length ∧
        ∃ sv_end, st.sv_array[(st.sv_table v_last).toNat]? = some sv_end ∧
          (st.sv_table v_last).toNat < st.sv_tot ∧ sv_end.v = v_last ∧
          ∀ k, k < vs.length → ∃ sv, st1.sv_array[st.sv_tot + k]? = some sv ∧
            some sv.v = vs[k]? ∧
            sv.dir_side 0 = interp_v3_v3v3 (sv_iter.dir_side 0) (sv_end.dir_side 0)
              (line_point_factor_v3 (bm.vert sv.v).co (bm.vert sv_iter.v).co
                (bm.vert v_last).co)
      else st1.sv_tot = st.sv_tot := by
  have hlen : st.sv_array.length = bm.totvertsel := by
    have := hinv.len
    simpa using this
  have hle := hinv.le
  have hil : i < st.sv_array.length := by omega
  have hsvi : st.sv_array[i] = sv_iter := by
    rw [List.getElem?_eq_getElem hil] at hsv
    exact Option.some.inj hsv
  obtain ⟨u, hu1, hu2, -, -⟩ := hinv.recs i hi
  rw [List.getElem?_map, hsv] at hu1
  simp only [Option.map_some', Option.some.injEq] at hu1
  obtain ⟨t1, arr1, j1, oe, h1, h2, h3, h4, h5⟩ := single_side_walk_spec bm hm i st.sv_tot fuel
    st.sv_table st.sv_array st.sv_tot sv_iter.v e hinv (le_refl _) hi (hu1 ▸ hu2) he
    (by have := totvertsel_le bm; omega)
  obtain ⟨vs, v_last, c1, c2, c3, c4, c5, c6⟩ := single_side_walk_chain bm i st.sv_tot
    st.sv_table sv_iter fuel st.sv_table st.sv_array st.sv_tot sv_iter.v e [] t1 arr1 j1 oe
    (by intro u; simp) hi hsv h1
  obtain ⟨cv, cnd⟩ := wire_chain_verts bm st.sv_table vs [] _ _ _ c1
  have hlen1 : arr1.length = bm.totvertsel := by
    have := h2.len
    simpa using this
  have hnodup : ∀ (a : List TransDataEdgeSlideVert) (n : Nat),
      WireInv bm t1 (a.map (fun sv => sv.v)) n → ((a.take n).map (fun sv => sv.v)).Nodup := by
    intro a n h
    rw [List.map_take]
    exact h.nodup
  -- the table at the vertices that are not edge pairs
  have htab : ∀ w, BM_vert_is_edge_pair bm w = false → t1 w = st.sv_table w := by
    intro w hw
    apply c5
    intro hm
    have := (cv w hm).2.1
    rw [hw] at this
    cases this
  have hrec1 : ∀ (a : List TransDataEdgeSlideVert) (n : Nat), st.sv_tot ≤ n →
      a.take st.sv_tot = st.sv_array.take st.sv_tot →
      WireRec bm { sv_table := t1, sv_array := a, sv_tot := n } := by
    intro a n hn ha w hw hp
    simp only at hw ⊢
    rw [htab w hp] at hw ⊢
    obtain ⟨r1, sv, r2, r3⟩ := hrec w hw hp
    refine ⟨by omega, sv, ?_, r3⟩
    rw [getElem?_of_take_eq _ _ _ _ ha r1, r2]
  unfold single_side_wire_edge
  rw [hsv]
  simp only [h1]
  by_cases hcond : vs ≠ [] ∧ st.sv_table v_last ≠ -1 ∧ BM_vert_is_edge_pair bm v_last = false
  · obtain ⟨hvs, htl, hpl⟩ := hcond
    have hvl : 0 < vs.length := List.length_pos.mpr hvs
    have hoe : oe = some (st.sv_table v_last) := by
      rw [c6, htab v_last hpl, if_pos ⟨⟨htl, hpl⟩, by omega⟩]
    obtain ⟨r1, sv_end, r2, r3⟩ := hrec v_last htl hpl
    obtain ⟨hidx0, hidx1⟩ := h5 _ hoe
    have r2a : arr1[(st.sv_table v_last).toNat]? = some sv_end := by
      rw [getElem?_of_take_eq _ _ _ _ h4 r1, r2]
    have hsva : arr1[i]? = some sv_iter := by
      rw [getElem?_of_take_eq _ _ _ _ h4 hi, hsv]
    subst hoe
    simp only [hidx0, if_true, r2a]
    obtain ⟨arr2, g1, g2, g3⟩ := single_side_interp_spec bm (bm.vert sv_iter.v).co
      (bm.vert sv_end.v).co i (st.sv_table v_last).toNat st.sv_tot (j1 - st.sv_tot) arr1
      (by have := h2.le; omega) (by omega) (by omega)
    have gget := single_side_interp_get bm (bm.vert sv_iter.v).co (bm.vert sv_end.v).co i
      (st.sv_table v_last).toNat st.sv_tot sv_iter sv_end hi r1 (j1 - st.sv_tot) arr1 arr2
      hsva r2a g1
    rw [g1]
    have hinv2 : WireInv bm t1 (arr2.map (fun sv => sv.v)) j1 := by
      rw [g2]
      exact h2
    refine ⟨_, vs, v_last, rfl, c1, fun u hu => ⟨(cv u hu).1, (cv u hu).2.1, (cv u hu).2.2.1⟩,
      g3.trans h4, hnodup _ _ hinv2, hinv2, hrec1 _ _ h3 (g3.trans h4), ?_⟩
    rw [if_pos ⟨hvs, htl, hpl⟩]
    refine ⟨c2, sv_end, r2, r1, r3, ?_⟩
    intro k hk
    obtain ⟨sv, q1, q2, q3⟩ := c3 k hk
    refine ⟨single_side_interp_dir bm (bm.vert sv_iter.v).co (bm.vert sv_end.v).co sv_iter
      sv_end sv, ?_, q2, ?_⟩
    · simp only
      rw [gget, if_pos (by omega), q1]
      simp only [Option.map_some']
    · rw [← r3]
      simp [single_side_interp_dir]
  · have hoe : oe = none := by
      rw [c6]
      apply if_neg
      rintro ⟨⟨a, b⟩, c⟩
      apply hcond
      refine ⟨?_, ?_, b⟩
      · intro hv
        rw [hv] at c2
        simp at c2
        omega
      · rw [← htab v_last b]
        exact a
    subst hoe
    simp only
    refine ⟨_, vs, v_last, rfl, c1, fun u hu => ⟨(cv u hu).1, (cv u hu).2.1, (cv u hu).2.2.1⟩,
      h4, hnodup _ _ (h2.mono h3), h2.mono h3, hrec1 _ _ (le_refl _) h4, ?_⟩
    rw [if_neg hcond]

set_option maxRecDepth 100000 in
theorem wire_mesh_ok : MeshOK wire_mesh := by
  unfold MeshOK
  decide

set_option maxRecDepth 100000 in
theorem wire_state_inv :
    WireInv wire_mesh wire_state.sv_table (wire_state.sv_array.map (fun sv => sv.v))
      wire_state.sv_tot := by
  refine ⟨by decide, ?_, by decide, ?_⟩
  · intro k hk
    have hk2 : k < 2 := hk
    interval_cases k
    · exact ⟨0, rfl, by decide, by decide, by decide⟩
    · exact ⟨2, rfl, by decide, by decide, by decide⟩
  · intro v hv
    simp only [wire_state] at hv ⊢
    split_ifs at hv ⊢
    · decide
    · decide
    · exact absurd rfl hv

set_option maxRecDepth 100000 in
theorem wire_state_rec : WireRec wire_mesh wire_state := by
  intro v hv hp
  simp only [wire_state] at hv hp ⊢
  split_ifs at hv ⊢ with h0 h2
  · subst h0
    exact ⟨by decide, _, rfl, rfl⟩
  · subst h2
    exact ⟨by decide, _, rfl, rfl⟩
  · exact absurd rfl hv

set_option maxRecDepth 100000 in
theorem single_side_wire_edge_chain_witness :
    MeshOK wire_mesh ∧
    WireInv wire_mesh wire_state.sv_table (wire_state.sv_array.map (fun sv => sv.v))
      wire_state.sv_tot ∧
    WireRec wire_mesh wire_state ∧
    ∃ st1, single_side_wire_edge wire_mesh 8 0 wire_state 0 = some st1 ∧ st1.sv_tot = 3 ∧
      ∃ sv, st1.sv_array[2]? = some sv ∧ sv.v = 1 ∧ sv.dir_side 0 = ⟨0, 3 / 2, 0⟩ := by
  refine ⟨wire_mesh_ok, wire_state_inv, wire_state_rec, ?_⟩
  obtain ⟨st1, vs, v_last, h1, h2, -, -, -, -, -, h3⟩ :=
    single_side_wire_edge_chain wire_mesh wire_mesh_ok 8 0 wire_state 0
      (single_side_set_primary wire_mesh 0 3 sv_calloc) wire_state_inv wire_state_rec
      (by decide) (by decide) rfl (by decide)
  have hc : wire_chain wire_mesh wire_state.sv_table []
      (single_side_set_primary wire_mesh 0 3 sv_calloc).v 0 [1] 2 = true := by decide
  obtain ⟨rfl, rfl⟩ := wire_chain_unique _ _ _ _ _ _ _ _ _ h2 hc
  rw [if_pos (by decide)] at h3
  obtain ⟨h4, sv_end, h5, -, -, h6⟩ := h3
  obtain ⟨sv, h7, h8, h9⟩ := h6 0 (by decide)
  refine ⟨st1, h1, h4, sv, h7, ?_, ?_⟩
  · simpa using h8
  · have hv : sv.v = 1 := by simpa using h8
    have he : sv_end = single_side_set_primary wire_mesh 2 5 sv_calloc := by
      have : wire_state.sv_array[(wire_state.sv_table 2).toNat]? =
          some (single_side_set_primary wire_mesh 2 5 sv_calloc) := rfl
      rw [this] at h5
      exact (Option.some.inj h5).symm
    rw [h9, hv, he]
    norm_num [single_side_set_primary, wire_mesh, sv_calloc, interp_v3_v3v3,
      line_point_factor_v3, sub_v3_v3v3, dot_v3v3, len_squared_v3, zero_v3]

/-! ## Theorems: the loop numbers of the double-sided builder -/

theorem loop_frame_refl (bm : BMesh) (n : Int) (u : Nat) (st : DoubleSideState) :
    LoopFrame bm n u st st :=
  ⟨fun _ h => h, rfl, fun _ sv1 h => Or.inl ⟨sv1, h, rfl, rfl⟩⟩

theorem loop_frame_trans {bm : BMesh} {n : Int} {u : Nat} {a b c : DoubleSideState}
    (h1 : LoopFrame bm n u a b) (h2 : LoopFrame bm n u b c) : LoopFrame bm n u a c := by
  refine ⟨fun x hx => h1.1 x (h2.1 x hx), h2.2.1.trans h1.2.1, ?_⟩
  intro idx sv1 hsv
  rcases h2.2.2 idx sv1 hsv with ⟨sv0, g1, g2, g3⟩ | hnew
  · rcases h1.2.2 idx sv0 g1 with ⟨sv00, k1, k2, k3⟩ | ⟨k1, k2⟩
    · exact Or.inl ⟨sv00, k1, k2.trans g2, k3.trans g3⟩
    · exact Or.inr ⟨g3 ▸ k1, g2 ▸ k2⟩
  · exact Or.inr hnew

/-- A write that keeps the vertex and the loop number of the record. -/
theorem sv_write_frame (bm : BMesh) (n : Int) (u : Nat) (st st1 : DoubleSideState) (idx : Int)
    (f : TransDataEdgeSlideVert → TransDataEdgeSlideVert)
    (h : sv_write st idx f = some st1)
    (hf : ∀ sv, (f sv).v = sv.v ∧ (f sv).loop_nr = sv.loop_nr) : LoopFrame bm n u st st1 := by
  unfold sv_write at h
  split_ifs at h with hc
  simp only [Option.some.injEq] at h
  subst h
  refine ⟨fun _ hx => hx, rfl, ?_⟩
  intro k sv1 hsv
  simp only at hsv
  by_cases hk : idx.toNat = k
  · subst hk
    rw [getElem?_modify_same] at hsv
    cases hg : st.sv_array[idx.toNat]? with
    | none => simp [hg] at hsv
    | some sv0 =>
      rw [hg] at hsv
      simp only [Option.map_some', Option.some.injEq] at hsv
      subst hsv
      exact Or.inl ⟨sv0, rfl, ((hf sv0).1).symm, ((hf sv0).2).symm⟩
  · rw [getElem?_modify_ne _ _ _ _ hk] at hsv
    exact Or.inl ⟨sv1, hsv, rfl, rfl⟩

/-- The record of `v` is fetched or pushed and gets the loop number `n`. -/
theorem init_sv_frame (bm : BMesh) (n : Int) (u : Nat) (st st1 : DoubleSideState) (v : Nat)
    (idx : Int) (hc : SelConnected bm u v)
    (h : double_side_init_sv st v n = some (st1, idx)) : LoopFrame bm n u st st1 := by
  unfold double_side_init_sv at h
  simp only at h
  split at h
  · cases h
  · rename_i st2 hw
    simp only [Option.some.injEq, Prod.mk.injEq] at h
    obtain ⟨rfl, rfl⟩ := h
    unfold sv_write at hw
    split_ifs at hw with hcond
    simp only [Option.some.injEq] at hw
    subst hw
    unfold SV_FROM_VERT at hcond ⊢
    by_cases hu : st.sv_table v = INDEX_UNSET
    · simp only [hu, if_true] at hcond ⊢
      refine ⟨fun _ hx => hx, rfl, ?_⟩
      intro k sv1 hsv
      simp only [Int.toNat_ofNat] at hsv
      by_cases hk : st.sv_array.length = k
      · subst hk
        rw [getElem?_modify_same] at hsv
        simp only [List.getElem?_concat_length, Option.map_some', Option.some.injEq] at hsv
        subst hsv
        exact Or.inr ⟨rfl, hc⟩
      · rw [getElem?_modify_ne _ _ _ _ hk] at hsv
        by_cases hlt : k < st.sv_array.length
        · rw [List.getElem?_append_left hlt] at hsv
          exact Or.inl ⟨sv1, hsv, rfl, rfl⟩
        · rw [List.getElem?_eq_none (by simp; omega)] at hsv
          cases hsv
    · simp only [hu, if_false] at hcond ⊢
      refine ⟨fun _ hx => hx, rfl, ?_⟩
      intro k sv1 hsv
      simp only at hsv
      by_cases hk : (st.sv_table v).toNat = k
      · subst hk
        rw [getElem?_modify_same] at hsv
        cases hg : st.sv_array[(st.sv_table v).toNat]? with
        | none => simp [hg] at hsv
        | some sv0 =>
          rw [hg] at hsv
          simp only [Option.map_some', Option.some.injEq] at hsv
          subst hsv
          exact Or.inr ⟨rfl, hc⟩
      · rw [getElem?_modify_ne _ _ _ _ hk] at hsv
        exact Or.inl ⟨sv1, hsv, rfl, rfl⟩

theorem set_side_frame (bm bm0 : BMesh) (n : Int) (u : Nat) (st st1 : DoubleSideState)
    (idx : Int) (side : Fin 2) (v : Nat) (l l_prev : Option Nat) (vec : V3)
    (h : double_side_set_side bm0 st idx side v l l_prev vec = some st1) :
    LoopFrame bm n u st st1 := by
  unfold double_side_set_side at h
  split at h
  · simp only [Option.some.injEq] at h
    subst h
    exact loop_frame_refl bm n u st
  · split at h
    · cases h
    · exact sv_write_frame bm n u st st1 idx _ h (fun _ => ⟨rfl, rfl⟩)

theorem end_side_frame (sqrtf : ℚ → ℚ) (bm bm0 : BMesh) (fuel : Nat) (n : Int) (u : Nat)
    (st st1 : DoubleSideState) (idx : Int) (side : Fin 2) (v : Nat) (l : Option Nat)
    (e_prev : Nat)
    (h : double_side_end_side sqrtf bm0 fuel st idx side v l e_prev = some st1) :
    LoopFrame bm n u st st1 := by
  unfold double_side_end_side at h
  split at h
  · simp only [Option.some.injEq] at h
    subst h
    exact loop_frame_refl bm n u st
  · split at h
    · cases h
    · exact sv_write_frame bm n u st st1 idx _ h (fun _ => ⟨rfl, rfl⟩)

theorem untag_frame (bm : BMesh) (n : Int) (u : Nat) (st : DoubleSideState) (a b : Nat) :
    LoopFrame bm n u st
      { st with tag := Function.update (Function.update st.tag a false) b false } := by
  refine ⟨?_, rfl, fun _ sv1 h => Or.inl ⟨sv1, h, rfl, rfl⟩⟩
  intro x hx
  simp only at hx
  by_cases hb : x = b
  · subst hb
    simp at hx
  · rw [Function.update_noteq hb] at hx
    by_cases ha : x = a
    · subst ha
      simp at hx
    · rwa [Function.update_noteq ha] at hx

/-- The forward walk from a vertex connected to `u` changes the records of
vertices connected to `u` only, and gives them the loop number of the pass. -/
theorem walk_frame {bm : BMesh} (h : ChainOK bm) (sqrtf : ℚ → ℚ) (fuel_l : Nat) (n : Int)
    (v_first_e : Option Nat) (u : Nat) (fuel : Nat) :
    ∀ (w : DoubleSideWalk) (r : DoubleSideState), w.st.bm = bm → ChainPos bm (w.v, w.e) →
      SelConnected bm u w.v →
      double_side_walk sqrtf fuel_l n v_first_e fuel w = some r → LoopFrame bm n u w.st r := by
  induction fuel with
  | zero =>
    intro w r _ _ _ hr
    simp [double_side_walk] at hr
  | succ fuel ih =>
    intro w r hbm hp hc hr
    obtain ⟨v1, hv1, -, hv1lt, hv1sel, -, -⟩ :=
      h.ends w.v hp.1 hp.2.1 w.e hp.2.2.1 hp.2.2.2
    have hc1 : SelConnected bm u v1 :=
      Relation.ReflTransGen.tail hc ⟨w.e, hp.2.2.1, hp.2.2.2, hv1⟩
    rw [double_side_walk] at hr
    simp only [hbm, hv1] at hr
    split at hr
    · cases hr
    · rename_i st1 idx hi
      have F1 := init_sv_frame bm n u w.st st1 w.v idx hc hi
      split at hr
      · cases hr
      · rename_i st2 h2
        have F2 := set_side_frame bm bm n u st1 st2 idx 0 w.v w.l_a w.l_a_prev w.vec_a h2
        split at hr
        · cases hr
        · rename_i st3 h3
          have F3 := set_side_frame bm bm n u st2 st3 idx 1 w.v w.l_b w.l_b_prev w.vec_b h3
          have F123 := loop_frame_trans (loop_frame_trans F1 F2) F3
          cases hg : get_other_edge bm v1 w.e with
          | none =>
            rw [hg] at hr
            simp only at hr
            split at hr
            · cases hr
            · rename_i st4 idx4 h4
              have F4 := init_sv_frame bm n u st3 st4 v1 idx4 hc1 h4
              split at hr
              · cases hr
              · rename_i st5 h5
                have F5 := end_side_frame sqrtf bm bm fuel_l n u st4 st5 idx4 0 v1 w.l_a w.e h5
                split at hr
                · cases hr
                · rename_i st6 h6
                  have F6 := end_side_frame sqrtf bm bm fuel_l n u st5 st6 idx4 1 v1 w.l_b w.e h6
                  simp only [Option.some.injEq] at hr
                  subst hr
                  exact loop_frame_trans (loop_frame_trans (loop_frame_trans
                    (loop_frame_trans F123 F4) F5) F6) (untag_frame bm n u st6 v1 w.v)
          | some e =>
            rw [hg] at hr
            simp only at hr
            obtain ⟨ed, es, -⟩ := get_other_edge_spec bm v1 w.e e hg
            split at hr
            · cases hr
            · rename_i la va hna
              split at hr
              · cases hr
              · rename_i lb vb hnb
                split at hr
                · cases hr
                · rename_i la1 lb1 va1 vb1 hrc
                  have FU := untag_frame bm n u st3 v1 w.v
                  split_ifs at hr with hcond
                  · have := ih _ r (by
                        show st3.bm = bm
                        rw [F123.2.1]
                        exact hbm) ⟨hv1lt, hv1sel, ed, es⟩ hc1 hr
                    exact loop_frame_trans (loop_frame_trans F123 FU) this
                  · simp only [Option.some.injEq] at hr
                    subst hr
                    exact loop_frame_trans F123 FU

/-- The rewind ends at a vertex connected to the one it started from. -/
theorem rewind_connected {bm : BMesh} (h : ChainOK bm) (tag : Nat → Bool) (f : Nat) :
    ∀ (fuel v e : Nat) (r : Nat × Nat), v < bm.totvert → (bm.vert v).select = true →
      double_side_rewind bm tag f fuel v e = some r → SelConnected bm v r.1 := by
  intro fuel
  induction fuel with
  | zero =>
    intro v e r _ _ hr
    simp [double_side_rewind] at hr
  | succ fuel ih =>
    intro v e r hv hs hr
    rw [double_side_rewind] at hr
    cases hgo : get_other_edge bm v e with
    | none =>
      rw [hgo] at hr
      simp only at hr
      split at hr
      · cases hr
      · simp only [Option.some.injEq] at hr
        subst hr
        exact Relation.ReflTransGen.refl
    | some g =>
      rw [hgo] at hr
      simp only at hr
      obtain ⟨gd, gs, -⟩ := get_other_edge_spec bm v e g hgo
      obtain ⟨v1, hv1, -, hv1lt, hv1sel, -, -⟩ := h.ends v hv hs g gd gs
      have hadj : SelConnected bm v v1 := Relation.ReflTransGen.single ⟨g, gd, gs, hv1⟩
      rw [hv1] at hr
      simp only at hr
      split_ifs at hr with h1 h2
      · simp only [Option.some.injEq] at hr
        subst hr
        exact Relation.ReflTransGen.refl
      · exact Relation.ReflTransGen.trans hadj (ih v1 g r hv1lt hv1sel hr)
      · simp only [Option.some.injEq] at hr
        subst hr
        exact hadj

/-- A vertex connected to a selected vertex of the mesh is a selected vertex of
the mesh, and the connection goes both ways. -/
theorem sel_connected_symm {bm : BMesh} (h : ChainOK bm) (a b : Nat) (ha : a < bm.totvert)
    (hs : (bm.vert a).select = true) (hc : SelConnected bm a b) :
    b < bm.totvert ∧ (bm.vert b).select = true ∧ SelConnected bm b a := by
  induction hc with
  | refl => exact ⟨ha, hs, Relation.ReflTransGen.refl⟩
  | tail _ hbc ih =>
    obtain ⟨hb1, hb2, hb3⟩ := ih
    obtain ⟨e, he, hes, hy⟩ := hbc
    obtain ⟨w, hw, -, hwlt, hwsel, hwd, hback⟩ := h.ends _ hb1 hb2 e he hes
    rw [hy] at hw
    have := Option.some.inj hw
    subst this
    exact ⟨hwlt, hwsel, Relation.ReflTransGen.head ⟨e, hwd, hes, hback⟩ hb3⟩

/-- Between two passes, a vertex connected to an untagged selected vertex is not tagged. -/
theorem untagged_connected {bm : BMesh} (h : ChainOK bm) {st : DoubleSideState}
    (hinv : PassInv bm st) (a b : Nat) (ha : a < bm.totvert) (hs : (bm.vert a).select = true)
    (ht : st.tag a = false) (hc : SelConnected bm a b) : st.tag b = false := by
  induction hc with
  | refl => exact ht
  | tail hab hbc ih =>
    obtain ⟨hb1, hb2, -⟩ := sel_connected_symm h a _ ha hs hab
    obtain ⟨e, he, hes, hy⟩ := hbc
    exact hinv.closed _ hb1 hb2 ih e he hes _ hy

/-- One pass of the outer loop changes the records of vertices connected to the
vertex `u` it was started for only, gives them the loop number of the pass, and
leaves `u` untagged. -/
theorem pass_frame {bm : BMesh} (h : ChainOK bm) (sqrtf : ℚ → ℚ) (fuel : Nat)
    (st r : DoubleSideState) (n : Int) (u f : Nat) (hinv : PassInv bm st)
    (hu : st.tag u = true) (hf : (bm.vert u).e = some f)
    (hr : double_side_pass sqrtf fuel st n u f = some r) :
    LoopFrame bm n u st r ∧ r.tag u = false := by
  have hpass := pass_spec h sqrtf fuel st r n u f hinv hu hf hr
  obtain ⟨hult, husel⟩ := hinv.tag_ok u hu
  unfold double_side_pass at hr
  simp only [hinv.bm_eq] at hr
  split at hr
  · cases hr
  · rename_i v e hrw
    obtain ⟨htv, hve, -⟩ := rewind_spec h st.tag hinv.tag_ok
      (fun x hx hs e he hes y hy => hinv.tag_eq h x hx hs e he hes y hy) u f hu hf fuel (v, e) hrw
    have hcon : SelConnected bm u v := rewind_connected h st.tag f fuel u f (v, e) hult husel hrw
    obtain ⟨hvlt, hvsel⟩ := hinv.tag_ok v htv
    obtain ⟨e0, he0, he0d, he0s⟩ := h.vert_e v hvlt hvsel
    simp only at hve
    rw [hve] at he0
    have : e = e0 := Option.some.inj he0
    subst this
    split at hr
    · cases hr
    · rename_i l_a hla
      split at hr
      · cases hr
      · rename_i vec_a hva
        split at hr
        · cases hr
        · rename_i vec_b hvb
          have F := walk_frame h sqrtf fuel n _ u fuel _ r rfl
            ⟨hvlt, hvsel, he0d, he0s⟩ hcon hr
          have F0 : LoopFrame bm n u st
              { bm := bm, tag := Function.update st.tag v false, sv_table := st.sv_table,
                sv_array := st.sv_array } := by
            refine ⟨?_, hinv.bm_eq.symm, fun _ sv1 h => Or.inl ⟨sv1, h, rfl, rfl⟩⟩
            intro x hx
            simp only at hx
            by_cases ha : x = v
            · subst ha
              simp at hx
            · rwa [Function.update_noteq ha] at hx
          have hrv : r.tag v = false := by
            cases hx : r.tag v with
            | false => rfl
            | true =>
              have := F.1 v hx
              simp at this
          refine ⟨loop_frame_trans F0 F, ?_⟩
          exact untagged_connected h hpass v u hvlt hvsel hrv
            (sel_connected_symm h u v hult husel hcon).2.2

theorem find?_range_least (p : Nat → Bool) :
    ∀ (n u : Nat), (List.range n).find? p = some u →
      p u = true ∧ u < n ∧ ∀ x, x < u → p x = false := by
  intro n
  induction n with
  | zero => intro u h; simp at h
  | succ n ih =>
    intro u h
    rw [List.range_succ, List.find?_append] at h
    cases hf : (List.range n).find? p with
    | some a =>
      rw [hf] at h
      simp only [Option.or, Option.some.injEq] at h
      subst h
      obtain ⟨a1, a2, a3⟩ := ih a hf
      exact ⟨a1, by omega, a3⟩
    | none =>
      rw [hf] at h
      simp only [Option.or] at h
      have hn : p n = true ∧ n = u := by
        by_cases hp : p n = true
        · simp [List.find?, hp] at h
          exact ⟨hp, h⟩
        · simp [List.find?, hp] at h
      obtain ⟨hp, rfl⟩ := hn
      refine ⟨hp, by omega, ?_⟩
      intro x hx
      rw [List.find?_eq_none] at hf
      have := hf x (List.mem_range.mpr hx)
      simpa using this

/-- One pass of the outer loop for the first tagged vertex `u` keeps what holds
of the loop numbers, with `u` as the vertex of the new loop number. -/
theorem loop_inv_pass {bm : BMesh} (h : ChainOK bm) (st r : DoubleSideState) (reps : List Nat)
    (u : Nat) (hinv : PassInv bm st) (hr : PassInv bm r) (hl : LoopInv bm st reps)
    (hfirst : (List.range bm.totvert).find? (fun v => st.tag v) = some u)
    (hframe : LoopFrame bm (reps.length : Int) u st r) (hru : r.tag u = false) :
    LoopInv bm r (reps ++ [u]) := by
  obtain ⟨htu, -, hleast⟩ := find?_range_least _ _ _ hfirst
  obtain ⟨hult, husel⟩ := hinv.tag_ok u htu
  have hmono : ∀ x, st.tag x = false → r.tag x = false := by
    intro x hx
    cases hrx : r.tag x with
    | false => rfl
    | true =>
      have := hframe.1 x hrx
      rw [hx] at this
      cases this
  -- a vertex connected to one of `reps` is not tagged in `st`
  have hfar : ∀ (i w x : Nat), reps[i]? = some w → SelConnected bm w x → st.tag x = false := by
    intro i w x hw hc
    obtain ⟨a, b, c, -, -⟩ := hl.rep_ok i w hw
    exact untagged_connected h hinv w x a b c hc
  refine ⟨?_, ?_, ?_⟩
  · intro sv hsv
    obtain ⟨idx, hidx⟩ := List.getElem?_of_mem hsv
    rcases hframe.2.2 idx sv hidx with ⟨sv0, g1, g2, -⟩ | ⟨-, g2⟩
    · rw [← g2]
      exact hmono _ (hl.untag sv0 (List.getElem?_mem g1))
    · exact untagged_connected h hr u sv.v hult husel hru g2
  · intro sv hsv
    obtain ⟨idx, hidx⟩ := List.getElem?_of_mem hsv
    rcases hframe.2.2 idx sv hidx with ⟨sv0, g1, g2, g3⟩ | ⟨g1, g2⟩
    · obtain ⟨k, w, k1, k2, k3⟩ := hl.rec_rep sv0 (List.getElem?_mem g1)
      refine ⟨k, w, g3 ▸ k1, ?_, g2 ▸ k3⟩
      have hk : k < reps.length := (List.getElem?_eq_some_iff.mp k2).1
      rw [List.getElem?_append_left hk]
      exact k2
    · refine ⟨reps.length, u, g1, ?_, g2⟩
      simp
  · intro k w hw
    by_cases hk : k < reps.length
    · rw [List.getElem?_append_left hk] at hw
      obtain ⟨a, b, c, d, e⟩ := hl.rep_ok k w hw
      refine ⟨a, b, hmono w c, ?_, ?_⟩
      · intro i w1 hi hw1
        rw [List.getElem?_append_left (by omega)] at hw1
        exact d i w1 hi hw1
      · intro x hx hs hnot
        apply e x hx hs
        intro i w1 hi hw1
        apply hnot i w1 hi
        rw [List.getElem?_append_left (by omega)]
        exact hw1
    · have hk2 : k = reps.length := by
        have := (List.getElem?_eq_some_iff.mp hw).1
        simp only [List.length_append, List.length_singleton] at this
        omega
      subst hk2
      simp only [List.getElem?_concat_length, Option.some.injEq] at hw
      subst hw
      refine ⟨hult, husel, hru, ?_, ?_⟩
      · intro i w1 hi hw1 hc
        rw [List.getElem?_append_left hi] at hw1
        have := hfar i w1 u hw1 hc
        rw [htu] at this
        cases this
      · intro x hx hs hnot
        by_contra hlt
        push_neg at hlt
        have hxt : st.tag x = false := by simpa using hleast x hlt
        rcases hinv.done x hx hs with ht | hrec
        · rw [hxt] at ht
          cases ht
        · have hmem := hinv.rec_ok.mem x hrec
          obtain ⟨sv, hsv, hsvx⟩ := List.mem_map.mp hmem
          obtain ⟨k, w1, -, k2, k3⟩ := hl.rec_rep sv hsv
          have hk : k < reps.length := (List.getElem?_eq_some_iff.mp k2).1
          apply hnot k w1 hk
          · rw [List.getElem?_append_left hk]
            exact k2
          · rw [← hsvx]
            exact k3

/-- The outer loop keeps what holds of the loop numbers: at its end the loop
number is the number of the vertices the passes were started for. -/
theorem loop_inv_loop {bm : BMesh} (h : ChainOK bm) (sqrtf : ℚ → ℚ) (fuel_l fuel : Nat) :
    ∀ (st : DoubleSideState) (reps : List Nat) (r : DoubleSideState × Int), PassInv bm st →
      LoopInv bm st reps →
      double_side_loop sqrtf fuel_l fuel st (reps.length : Int) = some r →
      ∃ reps1 : List Nat, r.2 = (reps1.length : Int) ∧ LoopInv bm r.1 reps1 := by
  induction fuel with
  | zero =>
    intro st reps r _ _ hr
    simp [double_side_loop] at hr
  | succ fuel ih =>
    intro st reps r hinv hl hr
    rw [double_side_loop] at hr
    simp only [hinv.bm_eq] at hr
    split at hr
    · simp only [Option.some.injEq] at hr
      subst hr
      exact ⟨reps, rfl, hl⟩
    · rename_i v hfind
      have htag : st.tag v = true := List.find?_some hfind
      split at hr
      · exact ih st reps r hinv hl hr
      · rename_i e0 he0
        split at hr
        · cases hr
        · rename_i st1 hpass
          have hp1 := pass_spec h sqrtf fuel_l st st1 _ v e0 hinv htag he0 hpass
          obtain ⟨hfr, hru⟩ := pass_frame h sqrtf fuel_l st st1 _ v e0 hinv htag he0 hpass
          have hl1 := loop_inv_pass h st st1 reps v hinv hp1 hl hfind hfr hru
          have hlen : ((reps.length : Int) + 1) = ((reps ++ [v]).length : Int) := by
            simp
          rw [hlen] at hr
          exact ih st1 (reps ++ [v]) r hp1 hl1 hr

theorem loop_inv_start (bm : BMesh) (st : DoubleSideState) (h : st.sv_array = []) :
    LoopInv bm st [] := by
  refine ⟨?_, ?_, ?_⟩
  · intro sv hsv
    rw [h] at hsv
    cases hsv
  · intro sv hsv
    rw [h] at hsv
    cases hsv
  · intro k u hk
    simp at hk

theorem sel_connected_congr {bm bm1 : BMesh} (hs : same_but_vert_e bm bm1) (a b : Nat) :
    SelConnected bm1 a b ↔ SelConnected bm a b := by
  have hadj : sel_adj bm1 = sel_adj bm := by
    funext x y
    obtain ⟨-, -, -, -, he, -, -, hv⟩ := hs
    simp only [sel_adj, (hv x).2.2, he, BM_edge_other_vert]
  unfold SelConnected
  rw [hadj]

/-- At the end of the walk of the double-sided builder, in a mesh with consistent
tables: the loop numbers are as `LoopInv` says, for the mesh as given; every
selected vertex has a record; and the stack has as many records as the
assertion of line 859 asks for. -/
theorem double_side_sv_loop_inv (sqrtf : ℚ → ℚ) (fuel : Nat) (bm : BMesh)
    (st : DoubleSideState) (n : Int) (hm : MeshOK bm)
    (h : createEdgeSlideVerts_double_side_sv sqrtf fuel bm = some (some (st, n))) :
    (∃ reps : List Nat, n = (reps.length : Int) ∧ LoopInv st.bm st reps) ∧
      ChainOK st.bm ∧ same_but_vert_e bm st.bm ∧
      st.sv_array.length = double_side_count_sel st.bm ∧
      (∀ v, v < bm.totvert → (bm.vert v).select = true → ∃ sv ∈ st.sv_array, sv.v = v) := by
  obtain ⟨hsame, hinv, htag⟩ := double_side_sv_inv sqrtf fuel bm st n hm h
  obtain ⟨htv, -, -, -, -, -, -, hvert⟩ := hsame
  have hall : ∀ v, v < bm.totvert → (bm.vert v).select = true → v ∈ sv_verts st := by
    intro v hv hs
    rcases hinv.done v (by rw [htv]; exact hv) (by rw [(hvert v).2.1]; exact hs) with r | r
    · rw [htag v hv] at r
      cases r
    · exact hinv.rec_ok.mem v r
  have hperm : (sv_verts st).Perm
      ((List.range st.bm.totvert).filter (fun v => (st.bm.vert v).select)) := by
    rw [List.perm_ext_iff_of_nodup hinv.rec_ok.nodup ((List.nodup_range _).filter _)]
    intro x
    simp only [List.mem_filter, List.mem_range]
    constructor
    · intro hx
      exact hinv.rec_sel x hx
    · intro hx
      exact hall x (by rw [← htv]; exact hx.1) (by rw [← (hvert x).2.1]; exact hx.2)
  have hlen : st.sv_array.length = double_side_count_sel st.bm := by
    have := hperm.length_eq
    simpa [sv_verts, double_side_count_sel] using this
  unfold createEdgeSlideVerts_double_side_sv at h
  split at h
  · cases h
  · rename_i bm1 hc
    split_ifs at h with h1 h2
    · cases h
    · cases h
    simp only at h
    split at h
    · cases h
    · rename_i r hloop
      simp only [Option.some.injEq] at h
      subst h
      have hsame1 := ((double_side_check_verts_spec (List.range bm.totvert)
        (List.nodup_range _) bm).2 bm1 hc).1
      have hce : double_side_check_edges bm1 = true := by simpa using h1
      have hchain := check_verts_chain_ok bm bm1 hm hc hce
      have hbm : st.bm = bm1 := (loop_spec hchain sqrtf fuel fuel _ 0 (st, n)
        (pass_inv_start bm1) hloop).1.bm_eq
      obtain ⟨reps, hr1, hr2⟩ := loop_inv_loop hchain sqrtf fuel fuel _ [] (st, n)
        (pass_inv_start bm1) (loop_inv_start bm1 _ rfl) hloop
      refine ⟨⟨reps, hr1, ?_⟩, ?_, ?_, hlen, ?_⟩
      · rw [hbm]; exact hr2
      · rw [hbm]; exact hchain
      · rw [hbm]; exact hsame1
      · intro v hv hs
        obtain ⟨sv, hsv, hx⟩ := List.mem_map.mp (hall v hv hs)
        exact ⟨sv, hsv, hx⟩

/-- Claim C21: for every mesh with consistent tables, when the walk of
`createEdgeSlideVerts_double_side` has come to its end with the loop number
`n`, the builder returns data in which two records have the same `loop_nr` if
and only if their vertices are connected by a path of selected edges.  There
are `n` vertices `reps[0]`, ..., `reps[n-1]`, the ones the passes were started
for: the record of a vertex has the loop number `k` exactly when the vertex is
connected to `reps[k]`; `reps[k]` is the first selected vertex in mesh order
that is not connected to an earlier one of them, so the loop numbers 0, 1,
2, ... follow the order in which the components are discovered; and every
selected vertex is connected to one of them, so `n` is the number of connected
components of the selection. -/
theorem createEdgeSlideVerts_double_side_loop_nr (sqrtf : ℚ → ℚ) (view : ViewExtern)
    (fuel : Nat) (bm : BMesh) (st : DoubleSideState) (n : Int) (hm : MeshOK bm)
    (h : createEdgeSlideVerts_double_side_sv sqrtf fuel bm = some (some (st, n))) :
    ∃ (sld : EdgeSlideData) (reps : List Nat),
      createEdgeSlideVerts_double_side sqrtf view fuel bm = some (some sld) ∧
      n = (reps.length : Int) ∧
      (∀ sv1 ∈ sld.sv, ∀ sv2 ∈ sld.sv,
        (sv1.loop_nr = sv2.loop_nr ↔ SelConnected bm sv1.v sv2.v)) ∧
      (∀ sv ∈ sld.sv, ∀ (k u : Nat), reps[k]? = some u →
        (sv.loop_nr = (k : Int) ↔ SelConnected bm u sv.v)) ∧
      (∀ sv ∈ sld.sv, ∃ k : Nat, k < reps.length ∧ sv.loop_nr = (k : Int)) ∧
      (∀ (k u : Nat), reps[k]? = some u →
        u < bm.totvert ∧ (bm.vert u).select = true ∧
        (∃ sv ∈ sld.sv, sv.v = u ∧ sv.loop_nr = (k : Int)) ∧
        (∀ (i w : Nat), i < k → reps[i]? = some w → ¬ SelConnected bm w u) ∧
        (∀ x, x < bm.totvert → (bm.vert x).select = true →
          (∀ (i w : Nat), i < k → reps[i]? = some w → ¬ SelConnected bm w x) → u ≤ x)) ∧
      (∀ x, x < bm.totvert → (bm.vert x).select = true →
        ∃ (k u : Nat), reps[k]? = some u ∧ SelConnected bm u x) := by
  obtain ⟨⟨reps, hn, hl⟩, hchain, hsame, hlen, hall⟩ :=
    double_side_sv_loop_inv sqrtf fuel bm st n hm h
  obtain ⟨sld, g, h1, h2, h3⟩ :=
    createEdgeSlideVerts_double_side_records sqrtf view fuel bm st n h hlen
  have hcon : ∀ a b, SelConnected st.bm a b ↔ SelConnected bm a b :=
    fun a b => sel_connected_congr hsame a b
  have htv : st.bm.totvert = bm.totvert := hsame.1
  have hselv : ∀ x, (st.bm.vert x).select = (bm.vert x).select := fun x => (hsame.2.2.2.2.2.2.2 x).2.1
  -- the records of the data, through those of the stack
  have hrec : ∀ sv ∈ sld.sv, ∃ sv0 ∈ st.sv_array, sv0.v = sv.v ∧ sv0.loop_nr = sv.loop_nr := by
    intro sv hsv
    rw [h2] at hsv
    obtain ⟨sv0, g1, rfl⟩ := List.mem_map.mp hsv
    exact ⟨sv0, g1, ((h3 sv0).1).symm, ((h3 sv0).2.1).symm⟩
  -- the vertices of `reps` are selected vertices, connected only to themselves
  have hrepsel : ∀ (k u : Nat), reps[k]? = some u →
      u < st.bm.totvert ∧ (st.bm.vert u).select = true := fun k u hk =>
    ⟨(hl.rep_ok k u hk).1, (hl.rep_ok k u hk).2.1⟩
  have hrepeq : ∀ (i k w u : Nat), reps[i]? = some w → reps[k]? = some u →
      SelConnected st.bm w u → i = k := by
    intro i k w u hi hk hc
    rcases Nat.lt_trichotomy i k with hlt | heq | hgt
    · exact absurd hc ((hl.rep_ok k u hk).2.2.2.1 i w hlt hi)
    · exact heq
    · obtain ⟨a, b⟩ := hrepsel i w hi
      exact absurd (sel_connected_symm hchain w u a b hc).2.2
        ((hl.rep_ok i w hi).2.2.2.1 k u hgt hk)
  -- the loop number of a record names the vertex of `reps` it is connected to
  have hkey : ∀ sv ∈ sld.sv, ∀ (k u : Nat), reps[k]? = some u →
      (sv.loop_nr = (k : Int) ↔ SelConnected st.bm u sv.v) := by
    intro sv hsv k u hk
    obtain ⟨sv0, g1, g2, g3⟩ := hrec sv hsv
    obtain ⟨k0, u0, a1, a2, a3⟩ := hl.rec_rep sv0 g1
    rw [g2] at a3
    rw [g3] at a1
    constructor
    · intro hkk
      have : k0 = k := by
        rw [a1] at hkk
        exact_mod_cast hkk
      subst this
      rw [a2] at hk
      cases hk
      exact a3
    · intro hc
      obtain ⟨b1, b2⟩ := hrepsel k u hk
      obtain ⟨c1, c2⟩ := hrepsel k0 u0 a2
      have hcc : SelConnected st.bm u0 u :=
        Relation.ReflTransGen.trans a3 (sel_connected_symm hchain u sv.v b1 b2 hc).2.2
      have := hrepeq k0 k u0 u a2 hk hcc
      rw [a1, this]
  refine ⟨sld, reps, h1, hn, ?_, ?_, ?_, ?_, ?_⟩
  · intro sv1 hsv1 sv2 hsv2
    rw [← hcon]
    obtain ⟨sv0, g1, g2, g3⟩ := hrec sv1 hsv1
    obtain ⟨k0, u0, a1, a2, a3⟩ := hl.rec_rep sv0 g1
    rw [g2] at a3
    rw [g3] at a1
    obtain ⟨c1, c2⟩ := hrepsel k0 u0 a2
    constructor
    · intro heq
      have := (hkey sv2 hsv2 k0 u0 a2).mp (by rw [← heq, a1])
      exact Relation.ReflTransGen.trans (sel_connected_symm hchain u0 sv1.v c1 c2 a3).2.2 this
    · intro hc
      rw [a1]
      exact ((hkey sv2 hsv2 k0 u0 a2).mpr (Relation.ReflTransGen.trans a3 hc)).symm
  · intro sv hsv k u hk
    rw [← hcon]
    exact hkey sv hsv k u hk
  · intro sv hsv
    obtain ⟨sv0, g1, -, g3⟩ := hrec sv hsv
    obtain ⟨k0, u0, a1, a2, -⟩ := hl.rec_rep sv0 g1
    exact ⟨k0, (List.getElem?_eq_some_iff.mp a2).1, g3 ▸ a1⟩
  · intro k u hk
    obtain ⟨a, b, -, d, e⟩ := hl.rep_ok k u hk
    rw [htv] at a
    rw [hselv] at b
    refine ⟨a, b, ?_, ?_, ?_⟩
    · obtain ⟨sv0, g1, g2⟩ := hall u a b
      have hmem : g sv0 ∈ sld.sv := by
        rw [h2]
        exact List.mem_map_of_mem _ g1
      refine ⟨g sv0, hmem, ((h3 sv0).1).trans g2, ?_⟩
      apply (hkey (g sv0) hmem k u hk).mpr
      rw [(h3 sv0).1, g2]
      exact Relation.ReflTransGen.refl
    · intro i w hi hw hc
      exact d i w hi hw ((hcon w u).mpr hc)
    · intro x hx hs hnot
      apply e x (by rw [htv]; exact hx) (by rw [hselv]; exact hs)
      intro i w hi hw hc
      exact hnot i w hi hw ((hcon w x).mp hc)
  · intro x hx hs
    obtain ⟨sv0, g1, g2⟩ := hall x hx hs
    obtain ⟨k0, u0, -, a2, a3⟩ := hl.rec_rep sv0 g1
    rw [g2] at a3
    exact ⟨k0, u0, a2, (hcon u0 x).mp a3⟩

theorem createEdgeSlideVerts_double_side_loop_nr_witness :
    MeshOK (grid_mesh 2 2 1 (flat_co 1)) ∧
    ∃ st n, createEdgeSlideVerts_double_side_sv sample_sqrtf 3 (grid_mesh 2 2 1 (flat_co 1)) =
        some (some (st, n)) ∧
      ∃ (sld : EdgeSlideData) (reps : List Nat),
        createEdgeSlideVerts_double_side sample_sqrtf sample_view 3
          (grid_mesh 2 2 1 (flat_co 1)) = some (some sld) ∧
        n = (reps.length : Int) ∧
        (∀ sv1 ∈ sld.sv, ∀ sv2 ∈ sld.sv,
          (sv1.loop_nr = sv2.loop_nr ↔
            SelConnected (grid_mesh 2 2 1 (flat_co 1)) sv1.v sv2.v)) ∧
        (∀ sv ∈ sld.sv, ∀ (k u : Nat), reps[k]? = some u →
          (sv.loop_nr = (k : Int) ↔ SelConnected (grid_mesh 2 2 1 (flat_co 1)) u sv.v)) ∧
        (∀ sv ∈ sld.sv, ∃ k : Nat, k < reps.length ∧ sv.loop_nr = (k : Int)) ∧
        (∀ (k u : Nat), reps[k]? = some u →
          u < (grid_mesh 2 2 1 (flat_co 1)).totvert ∧
          ((grid_mesh 2 2 1 (flat_co 1)).vert u).select = true ∧
          (∃ sv ∈ sld.sv, sv.v = u ∧ sv.loop_nr = (k : Int)) ∧
          (∀ (i w : Nat), i < k → reps[i]? = some w →
            ¬ SelConnected (grid_mesh 2 2 1 (flat_co 1)) w u) ∧
          (∀ x, x < (grid_mesh 2 2 1 (flat_co 1)).totvert →
            ((grid_mesh 2 2 1 (flat_co 1)).vert x).select = true →
            (∀ (i w : Nat), i < k → reps[i]? = some w →
              ¬ SelConnected (grid_mesh 2 2 1 (flat_co 1)) w x) → u ≤ x)) ∧
        (∀ x, x < (grid_mesh 2 2 1 (flat_co 1)).totvert →
          ((grid_mesh 2 2 1 (flat_co 1)).vert x).select = true →
          ∃ (k u : Nat), reps[k]? = some u ∧
            SelConnected (grid_mesh 2 2 1 (flat_co 1)) u x) := by
  obtain ⟨bm1, -, hsv⟩ := grid_double_side_sv sample_sqrtf 2 2 0 (flat_co 1) (by norm_num)
    (by norm_num) 3 (by norm_num) (by norm_num)
  exact ⟨grid_2_2_mesh_ok, _, _, hsv,
    createEdgeSlideVerts_double_side_loop_nr sample_sqrtf sample_view 3
      (grid_mesh 2 2 1 (flat_co 1)) _ _ grid_2_2_mesh_ok hsv⟩

/-! ## Theorems: the rails of chain ends on the mesh boundary -/

theorem BM_loop_other_edge_loop_lt {bm : BMesh} (h : LoopOK bm) (l v l1 : Nat)
    (hl : l < bm.totloop) (h1 : BM_loop_other_edge_loop bm l v = some l1) :
    l1 < bm.totloop := by
  obtain ⟨a, b, -, -⟩ := h.1 l hl
  unfold BM_loop_other_edge_loop at h1
  split at h1
  · cases h1
  · split_ifs at h1 <;> simp only [Option.some.injEq] at h1 <;> subst h1 <;> assumption

/-- The loop that `get_next_loop` returns is a loop of the mesh on the edge `e_next`. -/
theorem get_next_loop_loop_e {bm : BMesh} (h : LoopOK bm) (sqrtf : ℚ → ℚ)
    (v l_first e_prev e_next : Nat) :
    ∀ (fuel l : Nat) (acc : V3) (len : ℚ) (i : Nat) (r : Nat) (vec : V3), l < bm.totloop →
      get_next_loop_loop sqrtf bm v l_first e_prev e_next fuel l acc len i = some (some r, vec) →
      r < bm.totloop ∧ (bm.loop r).e = e_next := by
  intro fuel
  induction fuel with
  | zero =>
    intro l acc len i r vec _ hr
    simp [get_next_loop_loop] at hr
  | succ fuel ih =>
    intro l acc len i r vec hl hr
    rw [get_next_loop_loop] at hr
    cases h1 : BM_loop_other_edge_loop bm l v with
    | none => simp [h1] at hr
    | some l1 =>
      have hl1 := BM_loop_other_edge_loop_lt h l v l1 hl h1
      simp only [h1] at hr
      by_cases he : (bm.loop l1).e = e_next
      · rw [if_pos he] at hr
        split_ifs at hr
        · simp only [Option.some.injEq, Prod.mk.injEq] at hr
          obtain ⟨rfl, -⟩ := hr
          exact ⟨hl1, he⟩
        · split at hr
          · cases hr
          · simp only [Option.some.injEq, Prod.mk.injEq] at hr
            obtain ⟨rfl, -⟩ := hr
            exact ⟨hl1, he⟩
      · rw [if_neg he] at hr
        split at hr
        · cases hr
        · split at hr
          · cases hr
          · rename_i l2 h2
            have hl2 := BM_loop_other_edge_loop_lt h l1 v l2 hl1 h2
            by_cases c1 : (bm.loop l2).e = e_next
            · rw [if_pos c1] at hr
              simp only [Option.some.injEq, Prod.mk.injEq] at hr
              obtain ⟨rfl, -⟩ := hr
              exact ⟨hl2, c1⟩
            · rw [if_neg c1] at hr
              by_cases c2 : l1 ≠ (bm.loop l1).radial_next ∧ (bm.loop l1).radial_next ≠ l_first
              · rw [if_pos c2] at hr
                exact ih _ _ _ _ r vec (h.1 l1 hl1).2.2.1 hr
              · rw [if_neg c2] at hr
                simp at hr

theorem get_next_loop_e {bm : BMesh} (h : LoopOK bm) (sqrtf : ℚ → ℚ) (fuel v l e_prev e_next : Nat)
    (r : Nat) (vec : V3) (hl : l < bm.totloop)
    (hr : get_next_loop sqrtf bm fuel v l e_prev e_next = some (some r, vec)) :
    r < bm.totloop ∧ (bm.loop r).e = e_next :=
  get_next_loop_loop_e h sqrtf v l e_prev e_next fuel l zero_v3 0 0 r vec hl hr

/-- The rail of a chain end on the mesh boundary is the vector along the
boundary edge of the face, which is not zero. -/
theorem end_rail_ne_zero (sqrtf : ℚ → ℚ) (bm : BMesh) (fuel v l e_prev e : Nat)
    (r : Option Nat × V3) (he : EndCond bm v e)
    (hl : ∀ l0, (bm.edge e).l = some l0 → l = l0 ∨ l = (bm.loop l0).radial_next)
    (h : double_side_end_rail sqrtf bm fuel v l e_prev = some r) : r.2 ≠ zero_v3 := by
  obtain ⟨-, -, -, -, -, l0, hl0, hall⟩ := he
  obtain ⟨l_tmp, w, h1, h2, h3, h4⟩ := hall l (hl l0 hl0)
  unfold double_side_end_rail at h
  simp [h1, EDGESLIDE_VERT_IS_INNER, h2, h3] at h
  rw [← h]
  exact sub_ne_zero_v3 _ _ h4

/-- A loop of the mesh on an edge with one or two faces is `e->l` or its radial neighbour. -/
theorem loop_in_radial {bm : BMesh} (h : LoopOK bm) (e l : Nat) (he : e < bm.totedge)
    (hmb : BM_edge_is_manifold bm e = true ∨ BM_edge_is_boundary bm e = true)
    (hl : l < bm.totloop) (hle : (bm.loop l).e = e) :
    ∀ l0, (bm.edge e).l = some l0 → l = l0 ∨ l = (bm.loop l0).radial_next := by
  intro l0 hl0
  exact (h.2 e he l0 hl0).2.2 hmb l hl hle

/-- A write to one side of the record `idx`: the other records and the other
side are as before. -/
theorem side_write_get (st st1 : DoubleSideState) (idx : Int) (side : Fin 2) (x : Option Nat)
    (vec : V3)
    (h : sv_write st idx (fun sv =>
      { sv with
        v_side := Function.update sv.v_side side x
        dir_side := Function.update sv.dir_side side vec }) = some st1) :
    ∀ (k : Nat) (sv1 : TransDataEdgeSlideVert), st1.sv_array[k]? = some sv1 →
      (k ≠ idx.toNat → st.sv_array[k]? = some sv1) ∧
      (k = idx.toNat → ∃ sv0, st.sv_array[k]? = some sv0 ∧ sv1.v = sv0.v ∧
        sv1.dir_side side = vec ∧ ∀ s, s ≠ side → sv1.dir_side s = sv0.dir_side s) := by
  unfold sv_write at h
  split_ifs at h with hc
  simp only [Option.some.injEq] at h
  subst h
  intro k sv1 hsv
  simp only at hsv
  constructor
  · intro hk
    rwa [getElem?_modify_ne _ _ _ _ (fun hh => hk hh.symm)] at hsv
  · intro hk
    subst hk
    rw [getElem?_modify_same] at hsv
    cases hg : st.sv_array[idx.toNat]? with
    | none => simp [hg] at hsv
    | some sv0 =>
      rw [hg] at hsv
      simp only [Option.map_some', Option.some.injEq] at hsv
      subst hsv
      refine ⟨sv0, rfl, rfl, by simp, ?_⟩
      intro s hs
      simp [Function.update_noteq hs]

theorem set_side_get (bm : BMesh) (st st1 : DoubleSideState) (idx : Int) (side : Fin 2)
    (v : Nat) (l l_prev : Option Nat) (vec : V3)
    (h : double_side_set_side bm st idx side v l l_prev vec = some st1) :
    ∀ (k : Nat) (sv1 : TransDataEdgeSlideVert), st1.sv_array[k]? = some sv1 →
      (k ≠ idx.toNat → st.sv_array[k]? = some sv1) ∧
      (k = idx.toNat → ∃ sv0, st.sv_array[k]? = some sv0 ∧ sv1.v = sv0.v ∧
        (l.isSome = true → sv1.dir_side side = vec) ∧
        ∀ s, s ≠ side → sv1.dir_side s = sv0.dir_side s) := by
  unfold double_side_set_side at h
  split at h
  · rename_i hn
    simp only [Option.some.injEq] at h
    subst h
    intro k sv1 hsv
    refine ⟨fun _ => hsv, fun _ => ⟨sv1, hsv, rfl, ?_, fun _ _ => rfl⟩⟩
    intro hl
    rw [if_pos hl] at hn
    rw [hn] at hl
    cases hl
  · split at h
    · cases h
    · intro k sv1 hsv
      obtain ⟨a, b⟩ := side_write_get st st1 idx side _ vec h k sv1 hsv
      refine ⟨a, fun hk => ?_⟩
      obtain ⟨sv0, b1, b2, b3, b4⟩ := b hk
      exact ⟨sv0, b1, b2, fun _ => b3, b4⟩

theorem end_side_get (sqrtf : ℚ → ℚ) (bm : BMesh) (fuel : Nat) (st st1 : DoubleSideState)
    (idx : Int) (side : Fin 2) (v : Nat) (l : Option Nat) (e_prev : Nat)
    (h : double_side_end_side sqrtf bm fuel st idx side v l e_prev = some st1) :
    ∀ (k : Nat) (sv1 : TransDataEdgeSlideVert), st1.sv_array[k]? = some sv1 →
      (k ≠ idx.toNat → st.sv_array[k]? = some sv1) ∧
      (k = idx.toNat → ∃ sv0, st.sv_array[k]? = some sv0 ∧ sv1.v = sv0.v ∧
        (∀ l1, l = some l1 → ∃ r, double_side_end_rail sqrtf bm fuel v l1 e_prev = some r ∧
          sv1.dir_side side = r.2) ∧
        ∀ s, s ≠ side → sv1.dir_side s = sv0.dir_side s) := by
  unfold double_side_end_side at h
  split at h
  · simp only [Option.some.injEq] at h
    subst h
    intro k sv1 hsv
    refine ⟨fun _ => hsv, fun _ => ⟨sv1, hsv, rfl, ?_, fun _ _ => rfl⟩⟩
    intro l1 hl
    cases hl
  · rename_i l1
    split at h
    · cases h
    · rename_i r hr
      intro k sv1 hsv
      obtain ⟨a, b⟩ := side_write_get st st1 idx side _ _ h k sv1 hsv
      refine ⟨a, fun hk => ?_⟩
      obtain ⟨sv0, b1, b2, b3, b4⟩ := b hk
      refine ⟨sv0, b1, b2, ?_, b4⟩
      intro l2 hl2
      cases hl2
      exact ⟨r, hr, b3⟩

theorem init_sv_get (st st1 : DoubleSideState) (v : Nat) (n idx : Int)
    (h : double_side_init_sv st v n = some (st1, idx)) :
    ∀ (k : Nat) (sv1 : TransDataEdgeSlideVert), st1.sv_array[k]? = some sv1 →
      (k ≠ idx.toNat → st.sv_array[k]? = some sv1) ∧ (k = idx.toNat → sv1.v = v) := by
  unfold double_side_init_sv at h
  simp only at h
  split at h
  · cases h
  · rename_i st2 hw
    simp only [Option.some.injEq, Prod.mk.injEq] at h
    obtain ⟨rfl, rfl⟩ := h
    unfold sv_write at hw
    split_ifs at hw with hcond
    simp only [Option.some.injEq] at hw
    subst hw
    unfold SV_FROM_VERT at hcond ⊢
    intro k sv1 hsv
    by_cases hu : st.sv_table v = INDEX_UNSET
    · simp only [hu, if_true, Int.toNat_ofNat] at hcond hsv ⊢
      constructor
      · intro hk
        rw [getElem?_modify_ne _ _ _ _ (fun hh => hk hh.symm)] at hsv
        by_cases hlt : k < st.sv_array.length
        · rwa [List.getElem?_append_left hlt] at hsv
        · rw [List.getElem?_eq_none (by simp; omega)] at hsv
          cases hsv
      · intro hk
        subst hk
        rw [getElem?_modify_same] at hsv
        simp only [List.getElem?_concat_length, Option.map_some', Option.some.injEq] at hsv
        rw [← hsv]
    · simp only [hu, if_false] at hcond hsv ⊢
      constructor
      · intro hk
        rwa [getElem?_modify_ne _ _ _ _ (fun hh => hk hh.symm)] at hsv
      · intro hk
        subst hk
        rw [getElem?_modify_same] at hsv
        cases hg : st.sv_array[(st.sv_table v).toNat]? with
        | none => simp [hg] at hsv
        | some sv0 =>
          rw [hg] at hsv
          simp only [Option.map_some', Option.some.injEq] at hsv
          rw [← hsv]

/-- After the recovery of missing side loops the side loops are loops of the
mesh on the new edge, and both are not null when that edge has two faces. -/
theorem double_side_recover_good {bm : BMesh} (h : LoopOK bm) (sqrtf : ℚ → ℚ)
    (fuel v e e_prev : Nat) (pa pb : Bool) (l_a l_b : Option Nat) (vec_a vec_b : V3)
    (r : Option Nat × Option Nat × V3 × V3)
    (hr : double_side_recover sqrtf bm fuel v e e_prev pa pb l_a l_b vec_a vec_b = some r)
    (hp : pa = true ∨ pb = true) (he : e < bm.totedge)
    (hmb : BM_edge_is_manifold bm e = true ∨ BM_edge_is_boundary bm e = true)
    (hla : ∀ l, l_a = some l → l < bm.totloop ∧ (bm.loop l).e = e)
    (hlb : ∀ l, l_b = some l → l < bm.totloop ∧ (bm.loop l).e = e) :
    (∀ l, r.1 = some l → l < bm.totloop ∧ (bm.loop l).e = e) ∧
    (∀ l, r.2.1 = some l → l < bm.totloop ∧ (bm.loop l).e = e) ∧
    (BM_edge_is_manifold bm e = true → r.1.isSome = true ∧ r.2.1.isSome = true) := by
  -- the first loop of the edge
  have hel : ∃ el, (bm.edge e).l = some el := by
    rcases hmb with hm | hb
    · unfold BM_edge_is_manifold at hm
      cases hx : (bm.edge e).l with
      | none => simp [hx] at hm
      | some el => exact ⟨el, rfl⟩
    · unfold BM_edge_is_boundary at hb
      cases hx : (bm.edge e).l with
      | none => simp [hx] at hb
      | some el => exact ⟨el, rfl⟩
  obtain ⟨el, hel⟩ := hel
  obtain ⟨hel1, hel2, hel3⟩ := h.2 e he el hel
  have hman : BM_edge_is_manifold bm e = true →
      (bm.loop el).radial_next ≠ el ∧ (bm.loop (bm.loop el).radial_next).radial_next = el := by
    intro hm
    unfold BM_edge_is_manifold at hm
    simpa [hel] using hm
  have hrn : ∀ l, l < bm.totloop → (bm.loop l).e = e →
      (bm.loop l).radial_next < bm.totloop ∧ (bm.loop (bm.loop l).radial_next).e = e := by
    intro l hl hle
    obtain ⟨-, -, a, b⟩ := h.1 l hl
    exact ⟨a, b.trans hle⟩
  -- a loop of a manifold edge is not its own radial neighbour
  have hself : ∀ l, l < bm.totloop → (bm.loop l).e = e → BM_edge_is_manifold bm e = true →
      (bm.loop l).radial_next ≠ l := by
    intro l hl hle hm
    obtain ⟨m1, m2⟩ := hman hm
    rcases hel3 hmb l hl hle with rfl | rfl
    · exact m1
    · rw [m2]
      exact fun hh => m1 hh.symm
  unfold double_side_recover at hr
  by_cases h1 : l_a.isSome = true ∧ l_b.isSome = true
  · rw [if_pos h1] at hr
    simp only [Option.some.injEq] at hr
    subst hr
    exact ⟨hla, hlb, fun _ => h1⟩
  · rw [if_neg h1] at hr
    simp only [hel] at hr
    split at hr
    · simp only [Option.some.injEq] at hr
      subst hr
      simp only
      rcases l_a with _ | la
      · rcases l_b with _ | lb
        · -- both null: the loops of the edge
          simp only [Option.isSome_none, Bool.false_eq_true, or_self, if_false]
          cases pa with
          | true =>
            simp only [if_true]
            refine ⟨?_, ?_, ?_⟩
            · intro l hl
              cases hl
              exact ⟨hel1, hel2⟩
            · intro l hl
              split_ifs at hl with hc
              cases hl
              exact hrn el hel1 hel2
            · intro hm
              simp [(hman hm).1]
          | false =>
            have hpb : pb = true := by simpa using hp
            subst hpb
            simp only [Bool.false_eq_true, if_false, if_true]
            refine ⟨?_, ?_, ?_⟩
            · intro l hl
              split_ifs at hl with hc
              cases hl
              exact hrn el hel1 hel2
            · intro l hl
              cases hl
              exact ⟨hel1, hel2⟩
            · intro hm
              simp [(hman hm).1]
        · obtain ⟨b1, b2⟩ := hlb lb rfl
          simp only [Option.isSome_none, Option.isSome_some, Bool.false_eq_true, false_or,
            if_true]
          by_cases hc : (bm.loop lb).radial_next ≠ lb
          · rw [if_pos hc]
            refine ⟨?_, hlb, fun _ => by simp⟩
            intro l hl
            cases hl
            exact hrn lb b1 b2
          · rw [if_neg hc]
            refine ⟨fun l hl => (by cases hl), hlb, ?_⟩
            intro hm
            exact absurd (hself lb b1 b2 hm) hc
      · rcases l_b with _ | lb
        · obtain ⟨a1, a2⟩ := hla la rfl
          simp only [Option.isSome_none, Option.isSome_some, Bool.false_eq_true, or_false,
            if_true]
          by_cases hc : (bm.loop la).radial_next ≠ la
          · rw [if_pos hc]
            refine ⟨hla, ?_, fun _ => by simp⟩
            intro l hl
            cases hl
            exact hrn la a1 a2
          · rw [if_neg hc]
            refine ⟨hla, fun l hl => (by cases hl), ?_⟩
            intro hm
            exact absurd (hself la a1 a2 hm) hc
        · simp at h1
    · cases hr

theorem end_rails_of (bm : BMesh) (e : Nat) (sv : TransDataEdgeSlideVert) (l_a l_b : Option Nat)
    (h0 : l_a.isSome = true → sv.dir_side 0 ≠ zero_v3)
    (h1 : l_b.isSome = true → sv.dir_side 1 ≠ zero_v3)
    (hs : l_a.isSome = true ∨ l_b.isSome = true)
    (hc : BM_edge_is_manifold bm e = true → l_a.isSome = true ∧ l_b.isSome = true) :
    EndRails bm e sv := by
  refine ⟨?_, fun hm => ⟨h0 (hc hm).1, h1 (hc hm).2⟩⟩
  rcases hs with a | b
  · exact Or.inl (h0 a)
  · exact Or.inr (h1 b)

theorem next_side_good {bm : BMesh} (h : LoopOK bm) (sqrtf : ℚ → ℚ) (fuel v : Nat)
    (l : Option Nat) (e_prev e : Nat) (r : Option Nat × V3)
    (hl : ∀ l0, l = some l0 → l0 < bm.totloop ∧ (bm.loop l0).e = e_prev)
    (hr : double_side_next_side sqrtf bm fuel v l e_prev e = some r) :
    ∀ l1, r.1 = some l1 → l1 < bm.totloop ∧ (bm.loop l1).e = e := by
  intro l1 hl1
  unfold double_side_next_side at hr
  cases l with
  | none =>
    simp only [Option.some.injEq] at hr
    subst hr
    cases hl1
  | some l0 =>
    simp only at hr
    obtain ⟨r1, r2⟩ := r
    simp only at hl1
    subst hl1
    exact get_next_loop_e h sqrtf fuel v l0 e_prev e l1 r2 (hl l0 rfl).1 hr

/-- The forward walk keeps the rails of the records of chain ends on the mesh
boundary, and gives the record of such an end it comes to its rails. -/
theorem walk_rails {bm : BMesh} (h : ChainOK bm) (hm : MeshOK bm) (hlo : LoopOK bm)
    (hmb : ∀ e, e < bm.totedge → (bm.edge e).select = true →
      BM_edge_is_manifold bm e = true ∨ BM_edge_is_boundary bm e = true)
    (sqrtf : ℚ → ℚ) (fuel_l : Nat) (n : Int) (v_first_e : Option Nat) (fuel : Nat) :
    ∀ (w : DoubleSideWalk) (r : DoubleSideState), RailInv bm w →
      double_side_walk sqrtf fuel_l n v_first_e fuel w = some r →
      ∀ sv ∈ r.sv_array, ∀ e, EndCond bm sv.v e → EndRails bm e sv := by
  induction fuel with
  | zero =>
    intro w r _ hr
    simp [double_side_walk] at hr
  | succ fuel ih =>
    intro w r hw hr
    have hp := hw.pos
    obtain ⟨v1, hv1, -, hv1lt, hv1sel, hv1d, -⟩ :=
      h.ends w.v hp.1 hp.2.1 w.e hp.2.2.1 hp.2.2.2
    have helt : w.e < bm.totedge := (hm w.v hp.1 w.e hp.2.2.1).1
    have hmbe := hmb w.e helt hp.2.2.2
    rw [double_side_walk] at hr
    simp only [hw.bm_eq, hv1] at hr
    split at hr
    · cases hr
    · rename_i st1 idx hi
      have g1 := init_sv_get w.st st1 w.v n idx hi
      have F1 := init_sv_frame bm n w.v w.st st1 w.v idx Relation.ReflTransGen.refl hi
      split at hr
      · cases hr
      · rename_i st2 h2
        have g2 := set_side_get bm st1 st2 idx 0 w.v w.l_a w.l_a_prev w.vec_a h2
        have F2 := set_side_frame bm bm n w.v st1 st2 idx 0 w.v w.l_a w.l_a_prev w.vec_a h2
        split at hr
        · cases hr
        · rename_i st3 h3
          have g3 := set_side_get bm st2 st3 idx 1 w.v w.l_b w.l_b_prev w.vec_b h3
          have F3 := set_side_frame bm bm n w.v st2 st3 idx 1 w.v w.l_b w.l_b_prev w.vec_b h3
          have hbm3 : st3.bm = bm := by
            rw [F3.2.1, F2.2.1, F1.2.1]
            exact hw.bm_eq
          -- the records after the record of the vertex of the walk is written
          have full3 : ∀ (k : Nat) (sv1 : TransDataEdgeSlideVert), st3.sv_array[k]? = some sv1 →
              ∀ e, EndCond bm sv1.v e → EndRails bm e sv1 := by
            intro k sv1 hsv e he
            by_cases hk : k = idx.toNat
            · obtain ⟨sv0, a1, a2, a3, a4⟩ := (g3 k sv1 hsv).2 hk
              obtain ⟨sv00, b1, b2, b3, -⟩ := (g2 k sv0 a1).2 hk
              have hv : sv1.v = w.v := by
                rw [a2, b2]
                exact (g1 k sv00 b1).2 hk
              rw [hv] at he
              have hee : w.e = e := he.2.2.2.2.1 w.e hp.2.2.1 hp.2.2.2
              obtain ⟨c1, c2⟩ := hw.here e he
              apply end_rails_of bm e sv1 w.l_a w.l_b
              · intro hl
                rw [a4 0 (by decide), b3 hl]
                exact c1 hl
              · intro hl
                rw [a3 hl]
                exact c2 hl
              · exact hw.some_l
              · rw [← hee]
                exact hw.cover
            · have := (g1 k sv1 ((g2 k sv1 ((g3 k sv1 hsv).1 hk)).1 hk)).1 hk
              exact hw.full sv1 (List.getElem?_mem this) e he
          cases hg : get_other_edge bm v1 w.e with
          | none =>
            rw [hg] at hr
            simp only at hr
            split at hr
            · cases hr
            · rename_i st4 idx4 h4
              have g4 := init_sv_get st3 st4 v1 n idx4 h4
              split at hr
              · cases hr
              · rename_i st5 h5
                have g5 := end_side_get sqrtf bm fuel_l st4 st5 idx4 0 v1 w.l_a w.e h5
                split at hr
                · cases hr
                · rename_i st6 h6
                  have g6 := end_side_get sqrtf bm fuel_l st5 st6 idx4 1 v1 w.l_b w.e h6
                  simp only [Option.some.injEq] at hr
                  subst hr
                  intro sv hsv e he
                  simp only at hsv
                  obtain ⟨k, hk⟩ := List.getElem?_of_mem hsv
                  by_cases hkk : k = idx4.toNat
                  · obtain ⟨sv0, a1, a2, a3, a4⟩ := (g6 k sv hk).2 hkk
                    obtain ⟨sv00, b1, b2, b3, -⟩ := (g5 k sv0 a1).2 hkk
                    have hv : sv.v = v1 := by
                      rw [a2, b2]
                      exact (g4 k sv00 b1).2 hkk
                    rw [hv] at he
                    have hee : w.e = e := he.2.2.2.2.1 w.e hv1d hp.2.2.2
                    subst hee
                    apply end_rails_of bm w.e sv w.l_a w.l_b
                    · intro hl
                      obtain ⟨l, hl1⟩ := Option.isSome_iff_exists.mp hl
                      obtain ⟨r1, r2, r3⟩ := b3 l hl1
                      rw [a4 0 (by decide), r3]
                      exact end_rail_ne_zero sqrtf bm fuel_l v1 l w.e w.e r1 he
                        (loop_in_radial hlo w.e l helt hmbe (hw.la l hl1).1 (hw.la l hl1).2) r2
                    · intro hl
                      obtain ⟨l, hl1⟩ := Option.isSome_iff_exists.mp hl
                      obtain ⟨r1, r2, r3⟩ := a3 l hl1
                      rw [r3]
                      exact end_rail_ne_zero sqrtf bm fuel_l v1 l w.e w.e r1 he
                        (loop_in_radial hlo w.e l helt hmbe (hw.lb l hl1).1 (hw.lb l hl1).2) r2
                    · exact hw.some_l
                    · exact hw.cover
                  · have := (g4 k sv ((g5 k sv ((g6 k sv hk).1 hkk)).1 hkk)).1 hkk
                    exact full3 k sv this e he
          | some e1 =>
            rw [hg] at hr
            simp only at hr
            obtain ⟨ed, es, ene⟩ := get_other_edge_spec bm v1 w.e e1 hg
            have he1lt : e1 < bm.totedge := (hm v1 hv1lt e1 ed).1
            split at hr
            · cases hr
            · rename_i la va hna
              split at hr
              · cases hr
              · rename_i lb vb hnb
                split at hr
                · cases hr
                · rename_i la1 lb1 va1 vb1 hrc
                  have hga := next_side_good hlo sqrtf fuel_l v1 w.l_a w.e e1 (la, va) hw.la hna
                  have hgb := next_side_good hlo sqrtf fuel_l v1 w.l_b w.e e1 (lb, vb) hw.lb hnb
                  have hl1 := double_side_recover_some sqrtf bm fuel_l v1 e1 w.e _ _ la lb va vb
                    _ hrc hw.some_l (h.edge_l v1 hv1lt hv1sel e1 ed es)
                  obtain ⟨q1, q2, q3⟩ := double_side_recover_good hlo sqrtf fuel_l v1 e1 w.e _ _
                    la lb va vb _ hrc hw.some_l he1lt (hmb e1 he1lt es) hga hgb
                  split_ifs at hr with hcond
                  · refine ih _ r ⟨hbm3, ⟨hv1lt, hv1sel, ed, es⟩, q1, q2, hl1, q3, ?_, ?_⟩ hr
                    · intro sv hsv e he
                      obtain ⟨k, hk⟩ := List.getElem?_of_mem hsv
                      exact full3 k sv hk e he
                    · intro e he
                      exfalso
                      have a := he.2.2.2.2.1 w.e hv1d hp.2.2.2
                      have b := he.2.2.2.2.1 e1 ed es
                      exact ene (b.trans a.symm)
                  · simp only [Option.some.injEq] at hr
                    subst hr
                    intro sv hsv e he
                    obtain ⟨k, hk⟩ := List.getElem?_of_mem hsv
                    exact full3 k sv hk e he

/-- One pass of the outer loop keeps the rails of the records of chain ends on
the mesh boundary, and gives the records of such ends it comes to their rails. -/
theorem pass_rails {bm : BMesh} (h : ChainOK bm) (hm : MeshOK bm) (hlo : LoopOK bm)
    (hmb : ∀ e, e < bm.totedge → (bm.edge e).select = true →
      BM_edge_is_manifold bm e = true ∨ BM_edge_is_boundary bm e = true)
    (sqrtf : ℚ → ℚ) (fuel : Nat) (st r : DoubleSideState) (n : Int) (u f : Nat)
    (hinv : PassInv bm st) (hu : st.tag u = true) (hf : (bm.vert u).e = some f)
    (hfull : ∀ sv ∈ st.sv_array, ∀ e, EndCond bm sv.v e → EndRails bm e sv)
    (hr : double_side_pass sqrtf fuel st n u f = some r) :
    ∀ sv ∈ r.sv_array, ∀ e, EndCond bm sv.v e → EndRails bm e sv := by
  unfold double_side_pass at hr
  simp only [hinv.bm_eq] at hr
  split at hr
  · cases hr
  · rename_i v e hrw
    obtain ⟨htv, hve, -⟩ := rewind_spec h st.tag hinv.tag_ok
      (fun x hx hs e he hes y hy => hinv.tag_eq h x hx hs e he hes y hy) u f hu hf fuel (v, e) hrw
    obtain ⟨hvlt, hvsel⟩ := hinv.tag_ok v htv
    obtain ⟨e0, he0, he0d, he0s⟩ := h.vert_e v hvlt hvsel
    simp only at hve
    rw [hve] at he0
    have : e = e0 := Option.some.inj he0
    subst this
    have helt : e < bm.totedge := (hm v hvlt e he0d).1
    split at hr
    · cases hr
    · rename_i l_a hla
      obtain ⟨hla1, hla2, -⟩ := hlo.2 e helt l_a hla
      obtain ⟨-, -, hrn1, hrn2⟩ := hlo.1 l_a hla1
      split at hr
      · cases hr
      · rename_i vec_a hva
        split at hr
        · cases hr
        · rename_i vec_b hvb
          refine walk_rails h hm hlo hmb sqrtf fuel n _ fuel _ r ?_ hr
          refine ⟨rfl, ⟨hvlt, hvsel, he0d, he0s⟩, ?_, ?_, Or.inl rfl, ?_, hfull, ?_⟩
          · intro l hl
            simp only [Option.some.injEq] at hl
            subst hl
            exact ⟨hla1, hla2⟩
          · intro l hl
            simp only at hl
            split_ifs at hl with hc
            simp only [Option.some.injEq] at hl
            subst hl
            exact ⟨hrn1, hrn2.trans hla2⟩
          · intro hman
            unfold BM_edge_is_manifold at hman
            simp only [hla, Bool.and_eq_true, decide_eq_true_eq] at hman
            simp [hman.1]
          · intro e1 he1
            have hee : e = e1 := he1.2.2.2.2.1 e he0d he0s
            subst hee
            have hgo : get_other_edge bm v e = none :=
              get_other_edge_none bm v e he1.2.2.2.2.1
            constructor
            · intro _
              simp only
              unfold double_side_start_rail at hva
              rw [hgo] at hva
              simp only at hva
              split at hva
              · cases hva
              · rename_i r1 hr1
                simp only [Option.some.injEq] at hva
                rw [← hva]
                refine end_rail_ne_zero sqrtf bm fuel v l_a e e r1 he1 ?_ hr1
                intro l0 hl0
                rw [hla] at hl0
                exact Or.inl (Option.some.inj hl0)
            · intro hl
              simp only at hl ⊢
              have hc : (bm.loop l_a).radial_next ≠ l_a := by
                by_contra hcc
                rw [if_neg (not_not.mpr hcc)] at hl
                cases hl
              rw [if_pos hc] at hvb
              unfold double_side_start_rail at hvb
              rw [hgo] at hvb
              simp only at hvb
              split at hvb
              · cases hvb
              · rename_i r1 hr1
                simp only [Option.some.injEq] at hvb
                rw [← hvb]
                refine end_rail_ne_zero sqrtf bm fuel v _ e e r1 he1 ?_ hr1
                intro l0 hl0
                rw [hla] at hl0
                rw [← Option.some.inj hl0]
                exact Or.inr rfl

/-- The outer loop keeps the rails of the records of chain ends on the mesh boundary. -/
theorem loop_rails {bm : BMesh} (h : ChainOK bm) (hm : MeshOK bm) (hlo : LoopOK bm)
    (hmb : ∀ e, e < bm.totedge → (bm.edge e).select = true →
      BM_edge_is_manifold bm e = true ∨ BM_edge_is_boundary bm e = true)
    (sqrtf : ℚ → ℚ) (fuel_l fuel : Nat) :
    ∀ (st : DoubleSideState) (n : Int) (r : DoubleSideState × Int), PassInv bm st →
      (∀ sv ∈ st.sv_array, ∀ e, EndCond bm sv.v e → EndRails bm e sv) →
      double_side_loop sqrtf fuel_l fuel st n = some r →
      ∀ sv ∈ r.1.sv_array, ∀ e, EndCond bm sv.v e → EndRails bm e sv := by
  induction fuel with
  | zero =>
    intro st n r _ _ hr
    simp [double_side_loop] at hr
  | succ fuel ih =>
    intro st n r hinv hfull hr
    rw [double_side_loop] at hr
    simp only [hinv.bm_eq] at hr
    split at hr
    · simp only [Option.some.injEq] at hr
      subst hr
      exact hfull
    · rename_i v hfind
      have htag : st.tag v = true := List.find?_some hfind
      split at hr
      · exact ih st n r hinv hfull hr
      · rename_i e0 he0
        split at hr
        · cases hr
        · rename_i st1 hpass
          exact ih st1 _ r (pass_spec h sqrtf fuel_l st st1 n v e0 hinv htag he0 hpass)
            (pass_rails h hm hlo hmb sqrtf fuel_l st st1 n v e0 hinv htag he0 hfull hpass) hr

theorem BM_edge_is_manifold_congr {bm bm1 : BMesh} (hs : same_but_vert_e bm bm1) (e : Nat) :
    BM_edge_is_manifold bm1 e = BM_edge_is_manifold bm e := by
  obtain ⟨-, -, -, -, he, hl, -, -⟩ := hs
  simp only [BM_edge_is_manifold, he, hl]

theorem BM_edge_is_boundary_congr {bm bm1 : BMesh} (hs : same_but_vert_e bm bm1) (e : Nat) :
    BM_edge_is_boundary bm1 e = BM_edge_is_boundary bm e := by
  obtain ⟨-, -, -, -, he, hl, -, -⟩ := hs
  simp only [BM_edge_is_boundary, he, hl]

theorem BM_loop_other_edge_loop_congr {bm bm1 : BMesh} (hs : same_but_vert_e bm bm1)
    (l v : Nat) : BM_loop_other_edge_loop bm1 l v = BM_loop_other_edge_loop bm l v := by
  obtain ⟨-, -, -, -, he, hl, -, -⟩ := hs
  simp only [BM_loop_other_edge_loop, BM_edge_other_vert, he, hl]

theorem loop_ok_congr {bm bm1 : BMesh} (h : LoopOK bm) (hs : same_but_vert_e bm bm1) :
    LoopOK bm1 := by
  have hman := BM_edge_is_manifold_congr hs
  have hbnd := BM_edge_is_boundary_congr hs
  obtain ⟨-, hte, htl, -, he, hl, -, -⟩ := hs
  unfold LoopOK
  simp only [hte, htl, he, hl, hman, hbnd]
  exact h

theorem end_cond_congr {bm bm1 : BMesh} (hs : same_but_vert_e bm bm1) (v e : Nat)
    (h : EndCond bm v e) : EndCond bm1 v e := by
  have hbnd := BM_edge_is_boundary_congr hs
  have hoth := BM_loop_other_edge_loop_congr hs
  have hov := BM_edge_other_vert_congr hs
  obtain ⟨htv, -, -, -, he, hl, -, hv⟩ := hs
  unfold EndCond
  simp only [htv, he, hl, hbnd, hoth, hov, (hv _).1, (hv _).2.1, (hv _).2.2]
  exact h

/-- Claim C22: for every mesh with consistent tables, when the walk of
`createEdgeSlideVerts_double_side` has come to its end, the builder returns
data in which the record of a chain end `v` on the mesh boundary (a selected
vertex whose only selected edge is `e`, each face at `e` being bounded at `v`
by a boundary edge that is not of length zero) has a rail that is not zero,
and has both rails not zero when `e` has two faces: a rail is zero only on a
side where `e` has no face. -/
theorem createEdgeSlideVerts_double_side_end_rails (sqrtf : ℚ → ℚ) (view : ViewExtern)
    (fuel : Nat) (bm : BMesh) (st : DoubleSideState) (n : Int) (hm : MeshOK bm)
    (hlo : LoopOK bm)
    (h : createEdgeSlideVerts_double_side_sv sqrtf fuel bm = some (some (st, n)))
    (v e : Nat) (he : EndCond bm v e) :
    ∃ sld, createEdgeSlideVerts_double_side sqrtf view fuel bm = some (some sld) ∧
      (∃ sv ∈ sld.sv, sv.v = v) ∧
      ∀ sv ∈ sld.sv, sv.v = v →
        (sv.dir_side 0 ≠ zero_v3 ∨ sv.dir_side 1 ≠ zero_v3) ∧
        (BM_edge_is_manifold bm e = true →
          sv.dir_side 0 ≠ zero_v3 ∧ sv.dir_side 1 ≠ zero_v3) := by
  obtain ⟨-, -, hsame, hlen, hall⟩ := double_side_sv_loop_inv sqrtf fuel bm st n hm h
  obtain ⟨sld, g, h1, h2, h3⟩ :=
    createEdgeSlideVerts_double_side_records sqrtf view fuel bm st n h hlen
  -- the rails of the records on the stack
  have hstack : ∀ sv ∈ st.sv_array, sv.v = v → EndRails st.bm e sv := by
    have h0 := h
    unfold createEdgeSlideVerts_double_side_sv at h0
    split at h0
    · cases h0
    · rename_i bm1 hc
      split_ifs at h0 with c1 c2
      · cases h0
      · cases h0
      simp only at h0
      split at h0
      · cases h0
      · rename_i r hloop
        simp only [Option.some.injEq] at h0
        subst h0
        have hsame1 := ((double_side_check_verts_spec (List.range bm.totvert)
          (List.nodup_range _) bm).2 bm1 hc).1
        have hce : double_side_check_edges bm1 = true := by simpa using c1
        have hchain := check_verts_chain_ok bm bm1 hm hc hce
        have hbm : st.bm = bm1 := (loop_spec hchain sqrtf fuel fuel _ 0 (st, n)
          (pass_inv_start bm1) hloop).1.bm_eq
        have hmb : ∀ e, e < bm1.totedge → (bm1.edge e).select = true →
            BM_edge_is_manifold bm1 e = true ∨ BM_edge_is_boundary bm1 e = true := by
          intro e1 he1 hs1
          unfold double_side_check_edges at hce
          rw [List.all_eq_true] at hce
          have := hce e1 (List.mem_range.mpr he1)
          simpa [hs1] using this
        have := loop_rails hchain (mesh_ok_congr hm hsame1) (loop_ok_congr hlo hsame1) hmb
          sqrtf fuel fuel _ 0 (st, n) (pass_inv_start bm1)
          (fun sv hsv => by cases hsv) hloop
        intro sv hsv hv
        rw [hbm]
        exact this sv hsv e (hv ▸ end_cond_congr hsame1 v e he)
  refine ⟨sld, h1, ?_, ?_⟩
  · obtain ⟨sv0, g1, g2⟩ := hall v he.1 he.2.1
    refine ⟨g sv0, ?_, ((h3 sv0).1).trans g2⟩
    rw [h2]
    exact List.mem_map_of_mem _ g1
  · intro sv hsv hv
    rw [h2] at hsv
    obtain ⟨sv0, g1, rfl⟩ := List.mem_map.mp hsv
    have hv0 : sv0.v = v := ((h3 sv0).1).symm.trans hv
    obtain ⟨q1, q2⟩ := hstack sv0 g1 hv0
    rw [BM_edge_is_manifold_congr hsame] at q2
    rcases (h3 sv0).2.2.2 with ⟨a, b⟩ | ⟨a, b⟩
    · rw [a, b]
      exact ⟨q1, q2⟩
    · rw [a, b]
      exact ⟨q1.symm, fun hman => ⟨(q2 hman).2, (q2 hman).1⟩⟩

set_option maxRecDepth 100000 in
theorem grid_2_2_loop_ok : LoopOK (grid_mesh 2 2 1 (flat_co 1)) := by
  have key : ∀ e, e < (grid_mesh 2 2 1 (flat_co 1)).totedge →
      Option.all (fun l0 => decide (l0 < (grid_mesh 2 2 1 (flat_co 1)).totloop ∧
        ((grid_mesh 2 2 1 (flat_co 1)).loop l0).e = e ∧
        ((BM_edge_is_manifold (grid_mesh 2 2 1 (flat_co 1)) e = true ∨
            BM_edge_is_boundary (grid_mesh 2 2 1 (flat_co 1)) e = true) →
          ∀ l, l < (grid_mesh 2 2 1 (flat_co 1)).totloop →
            ((grid_mesh 2 2 1 (flat_co 1)).loop l).e = e →
            l = l0 ∨ l = ((grid_mesh 2 2 1 (flat_co 1)).loop l0).radial_next)))
        ((grid_mesh 2 2 1 (flat_co 1)).edge e).l = true := by
    decide
  constructor
  · decide
  · intro e he l0 hl0
    have := key e he
    rw [hl0] at this
    simp only [Option.all_some, decide_eq_true_eq] at this
    exact this

set_option maxRecDepth 100000 in
theorem grid_2_2_end_cond : EndCond (grid_mesh 2 2 1 (flat_co 1)) 1 7 := by
  refine ⟨by decide, by decide, by decide, by decide, by decide, 7, by decide, ?_⟩
  intro l hl
  rcases hl with rfl | rfl
  · refine ⟨4, 2, by decide, by decide, by decide, ?_⟩
    intro hco
    have := congrArg V3.x hco
    norm_num [grid_mesh, flat_co] at this
  · refine ⟨0, 0, by decide, by decide, by decide, ?_⟩
    intro hco
    have := congrArg V3.x hco
    norm_num [grid_mesh, flat_co] at this

theorem createEdgeSlideVerts_double_side_end_rails_witness :
    MeshOK (grid_mesh 2 2 1 (flat_co 1)) ∧ LoopOK (grid_mesh 2 2 1 (flat_co 1)) ∧
    EndCond (grid_mesh 2 2 1 (flat_co 1)) 1 7 ∧
    ∃ st n, createEdgeSlideVerts_double_side_sv sample_sqrtf 3 (grid_mesh 2 2 1 (flat_co 1)) =
        some (some (st, n)) ∧
      ∃ sld, createEdgeSlideVerts_double_side sample_sqrtf sample_view 3
          (grid_mesh 2 2 1 (flat_co 1)) = some (some sld) ∧
        (∃ sv ∈ sld.sv, sv.v = 1) ∧
        ∀ sv ∈ sld.sv, sv.v = 1 →
          (sv.dir_side 0 ≠ zero_v3 ∨ sv.dir_side 1 ≠ zero_v3) ∧
          (BM_edge_is_manifold (grid_mesh 2 2 1 (flat_co 1)) 7 = true →
            sv.dir_side 0 ≠ zero_v3 ∧ sv.dir_side 1 ≠ zero_v3) := by
  obtain ⟨bm1, -, hsv⟩ := grid_double_side_sv sample_sqrtf 2 2 0 (flat_co 1) (by norm_num)
    (by norm_num) 3 (by norm_num) (by norm_num)
  exact ⟨grid_2_2_mesh_ok, grid_2_2_loop_ok, grid_2_2_end_cond, _, _, hsv,
    createEdgeSlideVerts_double_side_end_rails sample_sqrtf sample_view 3
      (grid_mesh 2 2 1 (flat_co 1)) _ _ grid_2_2_mesh_ok grid_2_2_loop_ok hsv 1 7
      grid_2_2_end_cond⟩

/-! ## Theorems: switching the clamp off -/

/-- The unclamped non-even branch of `edge_slide_apply_elem` with the sticky side
`(fac < 0)` and a non-zero rail on that side gives the result of the clamped branch. -/
theorem apply_elem_unclamp_eq_clamp (sv : TransDataEdgeSlideVert) (fac clf : ℚ) (s : Fin 2)
    (use_flip : Bool) (hr : is_zero_v3 (sv.dir_side (side_of_neg fac)) = false) :
    edge_slide_apply_elem sv fac clf (side_of_neg fac) false false use_flip =
      edge_slide_apply_elem sv fac clf s true false use_flip := by
  simp [edge_slide_apply_elem, hr]

theorem foldl_update_congr {α : Type} (key : α → Nat) (g g' : α → V3) (l : List α)
    (h : ∀ a ∈ l, g a = g' a) (co : Nat → V3) :
    l.foldl (fun co a => Function.update co (key a) (g a)) co =
      l.foldl (fun co a => Function.update co (key a) (g' a)) co := by
  induction l generalizing co with
  | nil => rfl
  | cons a l ih =>
    simp only [List.foldl_cons]
    rw [h a (List.mem_cons_self a l)]
    exact ih (fun b hb => h b (List.mem_cons_of_mem a hb)) _

theorem doEdgeSlide_container_unclamp (fac clf : ℚ) (s : Fin 2) (f : Bool)
    (tc : TransDataContainer)
    (hr : ∀ sld, tc.custom_mode_data = some sld → ∀ sv ∈ sld.sv,
      is_zero_v3 (sv.dir_side (side_of_neg fac)) = false) :
    doEdgeSlide_container fac clf (side_of_neg fac) false false f
        (doEdgeSlide_container fac clf s true false f tc) =
      doEdgeSlide_container fac clf s true false f tc := by
  unfold doEdgeSlide_container
  cases hd : tc.custom_mode_data with
  | none => simp [hd]
  | some sld =>
    simp only [hd]
    congr 1
    rw [foldl_update_congr (fun sv : TransDataEdgeSlideVert => sv.v)
      (fun sv => edge_slide_apply_elem sv fac clf (side_of_neg fac) false false f)
      (fun sv => edge_slide_apply_elem sv fac clf s true false f) sld.sv
      (fun sv hsv => apply_elem_unclamp_eq_clamp sv fac clf s f (hr sld hd sv hsv))]
    exact foldl_update_idem (fun sv : TransDataEdgeSlideVert => sv.v)
      (fun sv => edge_slide_apply_elem sv fac clf s true false f) sld.sv tc.co

/-- C31: switching clamp off does not move a vertex.  After a clamped non-even
`doEdgeSlide` at the control value `fac` (any value, so every value in
[-1, 1]) the sticky side stored in `curr_side_unclamp` is `(fac < 0)`; for
every record whose rail on that side is not the zero vector the unclamped
non-even result of `edge_slide_apply_elem` with that sticky side is its clamped
non-even result; and when every record of every container has such a rail,
`doEdgeSlide` at the same value with `T_ALT_TRANSFORM` set (clamp off) leaves
the state, with all the vertex positions, as the clamped apply has left it. -/
theorem doEdgeSlide_clamp_off_same (t t1 : TransInfo) (fac : ℚ)
    (hc : t.flag_alt_transform = false) (he : t.custom_mode_data.use_even = false)
    (h : doEdgeSlide t fac = some t1) :
    t1.custom_mode_data.curr_side_unclamp = side_of_neg fac ∧
      (∀ (sv : TransDataEdgeSlideVert) (curr_length_fac : ℚ) (use_flip : Bool),
        is_zero_v3 (sv.dir_side t1.custom_mode_data.curr_side_unclamp) = false →
        edge_slide_apply_elem sv fac curr_length_fac t1.custom_mode_data.curr_side_unclamp
            false false use_flip =
          edge_slide_apply_elem sv fac curr_length_fac t1.custom_mode_data.curr_side_unclamp
            true false use_flip) ∧
      ((∀ tc ∈ t.data_container, ∀ sld, tc.custom_mode_data = some sld → ∀ sv ∈ sld.sv,
          is_zero_v3 (sv.dir_side (side_of_neg fac)) = false) →
        doEdgeSlide { t1 with flag_alt_transform := true } fac =
          some { t1 with flag_alt_transform := true }) := by
  unfold doEdgeSlide at h
  cases hfg : edgeSlideFirstGet t with
  | none => simp [hfg] at h
  | some sld_active =>
    simp only [hfg, he, hc, Bool.false_eq_true, if_false, Bool.not_false, if_true,
      Option.some.injEq] at h
    subst h
    refine ⟨rfl, ?_, ?_⟩
    · intro sv clf use_flip hr
      exact apply_elem_unclamp_eq_clamp sv fac clf _ use_flip hr
    · intro hr
      have hfg1 : edgeSlideFirstGet
          ⟨true, ⟨fac, side_of_neg fac, t.custom_mode_data.use_even,
            t.custom_mode_data.flipped⟩,
            t.data_container.map (doEdgeSlide_container fac 0
              t.custom_mode_data.curr_side_unclamp true false t.custom_mode_data.flipped),
            t.tsnap⟩ = some sld_active := by
        rw [edgeSlideFirstGet_eq]
        simp only
        rw [first_ok_map _ (doEdgeSlide_container_data _ _ _ _ _ _), ← edgeSlideFirstGet_eq]
        exact hfg
      unfold doEdgeSlide
      simp only [he] at hfg1 ⊢
      rw [hfg1]
      simp only [Bool.not_true, Bool.false_eq_true, if_false, List.map_map, Option.some.injEq]
      congr 1
      apply List.map_congr_left
      intro tc htc
      exact doEdgeSlide_container_unclamp fac 0 _ _ tc (hr tc htc)

theorem doEdgeSlide_clamp_off_same_witness :
    (sample_t sv_corner false false false 1 zero_v3).flag_alt_transform = false ∧
      (sample_t sv_corner false false false 1 zero_v3).custom_mode_data.use_even = false ∧
      doEdgeSlide (sample_t sv_corner false false false 1 zero_v3) (1 / 2) =
        some ⟨false, ⟨1 / 2, 0, false, false⟩,
          [{ sample_tc sv_corner with
              co := Function.update (fun _ => sv_corner.v_co_orig) 0 ⟨0, 1 / 2, 0⟩ }],
          ⟨zero_v3, sv_corner.v_co_orig, false, false⟩⟩ ∧
      is_zero_v3 (sv_corner.dir_side (side_of_neg (1 / 2))) = false ∧
      edge_slide_apply_elem sv_corner (1 / 2) 0 0 false false false = ⟨0, 1 / 2, 0⟩ ∧
      doEdgeSlide ⟨true, ⟨1 / 2, 0, false, false⟩,
          [{ sample_tc sv_corner with
              co := Function.update (fun _ => sv_corner.v_co_orig) 0 ⟨0, 1 / 2, 0⟩ }],
          ⟨zero_v3, sv_corner.v_co_orig, false, false⟩⟩ (1 / 2) =
        some ⟨true, ⟨1 / 2, 0, false, false⟩,
          [{ sample_tc sv_corner with
              co := Function.update (fun _ => sv_corner.v_co_orig) 0 ⟨0, 1 / 2, 0⟩ }],
          ⟨zero_v3, sv_corner.v_co_orig, false, false⟩⟩ := by
  have hz : is_zero_v3 (sv_corner.dir_side (side_of_neg (1 / 2))) = false := by
    norm_num [is_zero_v3, sv_corner, sample_sv, side_of_neg]
  refine ⟨rfl, rfl, doEdgeSlide_sample, hz, ?_, ?_⟩
  · norm_num [edge_slide_apply_elem, sv_corner, sample_sv, side_of_neg, fabsf, madd_v3_v3fl,
      is_zero_v3]
  · refine (doEdgeSlide_clamp_off_same _ _ (1 / 2) rfl rfl doEdgeSlide_sample).2.2 ?_
    intro tc htc sld hsld sv hsv
    simp only [sample_t, List.mem_singleton] at htc
    subst htc
    simp only [sample_tc, Option.some.injEq] at hsld
    subst hsld
    simp only [List.mem_singleton] at hsv
    subst hsv
    exact hz

/-! ## Theorems: orbits of a one-to-one step on a finite set -/

theorem opt_iter_succ {α : Type} (f : α → Option α) (k : Nat) (x : α) :
    opt_iter f (k + 1) x = (f x).bind (opt_iter f k) := by
  induction k with
  | zero =>
    simp only [opt_iter, Option.some_bind]
    cases f x <;> rfl
  | succ k ih =>
    show (opt_iter f (k + 1) x).bind f = _
    rw [ih]
    cases f x with
    | none => rfl
    | some y => rfl

theorem opt_iter_add {α : Type} (f : α → Option α) (i j : Nat) (x : α) :
    opt_iter f (i + j) x = (opt_iter f i x).bind (opt_iter f j) := by
  induction j with
  | zero =>
    show opt_iter f i x = _
    cases opt_iter f i x <;> rfl
  | succ j ih =>
    show (opt_iter f (i + j) x).bind f = _
    rw [ih]
    cases opt_iter f i x with
    | none => rfl
    | some y => rfl

theorem opt_iter_mem {α : Type} (f : α → Option α) (L : List α)
    (hf : ∀ x ∈ L, ∀ y, f x = some y → y ∈ L) (x : α) (hx : x ∈ L) :
    ∀ (k : Nat) (y : α), opt_iter f k x = some y → y ∈ L := by
  intro k
  induction k with
  | zero =>
    intro y h
    simp only [opt_iter, Option.some.injEq] at h
    exact h ▸ hx
  | succ k ih =>
    intro y h
    change (opt_iter f k x).bind f = some y at h
    cases hk : opt_iter f k x with
    | none => rw [hk] at h; cases h
    | some z =>
      rw [hk] at h
      exact hf z (ih z hk) y h

theorem opt_iter_prefix {α : Type} (f : α → Option α) (x : α) (j : Nat) :
    ∀ i, i ≤ j → (opt_iter f j x).isSome = true → (opt_iter f i x).isSome = true := by
  induction j with
  | zero =>
    intro i hi h
    have : i = 0 := by omega
    subst this
    exact h
  | succ j ih =>
    intro i hi h
    by_cases hij : i = j + 1
    · subst hij; exact h
    · apply ih i (by omega)
      change ((opt_iter f j x).bind f).isSome = true at h
      cases hk : opt_iter f j x with
      | none => rw [hk] at h; cases h
      | some z => rfl

/-- Two steps of the orbit that meet had met one step earlier already, when the
step is one-to-one. -/
theorem opt_iter_back {α : Type} (f : α → Option α) (L : List α)
    (hf : ∀ x ∈ L, ∀ y, f x = some y → y ∈ L)
    (hinj : ∀ x ∈ L, ∀ y ∈ L, ∀ z, f x = some z → f y = some z → x = y)
    (x : α) (hx : x ∈ L) (d : Nat) :
    ∀ (i : Nat) (y : α), opt_iter f i x = some y → opt_iter f (i + d) x = some y →
      opt_iter f d x = some x := by
  intro i
  induction i with
  | zero =>
    intro y h0 hd
    simp only [opt_iter, Option.some.injEq] at h0
    subst h0
    simpa using hd
  | succ i ih =>
    intro y h0 hd
    change (opt_iter f i x).bind f = some y at h0
    have hd' : (opt_iter f (i + d) x).bind f = some y := by
      have : i + 1 + d = (i + d) + 1 := by omega
      rw [this] at hd
      exact hd
    cases ha : opt_iter f i x with
    | none => rw [ha] at h0; cases h0
    | some a =>
      cases hb : opt_iter f (i + d) x with
      | none => rw [hb] at hd'; cases hd'
      | some b =>
        rw [ha] at h0
        rw [hb] at hd'
        have hab : a = b := hinj a (opt_iter_mem f L hf x hx i a ha) b
          (opt_iter_mem f L hf x hx (i + d) b hb) y h0 hd'
        subst hab
        exact ih a ha hb

/-- The orbit of a point under a one-to-one step that stays in a finite set:
within as many steps as the set has elements the step fails or the orbit is
back at its start, and no point is met twice before. -/
theorem opt_iter_orbit {α : Type} [DecidableEq α] (f : α → Option α) (L : List α)
    (hf : ∀ x ∈ L, ∀ y, f x = some y → y ∈ L)
    (hinj : ∀ x ∈ L, ∀ y ∈ L, ∀ z, f x = some z → f y = some z → x = y)
    (x : α) (hx : x ∈ L) :
    ∃ p, 1 ≤ p ∧ p ≤ L.length ∧ (opt_iter f p x = none ∨ opt_iter f p x = some x) ∧
      (∀ q, 1 ≤ q → q < p → opt_iter f q x ≠ none ∧ opt_iter f q x ≠ some x) ∧
      ∀ i j, i < j → j < p → ∀ y, opt_iter f i x = some y → opt_iter f j x ≠ some y := by
  classical
  have hex : ∃ q, 1 ≤ q ∧ q ≤ L.length ∧ (opt_iter f q x = none ∨ opt_iter f q x = some x) := by
    by_contra hne
    push_neg at hne
    have hsome : ∀ q, q ≤ L.length → ∃ y, opt_iter f q x = some y := by
      intro q hq
      by_cases h0 : q = 0
      · subst h0; exact ⟨x, rfl⟩
      · have := (hne q (by omega) hq).1
        cases h : opt_iter f q x with
        | none => exact absurd h this
        | some y => exact ⟨y, rfl⟩
    have hcard : L.toFinset.card < (Finset.range (L.length + 1)).card := by
      rw [Finset.card_range]
      exact Nat.lt_succ_of_le (List.toFinset_card_le L)
    have hmaps : ∀ q ∈ Finset.range (L.length + 1),
        (opt_iter f q x).getD x ∈ L.toFinset := by
      intro q hq
      rw [Finset.mem_range] at hq
      obtain ⟨y, hy⟩ := hsome q (by omega)
      rw [hy, List.mem_toFinset]
      exact opt_iter_mem f L hf x hx q y hy
    obtain ⟨i, hi, j, hj, hij, heq⟩ :=
      Finset.exists_ne_map_eq_of_card_lt_of_maps_to hcard hmaps
    rw [Finset.mem_range] at hi hj
    have key : ∀ a b, a < b → b ≤ L.length →
        (opt_iter f a x).getD x = (opt_iter f b x).getD x → False := by
      intro a b hab hb h
      obtain ⟨ya, hya⟩ := hsome a (by omega)
      obtain ⟨yb, hyb⟩ := hsome b hb
      rw [hya, hyb] at h
      simp only [Option.getD_some] at h
      subst h
      have hb' : opt_iter f (a + (b - a)) x = some ya := by
        rw [Nat.add_sub_cancel' (le_of_lt hab)]; exact hyb
      have := opt_iter_back f L hf hinj x hx (b - a) a ya hya hb'
      exact (hne (b - a) (by omega) (by omega)).2 this
    rcases Nat.lt_or_gt_of_ne hij with h | h
    · exact key i j h (by omega) heq
    · exact key j i h (by omega) heq.symm
  refine ⟨Nat.find hex, (Nat.find_spec hex).1, (Nat.find_spec hex).2.1,
    (Nat.find_spec hex).2.2, ?_, ?_⟩
  · intro q hq1 hqp
    have hmin := Nat.find_min hex hqp
    have hle : q ≤ L.length := le_trans (le_of_lt hqp) (Nat.find_spec hex).2.1
    constructor
    · intro h; exact hmin ⟨hq1, hle, Or.inl h⟩
    · intro h; exact hmin ⟨hq1, hle, Or.inr h⟩
  · intro i j hij hjp y hi hj
    have hj' : opt_iter f (i + (j - i)) x = some y := by
      rw [Nat.add_sub_cancel' (le_of_lt hij)]; exact hj
    have hret := opt_iter_back f L hf hinj x hx (j - i) i y hi hj'
    have hlt : j - i < Nat.find hex := by omega
    exact Nat.find_min hex hlt
      ⟨by omega, le_trans (le_of_lt hlt) (Nat.find_spec hex).2.1, Or.inr hret⟩
/-! ## Theorems: the termination of `get_next_loop` -/

theorem BM_vert_in_edge_iff (bm : BMesh) (e v : Nat) :
    BM_vert_in_edge bm e v = true ↔ (bm.edge e).v1 = v ∨ (bm.edge e).v2 = v := by
  simp [BM_vert_in_edge]

theorem mem_fan_corners (bm : BMesh) (v l : Nat) :
    l ∈ fan_corners bm v ↔ l < bm.totloop ∧ BM_vert_in_edge bm (bm.loop l).e v = true := by
  simp [fan_corners]

/-- In a consistent mesh `BM_loop_other_edge_loop` takes a loop whose edge
contains `v` to the loop of the same face on the other edge at `v`, and that
loop back. -/
theorem other_edge_loop_fan {bm : BMesh} (h : FanOK bm) (v l : Nat) (hl : l < bm.totloop)
    (hv : BM_vert_in_edge bm (bm.loop l).e v = true) :
    ∃ m, BM_loop_other_edge_loop bm l v = some m ∧ m < bm.totloop ∧
      BM_vert_in_edge bm (bm.loop m).e v = true ∧ BM_loop_other_edge_loop bm m v = some l ∧
      (∃ w, BM_edge_other_vert bm (bm.loop m).e v = some w) := by
  rw [BM_vert_in_edge_iff] at hv
  have hE := h.ends l hl
  have hC := h.corner_ne l hl
  have hv' : (bm.loop l).v = v ∨ (bm.loop (bm.loop l).next).v = v := by
    rcases hE with ⟨h1, h2⟩ | ⟨h1, h2⟩ <;> rcases hv with hv | hv
    · exact Or.inl (h1 ▸ hv)
    · exact Or.inr (h2 ▸ hv)
    · exact Or.inr (h1 ▸ hv)
    · exact Or.inl (h2 ▸ hv)
  rcases hv' with hlv | hnv
  · -- `v` is the vertex of `l`: the other loop is `l->prev`
    have hp := h.prev_lt l hl
    have hpn := h.prev_next l hl
    have hEp := h.ends _ hp
    have hCp := h.corner_ne _ hp
    rw [hpn] at hEp hCp
    have hov : BM_edge_other_vert bm (bm.loop l).e v = some (bm.loop (bm.loop l).next).v := by
      unfold BM_edge_other_vert
      rcases hE with ⟨h1, h2⟩ | ⟨h1, h2⟩
      · rw [if_pos (h1.trans hlv), h2]
      · have : ¬ (bm.edge (bm.loop l).e).v1 = v := by
          rw [h1, ← hlv]; exact fun hh => hC.1 hh.symm
        rw [if_neg this, if_pos (h2.trans hlv), h1]
    have hm : BM_loop_other_edge_loop bm l v = some (bm.loop l).prev := by
      unfold BM_loop_other_edge_loop
      rw [hov]
      simp only [hlv, if_true]
      rw [if_neg hC.2]
    have hpv : (bm.loop (bm.loop l).prev).v ≠ v := by rw [← hlv]; exact hCp.1
    have hin : (bm.edge (bm.loop (bm.loop l).prev).e).v1 = v ∨
        (bm.edge (bm.loop (bm.loop l).prev).e).v2 = v := by
      rcases hEp with ⟨_, h2⟩ | ⟨h1, _⟩
      · exact Or.inr (h2.trans hlv)
      · exact Or.inl (h1.trans hlv)
    have hov2 : ∃ w, BM_edge_other_vert bm (bm.loop (bm.loop l).prev).e v = some w := by
      unfold BM_edge_other_vert
      by_cases h1 : (bm.edge (bm.loop (bm.loop l).prev).e).v1 = v
      · exact ⟨_, by rw [if_pos h1]⟩
      · rcases hin with h2 | h2
        · exact absurd h2 h1
        · exact ⟨_, by rw [if_neg h1, if_pos h2]⟩
    refine ⟨(bm.loop l).prev, hm, hp, (BM_vert_in_edge_iff _ _ _).2 hin, ?_, hov2⟩
    obtain ⟨w, hw⟩ := hov2
    unfold BM_loop_other_edge_loop
    rw [hw]
    simp only
    rw [if_neg hpv]
    have : (bm.loop (bm.loop (bm.loop l).prev).prev).v ≠ v := by
      rw [← hlv]; exact hCp.2
    rw [if_neg this, hpn]
  · -- `v` is the vertex of `l->next`: the other loop is `l->next`
    have hlv : (bm.loop l).v ≠ v := by rw [← hnv]; exact hC.1
    have hn := h.next_lt l hl
    have hnp := h.next_prev l hl
    have hEn := h.ends _ hn
    have hCn := h.corner_ne _ hn
    rw [hnp] at hCn
    obtain ⟨w0, hw0⟩ : ∃ w, BM_edge_other_vert bm (bm.loop l).e v = some w := by
      unfold BM_edge_other_vert
      by_cases h1 : (bm.edge (bm.loop l).e).v1 = v
      · exact ⟨_, by rw [if_pos h1]⟩
      · rcases hv with h2 | h2
        · exact absurd h2 h1
        · exact ⟨_, by rw [if_neg h1, if_pos h2]⟩
    have hm : BM_loop_other_edge_loop bm l v = some (bm.loop l).next := by
      unfold BM_loop_other_edge_loop
      rw [hw0]
      simp only
      rw [if_neg hlv]
      have : (bm.loop (bm.loop l).prev).v ≠ v := by rw [← hnv]; exact hC.2
      rw [if_neg this]
    have hin : (bm.edge (bm.loop (bm.loop l).next).e).v1 = v ∨
        (bm.edge (bm.loop (bm.loop l).next).e).v2 = v := by
      rcases hEn with ⟨h1, _⟩ | ⟨_, h2⟩
      · exact Or.inl (h1.trans hnv)
      · exact Or.inr (h2.trans hnv)
    have hov2 : BM_edge_other_vert bm (bm.loop (bm.loop l).next).e v =
        some (bm.loop (bm.loop (bm.loop l).next).next).v := by
      unfold BM_edge_other_vert
      rcases hEn with ⟨h1, h2⟩ | ⟨h1, h2⟩
      · rw [if_pos (h1.trans hnv), h2]
      · have : ¬ (bm.edge (bm.loop (bm.loop l).next).e).v1 = v := by
          rw [h1, ← hnv]; exact fun hh => hCn.1 hh.symm
        rw [if_neg this, if_pos (h2.trans hnv), h1]
    refine ⟨(bm.loop l).next, hm, hn, (BM_vert_in_edge_iff _ _ _).2 hin, ?_, ⟨_, hov2⟩⟩
    unfold BM_loop_other_edge_loop
    rw [hov2]
    simp only [hnv, if_true]
    rw [hnp, if_neg hCn.2]

theorem fan_step_mem {bm : BMesh} (h : FanOK bm) (v : Nat) :
    ∀ x ∈ fan_corners bm v, ∀ y, fan_step bm v x = some y → y ∈ fan_corners bm v := by
  intro x hx y hy
  rw [mem_fan_corners] at hx ⊢
  obtain ⟨m, hm, hml, hmv, -, -⟩ := other_edge_loop_fan h v x hx.1 hx.2
  simp only [fan_step, hm, Option.map_some', Option.some.injEq] at hy
  subst hy
  refine ⟨h.radial_lt m hml, ?_⟩
  rw [h.radial_e m hml]
  exact hmv

theorem fan_step_inj {bm : BMesh} (h : FanOK bm) (v : Nat) :
    ∀ x ∈ fan_corners bm v, ∀ y ∈ fan_corners bm v, ∀ z,
      fan_step bm v x = some z → fan_step bm v y = some z → x = y := by
  intro x hx y hy z hxz hyz
  rw [mem_fan_corners] at hx hy
  obtain ⟨m, hm, hml, -, hmb, -⟩ := other_edge_loop_fan h v x hx.1 hx.2
  obtain ⟨m1, hm1, hml1, -, hmb1, -⟩ := other_edge_loop_fan h v y hy.1 hy.2
  simp only [fan_step, hm, hm1, Option.map_some', Option.some.injEq] at hxz hyz
  have : m = m1 := h.radial_inj m hml m1 hml1 (hxz.trans hyz.symm)
  subst this
  rw [hmb] at hmb1
  exact Option.some.inj hmb1

theorem fan_step_some {bm : BMesh} (h : FanOK bm) (v x : Nat) (hx : x ∈ fan_corners bm v) :
    ∃ y, fan_step bm v x = some y := by
  rw [mem_fan_corners] at hx
  obtain ⟨m, hm, -⟩ := other_edge_loop_fan h v x hx.1 hx.2
  exact ⟨(bm.loop m).radial_next, by simp only [fan_step, hm, Option.map_some']⟩
theorem iterate_next_lt {bm : BMesh} (h : FanOK bm) (l : Nat) (hl : l < bm.totloop) (k : Nat) :
    Nat.iterate (fun x => (bm.loop x).next) k l < bm.totloop ∧
      (bm.loop (Nat.iterate (fun x => (bm.loop x).next) k l)).f = (bm.loop l).f := by
  induction k with
  | zero => exact ⟨hl, rfl⟩
  | succ k ih =>
    rw [Function.iterate_succ_apply']
    exact ⟨h.next_lt _ ih.1, (h.next_f _ ih.1).trans ih.2⟩

theorem share_loop_from_some (bm : BMesh) (l_first v : Nat) :
    ∀ (k fuel it : Nat), k < fuel →
      (bm.loop (Nat.iterate (fun x => (bm.loop x).next) k it)).v = v →
      (∀ j, j < k → (bm.loop (Nat.iterate (fun x => (bm.loop x).next) j it)).v ≠ v) →
      (∀ j, j < k → Nat.iterate (fun x => (bm.loop x).next) (j + 1) it ≠ l_first) →
      BM_face_vert_share_loop_from bm l_first v fuel it =
        some (Nat.iterate (fun x => (bm.loop x).next) k it) := by
  intro k
  induction k with
  | zero =>
    intro fuel it hk hv _ _
    obtain ⟨f, rfl⟩ : ∃ f, fuel = f + 1 := ⟨fuel - 1, by omega⟩
    unfold BM_face_vert_share_loop_from
    have hv0 : (bm.loop it).v = v := hv
    rw [if_pos hv0]
    rfl
  | succ k ih =>
    intro fuel it hk hv hne hw
    obtain ⟨f, rfl⟩ : ∃ f, fuel = f + 1 := ⟨fuel - 1, by omega⟩
    unfold BM_face_vert_share_loop_from
    have hne0 : ¬ (bm.loop it).v = v := hne 0 (by omega)
    have hw0 : ¬ (bm.loop it).next = l_first := hw 0 (by omega)
    rw [if_neg hne0, if_neg hw0]
    rw [Function.iterate_succ_apply]
    apply ih f _ (by omega)
    · rw [← Function.iterate_succ_apply]; exact hv
    · intro j hj
      rw [← Function.iterate_succ_apply]
      exact hne (j + 1) (by omega)
    · intro j hj
      rw [← Function.iterate_succ_apply]
      exact hw (j + 1) (by omega)

/-- In a consistent mesh `BM_face_vert_share_loop` finds the corner of a face
at a vertex of one of its loops. -/
theorem share_loop_some {bm : BMesh} (h : FanOK bm) (l : Nat) (hl : l < bm.totloop) :
    ∃ l_tmp, BM_face_vert_share_loop bm (bm.loop l).f (bm.loop l).v = some l_tmp ∧
      l_tmp < bm.totloop := by
  classical
  obtain ⟨hlf, k0, hk0, hk0l⟩ := h.face_first l hl
  have hex : ∃ k, k < (bm.face (bm.loop l).f).len ∧
      (bm.loop (Nat.iterate (fun x => (bm.loop x).next) k
        (bm.face (bm.loop l).f).l_first)).v = (bm.loop l).v :=
    ⟨k0, hk0, by rw [hk0l]⟩
  have hspec := Nat.find_spec hex
  have hmin : ∀ j, j < Nat.find hex →
      (bm.loop (Nat.iterate (fun x => (bm.loop x).next) j
        (bm.face (bm.loop l).f).l_first)).v ≠ (bm.loop l).v := by
    intro j hj hv
    exact Nat.find_min hex hj ⟨lt_trans hj hspec.1, hv⟩
  refine ⟨_, share_loop_from_some bm _ _ (Nat.find hex) _ _ hspec.1 hspec.2 hmin ?_,
    (iterate_next_lt h _ hlf _).1⟩
  intro j hj hw
  have hsplit : Nat.find hex = (Nat.find hex - (j + 1)) + (j + 1) := by omega
  have hv := hspec.2
  rw [hsplit, Function.iterate_add_apply, hw] at hv
  exact hmin _ (by omega) hv

theorem opposite_co_loop_some (sqrtf : ℚ → ℚ) (bm : BMesh) (l_tmp l_last : Nat) (plane_no : V3) :
    ∀ (fuel j it : Nat) (r_co : V3) (dist : ℚ) (found : Bool), j < fuel →
      Nat.iterate (fun x => (bm.loop x).next) (j + 1) it = l_last →
      ∃ r, bm_loop_calc_opposite_co_loop sqrtf bm l_tmp l_last plane_no fuel it r_co dist found =
        some r := by
  intro fuel
  induction fuel with
  | zero => intro j _ _ _ _ hj; omega
  | succ f ih =>
    intro j it r_co dist found hj hlast
    unfold bm_loop_calc_opposite_co_loop
    simp only
    by_cases hn : (bm.loop it).next ≠ l_last
    · rw [if_pos hn]
      have hj0 : j ≠ 0 := by
        intro h0
        subst h0
        exact hn hlast
      obtain ⟨j1, rfl⟩ : ∃ j1, j = j1 + 1 := ⟨j - 1, by omega⟩
      apply ih j1 _ _ _ _ (by omega)
      rw [← Function.iterate_succ_apply]
      exact hlast
    · rw [if_neg hn]
      exact ⟨_, rfl⟩

theorem opt_iter_total {α : Type} (f : α → α) (k : Nat) (x : α) :
    opt_iter (fun a => some (f a)) k x = some (Nat.iterate f k x) := by
  induction k with
  | zero => rfl
  | succ k ih =>
    show (opt_iter (fun a => some (f a)) k x).bind (fun a => some (f a)) = _
    rw [ih, Function.iterate_succ_apply']
    rfl

/-- The corners of a face form a cycle: some number of `next` steps, at least
three and at most the number of loops of the mesh, leads back to the loop. -/
theorem next_cycle {bm : BMesh} (h : FanOK bm) (l : Nat) (hl : l < bm.totloop) :
    ∃ p, 3 ≤ p ∧ p ≤ bm.totloop ∧ Nat.iterate (fun x => (bm.loop x).next) p l = l := by
  obtain ⟨p, hp1, hpN, hret, -, -⟩ := opt_iter_orbit (fun a => some ((bm.loop a).next))
    (List.range bm.totloop)
    (fun x hx y hy => by
      rw [List.mem_range] at hx ⊢
      simp only [Option.some.injEq] at hy
      exact hy ▸ h.next_lt x hx)
    (fun x hx y hy z hxz hyz => by
      rw [List.mem_range] at hx hy
      simp only [Option.some.injEq] at hxz hyz
      have := congrArg (fun a => (bm.loop a).prev) (hxz.trans hyz.symm)
      simp only at this
      rwa [h.next_prev x hx, h.next_prev y hy] at this)
    l (List.mem_range.2 hl)
  rw [opt_iter_total] at hret
  rw [List.length_range] at hpN
  have hret' : Nat.iterate (fun x => (bm.loop x).next) p l = l := by
    rcases hret with hret | hret
    · cases hret
    · exact Option.some.inj hret
  refine ⟨p, ?_, hpN, hret'⟩
  have hC := h.corner_ne l hl
  by_contra hlt
  have hp : p = 1 ∨ p = 2 := by omega
  rcases hp with rfl | rfl
  · simp only [Function.iterate_one] at hret'
    exact hC.1 (by rw [hret'])
  · simp only [Function.iterate_succ, Function.iterate_zero, Function.comp_apply,
      id_eq] at hret'
    have := h.next_prev _ (h.next_lt l hl)
    rw [hret'] at this
    exact hC.2 (by rw [this])

theorem bm_loop_calc_opposite_co_some {bm : BMesh} (h : FanOK bm) (sqrtf : ℚ → ℚ) (l_tmp : Nat)
    (hl : l_tmp < bm.totloop) (plane_no tvec : V3) :
    ∃ r, bm_loop_calc_opposite_co sqrtf bm bm.totloop l_tmp plane_no tvec = some r := by
  obtain ⟨p, hp3, hpN, hret⟩ := next_cycle h l_tmp hl
  unfold bm_loop_calc_opposite_co
  simp only
  apply opposite_co_loop_some sqrtf bm l_tmp _ plane_no bm.totloop (p - 3) _ _ _ _ (by omega)
  rw [← Function.iterate_succ_apply]
  have hp : (p - 3 + 1).succ = p - 1 := by omega
  rw [hp]
  have hp' : p = (p - 1) + 1 := by omega
  rw [hp', Function.iterate_succ_apply'] at hret
  have := h.next_prev _ (iterate_next_lt h l_tmp hl (p - 1)).1
  rw [hret] at this
  exact this.symm

/-- In a consistent mesh the direction that `get_next_loop` takes from the face
is computed for every loop whose edge contains `v`. -/
theorem get_next_loop_face_dir_some {bm : BMesh} (h : FanOK bm) (sqrtf : ℚ → ℚ)
    (v l_first e_prev e_next : Nat) (hl : l_first < bm.totloop)
    (hv : BM_vert_in_edge bm (bm.loop l_first).e v = true) :
    ∃ d, get_next_loop_face_dir sqrtf bm bm.totloop v l_first e_prev e_next = some d := by
  have hsh : ∃ l_tmp, BM_face_vert_share_loop bm (bm.loop l_first).f v = some l_tmp ∧
      l_tmp < bm.totloop := by
    rw [BM_vert_in_edge_iff] at hv
    have hE := h.ends l_first hl
    have hv' : (bm.loop l_first).v = v ∨ (bm.loop (bm.loop l_first).next).v = v := by
      rcases hE with ⟨h1, h2⟩ | ⟨h1, h2⟩ <;> rcases hv with hv | hv
      · exact Or.inl (h1 ▸ hv)
      · exact Or.inr (h2 ▸ hv)
      · exact Or.inr (h1 ▸ hv)
      · exact Or.inl (h2 ▸ hv)
    rcases hv' with hv' | hv'
    · have := share_loop_some h l_first hl
      rwa [hv'] at this
    · have := share_loop_some h _ (h.next_lt l_first hl)
      rwa [hv', h.next_f l_first hl] at this
  obtain ⟨l_tmp, hsh, hlt⟩ := hsh
  unfold get_next_loop_face_dir
  rw [hsh]
  simp only
  by_cases h4 : (bm.face (bm.loop l_tmp).f).len = 4
  · rw [if_pos h4]; exact ⟨_, rfl⟩
  · rw [if_neg h4]
    obtain ⟨r, hr⟩ := bm_loop_calc_opposite_co_some h sqrtf l_tmp hlt
      (BM_loop_calc_face_direction sqrtf bm l_tmp) zero_v3
    rw [hr]
    exact ⟨_, rfl⟩
theorem getLast?_cons_ne_nil {α : Type} (a : α) (l : List α) (h : l ≠ []) :
    (a :: l).getLast? = l.getLast? := by
  cases l with
  | nil => exact absurd rfl h
  | cons b t => exact List.getLast?_cons_cons

theorem get_next_loop_loop_total {bm : BMesh} (h : FanOK bm) (sqrtf : ℚ → ℚ)
    (v l_first e_prev e_next : Nat) (hl1 : l_first ∈ fan_corners bm v) (p : Nat)
    (hret : opt_iter (fan_step bm v) p l_first = some l_first)
    (hdist : ∀ i j, i < j → j < p → ∀ y, opt_iter (fan_step bm v) i l_first = some y →
      opt_iter (fan_step bm v) j l_first ≠ some y) :
    ∀ (fuel k l : Nat) (acc : V3) (len : ℚ) (i : Nat), k < p → p ≤ k + fuel →
      opt_iter (fan_step bm v) k l_first = some l →
      (k ≠ 0 → (bm.loop l).e ≠ e_next) →
      ∃ r, get_next_loop_loop sqrtf bm v l_first e_prev e_next fuel l acc len i = some r ∧
        (∀ l1, r.1 = some l1 → l1 < bm.totloop ∧ (bm.loop l1).e = e_next) ∧
        (∀ x ∈ get_next_loop_starts bm v l_first e_next fuel l,
          ∃ j, k ≤ j ∧ j < p ∧ opt_iter (fan_step bm v) j l_first = some x) ∧
        (get_next_loop_starts bm v l_first e_next fuel l).Nodup ∧
        get_next_loop_starts bm v l_first e_next fuel l ≠ [] ∧
        (r.1 = none ↔ get_next_loop_stopped bm v l_first e_next
          (get_next_loop_starts bm v l_first e_next fuel l)) := by
  intro fuel
  induction fuel with
  | zero => intro k l acc len i hk hp; omega
  | succ f ih =>
    intro k l acc len i hk hp hkl hne
    have hlX := opt_iter_mem (fan_step bm v) (fan_corners bm v) (fan_step_mem h v) l_first hl1
      k l hkl
    have hlX' := (mem_fan_corners bm v l).1 hlX
    obtain ⟨m, hm, hml, hmv, hmb, w, hw⟩ := other_edge_loop_fan h v l hlX'.1 hlX'.2
    have hself : ∃ j, k ≤ j ∧ j < p ∧ opt_iter (fan_step bm v) j l_first = some l :=
      ⟨k, le_refl k, hk, hkl⟩
    rw [get_next_loop_loop, get_next_loop_starts]
    simp only [hm]
    by_cases he : (bm.loop m).e = e_next
    · -- the loop on the other edge of the face is on `e_next`
      rw [if_pos he, if_pos he]
      have hno : ¬ get_next_loop_stopped bm v l_first e_next [l] := by
        intro hs
        exact (hs.1 l (List.mem_singleton_self l)).2 m hm he
      by_cases hi : i ≠ 0
      · rw [if_pos hi]
        refine ⟨_, rfl, ?_, ?_, List.nodup_singleton l, by simp, ?_⟩
        · intro l1 h1
          simp only [Option.some.injEq] at h1
          subst h1
          exact ⟨hml, he⟩
        · intro x hx
          rw [List.mem_singleton] at hx
          subst hx
          exact hself
        · constructor
          · intro hn; cases hn
          · intro hs; exact absurd hs hno
      · rw [if_neg hi]
        obtain ⟨d, hd⟩ := get_next_loop_face_dir_some h sqrtf v l_first e_prev e_next
          ((mem_fan_corners bm v l_first).1 hl1).1 ((mem_fan_corners bm v l_first).1 hl1).2
        rw [hd]
        refine ⟨_, rfl, ?_, ?_, List.nodup_singleton l, by simp, ?_⟩
        · intro l1 h1
          simp only [Option.some.injEq] at h1
          subst h1
          exact ⟨hml, he⟩
        · intro x hx
          rw [List.mem_singleton] at hx
          subst hx
          exact hself
        · constructor
          · intro hn; cases hn
          · intro hs; exact absurd hs hno
    · rw [if_neg he, if_neg he]
      simp only [hw, hmb]
      by_cases he0 : (bm.loop l).e = e_next
      · -- the edge of the loop of this turn is `e_next`
        rw [if_pos he0, if_pos he0]
        have hno : ¬ get_next_loop_stopped bm v l_first e_next [l] := by
          intro hs
          exact (hs.1 l (List.mem_singleton_self l)).1 he0
        refine ⟨_, rfl, ?_, ?_, List.nodup_singleton l, by simp, ?_⟩
        · intro l1 h1
          simp only [Option.some.injEq] at h1
          subst h1
          exact ⟨hlX'.1, he0⟩
        · intro x hx
          rw [List.mem_singleton] at hx
          subst hx
          exact hself
        · constructor
          · intro hn; cases hn
          · intro hs; exact absurd hs hno
      · rw [if_neg he0, if_neg he0]
        have hgood : (bm.loop l).e ≠ e_next ∧
            ∀ m1, BM_loop_other_edge_loop bm l v = some m1 → (bm.loop m1).e ≠ e_next := by
          refine ⟨he0, fun m1 h1 => ?_⟩
          rw [hm] at h1
          exact (Option.some.inj h1) ▸ he
        by_cases hc : m ≠ (bm.loop m).radial_next ∧ (bm.loop m).radial_next ≠ l_first
        · -- the walk goes on over the edge
          rw [if_pos hc, if_pos hc]
          have hstep : opt_iter (fan_step bm v) (k + 1) l_first = some (bm.loop m).radial_next := by
            show (opt_iter (fan_step bm v) k l_first).bind (fan_step bm v) = _
            rw [hkl]
            simp only [Option.some_bind, fan_step, hm, Option.map_some']
          have hk1 : k + 1 < p := by
            by_contra hge
            have : k + 1 = p := by omega
            rw [this, hret] at hstep
            exact hc.2 (Option.some.inj hstep).symm
          obtain ⟨r, hr, hr1, hr2, hr3, hr4, hr5⟩ := ih (k + 1) (bm.loop m).radial_next
            (add_v3_v3v3 acc (normalize_v3 sqrtf (sub_v3_v3v3 (bm.vert w).co (bm.vert v).co)).1)
            (len + (normalize_v3 sqrtf (sub_v3_v3v3 (bm.vert w).co (bm.vert v).co)).2) (i + 1)
            hk1 (by omega) hstep (fun _ => by rw [h.radial_e m hml]; exact he)
          refine ⟨r, hr, hr1, ?_, ?_, by simp, ?_⟩
          · intro x hx
            rcases List.mem_cons.1 hx with hx | hx
            · subst hx; exact hself
            · obtain ⟨j, hj1, hj2, hj3⟩ := hr2 x hx
              exact ⟨j, by omega, hj2, hj3⟩
          · refine List.nodup_cons.2 ⟨?_, hr3⟩
            intro hmem
            obtain ⟨j, hj1, hj2, hj3⟩ := hr2 l hmem
            exact hdist k j (by omega) hj2 l hkl hj3
          · rw [hr5]
            unfold get_next_loop_stopped
            rw [getLast?_cons_ne_nil _ _ hr4]
            constructor
            · rintro ⟨ha, hb⟩
              refine ⟨?_, hb⟩
              intro x hx
              rcases List.mem_cons.1 hx with hx | hx
              · subst hx; exact hgood
              · exact ha x hx
            · rintro ⟨ha, hb⟩
              exact ⟨fun x hx => ha x (List.mem_cons_of_mem _ hx), hb⟩
        · -- the walk stops at a boundary loop or back at the first loop
          rw [if_neg hc, if_neg hc]
          refine ⟨_, rfl, ?_, ?_, List.nodup_singleton l, by simp, ?_⟩
          · intro l1 h1; cases h1
          · intro x hx
            rw [List.mem_singleton] at hx
            subst hx
            exact hself
          · constructor
            · intro _
              refine ⟨?_, l, m, rfl, hm, ?_⟩
              · intro x hx
                rw [List.mem_singleton] at hx
                subst hx
                exact hgood
              · by_cases hb : (bm.loop m).radial_next = m
                · exact Or.inl hb
                · right
                  by_contra hb2
                  exact hc ⟨fun hh => hb hh.symm, hb2⟩
            · intro _; rfl
/-- The walk of `get_next_loop` around `v` comes back to the loop it has started
from, after at most as many turns as there are face corners whose edge contains
`v`, and meets no loop twice before. -/
theorem fan_step_orbit {bm : BMesh} (h : FanOK bm) (v l : Nat) (hl : l ∈ fan_corners bm v) :
    ∃ p, 1 ≤ p ∧ p ≤ (fan_corners bm v).length ∧
      opt_iter (fan_step bm v) p l = some l ∧
      ∀ i j, i < j → j < p → ∀ y, opt_iter (fan_step bm v) i l = some y →
        opt_iter (fan_step bm v) j l ≠ some y := by
  obtain ⟨p, hp1, hpN, hret, hmin, hdist⟩ := opt_iter_orbit (fan_step bm v) (fan_corners bm v)
    (fan_step_mem h v) (fan_step_inj h v) l hl
  refine ⟨p, hp1, hpN, ?_, hdist⟩
  rcases hret with hnone | hsome
  · exfalso
    obtain ⟨q, rfl⟩ : ∃ q, p = q + 1 := ⟨p - 1, by omega⟩
    have hq : ∃ y, opt_iter (fan_step bm v) q l = some y := by
      by_cases h0 : q = 0
      · subst h0; exact ⟨l, rfl⟩
      · have := (hmin q (by omega) (by omega)).1
        cases hh : opt_iter (fan_step bm v) q l with
        | none => exact absurd hh this
        | some y => exact ⟨y, rfl⟩
    obtain ⟨y, hy⟩ := hq
    have hyX := opt_iter_mem (fan_step bm v) (fan_corners bm v) (fan_step_mem h v) l hl q y hy
    obtain ⟨z, hz⟩ := fan_step_some h v y hyX
    change (opt_iter (fan_step bm v) q l).bind (fan_step bm v) = none at hnone
    rw [hy] at hnone
    simp only [Option.some_bind] at hnone
    rw [hz] at hnone
    cases hnone
  · exact hsome

/-- C32: `get_next_loop` terminates on every consistent mesh (`FanOK`: the loops
of each edge form a radial cycle, the loops of each face a cycle) for a loop `l`
whose edge contains `v`, whatever the edges around `v` are and whether `e_next`
is reached or not: with as much fuel as there are face corners whose edge
contains `v` it returns.  The body of its do-while loop is entered with the
loops `get_next_loop_starts`, which are face corners whose edge contains `v`, no
two of them the same, so it runs at most once per such corner.  A loop that is
returned is on `e_next`; and null is returned exactly when the walk has not met
`e_next` and has stopped at a boundary loop or come back to the loop it has
started from. -/
theorem get_next_loop_terminates (sqrtf : ℚ → ℚ) (bm : BMesh) (fuel v l e_prev e_next : Nat)
    (hm : FanOK bm) (hl : l < bm.totloop) (hv : BM_vert_in_edge bm (bm.loop l).e v = true)
    (hfuel : (fan_corners bm v).length ≤ fuel) :
    ∃ r, get_next_loop sqrtf bm fuel v l e_prev e_next = some r ∧
      (get_next_loop_starts bm v l e_next fuel l).Nodup ∧
      (∀ x ∈ get_next_loop_starts bm v l e_next fuel l, x ∈ fan_corners bm v) ∧
      (get_next_loop_starts bm v l e_next fuel l).length ≤ (fan_corners bm v).length ∧
      (∀ l1, r.1 = some l1 → l1 < bm.totloop ∧ (bm.loop l1).e = e_next) ∧
      (r.1 = none ↔
        get_next_loop_stopped bm v l e_next (get_next_loop_starts bm v l e_next fuel l)) := by
  have hlX : l ∈ fan_corners bm v := (mem_fan_corners bm v l).2 ⟨hl, hv⟩
  obtain ⟨p, hp1, hpN, hret, hdist⟩ := fan_step_orbit hm v l hlX
  obtain ⟨r, hr, hr1, hr2, hr3, -, hr5⟩ := get_next_loop_loop_total hm sqrtf v l e_prev e_next
    hlX p hret hdist fuel 0 l zero_v3 0 0 (by omega) (by omega) rfl (fun h0 => absurd rfl h0)
  have hsub : ∀ x ∈ get_next_loop_starts bm v l e_next fuel l, x ∈ fan_corners bm v := by
    intro x hx
    obtain ⟨j, -, -, hj⟩ := hr2 x hx
    exact opt_iter_mem (fan_step bm v) (fan_corners bm v) (fan_step_mem hm v) l hlX j x hj
  exact ⟨r, hr, hr3, hsub, (hr3.subperm hsub).length_le, hr1, hr5⟩

set_option maxRecDepth 100000 in
theorem fan_mesh_fan_ok (co : Nat → V3) : FanOK (fan_mesh co) where
  next_lt := by simp only [fan_mesh]; decide
  prev_lt := by simp only [fan_mesh]; decide
  radial_lt := by simp only [fan_mesh]; decide
  next_prev := by simp only [fan_mesh]; decide
  prev_next := by simp only [fan_mesh]; decide
  next_f := by simp only [fan_mesh]; decide
  radial_e := by simp only [fan_mesh]; decide
  radial_inj := by simp only [fan_mesh]; decide
  ends := by simp only [fan_mesh]; decide
  corner_ne := by simp only [fan_mesh]; decide
  face_first := by simp only [fan_mesh]; decide

set_option maxRecDepth 100000 in
theorem get_next_loop_terminates_witness :
    FanOK (fan_mesh (fan_co ⟨1, 0, 0⟩ ⟨0, 3, 0⟩)) ∧
      BM_vert_in_edge (fan_mesh (fan_co ⟨1, 0, 0⟩ ⟨0, 3, 0⟩))
        ((fan_mesh (fan_co ⟨1, 0, 0⟩ ⟨0, 3, 0⟩)).loop 0).e 0 = true ∧
      fan_corners (fan_mesh (fan_co ⟨1, 0, 0⟩ ⟨0, 3, 0⟩)) 0 = [0, 2, 3, 5, 6, 8] ∧
      get_next_loop_starts (fan_mesh (fan_co ⟨1, 0, 0⟩ ⟨0, 3, 0⟩)) 0 0 7 6 0 = [0, 3, 6] ∧
      ∃ r, get_next_loop sample_sqrtf (fan_mesh (fan_co ⟨1, 0, 0⟩ ⟨0, 3, 0⟩)) 6 0 0 0 7 = some r ∧
        (get_next_loop_starts (fan_mesh (fan_co ⟨1, 0, 0⟩ ⟨0, 3, 0⟩)) 0 0 7 6 0).Nodup ∧
        (∀ x ∈ get_next_loop_starts (fan_mesh (fan_co ⟨1, 0, 0⟩ ⟨0, 3, 0⟩)) 0 0 7 6 0,
          x ∈ fan_corners (fan_mesh (fan_co ⟨1, 0, 0⟩ ⟨0, 3, 0⟩)) 0) ∧
        (get_next_loop_starts (fan_mesh (fan_co ⟨1, 0, 0⟩ ⟨0, 3, 0⟩)) 0 0 7 6 0).length ≤
          (fan_corners (fan_mesh (fan_co ⟨1, 0, 0⟩ ⟨0, 3, 0⟩)) 0).length ∧
        (∀ l1, r.1 = some l1 → l1 < (fan_mesh (fan_co ⟨1, 0, 0⟩ ⟨0, 3, 0⟩)).totloop ∧
          ((fan_mesh (fan_co ⟨1, 0, 0⟩ ⟨0, 3, 0⟩)).loop l1).e = 7) ∧
        (r.1 = none ↔ get_next_loop_stopped (fan_mesh (fan_co ⟨1, 0, 0⟩ ⟨0, 3, 0⟩)) 0 0 7
          (get_next_loop_starts (fan_mesh (fan_co ⟨1, 0, 0⟩ ⟨0, 3, 0⟩)) 0 0 7 6 0)) :=
  ⟨fan_mesh_fan_ok _, by decide, by decide, by decide,
    get_next_loop_terminates sample_sqrtf (fan_mesh (fan_co ⟨1, 0, 0⟩ ⟨0, 3, 0⟩)) 6 0 0 0 7
      (fan_mesh_fan_ok _) (by decide) (by decide) (by decide)⟩

/-! ## Theorems: the termination of the double-sided builder -/

/-- The forward walk is the repetition of its body. -/
theorem double_side_walk_eq_step (sqrtf : ℚ → ℚ) (fuel_l : Nat) (loop_nr : Int)
    (v_first_e : Option Nat) (fuel : Nat) (w : DoubleSideWalk) :
    double_side_walk sqrtf fuel_l loop_nr v_first_e (fuel + 1) w =
      match double_side_walk_step sqrtf fuel_l loop_nr v_first_e w with
      | none => none
      | some (Sum.inl st) => some st
      | some (Sum.inr w1) => double_side_walk sqrtf fuel_l loop_nr v_first_e fuel w1 := by
  rw [double_side_walk]
  unfold double_side_walk_step
  simp only
  cases double_side_init_sv w.st w.v loop_nr with
  | none => rfl
  | some p1 =>
    obtain ⟨st1, idx⟩ := p1
    simp only
    cases double_side_set_side w.st.bm st1 idx 0 w.v w.l_a w.l_a_prev w.vec_a with
    | none => rfl
    | some st2 =>
      simp only
      cases double_side_set_side w.st.bm st2 idx 1 w.v w.l_b w.l_b_prev w.vec_b with
      | none => rfl
      | some st3 =>
        simp only
        cases BM_edge_other_vert w.st.bm w.e w.v with
        | none => rfl
        | some v1 =>
          simp only
          cases get_other_edge w.st.bm v1 w.e with
          | none =>
            simp only
            cases double_side_init_sv st3 v1 loop_nr with
            | none => rfl
            | some p4 =>
              obtain ⟨st4, idx4⟩ := p4
              simp only
              cases double_side_end_side sqrtf w.st.bm fuel_l st4 idx4 0 v1 w.l_a w.e with
              | none => rfl
              | some st5 =>
                simp only
                cases double_side_end_side sqrtf w.st.bm fuel_l st5 idx4 1 v1 w.l_b w.e with
                | none => rfl
                | some st6 => rfl
          | some e1 =>
            simp only
            cases double_side_next_side sqrtf w.st.bm fuel_l v1 w.l_a w.e e1 with
            | none => rfl
            | some pa =>
              obtain ⟨la, va⟩ := pa
              simp only
              cases double_side_next_side sqrtf w.st.bm fuel_l v1 w.l_b w.e e1 with
              | none => rfl
              | some pb =>
                obtain ⟨lb, vb⟩ := pb
                simp only
                cases double_side_recover sqrtf w.st.bm fuel_l v1 e1 w.e w.l_a.isSome
                    w.l_b.isSome la lb va vb with
                | none => rfl
                | some pr =>
                  obtain ⟨la1, lb1, va1, vb1⟩ := pr
                  simp only
                  split_ifs <;> rfl

/-- One pass of the outer loop is its part before the forward walk, followed by
the forward walk. -/
theorem double_side_pass_eq_start (sqrtf : ℚ → ℚ) (fuel : Nat) (st : DoubleSideState)
    (loop_nr : Int) (v e0 : Nat) :
    double_side_pass sqrtf fuel st loop_nr v e0 =
      (double_side_pass_start sqrtf fuel st v e0).bind
        (fun w => double_side_walk sqrtf fuel loop_nr (st.bm.vert w.v).e fuel w) := by
  unfold double_side_pass double_side_pass_start
  simp only
  cases double_side_rewind st.bm st.tag e0 fuel v e0 with
  | none => rfl
  | some p =>
    obtain ⟨v1, e1⟩ := p
    simp only
    cases (st.bm.edge e1).l with
    | none => rfl
    | some l_a =>
      simp only
      cases double_side_start_rail sqrtf st.bm fuel v1 l_a e1 with
      | none => rfl
      | some vec_a =>
        simp only
        cases (if (st.bm.loop l_a).radial_next ≠ l_a then
            double_side_start_rail sqrtf st.bm fuel v1 (st.bm.loop l_a).radial_next e1
          else some zero_v3) with
        | none => rfl
        | some vec_b => rfl
theorem fan_corners_length_le (bm : BMesh) (v : Nat) : (fan_corners bm v).length ≤ bm.totloop := by
  unfold fan_corners
  exact le_trans (List.length_filter_le _ _) (le_of_eq (List.length_range _))

/-- In a consistent mesh `get_next_loop` returns for every loop whose edge
contains `v`, with as much fuel as the mesh has loops. -/
theorem get_next_loop_some {bm : BMesh} (h : FanOK bm) (sqrtf : ℚ → ℚ)
    (fuel v l e_prev e_next : Nat) (hl : l < bm.totloop)
    (hv : BM_vert_in_edge bm (bm.loop l).e v = true) (hfuel : bm.totloop ≤ fuel) :
    ∃ r, get_next_loop sqrtf bm fuel v l e_prev e_next = some r := by
  have hlX : l ∈ fan_corners bm v := (mem_fan_corners bm v l).2 ⟨hl, hv⟩
  obtain ⟨p, hp1, hpN, hret, hdist⟩ := fan_step_orbit h v l hlX
  have := fan_corners_length_le bm v
  obtain ⟨r, hr, -⟩ := get_next_loop_loop_total h sqrtf v l e_prev e_next
    hlX p hret hdist fuel 0 l zero_v3 0 0 (by omega) (by omega) rfl (fun h0 => absurd rfl h0)
  exact ⟨r, hr⟩

theorem sv_write_some (st : DoubleSideState) (idx : Int)
    (f : TransDataEdgeSlideVert → TransDataEdgeSlideVert)
    (h0 : 0 ≤ idx) (h1 : idx.toNat < st.sv_array.length) :
    ∃ st1, sv_write st idx f = some st1 ∧ st1.sv_array.length = st.sv_array.length := by
  unfold sv_write
  rw [if_pos ⟨h0, h1⟩]
  exact ⟨_, rfl, by simp⟩

theorem sv_verts_length (st : DoubleSideState) : (sv_verts st).length = st.sv_array.length := by
  simp [sv_verts]

/-- The record of a selected vertex is fetched or pushed: `sv_table` has
`INDEX_UNSET` or the index of a record for it. -/
theorem double_side_init_sv_some (st : DoubleSideState) (v : Nat) (n : Int) (hok : RecOK st)
    (ht : st.sv_table v = INDEX_UNSET ∨ 0 ≤ st.sv_table v) :
    ∃ st1 idx, double_side_init_sv st v n = some (st1, idx) ∧ 0 ≤ idx ∧
      idx.toNat < st1.sv_array.length ∧
      ∀ x, (st.sv_table x = INDEX_UNSET ∨ 0 ≤ st.sv_table x) →
        (st1.sv_table x = INDEX_UNSET ∨ 0 ≤ st1.sv_table x) := by
  unfold double_side_init_sv SV_FROM_VERT
  by_cases hu : st.sv_table v = INDEX_UNSET
  · simp only [hu, if_true]
    have h0 : (0 : Int) ≤ (st.sv_array.length : Int) := Int.natCast_nonneg _
    obtain ⟨st1, hw, hlen⟩ := sv_write_some
      { st with
        sv_table := Function.update st.sv_table v (st.sv_array.length : Int)
        sv_array := st.sv_array ++ [sv_calloc] } (st.sv_array.length : Int)
      (fun sv => { sv with v := v, v_co_orig := (st.bm.vert v).co, loop_nr := n }) h0
      (by simp)
    rw [hw]
    refine ⟨st1, _, rfl, h0, ?_, ?_⟩
    · rw [hlen]; simp
    · intro x hx
      unfold sv_write at hw
      rw [if_pos ⟨h0, by simp⟩] at hw
      simp only [Option.some.injEq] at hw
      subst hw
      simp only
      by_cases hxv : x = v
      · subst hxv
        right
        rw [Function.update_same]
        exact h0
      · rw [Function.update_noteq hxv]
        exact hx
  · have hnn : 0 ≤ st.sv_table v := by
      rcases ht with ht | ht
      · exact absurd ht hu
      · exact ht
    simp only [hu, if_false]
    have hk : st.sv_table v = ((st.sv_table v).toNat : Int) := (Int.toNat_of_nonneg hnn).symm
    have hget := (hok v (st.sv_table v).toNat).1 hk
    have hlt : (st.sv_table v).toNat < st.sv_array.length := by
      rw [← sv_verts_length]
      by_contra hge
      rw [List.getElem?_eq_none (by omega)] at hget
      cases hget
    obtain ⟨st1, hw, hlen⟩ := sv_write_some st (st.sv_table v)
      (fun sv => { sv with v := v, v_co_orig := (st.bm.vert v).co, loop_nr := n }) hnn hlt
    rw [hw]
    refine ⟨st1, _, rfl, hnn, by rw [hlen]; exact hlt, ?_⟩
    intro x hx
    unfold sv_write at hw
    rw [if_pos ⟨hnn, hlt⟩] at hw
    simp only [Option.some.injEq] at hw
    subst hw
    exact hx

theorem double_side_set_side_some {bm : BMesh} (h : FanOK bm) (st : DoubleSideState) (idx : Int)
    (side : Fin 2) (v : Nat) (l l_prev : Option Nat) (vec : V3)
    (h0 : 0 ≤ idx) (h1 : idx.toNat < st.sv_array.length)
    (hl : ∀ l0, (if l.isSome then l else l_prev) = some l0 →
      l0 < bm.totloop ∧ BM_vert_in_edge bm (bm.loop l0).e v = true) :
    ∃ st1, double_side_set_side bm st idx side v l l_prev vec = some st1 ∧
      st1.sv_array.length = st.sv_array.length := by
  unfold double_side_set_side
  cases hc : (if l.isSome then l else l_prev) with
  | none => exact ⟨st, rfl, rfl⟩
  | some l0 =>
    obtain ⟨hl0, hv0⟩ := hl l0 hc
    obtain ⟨m, hm, -⟩ := other_edge_loop_fan h v l0 hl0 hv0
    simp only [hm]
    exact sv_write_some st idx _ h0 h1

theorem double_side_end_rail_some {bm : BMesh} (h : FanOK bm) (sqrtf : ℚ → ℚ)
    (fuel v l e : Nat) (hl : l < bm.totloop) (hv : BM_vert_in_edge bm (bm.loop l).e v = true)
    (hfuel : bm.totloop ≤ fuel) :
    ∃ r, double_side_end_rail sqrtf bm fuel v l e = some r := by
  obtain ⟨m, hm, -, -, -, w, hw⟩ := other_edge_loop_fan h v l hl hv
  unfold double_side_end_rail
  simp only [hm, hw]
  by_cases hin : EDGESLIDE_VERT_IS_INNER bm v (bm.loop m).e = true
  · rw [if_pos hin]
    obtain ⟨r, hr⟩ := get_next_loop_some h sqrtf fuel v l e (bm.loop m).e hl hv hfuel
    rw [hr]
    exact ⟨_, rfl⟩
  · rw [if_neg hin]
    exact ⟨_, rfl⟩

theorem double_side_end_side_some {bm : BMesh} (h : FanOK bm) (sqrtf : ℚ → ℚ) (fuel : Nat)
    (st : DoubleSideState) (idx : Int) (side : Fin 2) (v : Nat) (l : Option Nat) (e_prev : Nat)
    (h0 : 0 ≤ idx) (h1 : idx.toNat < st.sv_array.length)
    (hl : ∀ l0, l = some l0 → l0 < bm.totloop ∧ BM_vert_in_edge bm (bm.loop l0).e v = true)
    (hfuel : bm.totloop ≤ fuel) :
    ∃ st1, double_side_end_side sqrtf bm fuel st idx side v l e_prev = some st1 ∧
      st1.sv_array.length = st.sv_array.length := by
  unfold double_side_end_side
  cases l with
  | none => exact ⟨st, rfl, rfl⟩
  | some l0 =>
    obtain ⟨hl0, hv0⟩ := hl l0 rfl
    obtain ⟨r, hr⟩ := double_side_end_rail_some h sqrtf fuel v l0 e_prev hl0 hv0 hfuel
    simp only [hr]
    exact sv_write_some st idx _ h0 h1

theorem double_side_next_side_some {bm : BMesh} (h : FanOK bm) (sqrtf : ℚ → ℚ) (fuel v : Nat)
    (l : Option Nat) (e_prev e : Nat)
    (hl : ∀ l0, l = some l0 → l0 < bm.totloop ∧ BM_vert_in_edge bm (bm.loop l0).e v = true)
    (hfuel : bm.totloop ≤ fuel) :
    ∃ r, double_side_next_side sqrtf bm fuel v l e_prev e = some r := by
  unfold double_side_next_side
  cases l with
  | none => exact ⟨_, rfl⟩
  | some l0 =>
    obtain ⟨hl0, hv0⟩ := hl l0 rfl
    exact get_next_loop_some h sqrtf fuel v l0 e_prev e hl0 hv0 hfuel

theorem double_side_start_rail_some {bm : BMesh} (h : FanOK bm) (sqrtf : ℚ → ℚ)
    (fuel v l e : Nat) (hl : l < bm.totloop) (hv : BM_vert_in_edge bm (bm.loop l).e v = true)
    (hfuel : bm.totloop ≤ fuel) :
    ∃ r, double_side_start_rail sqrtf bm fuel v l e = some r := by
  unfold double_side_start_rail
  cases get_other_edge bm v e with
  | none =>
    obtain ⟨r, hr⟩ := double_side_end_rail_some h sqrtf fuel v l e hl hv hfuel
    simp only [hr]
    exact ⟨_, rfl⟩
  | some e_next =>
    obtain ⟨r, hr⟩ := get_next_loop_some h sqrtf fuel v l e e_next hl hv hfuel
    simp only [hr]
    exact ⟨_, rfl⟩
/-- In a consistent mesh the recovery of missing side loops (lines 806-842)
succeeds when the side loops in hand are loops on the edge `e` at `v`. -/
theorem double_side_recover_total {bm : BMesh} (h : FanOK bm) (hlo : LoopOK bm) (sqrtf : ℚ → ℚ)
    (fuel v e e_prev : Nat) (pa pb : Bool) (l_a l_b : Option Nat) (vec_a vec_b : V3)
    (he : e < bm.totedge) (hve : BM_vert_in_edge bm e v = true)
    (hla : ∀ l, l_a = some l → l < bm.totloop ∧ (bm.loop l).e = e)
    (hlb : ∀ l, l_b = some l → l < bm.totloop ∧ (bm.loop l).e = e)
    (hfuel : bm.totloop ≤ fuel) :
    ∃ r, double_side_recover sqrtf bm fuel v e e_prev pa pb l_a l_b vec_a vec_b = some r := by
  have hgn : ∀ l, l < bm.totloop → (bm.loop l).e = e →
      ∃ r, get_next_loop sqrtf bm fuel v l e e_prev = some r := by
    intro l hl hle
    exact get_next_loop_some h sqrtf fuel v l e e_prev hl (by rw [hle]; exact hve) hfuel
  have hrn : ∀ l, l < bm.totloop → (bm.loop l).e = e →
      (bm.loop l).radial_next < bm.totloop ∧ (bm.loop (bm.loop l).radial_next).e = e :=
    fun l hl hle => ⟨h.radial_lt l hl, (h.radial_e l hl).trans hle⟩
  unfold double_side_recover
  by_cases h1 : l_a.isSome = true ∧ l_b.isSome = true
  · rw [if_pos h1]; exact ⟨_, rfl⟩
  · rw [if_neg h1]
    rcases l_a with _ | la
    · rcases l_b with _ | lb
      · -- both null: the loops of the edge
        cases hel : (bm.edge e).l with
        | none => simp
        | some el =>
          obtain ⟨hel1, hel2, -⟩ := hlo.2 e he el hel
          obtain ⟨r1, hr1⟩ := hgn el hel1 hel2
          obtain ⟨r2, hr2⟩ := hgn _ (hrn el hel1 hel2).1 (hrn el hel1 hel2).2
          cases pa <;> cases pb <;>
            by_cases hc : (bm.loop el).radial_next = el <;> simp [hc, hr1, hr2]
      · obtain ⟨b1, b2⟩ := hlb lb rfl
        obtain ⟨r2, hr2⟩ := hgn _ (hrn lb b1 b2).1 (hrn lb b1 b2).2
        obtain ⟨r1, hr1⟩ := hgn lb b1 b2
        cases pa <;> cases pb <;>
          by_cases hc : (bm.loop lb).radial_next = lb <;> simp [hc, hr1, hr2]
    · rcases l_b with _ | lb
      · obtain ⟨a1, a2⟩ := hla la rfl
        obtain ⟨r2, hr2⟩ := hgn _ (hrn la a1 a2).1 (hrn la a1 a2).2
        obtain ⟨r1, hr1⟩ := hgn la a1 a2
        cases pa <;> cases pb <;>
          by_cases hc : (bm.loop la).radial_next = la <;> simp [hc, hr1, hr2]
      · simp at h1
theorem vert_in_edge_of_disk {bm : BMesh} (hm : MeshOK bm) (v e : Nat) (hv : v < bm.totvert)
    (he : e ∈ (bm.vert v).disk) : e < bm.totedge ∧ BM_vert_in_edge bm e v = true :=
  ⟨(hm v hv e he).1, (BM_vert_in_edge_iff bm e v).2 (hm v hv e he).2.1⟩

/-- One run of the body of the forward walk succeeds in a consistent mesh: it
leaves the loop at the end of the chain or before the first edge of the walk,
or it goes on to the next position of the chain with a side loop that is not
null, and what the walk relies on holds again. -/
theorem walk_step_total {bm : BMesh} (h : ChainOK bm) (hm : MeshOK bm) (hf : FanOK bm)
    (hlo : LoopOK bm)
    (hmb : ∀ e, e < bm.totedge → (bm.edge e).select = true →
      BM_edge_is_manifold bm e = true ∨ BM_edge_is_boundary bm e = true)
    (sqrtf : ℚ → ℚ) (fuel_l : Nat) (hfl : bm.totloop ≤ fuel_l) (n : Int) (s0 : Nat × Nat)
    (hs0 : ChainPos bm s0) (k : Nat) (w : DoubleSideWalk)
    (hw : WalkInv bm s0 k w.st w.v w.e) (hok : WalkOK bm w) :
    ∃ v1, BM_edge_other_vert bm w.e w.v = some v1 ∧
      ((∃ st, double_side_walk_step sqrtf fuel_l n (some s0.2) w = some (Sum.inl st) ∧
          (get_other_edge bm v1 w.e = none ∨ get_other_edge bm v1 w.e = some s0.2) ∧
          ∀ x, x < bm.totvert → (bm.vert x).select = true →
            st.sv_table x = INDEX_UNSET ∨ 0 ≤ st.sv_table x) ∨
        (∃ w1, double_side_walk_step sqrtf fuel_l n (some s0.2) w = some (Sum.inr w1) ∧
          w1.v = v1 ∧ get_other_edge bm v1 w.e = some w1.e ∧ w1.e ≠ s0.2 ∧
          WalkInv bm s0 (k + 1) w1.st w1.v w1.e ∧ WalkOK bm w1)) := by
  have hp := h.iter k s0 (w.v, w.e) hs0 hw.pos
  obtain ⟨v1, hv1, hv1ne, hv1lt, hv1sel, hv1d, hback⟩ :=
    h.ends w.v hp.1 hp.2.1 w.e hp.2.2.1 hp.2.2.2
  obtain ⟨helt, hve⟩ := vert_in_edge_of_disk hm w.v w.e hp.1 hp.2.2.1
  obtain ⟨-, hv1e⟩ := vert_in_edge_of_disk hm v1 w.e hv1lt hv1d
  refine ⟨v1, hv1, ?_⟩
  -- the loops used for the sides of the record of the vertex of the walk
  have hside : ∀ (l lp : Option Nat),
      (∀ l0, l = some l0 → l0 < bm.totloop ∧ (bm.loop l0).e = w.e) →
      (∀ l0, lp = some l0 → l0 < bm.totloop ∧ BM_vert_in_edge bm (bm.loop l0).e w.v = true) →
      ∀ l0, (if l.isSome then l else lp) = some l0 →
        l0 < bm.totloop ∧ BM_vert_in_edge bm (bm.loop l0).e w.v = true := by
    intro l lp hl hlp l0 hl0
    cases l with
    | none => exact hlp l0 (by simpa using hl0)
    | some l1 =>
      simp only [Option.isSome_some, if_true, Option.some.injEq] at hl0
      subst hl0
      obtain ⟨a, b⟩ := hl l1 rfl
      exact ⟨a, by rw [b]; exact hve⟩
  have hon1 : ∀ (l : Option Nat),
      (∀ l0, l = some l0 → l0 < bm.totloop ∧ (bm.loop l0).e = w.e) →
      ∀ l0, l = some l0 → l0 < bm.totloop ∧ BM_vert_in_edge bm (bm.loop l0).e v1 = true := by
    intro l hl l0 hl0
    obtain ⟨a, b⟩ := hl l0 hl0
    exact ⟨a, by rw [b]; exact hv1e⟩
  obtain ⟨st1, idx, hi, hi0, hi1, hit⟩ := double_side_init_sv_some w.st w.v n hw.rec_ok
    (hok.table w.v hp.1 hp.2.1)
  obtain ⟨st2, h2, hlen2⟩ := double_side_set_side_some hf st1 idx 0 w.v w.l_a w.l_a_prev w.vec_a
    hi0 hi1 (hside w.l_a w.l_a_prev hok.la hok.lap)
  obtain ⟨st3, h3, hlen3⟩ := double_side_set_side_some hf st2 idx 1 w.v w.l_b w.l_b_prev w.vec_b
    hi0 (by rw [hlen2]; exact hi1) (hside w.l_b w.l_b_prev hok.lb hok.lbp)
  have sp2 := double_side_set_side_spec _ _ _ _ _ _ _ _ _ h2
  have sp3 := double_side_set_side_spec _ _ _ _ _ _ _ _ _ h3
  obtain ⟨hw3, hrec⟩ := hw.record hp st1 st2 st3 n idx hi sp2 sp3
  have htab3 : ∀ x, x < bm.totvert → (bm.vert x).select = true →
      st3.sv_table x = INDEX_UNSET ∨ 0 ≤ st3.sv_table x := by
    intro x hx hs
    rw [sp3.2.2.1, sp2.2.2.1]
    exact hit x (hok.table x hx hs)
  unfold double_side_walk_step
  simp only [hw.bm_eq, hi, h2, h3, hv1]
  cases hg : get_other_edge bm v1 w.e with
  | none =>
    simp only
    obtain ⟨st4, idx4, h4, h40, h41, h4t⟩ := double_side_init_sv_some st3 v1 n hw3.rec_ok
      (htab3 v1 hv1lt hv1sel)
    obtain ⟨st5, h5, hlen5⟩ := double_side_end_side_some hf sqrtf fuel_l st4 idx4 0 v1 w.l_a w.e
      h40 h41 (hon1 w.l_a hok.la) hfl
    obtain ⟨st6, h6, hlen6⟩ := double_side_end_side_some hf sqrtf fuel_l st5 idx4 1 v1 w.l_b w.e
      h40 (by rw [hlen5]; exact h41) (hon1 w.l_b hok.lb) hfl
    have sp5 := double_side_end_side_spec _ _ _ _ _ _ _ _ _ _ h5
    have sp6 := double_side_end_side_spec _ _ _ _ _ _ _ _ _ _ h6
    simp only [h4, h5, h6]
    left
    refine ⟨_, rfl, Or.inl trivial, ?_⟩
    intro x hx hs
    simp only
    rw [sp6.2.2.1, sp5.2.2.1]
    exact h4t x (htab3 x hx hs)
  | some e1 =>
    simp only
    obtain ⟨ed, es, ene⟩ := get_other_edge_spec bm v1 w.e e1 hg
    obtain ⟨he1lt, hv1e1⟩ := vert_in_edge_of_disk hm v1 e1 hv1lt ed
    obtain ⟨⟨la, va⟩, hna⟩ := double_side_next_side_some hf sqrtf fuel_l v1 w.l_a w.e e1
      (hon1 w.l_a hok.la) hfl
    obtain ⟨⟨lb, vb⟩, hnb⟩ := double_side_next_side_some hf sqrtf fuel_l v1 w.l_b w.e e1
      (hon1 w.l_b hok.lb) hfl
    have hga := next_side_good hlo sqrtf fuel_l v1 w.l_a w.e e1 (la, va) hok.la hna
    have hgb := next_side_good hlo sqrtf fuel_l v1 w.l_b w.e e1 (lb, vb) hok.lb hnb
    obtain ⟨⟨la1, lb1, va1, vb1⟩, hrc⟩ := double_side_recover_total hf hlo sqrtf fuel_l v1 e1 w.e
      w.l_a.isSome w.l_b.isSome la lb va vb he1lt hv1e1 hga hgb hfl
    have hl1 := double_side_recover_some sqrtf bm fuel_l v1 e1 w.e _ _ la lb va vb
      _ hrc hok.some_l (h.edge_l v1 hv1lt hv1sel e1 ed es)
    obtain ⟨q1, q2, -⟩ := double_side_recover_good hlo sqrtf fuel_l v1 e1 w.e _ _
      la lb va vb _ hrc hok.some_l he1lt (hmb e1 he1lt es) hga hgb
    simp only [hna, hnb, hrc]
    by_cases he : e1 = s0.2
    · left
      have hc : ¬ (some e1 ≠ some s0.2 ∧ (la1.isSome = true ∨ lb1.isSome = true)) := by
        intro hc
        exact hc.1 (by rw [he])
      rw [if_neg hc]
      refine ⟨_, rfl, Or.inr (by rw [he]), ?_⟩
      intro x hx hs
      exact htab3 x hx hs
    · right
      have hc : some e1 ≠ some s0.2 ∧ (la1.isSome = true ∨ lb1.isSome = true) :=
        ⟨fun hh => he (Option.some.inj hh), hl1⟩
      rw [if_pos hc]
      refine ⟨_, rfl, rfl, rfl, he, WalkInv.next h hs0 hw3 hrec v1 e1 hv1 hg he, ?_⟩
      exact ⟨q1, q2, hl1, hon1 w.l_a hok.la, hon1 w.l_b hok.lb, htab3⟩
/-- The orbit of a point under a one-to-one step that keeps a property which
only elements of a finite list have. -/
theorem opt_iter_orbit_pred {α : Type} [DecidableEq α] (f : α → Option α) (S : α → Prop)
    (L : List α) (hL : ∀ x, S x → x ∈ L)
    (hf : ∀ x, S x → ∀ y, f x = some y → S y)
    (hinj : ∀ x, S x → ∀ y, S y → ∀ z, f x = some z → f y = some z → x = y)
    (x : α) (hx : S x) :
    ∃ p, 1 ≤ p ∧ p ≤ L.length ∧ (opt_iter f p x = none ∨ opt_iter f p x = some x) ∧
      (∀ q, 1 ≤ q → q < p → opt_iter f q x ≠ none ∧ opt_iter f q x ≠ some x) ∧
      ∀ i j, i < j → j < p → ∀ y, opt_iter f i x = some y → opt_iter f j x ≠ some y := by
  classical
  have hmem : ∀ y, y ∈ L.filter (fun a => decide (S a)) ↔ y ∈ L ∧ S y := by
    intro y
    simp [List.mem_filter]
  obtain ⟨p, hp1, hpN, hrest⟩ := opt_iter_orbit f (L.filter (fun a => decide (S a)))
    (fun a ha y hy => (hmem y).2 ⟨hL y (hf a ((hmem a).1 ha).2 y hy), hf a ((hmem a).1 ha).2 y hy⟩)
    (fun a ha b hb z hza hzb => hinj a ((hmem a).1 ha).2 b ((hmem b).1 hb).2 z hza hzb)
    x ((hmem x).2 ⟨hL x hx, hx⟩)
  exact ⟨p, hp1, le_trans hpN (List.length_filter_le _ _), hrest⟩

theorem chain_iter_eq_opt_iter (bm : BMesh) (k : Nat) (s : Nat × Nat) :
    chain_iter bm k s = opt_iter (chain_step bm) k s := by
  induction k with
  | zero => rfl
  | succ k ih =>
    show (chain_iter bm k s).bind (chain_step bm) = (opt_iter (chain_step bm) k s).bind _
    rw [ih]

theorem chain_step_inj {bm : BMesh} (h : ChainOK bm) (s s1 t : Nat × Nat) (hs : ChainPos bm s)
    (hs1 : ChainPos bm s1) (hst : chain_step bm s = some t) (hs1t : chain_step bm s1 = some t) :
    s = s1 := by
  obtain ⟨ht, a1, a2, a3, a4, a5, a6⟩ := h.step s t hs hst
  obtain ⟨-, b1, b2, b3, b4, b5, b6⟩ := h.step s1 t hs1 hs1t
  have he : s1.2 = s.2 := by
    rcases h.two t.1 ht.1 ht.2.1 t.2 s.2 s1.2 ht.2.2.1 a3 b3 ht.2.2.2 hs.2.2.2 hs1.2.2.2 a5
      with r | r
    · exact absurd r.symm b5
    · exact r
  have hv : s1.1 = s.1 := by
    rw [he] at b4
    rw [a4] at b4
    exact (Option.some.inj b4).symm
  exact Prod.ext hv.symm he.symm

/-- The chain of selected edges from a position: within as many steps as there
are pairs of a vertex and an edge of the mesh the chain ends or is back at the
position, and no position is met twice before. -/
theorem chain_orbit {bm : BMesh} (h : ChainOK bm) (hm : MeshOK bm) (s0 : Nat × Nat)
    (hs0 : ChainPos bm s0) :
    ∃ p, 1 ≤ p ∧ p ≤ bm.totvert * bm.totedge ∧
      (chain_iter bm p s0 = none ∨ chain_iter bm p s0 = some s0) ∧
      ∀ i j, i < j → j < p → ∀ y, chain_iter bm i s0 = some y → chain_iter bm j s0 ≠ some y := by
  obtain ⟨p, hp1, hpN, hret, -, hdist⟩ := opt_iter_orbit_pred (chain_step bm) (ChainPos bm)
    ((List.range bm.totvert) ×ˢ (List.range bm.totedge))
    (fun x hx => by
      obtain ⟨a, b⟩ := x
      rw [List.mem_product, List.mem_range, List.mem_range]
      exact ⟨hx.1, (hm a hx.1 b hx.2.2.1).1⟩)
    (fun x hx y hy => (h.step x y hx hy).1)
    (fun x hx y hy z hxz hyz => chain_step_inj h x y z hx hy hxz hyz)
    s0 hs0
  rw [List.length_product, List.length_range, List.length_range] at hpN
  simp only [← chain_iter_eq_opt_iter] at hret hdist
  exact ⟨p, hp1, hpN, hret, hdist⟩

/-- Two positions of a chain, before it is back at its start, are not on the
same edge. -/
theorem chain_edges_ne {bm : BMesh} (h : ChainOK bm) (hm : MeshOK bm) (s0 : Nat × Nat)
    (hs0 : ChainPos bm s0) (p : Nat)
    (hdist : ∀ i j, i < j → j < p → ∀ y, chain_iter bm i s0 = some y →
      chain_iter bm j s0 ≠ some y)
    (i j : Nat) (hij : i < j) (hjp : j < p) (si sj : Nat × Nat)
    (hi : chain_iter bm i s0 = some si) (hj : chain_iter bm j s0 = some sj) :
    si.2 ≠ sj.2 := by
  intro he
  have hpi := h.iter i s0 si hs0 hi
  have hpj := h.iter j s0 sj hs0 hj
  by_cases hv : si.1 = sj.1
  · exact hdist i j hij hjp si hi (by rw [hj, Prod.ext hv he])
  · obtain ⟨w, hw, -, -, -, -, -⟩ := h.ends si.1 hpi.1 hpi.2.1 si.2 hpi.2.2.1 hpi.2.2.2
    have hin := (hm sj.1 hpj.1 sj.2 hpj.2.2.1).2.1
    have hin0 := (hm si.1 hpi.1 si.2 hpi.2.2.1).2.1
    rw [← he] at hin
    have hwj : w = sj.1 := by
      unfold BM_edge_other_vert at hw
      by_cases c1 : (bm.edge si.2).v1 = si.1
      · rw [if_pos c1] at hw
        rcases hin with c | c
        · exact absurd (c1.symm.trans c) hv
        · exact (Option.some.inj hw).symm.trans c
      · rw [if_neg c1] at hw
        rcases hin0 with c | c
        · exact absurd c c1
        · rw [if_pos c] at hw
          rcases hin with d | d
          · exact (Option.some.inj hw).symm.trans d
          · exact absurd (c.symm.trans d) hv
    obtain ⟨n, rfl⟩ : ∃ n, j = i + 1 + n := ⟨j - i - 1, by omega⟩
    exact h.no_reflection s0 hs0 n i si sj hi hj (by rw [hw, hwj]) he.symm
/-- The forward walk ends in a consistent mesh: it returns, every run of its
body starts with a side loop that is not null at a position of the chain that
it has not been at before, and no edge is walked over twice. -/
theorem walk_total {bm : BMesh} (h : ChainOK bm) (hm : MeshOK bm) (hf : FanOK bm)
    (hlo : LoopOK bm)
    (hmb : ∀ e, e < bm.totedge → (bm.edge e).select = true →
      BM_edge_is_manifold bm e = true ∨ BM_edge_is_boundary bm e = true)
    (sqrtf : ℚ → ℚ) (fuel_l : Nat) (hfl : bm.totloop ≤ fuel_l) (n : Int) (s0 : Nat × Nat)
    (hs0 : ChainPos bm s0) (p : Nat)
    (hret : chain_iter bm p s0 = none ∨ chain_iter bm p s0 = some s0)
    (hdist : ∀ i j, i < j → j < p → ∀ y, chain_iter bm i s0 = some y →
      chain_iter bm j s0 ≠ some y) :
    ∀ (fuel k : Nat) (w : DoubleSideWalk), WalkInv bm s0 k w.st w.v w.e → WalkOK bm w →
      k < p → p ≤ k + fuel →
      ∃ r, double_side_walk sqrtf fuel_l n (some s0.2) fuel w = some r ∧
        (∀ x, x < bm.totvert → (bm.vert x).select = true →
          r.sv_table x = INDEX_UNSET ∨ 0 ≤ r.sv_table x) ∧
        (∀ w1 ∈ double_side_walk_steps sqrtf fuel_l n (some s0.2) fuel w,
          (w1.l_a.isSome = true ∨ w1.l_b.isSome = true) ∧
          ∃ j, k ≤ j ∧ j < p ∧ chain_iter bm j s0 = some (w1.v, w1.e)) ∧
        ((double_side_walk_steps sqrtf fuel_l n (some s0.2) fuel w).map (fun w1 => w1.e)).Nodup := by
  intro fuel
  induction fuel with
  | zero => intro k w _ _ hk hp; omega
  | succ f ih =>
    intro k w hw hok hk hp
    have hself : (w.l_a.isSome = true ∨ w.l_b.isSome = true) ∧
        ∃ j, k ≤ j ∧ j < p ∧ chain_iter bm j s0 = some (w.v, w.e) :=
      ⟨hok.some_l, k, le_refl k, hk, hw.pos⟩
    obtain ⟨v1, hv1, hcase⟩ := walk_step_total h hm hf hlo hmb sqrtf fuel_l hfl n s0 hs0 k w hw hok
    rw [double_side_walk_eq_step, double_side_walk_steps]
    rcases hcase with ⟨st, hst, -, htab⟩ | ⟨w1, hst, hw1v, hw1e, hne, hw1, hok1⟩
    · simp only [hst]
      refine ⟨st, rfl, htab, ?_, by simp⟩
      intro w1 hw1
      rw [List.mem_singleton] at hw1
      subst hw1
      exact hself
    · simp only [hst]
      have hk1 : k + 1 < p := by
        by_contra hge
        have hkp : k + 1 = p := by omega
        rw [← hkp, hw1.pos] at hret
        rcases hret with hr | hr
        · cases hr
        · exact hne (congrArg Prod.snd (Option.some.inj hr))
      obtain ⟨r, hr, hr1, hr2, hr3⟩ := ih (k + 1) w1 hw1 hok1 hk1 (by omega)
      refine ⟨r, hr, hr1, ?_, ?_⟩
      · intro w2 hw2
        rcases List.mem_cons.1 hw2 with hw2 | hw2
        · subst hw2; exact hself
        · obtain ⟨a, j, hj1, hj2, hj3⟩ := hr2 w2 hw2
          exact ⟨a, j, by omega, hj2, hj3⟩
      · rw [List.map_cons]
        refine List.nodup_cons.2 ⟨?_, hr3⟩
        intro hmem
        obtain ⟨w2, hw2, he2⟩ := List.mem_map.1 hmem
        obtain ⟨-, j, hj1, hj2, hj3⟩ := hr2 w2 hw2
        exact chain_edges_ne h hm s0 hs0 p hdist k j (by omega) hj2 (w.v, w.e) (w2.v, w2.e)
          hw.pos hj3 he2.symm
/-- A chain that comes back to its start `(u, g)` arrives there over the other
selected edge `f` of `u`. -/
theorem chain_return_edge {bm : BMesh} (h : ChainOK bm) (u f g : Nat)
    (hs0 : ChainPos bm (u, g)) (hfd : f ∈ (bm.vert u).disk) (hfs : (bm.edge f).select = true)
    (hfg : f ≠ g) (q : Nat) (hq : chain_iter bm (q + 1) (u, g) = some (u, g)) :
    ∃ t, chain_iter bm q (u, g) = some t ∧ t.2 = f := by
  change (chain_iter bm q (u, g)).bind (chain_step bm) = some (u, g) at hq
  cases ht : chain_iter bm q (u, g) with
  | none => rw [ht] at hq; cases hq
  | some t =>
    rw [ht] at hq
    simp only [Option.some_bind] at hq
    have hpt := h.iter q (u, g) t hs0 ht
    obtain ⟨-, -, -, a3, -, a5, -⟩ := h.step t (u, g) hpt hq
    refine ⟨t, rfl, ?_⟩
    rcases h.two u hs0.1 hs0.2.1 f g t.2 hfd hs0.2.2.1 a3 hfs hs0.2.2.2 hpt.2.2.2 hfg with r | r
    · exact r
    · exact absurd r.symm a5

/-- The rewind, after its first step, ends: it returns, and no edge is stepped
over twice. -/
theorem rewind_total_aux {bm : BMesh} (h : ChainOK bm) (hm : MeshOK bm) (tag : Nat → Bool)
    (hT0 : ∀ x, tag x = true → x < bm.totvert ∧ (bm.vert x).select = true)
    (hI4 : ∀ x, x < bm.totvert → (bm.vert x).select = true → ∀ e ∈ (bm.vert x).disk,
      (bm.edge e).select = true → ∀ y, BM_edge_other_vert bm e x = some y → tag y = tag x)
    (u f g : Nat) (hu : tag u = true) (hf : (bm.vert u).e = some f)
    (hg : get_other_edge bm u f = some g) (p : Nat) (hp1 : 1 ≤ p)
    (hret : chain_iter bm p (u, g) = none ∨ chain_iter bm p (u, g) = some (u, g))
    (hdist : ∀ i j, i < j → j < p → ∀ y, chain_iter bm i (u, g) = some y →
      chain_iter bm j (u, g) ≠ some y) :
    ∀ (fuel k : Nat) (t : Nat × Nat) (v : Nat),
      chain_iter bm k (u, g) = some t → BM_edge_other_vert bm t.2 t.1 = some v →
      tag v = true → (∀ j tj, j ≤ k → chain_iter bm j (u, g) = some tj → tj.2 ≠ f) →
      p ≤ k + fuel →
      ∃ r, double_side_rewind bm tag f fuel v t.2 = some r ∧
        (∀ e ∈ double_side_rewind_edges bm tag f fuel v t.2,
          ∃ j tj, k < j ∧ j < p ∧ chain_iter bm j (u, g) = some tj ∧ tj.2 = e) ∧
        (double_side_rewind_edges bm tag f fuel v t.2).Nodup := by
  obtain ⟨hulp, husel⟩ := hT0 u hu
  obtain ⟨f', hf', hfd, hfs⟩ := h.vert_e u hulp husel
  rw [hf] at hf'
  have hff : f = f' := Option.some.inj hf'
  subst hff
  obtain ⟨hgd, hgs, hgf⟩ := get_other_edge_spec bm u f g hg
  have hs0 : ChainPos bm (u, g) := ⟨hulp, husel, hgd, hgs⟩
  -- a position whose edges so far are not `f` is before the end of the orbit
  have hlt : ∀ k t, chain_iter bm k (u, g) = some t →
      (∀ j tj, j ≤ k → chain_iter bm j (u, g) = some tj → tj.2 ≠ f) → k + 1 < p ∨
        (k + 1 = p ∧ chain_iter bm p (u, g) = none) := by
    intro k t hk hnf
    rcases hret with hr | hr
    · by_cases hkp : k + 1 < p
      · exact Or.inl hkp
      · by_cases hkp2 : k + 1 = p
        · exact Or.inr ⟨hkp2, hr⟩
        · exfalso
          have := chain_iter_prefix bm (u, g) k p (by omega) (by rw [hk]; rfl)
          rw [hr] at this
          cases this
    · left
      obtain ⟨q, rfl⟩ : ∃ q, p = q + 1 := ⟨p - 1, by omega⟩
      obtain ⟨tq, htq, htqf⟩ := chain_return_edge h u f g hs0 hfd hfs (Ne.symm hgf) q hr
      by_contra hge
      exact hnf q tq (by omega) htq htqf
  intro fuel
  induction fuel with
  | zero =>
    intro k t v hk _ _ hnf hp
    rcases hlt k t hk hnf with c | c <;> omega
  | succ fuel ih =>
    intro k t v hk hv htag hnf hp
    have hpt := h.iter k (u, g) t hs0 hk
    obtain ⟨hvlt, hvsel⟩ := hT0 v htag
    rw [double_side_rewind, double_side_rewind_edges]
    cases hgo : get_other_edge bm v t.2 with
    | none =>
      simp only
      obtain ⟨e0, he0, -, -⟩ := h.vert_e v hvlt hvsel
      rw [he0]
      exact ⟨_, rfl, by simp, by simp⟩
    | some e1 =>
      simp only
      obtain ⟨e1d, e1s, e1ne⟩ := get_other_edge_spec bm v t.2 e1 hgo
      obtain ⟨v', hv', hv'ne, hv'lt, hv'sel, e1d', hback'⟩ := h.ends v hvlt hvsel e1 e1d e1s
      have htag' : tag v' = true := by
        rw [hI4 v hvlt hvsel e1 e1d e1s v' hv', htag]
      have hstep : chain_step bm t = some (v, e1) := by
        simp only [chain_step, hv, hgo]
      have hk1 : chain_iter bm (k + 1) (u, g) = some (v, e1) := by
        simp only [chain_iter, hk, Option.some_bind, hstep]
      have hk1p : k + 1 < p := by
        rcases hlt k t hk hnf with c | c
        · exact c
        · rw [← c.1, hk1] at c
          cases c.2
      rw [hv']
      simp only [htag', Bool.not_true, Bool.false_eq_true, if_false]
      have hself : ∃ j tj, k < j ∧ j < p ∧ chain_iter bm j (u, g) = some tj ∧ tj.2 = e1 :=
        ⟨k + 1, (v, e1), by omega, hk1p, hk1, rfl⟩
      by_cases hef : e1 = f
      · simp only [hef, ne_eq, not_true_eq_false, if_false]
        refine ⟨_, rfl, ?_, List.nodup_singleton _⟩
        intro e he
        rw [List.mem_singleton] at he
        subst he
        rw [← hef]
        exact hself
      · simp only [ne_eq, hef, not_false_eq_true, if_true]
        obtain ⟨r, hr, hr1, hr2⟩ := ih (k + 1) (v, e1) v' hk1 hv' htag' (by
          intro j tj hj htj
          by_cases hjk : j = k + 1
          · subst hjk
            rw [hk1] at htj
            rw [← Option.some.inj htj]
            exact hef
          · exact hnf j tj (by omega) htj) (by omega)
        refine ⟨r, hr, ?_, ?_⟩
        · intro e he
          rcases List.mem_cons.1 he with he | he
          · subst he; exact hself
          · obtain ⟨j, tj, hj1, hj2, hj3, hj4⟩ := hr1 e he
            exact ⟨j, tj, by omega, hj2, hj3, hj4⟩
        · refine List.nodup_cons.2 ⟨?_, hr2⟩
          intro hmem
          obtain ⟨j, tj, hj1, hj2, hj3, hj4⟩ := hr1 e1 hmem
          exact chain_edges_ne h hm (u, g) hs0 p hdist (k + 1) j hj1 hj2 (v, e1) tj hk1 hj3
            hj4.symm
/-- The rewind from the tagged vertex `u` found by the search ends, when tagged
and untagged vertices are never joined by a selected edge: it returns, and it
steps over selected edges only and over none of them twice. -/
theorem rewind_total {bm : BMesh} (h : ChainOK bm) (hm : MeshOK bm) (tag : Nat → Bool)
    (hT0 : ∀ x, tag x = true → x < bm.totvert ∧ (bm.vert x).select = true)
    (hI4 : ∀ x, x < bm.totvert → (bm.vert x).select = true → ∀ e ∈ (bm.vert x).disk,
      (bm.edge e).select = true → ∀ y, BM_edge_other_vert bm e x = some y → tag y = tag x)
    (u f : Nat) (hu : tag u = true) (hf : (bm.vert u).e = some f) (fuel : Nat)
    (hfuel : bm.totvert * bm.totedge < fuel) :
    ∃ r, double_side_rewind bm tag f fuel u f = some r ∧
      (double_side_rewind_edges bm tag f fuel u f).Nodup ∧
      ∀ e ∈ double_side_rewind_edges bm tag f fuel u f,
        e < bm.totedge ∧ (bm.edge e).select = true := by
  obtain ⟨hulp, husel⟩ := hT0 u hu
  obtain ⟨fuel, rfl⟩ : ∃ f1, fuel = f1 + 1 := ⟨fuel - 1, by omega⟩
  rw [double_side_rewind, double_side_rewind_edges]
  cases hgo : get_other_edge bm u f with
  | none =>
    simp only [hf]
    exact ⟨_, rfl, by simp, by simp⟩
  | some g =>
    simp only
    obtain ⟨gd, gs, gne⟩ := get_other_edge_spec bm u f g hgo
    obtain ⟨v', hv', -, -, -, -, -⟩ := h.ends u hulp husel g gd gs
    have htag' : tag v' = true := by
      rw [hI4 u hulp husel g gd gs v' hv', hu]
    have hs0 : ChainPos bm (u, g) := ⟨hulp, husel, gd, gs⟩
    obtain ⟨p, hp1, hpN, hret, hdist⟩ := chain_orbit h hm (u, g) hs0
    rw [hv']
    simp only [htag', Bool.not_true, Bool.false_eq_true, if_false, ne_eq, gne,
      not_false_eq_true, if_true]
    obtain ⟨r, hr, hr1, hr2⟩ := rewind_total_aux h hm tag hT0 hI4 u f g hu hf hgo p hp1 hret hdist
      fuel 0 (u, g) v' rfl hv' htag' (by
        intro j tj hj htj
        have : j = 0 := by omega
        subst this
        simp only [chain_iter, Option.some.injEq] at htj
        rw [← htj]
        exact gne) (by omega)
    refine ⟨r, hr, ?_, ?_⟩
    · refine List.nodup_cons.2 ⟨?_, hr2⟩
      intro hmem
      obtain ⟨j, tj, hj1, hj2, hj3, hj4⟩ := hr1 g hmem
      exact chain_edges_ne h hm (u, g) hs0 p hdist 0 j hj1 hj2 (u, g) tj rfl hj3 hj4.symm
    · intro e he
      rcases List.mem_cons.1 he with he | he
      · subst he
        exact ⟨(hm u hulp e gd).1, gs⟩
      · obtain ⟨j, tj, -, -, hj3, hj4⟩ := hr1 e he
        have hpt := h.iter j (u, g) tj hs0 hj3
        rw [← hj4]
        exact ⟨(hm tj.1 hpt.1 tj.2 hpt.2.2.1).1, hpt.2.2.2⟩
/-- What holds at the head of the forward walk when it is entered first, at the
position `(v, e)` where the rewind has ended. -/
theorem walk_inv_start {bm : BMesh} {st : DoubleSideState} (hinv : PassInv bm st) (v e : Nat) :
    WalkInv bm (v, e) 0 { st with tag := Function.update st.tag v false } v e := by
  refine ⟨rfl, ?_, hinv.bm_eq, hinv.rec_ok.congr rfl rfl, hinv.rec_sel, ?_, ?_, ?_, ?_,
    ?_, ?_⟩
  · intro j t h1 h0; omega
  · intro x hx
    by_cases hxv : x = v
    · subst hxv; simp at hx
    · simp only [Function.update_noteq hxv] at hx
      exact hinv.tag_ok x hx
  · intro x hx hs hxv
    simp only [Function.update_noteq hxv]
    exact hinv.done x hx hs
  · simp
  · simp
  · intro h1; omega
  · intro x hx hs ht e1 he1 hs1 y hy hty
    by_cases hxv : x = v
    · by_cases hee : e1 = e
      · exact Or.inl ⟨hxv, hee⟩
      · exact Or.inr ⟨hxv, hee⟩
    · exfalso
      simp only [Function.update_noteq hxv] at ht
      have hyv : y ≠ v := by
        intro hyv
        subst hyv
        simp at hty
      simp only [Function.update_noteq hyv] at hty
      have := hinv.closed x hx hs ht e1 he1 hs1 y hy
      rw [hty] at this
      cases this

/-- One pass of the outer loop ends in a consistent mesh: the rewind steps over
no selected edge twice; the pass returns; it clears the tag of the selected
vertex at which the forward walk starts and sets no tag; and every run of the
body of the forward walk starts with a side loop that is not null, over a
selected edge that no other run walks over. -/
theorem pass_total {bm : BMesh} (h : ChainOK bm) (hm : MeshOK bm) (hf : FanOK bm)
    (hlo : LoopOK bm)
    (hmb : ∀ e, e < bm.totedge → (bm.edge e).select = true →
      BM_edge_is_manifold bm e = true ∨ BM_edge_is_boundary bm e = true)
    (sqrtf : ℚ → ℚ) (fuel : Nat) (hfuel : bm.totvert * bm.totedge + bm.totloop < fuel)
    (st : DoubleSideState) (n : Int) (u f : Nat) (hinv : PassInv bm st)
    (htab : ∀ x, x < bm.totvert → (bm.vert x).select = true →
      st.sv_table x = INDEX_UNSET ∨ 0 ≤ st.sv_table x)
    (hu : st.tag u = true) (hfe : (bm.vert u).e = some f) :
    (double_side_rewind_edges bm st.tag f fuel u f).Nodup ∧
    (∀ e ∈ double_side_rewind_edges bm st.tag f fuel u f,
      e < bm.totedge ∧ (bm.edge e).select = true) ∧
    ∃ w0 r, double_side_pass_start sqrtf fuel st u f = some w0 ∧
      double_side_pass sqrtf fuel st n u f = some r ∧
      w0.v < bm.totvert ∧ (bm.vert w0.v).select = true ∧
      st.tag w0.v = true ∧ r.tag w0.v = false ∧
      (∀ y, r.tag y = true → st.tag y = true) ∧
      (∀ x, x < bm.totvert → (bm.vert x).select = true →
        r.sv_table x = INDEX_UNSET ∨ 0 ≤ r.sv_table x) ∧
      (∀ w1 ∈ double_side_walk_steps sqrtf fuel n (bm.vert w0.v).e fuel w0,
        (w1.l_a.isSome = true ∨ w1.l_b.isSome = true) ∧
        w1.e < bm.totedge ∧ (bm.edge w1.e).select = true) ∧
      ((double_side_walk_steps sqrtf fuel n (bm.vert w0.v).e fuel w0).map
        (fun w1 => w1.e)).Nodup := by
  have hI4 : ∀ x, x < bm.totvert → (bm.vert x).select = true → ∀ e ∈ (bm.vert x).disk,
      (bm.edge e).select = true → ∀ y, BM_edge_other_vert bm e x = some y →
      st.tag y = st.tag x :=
    fun x hx hs e he hes y hy => hinv.tag_eq h x hx hs e he hes y hy
  obtain ⟨r0, hrw, hre1, hre2⟩ := rewind_total h hm st.tag hinv.tag_ok hI4 u f hu hfe fuel
    (by omega)
  refine ⟨hre1, hre2, ?_⟩
  obtain ⟨v, e⟩ := r0
  obtain ⟨htv, hve, hstart⟩ := rewind_spec h st.tag hinv.tag_ok hI4 u f hu hfe fuel (v, e) hrw
  obtain ⟨hvlt, hvsel⟩ := hinv.tag_ok v htv
  obtain ⟨e0, he0, he0d, he0s⟩ := h.vert_e v hvlt hvsel
  simp only at hve htv
  rw [hve] at he0
  have : e = e0 := Option.some.inj he0
  subst this
  have hs0 : ChainPos bm (v, e) := ⟨hvlt, hvsel, he0d, he0s⟩
  obtain ⟨helt, hvin⟩ := vert_in_edge_of_disk hm v e hvlt he0d
  obtain ⟨l_a, hla⟩ := Option.isSome_iff_exists.mp (h.edge_l v hvlt hvsel e he0d he0s)
  obtain ⟨hla1, hla2, -⟩ := hlo.2 e helt l_a hla
  have hrn1 := hf.radial_lt l_a hla1
  have hrn2 := (hf.radial_e l_a hla1).trans hla2
  obtain ⟨vec_a, hva⟩ := double_side_start_rail_some hf sqrtf fuel v l_a e hla1
    (by rw [hla2]; exact hvin) (by omega)
  obtain ⟨vec_b, hvb⟩ : ∃ vec_b, (if (bm.loop l_a).radial_next ≠ l_a then
      double_side_start_rail sqrtf bm fuel v (bm.loop l_a).radial_next e
      else some zero_v3) = some vec_b := by
    by_cases hc : (bm.loop l_a).radial_next ≠ l_a
    · rw [if_pos hc]
      exact double_side_start_rail_some hf sqrtf fuel v _ e hrn1
        (by rw [hrn2]; exact hvin) (by omega)
    · rw [if_neg hc]
      exact ⟨_, rfl⟩
  have hstart_eq : double_side_pass_start sqrtf fuel st u f = some
      { st := { st with tag := Function.update st.tag v false }, v := v, e := e,
        l_a := some l_a,
        l_b := if (bm.loop l_a).radial_next ≠ l_a then some (bm.loop l_a).radial_next else none,
        l_a_prev := none, l_b_prev := none, vec_a := vec_a, vec_b := vec_b } := by
    unfold double_side_pass_start
    simp only [hinv.bm_eq, hrw, hla, hva, hvb]
  have hw0 := walk_inv_start hinv v e
  have hok0 : WalkOK bm
      { st := { st with tag := Function.update st.tag v false }, v := v, e := e,
        l_a := some l_a,
        l_b := if (bm.loop l_a).radial_next ≠ l_a then some (bm.loop l_a).radial_next else none,
        l_a_prev := none, l_b_prev := none, vec_a := vec_a, vec_b := vec_b } := by
    refine ⟨?_, ?_, Or.inl rfl, ?_, ?_, htab⟩
    · intro l hl
      simp only [Option.some.injEq] at hl
      subst hl
      exact ⟨hla1, hla2⟩
    · intro l hl
      simp only at hl
      split_ifs at hl with hc
      simp only [Option.some.injEq] at hl
      subst hl
      exact ⟨hrn1, hrn2⟩
    · intro l hl; cases hl
    · intro l hl; cases hl
  obtain ⟨p, hp1, hpN, hret, hdist⟩ := chain_orbit h hm (v, e) hs0
  obtain ⟨r, hr, hrt, hrs, hrn⟩ := walk_total h hm hf hlo hmb sqrtf fuel (by omega) n (v, e) hs0
    p hret hdist fuel 0 _ hw0 hok0 (by omega) (by omega)
  have hpass : double_side_pass sqrtf fuel st n u f = some r := by
    have hve1 : (st.bm.vert v).e = some e := by rw [hinv.bm_eq]; exact hve
    rw [double_side_pass_eq_start, hstart_eq]
    simp only [Option.some_bind, hve1]
    exact hr
  have hframe : LoopFrame bm n v { st with tag := Function.update st.tag v false } r := by
    refine walk_frame h sqrtf fuel n (some e) v fuel _ r ?_ ?_ ?_ hr
    · exact hinv.bm_eq
    · exact hs0
    · exact Relation.ReflTransGen.refl
  refine ⟨_, r, hstart_eq, hpass, hvlt, hvsel, htv, ?_, ?_, hrt, ?_, ?_⟩
  · by_contra hc
    have := hframe.1 v (by simpa using hc)
    simp at this
  · intro y hy
    have := hframe.1 y hy
    simp only at this
    by_cases hyv : y = v
    · subst hyv; exact htv
    · rwa [Function.update_noteq hyv] at this
  · intro w1 hw1
    simp only [hve] at hw1
    obtain ⟨a, j, -, -, hj⟩ := hrs w1 hw1
    have hpt := h.iter j (v, e) (w1.v, w1.e) hs0 hj
    exact ⟨a, (hm w1.v hpt.1 w1.e hpt.2.2.1).1, hpt.2.2.2⟩
  · simp only [hve]
    exact hrn
theorem countP_lt_of_imp (p q : Nat → Bool) (hpq : ∀ x, q x = true → p x = true) (v : Nat)
    (hp : p v = true) (hq : q v = false) :
    ∀ l : List Nat, v ∈ l → (l.filter q).length < (l.filter p).length := by
  intro l
  induction l with
  | nil => intro hv; cases hv
  | cons a t ih =>
    intro hv
    have hle : (t.filter q).length ≤ (t.filter p).length := by
      rw [← List.countP_eq_length_filter, ← List.countP_eq_length_filter]
      exact List.countP_mono_left (fun x _ hx => hpq x hx)
    by_cases hav : a = v
    · subst hav
      simp only [List.filter_cons, hp, hq, if_true, Bool.false_eq_true, if_false,
        List.length_cons]
      omega
    · have hvt : v ∈ t := by
        rcases List.mem_cons.1 hv with c | c
        · exact absurd c.symm hav
        · exact c
      have := ih hvt
      cases hqa : q a with
      | false =>
        cases hpa : p a with
        | false =>
          simp only [List.filter_cons, hqa, hpa, Bool.false_eq_true, if_false]
          exact this
        | true =>
          simp only [List.filter_cons, hqa, hpa, Bool.false_eq_true, if_false, if_true,
            List.length_cons]
          omega
      | true =>
        have hpa := hpq a hqa
        simp only [List.filter_cons, hqa, hpa, if_true, List.length_cons]
        omega

/-- The outer loop ends in a consistent mesh: it returns after as many passes as
it has counted in `loop_nr`, which are at most as many as there are tagged
vertices; every pass is for a tagged vertex with `v->e` set, so the `continue`
of line 637 is not taken; and every pass ends. -/
theorem loop_total {bm : BMesh} (h : ChainOK bm) (hm : MeshOK bm) (hf : FanOK bm)
    (hlo : LoopOK bm)
    (hmb : ∀ e, e < bm.totedge → (bm.edge e).select = true →
      BM_edge_is_manifold bm e = true ∨ BM_edge_is_boundary bm e = true)
    (sqrtf : ℚ → ℚ) (fuel_l : Nat) (hfl : bm.totvert * bm.totedge + bm.totloop < fuel_l) :
    ∀ (fuel : Nat) (st : DoubleSideState) (n : Int), PassInv bm st →
      (∀ x, x < bm.totvert → (bm.vert x).select = true →
        st.sv_table x = INDEX_UNSET ∨ 0 ≤ st.sv_table x) →
      ((List.range bm.totvert).filter (fun v => st.tag v)).length < fuel →
      ∃ r, double_side_loop sqrtf fuel_l fuel st n = some r ∧
        r.2 = n + ((double_side_loop_heads sqrtf fuel_l fuel st n).length : Int) ∧
        (double_side_loop_heads sqrtf fuel_l fuel st n).length ≤
          ((List.range bm.totvert).filter (fun v => st.tag v)).length ∧
        ∀ st1 ∈ double_side_loop_heads sqrtf fuel_l fuel st n, ∃ (n1 : Int) (u f : Nat),
          st1.bm = bm ∧
          (List.range bm.totvert).find? (fun v => st1.tag v) = some u ∧
          (bm.vert u).e = some f ∧
          (double_side_rewind_edges bm st1.tag f fuel_l u f).Nodup ∧
          (∀ e ∈ double_side_rewind_edges bm st1.tag f fuel_l u f,
            e < bm.totedge ∧ (bm.edge e).select = true) ∧
          ∃ w0 r1, double_side_pass_start sqrtf fuel_l st1 u f = some w0 ∧
            double_side_pass sqrtf fuel_l st1 n1 u f = some r1 ∧
            w0.v < bm.totvert ∧ (bm.vert w0.v).select = true ∧
            st1.tag w0.v = true ∧ r1.tag w0.v = false ∧
            (∀ y, r1.tag y = true → st1.tag y = true) ∧
            (∀ w1 ∈ double_side_walk_steps sqrtf fuel_l n1 (bm.vert w0.v).e fuel_l w0,
              (w1.l_a.isSome = true ∨ w1.l_b.isSome = true) ∧
              w1.e < bm.totedge ∧ (bm.edge w1.e).select = true) ∧
            ((double_side_walk_steps sqrtf fuel_l n1 (bm.vert w0.v).e fuel_l w0).map
              (fun w1 => w1.e)).Nodup := by
  intro fuel
  induction fuel with
  | zero => intro st n _ _ hc; omega
  | succ fuel ih =>
    intro st n hinv htab hc
    rw [double_side_loop, double_side_loop_heads]
    simp only [hinv.bm_eq]
    cases hfind : (List.range bm.totvert).find? (fun v => st.tag v) with
    | none =>
      exact ⟨_, rfl, by simp, by simp, by simp⟩
    | some u =>
      simp only
      obtain ⟨hu, hult, -⟩ := find?_range_least (fun v => st.tag v) bm.totvert u hfind
      have hu : st.tag u = true := hu
      obtain ⟨-, husel⟩ := hinv.tag_ok u hu
      obtain ⟨f, hfe, -, -⟩ := h.vert_e u hult husel
      obtain ⟨hre1, hre2, w0, r1, hps, hpass, hw0lt, hw0sel, hw0t, hr1t, hmono, htab1, hst1, hst2⟩ :=
        pass_total h hm hf hlo hmb sqrtf fuel_l hfl st n u f hinv htab hu hfe
      have hinv1 := pass_spec h sqrtf fuel_l st r1 n u f hinv hu hfe hpass
      have hlt := countP_lt_of_imp (fun v => st.tag v) (fun v => r1.tag v) hmono w0.v hw0t hr1t
        (List.range bm.totvert) (List.mem_range.2 hw0lt)
      obtain ⟨r, hr, hr1, hr2, hr3⟩ := ih r1 (n + 1) hinv1 htab1 (by omega)
      simp only [hfe, hpass]
      refine ⟨r, hr, ?_, ?_, ?_⟩
      · rw [hr1, List.length_cons]
        push_cast
        ring
      · rw [List.length_cons]
        omega
      · intro st1 hst1m
        rcases List.mem_cons.1 hst1m with c | c
        · subst c
          exact ⟨n, u, f, hinv.bm_eq, hfind, hfe, hre1, hre2, w0, r1, hps, hpass, hw0lt, hw0sel,
            hw0t, hr1t, hmono, hst1, hst2⟩
        · exact hr3 st1 c
theorem fan_ok_congr {bm bm1 : BMesh} (h : FanOK bm) (hs : same_but_vert_e bm bm1) :
    FanOK bm1 := by
  obtain ⟨-, -, h3, -, he, hl, hfc, -⟩ := hs
  constructor
  · intro l hl1; rw [hl, h3] at *; exact h.next_lt l hl1
  · intro l hl1; rw [hl, h3] at *; exact h.prev_lt l hl1
  · intro l hl1; rw [hl, h3] at *; exact h.radial_lt l hl1
  · intro l hl1; rw [hl]; rw [h3] at hl1; exact h.next_prev l hl1
  · intro l hl1; rw [hl]; rw [h3] at hl1; exact h.prev_next l hl1
  · intro l hl1; rw [hl]; rw [h3] at hl1; exact h.next_f l hl1
  · intro l hl1; rw [hl]; rw [h3] at hl1; exact h.radial_e l hl1
  · intro l hl1 l2 hl2; rw [hl]; rw [h3] at hl1 hl2; exact h.radial_inj l hl1 l2 hl2
  · intro l hl1; rw [hl, he]; rw [h3] at hl1; exact h.ends l hl1
  · intro l hl1; rw [hl]; rw [h3] at hl1; exact h.corner_ne l hl1
  · intro l hl1; rw [hl, hfc, h3]; rw [h3] at hl1; exact h.face_first l hl1

theorem first_state_tagged (bm : BMesh) :
    ((List.range bm.totvert).filter (fun v => (double_side_first_state bm).tag v)).length =
      double_side_count_sel bm := by
  unfold double_side_count_sel double_side_first_state
  congr 1
  apply List.filter_congr
  intro x hx
  simp [List.mem_range.1 hx]

/-- C33: `createEdgeSlideVerts_double_side` terminates on every mesh with
consistent tables (`MeshOK`, `FanOK`, `LoopOK`): with more fuel than
`totvert * totedge + totloop + totvert` it returns.  When the selection passes
the validation (`bm1` is the mesh after it), the outer loop returns after as
many passes as it has counted in `loop_nr`, which are at most as many as there
are selected vertices.  Every pass starts with a state `st1` for a tagged
vertex `u` whose `u->e` is set, so the `continue` of line 637 is not taken; the
rewind of the pass steps over selected edges only and over none of them twice;
the pass returns, clears the tag of the selected vertex `w0.v` at which its
forward walk starts, and sets no tag; and every run of the body of the forward
walk starts with `l_a` or `l_b` not null, over a selected edge that no other
run of that walk goes over. -/
theorem createEdgeSlideVerts_double_side_terminates (sqrtf : ℚ → ℚ) (view : ViewExtern)
    (fuel : Nat) (bm : BMesh) (hm : MeshOK bm) (hf : FanOK bm) (hlo : LoopOK bm)
    (hfuel : bm.totvert * bm.totedge + bm.totloop + bm.totvert < fuel) :
    (∃ r, createEdgeSlideVerts_double_side sqrtf view fuel bm = some r) ∧
    ∀ bm1, double_side_check_verts bm (List.range bm.totvert) = some bm1 →
      double_side_check_edges bm1 = true → double_side_count_sel bm1 ≠ 0 →
      ∃ st n, double_side_loop sqrtf fuel fuel (double_side_first_state bm1) 0 = some (st, n) ∧
        createEdgeSlideVerts_double_side_sv sqrtf fuel bm = some (some (st, n)) ∧
        n = ((double_side_loop_heads sqrtf fuel fuel (double_side_first_state bm1) 0).length :
          Int) ∧
        (double_side_loop_heads sqrtf fuel fuel (double_side_first_state bm1) 0).length ≤
          double_side_count_sel bm ∧
        ∀ st1 ∈ double_side_loop_heads sqrtf fuel fuel (double_side_first_state bm1) 0,
          ∃ (n1 : Int) (u f : Nat),
            st1.bm = bm1 ∧
            (List.range bm1.totvert).find? (fun v => st1.tag v) = some u ∧
            (bm1.vert u).e = some f ∧
            (double_side_rewind_edges bm1 st1.tag f fuel u f).Nodup ∧
            (∀ e ∈ double_side_rewind_edges bm1 st1.tag f fuel u f,
              e < bm1.totedge ∧ (bm1.edge e).select = true) ∧
            ∃ w0 r1, double_side_pass_start sqrtf fuel st1 u f = some w0 ∧
              double_side_pass sqrtf fuel st1 n1 u f = some r1 ∧
              w0.v < bm1.totvert ∧ (bm1.vert w0.v).select = true ∧
              st1.tag w0.v = true ∧ r1.tag w0.v = false ∧
              (∀ y, r1.tag y = true → st1.tag y = true) ∧
              (∀ w1 ∈ double_side_walk_steps sqrtf fuel n1 (bm1.vert w0.v).e fuel w0,
                (w1.l_a.isSome = true ∨ w1.l_b.isSome = true) ∧
                w1.e < bm1.totedge ∧ (bm1.edge w1.e).select = true) ∧
              ((double_side_walk_steps sqrtf fuel n1 (bm1.vert w0.v).e fuel w0).map
                (fun w1 => w1.e)).Nodup := by
  have hmain : ∀ bm1, double_side_check_verts bm (List.range bm.totvert) = some bm1 →
      double_side_check_edges bm1 = true → double_side_count_sel bm1 ≠ 0 →
      ∃ st n, double_side_loop sqrtf fuel fuel (double_side_first_state bm1) 0 = some (st, n) ∧
        createEdgeSlideVerts_double_side_sv sqrtf fuel bm = some (some (st, n)) ∧
        n = ((double_side_loop_heads sqrtf fuel fuel (double_side_first_state bm1) 0).length :
          Int) ∧
        (double_side_loop_heads sqrtf fuel fuel (double_side_first_state bm1) 0).length ≤
          double_side_count_sel bm ∧
        ∀ st1 ∈ double_side_loop_heads sqrtf fuel fuel (double_side_first_state bm1) 0,
          ∃ (n1 : Int) (u f : Nat),
            st1.bm = bm1 ∧
            (List.range bm1.totvert).find? (fun v => st1.tag v) = some u ∧
            (bm1.vert u).e = some f ∧
            (double_side_rewind_edges bm1 st1.tag f fuel u f).Nodup ∧
            (∀ e ∈ double_side_rewind_edges bm1 st1.tag f fuel u f,
              e < bm1.totedge ∧ (bm1.edge e).select = true) ∧
            ∃ w0 r1, double_side_pass_start sqrtf fuel st1 u f = some w0 ∧
              double_side_pass sqrtf fuel st1 n1 u f = some r1 ∧
              w0.v < bm1.totvert ∧ (bm1.vert w0.v).select = true ∧
              st1.tag w0.v = true ∧ r1.tag w0.v = false ∧
              (∀ y, r1.tag y = true → st1.tag y = true) ∧
              (∀ w1 ∈ double_side_walk_steps sqrtf fuel n1 (bm1.vert w0.v).e fuel w0,
                (w1.l_a.isSome = true ∨ w1.l_b.isSome = true) ∧
                w1.e < bm1.totedge ∧ (bm1.edge w1.e).select = true) ∧
              ((double_side_walk_steps sqrtf fuel n1 (bm1.vert w0.v).e fuel w0).map
                (fun w1 => w1.e)).Nodup := by
    intro bm1 hc hce hcnt
    have hsame := ((double_side_check_verts_spec (List.range bm.totvert)
      (List.nodup_range _) bm).2 bm1 hc).1
    have hchain := check_verts_chain_ok bm bm1 hm hc hce
    have hmb : ∀ e, e < bm1.totedge → (bm1.edge e).select = true →
        BM_edge_is_manifold bm1 e = true ∨ BM_edge_is_boundary bm1 e = true := by
      intro e1 he1 hs1
      unfold double_side_check_edges at hce
      rw [List.all_eq_true] at hce
      have := hce e1 (List.mem_range.mpr he1)
      simpa [hs1] using this
    have htv : bm1.totvert = bm.totvert := hsame.1
    have hte : bm1.totedge = bm.totedge := hsame.2.1
    have htl : bm1.totloop = bm.totloop := hsame.2.2.1
    have hcount := first_state_tagged bm1
    have hcle : double_side_count_sel bm1 ≤ bm1.totvert := by
      unfold double_side_count_sel
      exact le_trans (List.length_filter_le _ _) (le_of_eq (List.length_range _))
    obtain ⟨r, hr, hr1, hr2, hr3⟩ := loop_total hchain (mesh_ok_congr hm hsame)
      (fan_ok_congr hf hsame) (loop_ok_congr hlo hsame) hmb sqrtf fuel
      (by rw [htv, hte, htl]; omega) fuel (double_side_first_state bm1) 0 (pass_inv_start bm1)
      (by
        intro x _ hs
        left
        simp only [double_side_first_state, hs, if_true])
      (by rw [hcount]; omega)
    obtain ⟨st, n⟩ := r
    refine ⟨st, n, hr, ?_, ?_, ?_, hr3⟩
    · unfold createEdgeSlideVerts_double_side_sv
      simp only [hc, hce, Bool.not_true, Bool.false_eq_true, if_false, hcnt]
      have hr' := hr
      unfold double_side_first_state at hr'
      rw [hr']
    · simpa using hr1
    · rw [hcount, count_sel_congr bm bm1 hsame] at hr2
      exact hr2
  refine ⟨?_, hmain⟩
  unfold createEdgeSlideVerts_double_side
  cases hc : double_side_check_verts bm (List.range bm.totvert) with
  | none =>
    have : createEdgeSlideVerts_double_side_sv sqrtf fuel bm = some none := by
      unfold createEdgeSlideVerts_double_side_sv
      rw [hc]
    rw [this]
    exact ⟨_, rfl⟩
  | some bm1 =>
    by_cases hce : double_side_check_edges bm1 = true
    · by_cases hcnt : double_side_count_sel bm1 = 0
      · have : createEdgeSlideVerts_double_side_sv sqrtf fuel bm = some none := by
          unfold createEdgeSlideVerts_double_side_sv
          simp only [hc, hce, Bool.not_true, Bool.false_eq_true, if_false, hcnt, if_true]
        rw [this]
        exact ⟨_, rfl⟩
      · obtain ⟨st, n, -, hsv, -⟩ := hmain bm1 hc hce hcnt
        have hlen := (double_side_sv_loop_inv sqrtf fuel bm st n hm hsv).2.2.2.1
        rw [hsv]
        simp only [hlen, ne_eq, not_true_eq_false, if_false]
        exact ⟨_, rfl⟩
    · have : createEdgeSlideVerts_double_side_sv sqrtf fuel bm = some none := by
        unfold createEdgeSlideVerts_double_side_sv
        simp only [hc, hce, Bool.not_false, if_true]
      rw [this]
      exact ⟨_, rfl⟩
set_option maxRecDepth 100000 in
theorem grid_2_2_fan_ok : FanOK (grid_mesh 2 2 1 (flat_co 1)) where
  next_lt := by decide
  prev_lt := by decide
  radial_lt := by decide
  next_prev := by decide
  prev_next := by decide
  next_f := by decide
  radial_e := by decide
  radial_inj := by decide
  ends := by decide
  corner_ne := by decide
  face_first := by decide

set_option maxRecDepth 100000 in
theorem grid_2_2_validation :
    ∃ bm1, double_side_check_verts (grid_mesh 2 2 1 (flat_co 1))
        (List.range (grid_mesh 2 2 1 (flat_co 1)).totvert) = some bm1 ∧
      double_side_check_edges bm1 = true ∧ double_side_count_sel bm1 ≠ 0 := by
  have key : ((double_side_check_verts (grid_mesh 2 2 1 (flat_co 1))
      (List.range (grid_mesh 2 2 1 (flat_co 1)).totvert)).all
      (fun b => double_side_check_edges b && decide (double_side_count_sel b ≠ 0))) = true ∧
      (double_side_check_verts (grid_mesh 2 2 1 (flat_co 1))
        (List.range (grid_mesh 2 2 1 (flat_co 1)).totvert)).isSome = true := by
    decide
  obtain ⟨k1, k2⟩ := key
  obtain ⟨bm1, hb⟩ := Option.isSome_iff_exists.mp k2
  rw [hb] at k1
  simp only [Option.all_some, Bool.and_eq_true, decide_eq_true_eq] at k1
  exact ⟨bm1, hb, k1.1, k1.2⟩

set_option maxRecDepth 100000 in
theorem createEdgeSlideVerts_double_side_terminates_witness :
    MeshOK (grid_mesh 2 2 1 (flat_co 1)) ∧ FanOK (grid_mesh 2 2 1 (flat_co 1)) ∧
    LoopOK (grid_mesh 2 2 1 (flat_co 1)) ∧
    (∃ bm1, double_side_check_verts (grid_mesh 2 2 1 (flat_co 1))
        (List.range (grid_mesh 2 2 1 (flat_co 1)).totvert) = some bm1 ∧
      double_side_check_edges bm1 = true ∧ double_side_count_sel bm1 ≠ 0) ∧
    (
    (∃ r, createEdgeSlideVerts_double_side sample_sqrtf sample_view 134
        (grid_mesh 2 2 1 (flat_co 1)) = some r) ∧
    ∀ bm1, double_side_check_verts
        (grid_mesh 2 2 1 (flat_co 1)) (List.range (grid_mesh 2 2 1 (flat_co 1)).totvert) = some bm1 →
      double_side_check_edges bm1 = true → double_side_count_sel bm1 ≠ 0 →
      ∃ st n, double_side_loop sample_sqrtf 134 134 (double_side_first_state bm1) 0 = some (st, n) ∧
        createEdgeSlideVerts_double_side_sv sample_sqrtf 134
            (grid_mesh 2 2 1 (flat_co 1)) = some (some (st, n)) ∧
        n = ((double_side_loop_heads sample_sqrtf 134 134 (double_side_first_state bm1) 0).length :
          Int) ∧
        (double_side_loop_heads sample_sqrtf 134 134 (double_side_first_state bm1) 0).length ≤
          double_side_count_sel (grid_mesh 2 2 1 (flat_co 1)) ∧
        ∀ st1 ∈ double_side_loop_heads sample_sqrtf 134 134 (double_side_first_state bm1) 0,
          ∃ (n1 : Int) (u f : Nat),
            st1.bm = bm1 ∧
            (List.range bm1.totvert).find? (fun v => st1.tag v) = some u ∧
            (bm1.vert u).e = some f ∧
            (double_side_rewind_edges bm1 st1.tag f 134 u f).Nodup ∧
            (∀ e ∈ double_side_rewind_edges bm1 st1.tag f 134 u f,
              e < bm1.totedge ∧ (bm1.edge e).select = true) ∧
            ∃ w0 r1, double_side_pass_start sample_sqrtf 134 st1 u f = some w0 ∧
              double_side_pass sample_sqrtf 134 st1 n1 u f = some r1 ∧
              w0.v < bm1.totvert ∧ (bm1.vert w0.v).select = true ∧
              st1.tag w0.v = true ∧ r1.tag w0.v = false ∧
              (∀ y, r1.tag y = true → st1.tag y = true) ∧
              (∀ w1 ∈ double_side_walk_steps sample_sqrtf 134 n1 (bm1.vert w0.v).e 134 w0,
                (w1.l_a.isSome = true ∨ w1.l_b.isSome = true) ∧
                w1.e < bm1.totedge ∧ (bm1.edge w1.e).select = true) ∧
              ((double_side_walk_steps sample_sqrtf 134 n1 (bm1.vert w0.v).e 134 w0).map
                (fun w1 => w1.e)).Nodup) :=
  ⟨grid_2_2_mesh_ok, grid_2_2_fan_ok, grid_2_2_loop_ok, grid_2_2_validation,
    createEdgeSlideVerts_double_side_terminates sample_sqrtf sample_view 134
      (grid_mesh 2 2 1 (flat_co 1)) grid_2_2_mesh_ok grid_2_2_fan_ok grid_2_2_loop_ok
      (by decide)⟩

end EdgeSlide
